import Mathlib

/-!
# InnoDB transactional lock manager (`storage/innobase/lock/lock0lock.cc`)

A shallow embedding of the lock manager.  Pointers are natural numbers:
a `lock_t*`, a `trx_t*` and a `dict_table_t*` are addresses into the
memory of lock objects, of transactions and of tables, each a function
from addresses to objects.  Intrusive lists (hash chains, the lock
list of a transaction, the lock list of a table) are lists of such
indices, in list order.  The build modelled is the one without
`WITH_WSREP` and without `UNIV_DEBUG`: `ut_ad` assertions are compiled
out, `ut_a` and `ut_error` abort (the model returns `none`).
-/

namespace InnoLock

/-! ## Lock modes and the `type_mode` word -/

/-- Basic lock modes (`enum lock_mode`).  The source asserts
`LOCK_IS == 0` and `LOCK_IX == 1`. -/
inductive lock_mode where
  | LOCK_IS
  | LOCK_IX
  | LOCK_S
  | LOCK_X
  | LOCK_AUTO_INC
  deriving DecidableEq, Repr, Inhabited

open lock_mode

/-- Numeric value of a lock mode; used for the `mode <= LOCK_IX` tests. -/
def lock_mode.toNat : lock_mode → Nat
  | LOCK_IS => 0
  | LOCK_IX => 1
  | LOCK_S => 2
  | LOCK_X => 3
  | LOCK_AUTO_INC => 4

/-- Modelled from the spec: the `type_mode` word of a lock (the flag
constants of `lock0lock.h` are not part of the sources at hand).  The low
bits (`LOCK_MODE_MASK`) hold the mode, and the flags `LOCK_TABLE`,
`LOCK_WAIT`, `LOCK_GAP`, `LOCK_REC_NOT_GAP`, `LOCK_INSERT_INTENTION`,
`LOCK_PREDICATE`, `LOCK_PRDT_PAGE` are OR-ed into it; every flag is one
bit, so the word is a mode together with one boolean per flag. -/
structure type_mode_t where
  mode : lock_mode := LOCK_IS
  table : Bool := false
  wait : Bool := false
  gap : Bool := false
  rec_not_gap : Bool := false
  insert_intention : Bool := false
  predicate : Bool := false
  prdt_page : Bool := false
  deriving DecidableEq, Repr, Inhabited

/-- Heap number of the page infimum. -/
def PAGE_HEAP_NO_INFIMUM : Nat := 0

/-- Heap number of the page supremum. -/
def PAGE_HEAP_NO_SUPREMUM : Nat := 1

/-- An index as far as the lock manager reads it (`dict_index_t`): its
table and whether it is clustered or spatial. -/
structure dict_index_t where
  id : Nat := 0
  table : Nat := 0
  is_clust : Bool := true
  is_spatial : Bool := false
  deriving DecidableEq, Repr, Inhabited

/-- A lock object (`lock_t`).  `trx` is the owner, `index` the index of a
record lock, `table` is `un_member.tab_lock.table`, `page_id` is
`un_member.rec_lock.page_id`, and `bitmap` is the bitmap that follows the
struct; its length is `un_member.rec_lock.n_bits`. -/
structure lock_t where
  trx : Nat := 0
  type_mode : type_mode_t := {}
  index : dict_index_t := {}
  table : Nat := 0
  page_id : Nat := 0
  bitmap : List Bool := []
  deriving DecidableEq, Repr, Inhabited

/-- Mode of a lock: `lock_t::mode()`, `type_mode & LOCK_MODE_MASK`. -/
def lock_t.mode (l : lock_t) : lock_mode := l.type_mode.mode

/-- Table-lock test: `lock_t::is_table()`, `type_mode & LOCK_TABLE`. -/
def lock_t.is_table (l : lock_t) : Bool := l.type_mode.table

/-- Waiting test: `lock_t::is_waiting()`, `type_mode & LOCK_WAIT`. -/
def lock_t.is_waiting (l : lock_t) : Bool := l.type_mode.wait

/-- Gap test: `lock_t::is_gap()`, `type_mode & LOCK_GAP`. -/
def lock_t.is_gap (l : lock_t) : Bool := l.type_mode.gap

/-- Record-only test: `lock_t::is_record_not_gap()`. -/
def lock_t.is_record_not_gap (l : lock_t) : Bool := l.type_mode.rec_not_gap

/-- Insert-intention test: `lock_t::is_insert_intention()`. -/
def lock_t.is_insert_intention (l : lock_t) : Bool :=
  l.type_mode.insert_intention

/-- Modelled from the spec: `lock_mode_compatible` (the compatibility
matrix of `lock0priv.h` is not part of the sources at hand).  `IS` and
`IX` are mutually compatible, `IS` is compatible with `S`, `IX` is not
compatible with `S`, `S` is compatible with `S`, `X` conflicts with
everything, and `AUTO_INC` conflicts only with another `AUTO_INC` and
with `X`. -/
def lock_mode_compatible : lock_mode → lock_mode → Bool
  | LOCK_X, _ => false
  | _, LOCK_X => false
  | LOCK_AUTO_INC, LOCK_AUTO_INC => false
  | LOCK_IX, LOCK_S => false
  | LOCK_S, LOCK_IX => false
  | _, _ => true

/-- Modelled from the spec: `lock_mode_stronger_or_eq` (the strength
matrix of `lock0priv.h` is not part of the sources at hand): the order
generated by `X > S > IS` and `X > IX > IS`; `AUTO_INC` is comparable
only with itself. -/
def lock_mode_stronger_or_eq : lock_mode → lock_mode → Bool
  | LOCK_X, LOCK_AUTO_INC => false
  | LOCK_X, _ => true
  | LOCK_S, LOCK_S => true
  | LOCK_S, LOCK_IS => true
  | LOCK_IX, LOCK_IX => true
  | LOCK_IX, LOCK_IS => true
  | LOCK_IS, LOCK_IS => true
  | LOCK_AUTO_INC, LOCK_AUTO_INC => true
  | _, _ => false

/-- Collaborators of the lock manager that live outside `lock0lock.cc`,
and constants of headers that are not part of the sources at hand. -/
structure Env where
  /-- Server hook `thd_need_ordering_with(trx->mysql_thd,
  other->mysql_thd)`, as a function of the two transactions. -/
  thd_need_ordering_with : Nat → Nat → Bool
  /-- Predicate-lock conflict test `lock_prdt_has_to_wait(trx, type_mode,
  lock_get_prdt_from_lock(lock1), lock2)` of `lock0prdt.cc`; the third
  argument is the lock whose predicate is read. -/
  lock_prdt_has_to_wait : Nat → type_mode_t → Nat → lock_t → Bool
  /-- Server variable `innodb_deadlock_detect`. -/
  innobase_deadlock_detect : Bool
  /-- Server variable `srv_read_only_mode`. -/
  srv_read_only_mode : Bool
  /-- Size of the deadlock checker stack, `MAX_STACK_SIZE`. -/
  MAX_STACK_SIZE : Nat
  /-- Flag bit `BTR_NO_LOCKING_FLAG`. -/
  BTR_NO_LOCKING_FLAG : Nat

/-! ## Conflict rules -/

/-- Checks if a lock request for a new lock has to wait for request
`lock2` (`lock_rec_has_to_wait`). -/
def lock_rec_has_to_wait (E : Env) (for_locking : Bool) (trx : Nat)
    (type_mode : type_mode_t) (lock2 : lock_t)
    (lock_is_on_supremum : Bool) : Bool :=
  if trx = lock2.trx
      || lock_mode_compatible type_mode.mode lock2.mode then
    false
  else if (lock_is_on_supremum || type_mode.gap)
      && !type_mode.insert_intention then
    false
  else if !type_mode.insert_intention && lock2.is_gap then
    false
  else if type_mode.gap && lock2.is_record_not_gap then
    false
  else if lock2.is_insert_intention then
    false
  else if (type_mode.gap || lock2.is_gap)
      && !E.thd_need_ordering_with trx lock2.trx then
    false
  else
    true

/-! ## Transactions, tables and the lock system -/

/-- Result codes of the lock manager (`dberr_t`). -/
inductive dberr_t where
  | DB_SUCCESS
  | DB_SUCCESS_LOCKED_REC
  | DB_LOCK_WAIT
  | DB_DEADLOCK
  | DB_LOCK_WAIT_TIMEOUT
  deriving DecidableEq, Repr, Inhabited

open dberr_t

/-- The lock-related part of a transaction (`trx_t` with its
`trx_lock_t lock`).  A query thread is identified with the transaction
it runs (`thr_get_trx(thr) = thr`), so `wait_thr` holds a transaction
index.  `lock_wait_timeout` is `thd_lock_wait_timeout(mysql_thd)` and
`has_edited_nontrans_tables` is `thd_has_edited_nontrans_tables
(mysql_thd)`; `mysql_thd` tells whether the session pointer is set;
`committed_in_memory` is `state == TRX_STATE_COMMITTED_IN_MEMORY` and `id`
is the transaction id. -/
structure trx_t where
  trx_locks : List Nat := []
  table_locks : List (Option Nat) := []
  autoinc_locks : List (Option Nat) := []
  wait_lock : Option Nat := none
  wait_thr : Option Nat := none
  was_chosen_as_deadlock_victim : Bool := false
  cancel : Bool := false
  deadlock_mark : Nat := 0
  error_state : dberr_t := DB_SUCCESS
  isolation_level : Nat := 2
  duplicates : Nat := 0
  undo_no : Nat := 0
  mysql_thd : Bool := true
  lock_wait_timeout : Nat := 50
  has_edited_nontrans_tables : Bool := false
  read_only : Bool := false
  rseg_assigned : Bool := true
  committed_in_memory : Bool := false
  id : Nat := 0
  deriving DecidableEq, Repr, Inhabited

/-- The lock-related part of a table (`dict_table_t`).  `autoinc_lock`
is the lock object preallocated for the table. -/
structure dict_table_t where
  locks : List Nat := []
  n_lock_x_or_s : Nat := 0
  n_waiting_or_granted_auto_inc_locks : Nat := 0
  autoinc_trx : Option Nat := none
  autoinc_lock : Nat := 0
  n_rec_locks : Nat := 0
  is_temporary : Bool := false
  query_cache_inv_trx_id : Nat := 0
  deriving DecidableEq, Repr, Inhabited

/-- A buffer block as far as the lock manager reads it: the page id and
`page_dir_get_n_heap` of its frame. -/
structure buf_block_t where
  page_id : Nat := 0
  n_heap : Nat := 2
  deriving DecidableEq, Repr, Inhabited

/-- The three record-lock hash tables of `lock_sys`. -/
inductive hash_id where
  | rec_hash
  | prdt_hash
  | prdt_page_hash
  deriving DecidableEq, Repr, Inhabited

/-- The lock system with the memory it points into: the lock objects
(`n_locks` of them have been allocated, a new lock gets the address
`n_locks`), the transactions, the tables, the three hash tables and the
deadlock mark counter.  A hash table is the list of the locks chained in
it, in insertion order; the chain of one page is the sublist of the locks
with that page id. -/
structure lock_sys_t where
  locks : Nat → lock_t := fun _ => default
  n_locks : Nat := 0
  trxs : Nat → trx_t := fun _ => default
  tables : Nat → dict_table_t := fun _ => default
  rec_hash : List Nat := []
  prdt_hash : List Nat := []
  prdt_page_hash : List Nat := []
  s_lock_mark_counter : Nat := 0
  lock_deadlock_found : Bool := false
  max_trx_id : Nat := 0

namespace lock_sys_t

/-- Dereference a lock pointer. -/
def lock (s : lock_sys_t) (i : Nat) : lock_t := s.locks i

/-- Dereference a transaction pointer. -/
def trx (s : lock_sys_t) (i : Nat) : trx_t := s.trxs i

/-- Dereference a table pointer. -/
def tbl (s : lock_sys_t) (i : Nat) : dict_table_t := s.tables i

/-- Store into a lock object. -/
def set_lock (s : lock_sys_t) (i : Nat) (l : lock_t) : lock_sys_t :=
  { s with locks := Function.update s.locks i l }

/-- Store into a transaction object. -/
def set_trx (s : lock_sys_t) (i : Nat) (t : trx_t) : lock_sys_t :=
  { s with trxs := Function.update s.trxs i t }

/-- Store into a table object. -/
def set_tbl (s : lock_sys_t) (i : Nat) (t : dict_table_t) : lock_sys_t :=
  { s with tables := Function.update s.tables i t }

/-- The memory after the allocation of a lock object holding `l` at the
address `n_locks`. -/
def alloc_state (s : lock_sys_t) (l : lock_t) : lock_sys_t :=
  { s with locks := Function.update s.locks s.n_locks l, n_locks := s.n_locks + 1 }

/-- Allocate a lock object holding `l`; returns its address. -/
def alloc_lock (s : lock_sys_t) (l : lock_t) : Nat × lock_sys_t :=
  (s.n_locks, s.alloc_state l)

/-- The chain list of one of the three hash tables. -/
def hash (s : lock_sys_t) : hash_id → List Nat
  | hash_id.rec_hash => s.rec_hash
  | hash_id.prdt_hash => s.prdt_hash
  | hash_id.prdt_page_hash => s.prdt_page_hash

/-- Replace the chain list of one of the three hash tables. -/
def set_hash (s : lock_sys_t) (h : hash_id) (c : List Nat) : lock_sys_t :=
  match h with
  | hash_id.rec_hash => { s with rec_hash := c }
  | hash_id.prdt_hash => { s with prdt_hash := c }
  | hash_id.prdt_page_hash => { s with prdt_page_hash := c }

/-- Locks of one page in a hash table, in chain order: what
`lock_sys.get_first(hash, id)` followed by repeated
`lock_rec_get_next_on_page` visits. -/
def page_chain (s : lock_sys_t) (h : hash_id) (id : Nat) : List Nat :=
  (s.hash h).filter (fun i => (s.lock i).page_id == id)

end lock_sys_t

/-- Modelled from the spec: `lock_hash_get` of `lock0priv.h`, the hash
table chosen from `type_mode`: `PREDICATE` gives `prdt_hash`, `PRDT_PAGE`
gives `prdt_page_hash`, anything else `rec_hash`. -/
def lock_hash_get (type_mode : type_mode_t) : hash_id :=
  if type_mode.predicate then hash_id.prdt_hash
  else if type_mode.prdt_page then hash_id.prdt_page_hash
  else hash_id.rec_hash

/-- Modelled from the spec: `lock_rec_get_n_bits` of `lock0priv.h`, the
number of bits of the bitmap of a record lock. -/
def lock_rec_get_n_bits (l : lock_t) : Nat := l.bitmap.length

/-- Modelled from the spec: `lock_rec_get_nth_bit` of `lock0priv.h`:
whether the bit of heap number `i` is set; false when `i` is not below
`n_bits`. -/
def lock_rec_get_nth_bit (l : lock_t) (i : Nat) : Bool := l.bitmap.getD i false

/-- Modelled from the spec: `lock_rec_set_nth_bit` of `lock0priv.h`: set
the bit of heap number `i` (callers pass `i < n_bits`). -/
def lock_rec_set_nth_bit (l : lock_t) (i : Nat) : lock_t :=
  { l with bitmap := l.bitmap.set i true }

/-- Modelled from the spec: `lock_rec_reset_nth_bit` of `lock0priv.h`:
clear the bit of heap number `i`. -/
def lock_rec_reset_nth_bit (l : lock_t) (i : Nat) : lock_t :=
  { l with bitmap := l.bitmap.set i false }

/-- Looks for a set bit in a record lock bitmap; `none` is
`ULINT_UNDEFINED` (`lock_rec_find_set_bit`). -/
def lock_rec_find_set_bit (l : lock_t) : Option Nat :=
  (List.range (lock_rec_get_n_bits l)).find? (fun i => lock_rec_get_nth_bit l i)

/-- Resets the record lock bitmap to zero (`lock_rec_bitmap_reset`). -/
def lock_rec_bitmap_reset (l : lock_t) : lock_t :=
  { l with bitmap := List.replicate (lock_rec_get_n_bits l) false }

/-- Locks of a page that have the bit of `heap_no` set, in chain order:
what `lock_rec_get_first(hash, block, heap_no)` followed by repeated
`lock_rec_get_next(heap_no, lock)` visits. -/
def lock_rec_queue (s : lock_sys_t) (h : hash_id) (id heap_no : Nat) : List Nat :=
  (s.page_chain h id).filter (fun i => lock_rec_get_nth_bit (s.lock i) heap_no)

/-- Checks if a lock request `lock1` has to wait for request `lock2`
(`lock_has_to_wait`); `lock1` and `lock2` are lock pointers. -/
def lock_has_to_wait (E : Env) (s : lock_sys_t) (lock1 lock2 : Nat) : Bool :=
  let l1 := s.lock lock1
  let l2 := s.lock lock2
  if l1.trx = l2.trx || lock_mode_compatible l1.mode l2.mode then
    false
  else if l1.is_table then
    true
  else if l1.type_mode.predicate || l1.type_mode.prdt_page then
    E.lock_prdt_has_to_wait l1.trx l1.type_mode lock1 l2
  else
    lock_rec_has_to_wait E false l1.trx l1.type_mode l2
      (lock_rec_get_nth_bit l1 PAGE_HEAP_NO_SUPREMUM)

/-! ## Granting and dequeuing -/

/-- Reset the wait status of a lock (`lock_reset_lock_and_trx_wait`). -/
def lock_reset_lock_and_trx_wait (s : lock_sys_t) (lock : Nat) : lock_sys_t :=
  let l := s.lock lock
  let s1 := s.set_trx l.trx { s.trx l.trx with wait_lock := none }
  s1.set_lock lock { l with type_mode := { l.type_mode with wait := false } }

/-- Resume a lock wait (`lock_wait_end`). -/
def lock_wait_end (s : lock_sys_t) (trx : Nat) : lock_sys_t :=
  let t := s.trx trx
  let t1 : trx_t :=
    if t.was_chosen_as_deadlock_victim then
      { t with error_state := DB_DEADLOCK, was_chosen_as_deadlock_victim := false }
    else t
  s.set_trx trx { t1 with wait_thr := none }

/-- Grant a waiting lock request and release the waiting transaction
(`lock_grant`). -/
def lock_grant (s : lock_sys_t) (lock : Nat) : lock_sys_t :=
  let s1 := lock_reset_lock_and_trx_wait s lock
  let l := s1.lock lock
  let trx := l.trx
  let s2 :=
    if l.mode = LOCK_AUTO_INC then
      let s1a := s1.set_tbl l.table { s1.tbl l.table with autoinc_trx := some trx }
      s1a.set_trx trx
        { s1a.trx trx with autoinc_locks := (s1a.trx trx).autoinc_locks ++ [some lock] }
    else s1
  if (s2.trx trx).wait_thr.isSome then lock_wait_end s2 trx else s2

/-- Checks if a waiting record lock request still has to wait in a queue;
returns the lock that is causing the wait
(`lock_rec_has_to_wait_in_queue`).  The loop runs over the locks of the
page that precede `wait_lock` in its hash chain. -/
def lock_rec_has_to_wait_in_queue (E : Env) (s : lock_sys_t) (wait_lock : Nat) :
    Option Nat :=
  let w := s.lock wait_lock
  let heap_no := lock_rec_find_set_bit w
  ((s.page_chain (lock_hash_get w.type_mode) w.page_id).takeWhile
      (fun i => i != wait_lock)).find?
    (fun i =>
      match heap_no with
      | none => false
      | some h =>
        decide (h < lock_rec_get_n_bits (s.lock i))
          && lock_rec_get_nth_bit (s.lock i) h
          && lock_has_to_wait E s wait_lock i)

/-- One step of the grant loop of `lock_rec_dequeue_from_page` and
`lock_rec_unlock`: a waiting lock without a conflicting lock ahead of it
is granted. -/
def lock_rec_grant_step (E : Env) (s : lock_sys_t) (lock : Nat) : lock_sys_t :=
  if !(s.lock lock).is_waiting then s
  else
    match lock_rec_has_to_wait_in_queue E s lock with
    | none => lock_grant s lock
    | some _ => s

/-- Remove a record lock request, waiting or granted, from the queue and
grant locks to other transactions in the queue if they now are entitled
to a lock (`lock_rec_dequeue_from_page`).  The grant loop runs over the
page chain as it is after the removal; granting does not change the
chain. -/
def lock_rec_dequeue_from_page (E : Env) (s : lock_sys_t) (in_lock : Nat) :
    lock_sys_t :=
  let l := s.lock in_lock
  let page_id := l.page_id
  let tb := l.index.table
  let s1 := s.set_tbl tb { s.tbl tb with n_rec_locks := (s.tbl tb).n_rec_locks - 1 }
  let lock_hash := lock_hash_get l.type_mode
  let s2 := s1.set_hash lock_hash ((s1.hash lock_hash).erase in_lock)
  let s3 := s2.set_trx l.trx
    { s2.trx l.trx with trx_locks := (s2.trx l.trx).trx_locks.erase in_lock }
  (s3.page_chain lock_hash page_id).foldl (lock_rec_grant_step E) s3

/-! ## Table lock queues -/

/-- Pops autoinc lock requests from the vector, skipping the NULL entries
left at its end (`lock_table_pop_autoinc_locks`, on the vector). -/
def lock_table_pop_autoinc_locks (v : List (Option Nat)) : List (Option Nat) :=
  (v.dropLast.reverse.dropWhile (fun x => x.isNone)).reverse

/-- Replace the first entry equal to `lock` by NULL; `none` when there is
no such entry. -/
def vector_null_first (lock : Nat) : List (Option Nat) → Option (List (Option Nat))
  | [] => none
  | x :: xs =>
    if x = some lock then some (none :: xs)
    else (vector_null_first lock xs).map (fun r => x :: r)

/-- Removes an autoinc lock request from the vector of a transaction
(`lock_table_remove_autoinc_lock`, on the vector): the last entry is
popped when it is the lock, otherwise the entry nearest to the end that
equals the lock is set to NULL.  `none` stands for a failed `ut_a` or
`ut_error`. -/
def lock_table_remove_autoinc_lock (lock : Nat) (v : List (Option Nat)) :
    Option (List (Option Nat)) :=
  match v.reverse with
  | [] => none
  | autoinc_lock :: rest =>
    if autoinc_lock = some lock then
      some (lock_table_pop_autoinc_locks v)
    else if autoinc_lock = none then none
    else
      (vector_null_first lock rest).map (fun r => (autoinc_lock :: r).reverse)

/-- Removes a table lock request from the queue and the trx list of
locks (`lock_table_remove_low`). -/
def lock_table_remove_low (s : lock_sys_t) (lock : Nat) : Option lock_sys_t :=
  let l := s.lock lock
  let trx := l.trx
  let table := l.table
  let s1? : Option lock_sys_t :=
    match l.mode with
    | LOCK_AUTO_INC =>
      let s0? : Option lock_sys_t :=
        if (s.tbl table).autoinc_trx = some trx then
          let sa := s.set_tbl table { s.tbl table with autoinc_trx := none }
          (lock_table_remove_autoinc_lock lock (sa.trx trx).autoinc_locks).map
            (fun v => sa.set_trx trx { sa.trx trx with autoinc_locks := v })
        else some s
      s0?.map (fun s0 => s0.set_tbl table
        { s0.tbl table with
          n_waiting_or_granted_auto_inc_locks :=
            (s0.tbl table).n_waiting_or_granted_auto_inc_locks - 1 })
    | LOCK_X =>
      some (s.set_tbl table
        { s.tbl table with n_lock_x_or_s := (s.tbl table).n_lock_x_or_s - 1 })
    | LOCK_S =>
      some (s.set_tbl table
        { s.tbl table with n_lock_x_or_s := (s.tbl table).n_lock_x_or_s - 1 })
    | _ => some s
  s1?.map (fun s1 =>
    let s2 := s1.set_trx trx
      { s1.trx trx with trx_locks := (s1.trx trx).trx_locks.erase lock }
    s2.set_tbl table { s2.tbl table with locks := (s2.tbl table).locks.erase lock })

/-- Checks if a waiting table lock request still has to wait in a queue
(`lock_table_has_to_wait_in_queue`). -/
def lock_table_has_to_wait_in_queue (E : Env) (s : lock_sys_t) (wait_lock : Nat) :
    Bool :=
  let w := s.lock wait_lock
  let table := w.table
  if decide (w.mode.toNat ≤ LOCK_IX.toNat) && (s.tbl table).n_lock_x_or_s == 0 then
    false
  else
    (((s.tbl table).locks.takeWhile (fun i => i != wait_lock)).any
      (fun i => lock_has_to_wait E s wait_lock i))

/-- One step of the grant loop of `lock_table_dequeue`. -/
def lock_table_grant_step (E : Env) (s : lock_sys_t) (lock : Nat) : lock_sys_t :=
  if (s.lock lock).is_waiting && !lock_table_has_to_wait_in_queue E s lock then
    lock_grant s lock
  else s

/-- Removes a table lock request, waiting or granted, from the queue and
grants locks to other transactions in the queue, if they now are entitled
to a lock (`lock_table_dequeue`).  The grant loop runs over the locks
that followed `in_lock` in the list of the table. -/
def lock_table_dequeue (E : Env) (s : lock_sys_t) (in_lock : Nat) :
    Option lock_sys_t :=
  let l := s.lock in_lock
  if !l.is_table then none
  else
    let table := l.table
    let rest := ((s.tbl table).locks.dropWhile (fun i => i != in_lock)).tail
    (lock_table_remove_low s in_lock).map (fun s1 =>
      if decide ((s1.lock in_lock).mode.toNat ≤ LOCK_IX.toNat)
          && (s1.tbl table).n_lock_x_or_s == 0 then
        s1
      else
        rest.foldl (lock_table_grant_step E) s1)

/-- Removes a table lock from the `table_locks` vector of its transaction
(`lock_trx_table_locks_remove`); `none` stands for `ut_error`. -/
def lock_trx_table_locks_remove (s : lock_sys_t) (lock_to_remove : Nat) :
    Option lock_sys_t :=
  let trx := (s.lock lock_to_remove).trx
  (vector_null_first lock_to_remove (s.trx trx).table_locks).map
    (fun v => s.set_trx trx { s.trx trx with table_locks := v })

/-- Release the last lock from the autoinc locks of a transaction
(`lock_release_autoinc_last_lock`). -/
def lock_release_autoinc_last_lock (E : Env) (s : lock_sys_t) (trx : Nat) :
    Option lock_sys_t :=
  match (s.trx trx).autoinc_locks.getLast? with
  | none => none
  | some none => none
  | some (some lock) =>
    (lock_table_dequeue E s lock).bind (fun s1 => lock_trx_table_locks_remove s1 lock)

/-- Release all the autoinc locks of a transaction
(`lock_release_autoinc_locks`); the `while` loop runs on `fuel`. -/
def lock_release_autoinc_locks (E : Env) :
    Nat → lock_sys_t → Nat → Option lock_sys_t
  | 0, s, trx => if (s.trx trx).autoinc_locks.isEmpty then some s else none
  | fuel + 1, s, trx =>
    if (s.trx trx).autoinc_locks.isEmpty then some s
    else
      (lock_release_autoinc_last_lock E s trx).bind
        (fun s1 => lock_release_autoinc_locks E fuel s1 trx)

/-- Cancel a waiting lock request and release possibly waiting
transactions (`lock_cancel_waiting_and_release`). -/
def lock_cancel_waiting_and_release (E : Env) (fuel : Nat) (s : lock_sys_t)
    (lock : Nat) : Option lock_sys_t :=
  let trx := (s.lock lock).trx
  let s1 := s.set_trx trx { s.trx trx with cancel := true }
  let s2? : Option lock_sys_t :=
    if !(s1.lock lock).is_table then
      some (lock_rec_dequeue_from_page E s1 lock)
    else
      ((lock_release_autoinc_locks E fuel s1 trx).bind
        (fun sa => lock_table_dequeue E sa lock)).bind
        (fun sb => lock_trx_table_locks_remove sb lock)
  s2?.map (fun s2 =>
    let s3 := lock_reset_lock_and_trx_wait s2 lock
    let s4 := lock_wait_end s3 trx
    s4.set_trx trx { s4.trx trx with cancel := false })

/-! ## Deadlock checker -/

/-- Modelled from the spec: `lock_rec_get_next_on_page` of `lock0priv.h`,
the next lock of the same page in the hash chain of `lock`. -/
def lock_rec_get_next_on_page (s : lock_sys_t) (lock : Nat) : Option Nat :=
  let l := s.lock lock
  (((s.hash (lock_hash_get l.type_mode)).dropWhile (fun i => i != lock)).tail).find?
    (fun i => (s.lock i).page_id == l.page_id)

/-- Locks that follow `lock` in its page chain and have the bit of
`heap_no` set: what repeated `lock_rec_get_next(heap_no, lock)` visits. -/
def lock_rec_next_locks (s : lock_sys_t) (heap_no : Option Nat) (lock : Nat) :
    List Nat :=
  let l := s.lock lock
  (((s.hash (lock_hash_get l.type_mode)).dropWhile (fun i => i != lock)).tail).filter
    (fun i => (s.lock i).page_id == l.page_id
      && (match heap_no with
          | none => false
          | some h => lock_rec_get_nth_bit (s.lock i) h))

/-- Modelled from the spec: `lock_rec_get_next` of `lock0priv.h`, the
next lock of the same page with the bit of `heap_no` set. -/
def lock_rec_get_next (s : lock_sys_t) (heap_no : Option Nat) (lock : Nat) :
    Option Nat :=
  (lock_rec_next_locks s heap_no lock).head?

/-- DFS state information, used during deadlock checking
(`DeadlockChecker::state_t`); `m_heap_no = none` is `ULINT_UNDEFINED`. -/
structure state_t where
  m_lock : Nat
  m_wait_lock : Nat
  m_heap_no : Option Nat
  deriving DecidableEq, Repr, Inhabited

/-- The deadlock checker (`class DeadlockChecker`).  `s_states` is the
used part of the stack, top first; `m_n_elems` is its length.  The calls
of `thd_rpl_deadlock_check` that `m_report_waiters` enables report to the
replication layer and do not touch the lock system; they are left out. -/
structure DeadlockChecker where
  m_cost : Nat := 0
  m_start : Nat
  m_too_deep : Bool := false
  m_wait_lock : Nat
  m_mark_start : Nat
  s_states : List state_t := []
  m_report_waiters : Bool := false
  deriving DecidableEq, Repr, Inhabited

namespace DeadlockChecker

/-- Number of states pushed onto the stack. -/
def m_n_elems (c : DeadlockChecker) : Nat := c.s_states.length

/-- Check if the search is too deep (`is_too_deep`). -/
def is_too_deep (c : DeadlockChecker) : Bool :=
  decide (c.m_n_elems > 200) || decide (c.m_cost > 1000000)

/-- Save current state; `none` if the stack is full (`push`). -/
def push (E : Env) (c : DeadlockChecker) (lock : Nat) (heap_no : Option Nat) :
    Option DeadlockChecker :=
  if c.m_n_elems ≥ E.MAX_STACK_SIZE then none
  else
    some { c with
      s_states :=
        { m_lock := lock, m_wait_lock := c.m_wait_lock, m_heap_no := heap_no }
          :: c.s_states }

/-- Check whether the node has been visited (`is_visited`). -/
def is_visited (s : lock_sys_t) (c : DeadlockChecker) (lock : Nat) : Bool :=
  decide ((s.trx (s.lock lock).trx).deadlock_mark > c.m_mark_start)

/-- Get the next lock in the queue that is owned by a transaction whose
sub-tree has not already been searched (`get_next_lock`). -/
def get_next_lock (s : lock_sys_t) (c : DeadlockChecker) (lock : Nat)
    (heap_no : Option Nat) : Option Nat :=
  if !(s.lock lock).is_table then
    (lock_rec_next_locks s heap_no lock).find? (fun i => !is_visited s c i)
  else
    (((s.tbl (s.lock lock).table).locks.dropWhile (fun i => i != lock)).tail).find?
      (fun i => !is_visited s c i)

/-- Get the first lock to search, with the heap number (`get_first_lock`);
`none` stands for a failed `ut_a` or a NULL dereference. -/
def get_first_lock (s : lock_sys_t) (c : DeadlockChecker) :
    Option (Nat × Option Nat) :=
  let w := s.lock c.m_wait_lock
  let r : Option (Nat × Option Nat) :=
    if !w.is_table then
      let heap_no := lock_rec_find_set_bit w
      let h := if w.type_mode.predicate then hash_id.prdt_hash else hash_id.rec_hash
      match (s.page_chain h w.page_id).head? with
      | none => none
      | some first =>
        let lock? : Option Nat :=
          if !(match heap_no with
               | none => false
               | some hn => lock_rec_get_nth_bit (s.lock first) hn) then
            lock_rec_get_next s heap_no first
          else some first
        match lock? with
        | none => none
        | some lock =>
          if (s.lock lock).is_waiting then none else some (lock, heap_no)
    else
      match (s.tbl w.table).locks.head? with
      | none => none
      | some lock => some (lock, none)
  match r with
  | none => none
  | some (lock, heap_no) =>
    if lock = c.m_wait_lock then none else some (lock, heap_no)

end DeadlockChecker

/-- Modelled from the spec: `TRX_WEIGHT` of `trx0trx.h`, the number of
rows the transaction has modified plus the number of its locks. -/
def TRX_WEIGHT (t : trx_t) : Nat := t.undo_no + t.trx_locks.length

/-- Compare the weight of two transactions; transactions that have edited
non-transactional tables are considered heavier (`trx_weight_ge`). -/
def trx_weight_ge (a b : trx_t) : Bool :=
  let a_notrans := a.mysql_thd && a.has_edited_nontrans_tables
  let b_notrans := b.mysql_thd && b.has_edited_nontrans_tables
  if a_notrans != b_notrans then a_notrans
  else decide (TRX_WEIGHT a ≥ TRX_WEIGHT b)

namespace DeadlockChecker

/-- Select the victim transaction that should be rolled back
(`select_victim`). -/
def select_victim (s : lock_sys_t) (c : DeadlockChecker) : Nat :=
  if trx_weight_ge (s.trx (s.lock c.m_wait_lock).trx) (s.trx c.m_start) then
    c.m_start
  else
    (s.lock c.m_wait_lock).trx

/-- The inner loop of `search`: while the stack is not empty and there is
no current lock, pop a state and take the next lock of the popped
queue.  The first argument is the stack. -/
def unwind (s : lock_sys_t) :
    List state_t → DeadlockChecker → Option Nat → Option Nat →
      DeadlockChecker × Option Nat × Option Nat
  | [], c, lock, heap_no => (c, lock, heap_no)
  | st :: rest, c, lock, heap_no =>
    match lock with
    | some l => (c, some l, heap_no)
    | none =>
      let c1 := { c with s_states := rest, m_wait_lock := st.m_wait_lock }
      unwind s rest c1 (get_next_lock s c1 st.m_lock st.m_heap_no) st.m_heap_no

/-- The main loop of `search`, on `fuel`.  The result is the victim (or
NULL), the checker and the lock system with the marks set; `none` stands
for a failed `ut_a`, a NULL dereference or exhausted fuel. -/
def search_loop (E : Env) :
    Nat → lock_sys_t → DeadlockChecker → Option Nat → Option Nat →
      Option (Option Nat × DeadlockChecker × lock_sys_t)
  | 0, _, _, _, _ => none
  | fuel + 1, s, c, lock0, heap_no0 =>
    match unwind s c.s_states c lock0 heap_no0 with
    | (c, none, _) => some (none, c, s)
    | (c, some lock, heap_no) =>
      if lock = c.m_wait_lock then
        let counter := s.s_lock_mark_counter + 1
        let tr := (s.lock lock).trx
        let s1 := { s with s_lock_mark_counter := counter }
        let s2 := s1.set_trx tr { s1.trx tr with deadlock_mark := counter }
        search_loop E fuel s2 c none heap_no
      else if !lock_has_to_wait E s c.m_wait_lock lock then
        search_loop E fuel s c (get_next_lock s c lock heap_no) heap_no
      else
        let trx := (s.lock lock).trx
        if trx = c.m_start then
          some (some (select_victim s c), c, s)
        else if c.is_too_deep then
          some (some c.m_start, { c with m_too_deep := true }, s)
        else
          match (s.trx trx).wait_lock with
          | some wait_lock =>
            if (s.trx trx).wait_thr.isSome then
              let c1 := { c with m_cost := c.m_cost + 1 }
              match push E c1 lock heap_no with
              | none => some (some c1.m_start, { c1 with m_too_deep := true }, s)
              | some c2 =>
                let c3 := { c2 with m_wait_lock := wait_lock }
                match get_first_lock s c3 with
                | none => none
                | some (first, heap_no1) =>
                  if is_visited s c3 first then
                    search_loop E fuel s c3 (get_next_lock s c3 first heap_no1) heap_no1
                  else
                    search_loop E fuel s c3 (some first) heap_no1
            else
              search_loop E fuel s c (get_next_lock s c lock heap_no) heap_no
          | none =>
            search_loop E fuel s c (get_next_lock s c lock heap_no) heap_no

/-- Looks iteratively for a deadlock (`search`). -/
def search (E : Env) (fuel : Nat) (s : lock_sys_t) (c : DeadlockChecker) :
    Option (Option Nat × DeadlockChecker × lock_sys_t) :=
  match get_first_lock s c with
  | none => none
  | some (lock, heap_no) => search_loop E fuel s c (some lock) heap_no

/-- Rollback transaction selected as the victim (`trx_rollback`). -/
def trx_rollback (E : Env) (fuel : Nat) (s : lock_sys_t) (c : DeadlockChecker) :
    Option lock_sys_t :=
  let trx := (s.lock c.m_wait_lock).trx
  let s1 := s.set_trx trx { s.trx trx with was_chosen_as_deadlock_victim := true }
  match (s1.trx trx).wait_lock with
  | none => none
  | some w => lock_cancel_waiting_and_release E fuel s1 w

/-- The `do ... while` loop of `check_and_resolve`, on `fuel`. -/
def check_and_resolve_loop (E : Env) (fuel : Nat) :
    Nat → lock_sys_t → Nat → Nat → Option (Option Nat × lock_sys_t)
  | 0, _, _, _ => none
  | n + 1, s, lock, trx =>
    let checker : DeadlockChecker :=
      { m_start := trx, m_wait_lock := lock, m_mark_start := s.s_lock_mark_counter }
    match search E fuel s checker with
    | none => none
    | some (victim_trx, checker1, s1) =>
      if checker1.is_too_deep then
        some (victim_trx, s1)
      else
        match victim_trx with
        | none => some (none, s1)
        | some v =>
          if v ≠ trx then
            match trx_rollback E fuel s1 checker1 with
            | none => none
            | some s2 =>
              check_and_resolve_loop E fuel n { s2 with lock_deadlock_found := true }
                lock trx
          else some (some v, s1)

/-- Check if a joining lock request results in a deadlock and resolve it
(`check_and_resolve`).  Returns the transaction returned by the source
(NULL is `none`) and the lock system. -/
def check_and_resolve (E : Env) (fuel : Nat) (s : lock_sys_t) (lock trx : Nat) :
    Option (Option Nat × lock_sys_t) :=
  if !E.innobase_deadlock_detect then some (none, s)
  else
    match check_and_resolve_loop E fuel fuel s lock trx with
    | none => none
    | some (victim_trx, s1) =>
      match victim_trx with
      | some v => some (some v, { s1 with lock_deadlock_found := true })
      | none => some (none, s1)

end DeadlockChecker

/-! ## Record lock creation and queue management -/

/-- Create a new record lock and insert it to the lock queue, without
checking for deadlocks or conflicts (`lock_rec_create_low`).  `n_heap` is
`page_dir_get_n_heap(page)`.  Returns the created lock. -/
def lock_rec_create_low (s : lock_sys_t) (type_mode0 : type_mode_t)
    (page_id n_heap heap_no : Nat) (index : dict_index_t) (trx : Nat)
    (holds_trx_mutex : Bool) : Nat × lock_sys_t :=
  let type_mode : type_mode_t :=
    if heap_no = PAGE_HEAP_NO_SUPREMUM then
      { type_mode0 with gap := false, rec_not_gap := false }
    else type_mode0
  let n_bits : Nat :=
    if !(type_mode.predicate || type_mode.prdt_page) then ((n_heap + 7) / 8) * 8
    else 8
  let l : lock_t :=
    lock_rec_set_nth_bit
      (lock_rec_bitmap_reset
        { trx := trx, type_mode := type_mode, index := index, page_id := page_id,
          bitmap := List.replicate n_bits false })
      heap_no
  let (lock, s1) := s.alloc_lock l
  let s2 := s1.set_tbl index.table
    { s1.tbl index.table with n_rec_locks := (s1.tbl index.table).n_rec_locks + 1 }
  let h := lock_hash_get type_mode
  let s3 := s2.set_hash h (s2.hash h ++ [lock])
  let s4 :=
    if type_mode.wait then s3.set_trx trx { s3.trx trx with wait_lock := some lock }
    else s3
  let s5 := s4.set_trx trx { s4.trx trx with trx_locks := (s4.trx trx).trx_locks ++ [lock] }
  (lock, s5)

/-- Modelled from the spec: `lock_rec_create` of `lock0priv.h`, which
creates the lock for the page of `block`. -/
def lock_rec_create (s : lock_sys_t) (type_mode : type_mode_t) (block : buf_block_t)
    (heap_no : Nat) (index : dict_index_t) (trx : Nat)
    (caller_owns_trx_mutex : Bool) : Nat × lock_sys_t :=
  lock_rec_create_low s type_mode block.page_id block.n_heap heap_no index trx
    caller_owns_trx_mutex

/-- Enqueue a waiting request for a lock which cannot be granted
immediately; check for deadlocks (`lock_rec_enqueue_waiting`). -/
def lock_rec_enqueue_waiting (E : Env) (fuel : Nat) (s : lock_sys_t)
    (type_mode : type_mode_t) (block : buf_block_t) (heap_no : Nat)
    (index : dict_index_t) (thr : Nat) : Option (dberr_t × lock_sys_t) :=
  let trx := thr
  if (s.trx trx).mysql_thd && (s.trx trx).lock_wait_timeout == 0 then
    some (DB_LOCK_WAIT_TIMEOUT,
      s.set_trx trx { s.trx trx with error_state := DB_LOCK_WAIT_TIMEOUT })
  else
    let (lock, s1) :=
      lock_rec_create s { type_mode with wait := true } block heap_no index trx true
    match DeadlockChecker.check_and_resolve E fuel s1 lock trx with
    | none => none
    | some (some _, s2) =>
      let s3 := lock_reset_lock_and_trx_wait s2 lock
      some (DB_DEADLOCK, s3.set_lock lock (lock_rec_reset_nth_bit (s3.lock lock) heap_no))
    | some (none, s2) =>
      if (s2.trx trx).wait_lock.isNone then
        some (DB_SUCCESS_LOCKED_REC, s2)
      else
        some (DB_LOCK_WAIT,
          s2.set_trx trx
            { s2.trx trx with wait_thr := some thr, was_chosen_as_deadlock_victim := false })

/-- Looks for a suitable type record lock struct by the same trx on the
same page (`lock_rec_find_similar_on_page`); `chain` is the page chain
from the lock passed in. -/
def lock_rec_find_similar_on_page (s : lock_sys_t) (type_mode : type_mode_t)
    (heap_no : Nat) (chain : List Nat) (trx : Nat) : Option Nat :=
  chain.find? (fun i =>
    decide ((s.lock i).trx = trx) && decide ((s.lock i).type_mode = type_mode)
      && decide (lock_rec_get_n_bits (s.lock i) > heap_no))

/-- Adds a record lock request in the record queue
(`lock_rec_add_to_queue`). -/
def lock_rec_add_to_queue (s : lock_sys_t) (type_mode0 : type_mode_t)
    (block : buf_block_t) (heap_no : Nat) (index : dict_index_t) (trx : Nat)
    (caller_owns_trx_mutex : Bool) : lock_sys_t :=
  let type_mode : type_mode_t :=
    if heap_no = PAGE_HEAP_NO_SUPREMUM then
      { type_mode0 with gap := false, rec_not_gap := false }
    else type_mode0
  let chain := s.page_chain (lock_hash_get type_mode) block.page_id
  if chain.any (fun i => (s.lock i).is_waiting && lock_rec_get_nth_bit (s.lock i) heap_no)
  then
    (lock_rec_create s type_mode block heap_no index trx caller_owns_trx_mutex).2
  else if !chain.isEmpty && !type_mode.wait then
    match lock_rec_find_similar_on_page s type_mode heap_no chain trx with
    | some lock => s.set_lock lock (lock_rec_set_nth_bit (s.lock lock) heap_no)
    | none =>
      (lock_rec_create s type_mode block heap_no index trx caller_owns_trx_mutex).2
  else
    (lock_rec_create s type_mode block heap_no index trx caller_owns_trx_mutex).2

/-- Modelled from the spec: `lock_table_has` of `lock0priv.h`, whether the
transaction has in its `table_locks` vector a lock on the table whose
mode is stronger than or equal to `in_mode`. -/
def lock_table_has (s : lock_sys_t) (trx table : Nat) (in_mode : lock_mode) : Bool :=
  (s.trx trx).table_locks.any (fun e =>
    match e with
    | none => false
    | some lock =>
      decide ((s.lock lock).table = table)
        && lock_mode_stronger_or_eq (s.lock lock).mode in_mode)

/-- Checks if a transaction has a GRANTED explicit lock on rec stronger or
equal to `precise_mode` (`lock_rec_has_expl`). -/
def lock_rec_has_expl (s : lock_sys_t) (precise_mode : type_mode_t)
    (block : buf_block_t) (heap_no trx : Nat) : Option Nat :=
  (lock_rec_queue s hash_id.rec_hash block.page_id heap_no).find? (fun i =>
    let l := s.lock i
    decide (l.trx = trx)
      && !(l.type_mode.wait || l.type_mode.insert_intention)
      && (!(l.type_mode.rec_not_gap || l.type_mode.gap)
          || decide (heap_no = PAGE_HEAP_NO_SUPREMUM)
          || ((precise_mode.rec_not_gap && l.type_mode.rec_not_gap)
              || (precise_mode.gap && l.type_mode.gap)))
      && lock_mode_stronger_or_eq l.mode precise_mode.mode)

/-- Checks if some other transaction has a conflicting explicit lock
request in the queue, so that we have to wait
(`lock_rec_other_has_conflicting`). -/
def lock_rec_other_has_conflicting (E : Env) (s : lock_sys_t) (mode : type_mode_t)
    (block : buf_block_t) (heap_no trx : Nat) : Option Nat :=
  let is_supremum := decide (heap_no = PAGE_HEAP_NO_SUPREMUM)
  (lock_rec_queue s hash_id.rec_hash block.page_id heap_no).find? (fun i =>
    lock_rec_has_to_wait E true trx mode (s.lock i) is_supremum)

/-- Tries to lock the specified record in the mode requested; if not
immediately possible, enqueues a waiting lock request
(`lock_rec_lock`). -/
def lock_rec_lock (E : Env) (fuel : Nat) (s : lock_sys_t) (impl : Bool)
    (mode : type_mode_t) (block : buf_block_t) (heap_no : Nat)
    (index : dict_index_t) (thr : Nat) : Option (dberr_t × lock_sys_t) :=
  let trx := thr
  if lock_table_has s trx index.table mode.mode then
    some (DB_SUCCESS, s)
  else
    match (s.page_chain hash_id.rec_hash block.page_id).head? with
    | some lock =>
      if (lock_rec_get_next_on_page s lock).isSome
          || decide ((s.lock lock).trx ≠ trx)
          || decide ((s.lock lock).type_mode ≠ mode)
          || decide (lock_rec_get_n_bits (s.lock lock) ≤ heap_no) then
        if (lock_rec_has_expl s mode block heap_no trx).isNone then
          if (lock_rec_other_has_conflicting E s mode block heap_no trx).isSome then
            lock_rec_enqueue_waiting E fuel s mode block heap_no index thr
          else if !impl then
            some (DB_SUCCESS_LOCKED_REC,
              lock_rec_add_to_queue s mode block heap_no index trx true)
          else some (DB_SUCCESS, s)
        else some (DB_SUCCESS, s)
      else if !impl then
        if !lock_rec_get_nth_bit (s.lock lock) heap_no then
          some (DB_SUCCESS_LOCKED_REC,
            s.set_lock lock (lock_rec_set_nth_bit (s.lock lock) heap_no))
        else some (DB_SUCCESS, s)
      else some (DB_SUCCESS, s)
    | none =>
      if !impl then
        some (DB_SUCCESS_LOCKED_REC,
          (lock_rec_create s mode block heap_no index trx false).2)
      else some (DB_SUCCESS_LOCKED_REC, s)

/-! ## Table locks -/

/-- Creates a table lock object and adds it as the last in the lock queue
of the table; does not check for deadlocks or lock compatibility
(`lock_table_create`).  Returns the lock. -/
def lock_table_create (s : lock_sys_t) (table : Nat) (type_mode : type_mode_t)
    (trx : Nat) : Nat × lock_sys_t :=
  let alloc : Nat × lock_sys_t :=
    match type_mode.mode with
    | LOCK_AUTO_INC =>
      let s1 := s.set_tbl table
        { s.tbl table with
          n_waiting_or_granted_auto_inc_locks :=
            (s.tbl table).n_waiting_or_granted_auto_inc_locks + 1 }
      if type_mode = { mode := LOCK_AUTO_INC } then
        let lock := (s1.tbl table).autoinc_lock
        let s2 := s1.set_tbl table { s1.tbl table with autoinc_trx := some trx }
        let s3 := s2.set_trx trx
          { s2.trx trx with autoinc_locks := (s2.trx trx).autoinc_locks ++ [some lock] }
        (lock, s3)
      else
        s1.alloc_lock default
    | LOCK_X =>
      let s1 := s.set_tbl table
        { s.tbl table with n_lock_x_or_s := (s.tbl table).n_lock_x_or_s + 1 }
      s1.alloc_lock default
    | LOCK_S =>
      let s1 := s.set_tbl table
        { s.tbl table with n_lock_x_or_s := (s.tbl table).n_lock_x_or_s + 1 }
      s1.alloc_lock default
    | _ => s.alloc_lock default
  let lock := alloc.1
  let sa := alloc.2
  let sb := sa.set_lock lock
    { sa.lock lock with
      type_mode := { type_mode with table := true }, trx := trx, table := table }
  let sc := sb.set_trx trx { sb.trx trx with trx_locks := (sb.trx trx).trx_locks ++ [lock] }
  let sd := sc.set_tbl table { sc.tbl table with locks := (sc.tbl table).locks ++ [lock] }
  let se :=
    if type_mode.wait then sd.set_trx trx { sd.trx trx with wait_lock := some lock }
    else sd
  let owner := (se.lock lock).trx
  (lock, se.set_trx owner
    { se.trx owner with table_locks := (se.trx owner).table_locks ++ [some lock] })

/-- Enqueues a waiting request for a table lock which cannot be granted
immediately; checks for deadlocks (`lock_table_enqueue_waiting`). -/
def lock_table_enqueue_waiting (E : Env) (fuel : Nat) (s : lock_sys_t)
    (mode : type_mode_t) (table thr : Nat) : Option (dberr_t × lock_sys_t) :=
  let trx := thr
  let (lock, s1) := lock_table_create s table { mode with wait := true } trx
  match DeadlockChecker.check_and_resolve E fuel s1 lock trx with
  | none => none
  | some (some _, s2) =>
    (lock_table_remove_low s2 lock).map
      (fun s3 => (DB_DEADLOCK, lock_reset_lock_and_trx_wait s3 lock))
  | some (none, s2) =>
    if (s2.trx trx).wait_lock.isNone then some (DB_SUCCESS, s2)
    else
      some (DB_LOCK_WAIT,
        s2.set_trx trx
          { s2.trx trx with wait_thr := some thr, was_chosen_as_deadlock_victim := false })

/-- Checks if other transactions have an incompatible mode lock request
in the lock queue (`lock_table_other_has_incompatible`); the list of the
table is scanned from its last lock. -/
def lock_table_other_has_incompatible (s : lock_sys_t) (trx : Nat) (wait : Bool)
    (table : Nat) (mode : lock_mode) : Option Nat :=
  if decide (mode.toNat ≤ LOCK_IX.toNat) && (s.tbl table).n_lock_x_or_s == 0 then
    none
  else
    (s.tbl table).locks.reverse.find? (fun i =>
      decide ((s.lock i).trx ≠ trx)
        && !lock_mode_compatible (s.lock i).mode mode
        && (wait || !(s.lock i).is_waiting))

/-- Locks the specified database table in the mode given; if the lock
cannot be granted immediately, the query thread is put to wait
(`lock_table`). -/
def lock_table (E : Env) (fuel : Nat) (s : lock_sys_t) (flags : Nat) (table : Nat)
    (mode : lock_mode) (thr : Nat) : Option (dberr_t × lock_sys_t) :=
  if (flags &&& E.BTR_NO_LOCKING_FLAG != 0) || E.srv_read_only_mode
      || (s.tbl table).is_temporary then
    some (DB_SUCCESS, s)
  else if flags ≠ 0 then none
  else
    let trx := thr
    if lock_table_has s trx table mode then some (DB_SUCCESS, s)
    else
      let s1 :=
        if (mode = LOCK_IX || mode = LOCK_X) && !(s.trx trx).read_only
            && !(s.trx trx).rseg_assigned then
          s.set_trx trx { s.trx trx with rseg_assigned := true }
        else s
      match lock_table_other_has_incompatible s1 trx true table mode with
      | some _ =>
        lock_table_enqueue_waiting E fuel s1 { mode := mode } table thr
      | none =>
        some (DB_SUCCESS, (lock_table_create s1 table { mode := mode } trx).2)

/-! ## Lock release -/

/-- The loop of `lock_release`, on `fuel`: the last lock of the lock list
of the transaction is dequeued until the list is empty. -/
def lock_release_loop (E : Env) : Nat → lock_sys_t → Nat → Option lock_sys_t
  | 0, s, trx => if (s.trx trx).trx_locks.isEmpty then some s else none
  | fuel + 1, s, trx =>
    match (s.trx trx).trx_locks.getLast? with
    | none => some s
    | some lock =>
      if !(s.lock lock).is_table then
        lock_release_loop E fuel (lock_rec_dequeue_from_page E s lock) trx
      else
        let table := (s.lock lock).table
        let s1 :=
          if (s.lock lock).mode ≠ LOCK_IS ∧ (s.trx trx).undo_no ≠ 0 then
            s.set_tbl table { s.tbl table with query_cache_inv_trx_id := s.max_trx_id }
          else s
        (lock_table_dequeue E s1 lock).bind (fun s2 => lock_release_loop E fuel s2 trx)

/-- Release the explicit locks of a committing transaction, and release
possible other transactions waiting because of these locks
(`lock_release`). -/
def lock_release (E : Env) (fuel : Nat) (s : lock_sys_t) (trx : Nat) :
    Option lock_sys_t :=
  lock_release_loop E fuel s trx

/-! ## Insert check -/

/-- Result of `lock_rec_insert_check_and_lock`: the error code, the value
left in `*inherit`, whether `lock_sys.mutex` is still held on return, and
the lock system. -/
structure insert_check_result where
  err : dberr_t
  inherit : Bool
  mutex_held : Bool
  sys : lock_sys_t

/-- Checks if locks of other transactions prevent an immediate insert of
a record (`lock_rec_insert_check_and_lock`); `heap_no` is the heap number
of the successor of `rec`. -/
def lock_rec_insert_check_and_lock (E : Env) (fuel : Nat) (s : lock_sys_t)
    (heap_no : Nat) (block : buf_block_t) (index : dict_index_t) (thr : Nat)
    (inherit_in : Bool) : Option insert_check_result :=
  let trx := thr
  match (lock_rec_queue s hash_id.rec_hash block.page_id heap_no).head? with
  | none =>
    some { err := DB_SUCCESS, inherit := false, mutex_held := false, sys := s }
  | some _ =>
    if index.is_spatial then
      some { err := DB_SUCCESS, inherit := inherit_in, mutex_held := true, sys := s }
    else
      let type_mode : type_mode_t :=
        { mode := LOCK_X, gap := true, insert_intention := true }
      let r : Option (dberr_t × lock_sys_t) :=
        if (lock_rec_other_has_conflicting E s type_mode block heap_no trx).isSome then
          lock_rec_enqueue_waiting E fuel s type_mode block heap_no index thr
        else some (DB_SUCCESS, s)
      r.map (fun (err, s1) =>
        { err := if err = DB_SUCCESS_LOCKED_REC then DB_SUCCESS else err,
          inherit := true, mutex_held := false, sys := s1 })

/-- The seven listed conditions under which a record lock request does
not wait, in the words of the specification (condition 4: the request is
`REC_NOT_GAP` and the existing lock is a pure gap lock). -/
def listed_no_wait_conditions (E : Env) (trx : Nat) (type_mode : type_mode_t)
    (lock2 : lock_t) (lock_is_on_supremum : Bool) : Bool :=
  (trx == lock2.trx)
  || lock_mode_compatible type_mode.mode lock2.mode
  || (!type_mode.insert_intention && (lock_is_on_supremum || type_mode.gap))
  || (type_mode.rec_not_gap && (lock2.is_gap && !lock2.is_insert_intention))
  || (type_mode.gap && lock2.is_record_not_gap)
  || lock2.is_insert_intention
  || ((type_mode.gap || lock2.is_gap) && !E.thd_need_ordering_with trx lock2.trx)

/-- The conditions under which `lock_rec_has_to_wait` does not wait, with
condition 4 as the code has it: the request has no `INSERT_INTENTION` and
the existing lock has `GAP`. -/
def code_no_wait_conditions (E : Env) (trx : Nat) (type_mode : type_mode_t)
    (lock2 : lock_t) (lock_is_on_supremum : Bool) : Bool :=
  (trx == lock2.trx)
  || lock_mode_compatible type_mode.mode lock2.mode
  || (!type_mode.insert_intention && (lock_is_on_supremum || type_mode.gap))
  || (!type_mode.insert_intention && lock2.is_gap)
  || (type_mode.gap && lock2.is_record_not_gap)
  || lock2.is_insert_intention
  || ((type_mode.gap || lock2.is_gap) && !E.thd_need_ordering_with trx lock2.trx)

/-- An environment in which the server requires ordering between every
two transactions, deadlock detection is on and the server is read-write. -/
def env_ordering : Env where
  thd_need_ordering_with := fun _ _ => true
  lock_prdt_has_to_wait := fun _ _ _ _ => true
  innobase_deadlock_detect := true
  srv_read_only_mode := false
  MAX_STACK_SIZE := 4096
  BTR_NO_LOCKING_FLAG := 2

/-! ## Auxiliary definitions for the statements -/

/-- The lock object with the `LOCK_WAIT` flag cleared. -/
def lock_t.clear_wait (l : lock_t) : lock_t :=
  { l with type_mode := { l.type_mode with wait := false } }

/-- The lock system in the middle of `lock_rec_dequeue_from_page`: after
`in_lock` has been removed from its hash chain and from the lock list of
its transaction, before the grant loop. -/
def lock_rec_dequeue_removed (s : lock_sys_t) (in_lock : Nat) : lock_sys_t :=
  let l := s.lock in_lock
  let tb := l.index.table
  let s1 := s.set_tbl tb { s.tbl tb with n_rec_locks := (s.tbl tb).n_rec_locks - 1 }
  let lock_hash := lock_hash_get l.type_mode
  let s2 := s1.set_hash lock_hash ((s1.hash lock_hash).erase in_lock)
  s2.set_trx l.trx
    { s2.trx l.trx with trx_locks := (s2.trx l.trx).trx_locks.erase in_lock }

/-- The queue of scenario 1 of the specification on the record (page 5,
heap number 3): transaction 1 holds a granted `S` lock (lock 0),
transaction 2 waits for `X` (lock 1) and transaction 3 waits for `S`
(lock 2). -/
def fifo_state : lock_sys_t where
  locks := fun i =>
    if i = 0 then
      { trx := 1, type_mode := { mode := LOCK_S }, page_id := 5,
        bitmap := [false, false, false, true, false, false, false, false] }
    else if i = 1 then
      { trx := 2, type_mode := { mode := LOCK_X, wait := true }, page_id := 5,
        bitmap := [false, false, false, true, false, false, false, false] }
    else if i = 2 then
      { trx := 3, type_mode := { mode := LOCK_S, wait := true }, page_id := 5,
        bitmap := [false, false, false, true, false, false, false, false] }
    else default
  n_locks := 3
  trxs := fun t =>
    if t = 1 then { trx_locks := [0] }
    else if t = 2 then { trx_locks := [1], wait_lock := some 1, wait_thr := some 2 }
    else if t = 3 then { trx_locks := [2], wait_lock := some 2, wait_thr := some 3 }
    else default
  tables := fun t => if t = 0 then { n_rec_locks := 3 } else default
  rec_hash := [0, 1, 2]

/-- The environment `env_ordering` with deadlock detection switched
off. -/
def env_no_detect : Env :=
  { env_ordering with innobase_deadlock_detect := false }

/-- A lock system in which transaction 1 holds a granted `S` lock (lock
0) on table 0. -/
def table_state : lock_sys_t where
  locks := fun i =>
    if i = 0 then { trx := 1, type_mode := { mode := LOCK_S, table := true }, table := 0 }
    else default
  n_locks := 2
  trxs := fun t =>
    if t = 1 then { trx_locks := [0], table_locks := [some 0] } else default
  tables := fun t =>
    if t = 0 then { locks := [0], n_lock_x_or_s := 1, autoinc_lock := 1 } else default

/-- A waits-for ring of `n` transactions on `n` tables: transaction `k`
holds a granted `X` lock on table `k` (lock `2k`) and waits for an `X`
lock on table `k + 1` modulo `n` (lock `2k + 1`), queued behind the
granted lock of the next transaction.  Transaction 0 is the one that has
just enqueued its waiting lock (its `wait_thr` is not yet set); it has
modified five rows, the others none. -/
def deadlock_ring (n : Nat) : lock_sys_t where
  locks := fun i =>
    if i % 2 = 0 then
      { trx := i / 2, type_mode := { mode := LOCK_X, table := true }, table := i / 2 }
    else
      { trx := i / 2, type_mode := { mode := LOCK_X, table := true, wait := true },
        table := (i / 2 + 1) % n }
  n_locks := 3 * n
  trxs := fun k =>
    { trx_locks := [2 * k, 2 * k + 1],
      table_locks := [some (2 * k), some (2 * k + 1)],
      wait_lock := some (2 * k + 1),
      wait_thr := if k = 0 then none else some k,
      undo_no := if k = 0 then 5 else 0 }
  tables := fun k =>
    { locks := [2 * k, 2 * ((k + n - 1) % n) + 1], n_lock_x_or_s := 2,
      autoinc_lock := 2 * n + k }

/-- A lock system without record locks in which transaction 1 holds an
`IX` lock (lock 0) on table 0. -/
def no_rec_lock_state : lock_sys_t where
  locks := fun i =>
    if i = 0 then { trx := 1, type_mode := { mode := LOCK_IX, table := true }, table := 0 }
    else default
  n_locks := 2
  trxs := fun t =>
    if t = 1 then { trx_locks := [0], table_locks := [some 0] } else default
  tables := fun t => if t = 0 then { locks := [0], autoinc_lock := 1 } else default

/-! ## The wait-lock invariant -/

/-- Every `wait_lock` pointer points to an allocated lock owned by the
transaction that holds the pointer. -/
def wait_lock_owned (s : lock_sys_t) : Prop :=
  ∀ t w, (s.trx t).wait_lock = some w → w < s.n_locks ∧ (s.lock w).trx = t

/-- Every lock with the `WAIT` flag is the `wait_lock` of its owner. -/
def waiting_is_wait_lock (s : lock_sys_t) : Prop :=
  ∀ g, (s.lock g).is_waiting = true → (s.trx (s.lock g).trx).wait_lock = some g

/-- Every `wait_lock` pointer points to a lock with the `WAIT` flag. -/
def wait_lock_is_waiting (s : lock_sys_t) : Prop :=
  ∀ t w, (s.trx t).wait_lock = some w → (s.lock w).is_waiting = true

/-- The wait-lock invariant: `wait_lock` pointers and `WAIT` flags agree. -/
def wait_inv (s : lock_sys_t) : Prop :=
  wait_lock_owned s ∧ waiting_is_wait_lock s ∧ wait_lock_is_waiting s

/-- The lock system `s1` differs from `s` in its locks and `wait_lock`
pointers at most by cleared waits: a lock object is unchanged, or it has
lost its `WAIT` flag and its owner has no `wait_lock`; a `wait_lock`
pointer is unchanged, or it has become NULL and the lock it pointed to is
no longer waiting. -/
def wait_release (s s1 : lock_sys_t) : Prop :=
  s1.n_locks = s.n_locks
  ∧ (∀ g, s1.lock g = s.lock g
      ∨ (s1.lock g = (s.lock g).clear_wait ∧ (s1.trx (s.lock g).trx).wait_lock = none))
  ∧ (∀ t, (s1.trx t).wait_lock = (s.trx t).wait_lock
      ∨ ((s1.trx t).wait_lock = none
          ∧ ∀ w, (s.trx t).wait_lock = some w → (s1.lock w).is_waiting = false))

/-- The lock system `s1` differs from `s` at most in the deadlock marks
of the transactions and in the mark counter. -/
def only_marks (s s1 : lock_sys_t) : Prop :=
  s1.locks = s.locks ∧ s1.n_locks = s.n_locks ∧ s1.tables = s.tables
  ∧ s1.rec_hash = s.rec_hash ∧ s1.prdt_hash = s.prdt_hash
  ∧ s1.prdt_page_hash = s.prdt_page_hash
  ∧ s1.lock_deadlock_found = s.lock_deadlock_found ∧ s1.max_trx_id = s.max_trx_id
  ∧ ∀ t, ∃ m, s1.trx t = { s.trx t with deadlock_mark := m }

/-- The `type_mode` that `lock_rec_create_low` and `lock_rec_add_to_queue`
store for a request on `heap_no`: on the page supremum the `GAP` and
`REC_NOT_GAP` flags are dropped. -/
def supremum_type_mode (type_mode : type_mode_t) (heap_no : Nat) : type_mode_t :=
  if heap_no = PAGE_HEAP_NO_SUPREMUM then
    { type_mode with gap := false, rec_not_gap := false }
  else type_mode

/-- A record lock request as `lock_rec_lock` takes it: mode `S` or `X`,
possibly with `GAP` or `REC_NOT_GAP`, and no other flag. -/
def rec_request_mode (mode : type_mode_t) : Prop :=
  (mode.mode = LOCK_S ∨ mode.mode = LOCK_X) ∧ mode.table = false ∧ mode.wait = false
  ∧ mode.insert_intention = false ∧ mode.predicate = false ∧ mode.prdt_page = false


/-- The type mode of the request of `lock_rec_insert_check_and_lock`:
`LOCK_X | LOCK_GAP | LOCK_INSERT_INTENTION`. -/
def insert_intention_mode : type_mode_t :=
  { mode := LOCK_X, gap := true, insert_intention := true }

/-- Scenario in which an insert does not wait although a gap-covering lock
request of another transaction is queued on the successor record (page 1,
heap number 5): transaction 2 holds a granted `S | REC_NOT_GAP` lock (lock
0) and has modified five rows; transaction 1 waits behind it for an
ordinary (next-key) `X` lock (lock 1) and has modified no row. -/
def insert_deadlock_state : lock_sys_t where
  locks := fun i =>
    if i = 0 then
      { trx := 2, type_mode := { mode := LOCK_S, rec_not_gap := true }, page_id := 1,
        bitmap := [false, false, false, false, false, true, false, false] }
    else if i = 1 then
      { trx := 1, type_mode := { mode := LOCK_X, wait := true }, page_id := 1,
        bitmap := [false, false, false, false, false, true, false, false] }
    else default
  n_locks := 2
  trxs := fun t =>
    if t = 1 then { trx_locks := [1], wait_lock := some 1, wait_thr := some 1 }
    else if t = 2 then { trx_locks := [0], undo_no := 5 }
    else default
  tables := fun t => if t = 0 then { n_rec_locks := 2 } else default
  rec_hash := [0, 1]

/-- Scenario 3 of the specification: transaction 1 holds a granted
`S | GAP` lock (lock 0) on (page 1, heap number 5). -/
def gap_state : lock_sys_t where
  locks := fun i =>
    if i = 0 then
      { trx := 1, type_mode := { mode := LOCK_S, gap := true }, page_id := 1,
        bitmap := [false, false, false, false, false, true, false, false] }
    else default
  n_locks := 1
  trxs := fun t => if t = 1 then { trx_locks := [0] } else default
  tables := fun t => if t = 0 then { n_rec_locks := 1 } else default
  rec_hash := [0]


/-! ## Invariants of the lock queues used for `lock_release` -/

/-- Whether the mode of a lock is `S` or `X`: the locks that the counter
`n_lock_x_or_s` of a table counts. -/
def lock_t.is_s_or_x (l : lock_t) : Bool :=
  decide (l.mode = LOCK_S) || decide (l.mode = LOCK_X)

/-- Consistency of the lock queues as `lock_release(T)` relies on it.  The
lock list of `T` has no duplicates, holds locks owned by `T`, none of them
waiting, and each of them is in the queue that its type selects; the hash
chains and table lists have no duplicates, a hash chain holds record locks
of its own kind and a table list holds table locks of that table; every
lock of `T` in a queue is on the lock list of `T`; a table whose
`autoinc_trx` is `T` has a granted `AUTO_INC` lock of `T`, every such lock
is in the `autoinc_locks` vector of `T`, whose last entry is not NULL; and
`n_lock_x_or_s` counts the `S` and `X` locks of the list of a table. -/
structure release_wf (s : lock_sys_t) (T : Nat) : Prop where
  owned : ∀ g ∈ (s.trx T).trx_locks, (s.lock g).trx = T
  nodup_trx : (s.trx T).trx_locks.Nodup
  nodup_hash : ∀ k, (s.hash k).Nodup
  nodup_tbl : ∀ tb, (s.tbl tb).locks.Nodup
  hash_ok : ∀ k, ∀ g ∈ s.hash k,
    (s.lock g).is_table = false ∧ lock_hash_get (s.lock g).type_mode = k
  tbl_ok : ∀ tb, ∀ g ∈ (s.tbl tb).locks,
    (s.lock g).is_table = true ∧ (s.lock g).table = tb
  listed_hash : ∀ k, ∀ g ∈ s.hash k, (s.lock g).trx = T → g ∈ (s.trx T).trx_locks
  listed_tbl : ∀ tb, ∀ g ∈ (s.tbl tb).locks, (s.lock g).trx = T → g ∈ (s.trx T).trx_locks
  queued_tbl : ∀ g ∈ (s.trx T).trx_locks, (s.lock g).is_table = true →
    g ∈ (s.tbl (s.lock g).table).locks
  queued_rec : ∀ g ∈ (s.trx T).trx_locks, (s.lock g).is_table = false →
    g ∈ s.hash (lock_hash_get (s.lock g).type_mode)
  not_waiting : ∀ g ∈ (s.trx T).trx_locks, (s.lock g).is_waiting = false
  autoinc_owner : ∀ tb, (s.tbl tb).autoinc_trx = some T →
    ∃ g ∈ (s.trx T).trx_locks, (s.lock g).is_table = true
      ∧ (s.lock g).mode = LOCK_AUTO_INC ∧ (s.lock g).table = tb
  autoinc_vec : ∀ g ∈ (s.trx T).trx_locks, (s.lock g).is_table = true →
    (s.lock g).mode = LOCK_AUTO_INC → (s.tbl (s.lock g).table).autoinc_trx = some T →
    some g ∈ (s.trx T).autoinc_locks
  autoinc_last : (s.trx T).autoinc_locks.getLast? ≠ some none
  counter : ∀ tb, (s.tbl tb).n_lock_x_or_s
    = (s.tbl tb).locks.countP (fun g => (s.lock g).is_s_or_x)

/-- The lock system `s1` arises from `s` by granting waiting locks of
transactions other than `T`: the queues, the lock lists and the counters
are the same, lock objects have at most lost their `WAIT` flag, the
`autoinc_locks` vector of `T` is the same, and `autoinc_trx` of a table is
the same or a transaction other than `T`. -/
structure grant_frame (T : Nat) (s s1 : lock_sys_t) : Prop where
  hash : ∀ k, s1.hash k = s.hash k
  tbl_locks : ∀ tb, (s1.tbl tb).locks = (s.tbl tb).locks
  counter : ∀ tb, (s1.tbl tb).n_lock_x_or_s = (s.tbl tb).n_lock_x_or_s
  autoinc_trx : ∀ tb, (s1.tbl tb).autoinc_trx = (s.tbl tb).autoinc_trx
    ∨ ∃ t, t ≠ T ∧ (s1.tbl tb).autoinc_trx = some t
  lock : ∀ g, s1.lock g = s.lock g ∨ s1.lock g = (s.lock g).clear_wait
  trx_locks : ∀ t, (s1.trx t).trx_locks = (s.trx t).trx_locks
  autoinc_locks : (s1.trx T).autoinc_locks = (s.trx T).autoinc_locks

/-- The predicate-lock conflict test does not read the `WAIT` flags. -/
def prdt_ignores_wait (E : Env) : Prop :=
  ∀ t tm p l, E.lock_prdt_has_to_wait t tm p l
    = E.lock_prdt_has_to_wait t { tm with wait := false } p l.clear_wait

/-- A record lock `w` has an earlier lock in its queue for which it has to
wait: a lock ahead of `w` in the page chain with the bit of the heap number
of `w` set and `lock_has_to_wait(w, earlier)`. -/
def blocked_rec (E : Env) (s : lock_sys_t) (w : Nat) : Prop :=
  ∃ hn, lock_rec_find_set_bit (s.lock w) = some hn
    ∧ ∃ e ∈ (s.page_chain (lock_hash_get (s.lock w).type_mode) (s.lock w).page_id).takeWhile
              (fun i => i != w),
        lock_rec_get_nth_bit (s.lock e) hn = true ∧ lock_has_to_wait E s w e = true

/-- A table lock `w` has an earlier lock in the list of its table for
which it has to wait. -/
def blocked_tbl (E : Env) (s : lock_sys_t) (w : Nat) : Prop :=
  ∃ e ∈ ((s.tbl (s.lock w).table).locks.takeWhile (fun i => i != w)),
    lock_has_to_wait E s w e = true

/-- Every waiting lock of every hash chain and of every table list has an
earlier conflicting lock in its queue. -/
def all_blocked (E : Env) (s : lock_sys_t) : Prop :=
  (∀ k, ∀ w ∈ s.hash k, (s.lock w).is_waiting = true → blocked_rec E s w)
  ∧ (∀ tb, ∀ w ∈ (s.tbl tb).locks, (s.lock w).is_waiting = true → blocked_tbl E s w)

/-- The body of the loop of `lock_release` for the lock `lock` of `trx`. -/
def lock_release_step (E : Env) (s : lock_sys_t) (trx lock : Nat) : Option lock_sys_t :=
  if !(s.lock lock).is_table then
    some (lock_rec_dequeue_from_page E s lock)
  else
    let table := (s.lock lock).table
    let s1 :=
      if (s.lock lock).mode ≠ LOCK_IS ∧ (s.trx trx).undo_no ≠ 0 then
        s.set_tbl table { s.tbl table with query_cache_inv_trx_id := s.max_trx_id }
      else s
    lock_table_dequeue E s1 lock

/-- Release in the words of the specification: the locks of the list are
dequeued one after the other in the order of the list given. -/
def release_in_order (E : Env) (trx : Nat) : List Nat → lock_sys_t → Option lock_sys_t
  | [], s => some s
  | lock :: rest, s =>
    (lock_release_step E s trx lock).bind (fun s1 => release_in_order E trx rest s1)


/-- A lock system in which transaction 1 holds an `IX` lock on table 0
(lock 0) and an `X` lock on the record (page 5, heap number 3) (lock 1);
transaction 2 holds an `IS` lock on table 0 (lock 2) and waits for an `S`
lock on the same record (lock 3); transaction 3 waits for an `X` lock on
table 0 (lock 4). -/
def release_state : lock_sys_t where
  locks := fun i =>
    if i = 0 then { trx := 1, type_mode := { mode := LOCK_IX, table := true }, table := 0 }
    else if i = 1 then
      { trx := 1, type_mode := { mode := LOCK_X }, page_id := 5,
        bitmap := [false, false, false, true, false, false, false, false] }
    else if i = 2 then
      { trx := 2, type_mode := { mode := LOCK_IS, table := true }, table := 0 }
    else if i = 3 then
      { trx := 2, type_mode := { mode := LOCK_S, wait := true }, page_id := 5,
        bitmap := [false, false, false, true, false, false, false, false] }
    else if i = 4 then
      { trx := 3, type_mode := { mode := LOCK_X, table := true, wait := true }, table := 0 }
    else default
  n_locks := 6
  trxs := fun t =>
    if t = 1 then { trx_locks := [0, 1], table_locks := [some 0], undo_no := 1 }
    else if t = 2 then
      { trx_locks := [2, 3], table_locks := [some 2], wait_lock := some 3,
        wait_thr := some 2 }
    else if t = 3 then
      { trx_locks := [4], table_locks := [some 4], wait_lock := some 4, wait_thr := some 3 }
    else default
  tables := fun t =>
    if t = 0 then { locks := [0, 2, 4], n_lock_x_or_s := 1, n_rec_locks := 2,
                    autoinc_lock := 5 }
    else default
  rec_hash := [1, 3]


/-- The waiting record lock `W` of transaction `T` is held back by the
granted lock `g`: `g` is ahead of `W` in the page chain, has the bit of
the heap number of `W` set and `lock_has_to_wait(W, g)` holds.  The
wait-lock invariant holds and the table lists hold table locks. -/
structure held_back (E : Env) (s : lock_sys_t) (T g W : Nat) : Prop where
  inv : wait_inv s
  tbl_ok : ∀ tb, ∀ x ∈ (s.tbl tb).locks, (s.lock x).is_table = true
  w_trx : (s.lock W).trx = T
  w_wait : (s.lock W).is_waiting = true
  w_rec : (s.lock W).is_table = false
  g_granted : (s.lock g).is_waiting = false
  ahead : g ∈ (s.page_chain (lock_hash_get (s.lock W).type_mode)
    (s.lock W).page_id).takeWhile (fun i => i != W)
  conflict : ∃ hn, lock_rec_find_set_bit (s.lock W) = some hn
    ∧ lock_rec_get_nth_bit (s.lock g) hn = true ∧ lock_has_to_wait E s W g = true

/-- Whether a transaction counts as having edited non-transactional
tables in `trx_weight_ge`: `trx->mysql_thd &&
thd_has_edited_nontrans_tables(trx->mysql_thd)`. -/
def trx_t.edited_nontrans (t : trx_t) : Bool :=
  t.mysql_thd && t.has_edited_nontrans_tables

/-- Scenario 2 of the specification before the last request: transaction
1 holds a granted `X` lock on (page 1, heap number 2) (lock 0) and has
modified three rows, transaction 2 holds a granted `X` lock on (page 2,
heap number 2) (lock 1) and has modified one row; the transaction `first`
already waits for an `X` lock on the record of the other one (lock 2).
Neither has edited non-transactional tables. -/
def two_trx_state (first : Nat) : lock_sys_t where
  locks := fun i =>
    if i = 0 then
      { trx := 1, type_mode := { mode := LOCK_X }, page_id := 1,
        bitmap := [false, false, true, false, false, false, false, false] }
    else if i = 1 then
      { trx := 2, type_mode := { mode := LOCK_X }, page_id := 2,
        bitmap := [false, false, true, false, false, false, false, false] }
    else if i = 2 then
      { trx := first, type_mode := { mode := LOCK_X, wait := true },
        page_id := if first = 1 then 2 else 1,
        bitmap := [false, false, true, false, false, false, false, false] }
    else default
  n_locks := 3
  trxs := fun t =>
    if t = 1 then
      { trx_locks := if first = 1 then [0, 2] else [0],
        wait_lock := if first = 1 then some 2 else none,
        wait_thr := if first = 1 then some 1 else none,
        undo_no := 3 }
    else if t = 2 then
      { trx_locks := if first = 1 then [1] else [1, 2],
        wait_lock := if first = 1 then none else some 2,
        wait_thr := if first = 1 then none else some 2,
        undo_no := 1 }
    else default
  tables := fun t => if t = 0 then { n_rec_locks := 3 } else default
  rec_hash := [0, 1, 2]

/-- The deadlock checker that `check_and_resolve` starts for the waiting
lock `lock` of the joining transaction `trx`. -/
def joining_checker (s : lock_sys_t) (lock trx : Nat) : DeadlockChecker :=
  { m_start := trx, m_wait_lock := lock, m_mark_start := s.s_lock_mark_counter }

/-- The lock system `gap_state` in which the session of transaction 2 has
a lock wait timeout of zero. -/
def insert_timeout_state : lock_sys_t :=
  gap_state.set_trx 2 { gap_state.trx 2 with mysql_thd := true, lock_wait_timeout := 0 }

/-- Check whether the transaction has already been rolled back because it
was selected as a deadlock victim, or if it has to wait then cancel the
wait lock (`lock_trx_handle_wait_low`). -/
def lock_trx_handle_wait_low (E : Env) (fuel : Nat) (s : lock_sys_t) (trx : Nat) :
    Option (dberr_t × lock_sys_t) :=
  if (s.trx trx).was_chosen_as_deadlock_victim then some (DB_DEADLOCK, s)
  else
    match (s.trx trx).wait_lock with
    | none => some (DB_SUCCESS, s)
    | some wait_lock =>
      (lock_cancel_waiting_and_release E fuel s wait_lock).map
        (fun s1 => (DB_LOCK_WAIT, s1))

/-- Check whether the transaction has already been rolled back because it
was selected as a deadlock victim, or if it has to wait then cancel the
wait lock (`lock_trx_handle_wait`); the function acquires the mutexes and
calls `lock_trx_handle_wait_low`. -/
def lock_trx_handle_wait (E : Env) (fuel : Nat) (s : lock_sys_t) (trx : Nat) :
    Option (dberr_t × lock_sys_t) :=
  lock_trx_handle_wait_low E fuel s trx

/-- The queues of `s1` arise from those of `s` by removing locks: every
hash chain, table list and transaction lock list of `s1` is a sublist of
the one of `s`, and the lock objects differ at most in the `WAIT` flag. -/
structure queues_shrink (s s1 : lock_sys_t) : Prop where
  hash : ∀ k, (s1.hash k).Sublist (s.hash k)
  tbl : ∀ tb, (s1.tbl tb).locks.Sublist (s.tbl tb).locks
  trx : ∀ t, (s1.trx t).trx_locks.Sublist (s.trx t).trx_locks
  core : ∀ g, (s1.lock g).clear_wait = (s.lock g).clear_wait

/-- A lock system in which transaction 1 holds a granted `X` lock on
table 0 (lock 0) and transaction 2 waits for an `S` lock on the table
(lock 1). -/
def table_wait_state : lock_sys_t where
  locks := fun i =>
    if i = 0 then { trx := 1, type_mode := { mode := LOCK_X, table := true }, table := 0 }
    else if i = 1 then
      { trx := 2, type_mode := { mode := LOCK_S, table := true, wait := true }, table := 0 }
    else default
  n_locks := 3
  trxs := fun t =>
    if t = 1 then { trx_locks := [0], table_locks := [some 0] }
    else if t = 2 then
      { trx_locks := [1], table_locks := [some 1], wait_lock := some 1, wait_thr := some 2 }
    else default
  tables := fun t =>
    if t = 0 then { locks := [0, 1], n_lock_x_or_s := 2, autoinc_lock := 2 } else default

/-- Consistency of the lock queues as the cancellation of a waiting lock
of `T` relies on it: the hash chains, the table lists and the lock list
of `T` have no duplicates, a hash chain holds record locks of its own
kind and a table list holds table locks of that table. -/
structure queue_wf (s : lock_sys_t) (T : Nat) : Prop where
  nodup_hash : ∀ k, (s.hash k).Nodup
  nodup_tbl : ∀ tb, (s.tbl tb).locks.Nodup
  nodup_trx : (s.trx T).trx_locks.Nodup
  hash_ok : ∀ k, ∀ g ∈ s.hash k,
    (s.lock g).is_table = false ∧ lock_hash_get (s.lock g).type_mode = k
  tbl_ok : ∀ tb, ∀ g ∈ (s.tbl tb).locks,
    (s.lock g).is_table = true ∧ (s.lock g).table = tb

/-- Lookups of the implicit lock holder of a record, which live outside
`lock0lock.cc` or read the record itself.  The record is given by its
block and heap number. -/
structure ImplEnv where
  /-- The id of the transaction that has an implicit x-lock on a
  clustered index record, 0 if none
  (`lock_clust_rec_some_has_impl(rec, index, offsets)`). -/
  lock_clust_rec_some_has_impl : buf_block_t → Nat → dict_index_t → Nat
  /-- The active transaction with the given id, if any
  (`trx_sys.find(caller_trx, trx_id)`). -/
  trx_sys_find : Nat → Option Nat
  /-- The transaction that has an implicit x-lock on a secondary index
  record, NULL if none
  (`lock_sec_rec_some_has_impl(caller_trx, rec, index, offsets)`). -/
  lock_sec_rec_some_has_impl : Nat → buf_block_t → Nat → dict_index_t → Option Nat

/-- Creates an explicit record lock for a running transaction that
currently only has an implicit lock on the record
(`lock_rec_convert_impl_to_expl_for_trx`). -/
def lock_rec_convert_impl_to_expl_for_trx (s : lock_sys_t) (block : buf_block_t)
    (index : dict_index_t) (trx heap_no : Nat) : lock_sys_t :=
  if !(s.trx trx).committed_in_memory
      && (lock_rec_has_expl s { mode := LOCK_X, rec_not_gap := true } block heap_no
            trx).isNone then
    lock_rec_add_to_queue s { mode := LOCK_X, rec_not_gap := true } block heap_no index
      trx true
  else s

/-- If an implicit x-lock exists on a record, convert it to an explicit
one (`lock_rec_convert_impl_to_expl`).  Returns whether `caller_trx`
already holds an exclusive lock on the record, and the lock system. -/
def lock_rec_convert_impl_to_expl (I : ImplEnv) (s : lock_sys_t) (caller_trx : Nat)
    (block : buf_block_t) (heap_no : Nat) (index : dict_index_t) : Bool × lock_sys_t :=
  let finish (trx : Option Nat) : Bool × lock_sys_t :=
    match trx with
    | some t => (false, lock_rec_convert_impl_to_expl_for_trx s block index t heap_no)
    | none => (false, s)
  if index.is_clust then
    let trx_id := I.lock_clust_rec_some_has_impl block heap_no index
    if trx_id = 0 then (false, s)
    else if trx_id = (s.trx caller_trx).id then (true, s)
    else finish (I.trx_sys_find trx_id)
  else
    let trx := I.lock_sec_rec_some_has_impl caller_trx block heap_no index
    if trx = some caller_trx then (true, s)
    else finish trx

/-- The record lock `g` is in the record hash table with the bit of
`heap_no` set. -/
def rec_covered (s : lock_sys_t) (g heap_no : Nat) : Prop :=
  g ∈ s.rec_hash ∧ lock_rec_get_nth_bit (s.lock g) heap_no = true

/-- The type mode `LOCK_X | LOCK_REC_NOT_GAP`. -/
def x_rec_not_gap : type_mode_t := { mode := LOCK_X, rec_not_gap := true }

/-- A lookup in which transaction 2 (with id 20) holds the implicit lock
on every record. -/
def impl_env_two : ImplEnv where
  lock_clust_rec_some_has_impl := fun _ _ _ => 20
  trx_sys_find := fun i => if i = 20 then some 2 else none
  lock_sec_rec_some_has_impl := fun _ _ _ _ => some 2

/-- The lock system `gap_state` in which transaction 2 has the id 20 and
transaction 1 the id 10. -/
def impl_state : lock_sys_t :=
  (gap_state.set_trx 2 { gap_state.trx 2 with id := 20 }).set_trx 1
    { gap_state.trx 1 with id := 10 }

/-- The lock system `s1` arises from `s` by adding the request of `trx`
with type mode `tm` on the record (`page`, `hn`) to the lock `g` of the
record hash table, as `lock_rec_add_to_queue` does: either the bit is set
in the existing lock `g`, a lock of `trx` with this type mode on the page,
or `g` is a new lock object, appended to the hash chain and to the lock
list of `trx`, with only this bit set. -/
structure rec_added (s s1 : lock_sys_t) (g : Nat) (tm : type_mode_t) (page hn trx : Nat) :
    Prop where
  lock_trx : (s1.lock g).trx = trx
  lock_tm : (s1.lock g).type_mode = tm
  lock_page : (s1.lock g).page_id = page
  others : ∀ x, x ≠ g → s1.lock x = s.lock x
  cases :
    (g ∈ s.rec_hash ∧ s1.rec_hash = s.rec_hash
      ∧ s1.lock g = lock_rec_set_nth_bit (s.lock g) hn
      ∧ (s.lock g).trx = trx ∧ (s.lock g).type_mode = tm ∧ (s.lock g).page_id = page
      ∧ hn < lock_rec_get_n_bits (s.lock g) ∧ tm.wait = false
      ∧ s1.n_locks = s.n_locks ∧ s1.trxs = s.trxs ∧ s1.tables = s.tables)
    ∨ (g = s.n_locks ∧ s1.rec_hash = s.rec_hash ++ [g]
      ∧ (∀ i, lock_rec_get_nth_bit (s1.lock g) i = decide (i = hn))
      ∧ s1.n_locks = s.n_locks + 1
      ∧ (∀ t, s1.trx t
          = if t = trx then
              { s.trx t with
                wait_lock := if tm.wait then some g else (s.trx t).wait_lock,
                trx_locks := (s.trx t).trx_locks ++ [g] }
            else s.trx t)
      ∧ (∀ tb, (s1.tbl tb).locks = (s.tbl tb).locks))
  prdt : s1.prdt_hash = s.prdt_hash
  prdt_page : s1.prdt_page_hash = s.prdt_page_hash

/-! ## Lock inheritance and moving of locks between records -/

/-- Modelled from the spec: the isolation level constant
`TRX_ISO_READ_COMMITTED` of `trx0trx.h`; the levels are READ UNCOMMITTED
0, READ COMMITTED 1, REPEATABLE READ 2 and SERIALIZABLE 3. -/
def TRX_ISO_READ_COMMITTED : Nat := 1

/-- Modelled from the spec: `lock_rec_get_first` of `lock0priv.h`, the
first lock of the page of `block` in the hash table that has the bit of
`heap_no` set. -/
def lock_rec_get_first (s : lock_sys_t) (h : hash_id) (block : buf_block_t)
    (heap_no : Nat) : Option Nat :=
  (lock_rec_queue s h block.page_id heap_no).head?

/-- The loop `for (lock = first; lock != NULL; lock =
lock_rec_get_next(heap_no, lock)) body(lock)` over the locks of a record,
on `fuel`; the next lock is looked up in the lock system as the body has
left it.  `none` stands for exhausted fuel or a failed body. -/
def lock_rec_queue_loop (body : lock_sys_t → Nat → Option lock_sys_t) (heap_no : Nat) :
    Nat → lock_sys_t → Option Nat → Option lock_sys_t
  | _, s, none => some s
  | 0, _, some _ => none
  | fuel + 1, s, some lock =>
    (body s lock).bind (fun s1 =>
      lock_rec_queue_loop body heap_no fuel s1 (lock_rec_get_next s1 (some heap_no) lock))

/-- Cancels a waiting record lock request and releases the waiting
transaction that requested it (`lock_rec_cancel`).  `none` stands for a
bitmap without a set bit, for which `lock_rec_find_set_bit` returns
`ULINT_UNDEFINED` and the source resets a bit outside the bitmap. -/
def lock_rec_cancel (s : lock_sys_t) (lock : Nat) : Option lock_sys_t :=
  match lock_rec_find_set_bit (s.lock lock) with
  | none => none
  | some i =>
    let s1 := s.set_lock lock (lock_rec_reset_nth_bit (s.lock lock) i)
    let s2 := lock_reset_lock_and_trx_wait s1 lock
    some (lock_wait_end s2 (s2.lock lock).trx)

/-- The body of the loop of `lock_rec_reset_and_release_wait_low`. -/
def lock_rec_reset_and_release_wait_step (heap_no : Nat) (s : lock_sys_t) (lock : Nat) :
    Option lock_sys_t :=
  if (s.lock lock).is_waiting then lock_rec_cancel s lock
  else some (s.set_lock lock (lock_rec_reset_nth_bit (s.lock lock) heap_no))

/-- Resets the lock bits for a single record and releases transactions
waiting for lock requests here (`lock_rec_reset_and_release_wait_low`). -/
def lock_rec_reset_and_release_wait_low (fuel : Nat) (s : lock_sys_t) (hash : hash_id)
    (block : buf_block_t) (heap_no : Nat) : Option lock_sys_t :=
  lock_rec_queue_loop (lock_rec_reset_and_release_wait_step heap_no) heap_no fuel s
    (lock_rec_get_first s hash block heap_no)

/-- Resets the lock bits for a single record in the three hash tables
(`lock_rec_reset_and_release_wait`). -/
def lock_rec_reset_and_release_wait (fuel : Nat) (s : lock_sys_t) (block : buf_block_t)
    (heap_no : Nat) : Option lock_sys_t :=
  ((lock_rec_reset_and_release_wait_low fuel s hash_id.rec_hash block heap_no).bind
    (fun s1 =>
      lock_rec_reset_and_release_wait_low fuel s1 hash_id.prdt_hash block
        PAGE_HEAP_NO_INFIMUM)).bind
    (fun s2 =>
      lock_rec_reset_and_release_wait_low fuel s2 hash_id.prdt_page_hash block
        PAGE_HEAP_NO_INFIMUM)

/-- The test of the loop of `lock_rec_inherit_to_gap`: the lock is not an
insert intention lock, and its transaction is above READ COMMITTED or the
mode of the lock is not the one an UPDATE or DELETE sets (`LOCK_S` when
`trx->duplicates` is set, otherwise `LOCK_X`). -/
def lock_rec_inherit_to_gap_test (s : lock_sys_t) (lock : Nat) : Bool :=
  let l := s.lock lock
  !l.is_insert_intention
    && (decide ((s.trx l.trx).isolation_level > TRX_ISO_READ_COMMITTED)
        || decide (l.mode ≠ (if (s.trx l.trx).duplicates ≠ 0 then LOCK_S else LOCK_X)))

/-- The body of the loop of `lock_rec_inherit_to_gap`. -/
def lock_rec_inherit_to_gap_step (heir_block : buf_block_t) (heir_heap_no : Nat)
    (s : lock_sys_t) (lock : Nat) : Option lock_sys_t :=
  let l := s.lock lock
  if lock_rec_inherit_to_gap_test s lock then
    some (lock_rec_add_to_queue s { mode := l.mode, gap := true } heir_block heir_heap_no
      l.index l.trx false)
  else some s

/-- Makes a record to inherit the locks (except `LOCK_INSERT_INTENTION`
type) of another record as gap type locks, but does not reset the lock
bits of the other record (`lock_rec_inherit_to_gap`). -/
def lock_rec_inherit_to_gap (fuel : Nat) (s : lock_sys_t) (heir_block block : buf_block_t)
    (heir_heap_no heap_no : Nat) : Option lock_sys_t :=
  lock_rec_queue_loop (lock_rec_inherit_to_gap_step heir_block heir_heap_no) heap_no fuel s
    (lock_rec_get_first s hash_id.rec_hash block heap_no)

/-- The test of the loop of `lock_rec_inherit_to_gap_if_gap_lock`. -/
def lock_rec_inherit_to_gap_if_gap_lock_test (heap_no : Nat) (s : lock_sys_t) (lock : Nat) :
    Bool :=
  let l := s.lock lock
  !l.is_insert_intention
    && (decide (heap_no = PAGE_HEAP_NO_SUPREMUM) || !l.is_record_not_gap)
    && !lock_table_has s l.trx l.index.table LOCK_X

/-- The body of the loop of `lock_rec_inherit_to_gap_if_gap_lock`. -/
def lock_rec_inherit_to_gap_if_gap_lock_step (block : buf_block_t)
    (heir_heap_no heap_no : Nat) (s : lock_sys_t) (lock : Nat) : Option lock_sys_t :=
  let l := s.lock lock
  if lock_rec_inherit_to_gap_if_gap_lock_test heap_no s lock then
    some (lock_rec_add_to_queue s { mode := l.mode, gap := true } block heir_heap_no
      l.index l.trx false)
  else some s

/-- Makes a record to inherit the gap locks (except
`LOCK_INSERT_INTENTION` type) of another record as gap type locks, but
does not reset the lock bits of the other record
(`lock_rec_inherit_to_gap_if_gap_lock`). -/
def lock_rec_inherit_to_gap_if_gap_lock (fuel : Nat) (s : lock_sys_t) (block : buf_block_t)
    (heir_heap_no heap_no : Nat) : Option lock_sys_t :=
  lock_rec_queue_loop (lock_rec_inherit_to_gap_if_gap_lock_step block heir_heap_no heap_no)
    heap_no fuel s (lock_rec_get_first s hash_id.rec_hash block heap_no)

/-- The body of the loop of `lock_rec_move_low`: the bit of the donating
record is reset, the `WAIT` flag of the lock is cleared, and the request
is added to the queue of the receiving record with the type mode the lock
had. -/
def lock_rec_move_step (receiver : buf_block_t) (receiver_heap_no donator_heap_no : Nat)
    (s : lock_sys_t) (lock : Nat) : Option lock_sys_t :=
  let s1 := s.set_lock lock (lock_rec_reset_nth_bit (s.lock lock) donator_heap_no)
  let type_mode := (s1.lock lock).type_mode
  let s2 :=
    if type_mode.wait then
      s1.set_lock lock { s1.lock lock with type_mode := { type_mode with wait := false } }
    else s1
  some (lock_rec_add_to_queue s2 type_mode receiver receiver_heap_no (s2.lock lock).index
    (s2.lock lock).trx false)

/-- Moves the locks of a record to another record and resets the lock
bits of the donating record (`lock_rec_move_low`). -/
def lock_rec_move_low (fuel : Nat) (s : lock_sys_t) (lock_hash : hash_id)
    (receiver donator : buf_block_t) (receiver_heap_no donator_heap_no : Nat) :
    Option lock_sys_t :=
  lock_rec_queue_loop (lock_rec_move_step receiver receiver_heap_no donator_heap_no)
    donator_heap_no fuel s (lock_rec_get_first s lock_hash donator donator_heap_no)

/-- Moves the locks of a record to another record and resets the lock
bits of the donating record (`lock_rec_move`). -/
def lock_rec_move (fuel : Nat) (s : lock_sys_t) (receiver donator : buf_block_t)
    (receiver_heap_no donator_heap_no : Nat) : Option lock_sys_t :=
  lock_rec_move_low fuel s hash_id.rec_hash receiver donator receiver_heap_no
    donator_heap_no

/-- Updates the lock table when a new user record is inserted
(`lock_update_insert`); `receiver_heap_no` is the heap number of the
inserted record and `donator_heap_no` the heap number of its successor,
which the source reads from the page. -/
def lock_update_insert (fuel : Nat) (s : lock_sys_t) (block : buf_block_t)
    (receiver_heap_no donator_heap_no : Nat) : Option lock_sys_t :=
  lock_rec_inherit_to_gap_if_gap_lock fuel s block receiver_heap_no donator_heap_no

/-- Updates the lock table when a record is removed
(`lock_update_delete`); `heap_no` is the heap number of the record and
`next_heap_no` the heap number of its successor, which the source reads
from the page. -/
def lock_update_delete (fuel : Nat) (s : lock_sys_t) (block : buf_block_t)
    (heap_no next_heap_no : Nat) : Option lock_sys_t :=
  (lock_rec_inherit_to_gap fuel s block block next_heap_no heap_no).bind
    (fun s1 => lock_rec_reset_and_release_wait fuel s1 block heap_no)

/-- Stores on the page infimum record the explicit locks of another
record (`lock_rec_store_on_page_infimum`); `heap_no` is the heap number
of the record. -/
def lock_rec_store_on_page_infimum (fuel : Nat) (s : lock_sys_t) (block : buf_block_t)
    (heap_no : Nat) : Option lock_sys_t :=
  lock_rec_move fuel s block block PAGE_HEAP_NO_INFIMUM heap_no

/-- Restores the state of explicit lock requests on a single record,
where the state was stored on the infimum of the page
(`lock_rec_restore_from_page_infimum`); `heap_no` is the heap number of
the record. -/
def lock_rec_restore_from_page_infimum (fuel : Nat) (s : lock_sys_t) (block : buf_block_t)
    (heap_no : Nat) (donator : buf_block_t) : Option lock_sys_t :=
  lock_rec_move fuel s block donator heap_no PAGE_HEAP_NO_INFIMUM

/-- Whether the lock `x` is on the page `p` with the bit of `hn` set:
the test that `lock_rec_get_first` and `lock_rec_get_next` apply to the
locks of a hash chain. -/
def on_rec (s : lock_sys_t) (p hn x : Nat) : Bool :=
  (s.lock x).page_id == p && lock_rec_get_nth_bit (s.lock x) hn

/-- The locks that follow `l` in the hash table `k` and are on the page
`p` with the bit of `hn` set. -/
def rest_queue (s : lock_sys_t) (k : hash_id) (p hn l : Nat) : List Nat :=
  (((s.hash k).dropWhile (fun i => i != l)).tail).filter (on_rec s p hn)

/-- Consistency of the hash table `k`: its chain has no duplicates and
holds allocated locks whose type mode selects this hash table. -/
structure chain_wf (s : lock_sys_t) (k : hash_id) : Prop where
  nodup : (s.hash k).Nodup
  alloc : ∀ x ∈ s.hash k, x < s.n_locks
  kind : ∀ x ∈ s.hash k, lock_hash_get (s.lock x).type_mode = k

/-- The effect that the body of a loop over the queue of the record
(`p`, `hn`) in the hash table `k` may have when it handles the lock `l`:
the hash table stays consistent, locks are at most appended to the chain,
none of them on the record; no lock of the chain other than `l` joins or
leaves the queue of the record; `l` stays on its page. -/
structure queue_step (k : hash_id) (p hn l : Nat) (s s1 : lock_sys_t) : Prop where
  wf : chain_wf s1 k
  ext : ∃ e, s1.hash k = s.hash k ++ e ∧ ∀ x ∈ e, on_rec s1 p hn x = false
  keep : ∀ x ∈ s.hash k, x ≠ l → on_rec s1 p hn x = on_rec s p hn x
  page : (s1.lock l).page_id = (s.lock l).page_id

/-- The transaction `T` has a lock request with the type mode `tm` on
the record (`p`, `hn`): a lock of the record hash table on the page with
the bit of the heap number set. -/
def rec_holds (s : lock_sys_t) (p hn T : Nat) (tm : type_mode_t) : Prop :=
  ∃ g ∈ s.rec_hash, (s.lock g).page_id = p ∧ lock_rec_get_nth_bit (s.lock g) hn = true
    ∧ (s.lock g).trx = T ∧ (s.lock g).type_mode = tm

/-- The lock system `s1` arises from `s` by adding granted requests on
the record (`ph`, `hh`) only: the locks allocated in `s` keep their owner,
type mode, page and index, and their bits other than the one of the
record; the record hash table has at most gained new lock objects, which
are on the page `ph` with no other bit than `hh`; the transactions keep
their isolation level, `duplicates`, `table_locks` and `wait_lock`; the
predicate hash tables and the table lists are the same. -/
structure heir_frame (ph hh : Nat) (s s1 : lock_sys_t) : Prop where
  n_locks : s.n_locks ≤ s1.n_locks
  mem : ∀ x ∈ s.rec_hash, x ∈ s1.rec_hash
  fresh : ∀ x ∈ s1.rec_hash, x ∉ s.rec_hash → s.n_locks ≤ x
  attr : ∀ x, x < s.n_locks →
    (s1.lock x).trx = (s.lock x).trx ∧ (s1.lock x).type_mode = (s.lock x).type_mode
    ∧ (s1.lock x).page_id = (s.lock x).page_id ∧ (s1.lock x).index = (s.lock x).index
    ∧ (s1.lock x).table = (s.lock x).table
  bits : ∀ x, x < s.n_locks → ∀ i, ((s.lock x).page_id ≠ ph ∨ i ≠ hh) →
    lock_rec_get_nth_bit (s1.lock x) i = lock_rec_get_nth_bit (s.lock x) i
  grow : ∀ x, x < s.n_locks → ∀ i, lock_rec_get_nth_bit (s.lock x) i = true →
    lock_rec_get_nth_bit (s1.lock x) i = true
  on_heir : ∀ x ∈ s1.rec_hash, s.n_locks ≤ x →
    (s1.lock x).page_id = ph ∧ (s1.lock x).type_mode.wait = false
    ∧ ∀ i, lock_rec_get_nth_bit (s1.lock x) i = true → i = hh
  trx : ∀ t, (s1.trx t).isolation_level = (s.trx t).isolation_level
    ∧ (s1.trx t).duplicates = (s.trx t).duplicates
    ∧ (s1.trx t).table_locks = (s.trx t).table_locks
    ∧ (s1.trx t).wait_lock = (s.trx t).wait_lock
  prdt : s1.prdt_hash = s.prdt_hash
  prdt_page : s1.prdt_page_hash = s.prdt_page_hash
  tbl : ∀ tb, (s1.tbl tb).locks = (s.tbl tb).locks
  ext : ∃ e, s1.rec_hash = s.rec_hash ++ e ∧ ∀ x ∈ e, s.n_locks ≤ x
  other : ∀ x, x < s.n_locks → x ∉ s.rec_hash → s1.lock x = s.lock x
  waiting : ∀ x, x < s.n_locks → (s.lock x).is_waiting = true → s1.lock x = s.lock x

/-- The common shape of the bodies of the loops of
`lock_rec_inherit_to_gap` and `lock_rec_inherit_to_gap_if_gap_lock`: a
lock that passes `test` is inherited to the heir record as a granted
request `LOCK_GAP | lock->mode()` of its transaction. -/
def inherit_step (test : lock_sys_t → Nat → Bool) (heir_block : buf_block_t)
    (heir_heap_no : Nat) (s : lock_sys_t) (lock : Nat) : Option lock_sys_t :=
  if test s lock then
    some (lock_rec_add_to_queue s { mode := (s.lock lock).mode, gap := true } heir_block
      heir_heap_no (s.lock lock).index (s.lock lock).trx false)
  else some s

/-- A lock system in which transaction 1, at READ COMMITTED, holds a
granted next-key `X` lock (lock 0) on (page 1, heap number 5). -/
def read_committed_state : lock_sys_t where
  locks := fun i =>
    if i = 0 then
      { trx := 1, type_mode := { mode := LOCK_X }, page_id := 1,
        bitmap := [false, false, false, false, false, true, false, false] }
    else default
  n_locks := 1
  trxs := fun t => if t = 1 then { trx_locks := [0], isolation_level := 1 } else default
  tables := fun t => if t = 0 then { n_rec_locks := 1 } else default
  rec_hash := [0]

/-- What `lock_rec_reset_and_release_wait_low` leaves of a lock of the
queue of the heap number `hn`: a waiting lock loses the bit that
`lock_rec_find_set_bit` finds and its `WAIT` flag, a granted lock loses
the bit of `hn`. -/
def reset_lock (hn : Nat) (l : lock_t) : lock_t :=
  if l.is_waiting then
    (lock_rec_reset_nth_bit l ((lock_rec_find_set_bit l).getD 0)).clear_wait
  else lock_rec_reset_nth_bit l hn

/-- The gap-lock set on the record (`p`, `N`): the pairs of transaction
and mode of the granted locks on the record that cover the gap before it,
that is, that are not `INSERT_INTENTION` and, unless the record is the
supremum, not `REC_NOT_GAP` (gap locks and next-key locks). -/
def gap_lock_set (s : lock_sys_t) (p N : Nat) : List (Nat × lock_mode) :=
  ((lock_rec_queue s hash_id.rec_hash p N).filter (fun g =>
      !(s.lock g).is_waiting && !(s.lock g).is_insert_intention
        && (decide (N = PAGE_HEAP_NO_SUPREMUM) || !(s.lock g).is_record_not_gap))).map
    (fun g => ((s.lock g).trx, (s.lock g).mode))

/-- The call `lock_update_insert` for a record with heap number `R`
placed before the record with heap number `N`, followed by
`lock_update_delete` of the record `R`. -/
def insert_then_delete (fuel : Nat) (s : lock_sys_t) (block : buf_block_t) (R N : Nat) :
    Option lock_sys_t :=
  (lock_update_insert fuel s block R N).bind
    (fun s1 => lock_update_delete fuel s1 block R N)

/-- The invariant of the loop of `lock_rec_move_low` that started in `s0`
with the donor record (`pd`, `dh`) and the receiver (`pr`, `rh`): `todo`
is what is left of the donor queue, its locks still have the owner and
type mode they had in `s0`; the requests on the receiver are those of the
locks of the donor queue of `s0` already handled, with the type mode that
`lock_rec_add_to_queue` gives them; a lock object of `s0` with the bit of
the receiver is not waiting. -/
structure move_inv (s0 : lock_sys_t) (pr rh pd dh : Nat) (todo : List Nat)
    (s : lock_sys_t) : Prop where
  queue : lock_rec_queue s hash_id.rec_hash pd dh = todo
  todo_attr : ∀ x ∈ todo, x ∈ lock_rec_queue s0 hash_id.rec_hash pd dh
    ∧ (s.lock x).type_mode = (s0.lock x).type_mode ∧ (s.lock x).trx = (s0.lock x).trx
  holds : ∀ T tm, rec_holds s pr rh T tm ↔
    ∃ l ∈ lock_rec_queue s0 hash_id.rec_hash pd dh, l ∉ todo ∧ (s0.lock l).trx = T
      ∧ tm = supremum_type_mode (s0.lock l).type_mode rh
  old_granted : ∀ x ∈ s.rec_hash, x < s0.n_locks → on_rec s pr rh x = true →
    (s.lock x).type_mode.wait = false
  n_locks : s0.n_locks ≤ s.n_locks
  length : s.rec_hash.length + todo.length
    ≤ s0.rec_hash.length + (lock_rec_queue s0 hash_id.rec_hash pd dh).length


/-- The type modes, `LOCK_WAIT` flag aside, of the lock requests of the
transaction `T` on the record (`p`, `hn`), in queue order. -/
def rec_coverage (s : lock_sys_t) (p hn T : Nat) : List type_mode_t :=
  ((lock_rec_queue s hash_id.rec_hash p hn).filter (fun g => (s.lock g).trx == T)).map
    (fun g => { (s.lock g).type_mode with wait := false })


/-! ## Moving a record list end and page split -/

/-- Modelled from the spec: `page_rec_get_next_low` of `page0page.h`
applied from the record with heap number `rec` on: a page is given as the
list of the heap numbers of its records in page order, the infimum first
and the supremum last; the result lists `rec` and the records after it. -/
def page_recs_from (page : List Nat) (rec : Nat) : List Nat :=
  page.dropWhile (fun h => h != rec)

/-- Modelled from the spec: `lock_get_min_heap_no` of `lock0priv.h`, the
heap number of the successor of the infimum on the page; `none` is a page
without a record after the infimum, which the source would read through
an invalid pointer. -/
def lock_get_min_heap_no (page : List Nat) : Option Nat :=
  (page_recs_from page PAGE_HEAP_NO_INFIMUM).tail.head?

/-- The inner loop `for (;;)` of `lock_move_rec_list_end` for the lock
`lock`: `recs1` lists the heap numbers from `rec1` on and `recs2` those
from `rec2` on; the loop ends at the supremum of the old page.  Reading
the heap number of a record past the end of a page is `none`. -/
def lock_move_rec_list_end_recs (new_block : buf_block_t) (lock : Nat)
    (type_mode : type_mode_t) : lock_sys_t → List Nat → List Nat → Option lock_sys_t
  | _, [], _ => none
  | s, rec1_heap_no :: recs1, recs2 =>
    if rec1_heap_no = PAGE_HEAP_NO_SUPREMUM then some s
    else
      match recs2 with
      | [] => none
      | rec2_heap_no :: recs2 =>
        let s3 :=
          if rec1_heap_no < lock_rec_get_n_bits (s.lock lock)
              && lock_rec_get_nth_bit (s.lock lock) rec1_heap_no then
            let s1 := s.set_lock lock (lock_rec_reset_nth_bit (s.lock lock) rec1_heap_no)
            let s2 :=
              if type_mode.wait then
                s1.set_lock lock
                  { s1.lock lock with
                    type_mode := { (s1.lock lock).type_mode with wait := false } }
              else s1
            lock_rec_add_to_queue s2 type_mode new_block rec2_heap_no (s2.lock lock).index
              (s2.lock lock).trx false
          else s
        lock_move_rec_list_end_recs new_block lock type_mode s3 recs1 recs2

/-- The outer loop of `lock_move_rec_list_end` over the locks of the page
in the record hash table, from `lock` on. -/
def lock_move_rec_list_end_loop (new_block : buf_block_t) (recs1 recs2 : List Nat) :
    Nat → lock_sys_t → Option Nat → Option lock_sys_t
  | _, s, none => some s
  | 0, _, some _ => none
  | fuel + 1, s, some lock =>
    (lock_move_rec_list_end_recs new_block lock (s.lock lock).type_mode s recs1 recs2).bind
      (fun s1 =>
        lock_move_rec_list_end_loop new_block recs1 recs2 fuel s1
          (lock_rec_get_next_on_page s1 lock))

/-- Moves the explicit locks on user records to another page if a record
list end is moved to another page (`lock_move_rec_list_end`); `page` and
`new_page` list the heap numbers of the records of `block` and of
`new_block` in page order, `rec` is the heap number of the first record
moved. -/
def lock_move_rec_list_end (fuel : Nat) (s : lock_sys_t) (new_block block : buf_block_t)
    (page new_page : List Nat) (rec : Nat) : Option lock_sys_t :=
  let rec1 := page_recs_from page rec
  let rec1 := if rec = PAGE_HEAP_NO_INFIMUM then rec1.tail else rec1
  let rec2 := (page_recs_from new_page PAGE_HEAP_NO_INFIMUM).tail
  lock_move_rec_list_end_loop new_block rec1 rec2 fuel s
    (s.page_chain hash_id.rec_hash block.page_id).head?

/-- Updates the lock table when a page is split to the right
(`lock_update_split_right`); `right_page` lists the heap numbers of the
records of the right page in page order. -/
def lock_update_split_right (fuel : Nat) (s : lock_sys_t)
    (right_block left_block : buf_block_t) (right_page : List Nat) : Option lock_sys_t :=
  (lock_get_min_heap_no right_page).bind (fun heap_no =>
    (lock_rec_move fuel s right_block left_block PAGE_HEAP_NO_SUPREMUM
        PAGE_HEAP_NO_SUPREMUM).bind
      (fun s1 =>
        lock_rec_inherit_to_gap fuel s1 left_block right_block PAGE_HEAP_NO_SUPREMUM
          heap_no))

/-- The requests on the record (`p`, `hn`) in queue order: owner and type
mode of each lock. -/
def rec_requests (s : lock_sys_t) (p hn : Nat) : List (Nat × type_mode_t) :=
  (lock_rec_queue s hash_id.rec_hash p hn).map (fun g => ((s.lock g).trx, (s.lock g).type_mode))

/-- The page split scenario: page 5 holds the records with the heap
numbers 2, 3 and 4; transaction 1, at REPEATABLE READ, holds `X` with
`REC_NOT_GAP` on heap number 3 (lock 0) and an `S` lock on the supremum of
the page (lock 1), stored with the `GAP` flag if `gap` is set (a request
`S` + `GAP` on the supremum is stored without the flag by
`lock_rec_add_to_queue`). -/
def split_state (gap : Bool) : lock_sys_t where
  locks := fun i =>
    if i = 0 then
      { trx := 1, type_mode := { mode := LOCK_X, rec_not_gap := true }, page_id := 5,
        bitmap := [false, false, false, true, false, false, false, false] }
    else if i = 1 then
      { trx := 1, type_mode := { mode := LOCK_S, gap := gap }, page_id := 5,
        bitmap := [false, true, false, false, false, false, false, false] }
    else default
  n_locks := 2
  trxs := fun t => if t = 1 then { trx_locks := [0, 1], isolation_level := 2 } else default
  tables := fun t => if t = 0 then { n_rec_locks := 2 } else default
  rec_hash := [0, 1]

/-- The page split of the scenario: the records with the heap numbers 3
and 4 of page 5 are moved to the new right page 6, where they get the heap
numbers 2 and 3, by `lock_move_rec_list_end`, and then
`lock_update_split_right` runs for the right page 6 and the left page
5. -/
def split_right_scenario (fuel : Nat) (s : lock_sys_t) : Option lock_sys_t :=
  (lock_move_rec_list_end fuel s { page_id := 6, n_heap := 4 } { page_id := 5, n_heap := 5 }
      [0, 2, 3, 4, 1] [0, 2, 3, 1] 3).bind
    (fun s1 =>
      lock_update_split_right fuel s1 { page_id := 6, n_heap := 4 }
        { page_id := 5, n_heap := 5 } [0, 2, 3, 1])


/-! ## Waits-for graph -/

/-- The locks that follow `l` in the list `Q`. -/
def queue_after (Q : List Nat) (l : Nat) : List Nat :=
  (Q.dropWhile (fun i => i != l)).tail


/-- The queue in which the waiting lock `w` stands, as the deadlock
checker walks it: for a table lock the lock list of its table, for a
record lock the locks of its page, in the order of the hash chain
(`prdt_hash` for a predicate lock, `rec_hash` otherwise), that have the
bit of the heap number of `w` set. -/
def wait_queue (s : lock_sys_t) (w : Nat) : List Nat :=
  if (s.lock w).is_table then (s.tbl (s.lock w).table).locks
  else
    match lock_rec_find_set_bit (s.lock w) with
    | none => []
    | some heap_no =>
      lock_rec_queue s
        (if (s.lock w).type_mode.predicate then hash_id.prdt_hash else hash_id.rec_hash)
        (s.lock w).page_id heap_no

/-- The lock `l` lies ahead of the waiting lock `w` in the queue of
`w`. -/
def lock_ahead (s : lock_sys_t) (w l : Nat) : Prop :=
  w ∈ wait_queue s w ∧ (wait_queue s w).indexOf l < (wait_queue s w).indexOf w

/-- Waits-for edge from the transaction `t1` to the transaction `t2`:
`t1` has a `wait_lock` `w`, `t2` owns a lock `l` ahead of `w` in the queue
of `w`, and `lock_has_to_wait(w, l)` holds. -/
def waits_for (E : Env) (s : lock_sys_t) (t1 t2 : Nat) : Prop :=
  ∃ w l, (s.trx t1).wait_lock = some w ∧ (s.lock l).trx = t2 ∧ lock_ahead s w l
    ∧ lock_has_to_wait E s w l = true

/-- Consistency of the queues that the deadlock checker walks: the hash
chains and table lists have no duplicates, a hash chain holds record locks
of its own kind, a table list holds the table locks of its table, and the
`wait_lock` of a transaction is owned by it and stands in its queue. -/
structure waits_wf (s : lock_sys_t) : Prop where
  nodup : ∀ k, (s.hash k).Nodup
  kind : ∀ k, ∀ x ∈ s.hash k,
    lock_hash_get (s.lock x).type_mode = k ∧ (s.lock x).is_table = false
  tbl_nodup : ∀ t, (s.tbl t).locks.Nodup
  tbl_kind : ∀ t, ∀ x ∈ (s.tbl t).locks, (s.lock x).is_table = true ∧ (s.lock x).table = t
  wait : ∀ t w, (s.trx t).wait_lock = some w → (s.lock w).trx = t ∧ w ∈ wait_queue s w

/-- The heap number that the deadlock checker carries along for the queue
of the waiting lock `w`: for a record lock the first set bit of `w`. -/
def heap_ok (s : lock_sys_t) (w : Nat) (heap_no : Option Nat) : Prop :=
  (s.lock w).is_table = false → heap_no = lock_rec_find_set_bit (s.lock w)

/-- The test of `is_visited` for the mark `m` that the search started
with. -/
def visited (s : lock_sys_t) (m lock : Nat) : Bool :=
  decide ((s.trx (s.lock lock).trx).deadlock_mark > m)

/-- The stack of the deadlock checker describes a path of waits-for edges
from the transaction `start`: `w` is the current wait lock; each frame
holds a lock ahead of the wait lock of its level, for which that wait lock
has to wait and whose owner, not `start`, waits for the wait lock of the
level above. -/
def frames_ok (E : Env) (s : lock_sys_t) (start : Nat) : Nat → List state_t → Prop
  | w, [] => (s.trx start).wait_lock = some w
  | w, st :: rest =>
    (s.trx (s.lock st.m_lock).trx).wait_lock = some w
    ∧ (s.trx (s.lock st.m_lock).trx).wait_thr.isSome = true
    ∧ (s.lock st.m_lock).trx ≠ start
    ∧ lock_has_to_wait E s st.m_wait_lock st.m_lock = true
    ∧ lock_ahead s st.m_wait_lock st.m_lock
    ∧ heap_ok s st.m_wait_lock st.m_heap_no
    ∧ frames_ok E s start st.m_wait_lock rest

/-- What the invariant of `search` says about the current lock: no
current lock means that the level is finished, its wait lock has been
reached and its owner marked; a current lock is not visited, stands in the
queue of the wait lock `w`, not behind `w`, which is not visited, and not
behind the lock of a frame with the same wait lock. -/
def top_ok (s0 s : lock_sys_t) (m w : Nat) (stack : List state_t) (heap_no : Option Nat) :
    Option Nat → Prop
  | none => visited s m w = true
  | some l =>
    visited s m w = false ∧ visited s m l = false ∧ l ∈ wait_queue s0 w
    ∧ (wait_queue s0 w).indexOf l ≤ (wait_queue s0 w).indexOf w
    ∧ (∀ st ∈ stack, st.m_wait_lock = w →
        (wait_queue s0 w).indexOf l ≤ (wait_queue s0 w).indexOf st.m_lock)
    ∧ heap_ok s0 w heap_no

/-- The invariant of the loop of `DeadlockChecker::search` that started
in the lock system `s0`: only marks have changed; the stack is a path of
waits-for edges; the wait locks of the frames are not visited; of two
frames with the same wait lock the upper one holds a lock that is not
behind the lock of the lower one. -/
structure search_inv (E : Env) (s0 s : lock_sys_t) (c : DeadlockChecker) (lock : Option Nat)
    (heap_no : Option Nat) : Prop where
  marks : only_marks s0 s
  counter : c.m_mark_start ≤ s.s_lock_mark_counter
  frames : frames_ok E s0 c.m_start c.m_wait_lock c.s_states
  unvisited : ∀ st ∈ c.s_states, visited s c.m_mark_start st.m_wait_lock = false
  order : c.s_states.Pairwise (fun a b => a.m_wait_lock = b.m_wait_lock →
    (wait_queue s0 a.m_wait_lock).indexOf a.m_lock
      ≤ (wait_queue s0 a.m_wait_lock).indexOf b.m_lock)
  top : top_ok s0 s c.m_mark_start c.m_wait_lock c.s_states heap_no lock


/-- The lock system after `lock->trx->lock.deadlock_mark =
++s_lock_mark_counter` for the transaction `tr`, as in the loop of
`search`. -/
def mark_searched (s : lock_sys_t) (tr : Nat) : lock_sys_t :=
  ({ s with s_lock_mark_counter := s.s_lock_mark_counter + 1 } : lock_sys_t).set_trx tr
    { ({ s with s_lock_mark_counter := s.s_lock_mark_counter + 1 } : lock_sys_t).trx tr with
      deadlock_mark := s.s_lock_mark_counter + 1 }


/-- A deadlock of three transactions on the records (page 1, heap number
2), (page 2, heap number 2) and (page 3, heap number 2): transaction 1
holds `X` on the record of page 3 (lock 0), transaction 2 on the record of
page 1 (lock 1) and transaction 3 on the record of page 2 (lock 2);
transaction 2 waits for `X` on page 2 (lock 3), transaction 3 for `X` on
page 3 (lock 4), and transaction 1, which joins last, for `X` on page 1
(lock 5). -/
def deadlock_state : lock_sys_t where
  locks := fun i =>
    if i = 0 then
      { trx := 1, type_mode := { mode := LOCK_X }, page_id := 3,
        bitmap := [false, false, true, false, false, false, false, false] }
    else if i = 1 then
      { trx := 2, type_mode := { mode := LOCK_X }, page_id := 1,
        bitmap := [false, false, true, false, false, false, false, false] }
    else if i = 2 then
      { trx := 3, type_mode := { mode := LOCK_X }, page_id := 2,
        bitmap := [false, false, true, false, false, false, false, false] }
    else if i = 3 then
      { trx := 2, type_mode := { mode := LOCK_X, wait := true }, page_id := 2,
        bitmap := [false, false, true, false, false, false, false, false] }
    else if i = 4 then
      { trx := 3, type_mode := { mode := LOCK_X, wait := true }, page_id := 3,
        bitmap := [false, false, true, false, false, false, false, false] }
    else if i = 5 then
      { trx := 1, type_mode := { mode := LOCK_X, wait := true }, page_id := 1,
        bitmap := [false, false, true, false, false, false, false, false] }
    else default
  n_locks := 6
  trxs := fun t =>
    if t = 1 then { trx_locks := [0, 5], wait_lock := some 5, wait_thr := some 1 }
    else if t = 2 then { trx_locks := [1, 3], wait_lock := some 3, wait_thr := some 2 }
    else if t = 3 then { trx_locks := [2, 4], wait_lock := some 4, wait_thr := some 3 }
    else default
  tables := fun t => if t = 0 then { n_rec_locks := 6 } else default
  rec_hash := [0, 1, 2, 3, 4, 5]


/-! ## The read-update-write lock of `rw_lock.h` -/

namespace rw_lock

/-- Available lock. -/
def UNLOCKED : Nat := 0

/-- Flag to indicate that `write_lock()` is being held. -/
def WRITER : Nat := 1 <<< 31

/-- Flag to indicate that `write_lock_wait()` is pending. -/
def WRITER_WAITING : Nat := 1 <<< 30

/-- Flag to indicate that `write_lock()` or `write_lock_wait()` is
pending. -/
def WRITER_PENDING : Nat := WRITER ||| WRITER_WAITING

/-- Flag to indicate that an update lock exists. -/
def UPDATER : Nat := 1 <<< 29

/-- Bitwise complement `~x` of a `uint32_t`. -/
def not32 (x : Nat) : Nat := (2 ^ 32 - 1) ^^^ x

/-- The call `lock.compare_exchange_strong(l, desired)` on the lock word
`lock`: whether the exchange took place, the lock word afterwards and the
value of `l` afterwards (the observed word if the exchange failed). -/
def compare_exchange_strong (lock l desired : Nat) : Bool × Nat × Nat :=
  if lock = l then (true, desired, l) else (false, lock, lock)

/-- The call `lock.fetch_or(m)`: the value returned and the lock word
afterwards. -/
def fetch_or (lock m : Nat) : Nat × Nat := (lock, lock ||| m)

/-- The call `lock.fetch_and(m)`: the value returned and the lock word
afterwards. -/
def fetch_and (lock m : Nat) : Nat × Nat := (lock, lock &&& m)

/-- The call `lock.fetch_sub(n)` on a `uint32_t`: the value returned and
the lock word afterwards. -/
def fetch_sub (lock n : Nat) : Nat × Nat := (lock, (lock + (2 ^ 32 - n % 2 ^ 32)) % 2 ^ 32)

/-- Start waiting for an exclusive lock (`write_lock_wait_start`): the
value returned and the lock word afterwards. -/
def write_lock_wait_start (lock : Nat) : Nat × Nat := fetch_or lock WRITER_WAITING

/-- Wait for an exclusive lock (`write_lock_wait_try`): whether the lock
was acquired, the lock word and `l` afterwards. -/
def write_lock_wait_try (lock l : Nat) : Bool × Nat × Nat :=
  compare_exchange_strong lock l WRITER

/-- The test in the loop body of `read_trylock` that makes it return
false. -/
def read_trylock_test (prioritize_updater : Bool) (l : Nat) : Bool :=
  if prioritize_updater then
    decide (WRITER &&& l ≠ 0) || decide ((WRITER_WAITING ||| UPDATER) &&& l = WRITER_WAITING)
  else decide (WRITER_PENDING &&& l ≠ 0)

/-- One turn of the loop of `read_trylock`, with its single atomic
operation: the exchange and, if it failed, the test of the loop body.  The
result is `some b` if the function returns `b` and `none` if the loop goes
on, with the lock word and `l` afterwards. -/
def read_trylock_turn (prioritize_updater : Bool) (lock l : Nat) : Option Bool × Nat × Nat :=
  match compare_exchange_strong lock l ((l + 1) % 2 ^ 32) with
  | (true, lock1, l1) => (some true, lock1, l1)
  | (false, lock1, l1) =>
    (if read_trylock_test prioritize_updater l1 then some false else none, lock1, l1)

/-- The loop of a try-lock function run without interference, on `fuel`:
`turn` is one turn of the loop.  The result is the value returned, the
lock word and `l`. -/
def trylock_loop (turn : Nat → Nat → Option Bool × Nat × Nat) :
    Nat → Nat → Nat → Option (Bool × Nat × Nat)
  | 0, _, _ => none
  | fuel + 1, lock, l =>
    match turn lock l with
    | (some b, lock1, l1) => some (b, lock1, l1)
    | (none, lock1, l1) => trylock_loop turn fuel lock1 l1

/-- Try to acquire a shared lock (`read_trylock(l)`), run without
interference: the value returned, the lock word and the out-parameter `l`
afterwards. -/
def read_trylock (prioritize_updater : Bool) (fuel lock : Nat) : Option (Bool × Nat × Nat) :=
  trylock_loop (read_trylock_turn prioritize_updater) fuel lock UNLOCKED

/-- One turn of the loop of `update_trylock`. -/
def update_trylock_turn (lock l : Nat) : Option Bool × Nat × Nat :=
  match compare_exchange_strong lock l (l ||| UPDATER) with
  | (true, lock1, l1) => (some true, lock1, l1)
  | (false, lock1, l1) =>
    (if (WRITER_PENDING ||| UPDATER) &&& l1 ≠ 0 then some false else none, lock1, l1)

/-- Try to acquire an update lock (`update_trylock(l)`), run without
interference. -/
def update_trylock (fuel lock : Nat) : Option (Bool × Nat × Nat) :=
  trylock_loop update_trylock_turn fuel lock UNLOCKED

/-- One turn of the loop of `upgrade_trylock`. -/
def upgrade_trylock_turn (lock l : Nat) : Option Bool × Nat × Nat :=
  match compare_exchange_strong lock l (l ^^^ (WRITER ||| UPDATER)) with
  | (true, lock1, l1) => (some true, lock1, l1)
  | (false, lock1, l1) =>
    (if not32 (WRITER_WAITING ||| UPDATER) &&& l1 ≠ 0 then some false else none, lock1, l1)

/-- Try to upgrade an update lock to an exclusive lock
(`upgrade_trylock`), run without interference: the value returned, the
lock word and the local `l`. -/
def upgrade_trylock (fuel lock : Nat) : Option (Bool × Nat × Nat) :=
  trylock_loop upgrade_trylock_turn fuel lock UPDATER

/-- Wait for an exclusive lock (`write_lock_poll`), run without
interference: whether the lock was acquired and the lock word. -/
def write_lock_poll (lock : Nat) : Bool × Nat :=
  match write_lock_wait_try lock WRITER_WAITING with
  | (true, lock1, _) => (true, lock1)
  | (false, lock1, l) =>
    if WRITER_WAITING &&& l = 0 then (false, (write_lock_wait_start lock1).2)
    else (false, lock1)

/-- Release a shared lock (`read_unlock`): whether any writers may have to
be woken up, and the lock word. -/
def read_unlock (lock : Nat) : Bool × Nat :=
  let r := fetch_sub lock 1
  (decide (not32 WRITER_PENDING &&& r.1 = 1), r.2)

/-- Release an update lock (`update_unlock`). -/
def update_unlock (lock : Nat) : Nat := (fetch_and lock (not32 UPDATER)).2

/-- Release an exclusive lock (`write_unlock`). -/
def write_unlock (lock : Nat) : Nat := (fetch_and lock (not32 WRITER)).2

/-- Try to acquire an exclusive lock (`write_trylock`). -/
def write_trylock (lock : Nat) : Bool × Nat :=
  let r := compare_exchange_strong lock UNLOCKED WRITER
  (r.1, r.2.1)

end rw_lock


namespace rw_lock

/-- A lock word together with the locks that threads hold on it: the
number of shared locks, whether the update lock is held and whether the
exclusive lock is held. -/
structure held where
  lock : Nat := UNLOCKED
  readers : Nat := 0
  updater : Bool := false
  writer : Bool := false

/-- The values that the variable `l` of `read_trylock` can have when the
exchange is attempted: `UNLOCKED` in the first turn of the loop, later a
value that has passed the test of the loop body. -/
def read_trylock_local (prioritize_updater : Bool) (l : Nat) : Prop :=
  l = UNLOCKED ∨ read_trylock_test prioritize_updater l = false

/-- The values that the variable `l` of `update_trylock` can have when the
exchange is attempted. -/
def update_trylock_local (l : Nat) : Prop :=
  l = UNLOCKED ∨ (WRITER_PENDING ||| UPDATER) &&& l = 0

/-- The values that the variable `l` of `upgrade_trylock` can have when
the exchange is attempted. -/
def upgrade_trylock_local (l : Nat) : Prop :=
  l = UPDATER ∨ not32 (WRITER_WAITING ||| UPDATER) &&& l = 0

/-- An atomic step of some thread on the lock word: a turn of the loop of
`read_trylock` (either variant, while fewer than `2^29 - 1` shared locks
are held), of `update_trylock` or of `upgrade_trylock` (by the holder of
the update lock), `write_trylock`, `write_lock_wait_start`, the exchange
of `write_lock_poll` (its other atomic operation is
`write_lock_wait_start`), and `read_unlock`, `update_unlock` and
`write_unlock` by a holder of the lock.  A successful step changes the
locks held accordingly. -/
inductive atomic_step : held → held → Prop
  | read_trylock (p : Bool) (l : Nat) (σ : held) :
    read_trylock_local p l → σ.readers < 2 ^ 29 - 1 →
    atomic_step σ
      { σ with
        lock := (read_trylock_turn p σ.lock l).2.1,
        readers :=
          if (read_trylock_turn p σ.lock l).1 = some true then σ.readers + 1
          else σ.readers }
  | update_trylock (l : Nat) (σ : held) :
    update_trylock_local l →
    atomic_step σ
      { σ with
        lock := (update_trylock_turn σ.lock l).2.1,
        updater := σ.updater || decide ((update_trylock_turn σ.lock l).1 = some true) }
  | write_trylock (σ : held) :
    atomic_step σ
      { σ with
        lock := (write_trylock σ.lock).2,
        writer := σ.writer || (write_trylock σ.lock).1 }
  | upgrade_trylock (l : Nat) (σ : held) :
    upgrade_trylock_local l → σ.updater = true →
    atomic_step σ
      { σ with
        lock := (upgrade_trylock_turn σ.lock l).2.1,
        updater := !decide ((upgrade_trylock_turn σ.lock l).1 = some true),
        writer := σ.writer || decide ((upgrade_trylock_turn σ.lock l).1 = some true) }
  | write_lock_wait_start (σ : held) :
    atomic_step σ { σ with lock := (write_lock_wait_start σ.lock).2 }
  | write_lock_poll (σ : held) :
    atomic_step σ
      { σ with
        lock := (write_lock_wait_try σ.lock WRITER_WAITING).2.1,
        writer := σ.writer || (write_lock_wait_try σ.lock WRITER_WAITING).1 }
  | read_unlock (σ : held) :
    0 < σ.readers →
    atomic_step σ { σ with lock := (read_unlock σ.lock).2, readers := σ.readers - 1 }
  | update_unlock (σ : held) :
    σ.updater = true →
    atomic_step σ { σ with lock := update_unlock σ.lock, updater := false }
  | write_unlock (σ : held) :
    σ.writer = true →
    atomic_step σ { σ with lock := write_unlock σ.lock, writer := false }

/-- The lock word agrees with the locks held: its bits 0 to 28 are the
number of shared locks, `UPDATER` and `WRITER` are set exactly when the
update lock and the exclusive lock are held, and the exclusive lock
excludes the others. -/
def held_ok (σ : held) : Prop :=
  ∃ a, a < 8 ∧ σ.lock = 2 ^ 29 * a + σ.readers ∧ σ.readers < 2 ^ 29
    ∧ σ.writer = decide (4 ≤ a) ∧ σ.updater = decide (a % 2 = 1)
    ∧ (4 ≤ a → σ.readers = 0 ∧ a % 2 = 0)

end rw_lock


/-! ## Statements about the enqueue policy -/

/-- The lock system `s1` arises from `s` by creating a new lock struct
for the request of `trx` with type mode `tm` on the heap number `heap_no`
of the page of `block`: the struct is allocated at the address
`s.n_locks`, has no other bit than that of `heap_no`, and is appended to
the hash chain that `tm` selects, so that it is the last lock of the page
chain; no existing lock changes and no other chain changes. -/
structure struct_created (s s1 : lock_sys_t) (tm : type_mode_t) (block : buf_block_t)
    (heap_no : Nat) (index : dict_index_t) (trx : Nat) : Prop where
  n_locks : s1.n_locks = s.n_locks + 1
  lock_trx : (s1.lock s.n_locks).trx = trx
  lock_type_mode : (s1.lock s.n_locks).type_mode = tm
  lock_page : (s1.lock s.n_locks).page_id = block.page_id
  lock_index : (s1.lock s.n_locks).index = index
  only_bit : ∀ i, lock_rec_get_nth_bit (s1.lock s.n_locks) i = true → i = heap_no
  bit : heap_no < lock_rec_get_n_bits (s1.lock s.n_locks) →
    lock_rec_get_nth_bit (s1.lock s.n_locks) heap_no = true
  n_bits : lock_rec_get_n_bits (s1.lock s.n_locks)
    = if !(tm.predicate || tm.prdt_page) then ((block.n_heap + 7) / 8) * 8 else 8
  others : ∀ x, x ≠ s.n_locks → s1.lock x = s.lock x
  chain : s1.hash (lock_hash_get tm) = s.hash (lock_hash_get tm) ++ [s.n_locks]
  page_chain : s1.page_chain (lock_hash_get tm) block.page_id
    = s.page_chain (lock_hash_get tm) block.page_id ++ [s.n_locks]
  other_chains : ∀ k, k ≠ lock_hash_get tm → s1.hash k = s.hash k

/-- The lock system `s1` arises from `s` by setting the bit of `heap_no`
in the existing lock struct `g`: no struct is created, no chain changes,
no other lock and no other bit of `g` changes. -/
structure bit_set_in (s s1 : lock_sys_t) (g heap_no : Nat) : Prop where
  n_locks : s1.n_locks = s.n_locks
  chains : ∀ k, s1.hash k = s.hash k
  lock : s1.lock g = lock_rec_set_nth_bit (s.lock g) heap_no
  bit : lock_rec_get_nth_bit (s1.lock g) heap_no = true
  other_bits : ∀ i, i ≠ heap_no →
    lock_rec_get_nth_bit (s1.lock g) i = lock_rec_get_nth_bit (s.lock g) i
  others : ∀ x, x ≠ g → s1.lock x = s.lock x

/-- The test of `lock_rec_find_similar_on_page`: the lock `g` is a struct
of the transaction `trx` with the type mode `tm` and more than `heap_no`
bits. -/
def similar_struct (s : lock_sys_t) (tm : type_mode_t) (heap_no trx g : Nat) : Prop :=
  (s.lock g).trx = trx ∧ (s.lock g).type_mode = tm ∧ lock_rec_get_n_bits (s.lock g) > heap_no


/-! ## The loop of `DeadlockChecker::search`, turn by turn -/

namespace DeadlockChecker

/-- The variables of the `for (;;)` loop of `search`: the lock system, the
checker, the current lock and the current heap number. -/
structure loop_state where
  s : lock_sys_t
  c : DeadlockChecker
  lock : Option Nat
  heap_no : Option Nat

/-- One turn of the `for (;;)` loop of `search`: either the function
returns (`Sum.inl`, with the victim, the checker and the lock system) or
the loop continues with new values of its variables (`Sum.inr`); `none`
stands for a failed `ut_a` or a NULL dereference. -/
def search_iter (E : Env) (x : loop_state) :
    Option ((Option Nat × DeadlockChecker × lock_sys_t) ⊕ loop_state) :=
  match unwind x.s x.c.s_states x.c x.lock x.heap_no with
  | (c, none, _) => some (Sum.inl (none, c, x.s))
  | (c, some lock, heap_no) =>
    let s := x.s
    if lock = c.m_wait_lock then
      let counter := s.s_lock_mark_counter + 1
      let tr := (s.lock lock).trx
      let s1 := { s with s_lock_mark_counter := counter }
      let s2 := s1.set_trx tr { s1.trx tr with deadlock_mark := counter }
      some (Sum.inr ⟨s2, c, none, heap_no⟩)
    else if !lock_has_to_wait E s c.m_wait_lock lock then
      some (Sum.inr ⟨s, c, get_next_lock s c lock heap_no, heap_no⟩)
    else
      let trx := (s.lock lock).trx
      if trx = c.m_start then
        some (Sum.inl (some (select_victim s c), c, s))
      else if c.is_too_deep then
        some (Sum.inl (some c.m_start, { c with m_too_deep := true }, s))
      else
        match (s.trx trx).wait_lock with
        | some wait_lock =>
          if (s.trx trx).wait_thr.isSome then
            let c1 := { c with m_cost := c.m_cost + 1 }
            match push E c1 lock heap_no with
            | none => some (Sum.inl (some c1.m_start, { c1 with m_too_deep := true }, s))
            | some c2 =>
              let c3 := { c2 with m_wait_lock := wait_lock }
              match get_first_lock s c3 with
              | none => none
              | some (first, heap_no1) =>
                if is_visited s c3 first then
                  some (Sum.inr ⟨s, c3, get_next_lock s c3 first heap_no1, heap_no1⟩)
                else
                  some (Sum.inr ⟨s, c3, some first, heap_no1⟩)
          else
            some (Sum.inr ⟨s, c, get_next_lock s c lock heap_no, heap_no⟩)
        | none =>
          some (Sum.inr ⟨s, c, get_next_lock s c lock heap_no, heap_no⟩)

/-- The loop of `search` continues from the variables `x` with the
variables `y` after one turn. -/
def search_turn (E : Env) (x y : loop_state) : Prop :=
  search_iter E x = some (Sum.inr y)

/-- The turn of the loop that starts with the variables `x` meets, after
restoring the search state, a lock of another transaction than the joining
one for which the current waiting lock has to wait: the point of `search`
at which `is_too_deep()` is evaluated. -/
def at_depth_check (E : Env) (x : loop_state) : Bool :=
  match unwind x.s x.c.s_states x.c x.lock x.heap_no with
  | (_, none, _) => false
  | (c, some lock, _) =>
    decide (lock ≠ c.m_wait_lock) && lock_has_to_wait E x.s c.m_wait_lock lock
      && decide ((x.s.lock lock).trx ≠ c.m_start)

/-- The checker after the search state has been restored at the start of
the turn of the loop with the variables `x`. -/
def restored (x : loop_state) : DeadlockChecker :=
  (unwind x.s x.c.s_states x.c x.lock x.heap_no).1

end DeadlockChecker

/-! ## Lock objects up to the `WAIT` flag -/

/-- The lock objects of `s1` are those of `s` up to the `WAIT` flag: no
lock object is allocated, and each one has its transaction, mode, flags
other than `WAIT`, page and bitmap unchanged. -/
def same_core (s s1 : lock_sys_t) : Prop :=
  s1.n_locks = s.n_locks ∧ ∀ g, (s1.lock g).clear_wait = (s.lock g).clear_wait

/-! ## Invariants of the lock objects -/

/-- The record lock struct that `lock_rec_create_low` initialises for a
request with `type_mode` on `heap_no`: the flags `GAP` and `REC_NOT_GAP`
are dropped on the supremum, the bitmap has `n_bits` bits and only the bit
of `heap_no` is set. -/
def new_rec_lock (type_mode : type_mode_t) (block : buf_block_t) (heap_no : Nat)
    (index : dict_index_t) (trx : Nat) : lock_t :=
  { trx := trx, type_mode := supremum_type_mode type_mode heap_no, index := index,
    page_id := block.page_id,
    bitmap := (List.replicate
      (if !((supremum_type_mode type_mode heap_no).predicate
            || (supremum_type_mode type_mode heap_no).prdt_page) then
        ((block.n_heap + 7) / 8) * 8
      else 8) false).set heap_no true }

/-- A property of lock objects that does not depend on the `WAIT` flag
and is kept when a bit of the bitmap is reset. -/
structure lock_property (P : lock_t → Prop) : Prop where
  clear_wait : ∀ l, P l.clear_wait ↔ P l
  reset : ∀ l i, P l → P (lock_rec_reset_nth_bit l i)

/-- Every lock object of the lock system has the property `P`. -/
def all_locks (P : lock_t → Prop) (s : lock_sys_t) : Prop := ∀ g, P (s.lock g)
/-! ## Locks on the page supremum -/

/-- A lock object whose bitmap has the bit of the page supremum has
neither `GAP` nor `REC_NOT_GAP` in its `type_mode`. -/
def supremum_plain (l : lock_t) : Prop :=
  lock_rec_get_nth_bit l PAGE_HEAP_NO_SUPREMUM = true →
    l.type_mode.gap = false ∧ l.type_mode.rec_not_gap = false

/-- A request of `lock_rec_lock` that has neither `GAP` nor `REC_NOT_GAP`
when it is made on the page supremum. -/
def supremum_request (mode : type_mode_t) (heap_no : Nat) : Prop :=
  heap_no = PAGE_HEAP_NO_SUPREMUM → mode.gap = false ∧ mode.rec_not_gap = false

/-- One call of `lock_rec_lock` (that returns, with a request that `ok`
admits), of `lock_rec_add_to_queue` or of `lock_rec_create_low`, with any
arguments. -/
inductive rec_lock_op (E : Env) (ok : type_mode_t → Nat → Prop) :
    lock_sys_t → lock_sys_t → Prop
  | lock_rec_lock (fuel : Nat) (s : lock_sys_t) (impl : Bool) (mode : type_mode_t)
      (block : buf_block_t) (heap_no : Nat) (index : dict_index_t) (thr : Nat)
      (err : dberr_t) (s1 : lock_sys_t) :
    ok mode heap_no →
    InnoLock.lock_rec_lock E fuel s impl mode block heap_no index thr = some (err, s1) →
    rec_lock_op E ok s s1
  | lock_rec_add_to_queue (s : lock_sys_t) (type_mode : type_mode_t) (block : buf_block_t)
      (heap_no : Nat) (index : dict_index_t) (trx : Nat) (caller_owns_trx_mutex : Bool) :
    rec_lock_op E ok s
      (InnoLock.lock_rec_add_to_queue s type_mode block heap_no index trx
        caller_owns_trx_mutex)
  | lock_rec_create_low (s : lock_sys_t) (type_mode : type_mode_t)
      (page_id n_heap heap_no : Nat) (index : dict_index_t) (trx : Nat)
      (holds_trx_mutex : Bool) :
    rec_lock_op E ok s
      (InnoLock.lock_rec_create_low s type_mode page_id n_heap heap_no index trx
        holds_trx_mutex).2

/-! ## Insert intention locks -/

/-- A lock system in which transaction 1 holds an `IS` lock on table 0
(lock 1) and an `S` lock on the supremum of page 5 (lock 0), and
transaction 2 holds an `IX` lock on table 0 (lock 2). -/
def supremum_state : lock_sys_t where
  locks := fun i =>
    if i = 0 then
      { trx := 1, type_mode := { mode := LOCK_S }, page_id := 5,
        bitmap := [false, true, false, false, false, false, false, false] }
    else if i = 1 then
      { trx := 1, type_mode := { mode := LOCK_IS, table := true }, table := 0 }
    else if i = 2 then
      { trx := 2, type_mode := { mode := LOCK_IX, table := true }, table := 0 }
    else default
  n_locks := 4
  trxs := fun t =>
    if t = 1 then { trx_locks := [1, 0], table_locks := [some 1] }
    else if t = 2 then { trx_locks := [2], table_locks := [some 2] }
    else default
  tables := fun t =>
    if t = 0 then { locks := [1, 2], n_rec_locks := 1, autoinc_lock := 3 } else default
  rec_hash := [0]

/-- A lock object with the `INSERT_INTENTION` flag has the mode `X`, and
it has the `GAP` flag or no bit other than that of the page supremum. -/
def intention_gap (l : lock_t) : Prop :=
  l.type_mode.insert_intention = true →
    l.type_mode.mode = LOCK_X
    ∧ (l.type_mode.gap = true
      ∨ ∀ i, lock_rec_get_nth_bit l i = true → i = PAGE_HEAP_NO_SUPREMUM)

/-- A request for a record lock on `heap_no` that, when it has the
`INSERT_INTENTION` flag, has the mode `X` and the `GAP` flag unless the
record is the page supremum. -/
def intention_request (type_mode : type_mode_t) (heap_no : Nat) : Prop :=
  type_mode.insert_intention = true →
    type_mode.mode = LOCK_X ∧ (type_mode.gap = true ∨ heap_no = PAGE_HEAP_NO_SUPREMUM)

/-! ## The wait-lock invariant on the lock lists -/

/-- The wait-lock invariant in the words of the specification: for every
transaction, `wait_lock` is non-null if and only if some lock of its lock
list has the `WAIT` flag, at most one lock of the list has it, and
`wait_lock` is that lock. -/
def wait_lock_claim (s : lock_sys_t) : Prop :=
  ∀ t,
    ((s.trx t).wait_lock ≠ none ↔
      ∃ g ∈ (s.trx t).trx_locks, (s.lock g).is_waiting = true)
    ∧ (∀ g1 ∈ (s.trx t).trx_locks, ∀ g2 ∈ (s.trx t).trx_locks,
        (s.lock g1).is_waiting = true → (s.lock g2).is_waiting = true → g1 = g2)
    ∧ (∀ w, (s.trx t).wait_lock = some w →
        w ∈ (s.trx t).trx_locks ∧ (s.lock w).is_waiting = true)

/-- The invariant that the operations of the lock manager keep and that
gives `wait_lock_claim`: `wait_lock` pointers and `WAIT` flags agree
(`wait_inv`); the `wait_lock` of a transaction is in its lock list; a
waiting lock of a lock list belongs to the transaction of the list; the
locks of the lock lists are allocated; the locks of the `autoinc_locks`
vectors are allocated and not waiting; a waiting lock has at most one bit
set in its bitmap. -/
structure wait_ok (s : lock_sys_t) : Prop where
  inv : wait_inv s
  listed : ∀ t w, (s.trx t).wait_lock = some w → w ∈ (s.trx t).trx_locks
  owner : ∀ t g, g ∈ (s.trx t).trx_locks → (s.lock g).is_waiting = true →
    (s.lock g).trx = t
  alloc : ∀ t g, g ∈ (s.trx t).trx_locks → g < s.n_locks
  autoinc : ∀ t g, some g ∈ (s.trx t).autoinc_locks →
    g < s.n_locks ∧ (s.lock g).is_waiting = false
  one_bit : ∀ g, (s.lock g).is_waiting = true → ∀ i j,
    lock_rec_get_nth_bit (s.lock g) i = true → lock_rec_get_nth_bit (s.lock g) j = true →
    i = j

/-- The lock system `s1` arises from `s` by releasing locks and granting
waiting ones: waits are at most cleared (`wait_release`), the lock lists
shrink without losing a lock that still is a `wait_lock`, and a lock that
joins an `autoinc_locks` vector is allocated and not waiting. -/
structure release_frame (s s1 : lock_sys_t) : Prop where
  rel : wait_release s s1
  lists : ∀ t, (s1.trx t).trx_locks.Sublist (s.trx t).trx_locks
  kept : ∀ t w, (s1.trx t).wait_lock = some w → w ∈ (s.trx t).trx_locks →
    w ∈ (s1.trx t).trx_locks
  autoinc : ∀ t g, some g ∈ (s1.trx t).autoinc_locks →
    some g ∈ (s.trx t).autoinc_locks ∨ (g < s.n_locks ∧ (s1.lock g).is_waiting = false)

/-- The frame `release_frame` without the condition on the lock list of
the transaction `T`: the frame of the removal of the waiting lock of `T`
from the queue, before its wait is reset. -/
structure dequeue_frame (T : Nat) (s s1 : lock_sys_t) : Prop where
  rel : wait_release s s1
  lists : ∀ t, (s1.trx t).trx_locks.Sublist (s.trx t).trx_locks
  kept : ∀ t w, t ≠ T → (s1.trx t).wait_lock = some w → w ∈ (s.trx t).trx_locks →
    w ∈ (s1.trx t).trx_locks
  autoinc : ∀ t g, some g ∈ (s1.trx t).autoinc_locks →
    some g ∈ (s.trx t).autoinc_locks ∨ (g < s.n_locks ∧ (s1.lock g).is_waiting = false)

/-! ## Page reorganisation: granted locks first -/

/-- The loop of `lock_move_granted_locks_to_front`.  The list is kept as
the locks before the cursor (`done`, in list order) and the locks from the
cursor on; `UT_LIST_GET_PREV` of the cursor is the last lock of `done`.
Modelled from the spec: `ut_list_move_to_front` of `ut0lst.h` removes the
lock from the list and adds it as the first one; the walk then goes on
after the predecessor of the moved lock. -/
def lock_move_granted_locks_to_front_loop :
    List lock_t → Bool → List lock_t → Option (List lock_t)
  | done, _, [] => some done
  | done, seen_waiting_lock, lock :: rest =>
    if !seen_waiting_lock then
      lock_move_granted_locks_to_front_loop (done ++ [lock]) lock.is_waiting rest
    else if !lock.is_waiting then
      match done.getLast? with
      | none => none
      | some _ => lock_move_granted_locks_to_front_loop (lock :: done) true rest
    else lock_move_granted_locks_to_front_loop (done ++ [lock]) true rest

/-- Move all the granted locks to the front of the given lock list
(`lock_move_granted_locks_to_front`); `none` if `ut_a(prev)` fails. -/
def lock_move_granted_locks_to_front (lock_list : List lock_t) : Option (List lock_t) :=
  lock_move_granted_locks_to_front_loop [] false lock_list

/-- A granted and a waiting copy of a record lock of transaction `n`, for
the examples of `lock_move_granted_locks_to_front`. -/
def lock_copy (n : Nat) (wait : Bool) : lock_t :=
  { (default : lock_t) with trx := n, type_mode := { mode := LOCK_X, wait := wait } }

/-! ## The counters of a table queue -/

/-- The number of locks of mode `S` or `X` in the lock list of a table,
waiting ones included. -/
def table_x_or_s_count (s : lock_sys_t) (table : Nat) : Nat :=
  ((s.tbl table).locks.filter
    (fun i => decide ((s.lock i).mode = LOCK_S ∨ (s.lock i).mode = LOCK_X))).length

/-- The `for` loop of `lock_table_other_has_incompatible` alone, without
the test of `n_lock_x_or_s` before it: the scan of the list of the table
from its last lock to its first. -/
def lock_table_other_has_incompatible_scan (s : lock_sys_t) (trx : Nat) (wait : Bool)
    (table : Nat) (mode : lock_mode) : Option Nat :=
  (s.tbl table).locks.reverse.find? (fun i =>
    decide ((s.lock i).trx ≠ trx)
      && !lock_mode_compatible (s.lock i).mode mode
      && (wait || !(s.lock i).is_waiting))

/-- The `for` loop of `lock_table_has_to_wait_in_queue` alone, without the
test of `n_lock_x_or_s` before it: the scan from the first lock of the
list of the table to `wait_lock`. -/
def lock_table_has_to_wait_in_queue_scan (E : Env) (s : lock_sys_t) (wait_lock : Nat) :
    Bool :=
  (((s.tbl (s.lock wait_lock).table).locks.takeWhile (fun i => i != wait_lock)).any
    (fun i => lock_has_to_wait E s wait_lock i))

/-- A lock system in which transaction 1 holds a granted `IX` lock (lock
0), transaction 2 a granted `AUTO_INC` lock (lock 1) and transaction 3 a
waiting `IX` lock (lock 2) on table 0, whose list holds no `S` or `X`
lock: the state in which `lock_table_dequeue` looks at the waiting lock
after an `S` lock has been removed. -/
def intention_table_state : lock_sys_t where
  locks := fun i =>
    if i = 0 then { trx := 1, type_mode := { mode := LOCK_IX, table := true }, table := 0 }
    else if i = 1 then
      { trx := 2, type_mode := { mode := LOCK_AUTO_INC, table := true }, table := 0 }
    else if i = 2 then
      { trx := 3, type_mode := { mode := LOCK_IX, table := true, wait := true }, table := 0 }
    else default
  n_locks := 3
  trxs := fun t =>
    if t = 1 then { trx_locks := [0], table_locks := [some 0] }
    else if t = 2 then
      { trx_locks := [1], table_locks := [some 1], autoinc_locks := [some 1] }
    else if t = 3 then { trx_locks := [2], table_locks := [some 2], wait_lock := some 2 }
    else default
  tables := fun t =>
    if t = 0 then
      { locks := [0, 1, 2], n_waiting_or_granted_auto_inc_locks := 1, autoinc_lock := 1,
        autoinc_trx := some 2 }
    else default

/-! ## The insert check on a spatial index -/

/-- A spatial index of table 0. -/
def spatial_index : dict_index_t := { id := 7, table := 0, is_clust := false, is_spatial := true }

/-- A lock system in which transaction 1 holds an `IS` lock on table 0
(lock 1) and an `S | REC_NOT_GAP` lock (lock 0) on the record (page 5,
heap number 3) of the spatial index `spatial_index`, and transaction 2
holds an `IX` lock on table 0 (lock 2). -/
def spatial_state : lock_sys_t where
  locks := fun i =>
    if i = 0 then
      { trx := 1, type_mode := { mode := LOCK_S, rec_not_gap := true }, page_id := 5,
        index := spatial_index,
        bitmap := [false, false, false, true, false, false, false, false] }
    else if i = 1 then
      { trx := 1, type_mode := { mode := LOCK_IS, table := true }, table := 0 }
    else if i = 2 then
      { trx := 2, type_mode := { mode := LOCK_IX, table := true }, table := 0 }
    else default
  n_locks := 4
  trxs := fun t =>
    if t = 1 then { trx_locks := [1, 0], table_locks := [some 1] }
    else if t = 2 then { trx_locks := [2], table_locks := [some 2] }
    else default
  tables := fun t =>
    if t = 0 then { locks := [1, 2], n_rec_locks := 1, autoinc_lock := 3 } else default
  rec_hash := [0]

/-! ## The vector of AUTO-INC locks of a transaction -/

/-- Release in a given order: the table locks of the list are released one
after the other as `lock_release_autoinc_last_lock` releases a lock, by
`lock_table_dequeue` followed by `lock_trx_table_locks_remove`. -/
def autoinc_release_in_order (E : Env) : List Nat → lock_sys_t → Option lock_sys_t
  | [], s => some s
  | lock :: rest, s =>
    ((lock_table_dequeue E s lock).bind (fun s1 => lock_trx_table_locks_remove s1 lock)).bind
      (fun s2 => autoinc_release_in_order E rest s2)

/-- Consistency of the `autoinc_locks` vector of the transaction `T`: every
entry that is not NULL is a table lock of `T` of mode `AUTO_INC` on a table
whose `autoinc_trx` is `T`, and is in the `table_locks` vector of `T`; no
lock occurs twice and no two entries are on the same table; the last entry
is not NULL; the list of a table holds locks on that table, and none of
them is a waiting `AUTO_INC` lock of `T`. -/
structure autoinc_wf (s : lock_sys_t) (T : Nat) : Prop where
  entry : ∀ g, some g ∈ (s.trx T).autoinc_locks →
    (s.lock g).is_table = true ∧ (s.lock g).mode = LOCK_AUTO_INC ∧ (s.lock g).trx = T
      ∧ (s.tbl (s.lock g).table).autoinc_trx = some T ∧ some g ∈ (s.trx T).table_locks
  nodup : (s.trx T).autoinc_locks.reduceOption.Nodup
  tables : ∀ g1 g2, some g1 ∈ (s.trx T).autoinc_locks → some g2 ∈ (s.trx T).autoinc_locks →
    (s.lock g1).table = (s.lock g2).table → g1 = g2
  last : (s.trx T).autoinc_locks.getLast? ≠ some none
  tbl_ok : ∀ tb, ∀ g ∈ (s.tbl tb).locks, (s.lock g).table = tb
  no_wait : ∀ tb, ∀ w ∈ (s.tbl tb).locks, (s.lock w).trx = T →
    (s.lock w).is_waiting = true → (s.lock w).mode ≠ LOCK_AUTO_INC

/-- The effect of the grant loop of `lock_table_dequeue` on the table `tb`
as far as the `autoinc_locks` vector of `T` is concerned: lock objects
have at most lost their `WAIT` flag, the lists of the tables and the
vectors of `T` are the same, and `autoinc_trx` is the same on every table
other than `tb`. -/
structure autoinc_frame (T tb : Nat) (s s1 : lock_sys_t) : Prop where
  lock : ∀ g, s1.lock g = s.lock g ∨ s1.lock g = (s.lock g).clear_wait
  tbl_locks : ∀ t, (s1.tbl t).locks = (s.tbl t).locks
  autoinc_locks : (s1.trx T).autoinc_locks = (s.trx T).autoinc_locks
  table_locks : (s1.trx T).table_locks = (s.trx T).table_locks
  autoinc_trx : ∀ t, t ≠ tb → (s1.tbl t).autoinc_trx = (s.tbl t).autoinc_trx

/-- A lock system in which transaction 1 holds granted `AUTO_INC` locks on
table 0 (lock 0) and on table 1 (lock 1), acquired in this order, and
transaction 2 waits for an `AUTO_INC` lock on table 1 (lock 2). -/
def autoinc_state : lock_sys_t where
  locks := fun i =>
    if i = 0 then
      { trx := 1, type_mode := { mode := LOCK_AUTO_INC, table := true }, table := 0 }
    else if i = 1 then
      { trx := 1, type_mode := { mode := LOCK_AUTO_INC, table := true }, table := 1 }
    else if i = 2 then
      { trx := 2, type_mode := { mode := LOCK_AUTO_INC, table := true, wait := true },
        table := 1 }
    else default
  n_locks := 3
  trxs := fun t =>
    if t = 1 then
      { trx_locks := [0, 1], table_locks := [some 0, some 1],
        autoinc_locks := [some 0, some 1] }
    else if t = 2 then
      { trx_locks := [2], table_locks := [some 2], wait_lock := some 2, wait_thr := some 2 }
    else default
  tables := fun t =>
    if t = 0 then
      { locks := [0], n_waiting_or_granted_auto_inc_locks := 1, autoinc_trx := some 1,
        autoinc_lock := 0 }
    else if t = 1 then
      { locks := [1, 2], n_waiting_or_granted_auto_inc_locks := 2, autoinc_trx := some 1,
        autoinc_lock := 1 }
    else default

/-! ## Termination of the deadlock search -/

/-- The number of locks of the queue of the waiting lock `w` from the
lock `l` on. -/
def queue_rest (s : lock_sys_t) (w l : Nat) : Nat :=
  (wait_queue s w).length - (wait_queue s w).indexOf l

/-- The positions of the deadlock search that started in the lock system
`s0`: only marks have changed, the current lock stands in the queue of the
current wait lock, and the lock of each frame of the stack stands in the
queue of the wait lock of the frame. -/
structure search_pos (s0 : lock_sys_t) (x : DeadlockChecker.loop_state) : Prop where
  marks : only_marks s0 x.s
  cost : x.c.m_cost ≤ 1000001
  frames : ∀ st ∈ x.c.s_states,
    st.m_lock ∈ wait_queue s0 st.m_wait_lock ∧ heap_ok s0 st.m_wait_lock st.m_heap_no
  top : ∀ l, x.lock = some l →
    l ∈ wait_queue s0 x.c.m_wait_lock ∧ heap_ok s0 x.c.m_wait_lock x.heap_no

/-- The locks that the frames of the stack have still to scan. -/
def frames_measure (s0 : lock_sys_t) (stack : List state_t) : Nat :=
  (stack.map (fun st => queue_rest s0 st.m_wait_lock st.m_lock + 1)).sum

/-- The locks that the current level has still to scan. -/
def top_measure (s0 : lock_sys_t) (w : Nat) : Option Nat → Nat
  | none => 0
  | some l => queue_rest s0 w l + 1

/-- The bound on the number of turns that the loop of `search` can still
make, when no queue has more than `L` locks: each of the at most
1,000,001 levels still to be opened scans a queue, and the levels on the
stack and the current level finish their scans. -/
def search_measure (s0 : lock_sys_t) (L : Nat) (x : DeadlockChecker.loop_state) : Nat :=
  (1000001 - x.c.m_cost) * (L + 3) + frames_measure s0 x.c.s_states
    + top_measure s0 x.c.m_wait_lock x.lock

/-- Every waiting lock that is the `wait_lock` of a transaction stands
behind another lock in its queue, and the first lock of the queue of a
waiting record lock is not waiting: what `get_first_lock` asserts. -/
def queue_heads (s : lock_sys_t) : Prop :=
  ∀ t w, (s.trx t).wait_lock = some w →
    ∃ f, (wait_queue s w).head? = some f ∧ f ≠ w
      ∧ ((s.lock w).is_table = false → (s.lock f).is_waiting = false)

/-! ## Moving a record list start, page reorganisation, record unlock -/

/-- The statement `if (rec1_heap_no < n_bits && lock_rec_reset_nth_bit(lock,
rec1_heap_no)) ...` of the inner loops of `lock_move_rec_list_end` and
`lock_move_rec_list_start`: the bit of the old record is reset, the `WAIT`
flag is cleared when the captured `type_mode` has it, and the request is
added to the queue of the record of the new page. -/
def lock_move_rec_fire (new_block : buf_block_t) (lock : Nat) (type_mode : type_mode_t)
    (s : lock_sys_t) (rec1_heap_no rec2_heap_no : Nat) : lock_sys_t :=
  if rec1_heap_no < lock_rec_get_n_bits (s.lock lock)
      && lock_rec_get_nth_bit (s.lock lock) rec1_heap_no then
    let s1 := s.set_lock lock (lock_rec_reset_nth_bit (s.lock lock) rec1_heap_no)
    let s2 :=
      if type_mode.wait then
        s1.set_lock lock
          { s1.lock lock with
            type_mode := { (s1.lock lock).type_mode with wait := false } }
      else s1
    lock_rec_add_to_queue s2 type_mode new_block rec2_heap_no (s2.lock lock).index
      (s2.lock lock).trx false
  else s

/-- The inner loop `while (rec1 != rec)` of `lock_move_rec_list_start` for
the lock `lock`: `recs1` lists the heap numbers from `rec1` on and `recs2`
those from `rec2` on.  Reading the heap number of a record past the end of
a page is `none`. -/
def lock_move_rec_list_start_recs (new_block : buf_block_t) (lock : Nat)
    (type_mode : type_mode_t) (rec : Nat) :
    lock_sys_t → List Nat → List Nat → Option lock_sys_t
  | _, [], _ => none
  | s, rec1_heap_no :: recs1, recs2 =>
    if rec1_heap_no = rec then some s
    else
      match recs2 with
      | [] => none
      | rec2_heap_no :: recs2 =>
        lock_move_rec_list_start_recs new_block lock type_mode rec
          (lock_move_rec_fire new_block lock type_mode s rec1_heap_no rec2_heap_no)
          recs1 recs2

/-- The outer loop of `lock_move_rec_list_start` over the locks of the page
in the record hash table, from `lock` on. -/
def lock_move_rec_list_start_loop (new_block : buf_block_t) (rec : Nat)
    (recs1 recs2 : List Nat) : Nat → lock_sys_t → Option Nat → Option lock_sys_t
  | _, s, none => some s
  | 0, _, some _ => none
  | fuel + 1, s, some lock =>
    (lock_move_rec_list_start_recs new_block lock (s.lock lock).type_mode rec s recs1
        recs2).bind
      (fun s1 =>
        lock_move_rec_list_start_loop new_block rec recs1 recs2 fuel s1
          (lock_rec_get_next_on_page s1 lock))

/-- Moves the explicit locks on user records to another page if a record
list start is moved to another page (`lock_move_rec_list_start`); `page`
and `new_page` list the heap numbers of the records of `block` and of
`new_block` in page order, `rec` is the heap number of the first record
not copied and `old_end` the heap number of the record of the new page
after which the records were copied. -/
def lock_move_rec_list_start (fuel : Nat) (s : lock_sys_t) (new_block block : buf_block_t)
    (page new_page : List Nat) (rec old_end : Nat) : Option lock_sys_t :=
  let rec1 := (page_recs_from page PAGE_HEAP_NO_INFIMUM).tail
  let rec2 := (page_recs_from new_page old_end).tail
  lock_move_rec_list_start_loop new_block rec rec1 rec2 fuel s
    (s.page_chain hash_id.rec_hash block.page_id).head?

/-- The first loop of `lock_move_reorganize_page` over the locks of the
page, from `lock` on: a copy of the lock is added last to `old_locks`, the
bitmap of the lock is reset and its `WAIT` flag is cleared. -/
def lock_move_reorganize_page_copy :
    Nat → lock_sys_t → List lock_t → Option Nat → Option (lock_sys_t × List lock_t)
  | _, s, old_locks, none => some (s, old_locks)
  | 0, _, _, some _ => none
  | fuel + 1, s, old_locks, some lock =>
    let old_lock := s.lock lock
    let s1 := s.set_lock lock (lock_rec_bitmap_reset (s.lock lock))
    let s2 :=
      if (s1.lock lock).is_waiting then
        s1.set_lock lock
          { s1.lock lock with
            type_mode := { (s1.lock lock).type_mode with wait := false } }
      else s1
    lock_move_reorganize_page_copy fuel s2 (old_locks ++ [old_lock])
      (lock_rec_get_next_on_page s2 lock)

/-- The inner loop `for (;;)` of `lock_move_reorganize_page` for the copy
`lock` of an old lock: `recs1` lists the heap numbers of the reorganised
page from `rec1` on and `recs2` those of the old page from `rec2` on; the
bits are reset in the copy.  Reading the heap number of a record past the
end of a page is `none`. -/
def lock_move_reorganize_page_recs (block : buf_block_t) :
    lock_sys_t → lock_t → List Nat → List Nat → Option lock_sys_t
  | _, _, [], _ => none
  | _, _, _ :: _, [] => none
  | s, lock, new_heap_no :: recs1, old_heap_no :: recs2 =>
    let fire := decide (old_heap_no < lock_rec_get_n_bits lock)
      && lock_rec_get_nth_bit lock old_heap_no
    let lock1 :=
      if old_heap_no < lock_rec_get_n_bits lock then lock_rec_reset_nth_bit lock old_heap_no
      else lock
    let s1 :=
      if fire then
        lock_rec_add_to_queue s lock1.type_mode block new_heap_no lock1.index lock1.trx false
      else s
    if new_heap_no = PAGE_HEAP_NO_SUPREMUM then some s1
    else lock_move_reorganize_page_recs block s1 lock1 recs1 recs2

/-- The second loop of `lock_move_reorganize_page` over the copies of the
old locks. -/
def lock_move_reorganize_page_locks (block : buf_block_t) (recs1 recs2 : List Nat) :
    lock_sys_t → List lock_t → Option lock_sys_t
  | s, [] => some s
  | s, lock :: old_locks =>
    (lock_move_reorganize_page_recs block s lock recs1 recs2).bind (fun s1 =>
      lock_move_reorganize_page_locks block recs1 recs2 s1 old_locks)

/-- Updates the lock table when we have reorganized a page
(`lock_move_reorganize_page`); `page` lists the heap numbers of the
records of the reorganised page `block` in page order and `opage` those of
the copy `oblock` of the old page. -/
def lock_move_reorganize_page (fuel : Nat) (s : lock_sys_t) (block : buf_block_t)
    (page opage : List Nat) : Option lock_sys_t :=
  match (s.page_chain hash_id.rec_hash block.page_id).head? with
  | none => some s
  | some lock =>
    (lock_move_reorganize_page_copy fuel s [] (some lock)).bind (fun r =>
      (lock_move_granted_locks_to_front r.2).bind (fun old_locks =>
        lock_move_reorganize_page_locks block (page_recs_from page PAGE_HEAP_NO_INFIMUM)
          (page_recs_from opage PAGE_HEAP_NO_INFIMUM) r.1 old_locks))

/-- Removes a granted record lock of a transaction from the queue and
grants locks to other transactions waiting in the queue if they now are
entitled to a lock (`lock_rec_unlock`).  A transaction without a lock of
the mode on the record leaves the lock system as it is (the source logs an
error); `none` stands for the failed assertion on a waiting lock and for
exhausted fuel. -/
def lock_rec_unlock (E : Env) (fuel : Nat) (s : lock_sys_t) (trx : Nat)
    (block : buf_block_t) (heap_no : Nat) (lock_mode : lock_mode) : Option lock_sys_t :=
  let first_lock := lock_rec_get_first s hash_id.rec_hash block heap_no
  match (lock_rec_queue s hash_id.rec_hash block.page_id heap_no).find? (fun i =>
      decide ((s.lock i).trx = trx) && decide ((s.lock i).mode = lock_mode)) with
  | none => some s
  | some lock =>
    if (s.lock lock).is_waiting then none
    else
      let s1 := s.set_lock lock (lock_rec_reset_nth_bit (s.lock lock) heap_no)
      lock_rec_queue_loop (fun s2 lock => some (lock_rec_grant_step E s2 lock)) heap_no
        fuel s1 first_lock

/-- The invariant of the inner loops of the record list moves on the lock
being moved: when the captured type mode has the `WAIT` flag, the lock
still has that type mode, or it has no bit left. -/
def move_lock_inv (lock : Nat) (tm : type_mode_t) (s : lock_sys_t) : Prop :=
  tm.wait = true →
    (s.lock lock).type_mode = tm ∨ ∀ i, lock_rec_get_nth_bit (s.lock lock) i = false

/-- Ghost state of the proofs about `lock_move_reorganize_page`: the lock
system with the `wait_lock` of the transactions in `D` cleared.  Between
the two loops of the reorganisation the `wait_lock` of the owner of a
waiting lock of the page points to a lock without the `WAIT` flag. -/
def forget_wait (D : Nat → Bool) (s : lock_sys_t) : lock_sys_t :=
  { s with
    trxs := fun t => if D t then { s.trxs t with wait_lock := none } else s.trxs t }

/-- Whether the inner loop of `lock_move_reorganize_page` over the records
`recs1` of the reorganised page and `recs2` of the old page reads the old
heap number `h` before it ends at the supremum of the reorganised page. -/
def reorganize_covered : List Nat → List Nat → Nat → Bool
  | new_heap_no :: recs1, old_heap_no :: recs2, h =>
    old_heap_no == h
      || (new_heap_no != PAGE_HEAP_NO_SUPREMUM && reorganize_covered recs1 recs2 h)
  | _, _, _ => false

/-- The copy `c` of a waiting lock has exactly one bit set, and the inner
loop of `lock_move_reorganize_page` reads its heap number. -/
def copy_covered (recs1 recs2 : List Nat) (c : lock_t) : Prop :=
  ∃ h, lock_rec_get_nth_bit c h = true
    ∧ (∀ i, lock_rec_get_nth_bit c i = true → i = h)
    ∧ reorganize_covered recs1 recs2 h = true

/-- The invariant of the loops of `lock_move_reorganize_page` for the list
`R` of copies: the wait-lock invariant holds when the `wait_lock` of the
transactions of `D` is left out; `D` holds the owners of the waiting
copies of `R`, which are owned by different transactions and have their
one bit read by the inner loop. -/
structure reorganize_inv (recs1 recs2 : List Nat) (R : List lock_t) (D : Nat → Bool)
    (s : lock_sys_t) : Prop where
  ok : wait_ok (forget_wait D s)
  pending : ∀ t, D t = true → ∃ c ∈ R, c.is_waiting = true ∧ c.trx = t
  waiting : ∀ c ∈ R, c.is_waiting = true → D c.trx = true ∧ copy_covered recs1 recs2 c
  nodup : ((R.filter (fun c => c.is_waiting)).map (fun c => c.trx)).Nodup

/-- The contract of `lock_move_reorganize_page` on the waiting locks of the
page `P`: each has a bit set whose heap number the inner loop reads, so
that the request is set again on the reorganised page. -/
def reorganize_pre (P : Nat) (recs1 recs2 : List Nat) (s : lock_sys_t) : Prop :=
  ∀ g, (s.lock g).is_waiting = true → (s.lock g).page_id = P →
    ∃ h, lock_rec_get_nth_bit (s.lock g) h = true ∧ reorganize_covered recs1 recs2 h = true

/-- The operations of the lock manager that the wait-lock invariant is
stated for, as a relation between the lock system before and after, with
the contract of each call: a transaction that requests a lock or releases
its locks is not waiting; `lock_cancel_waiting_and_release` is called for
the `wait_lock` of a transaction; an `AUTO_INC` request finds the
preallocated lock object of the table allocated and not waiting; the
record walk of `lock_move_reorganize_page` reads the heap number of every
waiting lock of the page. -/
inductive wait_op (E : Env) : lock_sys_t → lock_sys_t → Prop
  | lock_rec_lock (fuel : Nat) (s : lock_sys_t) (impl : Bool) (mode : type_mode_t)
      (block : buf_block_t) (heap_no : Nat) (index : dict_index_t) (thr : Nat)
      (err : dberr_t) (s1 : lock_sys_t) :
    (s.trx thr).wait_lock = none → mode.wait = false →
    InnoLock.lock_rec_lock E fuel s impl mode block heap_no index thr = some (err, s1) →
    wait_op E s s1
  | lock_table (fuel : Nat) (s : lock_sys_t) (flags table : Nat) (mode : lock_mode)
      (thr : Nat) (err : dberr_t) (s1 : lock_sys_t) :
    (s.trx thr).wait_lock = none →
    (mode = LOCK_AUTO_INC → (s.tbl table).autoinc_lock < s.n_locks
      ∧ (s.lock (s.tbl table).autoinc_lock).is_waiting = false) →
    InnoLock.lock_table E fuel s flags table mode thr = some (err, s1) →
    wait_op E s s1
  | lock_rec_insert_check_and_lock (fuel : Nat) (s : lock_sys_t) (heap_no : Nat)
      (block : buf_block_t) (index : dict_index_t) (thr : Nat) (inherit_in : Bool)
      (r : insert_check_result) :
    (s.trx thr).wait_lock = none →
    InnoLock.lock_rec_insert_check_and_lock E fuel s heap_no block index thr inherit_in
      = some r →
    wait_op E s r.sys
  | lock_rec_unlock (fuel : Nat) (s : lock_sys_t) (trx : Nat) (block : buf_block_t)
      (heap_no : Nat) (lock_mode : lock_mode) (s1 : lock_sys_t) :
    InnoLock.lock_rec_unlock E fuel s trx block heap_no lock_mode = some s1 →
    wait_op E s s1
  | lock_release (fuel : Nat) (s : lock_sys_t) (trx : Nat) (s1 : lock_sys_t) :
    (s.trx trx).wait_lock = none →
    InnoLock.lock_release E fuel s trx = some s1 →
    wait_op E s s1
  | lock_cancel_waiting_and_release (fuel : Nat) (s : lock_sys_t) (lock : Nat)
      (s1 : lock_sys_t) :
    (s.trx (s.lock lock).trx).wait_lock = some lock →
    InnoLock.lock_cancel_waiting_and_release E fuel s lock = some s1 →
    wait_op E s s1
  | lock_trx_handle_wait (fuel : Nat) (s : lock_sys_t) (trx : Nat)
      (r : dberr_t × lock_sys_t) :
    InnoLock.lock_trx_handle_wait E fuel s trx = some r →
    wait_op E s r.2
  | lock_rec_move (fuel : Nat) (s : lock_sys_t) (receiver donator : buf_block_t)
      (receiver_heap_no donator_heap_no : Nat) (s1 : lock_sys_t) :
    InnoLock.lock_rec_move fuel s receiver donator receiver_heap_no donator_heap_no
      = some s1 →
    wait_op E s s1
  | lock_move_rec_list_end (fuel : Nat) (s : lock_sys_t) (new_block block : buf_block_t)
      (page new_page : List Nat) (rec : Nat) (s1 : lock_sys_t) :
    InnoLock.lock_move_rec_list_end fuel s new_block block page new_page rec = some s1 →
    wait_op E s s1
  | lock_move_rec_list_start (fuel : Nat) (s : lock_sys_t) (new_block block : buf_block_t)
      (page new_page : List Nat) (rec old_end : Nat) (s1 : lock_sys_t) :
    InnoLock.lock_move_rec_list_start fuel s new_block block page new_page rec old_end
      = some s1 →
    wait_op E s s1
  | lock_move_reorganize_page (fuel : Nat) (s : lock_sys_t) (block : buf_block_t)
      (page opage : List Nat) (s1 : lock_sys_t) :
    reorganize_pre block.page_id (page_recs_from page PAGE_HEAP_NO_INFIMUM)
      (page_recs_from opage PAGE_HEAP_NO_INFIMUM) s →
    InnoLock.lock_move_reorganize_page fuel s block page opage = some s1 →
    wait_op E s s1
  | lock_update_delete (fuel : Nat) (s : lock_sys_t) (block : buf_block_t)
      (heap_no next_heap_no : Nat) (s1 : lock_sys_t) :
    InnoLock.lock_update_delete fuel s block heap_no next_heap_no = some s1 →
    wait_op E s s1

/-- A page with a granted and a waiting request on one record: on the
record with heap number 2 of page 1, transaction 1 holds `X` (lock 0) and
transaction 2 waits for `X` (lock 1). -/
def wait_move_state : lock_sys_t where
  locks := fun i =>
    if i = 0 then
      { trx := 1, type_mode := { mode := LOCK_X }, page_id := 1,
        bitmap := [false, false, true, false, false, false, false, false] }
    else if i = 1 then
      { trx := 2, type_mode := { mode := LOCK_X, wait := true }, page_id := 1,
        bitmap := [false, false, true, false, false, false, false, false] }
    else default
  n_locks := 2
  trxs := fun t =>
    if t = 1 then { trx_locks := [0] }
    else if t = 2 then { trx_locks := [1], wait_lock := some 1, wait_thr := some 2 }
    else default
  tables := fun t => if t = 0 then { n_rec_locks := 2 } else default
  rec_hash := [0, 1]

/-- The effect of `lock_rec_add_to_queue` for the transaction `trx` on the
record (`block`, `heap_no`), from `s` to `s1`: a lock object of `s` is left
as it is, or it is a lock of the transaction on the page that is not
waiting and gets the bit of the record; at most one lock object is
allocated, which is the new lock of the request and is appended to its
hash chain; a `wait_lock` is left as it is, or it is the one of the
transaction and is set to the new lock of a waiting request; a lock list
is left as it is or gets the new lock appended. -/
structure add_frame (s s1 : lock_sys_t) (tm : type_mode_t) (block : buf_block_t)
    (heap_no : Nat) (index : dict_index_t) (trx : Nat) : Prop where
  lock : ∀ x, s1.lock x = s.lock x
    ∨ (s1.lock x = lock_rec_set_nth_bit (s.lock x) heap_no
        ∧ (s.lock x).is_waiting = false ∧ (s.lock x).page_id = block.page_id
        ∧ (s.lock x).trx = trx ∧ s1.n_locks = s.n_locks)
    ∨ (x = s.n_locks ∧ s1.n_locks = s.n_locks + 1
        ∧ s1.lock x = new_rec_lock tm block heap_no index trx)
  n_locks : s1.n_locks = s.n_locks ∨ s1.n_locks = s.n_locks + 1
  fresh : s1.n_locks = s.n_locks + 1 →
    s1.lock s.n_locks = new_rec_lock tm block heap_no index trx
  hash : ∀ k, (s1.n_locks = s.n_locks ∧ s1.hash k = s.hash k)
    ∨ (s1.n_locks = s.n_locks + 1
        ∧ s1.hash k = if k = lock_hash_get (supremum_type_mode tm heap_no) then
            s.hash k ++ [s.n_locks] else s.hash k)
  wait : ∀ t, (s1.trx t).wait_lock = (s.trx t).wait_lock
    ∨ (tm.wait = true ∧ t = trx ∧ (s1.trx t).wait_lock = some s.n_locks
        ∧ s1.n_locks = s.n_locks + 1)

/-- The invariant of the moves of lock requests from the lock system `s0`,
for the pairs `ps` of a donating and a receiving heap number and the
receiving page `Pr`: the wait-lock invariant holds; a lock object of `s0`
that is waiting is as it was in `s0`; a transaction that waited in `s0`
waits; a waiting lock object allocated since is on the receiving page and
stands for a waiting lock of `s0` of the same transaction, with the bit of
the receiving heap number of a pair whose donating heap number that lock
had. -/
structure move_track (s0 : lock_sys_t) (ps : List (Nat × Nat)) (Pr : Nat)
    (s : lock_sys_t) : Prop where
  ok : wait_ok s
  n_locks : s0.n_locks ≤ s.n_locks
  old : ∀ x, x < s0.n_locks → (s.lock x).is_waiting = true → s.lock x = s0.lock x
  waits : ∀ t, (s0.trx t).wait_lock ≠ none → (s.trx t).wait_lock ≠ none
  new : ∀ x, s0.n_locks ≤ x → (s.lock x).is_waiting = true →
    (s.lock x).page_id = Pr ∧ ∃ y, y < s0.n_locks ∧ (s0.lock y).is_waiting = true
      ∧ (s0.lock y).trx = (s.lock x).trx
      ∧ ∃ p ∈ ps, lock_rec_get_nth_bit (s0.lock y) p.1 = true
          ∧ lock_rec_get_nth_bit (s.lock x) p.2 = true

/-- What turns of the inner loop of a record list move do for the lock
`l` and the donating heap numbers `hs`, from `s` to `s1`: the locks of the
lock system are changed at most in `l`, which loses the bits of `hs`, and
on the receiving page; lock objects are at most appended to the record
hash table, on the receiving page. -/
structure fire_frame (nb : buf_block_t) (l : Nat) (hs : List Nat) (s s1 : lock_sys_t) :
    Prop where
  wf : chain_wf s1 hash_id.rec_hash
  ext : ∃ e, s1.hash hash_id.rec_hash = s.hash hash_id.rec_hash ++ e
    ∧ ∀ x ∈ e, (s1.lock x).page_id = nb.page_id
  page : ∀ x, x < s.n_locks → (s1.lock x).page_id = (s.lock x).page_id
  n_locks : s.n_locks ≤ s1.n_locks
  other : ∀ x, x < s.n_locks → (s.lock x).page_id ≠ nb.page_id → x ≠ l →
    s1.lock x = s.lock x
  bits : ∀ i, lock_rec_get_nth_bit (s1.lock l) i = true →
    lock_rec_get_nth_bit (s.lock l) i = true
  reset : ∀ h ∈ hs, lock_rec_get_nth_bit (s1.lock l) h = false

/-- The pairs of the heap number of a record of the old page and the heap
number of its copy on the new page that the inner loop of
`lock_move_rec_list_end` reads, from the records `recs1` and `recs2` on, up
to the supremum of the old page; `none` when a page ends before that. -/
def list_end_pairs : List Nat → List Nat → Option (List (Nat × Nat))
  | [], _ => none
  | rec1_heap_no :: recs1, recs2 =>
    if rec1_heap_no = PAGE_HEAP_NO_SUPREMUM then some []
    else
      match recs2 with
      | [] => none
      | rec2_heap_no :: recs2 =>
        (list_end_pairs recs1 recs2).map (fun ps => (rec1_heap_no, rec2_heap_no) :: ps)

/-- The pairs of heap numbers that the inner loop of
`lock_move_rec_list_start` reads, up to the record `rec` of the old page;
`none` when a page ends before that. -/
def list_start_pairs (rec : Nat) : List Nat → List Nat → Option (List (Nat × Nat))
  | [], _ => none
  | rec1_heap_no :: recs1, recs2 =>
    if rec1_heap_no = rec then some []
    else
      match recs2 with
      | [] => none
      | rec2_heap_no :: recs2 =>
        (list_start_pairs rec recs1 recs2).map (fun ps => (rec1_heap_no, rec2_heap_no) :: ps)

/-- The pairs of the old and the new heap number of a record that the
inner loop of `lock_move_reorganize_page` reads, the supremum of the
reorganised page included; `none` when a page ends before that. -/
def reorganize_pairs : List Nat → List Nat → Option (List (Nat × Nat))
  | new_heap_no :: recs1, old_heap_no :: recs2 =>
    if new_heap_no = PAGE_HEAP_NO_SUPREMUM then some [(old_heap_no, new_heap_no)]
    else (reorganize_pairs recs1 recs2).map (fun ps => (old_heap_no, new_heap_no) :: ps)
  | _, _ => none

/-- The loop `for (lock = first; lock; lock = lock_rec_get_next_on_page(lock))
body(lock)` over the locks of a page, on `fuel`, with the lock system and
a value `a` that the body updates; the next lock is looked up in the lock
system as the body has left it. -/
def page_loop {α : Type} (body : lock_sys_t → α → Nat → Option (lock_sys_t × α)) :
    Nat → lock_sys_t → α → Option Nat → Option (lock_sys_t × α)
  | _, s, a, none => some (s, a)
  | 0, _, _, some _ => none
  | fuel + 1, s, a, some lock =>
    (body s a lock).bind (fun r =>
      page_loop body fuel r.1 r.2 (lock_rec_get_next_on_page r.1 lock))

/-- The locks that follow `l` in the hash table `k` and are on the page
`p`. -/
def page_rest (s : lock_sys_t) (k : hash_id) (p l : Nat) : List Nat :=
  (((s.hash k).dropWhile (fun i => i != l)).tail).filter (fun i => (s.lock i).page_id == p)

/-- The effect that the body of a loop over the locks of the page `p` in
the hash table `k` may have: the hash table stays consistent, locks are at
most appended to the chain, none of them on the page, and the locks of
the chain stay on their pages. -/
structure page_step (k : hash_id) (p : Nat) (s s1 : lock_sys_t) : Prop where
  wf : chain_wf s1 k
  ext : ∃ e, s1.hash k = s.hash k ++ e ∧ ∀ x ∈ e, (s1.lock x).page_id ≠ p
  page : ∀ x ∈ s.hash k, (s1.lock x).page_id = (s.lock x).page_id

/-- One call of an operation of the lock manager that creates, changes or
removes record locks, with any arguments for which the call returns:
`lock_rec_insert_check_and_lock`; `lock_rec_lock` with a request without
`INSERT_INTENTION`; `lock_rec_add_to_queue` and `lock_rec_create_low`
with a request that `intention_request` admits; the inheritance of gap
locks and the reset of a record; `lock_rec_move` from a record to a
record that is the page supremum when the donating record is;
`lock_move_rec_list_end`; `lock_move_rec_list_start` when the supremum is
not among the records moved; `lock_move_reorganize_page` when the walk
over the two pages pairs a supremum only with a supremum;
`lock_rec_unlock`; `lock_rec_dequeue_from_page`,
`lock_cancel_waiting_and_release`, `lock_release` and
`lock_trx_handle_wait`; `lock_table`; `lock_update_insert`,
`lock_update_delete` and `lock_update_split_right`;
`lock_rec_store_on_page_infimum` for a record other than the supremum and
`lock_rec_restore_from_page_infimum`; `lock_rec_convert_impl_to_expl`. -/
inductive intention_op (E : Env) : lock_sys_t → lock_sys_t → Prop
  | lock_rec_insert_check_and_lock (fuel : Nat) (s : lock_sys_t) (heap_no : Nat)
      (block : buf_block_t) (index : dict_index_t) (thr : Nat) (inherit_in : Bool)
      (r : insert_check_result) :
    InnoLock.lock_rec_insert_check_and_lock E fuel s heap_no block index thr inherit_in
      = some r →
    intention_op E s r.sys
  | lock_rec_lock (fuel : Nat) (s : lock_sys_t) (impl : Bool) (mode : type_mode_t)
      (block : buf_block_t) (heap_no : Nat) (index : dict_index_t) (thr : Nat)
      (err : dberr_t) (s1 : lock_sys_t) :
    mode.insert_intention = false →
    InnoLock.lock_rec_lock E fuel s impl mode block heap_no index thr = some (err, s1) →
    intention_op E s s1
  | lock_rec_add_to_queue (s : lock_sys_t) (type_mode : type_mode_t) (block : buf_block_t)
      (heap_no : Nat) (index : dict_index_t) (trx : Nat) (caller_owns_trx_mutex : Bool) :
    intention_request type_mode heap_no →
    intention_op E s
      (InnoLock.lock_rec_add_to_queue s type_mode block heap_no index trx
        caller_owns_trx_mutex)
  | lock_rec_create_low (s : lock_sys_t) (type_mode : type_mode_t)
      (page_id n_heap heap_no : Nat) (index : dict_index_t) (trx : Nat)
      (holds_trx_mutex : Bool) :
    intention_request type_mode heap_no →
    intention_op E s
      (InnoLock.lock_rec_create_low s type_mode page_id n_heap heap_no index trx
        holds_trx_mutex).2
  | lock_rec_inherit_to_gap (fuel : Nat) (s : lock_sys_t) (heir_block block : buf_block_t)
      (heir_heap_no heap_no : Nat) (s1 : lock_sys_t) :
    InnoLock.lock_rec_inherit_to_gap fuel s heir_block block heir_heap_no heap_no = some s1 →
    intention_op E s s1
  | lock_rec_inherit_to_gap_if_gap_lock (fuel : Nat) (s : lock_sys_t) (block : buf_block_t)
      (heir_heap_no heap_no : Nat) (s1 : lock_sys_t) :
    InnoLock.lock_rec_inherit_to_gap_if_gap_lock fuel s block heir_heap_no heap_no
      = some s1 →
    intention_op E s s1
  | lock_rec_reset_and_release_wait (fuel : Nat) (s : lock_sys_t) (block : buf_block_t)
      (heap_no : Nat) (s1 : lock_sys_t) :
    InnoLock.lock_rec_reset_and_release_wait fuel s block heap_no = some s1 →
    intention_op E s s1
  | lock_rec_move (fuel : Nat) (s : lock_sys_t) (receiver donator : buf_block_t)
      (receiver_heap_no donator_heap_no : Nat) (s1 : lock_sys_t) :
    (donator_heap_no = PAGE_HEAP_NO_SUPREMUM → receiver_heap_no = PAGE_HEAP_NO_SUPREMUM) →
    InnoLock.lock_rec_move fuel s receiver donator receiver_heap_no donator_heap_no
      = some s1 →
    intention_op E s s1
  | lock_move_rec_list_end (fuel : Nat) (s : lock_sys_t) (new_block block : buf_block_t)
      (page new_page : List Nat) (rec : Nat) (s1 : lock_sys_t) :
    InnoLock.lock_move_rec_list_end fuel s new_block block page new_page rec = some s1 →
    intention_op E s s1
  | lock_move_rec_list_start (fuel : Nat) (s : lock_sys_t) (new_block block : buf_block_t)
      (page new_page : List Nat) (rec old_end : Nat) (s1 : lock_sys_t) :
    PAGE_HEAP_NO_SUPREMUM ∉
      ((page_recs_from page PAGE_HEAP_NO_INFIMUM).tail).takeWhile (fun h => h != rec) →
    InnoLock.lock_move_rec_list_start fuel s new_block block page new_page rec old_end
      = some s1 →
    intention_op E s s1
  | lock_move_reorganize_page (fuel : Nat) (s : lock_sys_t) (block : buf_block_t)
      (page opage : List Nat) (s1 : lock_sys_t) :
    (∀ p ∈ (page_recs_from page PAGE_HEAP_NO_INFIMUM).zip
        (page_recs_from opage PAGE_HEAP_NO_INFIMUM),
      p.2 = PAGE_HEAP_NO_SUPREMUM → p.1 = PAGE_HEAP_NO_SUPREMUM) →
    InnoLock.lock_move_reorganize_page fuel s block page opage = some s1 →
    intention_op E s s1
  | lock_rec_unlock (fuel : Nat) (s : lock_sys_t) (trx : Nat) (block : buf_block_t)
      (heap_no : Nat) (lock_mode : lock_mode) (s1 : lock_sys_t) :
    InnoLock.lock_rec_unlock E fuel s trx block heap_no lock_mode = some s1 →
    intention_op E s s1
  | lock_rec_dequeue_from_page (s : lock_sys_t) (in_lock : Nat) :
    intention_op E s (InnoLock.lock_rec_dequeue_from_page E s in_lock)
  | lock_cancel_waiting_and_release (fuel : Nat) (s : lock_sys_t) (lock : Nat)
      (s1 : lock_sys_t) :
    InnoLock.lock_cancel_waiting_and_release E fuel s lock = some s1 →
    intention_op E s s1
  | lock_release (fuel : Nat) (s : lock_sys_t) (trx : Nat) (s1 : lock_sys_t) :
    InnoLock.lock_release E fuel s trx = some s1 →
    intention_op E s s1
  | lock_trx_handle_wait (fuel : Nat) (s : lock_sys_t) (trx : Nat)
      (r : dberr_t × lock_sys_t) :
    InnoLock.lock_trx_handle_wait E fuel s trx = some r →
    intention_op E s r.2
  | lock_table (fuel : Nat) (s : lock_sys_t) (flags table : Nat) (mode : lock_mode)
      (thr : Nat) (err : dberr_t) (s1 : lock_sys_t) :
    InnoLock.lock_table E fuel s flags table mode thr = some (err, s1) →
    intention_op E s s1
  | lock_update_insert (fuel : Nat) (s : lock_sys_t) (block : buf_block_t)
      (receiver_heap_no donator_heap_no : Nat) (s1 : lock_sys_t) :
    InnoLock.lock_update_insert fuel s block receiver_heap_no donator_heap_no = some s1 →
    intention_op E s s1
  | lock_update_delete (fuel : Nat) (s : lock_sys_t) (block : buf_block_t)
      (heap_no next_heap_no : Nat) (s1 : lock_sys_t) :
    InnoLock.lock_update_delete fuel s block heap_no next_heap_no = some s1 →
    intention_op E s s1
  | lock_update_split_right (fuel : Nat) (s : lock_sys_t)
      (right_block left_block : buf_block_t) (right_page : List Nat) (s1 : lock_sys_t) :
    InnoLock.lock_update_split_right fuel s right_block left_block right_page = some s1 →
    intention_op E s s1
  | lock_rec_store_on_page_infimum (fuel : Nat) (s : lock_sys_t) (block : buf_block_t)
      (heap_no : Nat) (s1 : lock_sys_t) :
    heap_no ≠ PAGE_HEAP_NO_SUPREMUM →
    InnoLock.lock_rec_store_on_page_infimum fuel s block heap_no = some s1 →
    intention_op E s s1
  | lock_rec_restore_from_page_infimum (fuel : Nat) (s : lock_sys_t) (block : buf_block_t)
      (heap_no : Nat) (donator : buf_block_t) (s1 : lock_sys_t) :
    InnoLock.lock_rec_restore_from_page_infimum fuel s block heap_no donator = some s1 →
    intention_op E s s1
  | lock_rec_convert_impl_to_expl (I : ImplEnv) (s : lock_sys_t) (caller_trx : Nat)
      (block : buf_block_t) (heap_no : Nat) (index : dict_index_t) :
    intention_op E s
      (InnoLock.lock_rec_convert_impl_to_expl I s caller_trx block heap_no index).2

/-- Consistency of the `autoinc_locks` vector of the transaction `T` while
`T` may wait for a table lock: every entry that is not NULL is a table lock
of `T` of mode `AUTO_INC` on a table whose `autoinc_trx` is `T`, and is in
the `table_locks` vector of `T`; no lock occurs twice and no two entries
are on the same table; the last entry is not NULL; the list of a table
holds locks on that table; in the list of a table on which an entry is,
no `AUTO_INC` lock of `T` is waiting. -/
structure autoinc_held (s : lock_sys_t) (T : Nat) : Prop where
  entry : ∀ g, some g ∈ (s.trx T).autoinc_locks →
    (s.lock g).is_table = true ∧ (s.lock g).mode = LOCK_AUTO_INC ∧ (s.lock g).trx = T
      ∧ (s.tbl (s.lock g).table).autoinc_trx = some T ∧ some g ∈ (s.trx T).table_locks
  nodup : (s.trx T).autoinc_locks.reduceOption.Nodup
  tables : ∀ g1 g2, some g1 ∈ (s.trx T).autoinc_locks → some g2 ∈ (s.trx T).autoinc_locks →
    (s.lock g1).table = (s.lock g2).table → g1 = g2
  last : (s.trx T).autoinc_locks.getLast? ≠ some none
  tbl_ok : ∀ tb, ∀ g ∈ (s.tbl tb).locks, (s.lock g).table = tb
  no_wait : ∀ g, some g ∈ (s.trx T).autoinc_locks →
    ∀ w ∈ (s.tbl (s.lock g).table).locks, (s.lock w).trx = T →
      (s.lock w).is_waiting = true → (s.lock w).mode ≠ LOCK_AUTO_INC

/-- A lock system in which transaction 1 holds a granted `AUTO_INC` lock on
table 0 (lock 0) and waits for an `AUTO_INC` lock on table 1 (lock 2)
behind the granted `X` lock of transaction 2 (lock 1), and transaction 3
waits for an `AUTO_INC` lock on table 0 (lock 3). -/
def autoinc_cancel_state : lock_sys_t where
  locks := fun i =>
    if i = 0 then
      { trx := 1, type_mode := { mode := LOCK_AUTO_INC, table := true }, table := 0 }
    else if i = 1 then
      { trx := 2, type_mode := { mode := LOCK_X, table := true }, table := 1 }
    else if i = 2 then
      { trx := 1, type_mode := { mode := LOCK_AUTO_INC, table := true, wait := true },
        table := 1 }
    else if i = 3 then
      { trx := 3, type_mode := { mode := LOCK_AUTO_INC, table := true, wait := true },
        table := 0 }
    else default
  n_locks := 4
  trxs := fun t =>
    if t = 1 then
      { trx_locks := [0, 2], table_locks := [some 0, some 2], autoinc_locks := [some 0],
        wait_lock := some 2, wait_thr := some 1 }
    else if t = 2 then
      { trx_locks := [1], table_locks := [some 1] }
    else if t = 3 then
      { trx_locks := [3], table_locks := [some 3], wait_lock := some 3, wait_thr := some 3 }
    else default
  tables := fun t =>
    if t = 0 then
      { locks := [0, 3], n_waiting_or_granted_auto_inc_locks := 2, autoinc_trx := some 1,
        autoinc_lock := 0 }
    else if t = 1 then
      { locks := [1, 2], n_lock_x_or_s := 1, n_waiting_or_granted_auto_inc_locks := 1 }
    else default

/-- What the claim on a waiting request says after a move from `s` to `s1`,
for the waiting lock `W` of `s` with the bit of the donating heap number
`dh`, the pairs `ps` of a donating and a receiving heap number and the
receiving page `Pr`: the owner has a waiting lock on the receiving page
with the bit of a receiving heap number paired with `dh`, that lock is a
lock object allocated by the move, it is the `wait_lock` of the owner and
in its lock list; the old lock object has no `WAIT` flag; every
transaction that waited in `s` waits in `s1`. -/
def request_moved (s s1 : lock_sys_t) (ps : List (Nat × Nat)) (Pr W dh : Nat) : Prop :=
  (∃ w1 rh, (dh, rh) ∈ ps
      ∧ (s1.trx (s.lock W).trx).wait_lock = some w1
      ∧ s.n_locks ≤ w1
      ∧ w1 ∈ (s1.trx (s.lock W).trx).trx_locks
      ∧ (s1.lock w1).is_waiting = true
      ∧ (s1.lock w1).trx = (s.lock W).trx
      ∧ (s1.lock w1).page_id = Pr
      ∧ lock_rec_get_nth_bit (s1.lock w1) rh = true)
    ∧ (s1.lock W).is_waiting = false
    ∧ (∀ t, (s.trx t).wait_lock ≠ none →
        ∃ w, (s1.trx t).wait_lock = some w ∧ (s1.lock w).is_waiting = true)

/-- The invariant of the second loop of `lock_move_reorganize_page`, from
the lock system `sm` that the first loop has left, for the copies `R` of
the old locks, the pairs `ps` of an old and a new heap number and the
page `P`: no lock object outside the allocated ones is waiting; a lock
object of `sm` that is waiting is as it was in `sm`; a transaction whose
`wait_lock` was set in `sm` has it set; a waiting lock object allocated
since is on the page and stands for a waiting copy of the same
transaction, with the bit of the new heap number of a pair whose old heap
number the copy had. -/
structure reorganize_track (sm : lock_sys_t) (R : List lock_t) (ps : List (Nat × Nat))
    (P : Nat) (s : lock_sys_t) : Prop where
  n_locks : sm.n_locks ≤ s.n_locks
  alloc : ∀ x, s.n_locks ≤ x → (s.lock x).is_waiting = false
  old : ∀ x, x < sm.n_locks → (s.lock x).is_waiting = true → s.lock x = sm.lock x
  waits : ∀ t, (sm.trx t).wait_lock ≠ none → (s.trx t).wait_lock ≠ none
  new : ∀ x, sm.n_locks ≤ x → (s.lock x).is_waiting = true →
    (s.lock x).page_id = P ∧ ∃ c ∈ R, c.is_waiting = true ∧ c.trx = (s.lock x).trx
      ∧ ∃ p ∈ ps, lock_rec_get_nth_bit c p.1 = true
          ∧ lock_rec_get_nth_bit (s.lock x) p.2 = true

/-- A lock system without record locks in which transaction 1 (with id
10) and transaction 2 (with id 20) each hold an `IX` lock on table 0
(locks 0 and 1). -/
def two_ix_state : lock_sys_t where
  locks := fun i =>
    if i = 0 then { trx := 1, type_mode := { mode := LOCK_IX, table := true }, table := 0 }
    else if i = 1 then
      { trx := 2, type_mode := { mode := LOCK_IX, table := true }, table := 0 }
    else default
  n_locks := 2
  trxs := fun t =>
    if t = 1 then { trx_locks := [0], table_locks := [some 0], id := 10 }
    else if t = 2 then { trx_locks := [1], table_locks := [some 1], id := 20 }
    else default
  tables := fun t => if t = 0 then { locks := [0, 1] } else default

/-! ## Compatibility invariant of the record queues -/

/-- A lock object of a record lock of the record hash table: not a table
lock, not a predicate lock, and without the `INSERT_INTENTION` flag. -/
def rec_plain (l : lock_t) : Prop :=
  l.is_table = false ∧ l.type_mode.predicate = false ∧ l.type_mode.prdt_page = false
    ∧ l.type_mode.insert_intention = false

/-- The compatibility invariant of the record queues.  The chain of the
record hash table has no duplicates and holds allocated locks; every lock
object is a plain record lock; a waiting lock has at most one bit; and for
two locks `A` and `B` of the chain on the same page, of different
transactions, both without the `GAP` flag and with a common bit other than
that of the page supremum: when `B` is granted, and `A` is granted or
stands before `B` in the chain, the modes of `A` and `B` are compatible. -/
structure rec_inv (s : lock_sys_t) : Prop where
  nodup : s.rec_hash.Nodup
  alloc : ∀ g ∈ s.rec_hash, g < s.n_locks
  plain : ∀ g, rec_plain (s.lock g)
  one_bit : ∀ g, (s.lock g).is_waiting = true → ∀ i j,
    lock_rec_get_nth_bit (s.lock g) i = true → lock_rec_get_nth_bit (s.lock g) j = true →
    i = j
  compat : ∀ A B h, A ∈ s.rec_hash → B ∈ s.rec_hash →
    (s.lock A).page_id = (s.lock B).page_id → h ≠ PAGE_HEAP_NO_SUPREMUM →
    lock_rec_get_nth_bit (s.lock A) h = true → lock_rec_get_nth_bit (s.lock B) h = true →
    (s.lock A).type_mode.gap = false → (s.lock B).type_mode.gap = false →
    (s.lock A).trx ≠ (s.lock B).trx → (s.lock B).is_waiting = false →
    ((s.lock A).is_waiting = false ∨ List.Sublist [A, B] s.rec_hash) →
    lock_mode_compatible (s.lock A).mode (s.lock B).mode = true

/-- The empty lock table: no lock object is allocated, the lock memory is
zeroed, and the record hash table is empty.  Nothing is assumed about the
transactions and the tables. -/
def empty_lock_table (s : lock_sys_t) : Prop :=
  s.n_locks = 0 ∧ s.rec_hash = [] ∧ ∀ g, s.lock g = default

/-- One call of a record-lock operation of the lock manager, with any
arguments for which the call returns: `lock_rec_lock`, implicit or not,
with a request of any mode that has none of the flags `WAIT`,
`INSERT_INTENTION`, `TABLE`, `PREDICATE` and `PRDT_PAGE` (the assertions of
`lock_rec_lock` admit the modes `S` and `X` with `GAP`, `REC_NOT_GAP` or no
flag); `lock_rec_unlock`; `lock_release`;
`lock_cancel_waiting_and_release`. -/
inductive rec_op (E : Env) : lock_sys_t → lock_sys_t → Prop
  | lock_rec_lock (fuel : Nat) (s : lock_sys_t) (impl : Bool) (mode : type_mode_t)
      (block : buf_block_t) (heap_no : Nat) (index : dict_index_t) (thr : Nat)
      (err : dberr_t) (s1 : lock_sys_t) :
    mode.wait = false → mode.insert_intention = false → mode.table = false →
    mode.predicate = false → mode.prdt_page = false →
    InnoLock.lock_rec_lock E fuel s impl mode block heap_no index thr = some (err, s1) →
    rec_op E s s1
  | lock_rec_unlock (fuel : Nat) (s : lock_sys_t) (trx : Nat) (block : buf_block_t)
      (heap_no : Nat) (lock_mode : lock_mode) (s1 : lock_sys_t) :
    InnoLock.lock_rec_unlock E fuel s trx block heap_no lock_mode = some s1 →
    rec_op E s s1
  | lock_release (fuel : Nat) (s : lock_sys_t) (trx : Nat) (s1 : lock_sys_t) :
    InnoLock.lock_release E fuel s trx = some s1 →
    rec_op E s s1
  | lock_cancel_waiting_and_release (fuel : Nat) (s : lock_sys_t) (lock : Nat)
      (s1 : lock_sys_t) :
    InnoLock.lock_cancel_waiting_and_release E fuel s lock = some s1 →
    rec_op E s s1

/-- The states of the lock system that are reachable from an empty lock
table through the record-lock operations `rec_op`. -/
inductive rec_reachable (E : Env) : lock_sys_t → Prop
  | empty (s : lock_sys_t) : empty_lock_table s → rec_reachable E s
  | step (s s1 : lock_sys_t) : rec_reachable E s → rec_op E s s1 → rec_reachable E s1

/-- The request of transaction `trx` for a lock of `mode` on heap number
`heap_no` of page 0 through a non-implicit `lock_rec_lock`; an aborted
call leaves the lock system as it is. -/
def rec_request (s : lock_sys_t) (trx : Nat) (mode : type_mode_t) (heap_no : Nat) :
    dberr_t × lock_sys_t :=
  (lock_rec_lock env_ordering 10 s false mode { page_id := 0, n_heap := 8 } heap_no {}
    trx).getD (DB_SUCCESS, s)

/-- The lock system after transaction 1 and then transaction 2 requested a
lock of `mode` on heap number `heap_no` of page 0 in the lock system
without locks. -/
def two_requests (mode : type_mode_t) (heap_no : Nat) : lock_sys_t :=
  (rec_request (rec_request {} 1 mode heap_no).2 2 mode heap_no).2

/-! ## Counter invariant of the table queues -/

/-- The number of locks of mode `AUTO_INC` in the lock list of a table,
waiting ones included. -/
def table_auto_inc_count (s : lock_sys_t) (table : Nat) : Nat :=
  ((s.tbl table).locks.filter
    (fun i => decide ((s.lock i).mode = LOCK_AUTO_INC))).length

/-- The counters of every table agree with its lock list: `n_lock_x_or_s`
is the number of `S` and `X` locks of the list and
`n_waiting_or_granted_auto_inc_locks` the number of its `AUTO_INC` locks,
waiting locks included. -/
def table_counters (s : lock_sys_t) : Prop :=
  ∀ tb, (s.tbl tb).n_lock_x_or_s = table_x_or_s_count s tb
    ∧ (s.tbl tb).n_waiting_or_granted_auto_inc_locks = table_auto_inc_count s tb

/-- The invariant of the table queues that carries the counter invariant
through the operations.  `n0` is the number of lock objects allocated
before the first table lock was requested: a table whose `autoinc_lock` is
below `n0` has its preallocated lock object for itself.  `X` holds for the
transactions whose waiting lock is just being removed and whose `wait_lock`
is not yet reset.

The counters agree with the lists; a table list has no duplicates and
holds allocated table locks on that table, each one allocated after `n0`
or the preallocated `AUTO_INC` lock of the table; a lock of a table list
is in the lock list and in the `table_locks` vector of its owner; a lock
list has no duplicates and holds locks of its transaction that are in the
list of their table; a `wait_lock` is a waiting lock of the lock list; an
entry of an `autoinc_locks` vector is a granted `AUTO_INC` lock of the lock
list on a table whose `autoinc_trx` is the transaction, and no lock occurs
twice in the vector; a transaction has at most one `AUTO_INC` lock in the
list of a table; and of two `AUTO_INC` locks of different transactions in
the list of a table, when one is granted, the other one is waiting behind
it. -/
structure table_inv (n0 : Nat) (X : Nat → Prop) (s : lock_sys_t) : Prop where
  counters : table_counters s
  base : n0 ≤ s.n_locks
  pre : ∀ tb tb1, (s.tbl tb).autoinc_lock < n0 →
    (s.tbl tb1).autoinc_lock = (s.tbl tb).autoinc_lock → tb1 = tb
  nodup_tbl : ∀ tb, (s.tbl tb).locks.Nodup
  tbl_ok : ∀ tb, ∀ g ∈ (s.tbl tb).locks,
    (s.lock g).is_table = true ∧ (s.lock g).table = tb ∧ g < s.n_locks
      ∧ (n0 ≤ g ∨ (g = (s.tbl tb).autoinc_lock ∧ (s.lock g).mode = LOCK_AUTO_INC))
  listed : ∀ tb, ∀ g ∈ (s.tbl tb).locks,
    g ∈ (s.trx (s.lock g).trx).trx_locks ∧ some g ∈ (s.trx (s.lock g).trx).table_locks
  nodup_trx : ∀ t, (s.trx t).trx_locks.Nodup
  trx_ok : ∀ t, ∀ g ∈ (s.trx t).trx_locks,
    (s.lock g).trx = t ∧ g ∈ (s.tbl (s.lock g).table).locks
  wait : ∀ t w, ¬ X t → (s.trx t).wait_lock = some w →
    w ∈ (s.trx t).trx_locks ∧ (s.lock w).is_waiting = true
  vec_ok : ∀ t g, some g ∈ (s.trx t).autoinc_locks →
    g ∈ (s.trx t).trx_locks ∧ (s.lock g).mode = LOCK_AUTO_INC
      ∧ (s.lock g).is_waiting = false ∧ (s.tbl (s.lock g).table).autoinc_trx = some t
  vec_nodup : ∀ t, (s.trx t).autoinc_locks.reduceOption.Nodup
  auto_own : ∀ tb, ∀ A ∈ (s.tbl tb).locks, ∀ B ∈ (s.tbl tb).locks,
    (s.lock A).mode = LOCK_AUTO_INC → (s.lock B).mode = LOCK_AUTO_INC →
    (s.lock A).trx = (s.lock B).trx → A = B
  auto_excl : ∀ tb, ∀ A ∈ (s.tbl tb).locks, ∀ B ∈ (s.tbl tb).locks,
    (s.lock A).mode = LOCK_AUTO_INC → (s.lock B).mode = LOCK_AUTO_INC →
    (s.lock A).trx ≠ (s.lock B).trx → (s.lock B).is_waiting = false →
    (s.lock A).is_waiting = true ∧ List.Sublist [B, A] (s.tbl tb).locks

/-- The table queues before the first table lock is requested: `n0` lock
objects are allocated, the table lists are empty, the counters are 0 and
no table has an `autoinc_trx`; the transactions have no lock, no
`wait_lock` and an empty `autoinc_locks` vector; and the tables whose
preallocated `autoinc_lock` is among the allocated lock objects do not
share it with another table. -/
def empty_table_queues (n0 : Nat) (s : lock_sys_t) : Prop :=
  s.n_locks = n0
  ∧ (∀ tb, (s.tbl tb).locks = [] ∧ (s.tbl tb).n_lock_x_or_s = 0
      ∧ (s.tbl tb).n_waiting_or_granted_auto_inc_locks = 0)
  ∧ (∀ t, (s.trx t).trx_locks = [] ∧ (s.trx t).wait_lock = none
      ∧ (s.trx t).autoinc_locks = [])
  ∧ (∀ tb tb1, (s.tbl tb).autoinc_lock < n0 →
      (s.tbl tb1).autoinc_lock = (s.tbl tb).autoinc_lock → tb1 = tb)

/-- One call of a table-lock operation of the lock manager, with the
contract of its callers, for which the call returns: `lock_table`, for
the mode `AUTO_INC` on a table whose preallocated `autoinc_lock` is one of
the `n0` lock objects allocated at the start; `lock_table_dequeue` for a
granted lock in the list of its table; `lock_release` for a transaction
that is not waiting; `lock_cancel_waiting_and_release` for the `wait_lock`
of a transaction. -/
inductive table_op (E : Env) (n0 : Nat) : lock_sys_t → lock_sys_t → Prop
  | lock_table (fuel : Nat) (s : lock_sys_t) (flags table : Nat) (mode : lock_mode)
      (thr : Nat) (err : dberr_t) (s1 : lock_sys_t) :
    (mode = LOCK_AUTO_INC → (s.tbl table).autoinc_lock < n0) →
    InnoLock.lock_table E fuel s flags table mode thr = some (err, s1) →
    table_op E n0 s s1
  | lock_table_dequeue (s : lock_sys_t) (in_lock : Nat) (s1 : lock_sys_t) :
    in_lock ∈ (s.tbl (s.lock in_lock).table).locks →
    (s.lock in_lock).is_waiting = false →
    InnoLock.lock_table_dequeue E s in_lock = some s1 →
    table_op E n0 s s1
  | lock_release (fuel : Nat) (s : lock_sys_t) (trx : Nat) (s1 : lock_sys_t) :
    (s.trx trx).wait_lock = none →
    InnoLock.lock_release E fuel s trx = some s1 →
    table_op E n0 s s1
  | lock_cancel_waiting_and_release (fuel : Nat) (s : lock_sys_t) (lock : Nat)
      (s1 : lock_sys_t) :
    (s.trx (s.lock lock).trx).wait_lock = some lock →
    InnoLock.lock_cancel_waiting_and_release E fuel s lock = some s1 →
    table_op E n0 s s1

/-- The states of the lock system that are reachable from empty table
queues with `n0` allocated lock objects through the table-lock operations
`table_op`. -/
inductive table_reachable (E : Env) (n0 : Nat) : lock_sys_t → Prop
  | empty (s : lock_sys_t) : empty_table_queues n0 s → table_reachable E n0 s
  | step (s s1 : lock_sys_t) : table_reachable E n0 s → table_op E n0 s s1 →
      table_reachable E n0 s1

/-- A lock system without table locks in which two lock objects are
allocated: the preallocated `AUTO_INC` lock objects of the tables 0 and 1.
The `autoinc_lock` of a table `t` is the lock object `t`. -/
def autoinc_start : lock_sys_t where
  n_locks := 2
  tables := fun t => { autoinc_lock := t }

/-- A `lock_table` request of the transaction `trx` for a lock of `mode`
on the table 0; an aborted call leaves the lock system as it is. -/
def table_request (s : lock_sys_t) (trx : Nat) (mode : lock_mode) : dberr_t × lock_sys_t :=
  (lock_table env_ordering 10 s 0 0 mode trx).getD (DB_SUCCESS, s)

/-- The lock system after the transactions 1 and 2 requested an `AUTO_INC`
lock and the transaction 3 an `X` lock on the table 0 in `autoinc_start`. -/
def three_table_requests : lock_sys_t :=
  (table_request (table_request (table_request autoinc_start 1 LOCK_AUTO_INC).2 2
    LOCK_AUTO_INC).2 3 LOCK_X).2

/-- The lock system after the transaction 1 released its locks in
`three_table_requests`; an aborted call leaves the lock system as it is. -/
def three_requests_released : lock_sys_t :=
  (lock_release env_ordering 10 three_table_requests 1).getD three_table_requests

/-! # Theorems -/

/-! ## Memory access lemmas -/

namespace lock_sys_t

@[simp] theorem lock_set_lock (s : lock_sys_t) (i j : Nat) (l : lock_t) :
    (s.set_lock i l).lock j = if j = i then l else s.lock j := by
  simp [set_lock, lock, Function.update_apply]

@[simp] theorem trx_set_lock (s : lock_sys_t) (i j : Nat) (l : lock_t) :
    (s.set_lock i l).trx j = s.trx j := rfl

@[simp] theorem tbl_set_lock (s : lock_sys_t) (i j : Nat) (l : lock_t) :
    (s.set_lock i l).tbl j = s.tbl j := rfl

@[simp] theorem hash_set_lock (s : lock_sys_t) (i : Nat) (l : lock_t) (h : hash_id) :
    (s.set_lock i l).hash h = s.hash h := by
  cases h <;> rfl

@[simp] theorem n_locks_set_lock (s : lock_sys_t) (i : Nat) (l : lock_t) :
    (s.set_lock i l).n_locks = s.n_locks := rfl

@[simp] theorem lock_set_trx (s : lock_sys_t) (i j : Nat) (t : trx_t) :
    (s.set_trx i t).lock j = s.lock j := rfl

@[simp] theorem trx_set_trx (s : lock_sys_t) (i j : Nat) (t : trx_t) :
    (s.set_trx i t).trx j = if j = i then t else s.trx j := by
  simp [set_trx, trx, Function.update_apply]

@[simp] theorem tbl_set_trx (s : lock_sys_t) (i j : Nat) (t : trx_t) :
    (s.set_trx i t).tbl j = s.tbl j := rfl

@[simp] theorem hash_set_trx (s : lock_sys_t) (i : Nat) (t : trx_t) (h : hash_id) :
    (s.set_trx i t).hash h = s.hash h := by
  cases h <;> rfl

@[simp] theorem n_locks_set_trx (s : lock_sys_t) (i : Nat) (t : trx_t) :
    (s.set_trx i t).n_locks = s.n_locks := rfl

@[simp] theorem lock_set_tbl (s : lock_sys_t) (i j : Nat) (t : dict_table_t) :
    (s.set_tbl i t).lock j = s.lock j := rfl

@[simp] theorem trx_set_tbl (s : lock_sys_t) (i j : Nat) (t : dict_table_t) :
    (s.set_tbl i t).trx j = s.trx j := rfl

@[simp] theorem tbl_set_tbl (s : lock_sys_t) (i j : Nat) (t : dict_table_t) :
    (s.set_tbl i t).tbl j = if j = i then t else s.tbl j := by
  simp [set_tbl, tbl, Function.update_apply]

@[simp] theorem hash_set_tbl (s : lock_sys_t) (i : Nat) (t : dict_table_t) (h : hash_id) :
    (s.set_tbl i t).hash h = s.hash h := by
  cases h <;> rfl

@[simp] theorem n_locks_set_tbl (s : lock_sys_t) (i : Nat) (t : dict_table_t) :
    (s.set_tbl i t).n_locks = s.n_locks := rfl

@[simp] theorem lock_set_hash (s : lock_sys_t) (h : hash_id) (c : List Nat) (j : Nat) :
    (s.set_hash h c).lock j = s.lock j := by
  cases h <;> rfl

@[simp] theorem trx_set_hash (s : lock_sys_t) (h : hash_id) (c : List Nat) (j : Nat) :
    (s.set_hash h c).trx j = s.trx j := by
  cases h <;> rfl

@[simp] theorem tbl_set_hash (s : lock_sys_t) (h : hash_id) (c : List Nat) (j : Nat) :
    (s.set_hash h c).tbl j = s.tbl j := by
  cases h <;> rfl

@[simp] theorem n_locks_set_hash (s : lock_sys_t) (h : hash_id) (c : List Nat) :
    (s.set_hash h c).n_locks = s.n_locks := by
  cases h <;> rfl

@[simp] theorem hash_set_hash (s : lock_sys_t) (h k : hash_id) (c : List Nat) :
    (s.set_hash h c).hash k = if k = h then c else s.hash k := by
  cases h <;> cases k <;> simp [set_hash, hash]

@[simp] theorem lock_alloc_state (s : lock_sys_t) (l : lock_t) (j : Nat) :
    (s.alloc_state l).lock j = if j = s.n_locks then l else s.lock j := by
  simp [alloc_state, lock, Function.update_apply]

@[simp] theorem trx_alloc_state (s : lock_sys_t) (l : lock_t) (j : Nat) :
    (s.alloc_state l).trx j = s.trx j := rfl

@[simp] theorem tbl_alloc_state (s : lock_sys_t) (l : lock_t) (j : Nat) :
    (s.alloc_state l).tbl j = s.tbl j := rfl

@[simp] theorem hash_alloc_state (s : lock_sys_t) (l : lock_t) (h : hash_id) :
    (s.alloc_state l).hash h = s.hash h := by
  cases h <;> rfl

@[simp] theorem n_locks_alloc_state (s : lock_sys_t) (l : lock_t) :
    (s.alloc_state l).n_locks = s.n_locks + 1 := rfl

theorem page_chain_congr (s s1 : lock_sys_t) (h : hash_id) (id : Nat)
    (hh : s1.hash h = s.hash h)
    (hp : ∀ i, (s1.lock i).page_id = (s.lock i).page_id) :
    s1.page_chain h id = s.page_chain h id := by
  simp [page_chain, hh, hp]

end lock_sys_t

/-- C1: a request without `INSERT_INTENTION` that has `GAP` or is on the
page supremum never waits, whatever the requesting transaction, the mode
and the existing lock. -/
theorem gap_request_never_waits (E : Env) (for_locking : Bool) (trx : Nat)
    (type_mode : type_mode_t) (lock2 : lock_t) (lock_is_on_supremum : Bool)
    (hii : type_mode.insert_intention = false)
    (hgap : type_mode.gap = true ∨ lock_is_on_supremum = true) :
    lock_rec_has_to_wait E for_locking trx type_mode lock2 lock_is_on_supremum
      = false := by
  unfold lock_rec_has_to_wait
  rcases hgap with h | h <;> simp [hii, h]

/-- C1 at the scenario of the specification: transaction 2 requests
`X + GAP` against the granted `S + GAP` lock of transaction 1. -/
theorem gap_request_never_waits_witness :
    lock_rec_has_to_wait env_ordering true 2
      { mode := LOCK_X, gap := true }
      { trx := 1, type_mode := { mode := LOCK_S, gap := true }, page_id := 1,
        bitmap := [false, false, false, false, false, true, false, false] }
      false = false :=
  gap_request_never_waits env_ordering true 2 { mode := LOCK_X, gap := true }
    { trx := 1, type_mode := { mode := LOCK_S, gap := true }, page_id := 1,
      bitmap := [false, false, false, false, false, true, false, false] }
    false rfl (Or.inl rfl)

/-- C3, as stated, fails: an ordinary (next-key) `X` request against the
`S + GAP` lock of another transaction meets none of the seven listed
conditions, and yet `lock_rec_has_to_wait` returns false. -/
theorem listed_conditions_counterexample :
    listed_no_wait_conditions env_ordering 2 { mode := LOCK_X }
        { trx := 1, type_mode := { mode := LOCK_S, gap := true } } false = false
    ∧ lock_rec_has_to_wait env_ordering true 2 { mode := LOCK_X }
        { trx := 1, type_mode := { mode := LOCK_S, gap := true } } false = false := by
  decide

/-- C3, amended: `lock_rec_has_to_wait` returns true if and only if none
of the seven conditions holds, where condition 4 reads: the request has no
`INSERT_INTENTION` and the existing lock has `GAP`. -/
theorem has_to_wait_iff_no_condition (E : Env) (for_locking : Bool) (trx : Nat)
    (type_mode : type_mode_t) (lock2 : lock_t) (lock_is_on_supremum : Bool) :
    lock_rec_has_to_wait E for_locking trx type_mode lock2 lock_is_on_supremum
      = !code_no_wait_conditions E trx type_mode lock2 lock_is_on_supremum := by
  unfold lock_rec_has_to_wait code_no_wait_conditions
  by_cases h1 : trx = lock2.trx
  · simp [h1]
  · cases h2 : lock_mode_compatible type_mode.mode lock2.mode <;>
    cases h3 : type_mode.insert_intention <;>
    cases h4 : lock_is_on_supremum <;>
    cases h5 : type_mode.gap <;>
    cases h6 : lock2.is_gap <;>
    cases h7 : lock2.is_record_not_gap <;>
    cases h8 : lock2.is_insert_intention <;>
    cases h9 : E.thd_need_ordering_with trx lock2.trx <;>
    simp [h1]

/-! ## Effects of granting -/

theorem lock_reset_lock (s : lock_sys_t) (g j : Nat) :
    (lock_reset_lock_and_trx_wait s g).lock j
      = if j = g then (s.lock g).clear_wait else s.lock j := by
  simp [lock_reset_lock_and_trx_wait, lock_t.clear_wait]

theorem lock_reset_trx (s : lock_sys_t) (g t : Nat) :
    (lock_reset_lock_and_trx_wait s g).trx t
      = if t = (s.lock g).trx then { s.trx t with wait_lock := none } else s.trx t := by
  simp [lock_reset_lock_and_trx_wait]
  split <;> simp_all

theorem lock_reset_tbl (s : lock_sys_t) (g t : Nat) :
    (lock_reset_lock_and_trx_wait s g).tbl t = s.tbl t := by
  simp [lock_reset_lock_and_trx_wait]

theorem lock_reset_hash (s : lock_sys_t) (g : Nat) (h : hash_id) :
    (lock_reset_lock_and_trx_wait s g).hash h = s.hash h := by
  simp [lock_reset_lock_and_trx_wait]

theorem lock_wait_end_lock (s : lock_sys_t) (t j : Nat) :
    (lock_wait_end s t).lock j = s.lock j := by
  simp [lock_wait_end]

theorem lock_wait_end_tbl (s : lock_sys_t) (t j : Nat) :
    (lock_wait_end s t).tbl j = s.tbl j := by
  simp [lock_wait_end]

theorem lock_wait_end_hash (s : lock_sys_t) (t : Nat) (h : hash_id) :
    (lock_wait_end s t).hash h = s.hash h := by
  simp [lock_wait_end]

theorem lock_wait_end_wait_lock (s : lock_sys_t) (t u : Nat) :
    ((lock_wait_end s t).trx u).wait_lock = (s.trx u).wait_lock := by
  simp only [lock_wait_end, lock_sys_t.trx_set_trx]
  split
  · subst_vars; split <;> rfl
  · rfl

theorem lock_grant_lock (s : lock_sys_t) (g j : Nat) :
    (lock_grant s g).lock j
      = if j = g then (s.lock g).clear_wait else s.lock j := by
  unfold lock_grant
  simp only []
  split <;> split <;> simp [lock_wait_end_lock, lock_reset_lock]

theorem lock_grant_hash (s : lock_sys_t) (g : Nat) (h : hash_id) :
    (lock_grant s g).hash h = s.hash h := by
  unfold lock_grant
  simp only []
  split <;> split <;> simp [lock_wait_end_hash, lock_reset_hash]

theorem lock_grant_wait_lock (s : lock_sys_t) (g t : Nat) :
    ((lock_grant s g).trx t).wait_lock
      = if t = (s.lock g).trx then none else (s.trx t).wait_lock := by
  unfold lock_grant
  simp only []
  split <;> split <;>
    simp only [lock_wait_end_wait_lock, lock_sys_t.trx_set_trx, lock_sys_t.trx_set_tbl,
      lock_reset_trx, lock_reset_lock, if_true] <;>
    split <;> simp_all [lock_t.clear_wait]

theorem clear_wait_page_id (l : lock_t) : l.clear_wait.page_id = l.page_id := rfl
theorem clear_wait_trx (l : lock_t) : l.clear_wait.trx = l.trx := rfl
theorem clear_wait_is_waiting (l : lock_t) : l.clear_wait.is_waiting = false := rfl
theorem clear_wait_of_not_waiting (l : lock_t) (h : l.is_waiting = false) :
    l.clear_wait = l := by
  cases l with
  | mk trx tm index table page_id bitmap =>
    cases tm
    simp_all [lock_t.clear_wait, lock_t.is_waiting]

theorem lock_grant_page_chain (s : lock_sys_t) (g : Nat) (h : hash_id) (id : Nat) :
    (lock_grant s g).page_chain h id = s.page_chain h id := by
  apply lock_sys_t.page_chain_congr
  · exact lock_grant_hash s g h
  · intro i
    rw [lock_grant_lock]
    split
    · subst_vars; rfl
    · rfl

/-! ## Granting on release of a record lock -/

theorem lock_rec_dequeue_from_page_eq (E : Env) (s : lock_sys_t) (in_lock : Nat) :
    lock_rec_dequeue_from_page E s in_lock
      = ((lock_rec_dequeue_removed s in_lock).page_chain
          (lock_hash_get (s.lock in_lock).type_mode) (s.lock in_lock).page_id).foldl
          (lock_rec_grant_step E) (lock_rec_dequeue_removed s in_lock) := rfl

theorem lock_rec_dequeue_removed_lock (s : lock_sys_t) (in_lock j : Nat) :
    (lock_rec_dequeue_removed s in_lock).lock j = s.lock j := by
  simp [lock_rec_dequeue_removed]

theorem lock_rec_dequeue_removed_hash (s : lock_sys_t) (in_lock : Nat) (h : hash_id) :
    (lock_rec_dequeue_removed s in_lock).hash h
      = if h = lock_hash_get (s.lock in_lock).type_mode then (s.hash h).erase in_lock
        else s.hash h := by
  simp [lock_rec_dequeue_removed]
  split <;> simp_all

theorem lock_rec_grant_step_lock_ne (E : Env) (s : lock_sys_t) (g j : Nat) (h : j ≠ g) :
    (lock_rec_grant_step E s g).lock j = s.lock j := by
  unfold lock_rec_grant_step
  split
  · rfl
  · split
    · rw [lock_grant_lock, if_neg h]
    · rfl

theorem lock_rec_grant_step_hash (E : Env) (s : lock_sys_t) (g : Nat) (h : hash_id) :
    (lock_rec_grant_step E s g).hash h = s.hash h := by
  unfold lock_rec_grant_step
  split
  · rfl
  · split
    · rw [lock_grant_hash]
    · rfl

theorem lock_rec_grant_step_page_chain (E : Env) (s : lock_sys_t) (g : Nat) (h : hash_id)
    (id : Nat) : (lock_rec_grant_step E s g).page_chain h id = s.page_chain h id := by
  unfold lock_rec_grant_step
  split
  · rfl
  · split
    · rw [lock_grant_page_chain]
    · rfl

theorem lock_rec_grant_step_wait_lock_none (E : Env) (s : lock_sys_t) (g t : Nat)
    (h : (s.trx t).wait_lock = none) :
    ((lock_rec_grant_step E s g).trx t).wait_lock = none := by
  unfold lock_rec_grant_step
  split
  · exact h
  · split
    · rw [lock_grant_wait_lock]; split <;> simp [h]
    · exact h

theorem foldl_grant_lock_notin (E : Env) (l : List Nat) (s : lock_sys_t) (w : Nat)
    (h : w ∉ l) : (l.foldl (lock_rec_grant_step E) s).lock w = s.lock w := by
  induction l generalizing s with
  | nil => rfl
  | cons a l ih =>
    simp only [List.mem_cons, not_or] at h
    rw [List.foldl_cons, ih _ h.2, lock_rec_grant_step_lock_ne E s a w h.1]

theorem foldl_grant_hash (E : Env) (l : List Nat) (s : lock_sys_t) (h : hash_id) :
    (l.foldl (lock_rec_grant_step E) s).hash h = s.hash h := by
  induction l generalizing s with
  | nil => rfl
  | cons a l ih => rw [List.foldl_cons, ih, lock_rec_grant_step_hash]

theorem foldl_grant_page_chain (E : Env) (l : List Nat) (s : lock_sys_t) (h : hash_id)
    (id : Nat) : (l.foldl (lock_rec_grant_step E) s).page_chain h id = s.page_chain h id := by
  induction l generalizing s with
  | nil => rfl
  | cons a l ih => rw [List.foldl_cons, ih, lock_rec_grant_step_page_chain]

theorem foldl_grant_wait_lock_none (E : Env) (l : List Nat) (s : lock_sys_t) (t : Nat)
    (h : (s.trx t).wait_lock = none) :
    ((l.foldl (lock_rec_grant_step E) s).trx t).wait_lock = none := by
  induction l generalizing s with
  | nil => exact h
  | cons a l ih =>
    rw [List.foldl_cons]
    exact ih _ (lock_rec_grant_step_wait_lock_none E s a t h)

theorem lock_rec_get_nth_bit_lt (l : lock_t) (i : Nat)
    (h : lock_rec_get_nth_bit l i = true) : i < lock_rec_get_n_bits l := by
  unfold lock_rec_get_nth_bit at h
  unfold lock_rec_get_n_bits
  by_contra hc
  rw [List.getD_eq_default _ _ (Nat.le_of_not_lt hc)] at h
  exact Bool.false_ne_true h

theorem lock_rec_has_to_wait_in_queue_eq_none (E : Env) (s : lock_sys_t) (w : Nat) :
    lock_rec_has_to_wait_in_queue E s w = none ↔
      ∀ e ∈ (s.page_chain (lock_hash_get (s.lock w).type_mode) (s.lock w).page_id).takeWhile
              (fun i => i != w),
        ∀ hn, lock_rec_find_set_bit (s.lock w) = some hn →
          ¬ (lock_rec_get_nth_bit (s.lock e) hn = true ∧ lock_has_to_wait E s w e = true) := by
  unfold lock_rec_has_to_wait_in_queue
  simp only [List.find?_eq_none]
  constructor
  · intro h e he hn hhn hc
    have := h e he
    rw [hhn] at this
    simp only [Bool.and_eq_true, decide_eq_true_eq, not_and] at this
    exact this ⟨lock_rec_get_nth_bit_lt _ _ hc.1, hc.1⟩ hc.2
  · intro h e he
    cases hhn : lock_rec_find_set_bit (s.lock w) with
    | none => simp
    | some hn =>
      have := h e he hn hhn
      simp only [Bool.and_eq_true, decide_eq_true_eq, not_and]
      intro hb hw
      exact this ⟨hb.2, hw⟩

theorem takeWhile_ne_of_nodup (pre post : List Nat) (w : Nat)
    (h : (pre ++ w :: post).Nodup) :
    (pre ++ w :: post).takeWhile (fun i => i != w) = pre := by
  have hw : w ∉ pre := by
    intro hm
    have := List.nodup_append.mp h
    exact this.2.2 hm (List.mem_cons_self _ _) 
  induction pre with
  | nil => simp
  | cons a pre ih =>
    have ha : a ≠ w := by
      intro hc; subst hc; exact hw (List.mem_cons_self _ _)
    have hw2 : w ∉ pre := fun hm => hw (List.mem_cons_of_mem _ hm)
    simp only [List.cons_append, List.takeWhile_cons]
    simp only [bne_iff_ne, ne_eq, ha, not_false_eq_true, ↓reduceIte, List.cons.injEq, true_and]
    exact ih (List.nodup_cons.mp h).2 hw2

theorem lock_grant_trx_locks (s : lock_sys_t) (g t : Nat) :
    ((lock_grant s g).trx t).trx_locks = (s.trx t).trx_locks := by
  unfold lock_grant
  simp only []
  split <;> split <;>
    simp only [lock_wait_end, lock_sys_t.trx_set_trx, lock_sys_t.trx_set_tbl,
      lock_reset_trx, lock_reset_lock] <;>
    (repeat' split) <;> simp_all

theorem lock_rec_grant_step_trx_locks (E : Env) (s : lock_sys_t) (g t : Nat) :
    ((lock_rec_grant_step E s g).trx t).trx_locks = (s.trx t).trx_locks := by
  unfold lock_rec_grant_step
  split
  · rfl
  · split
    · rw [lock_grant_trx_locks]
    · rfl

theorem foldl_grant_trx_locks (E : Env) (l : List Nat) (s : lock_sys_t) (t : Nat) :
    ((l.foldl (lock_rec_grant_step E) s).trx t).trx_locks = (s.trx t).trx_locks := by
  induction l generalizing s with
  | nil => rfl
  | cons a l ih => rw [List.foldl_cons, ih, lock_rec_grant_step_trx_locks]

theorem lock_rec_dequeue_removed_trx_locks (s : lock_sys_t) (in_lock : Nat) :
    ((lock_rec_dequeue_removed s in_lock).trx (s.lock in_lock).trx).trx_locks
      = (s.trx (s.lock in_lock).trx).trx_locks.erase in_lock := by
  simp [lock_rec_dequeue_removed]

/-- C4: `lock_rec_dequeue_from_page(in_lock)` removes `in_lock` from its
hash chain and from the lock list of its transaction and then walks the
page chain `pre ++ w :: post` from its head.  A lock `w` that is not
waiting is left alone.  A waiting lock `w` is granted (its `WAIT` flag and
the `wait_lock` of its transaction are cleared) if and only if, in the
state in which it is examined, no lock earlier in the chain with the bit
of the heap number of `w` set satisfies `lock_has_to_wait(w, earlier)`;
otherwise it stays as it was. -/
theorem lock_rec_dequeue_grants_fifo (E : Env) (s : lock_sys_t) (in_lock w : Nat)
    (pre post : List Nat)
    (hchain : (lock_rec_dequeue_removed s in_lock).page_chain
        (lock_hash_get (s.lock in_lock).type_mode) (s.lock in_lock).page_id
          = pre ++ w :: post)
    (hnodup : (pre ++ w :: post).Nodup)
    (hhash : lock_hash_get (s.lock w).type_mode
        = lock_hash_get (s.lock in_lock).type_mode) :
    (lock_rec_dequeue_from_page E s in_lock).hash (lock_hash_get (s.lock in_lock).type_mode)
        = (s.hash (lock_hash_get (s.lock in_lock).type_mode)).erase in_lock
    ∧ ((lock_rec_dequeue_from_page E s in_lock).trx (s.lock in_lock).trx).trx_locks
        = (s.trx (s.lock in_lock).trx).trx_locks.erase in_lock
    ∧ (pre.foldl (lock_rec_grant_step E) (lock_rec_dequeue_removed s in_lock)).lock w
        = s.lock w
    ∧ ((s.lock w).is_waiting = false →
        (lock_rec_dequeue_from_page E s in_lock).lock w = s.lock w)
    ∧ ((s.lock w).is_waiting = true →
        (((lock_rec_dequeue_from_page E s in_lock).lock w).is_waiting = false ↔
          ∀ e ∈ pre, ∀ hn, lock_rec_find_set_bit (s.lock w) = some hn →
            ¬ (lock_rec_get_nth_bit
                ((pre.foldl (lock_rec_grant_step E)
                  (lock_rec_dequeue_removed s in_lock)).lock e) hn = true
              ∧ lock_has_to_wait E
                  (pre.foldl (lock_rec_grant_step E) (lock_rec_dequeue_removed s in_lock))
                  w e = true))
        ∧ (((lock_rec_dequeue_from_page E s in_lock).lock w).is_waiting = false →
            (lock_rec_dequeue_from_page E s in_lock).lock w = (s.lock w).clear_wait
            ∧ ((lock_rec_dequeue_from_page E s in_lock).trx (s.lock w).trx).wait_lock = none)
        ∧ (((lock_rec_dequeue_from_page E s in_lock).lock w).is_waiting = true →
            (lock_rec_dequeue_from_page E s in_lock).lock w = s.lock w)) := by
  have hwpre : w ∉ pre := by
    intro hm
    exact (List.nodup_append.mp hnodup).2.2 hm (List.mem_cons_self _ _)
  have hwpost : w ∉ post := (List.nodup_cons.mp (List.nodup_append.mp hnodup).2.1).1
  set s3 := lock_rec_dequeue_removed s in_lock with hs3
  set sw := pre.foldl (lock_rec_grant_step E) s3 with hsw
  have hfinal : lock_rec_dequeue_from_page E s in_lock
      = post.foldl (lock_rec_grant_step E) (lock_rec_grant_step E sw w) := by
    rw [lock_rec_dequeue_from_page_eq, hchain, List.foldl_append, List.foldl_cons]
  have hlw : sw.lock w = s.lock w := by
    rw [hsw, foldl_grant_lock_notin E pre s3 w hwpre, hs3, lock_rec_dequeue_removed_lock]
  have hfl : (lock_rec_dequeue_from_page E s in_lock).lock w
      = (lock_rec_grant_step E sw w).lock w := by
    rw [hfinal, foldl_grant_lock_notin E post _ w hwpost]
  have hq : lock_rec_has_to_wait_in_queue E sw w = none ↔
      ∀ e ∈ pre, ∀ hn, lock_rec_find_set_bit (s.lock w) = some hn →
        ¬ (lock_rec_get_nth_bit (sw.lock e) hn = true ∧ lock_has_to_wait E sw w e = true) := by
    rw [lock_rec_has_to_wait_in_queue_eq_none, hlw, hhash]
    have hpc : sw.page_chain (lock_hash_get (s.lock in_lock).type_mode) (s.lock w).page_id
        = pre ++ w :: post := by
      have hpg : (s.lock w).page_id = (s.lock in_lock).page_id := by
        have hm : w ∈ s3.page_chain (lock_hash_get (s.lock in_lock).type_mode)
            (s.lock in_lock).page_id := by
          rw [hchain]; simp
        simp only [lock_sys_t.page_chain, List.mem_filter, beq_iff_eq] at hm
        rw [← hm.2, hs3, lock_rec_dequeue_removed_lock]
      rw [hsw, foldl_grant_page_chain, hpg, hchain]
    rw [hpc, takeWhile_ne_of_nodup pre post w hnodup]
  refine ⟨?_, ?_, hlw, ?_, ?_⟩
  · rw [lock_rec_dequeue_from_page_eq, foldl_grant_hash, lock_rec_dequeue_removed_hash]
    simp
  · rw [lock_rec_dequeue_from_page_eq, foldl_grant_trx_locks,
      lock_rec_dequeue_removed_trx_locks]
  · intro hnw
    rw [hfl]
    unfold lock_rec_grant_step
    rw [hlw, hnw]
    simp [hlw]
  · intro hwt
    have hstep : lock_rec_grant_step E sw w
        = match lock_rec_has_to_wait_in_queue E sw w with
          | none => lock_grant sw w
          | some _ => sw := by
      unfold lock_rec_grant_step
      rw [hlw, hwt]
      simp
    cases hc : lock_rec_has_to_wait_in_queue E sw w with
    | none =>
      have hg : (lock_rec_dequeue_from_page E s in_lock).lock w = (s.lock w).clear_wait := by
        rw [hfl, hstep, hc]
        simp only []
        rw [lock_grant_lock, if_pos rfl, hlw]
      refine ⟨?_, ?_, ?_⟩
      · rw [hg]
        simp only [clear_wait_is_waiting, true_iff]
        exact hq.mp hc
      · intro _
        refine ⟨hg, ?_⟩
        rw [hfinal]
        apply foldl_grant_wait_lock_none
        rw [hstep, hc]
        simp only []
        rw [lock_grant_wait_lock, hlw, if_pos rfl]
      · intro hw2
        rw [hg, clear_wait_is_waiting] at hw2
        exact absurd hw2 (by simp)
    | some c =>
      have hg : (lock_rec_dequeue_from_page E s in_lock).lock w = s.lock w := by
        rw [hfl, hstep, hc]
        simp only []
        exact hlw
      have hne : ¬ (lock_rec_has_to_wait_in_queue E sw w = none) := by simp [hc]
      refine ⟨?_, ?_, ?_⟩
      · rw [hg, hwt]
        constructor
        · intro h; exact absurd h (by simp)
        · intro h; exact absurd (hq.mpr h) hne
      · intro h
        rw [hg, hwt] at h
        exact absurd h (by simp)
      · intro _
        exact hg

/-- C4 at the queue of scenario 1: dequeuing the `S` lock of transaction
1 grants the `X` request of transaction 2 and leaves the `S` request of
transaction 3 waiting; dequeuing the lock of transaction 2 afterwards
grants transaction 3. -/
theorem lock_rec_dequeue_grants_fifo_witness :
    (lock_rec_dequeue_removed fifo_state 0).page_chain
        (lock_hash_get (fifo_state.lock 0).type_mode) (fifo_state.lock 0).page_id
          = [] ++ 1 :: [2]
    ∧ ([] ++ 1 :: [2] : List Nat).Nodup
    ∧ lock_hash_get (fifo_state.lock 1).type_mode
        = lock_hash_get (fifo_state.lock 0).type_mode
    ∧ (fifo_state.lock 1).is_waiting = true
    ∧ ((lock_rec_dequeue_from_page env_ordering fifo_state 0).lock 1).is_waiting = false
    ∧ ((lock_rec_dequeue_from_page env_ordering fifo_state 0).lock 2).is_waiting = true
    ∧ ((lock_rec_dequeue_from_page env_ordering
          (lock_rec_dequeue_from_page env_ordering fifo_state 0) 1).lock 2).is_waiting
        = false :=
  ⟨by decide, by decide, by decide, by decide,
    ((lock_rec_dequeue_grants_fifo env_ordering fifo_state 0 1 [] [2]
      (by decide) (by decide) (by decide)).2.2.2.2 (by decide)).1.mpr
      (fun e he => absurd he (List.not_mem_nil e)),
    by decide, by decide⟩

/-! ## Table lock requests -/

theorem lock_table_create_spec (s : lock_sys_t) (table : Nat) (type_mode : type_mode_t)
    (trx : Nat) :
    ((lock_table_create s table type_mode trx).2.tbl table).locks
        = (s.tbl table).locks ++ [(lock_table_create s table type_mode trx).1]
    ∧ ((lock_table_create s table type_mode trx).2.lock
          (lock_table_create s table type_mode trx).1).type_mode
        = { type_mode with table := true }
    ∧ ((lock_table_create s table type_mode trx).2.lock
          (lock_table_create s table type_mode trx).1).trx = trx
    ∧ ((lock_table_create s table type_mode trx).2.lock
          (lock_table_create s table type_mode trx).1).table = table
    ∧ ((lock_table_create s table type_mode trx).2.trx trx).trx_locks
        = (s.trx trx).trx_locks ++ [(lock_table_create s table type_mode trx).1]
    ∧ ((lock_table_create s table type_mode trx).2.trx trx).wait_lock
        = (if type_mode.wait then some (lock_table_create s table type_mode trx).1
           else (s.trx trx).wait_lock) := by
  unfold lock_table_create
  cases hm : type_mode.mode <;> simp only [] <;>
    (try split) <;> (try split) <;>
    simp [lock_sys_t.alloc_lock, lock_sys_t.alloc_state, lock_sys_t.lock, lock_sys_t.trx,
      lock_sys_t.tbl, lock_sys_t.set_lock, lock_sys_t.set_trx, lock_sys_t.set_tbl,
      Function.update_apply]

theorem lock_table_other_has_incompatible_none (s : lock_sys_t) (trx table : Nat)
    (mode : lock_mode)
    (h : ∀ l ∈ (s.tbl table).locks,
      (s.lock l).trx = trx ∨ lock_mode_compatible (s.lock l).mode mode = true) :
    lock_table_other_has_incompatible s trx true table mode = none := by
  unfold lock_table_other_has_incompatible
  split
  · rfl
  · rw [List.find?_eq_none]
    intro l hl
    rcases h l (List.mem_reverse.mp hl) with h1 | h1 <;> simp [h1]

theorem lock_table_other_has_incompatible_some (s : lock_sys_t) (trx table : Nat)
    (mode : lock_mode)
    (hcount : (s.tbl table).n_lock_x_or_s = 0 →
      ∀ l ∈ (s.tbl table).locks, (s.lock l).mode ≠ LOCK_S ∧ (s.lock l).mode ≠ LOCK_X)
    (h : ∃ l ∈ (s.tbl table).locks,
      (s.lock l).trx ≠ trx ∧ lock_mode_compatible (s.lock l).mode mode = false) :
    (lock_table_other_has_incompatible s trx true table mode).isSome = true := by
  obtain ⟨l, hl, ht, hc⟩ := h
  unfold lock_table_other_has_incompatible
  split
  · rename_i hfast
    simp only [Bool.and_eq_true, decide_eq_true_eq, beq_iff_eq] at hfast
    have := hcount hfast.2 l hl
    exfalso
    revert hc this
    have hm := hfast.1
    cases mode <;> cases hlm : (s.lock l).mode <;>
      simp_all [lock_mode.toNat, lock_mode_compatible, lock_t.mode]
  · rw [List.find?_isSome]
    exact ⟨l, List.mem_reverse.mpr hl, by simp [ht, hc]⟩

theorem lock_table_enqueue_waiting_nodetect (E : Env) (fuel : Nat) (s : lock_sys_t)
    (mode : type_mode_t) (table thr : Nat) (hdd : E.innobase_deadlock_detect = false) :
    lock_table_enqueue_waiting E fuel s mode table thr
      = some (DB_LOCK_WAIT,
          (lock_table_create s table { mode with wait := true } thr).2.set_trx thr
            { (lock_table_create s table { mode with wait := true } thr).2.trx thr with
              wait_thr := some thr, was_chosen_as_deadlock_victim := false }) := by
  have c6 := (lock_table_create_spec s table { mode with wait := true } thr).2.2.2.2.2
  simp only [lock_table_enqueue_waiting, DeadlockChecker.check_and_resolve, hdd,
    Bool.not_false, ↓reduceIte]
  simp only [c6, ↓reduceIte, Option.isNone_some, Bool.false_eq_true]

/-- C9: `lock_table` returns `DB_SUCCESS` and changes nothing when locking
is disabled by the flag, by read-only mode or for a temporary table, and
(with `flags = 0`) when the transaction already has an equal or stronger
lock on the table.  Otherwise, when every lock of another transaction in
the list of the table, granted or waiting, is compatible with `mode`, it
appends exactly one granted lock of that mode, owned by the transaction,
at the tail of the list and returns `DB_SUCCESS`; when some lock of another
transaction is incompatible (the counter `n_lock_x_or_s` being zero only
if the list holds no `S` or `X` lock) and deadlock detection is off, the
appended lock carries `WAIT`, becomes the `wait_lock` of the transaction,
and the result is `DB_LOCK_WAIT`. -/
theorem lock_table_request (E : Env) (fuel : Nat) (s : lock_sys_t) (flags table : Nat)
    (mode : lock_mode) (thr : Nat) :
    ((flags &&& E.BTR_NO_LOCKING_FLAG ≠ 0 ∨ E.srv_read_only_mode = true
        ∨ (s.tbl table).is_temporary = true) →
      lock_table E fuel s flags table mode thr = some (DB_SUCCESS, s))
    ∧ (E.srv_read_only_mode = false → (s.tbl table).is_temporary = false →
        lock_table_has s thr table mode = true →
        lock_table E fuel s 0 table mode thr = some (DB_SUCCESS, s))
    ∧ (E.srv_read_only_mode = false → (s.tbl table).is_temporary = false →
        lock_table_has s thr table mode = false →
        (∀ l ∈ (s.tbl table).locks,
          (s.lock l).trx = thr ∨ lock_mode_compatible (s.lock l).mode mode = true) →
        ∃ s1 lock, lock_table E fuel s 0 table mode thr = some (DB_SUCCESS, s1)
          ∧ (s1.tbl table).locks = (s.tbl table).locks ++ [lock]
          ∧ (s1.lock lock).type_mode = { mode := mode, table := true }
          ∧ (s1.lock lock).trx = thr ∧ (s1.lock lock).table = table
          ∧ (s1.trx thr).trx_locks = (s.trx thr).trx_locks ++ [lock]
          ∧ (s1.trx thr).wait_lock = (s.trx thr).wait_lock)
    ∧ (E.srv_read_only_mode = false → (s.tbl table).is_temporary = false →
        lock_table_has s thr table mode = false →
        E.innobase_deadlock_detect = false →
        ((s.tbl table).n_lock_x_or_s = 0 →
          ∀ l ∈ (s.tbl table).locks, (s.lock l).mode ≠ LOCK_S ∧ (s.lock l).mode ≠ LOCK_X) →
        (∃ l ∈ (s.tbl table).locks,
          (s.lock l).trx ≠ thr ∧ lock_mode_compatible (s.lock l).mode mode = false) →
        ∃ s1 lock, lock_table E fuel s 0 table mode thr = some (DB_LOCK_WAIT, s1)
          ∧ (s1.tbl table).locks = (s.tbl table).locks ++ [lock]
          ∧ (s1.lock lock).type_mode = { mode := mode, table := true, wait := true }
          ∧ (s1.lock lock).trx = thr ∧ (s1.lock lock).table = table
          ∧ (s1.trx thr).trx_locks = (s.trx thr).trx_locks ++ [lock]
          ∧ (s1.trx thr).wait_lock = some lock) := by
  refine ⟨?_, ?_, ?_, ?_⟩
  · intro h
    unfold lock_table
    rcases h with h | h | h
    · simp [h]
    · simp [h]
    · simp [h]
  · intro hrw htmp hhas
    unfold lock_table
    simp [hrw, htmp, hhas]
  · intro hrw htmp hhas hcompat
    unfold lock_table
    simp only [Nat.zero_and, bne_self_eq_false, hrw, htmp, Bool.or_self, Bool.false_eq_true,
      ↓reduceIte, ne_eq, not_true_eq_false, hhas]
    have key : ∀ s0 : lock_sys_t, (s0.tbl table).locks = (s.tbl table).locks →
        (∀ l, s0.lock l = s.lock l) → (s0.trx thr).trx_locks = (s.trx thr).trx_locks →
        (s0.trx thr).wait_lock = (s.trx thr).wait_lock →
        ∃ s1 lock,
          (match lock_table_other_has_incompatible s0 thr true table mode with
            | some _ => lock_table_enqueue_waiting E fuel s0 { mode := mode } table thr
            | none => some (DB_SUCCESS, (lock_table_create s0 table { mode := mode } thr).2))
            = some (DB_SUCCESS, s1)
          ∧ (s1.tbl table).locks = (s.tbl table).locks ++ [lock]
          ∧ (s1.lock lock).type_mode = { mode := mode, table := true }
          ∧ (s1.lock lock).trx = thr ∧ (s1.lock lock).table = table
          ∧ (s1.trx thr).trx_locks = (s.trx thr).trx_locks ++ [lock]
          ∧ (s1.trx thr).wait_lock = (s.trx thr).wait_lock := by
      intro s0 h1 h2 h3 h4
      have hn : lock_table_other_has_incompatible s0 thr true table mode = none := by
        apply lock_table_other_has_incompatible_none
        intro l hl
        rw [h2]
        exact hcompat l (h1 ▸ hl)
      rw [hn]
      obtain ⟨c1, c2, c3, c4, c5, c6⟩ := lock_table_create_spec s0 table { mode := mode } thr
      refine ⟨_, _, rfl, ?_, ?_, c3, c4, ?_, ?_⟩
      · rw [c1, h1]
      · rw [c2]
      · rw [c5, h3]
      · rw [c6, h4]; simp
    exact key _ (by split <;> simp) (by intro l; split <;> simp)
      (by split <;> simp) (by split <;> simp)
  · intro hrw htmp hhas hdd hcount hconf
    unfold lock_table
    simp only [Nat.zero_and, bne_self_eq_false, hrw, htmp, Bool.or_self, Bool.false_eq_true,
      ↓reduceIte, ne_eq, not_true_eq_false, hhas]
    have key : ∀ s0 : lock_sys_t, (s0.tbl table) = (s.tbl table) →
        (∀ l, s0.lock l = s.lock l) → (s0.trx thr).trx_locks = (s.trx thr).trx_locks →
        ∃ s1 lock,
          (match lock_table_other_has_incompatible s0 thr true table mode with
            | some _ => lock_table_enqueue_waiting E fuel s0 { mode := mode } table thr
            | none => some (DB_SUCCESS, (lock_table_create s0 table { mode := mode } thr).2))
            = some (DB_LOCK_WAIT, s1)
          ∧ (s1.tbl table).locks = (s.tbl table).locks ++ [lock]
          ∧ (s1.lock lock).type_mode = { mode := mode, table := true, wait := true }
          ∧ (s1.lock lock).trx = thr ∧ (s1.lock lock).table = table
          ∧ (s1.trx thr).trx_locks = (s.trx thr).trx_locks ++ [lock]
          ∧ (s1.trx thr).wait_lock = some lock := by
      intro s0 h1 h2 h3
      have hsome : (lock_table_other_has_incompatible s0 thr true table mode).isSome = true := by
        apply lock_table_other_has_incompatible_some
        · intro hz l hl
          rw [h2]
          exact hcount (h1 ▸ hz) l (h1 ▸ hl)
        · obtain ⟨l, hl, a, b⟩ := hconf
          exact ⟨l, h1 ▸ hl, by rw [h2]; exact a, by rw [h2]; exact b⟩
      obtain ⟨c, hc⟩ := Option.isSome_iff_exists.mp hsome
      rw [hc]
      obtain ⟨c1, c2, c3, c4, c5, c6⟩ :=
        lock_table_create_spec s0 table { mode := mode, wait := true } thr
      rw [lock_table_enqueue_waiting_nodetect E fuel s0 _ table thr hdd]
      refine ⟨_, (lock_table_create s0 table { mode := mode, wait := true } thr).1, rfl,
        ?_, ?_, ?_, ?_, ?_, ?_⟩
      · simp [c1, h1]
      · simp [c2]
      · simp [c3]
      · simp [c4]
      · simp [c5, h3]
      · simp [c6]
    exact key _ (by split <;> simp) (by intro l; split <;> simp) (by split <;> simp)

/-- C9 on a table that transaction 1 has locked in `S` mode: an `IS`
request of transaction 2 is granted at the tail of the list, an `X`
request of transaction 2 waits. -/
theorem lock_table_request_witness :
    (∃ s1 lock, lock_table env_no_detect 0 table_state 0 0 LOCK_IS 2 = some (DB_SUCCESS, s1)
      ∧ (s1.tbl 0).locks = (table_state.tbl 0).locks ++ [lock]
      ∧ (s1.lock lock).type_mode = { mode := LOCK_IS, table := true }
      ∧ (s1.lock lock).trx = 2 ∧ (s1.lock lock).table = 0
      ∧ (s1.trx 2).trx_locks = (table_state.trx 2).trx_locks ++ [lock]
      ∧ (s1.trx 2).wait_lock = (table_state.trx 2).wait_lock)
    ∧ (∃ s1 lock, lock_table env_no_detect 0 table_state 0 0 LOCK_X 2 = some (DB_LOCK_WAIT, s1)
      ∧ (s1.tbl 0).locks = (table_state.tbl 0).locks ++ [lock]
      ∧ (s1.lock lock).type_mode = { mode := LOCK_X, table := true, wait := true }
      ∧ (s1.lock lock).trx = 2 ∧ (s1.lock lock).table = 0
      ∧ (s1.trx 2).trx_locks = (table_state.trx 2).trx_locks ++ [lock]
      ∧ (s1.trx 2).wait_lock = some lock) :=
  ⟨(lock_table_request env_no_detect 0 table_state 0 0 LOCK_IS 2).2.2.1
      (by decide) (by decide) (by decide) (by decide),
   (lock_table_request env_no_detect 0 table_state 0 0 LOCK_X 2).2.2.2
      (by decide) (by decide) (by decide) (by decide) (by decide) (by decide)⟩

/-! ## Evaluations at failing inputs -/

set_option maxRecDepth 1000000 in
/-- C10, the code at a failing input: in a waits-for ring of 202
transactions the cycle is closed with 201 frames on the stack, the lighter
transaction 201 is selected as the victim, and because `is_too_deep()` is
evaluated again after the search, `check_and_resolve` returns transaction
201 to the joining transaction 0 instead of NULL or transaction 0. -/
theorem check_and_resolve_returns_other_trx :
    (DeadlockChecker.check_and_resolve env_ordering 1000 (deadlock_ring 202) 1 0).map
      (fun r => r.1) = some (some 201) := by
  decide

/-- C6, the code at a failing input: an implicit request (`impl = true`)
on a page without record locks returns `DB_SUCCESS_LOCKED_REC` and leaves
the lock system as it was, without any record lock. -/
theorem lock_rec_lock_impl_no_lock :
    lock_rec_lock env_ordering 0 no_rec_lock_state true
        { mode := LOCK_X, rec_not_gap := true } { page_id := 7, n_heap := 8 } 2
        { table := 0 } 1
      = some (DB_SUCCESS_LOCKED_REC, no_rec_lock_state)
    ∧ no_rec_lock_state.rec_hash = [] :=
  ⟨rfl, rfl⟩

/-! ## The wait-lock invariant under releases -/

theorem clear_wait_clear_wait (l : lock_t) : l.clear_wait.clear_wait = l.clear_wait := rfl

theorem wait_release_refl (s : lock_sys_t) : wait_release s s :=
  ⟨rfl, fun _ => Or.inl rfl, fun _ => Or.inl rfl⟩

theorem wait_release_of_eq {s s1 : lock_sys_t} (hn : s1.n_locks = s.n_locks)
    (hl : ∀ g, s1.lock g = s.lock g)
    (ht : ∀ t, (s1.trx t).wait_lock = (s.trx t).wait_lock) : wait_release s s1 :=
  ⟨hn, fun g => Or.inl (hl g), fun t => Or.inl (ht t)⟩

theorem wait_release_waiting {s s1 : lock_sys_t} (h : wait_release s s1) (g : Nat)
    (hw : (s1.lock g).is_waiting = true) : s1.lock g = s.lock g := by
  rcases h.2.1 g with h1 | h1
  · exact h1
  · rw [h1.1, clear_wait_is_waiting] at hw
    exact absurd hw (by simp)

theorem wait_release_not_waiting {s s1 : lock_sys_t} (h : wait_release s s1) (g : Nat)
    (hw : (s.lock g).is_waiting = false) : s1.lock g = s.lock g := by
  rcases h.2.1 g with h1 | h1
  · exact h1
  · rw [h1.1, clear_wait_of_not_waiting _ hw]

theorem wait_release_trx_eq {s s1 : lock_sys_t} (h : wait_release s s1) (g : Nat) :
    (s1.lock g).trx = (s.lock g).trx := by
  rcases h.2.1 g with h1 | h1
  · rw [h1]
  · rw [h1.1]; rfl

theorem wait_release_clear_wait {s s1 : lock_sys_t} (h : wait_release s s1) (g : Nat) :
    (s1.lock g).clear_wait = (s.lock g).clear_wait := by
  rcases h.2.1 g with h1 | h1
  · rw [h1]
  · rw [h1.1]; rfl

theorem wait_release_wait_lock_none {s s1 : lock_sys_t} (h : wait_release s s1) (t : Nat)
    (hn : (s.trx t).wait_lock = none) : (s1.trx t).wait_lock = none := by
  rcases h.2.2 t with a | a
  · rw [a, hn]
  · exact a.1

theorem wait_release_trans {s s1 s2 : lock_sys_t} (h1 : wait_release s s1)
    (h2 : wait_release s1 s2) : wait_release s s2 := by
  refine ⟨h2.1.trans h1.1, ?_, ?_⟩
  · intro g
    rcases h2.2.1 g with a | a <;> rcases h1.2.1 g with b | b
    · left; rw [a, b]
    · right
      exact ⟨by rw [a, b.1], wait_release_wait_lock_none h2 _ b.2⟩
    · right
      refine ⟨by rw [a.1, b], ?_⟩
      have := a.2
      rw [b] at this
      exact this
    · right
      refine ⟨by rw [a.1, b.1]; rfl, ?_⟩
      exact wait_release_wait_lock_none h2 _ b.2
  · intro t
    have key : ∀ w, (s1.lock w).is_waiting = false → (s2.lock w).is_waiting = false := by
      intro w hw
      by_contra hc
      have hc' : (s2.lock w).is_waiting = true := by simpa using hc
      have := wait_release_waiting h2 w hc'
      rw [this, hw] at hc'
      exact absurd hc' (by simp)
    rcases h2.2.2 t with a | a <;> rcases h1.2.2 t with b | b
    · left; rw [a, b]
    · right
      exact ⟨by rw [a, b.1], fun w hw => key w (b.2 w hw)⟩
    · right
      exact ⟨a.1, fun w hw => a.2 w (by rw [b]; exact hw)⟩
    · right
      exact ⟨a.1, fun w hw => key w (b.2 w hw)⟩

theorem wait_inv_of_wait_release {s s1 : lock_sys_t} (h : wait_release s s1)
    (hi : wait_inv s) : wait_inv s1 := by
  refine ⟨?_, ?_, ?_⟩
  · intro t w hw
    rcases h.2.2 t with a | a
    · rw [a] at hw
      have := hi.1 t w hw
      exact ⟨by rw [h.1]; exact this.1, by rw [wait_release_trx_eq h]; exact this.2⟩
    · rw [a.1] at hw
      exact absurd hw (by simp)
  · intro g hg
    have he := wait_release_waiting h g hg
    rw [he] at hg ⊢
    have := hi.2.1 g hg
    rcases h.2.2 (s.lock g).trx with a | a
    · rw [a]; exact this
    · have := a.2 g this
      rw [he, hg] at this
      exact absurd this (by simp)
  · intro t w hw
    rcases h.2.2 t with a | a
    · rw [a] at hw
      have hwt := hi.2.2 t w hw
      rcases h.2.1 w with b | b
      · rw [b]; exact hwt
      · have := b.2
        rw [(hi.1 t w hw).2, a, hw] at this
        exact absurd this (by simp)
    · rw [a.1] at hw
      exact absurd hw (by simp)

theorem lock_reset_n_locks (s : lock_sys_t) (g : Nat) :
    (lock_reset_lock_and_trx_wait s g).n_locks = s.n_locks := by
  simp [lock_reset_lock_and_trx_wait]

theorem lock_wait_end_n_locks (s : lock_sys_t) (t : Nat) :
    (lock_wait_end s t).n_locks = s.n_locks := by
  simp [lock_wait_end]

theorem lock_grant_n_locks (s : lock_sys_t) (g : Nat) :
    (lock_grant s g).n_locks = s.n_locks := by
  unfold lock_grant
  simp only []
  split <;> split <;> simp [lock_wait_end_n_locks, lock_reset_n_locks]

theorem wait_release_reset (s : lock_sys_t) (w : Nat)
    (h : ∀ w1, (s.trx (s.lock w).trx).wait_lock = some w1 → w1 = w) :
    wait_release s (lock_reset_lock_and_trx_wait s w) := by
  refine ⟨lock_reset_n_locks s w, ?_, ?_⟩
  · intro g
    rw [lock_reset_lock]
    split
    · subst_vars
      right
      refine ⟨rfl, ?_⟩
      rw [lock_reset_trx]; simp
    · left; rfl
  · intro t
    rw [lock_reset_trx]
    split
    · subst_vars
      right
      refine ⟨rfl, ?_⟩
      intro w1 hw1
      rw [h w1 hw1, lock_reset_lock, if_pos rfl]
      rfl
    · left; rfl

theorem wait_release_wait_end (s : lock_sys_t) (t : Nat) :
    wait_release s (lock_wait_end s t) :=
  wait_release_of_eq (lock_wait_end_n_locks s t) (lock_wait_end_lock s t)
    (lock_wait_end_wait_lock s t)

theorem wait_release_grant (s : lock_sys_t) (g : Nat)
    (h : ∀ w1, (s.trx (s.lock g).trx).wait_lock = some w1 → w1 = g) :
    wait_release s (lock_grant s g) := by
  refine ⟨lock_grant_n_locks s g, ?_, ?_⟩
  · intro j
    rw [lock_grant_lock]
    split
    · subst_vars
      right
      refine ⟨rfl, ?_⟩
      rw [lock_grant_wait_lock]; simp
    · left; rfl
  · intro t
    rw [lock_grant_wait_lock]
    split
    · subst_vars
      right
      refine ⟨rfl, ?_⟩
      intro w1 hw1
      rw [h w1 hw1, lock_grant_lock, if_pos rfl]
      rfl
    · left; rfl

theorem wait_inv_owner_wait_lock {s : lock_sys_t} (hi : wait_inv s) (g : Nat)
    (hg : (s.lock g).is_waiting = true) :
    ∀ w1, (s.trx (s.lock g).trx).wait_lock = some w1 → w1 = g := by
  intro w1 hw1
  have := hi.2.1 g hg
  rw [this] at hw1
  exact (Option.some.inj hw1).symm

theorem wait_release_rec_grant_step (E : Env) (s : lock_sys_t) (g : Nat)
    (hi : wait_inv s) : wait_release s (lock_rec_grant_step E s g) := by
  unfold lock_rec_grant_step
  split
  · exact wait_release_refl s
  · rename_i hw
    split
    · exact wait_release_grant s g (wait_inv_owner_wait_lock hi g (by simpa using hw))
    · exact wait_release_refl s

theorem wait_release_foldl_rec_grant (E : Env) (l : List Nat) (s : lock_sys_t)
    (hi : wait_inv s) : wait_release s (l.foldl (lock_rec_grant_step E) s) := by
  induction l generalizing s with
  | nil => exact wait_release_refl s
  | cons a l ih =>
    rw [List.foldl_cons]
    have h1 := wait_release_rec_grant_step E s a hi
    exact wait_release_trans h1 (ih _ (wait_inv_of_wait_release h1 hi))

theorem lock_rec_dequeue_removed_wait_lock (s : lock_sys_t) (in_lock t : Nat) :
    ((lock_rec_dequeue_removed s in_lock).trx t).wait_lock = (s.trx t).wait_lock := by
  simp only [lock_rec_dequeue_removed, lock_sys_t.trx_set_trx]
  split
  · subst_vars; simp
  · simp

theorem lock_rec_dequeue_removed_n_locks (s : lock_sys_t) (in_lock : Nat) :
    (lock_rec_dequeue_removed s in_lock).n_locks = s.n_locks := by
  simp [lock_rec_dequeue_removed]

theorem wait_release_rec_dequeue (E : Env) (s : lock_sys_t) (in_lock : Nat)
    (hi : wait_inv s) : wait_release s (lock_rec_dequeue_from_page E s in_lock) := by
  rw [lock_rec_dequeue_from_page_eq]
  have h1 : wait_release s (lock_rec_dequeue_removed s in_lock) :=
    wait_release_of_eq (lock_rec_dequeue_removed_n_locks s in_lock)
      (lock_rec_dequeue_removed_lock s in_lock)
      (lock_rec_dequeue_removed_wait_lock s in_lock)
  exact wait_release_trans h1
    (wait_release_foldl_rec_grant E _ _ (wait_inv_of_wait_release h1 hi))

theorem lock_table_remove_low_frame (s s1 : lock_sys_t) (lock : Nat)
    (h : lock_table_remove_low s lock = some s1) :
    s1.n_locks = s.n_locks ∧ (∀ g, s1.lock g = s.lock g)
    ∧ (∀ t, (s1.trx t).wait_lock = (s.trx t).wait_lock)
    ∧ (∀ k, s1.hash k = s.hash k) := by
  unfold lock_table_remove_low at h
  simp only [Option.map_eq_some'] at h
  obtain ⟨s0, h0, rfl⟩ := h
  have key : s0.n_locks = s.n_locks ∧ (∀ g, s0.lock g = s.lock g)
      ∧ (∀ t, (s0.trx t).wait_lock = (s.trx t).wait_lock)
      ∧ (∀ k, s0.hash k = s.hash k) := by
    split at h0
    · simp only [Option.map_eq_some'] at h0
      obtain ⟨sa, ha, rfl⟩ := h0
      split at ha
      · simp only [Option.map_eq_some'] at ha
        obtain ⟨v, _, rfl⟩ := ha
        refine ⟨by simp, by simp, ?_, by simp⟩
        intro t
        simp only [lock_sys_t.trx_set_tbl, lock_sys_t.trx_set_trx]
        split
        · subst_vars; simp
        · rfl
      · cases ha
        exact ⟨by simp, by simp, by simp, by simp⟩
    · cases h0; exact ⟨by simp, by simp, by simp, by simp⟩
    · cases h0; exact ⟨by simp, by simp, by simp, by simp⟩
    · cases h0; exact ⟨rfl, fun _ => rfl, fun _ => rfl, fun _ => rfl⟩
  obtain ⟨k1, k2, k3, k4⟩ := key
  refine ⟨by simp [k1], by simp [k2], ?_, by simp [k4]⟩
  intro t
  simp only [lock_sys_t.trx_set_tbl, lock_sys_t.trx_set_trx]
  split
  · subst_vars; simp [k3]
  · exact k3 t
theorem wait_release_table_remove_low (s s1 : lock_sys_t) (lock : Nat)
    (h : lock_table_remove_low s lock = some s1) : wait_release s s1 := by
  obtain ⟨a, b, c, _⟩ := lock_table_remove_low_frame s s1 lock h
  exact wait_release_of_eq a b c

theorem wait_release_table_grant_step (E : Env) (s : lock_sys_t) (g : Nat)
    (hi : wait_inv s) : wait_release s (lock_table_grant_step E s g) := by
  unfold lock_table_grant_step
  split
  · rename_i hw
    simp only [Bool.and_eq_true] at hw
    exact wait_release_grant s g (wait_inv_owner_wait_lock hi g hw.1)
  · exact wait_release_refl s

theorem wait_release_foldl_table_grant (E : Env) (l : List Nat) (s : lock_sys_t)
    (hi : wait_inv s) : wait_release s (l.foldl (lock_table_grant_step E) s) := by
  induction l generalizing s with
  | nil => exact wait_release_refl s
  | cons a l ih =>
    rw [List.foldl_cons]
    have h1 := wait_release_table_grant_step E s a hi
    exact wait_release_trans h1 (ih _ (wait_inv_of_wait_release h1 hi))

theorem lock_table_grant_step_hash (E : Env) (s : lock_sys_t) (g : Nat) (k : hash_id) :
    (lock_table_grant_step E s g).hash k = s.hash k := by
  unfold lock_table_grant_step
  split
  · rw [lock_grant_hash]
  · rfl

theorem foldl_table_grant_hash (E : Env) (l : List Nat) (s : lock_sys_t) (k : hash_id) :
    (l.foldl (lock_table_grant_step E) s).hash k = s.hash k := by
  induction l generalizing s with
  | nil => rfl
  | cons a l ih => rw [List.foldl_cons, ih, lock_table_grant_step_hash]

theorem wait_release_table_dequeue (E : Env) (s s1 : lock_sys_t) (in_lock : Nat)
    (hi : wait_inv s) (h : lock_table_dequeue E s in_lock = some s1) :
    wait_release s s1 ∧ ∀ k, s1.hash k = s.hash k := by
  unfold lock_table_dequeue at h
  dsimp only at h
  split at h
  · cases h
  · simp only [Option.map_eq_some'] at h
    obtain ⟨s0, h0, rfl⟩ := h
    have hr := wait_release_table_remove_low s s0 in_lock h0
    have hh := (lock_table_remove_low_frame s s0 in_lock h0).2.2.2
    split
    · exact ⟨hr, hh⟩
    · refine ⟨wait_release_trans hr
        (wait_release_foldl_table_grant E _ _ (wait_inv_of_wait_release hr hi)), ?_⟩
      intro k
      rw [foldl_table_grant_hash, hh]

theorem lock_trx_table_locks_remove_frame (s s1 : lock_sys_t) (lock : Nat)
    (h : lock_trx_table_locks_remove s lock = some s1) :
    wait_release s s1 ∧ ∀ k, s1.hash k = s.hash k := by
  unfold lock_trx_table_locks_remove at h
  simp only [Option.map_eq_some'] at h
  obtain ⟨v, _, rfl⟩ := h
  refine ⟨wait_release_of_eq (by simp) (by simp) ?_, by simp⟩
  intro t
  simp only [lock_sys_t.trx_set_trx]
  split
  · subst_vars; simp
  · rfl

theorem wait_release_autoinc_last_lock (E : Env) (s s1 : lock_sys_t) (trx : Nat)
    (hi : wait_inv s) (h : lock_release_autoinc_last_lock E s trx = some s1) :
    wait_release s s1 ∧ ∀ k, s1.hash k = s.hash k := by
  unfold lock_release_autoinc_last_lock at h
  split at h
  · cases h
  · cases h
  · rename_i lock _
    simp only [Option.bind_eq_some] at h
    obtain ⟨s0, h0, h1⟩ := h
    obtain ⟨a1, a2⟩ := wait_release_table_dequeue E s s0 lock hi h0
    obtain ⟨b1, b2⟩ := lock_trx_table_locks_remove_frame s0 s1 lock h1
    exact ⟨wait_release_trans a1 b1, fun k => by rw [b2, a2]⟩

theorem wait_release_autoinc_locks (E : Env) (fuel : Nat) (s s1 : lock_sys_t) (trx : Nat)
    (hi : wait_inv s) (h : lock_release_autoinc_locks E fuel s trx = some s1) :
    wait_release s s1 ∧ ∀ k, s1.hash k = s.hash k := by
  induction fuel generalizing s with
  | zero =>
    unfold lock_release_autoinc_locks at h
    split at h
    · cases h; exact ⟨wait_release_refl _, fun _ => rfl⟩
    · cases h
  | succ n ih =>
    unfold lock_release_autoinc_locks at h
    split at h
    · cases h; exact ⟨wait_release_refl _, fun _ => rfl⟩
    · simp only [Option.bind_eq_some] at h
      obtain ⟨s0, h0, h1⟩ := h
      obtain ⟨a1, a2⟩ := wait_release_autoinc_last_lock E s s0 trx hi h0
      obtain ⟨b1, b2⟩ := ih s0 (wait_inv_of_wait_release a1 hi) h1
      exact ⟨wait_release_trans a1 b1, fun k => by rw [b2, a2]⟩

theorem wait_release_set_trx_same (s : lock_sys_t) (t : Nat) (x : trx_t)
    (h : x.wait_lock = (s.trx t).wait_lock) : wait_release s (s.set_trx t x) := by
  refine wait_release_of_eq (by simp) (by simp) ?_
  intro u
  simp only [lock_sys_t.trx_set_trx]
  split
  · subst_vars; exact h
  · rfl

theorem wait_release_cancel (E : Env) (fuel : Nat) (s s1 : lock_sys_t) (lock : Nat)
    (hi : wait_inv s) (hw : (s.trx (s.lock lock).trx).wait_lock = some lock)
    (h : lock_cancel_waiting_and_release E fuel s lock = some s1) :
    wait_release s s1
    ∧ ∀ k, ∀ g ∈ s.hash k, g ≠ lock → g ∈ s1.hash k := by
  unfold lock_cancel_waiting_and_release at h
  simp only [Option.map_eq_some'] at h
  obtain ⟨s2, h2, rfl⟩ := h
  set sa := s.set_trx (s.lock lock).trx { s.trx (s.lock lock).trx with cancel := true }
    with hsa
  have ra : wait_release s sa := wait_release_set_trx_same s _ _ rfl
  have ia := wait_inv_of_wait_release ra hi
  have r2 : wait_release sa s2 ∧ ∀ k, ∀ g ∈ sa.hash k, g ≠ lock → g ∈ s2.hash k := by
    by_cases hc : (!(sa.lock lock).is_table) = true
    · rw [if_pos hc] at h2
      cases h2
      refine ⟨wait_release_rec_dequeue E sa lock ia, ?_⟩
      intro k g hg hne
      rw [lock_rec_dequeue_from_page_eq, foldl_grant_hash, lock_rec_dequeue_removed_hash]
      split
      · exact (List.mem_erase_of_ne hne).mpr hg
      · exact hg
    · rw [if_neg hc] at h2
      simp only [Option.bind_eq_some] at h2
      obtain ⟨sc, ⟨sb, hb, hc⟩, hd⟩ := h2
      obtain ⟨b1, b2⟩ := wait_release_autoinc_locks E fuel sa sb _ ia hb
      have ib := wait_inv_of_wait_release b1 ia
      obtain ⟨c1, c2⟩ := wait_release_table_dequeue E sb sc lock ib hc
      obtain ⟨d1, d2⟩ := lock_trx_table_locks_remove_frame sc s2 lock hd
      refine ⟨wait_release_trans b1 (wait_release_trans c1 d1), ?_⟩
      intro k g hg _
      rw [d2, c2, b2]; exact hg
  have hsa_lock : ∀ g, sa.lock g = s.lock g := fun g => by simp [hsa]
  have r02 := wait_release_trans ra r2.1
  have hown : (s2.lock lock).trx = (s.lock lock).trx := wait_release_trx_eq r02 lock
  have r3 : wait_release s2 (lock_reset_lock_and_trx_wait s2 lock) := by
    apply wait_release_reset
    intro w1 hw1
    rw [hown] at hw1
    rcases r02.2.2 (s.lock lock).trx with a | a
    · rw [a, hw] at hw1
      exact (Option.some.inj hw1).symm
    · rw [a.1] at hw1
      exact absurd hw1 (by simp)
  have r4 := wait_release_wait_end (lock_reset_lock_and_trx_wait s2 lock) (s.lock lock).trx
  have r5 := wait_release_set_trx_same (lock_wait_end (lock_reset_lock_and_trx_wait s2 lock)
      (s.lock lock).trx) (s.lock lock).trx
      { (lock_wait_end (lock_reset_lock_and_trx_wait s2 lock) (s.lock lock).trx).trx
          (s.lock lock).trx with cancel := false } rfl
  refine ⟨wait_release_trans r02 (wait_release_trans r3 (wait_release_trans r4 r5)), ?_⟩
  intro k g hg hne
  simp only [lock_sys_t.hash_set_trx, lock_wait_end_hash, lock_reset_hash]
  exact r2.2 k g (by simpa [hsa] using hg) hne

/-! ## The deadlock search only sets marks -/

theorem only_marks_refl (s : lock_sys_t) : only_marks s s :=
  ⟨rfl, rfl, rfl, rfl, rfl, rfl, rfl, rfl, fun t => ⟨(s.trx t).deadlock_mark, rfl⟩⟩

theorem only_marks_trans {s s1 s2 : lock_sys_t} (h1 : only_marks s s1)
    (h2 : only_marks s1 s2) : only_marks s s2 := by
  obtain ⟨a1, a2, a3, a4, a5, a6, a7, a8, a9⟩ := h1
  obtain ⟨b1, b2, b3, b4, b5, b6, b7, b8, b9⟩ := h2
  refine ⟨b1.trans a1, b2.trans a2, b3.trans a3, b4.trans a4, b5.trans a5, b6.trans a6,
    b7.trans a7, b8.trans a8, ?_⟩
  intro t
  obtain ⟨m1, hm1⟩ := a9 t
  obtain ⟨m2, hm2⟩ := b9 t
  exact ⟨m2, by rw [hm2, hm1]⟩

theorem only_marks_mark (s : lock_sys_t) (tr : Nat) :
    only_marks s
      (({ s with s_lock_mark_counter := s.s_lock_mark_counter + 1 } : lock_sys_t).set_trx tr
        { ({ s with s_lock_mark_counter := s.s_lock_mark_counter + 1 } : lock_sys_t).trx tr with
          deadlock_mark := s.s_lock_mark_counter + 1 }) := by
  refine ⟨rfl, rfl, rfl, rfl, rfl, rfl, rfl, rfl, ?_⟩
  intro t
  by_cases h : t = tr
  · subst h
    exact ⟨s.s_lock_mark_counter + 1, by simp [lock_sys_t.trx, lock_sys_t.set_trx]⟩
  · exact ⟨(s.trx t).deadlock_mark,
      by simp [h, lock_sys_t.trx, lock_sys_t.set_trx, Function.update_apply]⟩

theorem search_loop_only_marks (E : Env) (fuel : Nat) (s : lock_sys_t)
    (c : DeadlockChecker) (lock heap_no : Option Nat)
    (v : Option Nat) (c1 : DeadlockChecker) (s1 : lock_sys_t)
    (h : DeadlockChecker.search_loop E fuel s c lock heap_no = some (v, c1, s1)) :
    only_marks s s1 := by
  induction fuel generalizing s c lock heap_no with
  | zero => simp [DeadlockChecker.search_loop] at h
  | succ n ih =>
    unfold DeadlockChecker.search_loop at h
    split at h
    · cases h; exact only_marks_refl _
    · dsimp only at h
      split at h
      · exact only_marks_trans (only_marks_mark s _) (ih _ _ _ _ h)
      · split at h
        · exact ih _ _ _ _ h
        · split at h
          · cases h; exact only_marks_refl _
          · split at h
            · cases h; exact only_marks_refl _
            · split at h
              · split at h
                · split at h
                  · cases h; exact only_marks_refl _
                  · split at h
                    · cases h
                    · split at h
                      · exact ih _ _ _ _ h
                      · exact ih _ _ _ _ h
                · exact ih _ _ _ _ h
              · exact ih _ _ _ _ h

theorem lock_cancel_hash (E : Env) (fuel : Nat) (s s1 : lock_sys_t) (lock : Nat)
    (hi : wait_inv s)
    (h : lock_cancel_waiting_and_release E fuel s lock = some s1) (k : hash_id) :
    s1.hash k = s.hash k ∨ s1.hash k = (s.hash k).erase lock := by
  unfold lock_cancel_waiting_and_release at h
  simp only [Option.map_eq_some'] at h
  obtain ⟨s2, h2, rfl⟩ := h
  set sa := s.set_trx (s.lock lock).trx { s.trx (s.lock lock).trx with cancel := true }
    with hsa
  have ra : wait_release s sa := wait_release_set_trx_same s _ _ rfl
  have ia := wait_inv_of_wait_release ra hi
  simp only [lock_sys_t.hash_set_trx, lock_wait_end_hash, lock_reset_hash]
  by_cases hc : (!(sa.lock lock).is_table) = true
  · rw [if_pos hc] at h2
    cases h2
    rw [lock_rec_dequeue_from_page_eq, foldl_grant_hash, lock_rec_dequeue_removed_hash]
    split
    · right; simp [hsa]
    · left; simp [hsa]
  · rw [if_neg hc] at h2
    simp only [Option.bind_eq_some] at h2
    obtain ⟨sc, ⟨sb, hb, hc⟩, hd⟩ := h2
    obtain ⟨b1, b2⟩ := wait_release_autoinc_locks E fuel sa sb _ ia hb
    have ib := wait_inv_of_wait_release b1 ia
    obtain ⟨c1, c2⟩ := wait_release_table_dequeue E sb sc lock ib hc
    obtain ⟨d1, d2⟩ := lock_trx_table_locks_remove_frame sc s2 lock hd
    left
    rw [d2, c2, b2]; simp [hsa]

theorem lock_cancel_hash_sublist (E : Env) (fuel : Nat) (s s1 : lock_sys_t) (lock : Nat)
    (hi : wait_inv s)
    (h : lock_cancel_waiting_and_release E fuel s lock = some s1) (k : hash_id) :
    (s1.hash k).Sublist (s.hash k) := by
  rcases lock_cancel_hash E fuel s s1 lock hi h k with a | a <;> rw [a]
  exact List.erase_sublist _ _

theorem only_marks_lock {s s1 : lock_sys_t} (h : only_marks s s1) (g : Nat) :
    s1.lock g = s.lock g := by
  simp [lock_sys_t.lock, h.1]

theorem only_marks_hash {s s1 : lock_sys_t} (h : only_marks s s1) (k : hash_id) :
    s1.hash k = s.hash k := by
  obtain ⟨_, _, _, a, b, c, _⟩ := h
  cases k <;> simp [lock_sys_t.hash, a, b, c]

theorem only_marks_tbl {s s1 : lock_sys_t} (h : only_marks s s1) (t : Nat) :
    s1.tbl t = s.tbl t := by
  simp [lock_sys_t.tbl, h.2.2.1]

theorem only_marks_wait_lock {s s1 : lock_sys_t} (h : only_marks s s1) (t : Nat) :
    (s1.trx t).wait_lock = (s.trx t).wait_lock := by
  obtain ⟨m, hm⟩ := h.2.2.2.2.2.2.2.2 t
  rw [hm]

theorem only_marks_wait_release {s s1 : lock_sys_t} (h : only_marks s s1) :
    wait_release s s1 :=
  wait_release_of_eq h.2.1 (only_marks_lock h) (only_marks_wait_lock h)

theorem unwind_m_start (s : lock_sys_t) (st : List state_t) (c : DeadlockChecker)
    (lock heap_no : Option Nat) :
    (DeadlockChecker.unwind s st c lock heap_no).1.m_start = c.m_start := by
  induction st generalizing c lock heap_no with
  | nil => rfl
  | cons a st ih =>
    unfold DeadlockChecker.unwind
    cases lock with
    | some l => rfl
    | none => simp only []; rw [ih]

theorem push_m_start (E : Env) (c c1 : DeadlockChecker) (lock : Nat) (hn : Option Nat)
    (h : DeadlockChecker.push E c lock hn = some c1) : c1.m_start = c.m_start := by
  unfold DeadlockChecker.push at h
  split at h
  · cases h
  · cases h; rfl

theorem select_victim_cases (s : lock_sys_t) (c : DeadlockChecker) :
    DeadlockChecker.select_victim s c = c.m_start
    ∨ DeadlockChecker.select_victim s c = (s.lock c.m_wait_lock).trx := by
  unfold DeadlockChecker.select_victim
  split
  · left; rfl
  · right; rfl

theorem search_loop_victim (E : Env) (fuel : Nat) (s : lock_sys_t)
    (c : DeadlockChecker) (lock heap_no : Option Nat)
    (v : Nat) (c1 : DeadlockChecker) (s1 : lock_sys_t)
    (h : DeadlockChecker.search_loop E fuel s c lock heap_no = some (some v, c1, s1)) :
    c1.m_start = c.m_start ∧ (v = c1.m_start ∨ v = (s1.lock c1.m_wait_lock).trx) := by
  induction fuel generalizing s c lock heap_no with
  | zero => simp [DeadlockChecker.search_loop] at h
  | succ n ih =>
    unfold DeadlockChecker.search_loop at h
    have hu := unwind_m_start s c.s_states c lock heap_no
    split at h
    · cases h
    · rename_i cu l hn heq
      rw [heq] at hu
      dsimp only at hu h
      split at h
      · have := ih _ _ _ _ h
        exact ⟨this.1.trans hu, this.2⟩
      · split at h
        · have := ih _ _ _ _ h
          exact ⟨this.1.trans hu, this.2⟩
        · split at h
          · cases h
            refine ⟨hu, ?_⟩
            rcases select_victim_cases s1 c1 with a | a
            · left; exact a
            · right; exact a
          · split at h
            · cases h
              exact ⟨hu, Or.inl rfl⟩
            · split at h
              · split at h
                · split at h
                  · cases h
                    exact ⟨hu, Or.inl rfl⟩
                  · rename_i c2 hp
                    have hp2 := push_m_start E _ _ _ _ hp
                    split at h
                    · cases h
                    · split at h
                      · have := ih _ _ _ _ h
                        exact ⟨this.1.trans (hp2.trans hu), this.2⟩
                      · have := ih _ _ _ _ h
                        exact ⟨this.1.trans (hp2.trans hu), this.2⟩
                · have := ih _ _ _ _ h
                  exact ⟨this.1.trans hu, this.2⟩
              · have := ih _ _ _ _ h
                exact ⟨this.1.trans hu, this.2⟩

theorem search_only_marks (E : Env) (fuel : Nat) (s : lock_sys_t) (c : DeadlockChecker)
    (v : Option Nat) (c1 : DeadlockChecker) (s1 : lock_sys_t)
    (h : DeadlockChecker.search E fuel s c = some (v, c1, s1)) : only_marks s s1 := by
  unfold DeadlockChecker.search at h
  split at h
  · cases h
  · exact search_loop_only_marks E fuel s c _ _ v c1 s1 h

theorem search_victim (E : Env) (fuel : Nat) (s : lock_sys_t) (c : DeadlockChecker)
    (v : Nat) (c1 : DeadlockChecker) (s1 : lock_sys_t)
    (h : DeadlockChecker.search E fuel s c = some (some v, c1, s1)) :
    c1.m_start = c.m_start ∧ (v = c1.m_start ∨ v = (s1.lock c1.m_wait_lock).trx) := by
  unfold DeadlockChecker.search at h
  split at h
  · cases h
  · exact search_loop_victim E fuel s c _ _ v c1 s1 h

theorem wait_release_deadlock_found (s : lock_sys_t) (b : Bool) :
    wait_release s { s with lock_deadlock_found := b } :=
  wait_release_of_eq rfl (fun _ => rfl) (fun _ => rfl)

theorem trx_rollback_spec (E : Env) (fuel : Nat) (s s1 : lock_sys_t) (c : DeadlockChecker)
    (hi : wait_inv s)
    (h : DeadlockChecker.trx_rollback E fuel s c = some s1) :
    wait_release s s1
    ∧ (∀ k, (s1.hash k).Sublist (s.hash k))
    ∧ (∀ k, ∀ g ∈ s.hash k,
        ((s.lock g).is_waiting = false ∨ (s.lock g).trx ≠ (s.lock c.m_wait_lock).trx) →
          g ∈ s1.hash k) := by
  unfold DeadlockChecker.trx_rollback at h
  dsimp only at h
  set tv := (s.lock c.m_wait_lock).trx with htv
  set sa := s.set_trx tv { s.trx tv with was_chosen_as_deadlock_victim := true } with hsa
  have ra : wait_release s sa := wait_release_set_trx_same s _ _ rfl
  have ia := wait_inv_of_wait_release ra hi
  split at h
  · cases h
  · rename_i w hw
    have hsa_lock : ∀ g, sa.lock g = s.lock g := fun g => by simp [hsa]
    have hown := (ia.1 tv w hw).2
    have hwait := ia.2.2 tv w hw
    obtain ⟨r1, r2⟩ := wait_release_cancel E fuel sa s1 w ia (by rw [hown]; exact hw) h
    refine ⟨wait_release_trans ra r1, ?_, ?_⟩
    · intro k
      have := lock_cancel_hash_sublist E fuel sa s1 w ia h k
      simpa [hsa] using this
    · intro k g hg hp
      apply r2 k g (by simpa [hsa] using hg)
      intro hgw
      subst hgw
      rw [hsa_lock] at hown hwait
      rcases hp with a | a
      · rw [a] at hwait; exact absurd hwait (by simp)
      · exact a hown

theorem check_and_resolve_loop_spec (E : Env) (fuel n : Nat) (s : lock_sys_t)
    (lock trx : Nat) (v : Option Nat) (s1 : lock_sys_t) (hi : wait_inv s)
    (h : DeadlockChecker.check_and_resolve_loop E fuel n s lock trx = some (v, s1)) :
    wait_release s s1
    ∧ (∀ k, (s1.hash k).Sublist (s.hash k))
    ∧ (∀ k, ∀ g ∈ s.hash k,
        ((s.lock g).is_waiting = false ∨ (s.lock g).trx = trx) → g ∈ s1.hash k) := by
  induction n generalizing s with
  | zero => simp [DeadlockChecker.check_and_resolve_loop] at h
  | succ n ih =>
    unfold DeadlockChecker.check_and_resolve_loop at h
    dsimp only at h
    split at h
    · cases h
    · rename_i vt c1 sA hsearch
      have hm := search_only_marks E fuel s _ vt c1 sA hsearch
      have base : wait_release s sA ∧ (∀ k, (sA.hash k).Sublist (s.hash k))
          ∧ (∀ k, ∀ g ∈ s.hash k,
            ((s.lock g).is_waiting = false ∨ (s.lock g).trx = trx) → g ∈ sA.hash k) :=
        ⟨only_marks_wait_release hm, fun k => by rw [only_marks_hash hm],
          fun k g hg _ => by rw [only_marks_hash hm]; exact hg⟩
      split at h
      · cases h; exact base
      · split at h
        · cases h; exact base
        · rename_i v0
          split at h
          · rename_i hne
            split at h
            · cases h
            · rename_i sB hroll
              have hv := search_victim E fuel s _ v0 c1 sA hsearch
              have hvt : (sA.lock c1.m_wait_lock).trx ≠ trx := by
                rcases hv.2 with a | a
                · rw [a, hv.1] at hne; exact absurd rfl hne
                · rw [← a]; exact hne
              have iA := wait_inv_of_wait_release base.1 hi
              obtain ⟨r1, r2, r3⟩ := trx_rollback_spec E fuel sA sB c1 iA hroll
              have rB := wait_release_deadlock_found sB true
              have iB := wait_inv_of_wait_release (wait_release_trans r1 rB) iA
              obtain ⟨q1, q2, q3⟩ := ih _ iB h
              have rAll := wait_release_trans base.1 (wait_release_trans r1 rB)
              refine ⟨wait_release_trans rAll q1, ?_, ?_⟩
              · intro k
                exact (q2 k).trans ((r2 k).trans (base.2.1 k))
              · intro k g hg hp
                apply q3 k g
                · apply r3 k g (base.2.2 k g hg hp)
                  rw [only_marks_lock hm]
                  rcases hp with a | a
                  · left; exact a
                  · right; rw [a]; exact fun hc => hvt hc.symm
                · rcases hp with a | a
                  · left
                    rw [wait_release_not_waiting (wait_release_trans base.1 (wait_release_trans r1 rB)) g a]
                    exact a
                  · right
                    rw [wait_release_trx_eq (wait_release_trans base.1 (wait_release_trans r1 rB))]
                    exact a
          · cases h; exact base

theorem check_and_resolve_spec (E : Env) (fuel : Nat) (s : lock_sys_t)
    (lock trx : Nat) (v : Option Nat) (s1 : lock_sys_t) (hi : wait_inv s)
    (h : DeadlockChecker.check_and_resolve E fuel s lock trx = some (v, s1)) :
    wait_release s s1
    ∧ (∀ k, (s1.hash k).Sublist (s.hash k))
    ∧ (∀ k, ∀ g ∈ s.hash k,
        ((s.lock g).is_waiting = false ∨ (s.lock g).trx = trx) → g ∈ s1.hash k) := by
  unfold DeadlockChecker.check_and_resolve at h
  split at h
  · cases h
    exact ⟨wait_release_refl _, fun _ => List.Sublist.refl _, fun _ _ hg _ => hg⟩
  · split at h
    · cases h
    · rename_i vt sA hl
      obtain ⟨a, b, c⟩ := check_and_resolve_loop_spec E fuel fuel s lock trx vt sA hi hl
      split at h
      · cases h
        exact ⟨wait_release_trans a (wait_release_deadlock_found sA true), b, c⟩
      · cases h
        exact ⟨a, b, c⟩

/-! ## Record lock creation -/

theorem lock_rec_create_spec (s : lock_sys_t) (type_mode : type_mode_t) (block : buf_block_t)
    (heap_no : Nat) (index : dict_index_t) (trx : Nat) (b : Bool)
    (hp : type_mode.predicate = false) (hpp : type_mode.prdt_page = false) :
    (lock_rec_create s type_mode block heap_no index trx b).1 = s.n_locks
    ∧ (lock_rec_create s type_mode block heap_no index trx b).2.n_locks = s.n_locks + 1
    ∧ (∀ j, (lock_rec_create s type_mode block heap_no index trx b).2.lock j
        = if j = s.n_locks then
            { trx := trx, type_mode := supremum_type_mode type_mode heap_no, index := index,
              page_id := block.page_id,
              bitmap := (List.replicate (((block.n_heap + 7) / 8) * 8) false).set heap_no true }
          else s.lock j)
    ∧ (∀ k, (lock_rec_create s type_mode block heap_no index trx b).2.hash k
        = if k = hash_id.rec_hash then s.hash k ++ [s.n_locks] else s.hash k)
    ∧ (∀ t, ((lock_rec_create s type_mode block heap_no index trx b).2.trx t).wait_lock
        = if t = trx ∧ type_mode.wait = true then some s.n_locks else (s.trx t).wait_lock)
    ∧ (∀ t, ((lock_rec_create s type_mode block heap_no index trx b).2.trx t).trx_locks
        = if t = trx then (s.trx t).trx_locks ++ [s.n_locks] else (s.trx t).trx_locks)
    ∧ (∀ t, ((lock_rec_create s type_mode block heap_no index trx b).2.tbl t).locks
        = (s.tbl t).locks) := by
  have hst : (supremum_type_mode type_mode heap_no).predicate = false
      ∧ (supremum_type_mode type_mode heap_no).prdt_page = false
      ∧ (supremum_type_mode type_mode heap_no).wait = type_mode.wait := by
    unfold supremum_type_mode; split <;> simp [hp, hpp]
  have hh : lock_hash_get (supremum_type_mode type_mode heap_no) = hash_id.rec_hash := by
    simp [lock_hash_get, hst.1, hst.2.1]
  unfold lock_rec_create lock_rec_create_low
  rw [show (if heap_no = PAGE_HEAP_NO_SUPREMUM then
      ({ type_mode with gap := false, rec_not_gap := false } : type_mode_t) else type_mode)
      = supremum_type_mode type_mode heap_no from rfl]
  simp only [lock_sys_t.alloc_lock, hh, hst.1, hst.2.1, hst.2.2, Bool.or_self, Bool.not_false,
    ↓reduceIte]
  refine ⟨trivial, ?_, ?_, ?_, ?_, ?_, ?_⟩
  · split <;> simp
  · intro j
    split <;>
      simp [lock_rec_set_nth_bit, lock_rec_bitmap_reset, lock_rec_get_n_bits]
  · intro k
    split <;> simp <;> split <;> simp_all
  · intro t
    split <;> rename_i hw <;> by_cases ht : t = trx <;> simp [ht, hw]
  · intro t
    split <;> by_cases ht : t = trx <;> simp [ht]
  · intro t
    split <;> by_cases ht : t = index.table <;> simp [ht]

theorem wait_inv_create (s : lock_sys_t) (type_mode : type_mode_t) (block : buf_block_t)
    (heap_no : Nat) (index : dict_index_t) (trx : Nat) (b : Bool)
    (hp : type_mode.predicate = false) (hpp : type_mode.prdt_page = false)
    (hi : wait_inv s) (hnw : type_mode.wait = true → (s.trx trx).wait_lock = none) :
    wait_inv (lock_rec_create s type_mode block heap_no index trx b).2 := by
  obtain ⟨_, c2, c3, _, c5, _, _⟩ :=
    lock_rec_create_spec s type_mode block heap_no index trx b hp hpp
  have hsw : (supremum_type_mode type_mode heap_no).wait = type_mode.wait := by
    unfold supremum_type_mode; split <;> rfl
  refine ⟨?_, ?_, ?_⟩
  · intro t w hw
    rw [c5] at hw
    rw [c2, c3]
    split at hw
    · cases hw
      rename_i ht
      exact ⟨Nat.lt_succ_self _, by simp [ht.1]⟩
    · have := hi.1 t w hw
      refine ⟨Nat.lt_succ_of_lt this.1, ?_⟩
      rw [if_neg (Nat.ne_of_lt this.1)]
      exact this.2
  · intro g hg
    by_cases hgn : g = s.n_locks
    · subst hgn
      rw [c3, if_pos rfl] at hg ⊢
      simp only [lock_t.is_waiting, hsw] at hg
      rw [c5]
      simp [hg]
    · rw [c3, if_neg hgn] at hg ⊢
      have h1 := hi.2.1 g hg
      rw [c5]
      split
      · rename_i ht
        rw [ht.1, hnw ht.2] at h1
        exact absurd h1 (by simp)
      · exact h1
  · intro t w hw
    rw [c5] at hw
    rw [c3]
    split at hw
    · cases hw
      rename_i ht
      simp [lock_t.is_waiting, hsw, ht.2]
    · have h1 := hi.2.2 t w hw
      rw [if_neg (Nat.ne_of_lt (hi.1 t w hw).1)]
      exact h1

theorem mem_lock_rec_queue (s : lock_sys_t) (k : hash_id) (id heap_no g : Nat) :
    g ∈ lock_rec_queue s k id heap_no ↔
      g ∈ s.hash k ∧ (s.lock g).page_id = id ∧ lock_rec_get_nth_bit (s.lock g) heap_no = true := by
  simp only [lock_rec_queue, lock_sys_t.page_chain, List.mem_filter, beq_iff_eq, and_assoc]

theorem lock_rec_has_expl_of_lock (s : lock_sys_t) (mode : type_mode_t) (block : buf_block_t)
    (heap_no thr g : Nat) (hm : rec_request_mode mode)
    (hg : g ∈ s.rec_hash) (hpg : (s.lock g).page_id = block.page_id)
    (hbit : lock_rec_get_nth_bit (s.lock g) heap_no = true) (htrx : (s.lock g).trx = thr)
    (htm : (s.lock g).type_mode = mode
      ∨ (s.lock g).type_mode = supremum_type_mode mode heap_no) :
    (lock_rec_has_expl s mode block heap_no thr).isSome = true := by
  unfold lock_rec_has_expl
  rw [List.find?_isSome]
  refine ⟨g, (mem_lock_rec_queue s _ _ _ g).mpr ⟨hg, hpg, hbit⟩, ?_⟩
  obtain ⟨hmm, _, hw, hii, _, _⟩ := hm
  have hstr : lock_mode_stronger_or_eq mode.mode mode.mode = true := by
    rcases hmm with a | a <;> rw [a] <;> rfl
  rcases htm with a | a
  · simp only [htrx, decide_True, a, hw, hii, Bool.or_self, Bool.not_false, Bool.true_and,
      lock_t.mode, hstr, Bool.and_true]
    cases mode.rec_not_gap <;> cases mode.gap <;> simp
  · by_cases hs : heap_no = PAGE_HEAP_NO_SUPREMUM
    · simp [htrx, a, supremum_type_mode, hs, hw, hii, lock_t.mode, hstr]
    · simp only [supremum_type_mode, hs, ↓reduceIte] at a
      simp only [htrx, decide_True, a, hw, hii, Bool.or_self, Bool.not_false, Bool.true_and,
        lock_t.mode, hstr, Bool.and_true]
      cases mode.rec_not_gap <;> cases mode.gap <;> simp

theorem get_nth_bit_set_replicate (n heap_no : Nat) (h : heap_no < n) :
    ((List.replicate n false).set heap_no true).getD heap_no false = true := by
  rw [List.getD_eq_getElem?_getD, List.getElem?_set_self (by simpa using h)]
  rfl

theorem heap_no_lt_n_bits (n_heap heap_no : Nat) (h : heap_no < n_heap) :
    heap_no < ((n_heap + 7) / 8) * 8 := by
  omega

theorem get_nth_bit_set (l : lock_t) (heap_no : Nat) (h : lock_rec_get_n_bits l > heap_no) :
    lock_rec_get_nth_bit (lock_rec_set_nth_bit l heap_no) heap_no = true := by
  unfold lock_rec_get_nth_bit lock_rec_set_nth_bit
  simp only []
  rw [List.getD_eq_getElem?_getD, List.getElem?_set_self h]
  rfl

theorem supremum_type_mode_clear_wait (tm : type_mode_t) (heap_no : Nat)
    (h : tm.wait = false) :
    { supremum_type_mode { tm with wait := true } heap_no with wait := false }
      = supremum_type_mode tm heap_no := by
  cases tm
  simp only at h
  subst h
  unfold supremum_type_mode
  split <;> rfl

theorem lock_rec_enqueue_waiting_cases (E : Env) (fuel : Nat) (s : lock_sys_t)
    (tm : type_mode_t) (block : buf_block_t) (heap_no : Nat) (index : dict_index_t)
    (thr : Nat) (err : dberr_t) (s1 : lock_sys_t)
    (h : lock_rec_enqueue_waiting E fuel s tm block heap_no index thr = some (err, s1)) :
    (err = DB_LOCK_WAIT_TIMEOUT
      ∧ ((s.trx thr).mysql_thd && (s.trx thr).lock_wait_timeout == 0) = true)
    ∨ (((s.trx thr).mysql_thd && (s.trx thr).lock_wait_timeout == 0) = false
      ∧ ∃ v s2, DeadlockChecker.check_and_resolve E fuel
            (lock_rec_create s { tm with wait := true } block heap_no index thr true).2
            (lock_rec_create s { tm with wait := true } block heap_no index thr true).1 thr
          = some (v, s2)
        ∧ ((∃ x, v = some x ∧ err = DB_DEADLOCK)
          ∨ (v = none ∧ (s2.trx thr).wait_lock = none ∧ err = DB_SUCCESS_LOCKED_REC
              ∧ s1 = s2)
          ∨ (v = none ∧ (s2.trx thr).wait_lock ≠ none ∧ err = DB_LOCK_WAIT))) := by
  unfold lock_rec_enqueue_waiting at h
  dsimp only at h
  split at h
  · rename_i hto
    cases h
    exact Or.inl ⟨rfl, hto⟩
  · rename_i hto
    right
    refine ⟨by simpa using hto, ?_⟩
    split at h
    · cases h
    · rename_i x s2 hc
      cases h
      exact ⟨_, _, hc, Or.inl ⟨x, rfl, rfl⟩⟩
    · rename_i s2 hc
      split at h
      · rename_i hwl
        cases h
        exact ⟨_, _, hc, Or.inr (Or.inl ⟨rfl, by simpa using hwl, rfl, rfl⟩)⟩
      · rename_i hwl
        cases h
        exact ⟨_, _, hc, Or.inr (Or.inr ⟨rfl, by simpa using hwl, rfl⟩)⟩

theorem lock_rec_enqueue_waiting_locked_rec (E : Env) (fuel : Nat) (s : lock_sys_t)
    (tm : type_mode_t) (block : buf_block_t) (heap_no : Nat) (index : dict_index_t)
    (thr : Nat) (s1 : lock_sys_t)
    (hp : tm.predicate = false) (hpp : tm.prdt_page = false) (hwf : tm.wait = false)
    (hheap : heap_no < block.n_heap) (hi : wait_inv s)
    (hnw : (s.trx thr).wait_lock = none)
    (h : lock_rec_enqueue_waiting E fuel s tm block heap_no index thr
      = some (DB_SUCCESS_LOCKED_REC, s1)) :
    ∃ g, g ∈ s1.rec_hash ∧ (s1.lock g).page_id = block.page_id
      ∧ lock_rec_get_nth_bit (s1.lock g) heap_no = true ∧ (s1.lock g).trx = thr
      ∧ (s1.lock g).type_mode = supremum_type_mode tm heap_no := by
  rcases lock_rec_enqueue_waiting_cases E fuel s tm block heap_no index thr _ s1 h with
    ⟨a, _⟩ | ⟨_, v, s2, hc, hcase⟩
  · cases a
  · rcases hcase with ⟨x, _, a⟩ | ⟨_, hwl, _, hs⟩ | ⟨_, _, a⟩
    · cases a
    · subst hs
      obtain ⟨c1, c2, c3, c4, c5, _, _⟩ :=
        lock_rec_create_spec s { tm with wait := true } block heap_no index thr true hp hpp
      have iC := wait_inv_create s { tm with wait := true } block heap_no index thr true
        hp hpp hi (fun _ => hnw)
      rw [c1] at hc
      obtain ⟨r1, _, r3⟩ := check_and_resolve_spec E fuel _ _ thr v s1 iC hc
      have i1 := wait_inv_of_wait_release r1 iC
      have hCl := c3 s.n_locks
      rw [if_pos rfl] at hCl
      have hmem : s.n_locks ∈ s1.hash hash_id.rec_hash := by
        apply r3 hash_id.rec_hash
        · rw [c4, if_pos rfl]; simp
        · right; rw [hCl]
      have hnotw : (s1.lock s.n_locks).is_waiting = false := by
        by_contra hcw
        have hcw' : (s1.lock s.n_locks).is_waiting = true := by simpa using hcw
        have := i1.2.1 _ hcw'
        rw [wait_release_trx_eq r1, hCl] at this
        simp only at this
        rw [hwl] at this
        exact absurd this (by simp)
      have hl : s1.lock s.n_locks
          = { trx := thr, type_mode := supremum_type_mode tm heap_no, index := index,
              page_id := block.page_id,
              bitmap := (List.replicate (((block.n_heap + 7) / 8) * 8) false).set heap_no
                true } := by
        have h1 := wait_release_clear_wait r1 s.n_locks
        rw [clear_wait_of_not_waiting _ hnotw, hCl] at h1
        rw [h1]
        simp only [lock_t.clear_wait]
        rw [supremum_type_mode_clear_wait tm heap_no hwf]
      refine ⟨s.n_locks, hmem, ?_, ?_, ?_, ?_⟩
      · rw [hl]
      · rw [hl]
        exact get_nth_bit_set_replicate _ _ (heap_no_lt_n_bits _ _ hheap)
      · rw [hl]
      · rw [hl]
    · cases a

theorem mem_of_head? {α : Type} (l : List α) (a : α) (h : l.head? = some a) : a ∈ l := by
  cases l with
  | nil => simp at h
  | cons b l => simp at h; subst h; simp

theorem supremum_type_mode_idem (tm : type_mode_t) (heap_no : Nat) :
    supremum_type_mode (supremum_type_mode tm heap_no) heap_no
      = supremum_type_mode tm heap_no := by
  unfold supremum_type_mode
  split <;> rfl

theorem lock_rec_add_to_queue_installed (s : lock_sys_t) (mode : type_mode_t)
    (block : buf_block_t) (heap_no : Nat) (index : dict_index_t) (thr : Nat) (b : Bool)
    (hp : mode.predicate = false) (hpp : mode.prdt_page = false)
    (hheap : heap_no < block.n_heap) :
    ∃ g, g ∈ (lock_rec_add_to_queue s mode block heap_no index thr b).rec_hash
      ∧ ((lock_rec_add_to_queue s mode block heap_no index thr b).lock g).page_id
          = block.page_id
      ∧ lock_rec_get_nth_bit
          ((lock_rec_add_to_queue s mode block heap_no index thr b).lock g) heap_no = true
      ∧ ((lock_rec_add_to_queue s mode block heap_no index thr b).lock g).trx = thr
      ∧ ((lock_rec_add_to_queue s mode block heap_no index thr b).lock g).type_mode
          = supremum_type_mode mode heap_no := by
  have hst : (supremum_type_mode mode heap_no).predicate = false
      ∧ (supremum_type_mode mode heap_no).prdt_page = false := by
    unfold supremum_type_mode; split <;> simp [hp, hpp]
  have hh : lock_hash_get (supremum_type_mode mode heap_no) = hash_id.rec_hash := by
    simp [lock_hash_get, hst.1, hst.2]
  have hcreate : ∃ g, g ∈ (lock_rec_create s (supremum_type_mode mode heap_no) block heap_no
        index thr b).2.rec_hash
      ∧ ((lock_rec_create s (supremum_type_mode mode heap_no) block heap_no
        index thr b).2.lock g).page_id = block.page_id
      ∧ lock_rec_get_nth_bit ((lock_rec_create s (supremum_type_mode mode heap_no) block
        heap_no index thr b).2.lock g) heap_no = true
      ∧ ((lock_rec_create s (supremum_type_mode mode heap_no) block heap_no
        index thr b).2.lock g).trx = thr
      ∧ ((lock_rec_create s (supremum_type_mode mode heap_no) block heap_no
        index thr b).2.lock g).type_mode = supremum_type_mode mode heap_no := by
    obtain ⟨_, _, c3, c4, _, _, _⟩ :=
      lock_rec_create_spec s (supremum_type_mode mode heap_no) block heap_no index thr b
        hst.1 hst.2
    have hm := c4 hash_id.rec_hash
    rw [if_pos rfl] at hm
    refine ⟨s.n_locks, ?_, ?_, ?_, ?_, ?_⟩
    · show s.n_locks ∈ lock_sys_t.hash _ hash_id.rec_hash
      rw [hm]; simp
    · rw [c3, if_pos rfl]
    · rw [c3, if_pos rfl]
      exact get_nth_bit_set_replicate _ _ (heap_no_lt_n_bits _ _ hheap)
    · rw [c3, if_pos rfl]
    · rw [c3, if_pos rfl]
      exact supremum_type_mode_idem mode heap_no
  unfold lock_rec_add_to_queue
  rw [show (if heap_no = PAGE_HEAP_NO_SUPREMUM then
      ({ mode with gap := false, rec_not_gap := false } : type_mode_t) else mode)
      = supremum_type_mode mode heap_no from rfl]
  dsimp only
  rw [hh]
  split
  · exact hcreate
  · split
    · split
      · rename_i lock hfind
        have hf := List.find?_some hfind
        have hmem := List.mem_of_find?_eq_some hfind
        simp only [Bool.and_eq_true, decide_eq_true_eq] at hf
        simp only [lock_sys_t.page_chain, List.mem_filter, beq_iff_eq] at hmem
        refine ⟨lock, ?_, ?_, ?_, ?_, ?_⟩
        · show lock ∈ lock_sys_t.hash _ hash_id.rec_hash
          simpa using hmem.1
        · simp [lock_rec_set_nth_bit, hmem.2]
        · simp only [lock_sys_t.lock_set_lock, ↓reduceIte]
          exact get_nth_bit_set _ _ hf.2
        · simp [lock_rec_set_nth_bit, hf.1.1]
        · simp [lock_rec_set_nth_bit, hf.1.2]
      · exact hcreate
    · exact hcreate

theorem lock_rec_lock_installed (E : Env) (fuel : Nat) (s : lock_sys_t) (mode : type_mode_t)
    (block : buf_block_t) (heap_no : Nat) (index : dict_index_t) (thr : Nat)
    (s1 : lock_sys_t) (hm : rec_request_mode mode) (hheap : heap_no < block.n_heap)
    (hi : wait_inv s) (hnw : (s.trx thr).wait_lock = none)
    (h : lock_rec_lock E fuel s false mode block heap_no index thr
      = some (DB_SUCCESS_LOCKED_REC, s1)) :
    ∃ g, g ∈ s1.rec_hash ∧ (s1.lock g).page_id = block.page_id
      ∧ lock_rec_get_nth_bit (s1.lock g) heap_no = true ∧ (s1.lock g).trx = thr
      ∧ ((s1.lock g).type_mode = mode
        ∨ (s1.lock g).type_mode = supremum_type_mode mode heap_no) := by
  obtain ⟨hmm, htb, hw, hii, hp, hpp⟩ := hm
  unfold lock_rec_lock at h
  dsimp only at h
  by_cases c1 : lock_table_has s thr index.table mode.mode = true
  · rw [if_pos c1] at h; simp at h
  rw [if_neg c1] at h
  cases hhd : (s.page_chain hash_id.rec_hash block.page_id).head? with
  | none =>
    rw [hhd] at h
    simp only [Bool.not_false, ↓reduceIte, Option.some.injEq, Prod.mk.injEq, true_and] at h
    subst h
    obtain ⟨_, _, c3, c4, _, _, _⟩ :=
      lock_rec_create_spec s mode block heap_no index thr false hp hpp
    have hmem := c4 hash_id.rec_hash
    rw [if_pos rfl] at hmem
    refine ⟨s.n_locks, ?_, ?_, ?_, ?_, Or.inr ?_⟩
    · show s.n_locks ∈ lock_sys_t.hash _ hash_id.rec_hash
      rw [hmem]; simp
    · rw [c3, if_pos rfl]
    · rw [c3, if_pos rfl]
      exact get_nth_bit_set_replicate _ _ (heap_no_lt_n_bits _ _ hheap)
    · rw [c3, if_pos rfl]
    · rw [c3, if_pos rfl]
  | some lock =>
    rw [hhd] at h
    dsimp only at h
    have hlm := mem_of_head? _ _ hhd
    simp only [lock_sys_t.page_chain, List.mem_filter, beq_iff_eq] at hlm
    split at h
    · rename_i hc
      by_cases c2 : (lock_rec_has_expl s mode block heap_no thr).isNone = true
      · rw [if_pos c2] at h
        by_cases c3 : (lock_rec_other_has_conflicting E s mode block heap_no thr).isSome = true
        · rw [if_pos c3] at h
          obtain ⟨g, h1, h2, h3, h4, h5⟩ :=
            lock_rec_enqueue_waiting_locked_rec E fuel s mode block heap_no index thr s1
              hp hpp hw hheap hi hnw h
          exact ⟨g, h1, h2, h3, h4, Or.inr h5⟩
        · rw [if_neg c3] at h
          simp only [Bool.not_false, ↓reduceIte, Option.some.injEq, Prod.mk.injEq,
            true_and] at h
          subst h
          obtain ⟨g, h1, h2, h3, h4, h5⟩ :=
            lock_rec_add_to_queue_installed s mode block heap_no index thr true hp hpp hheap
          exact ⟨g, h1, h2, h3, h4, Or.inr h5⟩
      · rw [if_neg c2] at h; simp at h
    · rename_i hc
      simp only [Bool.or_eq_true, decide_eq_true_eq, not_or, not_not, not_le] at hc
      obtain ⟨⟨⟨_, ht⟩, htm⟩, hn⟩ := hc
      simp only [Bool.not_false, ↓reduceIte] at h
      split at h
      · simp only [Option.some.injEq, Prod.mk.injEq, true_and] at h
        subst h
        refine ⟨lock, ?_, ?_, ?_, ?_, Or.inl ?_⟩
        · show lock ∈ lock_sys_t.hash _ hash_id.rec_hash
          simpa using hlm.1
        · simp [lock_rec_set_nth_bit, hlm.2]
        · simp only [lock_sys_t.lock_set_lock, ↓reduceIte]
          exact get_nth_bit_set _ _ hn
        · simp [lock_rec_set_nth_bit, ht]
        · simp [lock_rec_set_nth_bit, htm]
      · simp at h

theorem head_filter_single (p : Nat → Bool) (a : Nat) (l : List Nat)
    (h1 : (l.filter p).head? = some a)
    (h2 : ((l.dropWhile (fun i => i != a)).tail).find? p = none) :
    ∀ g ∈ l, p g = true → g = a := by
  induction l with
  | nil => simp
  | cons b l ih =>
    intro g hg hpg
    by_cases hb : p b = true
    · rw [List.filter_cons_of_pos hb] at h1
      simp only [List.head?_cons, Option.some.injEq] at h1
      subst h1
      simp only [List.dropWhile_cons, bne_self_eq_false, Bool.false_eq_true, ↓reduceIte,
        List.tail_cons, List.find?_eq_none] at h2
      rcases List.mem_cons.mp hg with e | e
      · exact e
      · exact absurd hpg (h2 g e)
    · rw [List.filter_cons_of_neg hb] at h1
      have hba : b ≠ a := by
        intro e
        have := mem_of_head? _ _ h1
        rw [List.mem_filter] at this
        exact hb (e ▸ this.2)
      have hd : (b :: l).dropWhile (fun i => i != a) = l.dropWhile (fun i => i != a) := by
        simp [List.dropWhile_cons, hba]
      rw [hd] at h2
      rcases List.mem_cons.mp hg with e | e
      · exact absurd (e ▸ hpg) hb
      · exact ih h1 h2 g e hpg

theorem lock_rec_lock_held (E : Env) (fuel : Nat) (s : lock_sys_t) (impl : Bool)
    (mode : type_mode_t) (block : buf_block_t) (heap_no : Nat) (index : dict_index_t)
    (thr : Nat) (hm : rec_request_mode mode)
    (hheld : lock_table_has s thr index.table mode.mode = true
      ∨ (lock_rec_has_expl s mode block heap_no thr).isSome = true) :
    lock_rec_lock E fuel s impl mode block heap_no index thr = some (DB_SUCCESS, s) := by
  obtain ⟨_, _, _, _, hp, hpp⟩ := hm
  unfold lock_rec_lock
  dsimp only
  by_cases c1 : lock_table_has s thr index.table mode.mode = true
  · rw [if_pos c1]
  rw [if_neg c1]
  have hex : (lock_rec_has_expl s mode block heap_no thr).isSome = true := by
    rcases hheld with a | a
    · exact absurd a c1
    · exact a
  obtain ⟨g, hg⟩ := Option.isSome_iff_exists.mp hex
  have hgq := List.mem_of_find?_eq_some hg
  rw [mem_lock_rec_queue] at hgq
  cases hhd : (s.page_chain hash_id.rec_hash block.page_id).head? with
  | none =>
    rw [List.head?_eq_none_iff] at hhd
    have : g ∈ s.page_chain hash_id.rec_hash block.page_id := by
      simp only [lock_sys_t.page_chain, List.mem_filter, beq_iff_eq]
      exact ⟨hgq.1, hgq.2.1⟩
    rw [hhd] at this
    simp at this
  | some lock =>
    dsimp only
    split
    · have : (lock_rec_has_expl s mode block heap_no thr).isNone = false := by
        rw [hg]; rfl
      rw [this]; rfl
    · rename_i hc
      simp only [Bool.or_eq_true, decide_eq_true_eq, not_or, not_not, not_le,
        Bool.not_eq_true, Option.not_isSome, Option.isNone_iff_eq_none] at hc
      obtain ⟨⟨⟨hnx, _⟩, htm⟩, _⟩ := hc
      have hlm := mem_of_head? _ _ hhd
      simp only [lock_sys_t.page_chain, List.mem_filter, beq_iff_eq] at hlm
      have hh : lock_hash_get (s.lock lock).type_mode = hash_id.rec_hash := by
        rw [htm]; simp [lock_hash_get, hp, hpp]
      unfold lock_rec_get_next_on_page at hnx
      dsimp only at hnx
      rw [hh, hlm.2] at hnx
      have hgl : g = lock :=
        head_filter_single (fun i => (s.lock i).page_id == block.page_id) lock _ hhd hnx g
          hgq.1 (by simpa using hgq.2.1)
      rw [← hgl, hgq.2.2]
      cases impl <;> rfl

theorem wait_inv_no_rec_lock_state : wait_inv no_rec_lock_state := by
  refine ⟨?_, ?_, ?_⟩
  · intro t w h
    simp only [no_rec_lock_state, lock_sys_t.trx] at h
    split at h <;> simp at h
  · intro g h
    simp only [no_rec_lock_state, lock_sys_t.lock, lock_t.is_waiting] at h
    split at h <;> simp at h
  · intro t w h
    simp only [no_rec_lock_state, lock_sys_t.trx] at h
    split at h <;> simp at h

/-- C5: idempotent re-lock.  For a request of mode `S` or `X` with
`ORDINARY`, `GAP` or `REC_NOT_GAP`, implicit or not, `lock_rec_lock` returns
`DB_SUCCESS` and the lock system unchanged when the transaction holds a
table lock of at least the requested mode, when `lock_rec_has_expl` finds a
granted explicit lock of the transaction on the record, or when the lock
system is the one that a non-implicit call of the same request has just
returned with `DB_SUCCESS_LOCKED_REC` (made on a valid heap number, in a
state where `wait_lock` pointers and `WAIT` flags agree, by a transaction
that was not waiting). -/
theorem lock_rec_lock_idempotent (E : Env) (fuel : Nat) (s : lock_sys_t) (impl : Bool)
    (mode : type_mode_t) (block : buf_block_t) (heap_no : Nat) (index : dict_index_t)
    (thr : Nat) (hm : rec_request_mode mode)
    (hheld : lock_table_has s thr index.table mode.mode = true
      ∨ (lock_rec_has_expl s mode block heap_no thr).isSome = true
      ∨ ∃ s0 fuel0, heap_no < block.n_heap ∧ wait_inv s0
          ∧ (s0.trx thr).wait_lock = none
          ∧ lock_rec_lock E fuel0 s0 false mode block heap_no index thr
              = some (DB_SUCCESS_LOCKED_REC, s)) :
    lock_rec_lock E fuel s impl mode block heap_no index thr = some (DB_SUCCESS, s) := by
  rcases hheld with a | a | ⟨s0, fuel0, hheap, hi, hnw, h⟩
  · exact lock_rec_lock_held E fuel s impl mode block heap_no index thr hm (Or.inl a)
  · exact lock_rec_lock_held E fuel s impl mode block heap_no index thr hm (Or.inr a)
  · obtain ⟨g, h1, h2, h3, h4, h5⟩ :=
      lock_rec_lock_installed E fuel0 s0 mode block heap_no index thr s hm hheap hi hnw h
    exact lock_rec_lock_held E fuel s impl mode block heap_no index thr hm
      (Or.inr (lock_rec_has_expl_of_lock s mode block heap_no thr g hm h1 h2 h3 h4 h5))

/-- Witness of C5: in `fifo_state` transaction 1 holds a granted `S` lock
on (page 5, heap number 3), so its `S` request returns `DB_SUCCESS`; and in
`no_rec_lock_state` the request `X | REC_NOT_GAP` of transaction 1 on
(page 7, heap number 2) returns `DB_SUCCESS_LOCKED_REC` and its repetition
`DB_SUCCESS`. -/
theorem lock_rec_lock_idempotent_witness :
    lock_rec_lock env_ordering 0 fifo_state false { mode := LOCK_S }
        { page_id := 5, n_heap := 8 } 3 { id := 0, table := 0 } 1
      = some (DB_SUCCESS, fifo_state)
    ∧ lock_rec_lock env_ordering 0 no_rec_lock_state false
        { mode := LOCK_X, rec_not_gap := true } { page_id := 7, n_heap := 4 } 2
        { id := 0, table := 0 } 1
      = some (DB_SUCCESS_LOCKED_REC,
          (lock_rec_create no_rec_lock_state { mode := LOCK_X, rec_not_gap := true }
            { page_id := 7, n_heap := 4 } 2 { id := 0, table := 0 } 1 false).2)
    ∧ lock_rec_lock env_ordering 0
        (lock_rec_create no_rec_lock_state { mode := LOCK_X, rec_not_gap := true }
            { page_id := 7, n_heap := 4 } 2 { id := 0, table := 0 } 1 false).2
        true { mode := LOCK_X, rec_not_gap := true } { page_id := 7, n_heap := 4 } 2
        { id := 0, table := 0 } 1
      = some (DB_SUCCESS,
          (lock_rec_create no_rec_lock_state { mode := LOCK_X, rec_not_gap := true }
            { page_id := 7, n_heap := 4 } 2 { id := 0, table := 0 } 1 false).2) :=
  ⟨lock_rec_lock_idempotent env_ordering 0 fifo_state false { mode := LOCK_S }
      { page_id := 5, n_heap := 8 } 3 { id := 0, table := 0 } 1
      ⟨Or.inl rfl, rfl, rfl, rfl, rfl, rfl⟩ (Or.inr (Or.inl (by decide))),
    rfl,
    lock_rec_lock_idempotent env_ordering 0 _ true { mode := LOCK_X, rec_not_gap := true }
      { page_id := 7, n_heap := 4 } 2 { id := 0, table := 0 } 1
      ⟨Or.inr rfl, rfl, rfl, rfl, rfl, rfl⟩
      (Or.inr (Or.inr ⟨no_rec_lock_state, 0, by decide, wait_inv_no_rec_lock_state, rfl,
        rfl⟩))⟩

/-- C2, counterexample to the last clause: in `insert_deadlock_state` the
waiting next-key `X` lock of transaction 1 (mode `X`, neither
`INSERT_INTENTION` nor `REC_NOT_GAP`) makes `lock_rec_has_to_wait` true for
the insert-intention request of transaction 2 and is what
`lock_rec_other_has_conflicting` returns, yet
`lock_rec_insert_check_and_lock` returns `DB_SUCCESS`: the enqueued request
closes a deadlock, the lighter transaction 1 is chosen as the victim, its
waiting lock is cancelled and the insert-intention lock is granted. -/
theorem insert_check_succeeds_after_deadlock :
    lock_rec_has_to_wait env_ordering true 2 insert_intention_mode
        (insert_deadlock_state.lock 1) false = true
    ∧ lock_rec_other_has_conflicting env_ordering insert_deadlock_state
        insert_intention_mode { page_id := 1, n_heap := 8 } 5 2 = some 1
    ∧ (lock_rec_insert_check_and_lock env_ordering 100 insert_deadlock_state 5
        { page_id := 1, n_heap := 8 } { table := 0 } 2 false).map (fun r => r.err)
      = some DB_SUCCESS := by
  decide

theorem lock_rec_enqueue_waiting_nodetect (E : Env) (fuel : Nat) (s : lock_sys_t)
    (tm : type_mode_t) (block : buf_block_t) (heap_no : Nat) (index : dict_index_t)
    (thr : Nat) (hp : tm.predicate = false) (hpp : tm.prdt_page = false)
    (hdd : E.innobase_deadlock_detect = false) :
    ∃ r, lock_rec_enqueue_waiting E fuel s tm block heap_no index thr = some r
      ∧ (r.1 = DB_LOCK_WAIT ∨ r.1 = DB_LOCK_WAIT_TIMEOUT) := by
  obtain ⟨_, _, _, _, c5, _, _⟩ :=
    lock_rec_create_spec s { tm with wait := true } block heap_no index thr true hp hpp
  have hw := c5 thr
  simp only [true_and, ↓reduceIte] at hw
  unfold lock_rec_enqueue_waiting
  dsimp only
  split
  · exact ⟨_, rfl, Or.inr rfl⟩
  · simp only [DeadlockChecker.check_and_resolve, hdd, Bool.not_false, ↓reduceIte, hw,
      Option.isNone_some, Bool.false_eq_true]
    exact ⟨_, rfl, Or.inl rfl⟩

theorem grant_frame_refl (T : Nat) (s : lock_sys_t) : grant_frame T s s :=
  ⟨fun _ => rfl, fun _ => rfl, fun _ => rfl, fun _ => Or.inl rfl, fun _ => Or.inl rfl,
    fun _ => rfl, rfl⟩

theorem grant_frame_trans {T : Nat} {s s1 s2 : lock_sys_t} (h1 : grant_frame T s s1)
    (h2 : grant_frame T s1 s2) : grant_frame T s s2 := by
  refine ⟨?_, ?_, ?_, ?_, ?_, ?_, ?_⟩
  · intro k; rw [h2.hash, h1.hash]
  · intro tb; rw [h2.tbl_locks, h1.tbl_locks]
  · intro tb; rw [h2.counter, h1.counter]
  · intro tb
    rcases h2.autoinc_trx tb with a | a
    · rw [a]; exact h1.autoinc_trx tb
    · exact Or.inr a
  · intro g
    rcases h2.lock g with a | a <;> rcases h1.lock g with b | b
    · left; rw [a, b]
    · right; rw [a, b]
    · right; rw [a, b]
    · right; rw [a, b]; rfl
  · intro t; rw [h2.trx_locks, h1.trx_locks]
  · rw [h2.autoinc_locks, h1.autoinc_locks]

theorem lock_grant_tbl (s : lock_sys_t) (g tb : Nat) :
    ((lock_grant s g).tbl tb).locks = (s.tbl tb).locks
    ∧ ((lock_grant s g).tbl tb).n_lock_x_or_s = (s.tbl tb).n_lock_x_or_s
    ∧ (((lock_grant s g).tbl tb).autoinc_trx = (s.tbl tb).autoinc_trx
      ∨ ((lock_grant s g).tbl tb).autoinc_trx = some (s.lock g).trx) := by
  unfold lock_grant
  simp only []
  split <;> split <;>
    simp only [lock_wait_end_tbl, lock_sys_t.tbl_set_trx, lock_sys_t.tbl_set_tbl,
      lock_reset_tbl, lock_reset_lock, if_true] <;>
    (try split) <;> simp_all [lock_t.clear_wait]

theorem lock_grant_autoinc_locks (s : lock_sys_t) (g t : Nat) (h : (s.lock g).trx ≠ t) :
    ((lock_grant s g).trx t).autoinc_locks = (s.trx t).autoinc_locks := by
  have h2 : t ≠ (s.lock g).trx := Ne.symm h
  unfold lock_grant
  simp only []
  split <;> split <;>
    simp only [lock_wait_end, lock_sys_t.trx_set_trx, lock_sys_t.trx_set_tbl,
      lock_reset_trx, lock_reset_lock, if_true, lock_t.clear_wait, h2, if_false]

theorem grant_frame_grant (T : Nat) (s : lock_sys_t) (g : Nat) (h : (s.lock g).trx ≠ T) :
    grant_frame T s (lock_grant s g) := by
  refine ⟨lock_grant_hash s g, fun tb => (lock_grant_tbl s g tb).1,
    fun tb => (lock_grant_tbl s g tb).2.1, ?_, ?_, lock_grant_trx_locks s g,
    lock_grant_autoinc_locks s g T h⟩
  · intro tb
    rcases (lock_grant_tbl s g tb).2.2 with a | a
    · exact Or.inl a
    · exact Or.inr ⟨_, h, a⟩
  · intro j
    rw [lock_grant_lock]
    split
    · subst_vars; exact Or.inr rfl
    · exact Or.inl rfl

theorem grant_frame.lock_core {T : Nat} {s s1 : lock_sys_t} (h : grant_frame T s s1)
    (g : Nat) : (s1.lock g).clear_wait = (s.lock g).clear_wait := by
  rcases h.lock g with a | a <;> rw [a]
  rfl

theorem core_trx {l l1 : lock_t} (h : l1.clear_wait = l.clear_wait) : l1.trx = l.trx := by
  have e := congrArg lock_t.trx h
  exact e

theorem core_page_id {l l1 : lock_t} (h : l1.clear_wait = l.clear_wait) :
    l1.page_id = l.page_id := by
  have e := congrArg lock_t.page_id h
  exact e

theorem core_table {l l1 : lock_t} (h : l1.clear_wait = l.clear_wait) :
    l1.table = l.table := by
  have e := congrArg lock_t.table h
  exact e

theorem core_bitmap {l l1 : lock_t} (h : l1.clear_wait = l.clear_wait) :
    l1.bitmap = l.bitmap := by
  have e := congrArg lock_t.bitmap h
  exact e

theorem core_mode {l l1 : lock_t} (h : l1.clear_wait = l.clear_wait) : l1.mode = l.mode := by
  have e := congrArg lock_t.mode h
  exact e

theorem core_is_table {l l1 : lock_t} (h : l1.clear_wait = l.clear_wait) :
    l1.is_table = l.is_table := by
  have e := congrArg lock_t.is_table h
  exact e

theorem core_is_s_or_x {l l1 : lock_t} (h : l1.clear_wait = l.clear_wait) :
    l1.is_s_or_x = l.is_s_or_x := by
  unfold lock_t.is_s_or_x
  rw [core_mode h]

theorem core_hash_get {l l1 : lock_t} (h : l1.clear_wait = l.clear_wait) :
    lock_hash_get l1.type_mode = lock_hash_get l.type_mode := by
  have e := congrArg (fun x => lock_hash_get x.type_mode) h
  exact e

theorem core_nth_bit {l l1 : lock_t} (h : l1.clear_wait = l.clear_wait) (i : Nat) :
    lock_rec_get_nth_bit l1 i = lock_rec_get_nth_bit l i := by
  unfold lock_rec_get_nth_bit
  rw [core_bitmap h]

theorem core_find_set_bit {l l1 : lock_t} (h : l1.clear_wait = l.clear_wait) :
    lock_rec_find_set_bit l1 = lock_rec_find_set_bit l := by
  unfold lock_rec_find_set_bit
  simp only [lock_rec_get_n_bits, lock_rec_get_nth_bit, core_bitmap h]

theorem lock_rec_has_to_wait_core (E : Env) (b : Bool) (t : Nat) (tm : type_mode_t)
    (l : lock_t) (sup : Bool) :
    lock_rec_has_to_wait E b t tm l sup
      = lock_rec_has_to_wait E b t { tm with wait := false } l.clear_wait sup := rfl

theorem lock_has_to_wait_congr (E : Env) (hE : prdt_ignores_wait E) (s s1 : lock_sys_t)
    (a b : Nat) (ha : (s1.lock a).clear_wait = (s.lock a).clear_wait)
    (hb : (s1.lock b).clear_wait = (s.lock b).clear_wait) :
    lock_has_to_wait E s1 a b = lock_has_to_wait E s a b := by
  unfold lock_has_to_wait
  simp only []
  have e1 : (s1.lock a).trx = (s.lock a).trx := core_trx ha
  have e2 : (s1.lock b).trx = (s.lock b).trx := core_trx hb
  have e3 : (s1.lock a).mode = (s.lock a).mode := core_mode ha
  have e4 : (s1.lock b).mode = (s.lock b).mode := core_mode hb
  have e5 : (s1.lock a).is_table = (s.lock a).is_table := core_is_table ha
  have e6 : (s1.lock a).type_mode.predicate = (s.lock a).type_mode.predicate := by
    have e := congrArg (fun x => x.type_mode.predicate) ha
    exact e
  have e7 : (s1.lock a).type_mode.prdt_page = (s.lock a).type_mode.prdt_page := by
    have e := congrArg (fun x => x.type_mode.prdt_page) ha
    exact e
  have e8 : ({ (s1.lock a).type_mode with wait := false } : type_mode_t)
      = { (s.lock a).type_mode with wait := false } := by
    have e := congrArg (fun x => x.type_mode) ha
    exact e
  have e9 : E.lock_prdt_has_to_wait (s1.lock a).trx (s1.lock a).type_mode a (s1.lock b)
      = E.lock_prdt_has_to_wait (s.lock a).trx (s.lock a).type_mode a (s.lock b) := by
    rw [hE, hE (s.lock a).trx, e1, e8, hb]
  have e10 : lock_rec_has_to_wait E false (s1.lock a).trx (s1.lock a).type_mode (s1.lock b)
        (lock_rec_get_nth_bit (s1.lock a) PAGE_HEAP_NO_SUPREMUM)
      = lock_rec_has_to_wait E false (s.lock a).trx (s.lock a).type_mode (s.lock b)
        (lock_rec_get_nth_bit (s.lock a) PAGE_HEAP_NO_SUPREMUM) := by
    rw [lock_rec_has_to_wait_core, lock_rec_has_to_wait_core E false (s.lock a).trx, e1, e8,
      hb, core_nth_bit ha]
  rw [e9, e10, e1, e2, e3, e4, e5, e6, e7]

theorem grant_frame.page_chain {T : Nat} {s s1 : lock_sys_t} (h : grant_frame T s s1)
    (k : hash_id) (id : Nat) : s1.page_chain k id = s.page_chain k id := by
  apply lock_sys_t.page_chain_congr
  · exact h.hash k
  · intro i
    exact core_page_id (h.lock_core i)

theorem grant_frame.waiting {T : Nat} {s s1 : lock_sys_t} (h : grant_frame T s s1)
    (g : Nat) (hw : (s1.lock g).is_waiting = true) : (s.lock g).is_waiting = true := by
  rcases h.lock g with a | a
  · rw [← a]; exact hw
  · rw [a] at hw; exact absurd hw (by simp [clear_wait_is_waiting])

theorem blocked_rec_frame (E : Env) (hE : prdt_ignores_wait E) {T : Nat}
    {s s1 : lock_sys_t} (h : grant_frame T s s1) (w : Nat) (hb : blocked_rec E s w) :
    blocked_rec E s1 w := by
  obtain ⟨hn, h1, e, he, h2, h3⟩ := hb
  refine ⟨hn, ?_, e, ?_, ?_, ?_⟩
  · rw [core_find_set_bit (h.lock_core w)]; exact h1
  · rw [h.page_chain, core_hash_get (h.lock_core w), core_page_id (h.lock_core w)]
    exact he
  · rw [core_nth_bit (h.lock_core e)]; exact h2
  · rw [lock_has_to_wait_congr E hE s s1 w e (h.lock_core w) (h.lock_core e)]; exact h3

theorem blocked_tbl_frame (E : Env) (hE : prdt_ignores_wait E) {T : Nat}
    {s s1 : lock_sys_t} (h : grant_frame T s s1) (w : Nat) (hb : blocked_tbl E s w) :
    blocked_tbl E s1 w := by
  obtain ⟨e, he, h3⟩ := hb
  refine ⟨e, ?_, ?_⟩
  · rw [h.tbl_locks, core_table (h.lock_core w)]; exact he
  · rw [lock_has_to_wait_congr E hE s s1 w e (h.lock_core w) (h.lock_core e)]; exact h3

theorem blocked_rec_of_isSome (E : Env) (s : lock_sys_t) (w : Nat)
    (h : (lock_rec_has_to_wait_in_queue E s w).isSome = true) : blocked_rec E s w := by
  unfold lock_rec_has_to_wait_in_queue at h
  simp only [] at h
  rw [List.find?_isSome] at h
  obtain ⟨e, he, hp⟩ := h
  cases hb : lock_rec_find_set_bit (s.lock w) with
  | none => rw [hb] at hp; simp at hp
  | some hn =>
    rw [hb] at hp
    simp only [Bool.and_eq_true, decide_eq_true_eq] at hp
    exact ⟨hn, hb, e, he, hp.1.2, hp.2⟩

theorem rec_grant_step_spec (E : Env) (T : Nat) (s : lock_sys_t) (x : Nat)
    (hT : (s.lock x).is_waiting = true → (s.lock x).trx ≠ T) :
    grant_frame T s (lock_rec_grant_step E s x)
    ∧ (((lock_rec_grant_step E s x).lock x).is_waiting = true → blocked_rec E s x) := by
  unfold lock_rec_grant_step
  by_cases hw : (s.lock x).is_waiting = true
  · simp only [hw, Bool.not_true, Bool.false_eq_true, ↓reduceIte]
    cases hq : lock_rec_has_to_wait_in_queue E s x with
    | none =>
      simp only []
      refine ⟨grant_frame_grant T s x (hT hw), ?_⟩
      intro h
      rw [lock_grant_lock, if_pos rfl, clear_wait_is_waiting] at h
      exact absurd h (by simp)
    | some c =>
      simp only []
      exact ⟨grant_frame_refl T s, fun _ => blocked_rec_of_isSome E s x (by rw [hq]; rfl)⟩
  · simp only [Bool.not_eq_true] at hw
    simp only [hw, Bool.not_false, ↓reduceIte]
    exact ⟨grant_frame_refl T s, fun h => absurd h (by simp)⟩

theorem foldl_rec_grant_spec (E : Env) (hE : prdt_ignores_wait E) (T : Nat) (l : List Nat)
    (s : lock_sys_t)
    (hT : ∀ x ∈ l, (s.lock x).is_waiting = true → (s.lock x).trx ≠ T) :
    grant_frame T s (l.foldl (lock_rec_grant_step E) s)
    ∧ ∀ w ∈ l, ((l.foldl (lock_rec_grant_step E) s).lock w).is_waiting = true →
        blocked_rec E (l.foldl (lock_rec_grant_step E) s) w := by
  induction l generalizing s with
  | nil => exact ⟨grant_frame_refl T s, fun _ hw => absurd hw (List.not_mem_nil _)⟩
  | cons a l ih =>
    rw [List.foldl_cons]
    obtain ⟨f1, b1⟩ := rec_grant_step_spec E T s a (hT a (List.mem_cons_self _ _))
    have hT2 : ∀ x ∈ l, ((lock_rec_grant_step E s a).lock x).is_waiting = true →
        ((lock_rec_grant_step E s a).lock x).trx ≠ T := by
      intro x hx hw
      rw [core_trx (f1.lock_core x)]
      exact hT x (List.mem_cons_of_mem _ hx) (f1.waiting x hw)
    obtain ⟨f2, b2⟩ := ih (lock_rec_grant_step E s a) hT2
    refine ⟨grant_frame_trans f1 f2, ?_⟩
    intro w hw hwait
    rcases List.mem_cons.mp hw with e | e
    · subst e
      exact blocked_rec_frame E hE (grant_frame_trans f1 f2) w
        (b1 (f2.waiting w hwait))
    · exact b2 w e hwait

theorem table_grant_step_spec (E : Env) (T : Nat) (s : lock_sys_t) (x : Nat)
    (hT : (s.lock x).is_waiting = true → (s.lock x).trx ≠ T) :
    grant_frame T s (lock_table_grant_step E s x)
    ∧ (((lock_table_grant_step E s x).lock x).is_waiting = true → blocked_tbl E s x) := by
  unfold lock_table_grant_step
  split
  · rename_i hc
    simp only [Bool.and_eq_true] at hc
    refine ⟨grant_frame_grant T s x (hT hc.1), ?_⟩
    intro h
    rw [lock_grant_lock, if_pos rfl, clear_wait_is_waiting] at h
    exact absurd h (by simp)
  · rename_i hc
    refine ⟨grant_frame_refl T s, ?_⟩
    intro hw
    simp only [Bool.and_eq_true, hw, true_and, Bool.not_eq_true', Bool.not_eq_false] at hc
    unfold lock_table_has_to_wait_in_queue at hc
    simp only [] at hc
    split at hc
    · exact absurd hc (by simp)
    · rw [List.any_eq_true] at hc
      obtain ⟨e, he, h3⟩ := hc
      exact ⟨e, he, h3⟩

theorem foldl_table_grant_spec (E : Env) (hE : prdt_ignores_wait E) (T : Nat)
    (l : List Nat) (s : lock_sys_t)
    (hT : ∀ x ∈ l, (s.lock x).is_waiting = true → (s.lock x).trx ≠ T) :
    grant_frame T s (l.foldl (lock_table_grant_step E) s)
    ∧ ∀ w ∈ l, ((l.foldl (lock_table_grant_step E) s).lock w).is_waiting = true →
        blocked_tbl E (l.foldl (lock_table_grant_step E) s) w := by
  induction l generalizing s with
  | nil => exact ⟨grant_frame_refl T s, fun _ hw => absurd hw (List.not_mem_nil _)⟩
  | cons a l ih =>
    rw [List.foldl_cons]
    obtain ⟨f1, b1⟩ := table_grant_step_spec E T s a (hT a (List.mem_cons_self _ _))
    have hT2 : ∀ x ∈ l, ((lock_table_grant_step E s a).lock x).is_waiting = true →
        ((lock_table_grant_step E s a).lock x).trx ≠ T := by
      intro x hx hw
      rw [core_trx (f1.lock_core x)]
      exact hT x (List.mem_cons_of_mem _ hx) (f1.waiting x hw)
    obtain ⟨f2, b2⟩ := ih (lock_table_grant_step E s a) hT2
    refine ⟨grant_frame_trans f1 f2, ?_⟩
    intro w hw hwait
    rcases List.mem_cons.mp hw with e | e
    · subst e
      exact blocked_tbl_frame E hE (grant_frame_trans f1 f2) w
        (b1 (f2.waiting w hwait))
    · exact b2 w e hwait

theorem release_wf_of_frame {T : Nat} {s s1 : lock_sys_t} (h : grant_frame T s s1)
    (wf : release_wf s T) : release_wf s1 T := by
  have hc := h.lock_core
  refine ⟨?_, ?_, ?_, ?_, ?_, ?_, ?_, ?_, ?_, ?_, ?_, ?_, ?_, ?_, ?_⟩
  · intro g hg
    rw [h.trx_locks] at hg
    rw [core_trx (hc g)]
    exact wf.owned g hg
  · rw [h.trx_locks]; exact wf.nodup_trx
  · intro k; rw [h.hash]; exact wf.nodup_hash k
  · intro tb; rw [h.tbl_locks]; exact wf.nodup_tbl tb
  · intro k g hg
    rw [h.hash] at hg
    rw [core_is_table (hc g), core_hash_get (hc g)]
    exact wf.hash_ok k g hg
  · intro tb g hg
    rw [h.tbl_locks] at hg
    rw [core_is_table (hc g), core_table (hc g)]
    exact wf.tbl_ok tb g hg
  · intro k g hg ht
    rw [h.hash] at hg
    rw [core_trx (hc g)] at ht
    rw [h.trx_locks]
    exact wf.listed_hash k g hg ht
  · intro tb g hg ht
    rw [h.tbl_locks] at hg
    rw [core_trx (hc g)] at ht
    rw [h.trx_locks]
    exact wf.listed_tbl tb g hg ht
  · intro g hg ht
    rw [h.trx_locks] at hg
    rw [core_is_table (hc g)] at ht
    rw [h.tbl_locks, core_table (hc g)]
    exact wf.queued_tbl g hg ht
  · intro g hg ht
    rw [h.trx_locks] at hg
    rw [core_is_table (hc g)] at ht
    rw [h.hash, core_hash_get (hc g)]
    exact wf.queued_rec g hg ht
  · intro g hg
    rw [h.trx_locks] at hg
    have := wf.not_waiting g hg
    cases hw : (s1.lock g).is_waiting with
    | false => rfl
    | true => rw [h.waiting g hw] at this; exact absurd this (by simp)
  · intro tb ht
    have hs : (s.tbl tb).autoinc_trx = some T := by
      rcases h.autoinc_trx tb with a | ⟨t, hne, a⟩
      · rw [← a]; exact ht
      · rw [a] at ht
        exact absurd (Option.some.inj ht) hne
    obtain ⟨g, hg, h1, hm, h2⟩ := wf.autoinc_owner tb hs
    refine ⟨g, ?_, ?_, ?_, ?_⟩
    · rw [h.trx_locks]; exact hg
    · rw [core_is_table (hc g)]; exact h1
    · rw [core_mode (hc g)]; exact hm
    · rw [core_table (hc g)]; exact h2
  · intro g hg h1 h2 h3
    rw [h.trx_locks] at hg
    rw [core_is_table (hc g)] at h1
    rw [core_mode (hc g)] at h2
    rw [core_table (hc g)] at h3
    have hs : (s.tbl (s.lock g).table).autoinc_trx = some T := by
      rcases h.autoinc_trx (s.lock g).table with a | ⟨t, hne, a⟩
      · rw [← a]; exact h3
      · rw [a] at h3
        exact absurd (Option.some.inj h3) hne
    rw [h.autoinc_locks]
    exact wf.autoinc_vec g hg h1 h2 hs
  · rw [h.autoinc_locks]; exact wf.autoinc_last
  · intro tb
    rw [h.counter, h.tbl_locks, wf.counter tb]
    apply List.countP_congr
    intro g _
    rw [core_is_s_or_x (hc g)]

theorem lock_rec_dequeue_removed_spec (s : lock_sys_t) (in_lock : Nat) :
    (∀ t, ((lock_rec_dequeue_removed s in_lock).trx t).trx_locks
        = if t = (s.lock in_lock).trx then (s.trx t).trx_locks.erase in_lock
          else (s.trx t).trx_locks)
    ∧ (∀ t, ((lock_rec_dequeue_removed s in_lock).trx t).autoinc_locks
        = (s.trx t).autoinc_locks)
    ∧ (∀ tb, ((lock_rec_dequeue_removed s in_lock).tbl tb).locks = (s.tbl tb).locks)
    ∧ (∀ tb, ((lock_rec_dequeue_removed s in_lock).tbl tb).n_lock_x_or_s
        = (s.tbl tb).n_lock_x_or_s)
    ∧ (∀ tb, ((lock_rec_dequeue_removed s in_lock).tbl tb).autoinc_trx
        = (s.tbl tb).autoinc_trx) := by
  refine ⟨?_, ?_, ?_, ?_, ?_⟩
  · intro t
    simp only [lock_rec_dequeue_removed, lock_sys_t.trx_set_trx, lock_sys_t.trx_set_hash,
      lock_sys_t.trx_set_tbl]
    split <;> simp_all
  · intro t
    simp only [lock_rec_dequeue_removed, lock_sys_t.trx_set_trx, lock_sys_t.trx_set_hash,
      lock_sys_t.trx_set_tbl]
    split <;> simp_all
  · intro tb
    simp only [lock_rec_dequeue_removed, lock_sys_t.tbl_set_trx, lock_sys_t.tbl_set_hash,
      lock_sys_t.tbl_set_tbl]
    split <;> simp_all
  · intro tb
    simp only [lock_rec_dequeue_removed, lock_sys_t.tbl_set_trx, lock_sys_t.tbl_set_hash,
      lock_sys_t.tbl_set_tbl]
    split <;> simp_all
  · intro tb
    simp only [lock_rec_dequeue_removed, lock_sys_t.tbl_set_trx, lock_sys_t.tbl_set_hash,
      lock_sys_t.tbl_set_tbl]
    split <;> simp_all

theorem release_wf_rec_removed (s : lock_sys_t) (T L : Nat) (wf : release_wf s T)
    (hL : L ∈ (s.trx T).trx_locks) (ht : (s.lock L).is_table = false) :
    release_wf (lock_rec_dequeue_removed s L) T := by
  have hown := wf.owned L hL
  obtain ⟨r1, r2, r3, r4, r5⟩ := lock_rec_dequeue_removed_spec s L
  have rl := lock_rec_dequeue_removed_lock s L
  have rh := lock_rec_dequeue_removed_hash s L
  have rT : ((lock_rec_dequeue_removed s L).trx T).trx_locks
      = (s.trx T).trx_locks.erase L := by
    rw [r1, hown, if_pos rfl]
  have hsub : ∀ k, ∀ g ∈ (lock_rec_dequeue_removed s L).hash k, g ∈ s.hash k := by
    intro k g hg
    rw [rh] at hg
    split at hg
    · exact List.mem_of_mem_erase hg
    · exact hg
  have hLout : ∀ k, L ∉ (lock_rec_dequeue_removed s L).hash k := by
    intro k hg
    have hk := (wf.hash_ok k L (hsub k L hg)).2
    rw [rh, if_pos hk.symm] at hg
    exact ((wf.nodup_hash k).mem_erase_iff.mp hg).1 rfl
  refine ⟨?_, ?_, ?_, ?_, ?_, ?_, ?_, ?_, ?_, ?_, ?_, ?_, ?_, ?_, ?_⟩
  · intro g hg
    rw [rT] at hg
    rw [rl]
    exact wf.owned g (List.mem_of_mem_erase hg)
  · rw [rT]; exact wf.nodup_trx.erase L
  · intro k
    rw [rh]
    split
    · exact (wf.nodup_hash k).erase L
    · exact wf.nodup_hash k
  · intro tb; rw [r3]; exact wf.nodup_tbl tb
  · intro k g hg
    rw [rl]
    exact wf.hash_ok k g (hsub k g hg)
  · intro tb g hg
    rw [r3] at hg
    rw [rl]
    exact wf.tbl_ok tb g hg
  · intro k g hg hT
    rw [rl] at hT
    rw [rT]
    have hne : g ≠ L := fun e => hLout k (e ▸ hg)
    exact (List.mem_erase_of_ne hne).mpr (wf.listed_hash k g (hsub k g hg) hT)
  · intro tb g hg hT
    rw [r3] at hg
    rw [rl] at hT
    rw [rT]
    have hne : g ≠ L := by
      intro e
      have := (wf.tbl_ok tb g hg).1
      rw [e, ht] at this
      exact absurd this (by simp)
    exact (List.mem_erase_of_ne hne).mpr (wf.listed_tbl tb g hg hT)
  · intro g hg h1
    rw [rT] at hg
    rw [rl] at h1
    rw [r3, rl]
    exact wf.queued_tbl g (List.mem_of_mem_erase hg) h1
  · intro g hg h1
    rw [rT] at hg
    rw [rl] at h1
    have hne : g ≠ L := (wf.nodup_trx.mem_erase_iff.mp hg).1
    have hq := wf.queued_rec g (List.mem_of_mem_erase hg) h1
    rw [rl, rh]
    split
    · exact (List.mem_erase_of_ne hne).mpr hq
    · exact hq
  · intro g hg
    rw [rT] at hg
    rw [rl]
    exact wf.not_waiting g (List.mem_of_mem_erase hg)
  · intro tb h1
    rw [r5] at h1
    obtain ⟨g, hg, h2, hm, h3⟩ := wf.autoinc_owner tb h1
    have hne : g ≠ L := by
      intro e
      rw [e, ht] at h2
      exact absurd h2 (by simp)
    refine ⟨g, ?_, ?_, ?_, ?_⟩
    · rw [rT]; exact (List.mem_erase_of_ne hne).mpr hg
    · rw [rl]; exact h2
    · rw [rl]; exact hm
    · rw [rl]; exact h3
  · intro g hg h1 h2 h3
    rw [rT] at hg
    rw [rl] at h1 h2 h3
    rw [r5] at h3
    rw [r2]
    exact wf.autoinc_vec g (List.mem_of_mem_erase hg) h1 h2 h3
  · rw [r2]; exact wf.autoinc_last
  · intro tb
    rw [r4, r3, wf.counter tb]
    apply List.countP_congr
    intro g _
    rw [rl]

theorem filter_erase_of_neg (p : Nat → Bool) (l : List Nat) (a : Nat) (h : p a = false) :
    (l.erase a).filter p = l.filter p := by
  induction l with
  | nil => rfl
  | cons b l ih =>
    by_cases e : b = a
    · subst e
      rw [List.erase_cons_head, List.filter_cons_of_neg (by simp [h])]
    · rw [List.erase_cons_tail (by simpa using e)]
      by_cases hb : p b = true
      · rw [List.filter_cons_of_pos hb, List.filter_cons_of_pos hb, ih]
      · rw [List.filter_cons_of_neg hb, List.filter_cons_of_neg hb, ih]

theorem all_blocked_rec_dequeue (E : Env) (hE : prdt_ignores_wait E) (s : lock_sys_t)
    (T L : Nat) (wf : release_wf s T) (hL : L ∈ (s.trx T).trx_locks)
    (ht : (s.lock L).is_table = false) (hb : all_blocked E s) :
    all_blocked E (lock_rec_dequeue_from_page E s L) := by
  have wfr := release_wf_rec_removed s T L wf hL ht
  obtain ⟨r1, r2, r3, r4, r5⟩ := lock_rec_dequeue_removed_spec s L
  have rl := lock_rec_dequeue_removed_lock s L
  have rh := lock_rec_dequeue_removed_hash s L
  rw [lock_rec_dequeue_from_page_eq]
  have hT : ∀ x ∈ (lock_rec_dequeue_removed s L).page_chain
        (lock_hash_get (s.lock L).type_mode) (s.lock L).page_id,
      ((lock_rec_dequeue_removed s L).lock x).is_waiting = true →
        ((lock_rec_dequeue_removed s L).lock x).trx ≠ T := by
    intro x hx hw htr
    simp only [lock_sys_t.page_chain, List.mem_filter] at hx
    have := wfr.not_waiting x (wfr.listed_hash _ x hx.1 htr)
    rw [this] at hw
    exact absurd hw (by simp)
  obtain ⟨f, b⟩ := foldl_rec_grant_spec E hE T _ _ hT
  have hsub : ∀ k, ∀ g ∈ (lock_rec_dequeue_removed s L).hash k, g ∈ s.hash k := by
    intro k g hg
    rw [rh] at hg
    split at hg
    · exact List.mem_of_mem_erase hg
    · exact hg
  refine ⟨?_, ?_⟩
  · intro k w hw hwait
    rw [f.hash] at hw
    by_cases hc : w ∈ (lock_rec_dequeue_removed s L).page_chain
        (lock_hash_get (s.lock L).type_mode) (s.lock L).page_id
    · exact b w hc hwait
    · apply blocked_rec_frame E hE f
      have hws : (s.lock w).is_waiting = true := by
        have := f.waiting w hwait
        rw [rl] at this
        exact this
      obtain ⟨hn, h1, e, he, h2, h3⟩ := hb.1 k w (hsub k w hw) hws
      have hk := (wf.hash_ok k w (hsub k w hw)).2
      have hchain : (lock_rec_dequeue_removed s L).page_chain
          (lock_hash_get (s.lock w).type_mode) (s.lock w).page_id
          = s.page_chain (lock_hash_get (s.lock w).type_mode) (s.lock w).page_id := by
        rw [hk]
        unfold lock_sys_t.page_chain
        rw [rh]
        split
        · rename_i hk0
          have hp : (s.lock L).page_id ≠ (s.lock w).page_id := by
            intro hp
            apply hc
            simp only [lock_sys_t.page_chain, List.mem_filter, beq_iff_eq]
            rw [← hk0, rl]
            exact ⟨hw, hp.symm⟩
          have : (fun i => ((lock_rec_dequeue_removed s L).lock i).page_id
              == (s.lock w).page_id) = (fun i => (s.lock i).page_id == (s.lock w).page_id) := by
            funext i; rw [rl]
          rw [this]
          exact filter_erase_of_neg _ _ L (by simpa using hp)
        · congr 1
          funext i; rw [rl]
      refine ⟨hn, ?_, e, ?_, ?_, ?_⟩
      · rw [rl]; exact h1
      · rw [rl, hchain]; exact he
      · rw [rl]; exact h2
      · rw [lock_has_to_wait_congr E hE s _ w e (by rw [rl]) (by rw [rl])]; exact h3
  · intro tb w hw hwait
    rw [f.tbl_locks, r3] at hw
    apply blocked_tbl_frame E hE f
    have hws : (s.lock w).is_waiting = true := by
      have := f.waiting w hwait
      rw [rl] at this
      exact this
    obtain ⟨e, he, h3⟩ := hb.2 tb w hw hws
    refine ⟨e, ?_, ?_⟩
    · rw [rl, r3]; exact he
    · rw [lock_has_to_wait_congr E hE s _ w e (by rw [rl]) (by rw [rl])]; exact h3

theorem vector_null_first_spec (L : Nat) (v : List (Option Nat)) (hm : some L ∈ v) :
    ∃ r, vector_null_first L v = some r ∧ ∀ g, g ≠ L → some g ∈ v → some g ∈ r := by
  induction v with
  | nil => simp at hm
  | cons x xs ih =>
    unfold vector_null_first
    by_cases hx : x = some L
    · rw [if_pos hx]
      refine ⟨_, rfl, ?_⟩
      intro g hg hmem
      rcases List.mem_cons.mp hmem with e | e
      · rw [hx] at e
        exact absurd (Option.some.inj e) hg
      · exact List.mem_cons_of_mem _ e
    · rw [if_neg hx]
      have hm2 : some L ∈ xs := by
        rcases List.mem_cons.mp hm with e | e
        · exact absurd e.symm hx
        · exact e
      obtain ⟨r, hr, hk⟩ := ih hm2
      rw [hr]
      refine ⟨_, rfl, ?_⟩
      intro g hg hmem
      rcases List.mem_cons.mp hmem with e | e
      · rw [e]; exact List.mem_cons_self _ _
      · exact List.mem_cons_of_mem _ (hk g hg e)

theorem mem_dropWhile_of_neg {α : Type} (p : α → Bool) (l : List α) (a : α)
    (ha : a ∈ l) (hp : p a = false) : a ∈ l.dropWhile p := by
  induction l with
  | nil => simp at ha
  | cons b l ih =>
    rw [List.dropWhile_cons]
    split
    · rename_i hb
      rcases List.mem_cons.mp ha with e | e
      · rw [e, hb] at hp; exact absurd hp (by simp)
      · exact ih e
    · exact ha

theorem head?_dropWhile_neg {α : Type} (p : α → Bool) (l : List α) (a : α)
    (h : (l.dropWhile p).head? = some a) : p a = false := by
  induction l with
  | nil => simp at h
  | cons b l ih =>
    rw [List.dropWhile_cons] at h
    split at h
    · exact ih h
    · rename_i hb
      simp only [List.head?_cons, Option.some.injEq] at h
      rw [← h]
      simpa using hb

theorem lock_table_remove_autoinc_lock_spec (L : Nat) (v : List (Option Nat))
    (hm : some L ∈ v) (hl : v.getLast? ≠ some none) :
    ∃ r, lock_table_remove_autoinc_lock L v = some r
      ∧ (∀ g, g ≠ L → some g ∈ v → some g ∈ r) ∧ r.getLast? ≠ some none := by
  unfold lock_table_remove_autoinc_lock
  cases hr : v.reverse with
  | nil =>
    rw [List.reverse_eq_nil_iff] at hr
    rw [hr] at hm
    simp at hm
  | cons a rest =>
    have hv : v = rest.reverse ++ [a] := by
      have := congrArg List.reverse hr
      rw [List.reverse_reverse] at this
      rw [this]; simp
    have ha : a ≠ none := by
      intro e
      apply hl
      rw [hv, e]; simp
    simp only []
    by_cases hx : a = some L
    · rw [if_pos hx]
      refine ⟨_, rfl, ?_, ?_⟩
      · intro g hg hmem
        unfold lock_table_pop_autoinc_locks
        rw [hv] at hmem ⊢
        simp only [List.dropLast_concat, List.reverse_reverse, List.mem_reverse]
        apply mem_dropWhile_of_neg
        · rcases List.mem_append.mp hmem with e | e
          · exact List.mem_reverse.mp e
          · simp only [List.mem_singleton] at e
            rw [hx] at e
            exact absurd (Option.some.inj e) hg
        · rfl
      · unfold lock_table_pop_autoinc_locks
        rw [List.getLast?_reverse]
        intro e
        have := head?_dropWhile_neg _ _ _ e
        simp at this
    · rw [if_neg hx, if_neg ha]
      have hm2 : some L ∈ rest := by
        rw [hv] at hm
        rcases List.mem_append.mp hm with e | e
        · exact List.mem_reverse.mp e
        · simp only [List.mem_singleton] at e
          exact absurd e.symm hx
      obtain ⟨r, hr2, hk⟩ := vector_null_first_spec L rest hm2
      rw [hr2]
      refine ⟨_, rfl, ?_, ?_⟩
      · intro g hg hmem
        rw [hv] at hmem
        simp only [List.reverse_cons, List.mem_append, List.mem_reverse, List.mem_singleton]
        rcases List.mem_append.mp hmem with e | e
        · exact Or.inl (hk g hg (List.mem_reverse.mp e))
        · simp only [List.mem_singleton] at e
          exact Or.inr e
      · simp only [List.reverse_cons, List.getLast?_concat, ne_eq, Option.some.injEq]
        exact ha

theorem lock_table_remove_low_spec (s : lock_sys_t) (T L : Nat) (wf : release_wf s T)
    (hL : L ∈ (s.trx T).trx_locks) (ht : (s.lock L).is_table = true) :
    ∃ s1, lock_table_remove_low s L = some s1
      ∧ (∀ g, s1.lock g = s.lock g) ∧ (∀ k, s1.hash k = s.hash k)
      ∧ (∀ t, (s1.trx t).trx_locks
          = if t = T then (s.trx t).trx_locks.erase L else (s.trx t).trx_locks)
      ∧ (∀ tb, (s1.tbl tb).locks
          = if tb = (s.lock L).table then (s.tbl tb).locks.erase L else (s.tbl tb).locks)
      ∧ (∀ tb, (s1.tbl tb).n_lock_x_or_s
          = if tb = (s.lock L).table ∧ (s.lock L).is_s_or_x = true
            then (s.tbl tb).n_lock_x_or_s - 1 else (s.tbl tb).n_lock_x_or_s)
      ∧ (∀ tb, (s1.tbl tb).autoinc_trx
          = if tb = (s.lock L).table ∧ (s.lock L).mode = LOCK_AUTO_INC
              ∧ (s.tbl tb).autoinc_trx = some T
            then none else (s.tbl tb).autoinc_trx)
      ∧ (∀ g, g ≠ L → some g ∈ (s.trx T).autoinc_locks → some g ∈ (s1.trx T).autoinc_locks)
      ∧ (s1.trx T).autoinc_locks.getLast? ≠ some none := by
  have hown := wf.owned L hL
  cases hmode : (s.lock L).mode with
  | LOCK_AUTO_INC =>
    by_cases ha : (s.tbl (s.lock L).table).autoinc_trx = some T
    · obtain ⟨r, hr, hk, hlast⟩ := lock_table_remove_autoinc_lock_spec L
        (s.trx T).autoinc_locks (wf.autoinc_vec L hL ht hmode ha) wf.autoinc_last
      have hex : ∃ s1, lock_table_remove_low s L = some s1 := by
        simp only [lock_table_remove_low, hmode, hown, ha, ↓reduceIte,
          lock_sys_t.trx_set_tbl, hr, Option.map_some']
        exact ⟨_, rfl⟩
      obtain ⟨s1, h1⟩ := hex
      refine ⟨s1, h1, ?_⟩
      simp only [lock_table_remove_low, hmode, hown, ha, ↓reduceIte,
        lock_sys_t.trx_set_tbl, hr, Option.map_some', Option.some.injEq] at h1
      subst h1
      refine ⟨?_, ?_, ?_, ?_, ?_, ?_, ?_, ?_⟩
      · intro g; simp
      · intro k; simp
      · intro t
        simp only [lock_sys_t.trx_set_tbl, lock_sys_t.trx_set_trx]
        by_cases e : t = T
        · subst e; simp
        · simp [e]
      · intro tb
        simp only [lock_sys_t.tbl_set_tbl, lock_sys_t.tbl_set_trx]
        by_cases e : tb = (s.lock L).table
        · simp [e]
        · simp [e]
      · intro tb
        simp only [lock_sys_t.tbl_set_tbl, lock_sys_t.tbl_set_trx, lock_t.is_s_or_x, hmode]
        by_cases e : tb = (s.lock L).table
        · simp [e]
        · simp [e]
      · intro tb
        simp only [lock_sys_t.tbl_set_tbl, lock_sys_t.tbl_set_trx, hmode]
        by_cases e : tb = (s.lock L).table
        · simp [e, ha]
        · simp [e]
      · intro g hg hm
        simp only [lock_sys_t.trx_set_tbl, lock_sys_t.trx_set_trx, ↓reduceIte]
        exact hk g hg hm
      · simp only [lock_sys_t.trx_set_tbl, lock_sys_t.trx_set_trx, ↓reduceIte]
        exact hlast
    · have hex : ∃ s1, lock_table_remove_low s L = some s1 := by
        simp only [lock_table_remove_low, hmode, hown, ha, ↓reduceIte, Option.map_some']
        exact ⟨_, rfl⟩
      obtain ⟨s1, h1⟩ := hex
      refine ⟨s1, h1, ?_⟩
      simp only [lock_table_remove_low, hmode, hown, ha, ↓reduceIte, Option.map_some',
        Option.some.injEq] at h1
      subst h1
      refine ⟨?_, ?_, ?_, ?_, ?_, ?_, ?_, ?_⟩
      · intro g; simp
      · intro k; simp
      · intro t
        simp only [lock_sys_t.trx_set_tbl, lock_sys_t.trx_set_trx]
        by_cases e : t = T
        · subst e; simp
        · simp [e]
      · intro tb
        simp only [lock_sys_t.tbl_set_tbl, lock_sys_t.tbl_set_trx]
        by_cases e : tb = (s.lock L).table
        · simp [e]
        · simp [e]
      · intro tb
        simp only [lock_sys_t.tbl_set_tbl, lock_sys_t.tbl_set_trx, lock_t.is_s_or_x, hmode]
        by_cases e : tb = (s.lock L).table
        · simp [e]
        · simp [e]
      · intro tb
        simp only [lock_sys_t.tbl_set_tbl, lock_sys_t.tbl_set_trx, hmode]
        by_cases e : tb = (s.lock L).table
        · simp [e, ha]
        · simp [e]
      · intro g _ hm
        simp only [lock_sys_t.trx_set_tbl, lock_sys_t.trx_set_trx, ↓reduceIte]
        exact hm
      · simp only [lock_sys_t.trx_set_tbl, lock_sys_t.trx_set_trx, ↓reduceIte]
        exact wf.autoinc_last
  | LOCK_IS | LOCK_IX | LOCK_S | LOCK_X =>
    have hex : ∃ s1, lock_table_remove_low s L = some s1 := by
      simp only [lock_table_remove_low, hmode, hown, Option.map_some']
      exact ⟨_, rfl⟩
    obtain ⟨s1, h1⟩ := hex
    refine ⟨s1, h1, ?_⟩
    simp only [lock_table_remove_low, hmode, hown, Option.map_some',
      Option.some.injEq] at h1
    subst h1
    refine ⟨?_, ?_, ?_, ?_, ?_, ?_, ?_, ?_⟩
    · intro g; simp
    · intro k; simp
    · intro t
      simp only [lock_sys_t.trx_set_tbl, lock_sys_t.trx_set_trx]
      by_cases e : t = T
      · subst e; simp
      · simp [e]
    · intro tb
      simp only [lock_sys_t.tbl_set_tbl, lock_sys_t.tbl_set_trx]
      by_cases e : tb = (s.lock L).table
      · simp [e]
      · simp [e]
    · intro tb
      simp only [lock_sys_t.tbl_set_tbl, lock_sys_t.tbl_set_trx, lock_t.is_s_or_x, hmode]
      by_cases e : tb = (s.lock L).table
      · simp [e]
      · simp [e]
    · intro tb
      simp only [lock_sys_t.tbl_set_tbl, lock_sys_t.tbl_set_trx, hmode]
      by_cases e : tb = (s.lock L).table
      · simp [e]
      · simp [e]
    · intro g _ hm
      simp only [lock_sys_t.trx_set_tbl, lock_sys_t.trx_set_trx, ↓reduceIte]
      exact hm
    · simp only [lock_sys_t.trx_set_tbl, lock_sys_t.trx_set_trx, ↓reduceIte]
      exact wf.autoinc_last

theorem countP_erase_mem (p : Nat → Bool) (l : List Nat) (a : Nat) (h : a ∈ l) :
    (l.erase a).countP p = l.countP p - (if p a = true then 1 else 0) := by
  induction l with
  | nil => simp at h
  | cons b l ih =>
    by_cases e : b = a
    · subst e
      rw [List.erase_cons_head, List.countP_cons]
      split <;> simp
    · rw [List.erase_cons_tail (by simpa using e), List.countP_cons, List.countP_cons]
      have hm : a ∈ l := by
        rcases List.mem_cons.mp h with e2 | e2
        · exact absurd e2.symm e
        · exact e2
      rw [ih hm]
      have hpos : p a = true → 0 < l.countP p := fun hp =>
        List.countP_pos_iff.mpr ⟨a, hm, hp⟩
      split <;> split <;> simp_all

theorem release_wf_table_removed (s s1 : lock_sys_t) (T L : Nat) (wf : release_wf s T)
    (hL : L ∈ (s.trx T).trx_locks) (ht : (s.lock L).is_table = true)
    (rl : ∀ g, s1.lock g = s.lock g) (rh : ∀ k, s1.hash k = s.hash k)
    (r1 : ∀ t, (s1.trx t).trx_locks
      = if t = T then (s.trx t).trx_locks.erase L else (s.trx t).trx_locks)
    (r3 : ∀ tb, (s1.tbl tb).locks
      = if tb = (s.lock L).table then (s.tbl tb).locks.erase L else (s.tbl tb).locks)
    (r4 : ∀ tb, (s1.tbl tb).n_lock_x_or_s
      = if tb = (s.lock L).table ∧ (s.lock L).is_s_or_x = true
        then (s.tbl tb).n_lock_x_or_s - 1 else (s.tbl tb).n_lock_x_or_s)
    (r5 : ∀ tb, (s1.tbl tb).autoinc_trx
      = if tb = (s.lock L).table ∧ (s.lock L).mode = LOCK_AUTO_INC
          ∧ (s.tbl tb).autoinc_trx = some T
        then none else (s.tbl tb).autoinc_trx)
    (r6 : ∀ g, g ≠ L → some g ∈ (s.trx T).autoinc_locks → some g ∈ (s1.trx T).autoinc_locks)
    (r7 : (s1.trx T).autoinc_locks.getLast? ≠ some none) :
    release_wf s1 T := by
  have rT : (s1.trx T).trx_locks = (s.trx T).trx_locks.erase L := by
    rw [r1, if_pos rfl]
  have hsub : ∀ tb, ∀ g ∈ (s1.tbl tb).locks, g ∈ (s.tbl tb).locks := by
    intro tb g hg
    rw [r3] at hg
    split at hg
    · exact List.mem_of_mem_erase hg
    · exact hg
  have hLout : ∀ tb, L ∉ (s1.tbl tb).locks := by
    intro tb hg
    have hk := (wf.tbl_ok tb L (hsub tb L hg)).2
    rw [r3, if_pos hk.symm] at hg
    exact ((wf.nodup_tbl tb).mem_erase_iff.mp hg).1 rfl
  have hauto : ∀ tb, (s1.tbl tb).autoinc_trx = some T →
      (s.tbl tb).autoinc_trx = some T
        ∧ ¬ (tb = (s.lock L).table ∧ (s.lock L).mode = LOCK_AUTO_INC) := by
    intro tb h
    rw [r5] at h
    split at h
    · exact absurd h (by simp)
    · rename_i hc
      exact ⟨h, fun hc2 => hc ⟨hc2.1, hc2.2, h⟩⟩
  refine ⟨?_, ?_, ?_, ?_, ?_, ?_, ?_, ?_, ?_, ?_, ?_, ?_, ?_, ?_, ?_⟩
  · intro g hg
    rw [rT] at hg
    rw [rl]
    exact wf.owned g (List.mem_of_mem_erase hg)
  · rw [rT]; exact wf.nodup_trx.erase L
  · intro k; rw [rh]; exact wf.nodup_hash k
  · intro tb
    rw [r3]
    split
    · exact (wf.nodup_tbl tb).erase L
    · exact wf.nodup_tbl tb
  · intro k g hg
    rw [rh] at hg
    rw [rl]
    exact wf.hash_ok k g hg
  · intro tb g hg
    rw [rl]
    exact wf.tbl_ok tb g (hsub tb g hg)
  · intro k g hg hT
    rw [rh] at hg
    rw [rl] at hT
    rw [rT]
    have hne : g ≠ L := by
      intro e
      have := (wf.hash_ok k g hg).1
      rw [e, ht] at this
      exact absurd this (by simp)
    exact (List.mem_erase_of_ne hne).mpr (wf.listed_hash k g hg hT)
  · intro tb g hg hT
    rw [rl] at hT
    rw [rT]
    have hne : g ≠ L := fun e => hLout tb (e ▸ hg)
    exact (List.mem_erase_of_ne hne).mpr (wf.listed_tbl tb g (hsub tb g hg) hT)
  · intro g hg h1
    rw [rT] at hg
    rw [rl] at h1
    have hne : g ≠ L := (wf.nodup_trx.mem_erase_iff.mp hg).1
    have hq := wf.queued_tbl g (List.mem_of_mem_erase hg) h1
    rw [rl, r3]
    split
    · exact (List.mem_erase_of_ne hne).mpr hq
    · exact hq
  · intro g hg h1
    rw [rT] at hg
    rw [rl] at h1
    rw [rl, rh]
    exact wf.queued_rec g (List.mem_of_mem_erase hg) h1
  · intro g hg
    rw [rT] at hg
    rw [rl]
    exact wf.not_waiting g (List.mem_of_mem_erase hg)
  · intro tb h1
    obtain ⟨h2, h3⟩ := hauto tb h1
    obtain ⟨g, hg, g1, g2, g3⟩ := wf.autoinc_owner tb h2
    have hne : g ≠ L := by
      intro e
      rw [e] at g2 g3
      exact h3 ⟨g3.symm, g2⟩
    refine ⟨g, ?_, ?_, ?_, ?_⟩
    · rw [rT]; exact (List.mem_erase_of_ne hne).mpr hg
    · rw [rl]; exact g1
    · rw [rl]; exact g2
    · rw [rl]; exact g3
  · intro g hg h1 h2 h3
    rw [rT] at hg
    rw [rl] at h1 h2 h3
    have hne : g ≠ L := (wf.nodup_trx.mem_erase_iff.mp hg).1
    exact r6 g hne (wf.autoinc_vec g (List.mem_of_mem_erase hg) h1 h2 (hauto _ h3).1)
  · exact r7
  · intro tb
    have hcong : (s1.tbl tb).locks.countP (fun g => (s1.lock g).is_s_or_x)
        = (s1.tbl tb).locks.countP (fun g => (s.lock g).is_s_or_x) := by
      apply List.countP_congr
      intro g _
      rw [rl]
    rw [hcong, r4, r3, wf.counter tb]
    by_cases e : tb = (s.lock L).table
    · have hm : L ∈ (s.tbl tb).locks := by
        rw [e]; exact wf.queued_tbl L hL ht
      rw [if_pos e, countP_erase_mem _ _ _ hm]
      by_cases hp : (s.lock L).is_s_or_x = true
      · rw [if_pos ⟨e, hp⟩, if_pos hp]
      · rw [if_neg (fun h => hp h.2), if_neg hp]; rfl
    · rw [if_neg e, if_neg (fun h => e h.1)]

theorem mem_takeWhile_erase (l : List Nat) (c w x : Nat)
    (hc : c ∈ l.takeWhile (fun i => i != w)) (hcx : c ≠ x) :
    c ∈ (l.erase x).takeWhile (fun i => i != w) := by
  induction l with
  | nil => simp at hc
  | cons b l ih =>
    rw [List.takeWhile_cons] at hc
    split at hc
    · rename_i hb
      by_cases e : b = x
      · subst e
        rw [List.erase_cons_head]
        rcases List.mem_cons.mp hc with e2 | e2
        · exact absurd e2 hcx
        · exact e2
      · rw [List.erase_cons_tail (by simpa using e), List.takeWhile_cons, hb]
        rcases List.mem_cons.mp hc with e2 | e2
        · rw [e2]; exact List.mem_cons_self _ _
        · exact List.mem_cons_of_mem _ (ih e2)
    · simp at hc

theorem ne_of_mem_takeWhile_before (l : List Nat) (c w x : Nat)
    (hw : w ∈ l.takeWhile (fun i => i != x))
    (hc : c ∈ l.takeWhile (fun i => i != w)) : c ≠ x := by
  induction l with
  | nil => simp at hc
  | cons b l ih =>
    rw [List.takeWhile_cons] at hc hw
    split at hw
    · rename_i hbx
      split at hc
      · rename_i hbw
        rcases List.mem_cons.mp hc with e | e
        · rw [e]; simpa using hbx
        · rcases List.mem_cons.mp hw with e2 | e2
          · rw [e2] at hbw; simp at hbw
          · exact ih e2 e
      · simp at hc
    · simp at hw

theorem mem_takeWhile_of_not_mem_rest (l : List Nat) (w x : Nat) (hw : w ∈ l)
    (hne : w ≠ x) (hr : w ∉ (l.dropWhile (fun i => i != x)).tail) :
    w ∈ l.takeWhile (fun i => i != x) := by
  induction l with
  | nil => simp at hw
  | cons b l ih =>
    rw [List.dropWhile_cons] at hr
    rw [List.takeWhile_cons]
    split at hr
    · rename_i hb
      rw [if_pos hb]
      rcases List.mem_cons.mp hw with e | e
      · rw [e]; exact List.mem_cons_self _ _
      · exact List.mem_cons_of_mem _ (ih e hr)
    · rename_i hb
      simp only [List.tail_cons] at hr
      rcases List.mem_cons.mp hw with e | e
      · simp only [bne_iff_ne, ne_eq, Decidable.not_not] at hb
        rw [e, hb] at hne
        exact absurd rfl hne
      · exact absurd e hr

theorem mem_of_mem_rest (l : List Nat) (w x : Nat)
    (hr : w ∈ (l.dropWhile (fun i => i != x)).tail) : w ∈ l :=
  (List.dropWhile_sublist _).subset (List.mem_of_mem_tail hr)

theorem s_or_x_of_incompatible_intention (m m2 : lock_mode)
    (h2 : m2.toNat ≤ LOCK_IX.toNat) (hc : lock_mode_compatible m m2 = false) :
    m = LOCK_S ∨ m = LOCK_X := by
  cases m <;> cases m2 <;> simp_all [lock_mode_compatible, lock_mode.toNat]

theorem incompatible_of_has_to_wait (E : Env) (s : lock_sys_t) (a b : Nat)
    (h : lock_has_to_wait E s a b = true) :
    lock_mode_compatible (s.lock a).mode (s.lock b).mode = false := by
  unfold lock_has_to_wait at h
  simp only [] at h
  split at h
  · exact absurd h (by simp)
  · rename_i hc
    simp only [Bool.or_eq_true, decide_eq_true_eq, not_or, Bool.not_eq_true] at hc
    exact hc.2

theorem blocked_rec_congr (E : Env) (hE : prdt_ignores_wait E) (s s1 : lock_sys_t)
    (hl : ∀ g, (s1.lock g).clear_wait = (s.lock g).clear_wait)
    (hh : ∀ k, s1.hash k = s.hash k) (w : Nat) (hb : blocked_rec E s w) :
    blocked_rec E s1 w := by
  obtain ⟨hn, h1, e, he, h2, h3⟩ := hb
  have hpc : ∀ k id, s1.page_chain k id = s.page_chain k id := by
    intro k id
    apply lock_sys_t.page_chain_congr
    · exact hh k
    · intro i; exact core_page_id (hl i)
  refine ⟨hn, ?_, e, ?_, ?_, ?_⟩
  · rw [core_find_set_bit (hl w)]; exact h1
  · rw [hpc, core_hash_get (hl w), core_page_id (hl w)]
    exact he
  · rw [core_nth_bit (hl e)]; exact h2
  · rw [lock_has_to_wait_congr E hE s s1 w e (hl w) (hl e)]; exact h3

theorem foldl_rec_grant_frame (E : Env) (T : Nat) (l : List Nat) (s : lock_sys_t)
    (hT : ∀ x ∈ l, (s.lock x).is_waiting = true → (s.lock x).trx ≠ T) :
    grant_frame T s (l.foldl (lock_rec_grant_step E) s) := by
  induction l generalizing s with
  | nil => exact grant_frame_refl T s
  | cons a l ih =>
    rw [List.foldl_cons]
    have f1 := (rec_grant_step_spec E T s a (hT a (List.mem_cons_self _ _))).1
    refine grant_frame_trans f1 (ih _ ?_)
    intro x hx hw
    rw [core_trx (f1.lock_core x)]
    exact hT x (List.mem_cons_of_mem _ hx) (f1.waiting x hw)

theorem foldl_table_grant_frame (E : Env) (T : Nat) (l : List Nat) (s : lock_sys_t)
    (hT : ∀ x ∈ l, (s.lock x).is_waiting = true → (s.lock x).trx ≠ T) :
    grant_frame T s (l.foldl (lock_table_grant_step E) s) := by
  induction l generalizing s with
  | nil => exact grant_frame_refl T s
  | cons a l ih =>
    rw [List.foldl_cons]
    have f1 := (table_grant_step_spec E T s a (hT a (List.mem_cons_self _ _))).1
    refine grant_frame_trans f1 (ih _ ?_)
    intro x hx hw
    rw [core_trx (f1.lock_core x)]
    exact hT x (List.mem_cons_of_mem _ hx) (f1.waiting x hw)

theorem lock_rec_dequeue_release (E : Env) (s : lock_sys_t) (T L : Nat)
    (wf : release_wf s T) (hL : L ∈ (s.trx T).trx_locks)
    (ht : (s.lock L).is_table = false) :
    release_wf (lock_rec_dequeue_from_page E s L) T
    ∧ ((lock_rec_dequeue_from_page E s L).trx T).trx_locks = (s.trx T).trx_locks.erase L
    ∧ (∀ k, (lock_rec_dequeue_from_page E s L).hash k
        = if k = lock_hash_get (s.lock L).type_mode then (s.hash k).erase L else s.hash k)
    ∧ (∀ tb, ((lock_rec_dequeue_from_page E s L).tbl tb).locks = (s.tbl tb).locks)
    ∧ (∀ g, ((lock_rec_dequeue_from_page E s L).lock g).clear_wait
        = (s.lock g).clear_wait) := by
  have wfr := release_wf_rec_removed s T L wf hL ht
  obtain ⟨r1, r2, r3, r4, r5⟩ := lock_rec_dequeue_removed_spec s L
  have rl := lock_rec_dequeue_removed_lock s L
  have rh := lock_rec_dequeue_removed_hash s L
  rw [lock_rec_dequeue_from_page_eq]
  have hT : ∀ x ∈ (lock_rec_dequeue_removed s L).page_chain
        (lock_hash_get (s.lock L).type_mode) (s.lock L).page_id,
      ((lock_rec_dequeue_removed s L).lock x).is_waiting = true →
        ((lock_rec_dequeue_removed s L).lock x).trx ≠ T := by
    intro x hx hw htr
    simp only [lock_sys_t.page_chain, List.mem_filter] at hx
    have := wfr.not_waiting x (wfr.listed_hash _ x hx.1 htr)
    rw [this] at hw
    exact absurd hw (by simp)
  have f := foldl_rec_grant_frame E T _ _ hT
  refine ⟨release_wf_of_frame f wfr, ?_, ?_, ?_, ?_⟩
  · rw [f.trx_locks, r1, wf.owned L hL, if_pos rfl]
  · intro k; rw [f.hash, rh]
  · intro tb; rw [f.tbl_locks, r3]
  · intro g; rw [f.lock_core, rl]

theorem lock_table_dequeue_release (E : Env) (s : lock_sys_t) (T L : Nat)
    (wf : release_wf s T) (hL : L ∈ (s.trx T).trx_locks)
    (ht : (s.lock L).is_table = true) :
    ∃ s2, lock_table_dequeue E s L = some s2
      ∧ release_wf s2 T
      ∧ (s2.trx T).trx_locks = (s.trx T).trx_locks.erase L
      ∧ (∀ k, s2.hash k = s.hash k)
      ∧ (∀ tb, (s2.tbl tb).locks
          = if tb = (s.lock L).table then (s.tbl tb).locks.erase L else (s.tbl tb).locks)
      ∧ (∀ g, (s2.lock g).clear_wait = (s.lock g).clear_wait)
      ∧ (prdt_ignores_wait E → all_blocked E s → all_blocked E s2) := by
  obtain ⟨s1, h1, rl, rh, r1, r3, r4, r5, r6, r7⟩ := lock_table_remove_low_spec s T L wf hL ht
  have wf1 := release_wf_table_removed s s1 T L wf hL ht rl rh r1 r3 r4 r5 r6 r7
  have hT : ∀ x ∈ ((s.tbl (s.lock L).table).locks.dropWhile (fun i => i != L)).tail,
      (s1.lock x).is_waiting = true → (s1.lock x).trx ≠ T := by
    intro x hx hw htr
    rw [rl] at hw htr
    have := wf.not_waiting x (wf.listed_tbl _ x (mem_of_mem_rest _ _ _ hx) htr)
    rw [this] at hw
    exact absurd hw (by simp)
  have f := foldl_table_grant_frame E T _ s1 hT
  unfold lock_table_dequeue
  simp only [ht, Bool.not_true, Bool.false_eq_true, ↓reduceIte, h1, Option.map_some']
  refine ⟨_, rfl, ?_⟩
  by_cases hc : (decide ((s1.lock L).mode.toNat ≤ LOCK_IX.toNat)
      && (s1.tbl (s.lock L).table).n_lock_x_or_s == 0) = true
  · rw [if_pos hc]
    refine ⟨wf1, by rw [r1, if_pos rfl], rh, r3, fun g => by rw [rl], ?_⟩
    intro hE hb
    simp only [Bool.and_eq_true, decide_eq_true_eq, beq_iff_eq] at hc
    refine ⟨?_, ?_⟩
    · intro k w hw hwait
      rw [rh] at hw
      rw [rl] at hwait
      exact blocked_rec_congr E hE s s1 (fun g => by rw [rl]) rh w (hb.1 k w hw hwait)
    · intro tb w hw hwait
      have hws : w ∈ (s.tbl tb).locks := by
        rw [r3] at hw
        split at hw
        · exact List.mem_of_mem_erase hw
        · exact hw
      rw [rl] at hwait
      obtain ⟨e, he, h3⟩ := hb.2 tb w hws hwait
      have htb := (wf.tbl_ok tb w hws).2
      rw [htb] at he
      have hne : e ≠ L := by
        intro e2
        rw [e2] at h3
        have hinc := incompatible_of_has_to_wait E s w L h3
        have hm := s_or_x_of_incompatible_intention _ _ (by rw [← rl]; exact hc.1) hinc
        have hsx : (s.lock w).is_s_or_x = true := by
          unfold lock_t.is_s_or_x
          rcases hm with a | a <;> simp [a]
        have hwL : w ≠ L := by
          intro e3
          have := wf.not_waiting L hL
          rw [← e3, hwait] at this
          exact absurd this (by simp)
        have htb0 : tb = (s.lock L).table := by
          have := (wf.tbl_ok tb L ((List.takeWhile_sublist _).subset (e2 ▸ he))).2
          exact this.symm
        have hcnt := wf1.counter (s.lock L).table
        rw [hc.2] at hcnt
        have hpos : 0 < (s1.tbl (s.lock L).table).locks.countP
            (fun g => (s1.lock g).is_s_or_x) := by
          apply List.countP_pos_iff.mpr
          refine ⟨w, ?_, ?_⟩
          · rw [← htb0]; exact hw
          · rw [rl]; exact hsx
        omega
      refine ⟨e, ?_, ?_⟩
      · rw [rl, htb, r3]
        split
        · exact mem_takeWhile_erase _ _ _ _ he hne
        · exact he
      · rw [lock_has_to_wait_congr E hE s s1 w e (by rw [rl]) (by rw [rl])]; exact h3
  · rw [if_neg hc]
    refine ⟨release_wf_of_frame f wf1, by rw [f.trx_locks, r1, if_pos rfl],
      fun k => by rw [f.hash, rh], fun tb => by rw [f.tbl_locks, r3],
      fun g => by rw [f.lock_core, rl], ?_⟩
    intro hE hb
    obtain ⟨_, b⟩ := foldl_table_grant_spec E hE T _ s1 hT
    refine ⟨?_, ?_⟩
    · intro k w hw hwait
      rw [f.hash, rh] at hw
      have hws := f.waiting w hwait
      rw [rl] at hws
      apply blocked_rec_frame E hE f
      exact blocked_rec_congr E hE s s1 (fun g => by rw [rl]) rh w (hb.1 k w hw hws)
    · intro tb w hw hwait
      rw [f.tbl_locks] at hw
      have hws : w ∈ (s.tbl tb).locks := by
        rw [r3] at hw
        split at hw
        · exact List.mem_of_mem_erase hw
        · exact hw
      have hwt := f.waiting w hwait
      rw [rl] at hwt
      by_cases hr : w ∈ ((s.tbl (s.lock L).table).locks.dropWhile (fun i => i != L)).tail
      · exact b w hr hwait
      · apply blocked_tbl_frame E hE f
        obtain ⟨e, he, h3⟩ := hb.2 tb w hws hwt
        have htb := (wf.tbl_ok tb w hws).2
        rw [htb] at he
        have hwL : w ≠ L := by
          intro e3
          have := wf.not_waiting L hL
          rw [← e3, hwt] at this
          exact absurd this (by simp)
        refine ⟨e, ?_, ?_⟩
        · rw [rl, htb, r3]
          split
          · rename_i htb0
            apply mem_takeWhile_erase _ _ _ _ he
            rw [htb0] at hws he
            exact ne_of_mem_takeWhile_before _ _ _ _
              (mem_takeWhile_of_not_mem_rest _ _ _ hws hwL hr) he
          · exact he
        · rw [lock_has_to_wait_congr E hE s s1 w e (by rw [rl]) (by rw [rl])]; exact h3

theorem all_blocked_frame (E : Env) (hE : prdt_ignores_wait E) {T : Nat}
    {s s1 : lock_sys_t} (f : grant_frame T s s1) (hb : all_blocked E s) :
    all_blocked E s1 := by
  refine ⟨?_, ?_⟩
  · intro k w hw hwait
    rw [f.hash] at hw
    exact blocked_rec_frame E hE f w (hb.1 k w hw (f.waiting w hwait))
  · intro tb w hw hwait
    rw [f.tbl_locks] at hw
    exact blocked_tbl_frame E hE f w (hb.2 tb w hw (f.waiting w hwait))

theorem grant_frame_query_cache (T : Nat) (s : lock_sys_t) (tb : Nat) (v : Nat) :
    grant_frame T s (s.set_tbl tb { s.tbl tb with query_cache_inv_trx_id := v }) := by
  refine ⟨fun _ => by simp, ?_, ?_, ?_, fun _ => Or.inl (by simp), fun _ => by simp,
    by simp⟩
  · intro t
    simp only [lock_sys_t.tbl_set_tbl]
    split
    · subst_vars; rfl
    · rfl
  · intro t
    simp only [lock_sys_t.tbl_set_tbl]
    split
    · subst_vars; rfl
    · rfl
  · intro t
    left
    simp only [lock_sys_t.tbl_set_tbl]
    split
    · subst_vars; rfl
    · rfl

theorem lock_release_step_spec (E : Env) (s : lock_sys_t) (T L : Nat)
    (wf : release_wf s T) (hL : L ∈ (s.trx T).trx_locks) :
    ∃ s2, lock_release_step E s T L = some s2
      ∧ release_wf s2 T
      ∧ (s2.trx T).trx_locks = (s.trx T).trx_locks.erase L
      ∧ (∀ k, ∀ g ∈ s.hash k, g ≠ L → g ∈ s2.hash k)
      ∧ (∀ tb, ∀ g ∈ (s.tbl tb).locks, g ≠ L → g ∈ (s2.tbl tb).locks)
      ∧ (∀ g, (s2.lock g).clear_wait = (s.lock g).clear_wait)
      ∧ (prdt_ignores_wait E → all_blocked E s → all_blocked E s2) := by
  unfold lock_release_step
  cases ht : (s.lock L).is_table with
  | false =>
    simp only [Bool.not_false, ↓reduceIte]
    obtain ⟨a1, a2, a3, a4, a5⟩ := lock_rec_dequeue_release E s T L wf hL ht
    refine ⟨_, rfl, a1, a2, ?_, ?_, a5, ?_⟩
    · intro k g hg hne
      rw [a3]
      split
      · exact (List.mem_erase_of_ne hne).mpr hg
      · exact hg
    · intro tb g hg _
      rw [a4]; exact hg
    · intro hE hb
      exact all_blocked_rec_dequeue E hE s T L wf hL ht hb
  | true =>
    simp only [Bool.not_true, Bool.false_eq_true, ↓reduceIte]
    have key : ∀ sq, grant_frame T s sq →
        ∃ s2, lock_table_dequeue E sq L = some s2
          ∧ release_wf s2 T
          ∧ (s2.trx T).trx_locks = (s.trx T).trx_locks.erase L
          ∧ (∀ k, ∀ g ∈ s.hash k, g ≠ L → g ∈ s2.hash k)
          ∧ (∀ tb, ∀ g ∈ (s.tbl tb).locks, g ≠ L → g ∈ (s2.tbl tb).locks)
          ∧ (∀ g, (s2.lock g).clear_wait = (s.lock g).clear_wait)
          ∧ (prdt_ignores_wait E → all_blocked E s → all_blocked E s2) := by
      intro sq f
      have wfq := release_wf_of_frame f wf
      have hLq : L ∈ (sq.trx T).trx_locks := by rw [f.trx_locks]; exact hL
      have htq : (sq.lock L).is_table = true := by
        rw [core_is_table (f.lock_core L)]; exact ht
      obtain ⟨s2, b1, b2, b3, b4, b5, b6, b7⟩ :=
        lock_table_dequeue_release E sq T L wfq hLq htq
      refine ⟨s2, b1, b2, by rw [b3, f.trx_locks], ?_, ?_, ?_, ?_⟩
      · intro k g hg _
        rw [b4, f.hash]; exact hg
      · intro tb g hg hne
        rw [b5, f.tbl_locks]
        split
        · exact (List.mem_erase_of_ne hne).mpr hg
        · exact hg
      · intro g; rw [b6, f.lock_core]
      · intro hE hb
        exact b7 hE (all_blocked_frame E hE f hb)
    split
    · exact key _ (grant_frame_query_cache T s _ _)
    · exact key _ (grant_frame_refl T s)

theorem lock_release_loop_succ (E : Env) (fuel : Nat) (s : lock_sys_t) (T L : Nat)
    (h : (s.trx T).trx_locks.getLast? = some L) :
    lock_release_loop E (fuel + 1) s T
      = (lock_release_step E s T L).bind (fun s2 => lock_release_loop E fuel s2 T) := by
  rw [lock_release_loop, h]
  unfold lock_release_step
  simp only []
  split
  · rfl
  · rfl

theorem lock_release_loop_spec (E : Env) (T : Nat) (fuel : Nat) (s : lock_sys_t)
    (wf : release_wf s T) (hf : (s.trx T).trx_locks.length ≤ fuel) :
    ∃ s2, lock_release_loop E fuel s T = some s2
      ∧ release_in_order E T (s.trx T).trx_locks.reverse s = some s2
      ∧ release_wf s2 T
      ∧ (s2.trx T).trx_locks = []
      ∧ (∀ k, ∀ g ∈ s.hash k, (s.lock g).trx ≠ T → g ∈ s2.hash k)
      ∧ (∀ tb, ∀ g ∈ (s.tbl tb).locks, (s.lock g).trx ≠ T → g ∈ (s2.tbl tb).locks)
      ∧ (∀ g, (s2.lock g).clear_wait = (s.lock g).clear_wait)
      ∧ (prdt_ignores_wait E → all_blocked E s → all_blocked E s2) := by
  induction fuel generalizing s with
  | zero =>
    have hnil : (s.trx T).trx_locks = [] := List.length_eq_zero.mp (Nat.le_zero.mp hf)
    refine ⟨s, ?_, ?_, wf, hnil, fun _ _ hg _ => hg, fun _ _ hg _ => hg, fun _ => rfl,
      fun _ hb => hb⟩
    · simp [lock_release_loop, hnil]
    · rw [hnil]; rfl
  | succ fuel ih =>
    rcases List.eq_nil_or_concat (s.trx T).trx_locks with hnil | ⟨init, L, hl⟩
    · refine ⟨s, ?_, ?_, wf, hnil, fun _ _ hg _ => hg, fun _ _ hg _ => hg, fun _ => rfl,
        fun _ hb => hb⟩
      · simp [lock_release_loop, hnil]
      · rw [hnil]; rfl
    · rw [List.concat_eq_append] at hl
      have hlast : (s.trx T).trx_locks.getLast? = some L := by
        rw [hl]; simp
      have hL : L ∈ (s.trx T).trx_locks := by rw [hl]; simp
      obtain ⟨s1, c1, c2, c3, c4, c5, c6, c7⟩ := lock_release_step_spec E s T L wf hL
      have hnd := wf.nodup_trx
      rw [hl] at hnd
      have hLi : L ∉ init := by
        intro hm
        have := List.nodup_append.mp hnd
        exact this.2.2 hm (List.mem_singleton.mpr rfl) 
      have hinit : (s1.trx T).trx_locks = init := by
        rw [c3, hl, List.erase_append_right _ hLi]
        simp
      have hlen : (s1.trx T).trx_locks.length ≤ fuel := by
        rw [hinit]
        rw [hl] at hf
        simp only [List.length_append, List.length_singleton] at hf
        omega
      obtain ⟨s2, d1, d2, d3, d4, d5, d6, d7, d8⟩ := ih s1 c2 hlen
      refine ⟨s2, ?_, ?_, d3, d4, ?_, ?_, ?_, ?_⟩
      · rw [lock_release_loop_succ E fuel s T L hlast, c1]
        exact d1
      · rw [hl, List.reverse_append, List.reverse_singleton, List.singleton_append,
          release_in_order, c1]
        rw [hinit] at d2
        exact d2
      · intro k g hg ht
        have hne : g ≠ L := by
          intro e
          rw [e] at ht
          exact ht (wf.owned L hL)
        apply d5 k g (c4 k g hg hne)
        rw [core_trx (c6 g)]
        exact ht
      · intro tb g hg ht
        have hne : g ≠ L := by
          intro e
          rw [e] at ht
          exact ht (wf.owned L hL)
        apply d6 tb g (c5 tb g hg hne)
        rw [core_trx (c6 g)]
        exact ht
      · intro g; rw [d7, c6]
      · intro hE hb
        exact d8 hE (c7 hE hb)

theorem release_state_tbl_locks (tb : Nat) (h : tb ≠ 0) :
    (release_state.tbl tb).locks = [] ∧ (release_state.tbl tb).n_lock_x_or_s = 0
      ∧ (release_state.tbl tb).autoinc_trx = none := by
  simp only [release_state, lock_sys_t.tbl, h, ↓reduceIte]
  exact ⟨rfl, rfl, rfl⟩

theorem release_state_hash (k : hash_id) (g : Nat) (h : g ∈ release_state.hash k) :
    k = hash_id.rec_hash ∧ (g = 1 ∨ g = 3) := by
  cases k
  · simpa [release_state, lock_sys_t.hash] using h
  · simp [release_state, lock_sys_t.hash] at h
  · simp [release_state, lock_sys_t.hash] at h

theorem release_state_tbl_mem (tb g : Nat) (h : g ∈ (release_state.tbl tb).locks) :
    tb = 0 ∧ (g = 0 ∨ g = 2 ∨ g = 4) := by
  by_cases e : tb = 0
  · subst e
    simpa [release_state, lock_sys_t.tbl] using h
  · rw [(release_state_tbl_locks tb e).1] at h
    simp at h

theorem release_state_trx_locks (g : Nat) (h : g ∈ (release_state.trx 1).trx_locks) :
    g = 0 ∨ g = 1 := by
  simpa [release_state, lock_sys_t.trx] using h

theorem release_wf_release_state : release_wf release_state 1 := by
  refine ⟨?_, ?_, ?_, ?_, ?_, ?_, ?_, ?_, ?_, ?_, ?_, ?_, ?_, ?_, ?_⟩
  · intro g hg
    rcases release_state_trx_locks g hg with rfl | rfl <;> rfl
  · decide
  · intro k; cases k <;> decide
  · intro tb
    by_cases e : tb = 0
    · subst e; decide
    · rw [(release_state_tbl_locks tb e).1]; exact List.nodup_nil
  · intro k g hg
    obtain ⟨rfl, h | h⟩ := release_state_hash k g hg <;> subst h <;> exact ⟨rfl, rfl⟩
  · intro tb g hg
    obtain ⟨rfl, h | h | h⟩ := release_state_tbl_mem tb g hg <;> subst h <;> exact ⟨rfl, rfl⟩
  · intro k g hg ht
    obtain ⟨rfl, h | h⟩ := release_state_hash k g hg <;> subst h
    · decide
    · exact absurd ht (by decide)
  · intro tb g hg ht
    obtain ⟨rfl, h | h | h⟩ := release_state_tbl_mem tb g hg <;> subst h
    · decide
    · exact absurd ht (by decide)
    · exact absurd ht (by decide)
  · intro g hg ht
    rcases release_state_trx_locks g hg with rfl | rfl
    · decide
    · exact absurd ht (by decide)
  · intro g hg ht
    rcases release_state_trx_locks g hg with rfl | rfl
    · exact absurd ht (by decide)
    · decide
  · intro g hg
    rcases release_state_trx_locks g hg with rfl | rfl <;> rfl
  · intro tb h
    by_cases e : tb = 0
    · subst e; exact absurd h (by decide)
    · rw [(release_state_tbl_locks tb e).2.2] at h
      exact absurd h (by simp)
  · intro g hg _ hm
    rcases release_state_trx_locks g hg with rfl | rfl <;> exact absurd hm (by decide)
  · decide
  · intro tb
    by_cases e : tb = 0
    · subst e; decide
    · rw [(release_state_tbl_locks tb e).1, (release_state_tbl_locks tb e).2.1]
      rfl

theorem all_blocked_release_state : all_blocked env_ordering release_state := by
  refine ⟨?_, ?_⟩
  · intro k w hw hwait
    obtain ⟨rfl, h | h⟩ := release_state_hash k w hw <;> subst h
    · exact absurd hwait (by decide)
    · exact ⟨3, by decide, 1, by decide, by decide, by decide⟩
  · intro tb w hw hwait
    obtain ⟨rfl, h | h | h⟩ := release_state_tbl_mem tb w hw <;> subst h
    · exact absurd hwait (by decide)
    · exact absurd hwait (by decide)
    · exact ⟨0, by decide, by decide⟩

theorem prdt_ignores_wait_env_ordering : prdt_ignores_wait env_ordering :=
  fun _ _ _ _ => rfl

/-- C7: release leaves no reference to the transaction.  In a lock system
whose queues are consistent for `T` (`release_wf`), `lock_release(T)` with
fuel for every lock of the list of `T` terminates; it dequeues the locks of
the list from its last to its first (it equals `release_in_order` on the
reversed list); afterwards the lock list of `T` is empty, no chain of the
three record-lock hash tables and no lock list of a table contains a lock
owned by `T`, no table has `autoinc_trx` equal to `T`, and every lock of
another transaction is still in its hash table or table list, owned as
before. -/
theorem lock_release_leaves_no_reference (E : Env) (fuel : Nat) (s : lock_sys_t) (T : Nat)
    (wf : release_wf s T) (hf : (s.trx T).trx_locks.length ≤ fuel) :
    ∃ s2, lock_release E fuel s T = some s2
      ∧ release_in_order E T (s.trx T).trx_locks.reverse s = some s2
      ∧ (s2.trx T).trx_locks = []
      ∧ (∀ k, ∀ g ∈ s2.hash k, (s2.lock g).trx ≠ T)
      ∧ (∀ tb, ∀ g ∈ (s2.tbl tb).locks, (s2.lock g).trx ≠ T)
      ∧ (∀ tb, (s2.tbl tb).autoinc_trx ≠ some T)
      ∧ (∀ k, ∀ g ∈ s.hash k, (s.lock g).trx ≠ T →
          g ∈ s2.hash k ∧ (s2.lock g).trx = (s.lock g).trx)
      ∧ (∀ tb, ∀ g ∈ (s.tbl tb).locks, (s.lock g).trx ≠ T →
          g ∈ (s2.tbl tb).locks ∧ (s2.lock g).trx = (s.lock g).trx) := by
  obtain ⟨s2, d1, d2, d3, d4, d5, d6, d7, _⟩ := lock_release_loop_spec E T fuel s wf hf
  refine ⟨s2, d1, d2, d4, ?_, ?_, ?_, ?_, ?_⟩
  · intro k g hg ht
    have := d3.listed_hash k g hg ht
    rw [d4] at this
    exact absurd this (List.not_mem_nil _)
  · intro tb g hg ht
    have := d3.listed_tbl tb g hg ht
    rw [d4] at this
    exact absurd this (List.not_mem_nil _)
  · intro tb ht
    obtain ⟨g, hg, _⟩ := d3.autoinc_owner tb ht
    rw [d4] at hg
    exact absurd hg (List.not_mem_nil _)
  · intro k g hg ht
    exact ⟨d5 k g hg ht, core_trx (d7 g)⟩
  · intro tb g hg ht
    exact ⟨d6 tb g hg ht, core_trx (d7 g)⟩

/-- Witness of C7: transaction 1 of `release_state` releases its record
lock and its table lock. -/
theorem lock_release_leaves_no_reference_witness :
    ∃ s2, lock_release env_ordering 2 release_state 1 = some s2
      ∧ release_in_order env_ordering 1 (release_state.trx 1).trx_locks.reverse
          release_state = some s2
      ∧ (s2.trx 1).trx_locks = []
      ∧ (∀ k, ∀ g ∈ s2.hash k, (s2.lock g).trx ≠ 1)
      ∧ (∀ tb, ∀ g ∈ (s2.tbl tb).locks, (s2.lock g).trx ≠ 1)
      ∧ (∀ tb, (s2.tbl tb).autoinc_trx ≠ some 1)
      ∧ (∀ k, ∀ g ∈ release_state.hash k, (release_state.lock g).trx ≠ 1 →
          g ∈ s2.hash k ∧ (s2.lock g).trx = (release_state.lock g).trx)
      ∧ (∀ tb, ∀ g ∈ (release_state.tbl tb).locks, (release_state.lock g).trx ≠ 1 →
          g ∈ (s2.tbl tb).locks ∧ (s2.lock g).trx = (release_state.lock g).trx) :=
  lock_release_leaves_no_reference env_ordering 2 release_state 1 release_wf_release_state
    (by decide)

/-- C8: release grants every grantable waiter.  In a lock system whose
queues are consistent for `T` (`release_wf`, which makes `n_lock_x_or_s`
the number of `S` and `X` locks of a table list), with a predicate-lock
test that does not read `WAIT` flags: if before `lock_release(T)` every
waiting lock of every hash chain and table list has an earlier lock in its
queue for which `lock_has_to_wait(waiter, earlier)` is true, then
`lock_release(T)` returns a lock system in which the locks of `T` are
released (its lock list is empty and no hash chain and no table list
holds a lock of `T`), the locks of the other transactions are still in
their queues and are as before except that waiting ones may have lost the
`WAIT` flag, and every lock that is still waiting, in every hash chain and
every table list, again has an earlier lock in its queue, a lock of
another transaction than `T`, for which `lock_has_to_wait(waiter,
earlier)` is true; a waiter without one has been granted. -/
theorem lock_release_grants_waiters (E : Env) (fuel : Nat) (s : lock_sys_t) (T : Nat)
    (hE : prdt_ignores_wait E) (wf : release_wf s T)
    (hf : (s.trx T).trx_locks.length ≤ fuel) (hb : all_blocked E s) :
    ∃ s2, lock_release E fuel s T = some s2
      ∧ (s2.trx T).trx_locks = []
      ∧ (∀ k, ∀ g ∈ s2.hash k, (s2.lock g).trx ≠ T)
      ∧ (∀ tb, ∀ g ∈ (s2.tbl tb).locks, (s2.lock g).trx ≠ T)
      ∧ (∀ k, ∀ g ∈ s.hash k, (s.lock g).trx ≠ T → g ∈ s2.hash k)
      ∧ (∀ tb, ∀ g ∈ (s.tbl tb).locks, (s.lock g).trx ≠ T → g ∈ (s2.tbl tb).locks)
      ∧ (∀ g, (s2.lock g).clear_wait = (s.lock g).clear_wait)
      ∧ (∀ k, ∀ w ∈ s2.hash k, (s2.lock w).is_waiting = true →
          ∃ hn, lock_rec_find_set_bit (s2.lock w) = some hn
            ∧ ∃ e ∈ (s2.page_chain (lock_hash_get (s2.lock w).type_mode)
                      (s2.lock w).page_id).takeWhile (fun i => i != w),
                (s2.lock e).trx ≠ T ∧ lock_rec_get_nth_bit (s2.lock e) hn = true
                  ∧ lock_has_to_wait E s2 w e = true)
      ∧ (∀ tb, ∀ w ∈ (s2.tbl tb).locks, (s2.lock w).is_waiting = true →
          ∃ e ∈ ((s2.tbl (s2.lock w).table).locks.takeWhile (fun i => i != w)),
            (s2.lock e).trx ≠ T ∧ lock_has_to_wait E s2 w e = true) := by
  obtain ⟨s2, d1, _, d3, d4, d5, d6, d7, d8⟩ := lock_release_loop_spec E T fuel s wf hf
  have hh : ∀ k, ∀ g ∈ s2.hash k, (s2.lock g).trx ≠ T := by
    intro k g hg ht
    have := d3.listed_hash k g hg ht
    rw [d4] at this
    exact absurd this (List.not_mem_nil _)
  have ht : ∀ tb, ∀ g ∈ (s2.tbl tb).locks, (s2.lock g).trx ≠ T := by
    intro tb g hg ht
    have := d3.listed_tbl tb g hg ht
    rw [d4] at this
    exact absurd this (List.not_mem_nil _)
  obtain ⟨b1, b2⟩ := d8 hE hb
  refine ⟨s2, d1, d4, hh, ht, d5, d6, d7, ?_, ?_⟩
  · intro k w hw hwait
    obtain ⟨hn, h1, e, he, h2, h3⟩ := b1 k w hw hwait
    refine ⟨hn, h1, e, he, ?_, h2, h3⟩
    have hm := (List.takeWhile_sublist _).subset he
    unfold lock_sys_t.page_chain at hm
    exact hh _ e (List.mem_filter.mp hm).1
  · intro tb w hw hwait
    obtain ⟨e, he, h3⟩ := b2 tb w hw hwait
    exact ⟨e, he, ht _ e ((List.takeWhile_sublist _).subset he), h3⟩

/-- Witness of C8: when transaction 1 of `release_state` releases its
locks, the waiting record lock 3 of transaction 2, whose only blocker was
the `X` lock of transaction 1, is granted, and the waiting table lock 4 of
transaction 3 stays waiting behind the `IS` lock 2 of transaction 2. -/
theorem lock_release_grants_waiters_witness :
    (release_state.lock 3).is_waiting = true
    ∧ (lock_release env_ordering 2 release_state 1).map (fun s2 =>
        ((s2.lock 3).is_waiting, (s2.trx 2).wait_lock, (s2.lock 4).is_waiting, s2.rec_hash,
          (s2.tbl 0).locks))
      = some (false, none, true, [3], [2, 4])
    ∧ ∃ s2, lock_release env_ordering 2 release_state 1 = some s2
      ∧ (s2.trx 1).trx_locks = []
      ∧ (∀ k, ∀ g ∈ s2.hash k, (s2.lock g).trx ≠ 1)
      ∧ (∀ tb, ∀ g ∈ (s2.tbl tb).locks, (s2.lock g).trx ≠ 1)
      ∧ (∀ k, ∀ g ∈ release_state.hash k, (release_state.lock g).trx ≠ 1 → g ∈ s2.hash k)
      ∧ (∀ tb, ∀ g ∈ (release_state.tbl tb).locks, (release_state.lock g).trx ≠ 1 →
          g ∈ (s2.tbl tb).locks)
      ∧ (∀ g, (s2.lock g).clear_wait = (release_state.lock g).clear_wait)
      ∧ (∀ k, ∀ w ∈ s2.hash k, (s2.lock w).is_waiting = true →
          ∃ hn, lock_rec_find_set_bit (s2.lock w) = some hn
            ∧ ∃ e ∈ (s2.page_chain (lock_hash_get (s2.lock w).type_mode)
                      (s2.lock w).page_id).takeWhile (fun i => i != w),
                (s2.lock e).trx ≠ 1 ∧ lock_rec_get_nth_bit (s2.lock e) hn = true
                  ∧ lock_has_to_wait env_ordering s2 w e = true)
      ∧ (∀ tb, ∀ w ∈ (s2.tbl tb).locks, (s2.lock w).is_waiting = true →
          ∃ e ∈ ((s2.tbl (s2.lock w).table).locks.takeWhile (fun i => i != w)),
            (s2.lock e).trx ≠ 1 ∧ lock_has_to_wait env_ordering s2 w e = true) :=
  ⟨by decide, by rfl,
    lock_release_grants_waiters env_ordering 2 release_state 1
      prdt_ignores_wait_env_ordering release_wf_release_state (by decide)
      all_blocked_release_state⟩

theorem lock_has_to_wait_of_lock_eq (E : Env) (s s1 : lock_sys_t) (a b : Nat)
    (ha : s1.lock a = s.lock a) (hb : s1.lock b = s.lock b) :
    lock_has_to_wait E s1 a b = lock_has_to_wait E s a b := by
  unfold lock_has_to_wait
  simp only [ha, hb]

theorem erase_filter_of_pos (p : Nat → Bool) (l : List Nat) (a : Nat) (h : p a = true) :
    (l.erase a).filter p = (l.filter p).erase a := by
  induction l with
  | nil => rfl
  | cons b l ih =>
    by_cases e : b = a
    · subst e
      rw [List.erase_cons_head, List.filter_cons_of_pos h, List.erase_cons_head]
    · rw [List.erase_cons_tail (by simpa using e)]
      by_cases hb : p b = true
      · rw [List.filter_cons_of_pos hb, List.filter_cons_of_pos hb,
          List.erase_cons_tail (by simpa using e), ih]
      · rw [List.filter_cons_of_neg hb, List.filter_cons_of_neg hb, ih]

theorem mem_takeWhile_filter_erase (p : Nat → Bool) (l : List Nat) (g w x : Nat)
    (hg : g ∈ (l.filter p).takeWhile (fun i => i != w)) (hne : g ≠ x) :
    g ∈ ((l.erase x).filter p).takeWhile (fun i => i != w) := by
  by_cases hp : p x = true
  · rw [erase_filter_of_pos p l x hp]
    exact mem_takeWhile_erase _ _ _ _ hg hne
  · rw [filter_erase_of_neg p l x (by simpa using hp)]
    exact hg

theorem held_back_step (E : Env) {s s1 : lock_sys_t} {T g W : Nat}
    (hb : held_back E s T g W) (hr : wait_release s s1)
    (hh : ∀ k, s1.hash k = s.hash k ∨ ∃ L, L ≠ g ∧ s1.hash k = (s.hash k).erase L)
    (ht : ∀ tb, ∀ x ∈ (s1.tbl tb).locks, x ∈ (s.tbl tb).locks)
    (hw : (s1.lock W).is_waiting = true) : held_back E s1 T g W := by
  have hcore : ∀ x, (s1.lock x).clear_wait = (s.lock x).clear_wait := by
    intro x
    rcases hr.2.1 x with a | a
    · rw [a]
    · rw [a.1]; rfl
  have hW : s1.lock W = s.lock W := by
    rcases hr.2.1 W with a | a
    · exact a
    · rw [a.1, clear_wait_is_waiting] at hw
      exact absurd hw (by simp)
  have hG : s1.lock g = s.lock g := by
    rcases hr.2.1 g with a | a
    · exact a
    · rw [a.1, clear_wait_of_not_waiting _ hb.g_granted]
  refine ⟨wait_inv_of_wait_release hr hb.inv, ?_, ?_, hw, ?_, ?_, ?_, ?_⟩
  · intro tb x hx
    rw [core_is_table (hcore x)]
    exact hb.tbl_ok tb x (ht tb x hx)
  · rw [hW]; exact hb.w_trx
  · rw [hW]; exact hb.w_rec
  · rw [hG]; exact hb.g_granted
  · rw [hW]
    have hpid : (fun i => (s1.lock i).page_id == (s.lock W).page_id)
        = (fun i => (s.lock i).page_id == (s.lock W).page_id) := by
      funext i; rw [core_page_id (hcore i)]
    unfold lock_sys_t.page_chain
    rw [hpid]
    rcases hh (lock_hash_get (s.lock W).type_mode) with a | ⟨L, hL, a⟩
    · rw [a]; exact hb.ahead
    · rw [a]
      exact mem_takeWhile_filter_erase _ _ _ _ _ hb.ahead (Ne.symm hL)
  · obtain ⟨hn, c1, c2, c3⟩ := hb.conflict
    refine ⟨hn, ?_, ?_, ?_⟩
    · rw [hW]; exact c1
    · rw [hG]; exact c2
    · rw [lock_has_to_wait_of_lock_eq E s s1 W g hW hG]; exact c3

theorem held_back_in_queue (E : Env) {s : lock_sys_t} {T g W : Nat}
    (hb : held_back E s T g W) : (lock_rec_has_to_wait_in_queue E s W).isSome = true := by
  obtain ⟨hn, c1, c2, c3⟩ := hb.conflict
  unfold lock_rec_has_to_wait_in_queue
  simp only []
  rw [List.find?_isSome]
  refine ⟨g, hb.ahead, ?_⟩
  rw [c1]
  simp only [Bool.and_eq_true, decide_eq_true_eq]
  exact ⟨⟨lock_rec_get_nth_bit_lt _ _ c2, c2⟩, c3⟩

theorem held_back_wait_lock (E : Env) {s : lock_sys_t} {T g W : Nat}
    (hb : held_back E s T g W) : (s.trx T).wait_lock = some W := by
  have := hb.inv.2.1 W hb.w_wait
  rw [hb.w_trx] at this
  exact this

theorem held_rec_grant_step (E : Env) {s : lock_sys_t} {T g W : Nat}
    (hb : held_back E s T g W) (x : Nat) :
    held_back E (lock_rec_grant_step E s x) T g W := by
  have hr := wait_release_rec_grant_step E s x hb.inv
  refine held_back_step E hb hr (fun k => Or.inl (lock_rec_grant_step_hash E s x k)) ?_ ?_
  · intro tb y hy
    unfold lock_rec_grant_step at hy
    split at hy
    · exact hy
    · split at hy
      · rw [(lock_grant_tbl s x tb).1] at hy; exact hy
      · exact hy
  · by_cases e : x = W
    · subst e
      unfold lock_rec_grant_step
      rw [hb.w_wait]
      simp only [Bool.not_true, Bool.false_eq_true, ↓reduceIte]
      obtain ⟨c, hc⟩ := Option.isSome_iff_exists.mp (held_back_in_queue E hb)
      rw [hc]
      exact hb.w_wait
    · rw [lock_rec_grant_step_lock_ne E s x W (Ne.symm e)]
      exact hb.w_wait

theorem held_foldl_rec_grant (E : Env) (l : List Nat) {s : lock_sys_t} {T g W : Nat}
    (hb : held_back E s T g W) :
    held_back E (l.foldl (lock_rec_grant_step E) s) T g W := by
  induction l generalizing s with
  | nil => exact hb
  | cons a l ih =>
    rw [List.foldl_cons]
    exact ih (held_rec_grant_step E hb a)

theorem wait_release_core {s s1 : lock_sys_t} (h : wait_release s s1) (x : Nat) :
    (s1.lock x).clear_wait = (s.lock x).clear_wait := by
  rcases h.2.1 x with a | a
  · rw [a]
  · rw [a.1]; rfl

theorem held_table_grant_step (E : Env) {s : lock_sys_t} {T g W : Nat}
    (hb : held_back E s T g W) (x : Nat) (hx : (s.lock x).is_table = true) :
    held_back E (lock_table_grant_step E s x) T g W := by
  have hr := wait_release_table_grant_step E s x hb.inv
  have hne : W ≠ x := by
    intro e
    rw [← e, hb.w_rec] at hx
    exact absurd hx (by simp)
  refine held_back_step E hb hr (fun k => Or.inl (lock_table_grant_step_hash E s x k)) ?_ ?_
  · intro tb y hy
    unfold lock_table_grant_step at hy
    split at hy
    · rw [(lock_grant_tbl s x tb).1] at hy; exact hy
    · exact hy
  · unfold lock_table_grant_step
    split
    · rw [lock_grant_lock, if_neg hne]; exact hb.w_wait
    · exact hb.w_wait

theorem held_foldl_table_grant (E : Env) (l : List Nat) {s : lock_sys_t} {T g W : Nat}
    (hb : held_back E s T g W) (hl : ∀ x ∈ l, (s.lock x).is_table = true) :
    held_back E (l.foldl (lock_table_grant_step E) s) T g W := by
  induction l generalizing s with
  | nil => exact hb
  | cons a l ih =>
    rw [List.foldl_cons]
    apply ih (held_table_grant_step E hb a (hl a (List.mem_cons_self _ _)))
    intro x hx
    rw [core_is_table (wait_release_core (wait_release_table_grant_step E s a hb.inv) x)]
    exact hl x (List.mem_cons_of_mem _ hx)

theorem held_rec_dequeue (E : Env) {s : lock_sys_t} {T g W : Nat}
    (hb : held_back E s T g W) (L : Nat) (hLg : L ≠ g) :
    held_back E (lock_rec_dequeue_from_page E s L) T g W := by
  rw [lock_rec_dequeue_from_page_eq]
  apply held_foldl_rec_grant
  obtain ⟨_, _, r3, _, _⟩ := lock_rec_dequeue_removed_spec s L
  have rl := lock_rec_dequeue_removed_lock s L
  refine held_back_step E hb
    (wait_release_of_eq (lock_rec_dequeue_removed_n_locks s L) rl
      (lock_rec_dequeue_removed_wait_lock s L)) ?_ ?_ ?_
  · intro k
    rw [lock_rec_dequeue_removed_hash]
    split
    · exact Or.inr ⟨L, hLg, rfl⟩
    · exact Or.inl rfl
  · intro tb x hx
    rw [r3] at hx; exact hx
  · rw [rl]; exact hb.w_wait

theorem lock_table_remove_low_tbl_sub (s s1 : lock_sys_t) (lock : Nat)
    (h : lock_table_remove_low s lock = some s1) :
    ∀ tb, ∀ x ∈ (s1.tbl tb).locks, x ∈ (s.tbl tb).locks := by
  unfold lock_table_remove_low at h
  simp only [Option.map_eq_some'] at h
  obtain ⟨s0, h0, rfl⟩ := h
  have key : ∀ tb, (s0.tbl tb).locks = (s.tbl tb).locks := by
    split at h0
    · simp only [Option.map_eq_some'] at h0
      obtain ⟨sa, ha, rfl⟩ := h0
      split at ha
      · simp only [Option.map_eq_some'] at ha
        obtain ⟨v, _, rfl⟩ := ha
        intro tb
        simp only [lock_sys_t.tbl_set_tbl, lock_sys_t.tbl_set_trx]
        split <;> simp_all
      · cases ha
        intro tb
        simp only [lock_sys_t.tbl_set_tbl]
        split <;> simp_all
    · cases h0
      intro tb
      simp only [lock_sys_t.tbl_set_tbl]
      split <;> simp_all
    · cases h0
      intro tb
      simp only [lock_sys_t.tbl_set_tbl]
      split <;> simp_all
    · cases h0; exact fun _ => rfl
  intro tb x hx
  simp only [lock_sys_t.tbl_set_tbl, lock_sys_t.tbl_set_trx] at hx
  split at hx
  · subst_vars
    rw [← key]
    exact List.mem_of_mem_erase hx
  · rw [← key]; exact hx

theorem held_table_dequeue (E : Env) {s s1 : lock_sys_t} {T g W : Nat}
    (hb : held_back E s T g W) (L : Nat) (h : lock_table_dequeue E s L = some s1) :
    held_back E s1 T g W := by
  unfold lock_table_dequeue at h
  dsimp only at h
  split at h
  · cases h
  · simp only [Option.map_eq_some'] at h
    obtain ⟨s0, h0, rfl⟩ := h
    obtain ⟨a, b, c, d⟩ := lock_table_remove_low_frame s s0 L h0
    have hb0 : held_back E s0 T g W :=
      held_back_step E hb (wait_release_of_eq a b c) (fun k => Or.inl (d k))
        (lock_table_remove_low_tbl_sub s s0 L h0) (by rw [b]; exact hb.w_wait)
    split
    · exact hb0
    · apply held_foldl_table_grant E _ hb0
      intro x hx
      rw [b]
      exact hb.tbl_ok _ x (mem_of_mem_rest _ _ _ hx)

theorem held_table_locks_remove (E : Env) {s s1 : lock_sys_t} {T g W : Nat}
    (hb : held_back E s T g W) (L : Nat) (h : lock_trx_table_locks_remove s L = some s1) :
    held_back E s1 T g W := by
  obtain ⟨hr, hh⟩ := lock_trx_table_locks_remove_frame s s1 L h
  unfold lock_trx_table_locks_remove at h
  simp only [Option.map_eq_some'] at h
  obtain ⟨v, _, rfl⟩ := h
  refine held_back_step E hb hr (fun k => Or.inl (hh k)) ?_ ?_
  · intro tb x hx
    simpa using hx
  · simpa using hb.w_wait

theorem held_autoinc_last_lock (E : Env) {s s1 : lock_sys_t} {T g W : Nat}
    (hb : held_back E s T g W) (trx : Nat)
    (h : lock_release_autoinc_last_lock E s trx = some s1) : held_back E s1 T g W := by
  unfold lock_release_autoinc_last_lock at h
  split at h
  · cases h
  · cases h
  · rename_i lock _
    simp only [Option.bind_eq_some] at h
    obtain ⟨sa, ha, hb2⟩ := h
    exact held_table_locks_remove E (held_table_dequeue E hb lock ha) lock hb2

theorem held_autoinc_locks (E : Env) (fuel : Nat) {s s1 : lock_sys_t} {T g W : Nat}
    (hb : held_back E s T g W) (trx : Nat)
    (h : lock_release_autoinc_locks E fuel s trx = some s1) : held_back E s1 T g W := by
  induction fuel generalizing s with
  | zero =>
    unfold lock_release_autoinc_locks at h
    split at h
    · cases h; exact hb
    · cases h
  | succ n ih =>
    unfold lock_release_autoinc_locks at h
    split at h
    · cases h; exact hb
    · simp only [Option.bind_eq_some] at h
      obtain ⟨sa, ha, hb2⟩ := h
      exact ih (held_autoinc_last_lock E hb trx ha) hb2

theorem held_set_trx (E : Env) {s : lock_sys_t} {T g W : Nat}
    (hb : held_back E s T g W) (t : Nat) (x : trx_t)
    (h : x.wait_lock = (s.trx t).wait_lock) : held_back E (s.set_trx t x) T g W := by
  refine held_back_step E hb (wait_release_set_trx_same s t x h) (fun k => Or.inl (by simp))
    ?_ ?_
  · intro tb y hy; simpa using hy
  · simpa using hb.w_wait

theorem held_reset (E : Env) {s : lock_sys_t} {T g W : Nat}
    (hb : held_back E s T g W) (L : Nat) (hLW : L ≠ W)
    (h : ∀ w1, (s.trx (s.lock L).trx).wait_lock = some w1 → w1 = L) :
    held_back E (lock_reset_lock_and_trx_wait s L) T g W := by
  refine held_back_step E hb (wait_release_reset s L h)
    (fun k => Or.inl (lock_reset_hash s L k)) ?_ ?_
  · intro tb y hy
    rw [lock_reset_tbl] at hy; exact hy
  · rw [lock_reset_lock, if_neg (Ne.symm hLW)]
    exact hb.w_wait

theorem held_wait_end (E : Env) {s : lock_sys_t} {T g W : Nat}
    (hb : held_back E s T g W) (t : Nat) : held_back E (lock_wait_end s t) T g W := by
  refine held_back_step E hb (wait_release_wait_end s t)
    (fun k => Or.inl (lock_wait_end_hash s t k)) ?_ ?_
  · intro tb y hy
    rw [lock_wait_end_tbl] at hy; exact hy
  · rw [lock_wait_end_lock]; exact hb.w_wait

theorem held_cancel (E : Env) (fuel : Nat) {s s1 : lock_sys_t} {T g W : Nat}
    (hb : held_back E s T g W) (L : Nat)
    (hw : (s.trx (s.lock L).trx).wait_lock = some L) (hT : (s.lock L).trx ≠ T)
    (h : lock_cancel_waiting_and_release E fuel s L = some s1) :
    held_back E s1 T g W := by
  have hLwait : (s.lock L).is_waiting = true := hb.inv.2.2 _ L hw
  have hLg : L ≠ g := by
    intro e
    rw [e, hb.g_granted] at hLwait
    exact absurd hLwait (by simp)
  have hLW : L ≠ W := by
    intro e
    rw [e, hb.w_trx] at hT
    exact hT rfl
  unfold lock_cancel_waiting_and_release at h
  simp only [Option.map_eq_some'] at h
  obtain ⟨s2, h2, rfl⟩ := h
  set sa := s.set_trx (s.lock L).trx { s.trx (s.lock L).trx with cancel := true }
    with hsa
  have ra : wait_release s sa := wait_release_set_trx_same s _ _ rfl
  have ha : held_back E sa T g W := held_set_trx E hb _ _ rfl
  have k2 : held_back E s2 T g W ∧ wait_release sa s2 := by
    by_cases hc : (!(sa.lock L).is_table) = true
    · rw [if_pos hc] at h2
      cases h2
      exact ⟨held_rec_dequeue E ha L hLg, wait_release_rec_dequeue E sa L ha.inv⟩
    · rw [if_neg hc] at h2
      simp only [Option.bind_eq_some] at h2
      obtain ⟨sc, ⟨sb, hb1, hc1⟩, hd⟩ := h2
      have h1 := held_autoinc_locks E fuel ha _ hb1
      have h3 := held_table_dequeue E h1 L hc1
      obtain ⟨b1, _⟩ := wait_release_autoinc_locks E fuel sa sb _ ha.inv hb1
      obtain ⟨c1, _⟩ := wait_release_table_dequeue E sb sc L h1.inv hc1
      obtain ⟨d1, _⟩ := lock_trx_table_locks_remove_frame sc s2 L hd
      exact ⟨held_table_locks_remove E h3 L hd,
        wait_release_trans b1 (wait_release_trans c1 d1)⟩
  have r02 := wait_release_trans ra k2.2
  have hown : (s2.lock L).trx = (s.lock L).trx := wait_release_trx_eq r02 L
  have h3 : held_back E (lock_reset_lock_and_trx_wait s2 L) T g W := by
    apply held_reset E k2.1 L hLW
    intro w1 hw1
    rw [hown] at hw1
    rcases r02.2.2 (s.lock L).trx with a | a
    · rw [a, hw] at hw1
      exact (Option.some.inj hw1).symm
    · rw [a.1] at hw1
      exact absurd hw1 (by simp)
  exact held_set_trx E (held_wait_end E h3 _) _ _ rfl

theorem held_only_marks (E : Env) {s s1 : lock_sys_t} {T g W : Nat}
    (hb : held_back E s T g W) (hm : only_marks s s1) : held_back E s1 T g W := by
  refine held_back_step E hb (only_marks_wait_release hm)
    (fun k => Or.inl (only_marks_hash hm k)) ?_ ?_
  · intro tb y hy
    rw [only_marks_tbl hm] at hy; exact hy
  · rw [only_marks_lock hm]; exact hb.w_wait

theorem held_deadlock_found (E : Env) {s : lock_sys_t} {T g W : Nat}
    (hb : held_back E s T g W) (b : Bool) :
    held_back E { s with lock_deadlock_found := b } T g W :=
  held_back_step E hb (wait_release_deadlock_found s b) (fun _ => Or.inl rfl)
    (fun _ _ hy => hy) hb.w_wait

theorem held_trx_rollback (E : Env) (fuel : Nat) {s s1 : lock_sys_t} {T g W : Nat}
    (hb : held_back E s T g W) (c : DeadlockChecker)
    (hv : (s.lock c.m_wait_lock).trx ≠ T)
    (h : DeadlockChecker.trx_rollback E fuel s c = some s1) : held_back E s1 T g W := by
  unfold DeadlockChecker.trx_rollback at h
  dsimp only at h
  set tv := (s.lock c.m_wait_lock).trx with htv
  set sa := s.set_trx tv { s.trx tv with was_chosen_as_deadlock_victim := true } with hsa
  have ha : held_back E sa T g W := held_set_trx E hb _ _ rfl
  split at h
  · cases h
  · rename_i w hw
    have hown := (ha.inv.1 tv w hw).2
    exact held_cancel E fuel ha w (by rw [hown]; exact hw) (by rw [hown]; exact hv) h

theorem held_check_and_resolve_loop (E : Env) (fuel n : Nat) {s : lock_sys_t}
    {T g W : Nat} (lock : Nat) (v : Option Nat) (s1 : lock_sys_t)
    (hb : held_back E s T g W)
    (h : DeadlockChecker.check_and_resolve_loop E fuel n s lock T = some (v, s1)) :
    held_back E s1 T g W := by
  induction n generalizing s with
  | zero => simp [DeadlockChecker.check_and_resolve_loop] at h
  | succ n ih =>
    unfold DeadlockChecker.check_and_resolve_loop at h
    dsimp only at h
    split at h
    · cases h
    · rename_i vt c1 sA hsearch
      have hm := search_only_marks E fuel s _ vt c1 sA hsearch
      have hA := held_only_marks E hb hm
      split at h
      · cases h; exact hA
      · split at h
        · cases h; exact hA
        · rename_i v0
          split at h
          · rename_i hne
            split at h
            · cases h
            · rename_i sB hroll
              have hv := search_victim E fuel s _ v0 c1 sA hsearch
              have hvt : (sA.lock c1.m_wait_lock).trx ≠ T := by
                rcases hv.2 with a | a
                · rw [a, hv.1] at hne; exact absurd rfl hne
                · rw [← a]; exact hne
              have hB := held_trx_rollback E fuel hA c1 hvt hroll
              exact ih (held_deadlock_found E hB true) h
          · cases h; exact hA

theorem held_check_and_resolve (E : Env) (fuel : Nat) {s : lock_sys_t} {T g W : Nat}
    (lock : Nat) (v : Option Nat) (s1 : lock_sys_t) (hb : held_back E s T g W)
    (h : DeadlockChecker.check_and_resolve E fuel s lock T = some (v, s1)) :
    held_back E s1 T g W := by
  unfold DeadlockChecker.check_and_resolve at h
  split at h
  · cases h; exact hb
  · split at h
    · cases h
    · rename_i vt sA hl
      have hA := held_check_and_resolve_loop E fuel fuel lock vt sA hb hl
      split at h
      · cases h
        exact held_deadlock_found E hA true
      · cases h
        exact hA

theorem find_set_bit_single (l : lock_t) (n heap_no : Nat) (h : heap_no < n)
    (hl : l.bitmap = (List.replicate n false).set heap_no true) :
    lock_rec_find_set_bit l = some heap_no := by
  unfold lock_rec_find_set_bit
  rw [List.find?_range_eq_some]
  have hlen : lock_rec_get_n_bits l = n := by
    unfold lock_rec_get_n_bits; rw [hl]; simp
  refine ⟨?_, ?_, ?_⟩
  · unfold lock_rec_get_nth_bit
    rw [hl]
    exact get_nth_bit_set_replicate n heap_no h
  · rw [List.mem_range, hlen]; exact h
  · intro j hj
    unfold lock_rec_get_nth_bit
    rw [hl, List.getD_eq_getElem?_getD, List.getElem?_set_ne (Nat.ne_of_gt hj)]
    by_cases hjn : j < n
    · rw [List.getElem?_replicate_of_lt hjn]; rfl
    · rw [List.getElem?_eq_none (by simpa using hjn)]; rfl

theorem held_back_create (E : Env) (s : lock_sys_t) (block : buf_block_t)
    (heap_no : Nat) (index : dict_index_t) (T g : Nat)
    (hi : wait_inv s) (hnw : (s.trx T).wait_lock = none)
    (htbl : ∀ tb, ∀ x ∈ (s.tbl tb).locks, x < s.n_locks ∧ (s.lock x).is_table = true)
    (hfresh : ∀ x ∈ s.rec_hash, x < s.n_locks)
    (hheap : heap_no < block.n_heap)
    (hq : g ∈ lock_rec_queue s hash_id.rec_hash block.page_id heap_no)
    (hgr : (s.lock g).is_waiting = false)
    (hne : (s.lock g).trx ≠ T)
    (hord : E.thd_need_ordering_with T (s.lock g).trx = true)
    (hmode : (s.lock g).mode = LOCK_S ∨ (s.lock g).mode = LOCK_X)
    (hii : (s.lock g).is_insert_intention = false)
    (hrng : (s.lock g).is_record_not_gap = false) :
    held_back E
      (lock_rec_create s { insert_intention_mode with wait := true } block heap_no index T
        true).2 T g s.n_locks := by
  obtain ⟨_, _, c3, c4, _, _, c7⟩ :=
    lock_rec_create_spec s { insert_intention_mode with wait := true } block heap_no index T
      true rfl rfl
  have iC := wait_inv_create s { insert_intention_mode with wait := true } block heap_no
    index T true rfl rfl hi (fun _ => hnw)
  rw [mem_lock_rec_queue] at hq
  obtain ⟨hgm, hgp, hgb⟩ := hq
  have hgl : g ≠ s.n_locks := Nat.ne_of_lt (hfresh g hgm)
  have hW := c3 s.n_locks
  rw [if_pos rfl] at hW
  have hG := c3 g
  rw [if_neg hgl] at hG
  have htm : (supremum_type_mode { insert_intention_mode with wait := true } heap_no)
      = { insert_intention_mode with wait := true }
      ∨ (supremum_type_mode { insert_intention_mode with wait := true } heap_no)
      = { insert_intention_mode with wait := true, gap := false } := by
    unfold supremum_type_mode
    split
    · right; rfl
    · left; rfl
  have htb : ∀ tb, ∀ x ∈ ((lock_rec_create s { insert_intention_mode with wait := true }
      block heap_no index T true).2.tbl tb).locks,
      ((lock_rec_create s { insert_intention_mode with wait := true } block heap_no index T
        true).2.lock x).is_table = true := by
    intro tb x hx
    rw [c7] at hx
    rw [c3, if_neg (Nat.ne_of_lt (htbl tb x hx).1)]
    exact (htbl tb x hx).2
  generalize supremum_type_mode { insert_intention_mode with wait := true } heap_no = tmW
    at hW htm
  refine ⟨iC, htb, ?_, ?_, ?_, ?_, ?_, ?_⟩
  · rw [hW]
  · rw [hW]
    rcases htm with a | a <;> subst a <;> rfl
  · rw [hW]
    rcases htm with a | a <;> subst a <;> rfl
  · rw [hG]; exact hgr
  · have hk : lock_hash_get tmW = hash_id.rec_hash := by
      rcases htm with a | a <;> subst a <;> rfl
    rw [hW]
    simp only [hk]
    unfold lock_sys_t.page_chain
    rw [c4, if_pos rfl]
    show g ∈ List.takeWhile (fun i => i != s.n_locks) (List.filter _ (s.rec_hash ++ [s.n_locks]))
    rw [List.filter_append, List.takeWhile_append_of_pos]
    · apply List.mem_append_left
      rw [List.mem_filter]
      refine ⟨hgm, ?_⟩
      rw [hG]
      simpa using hgp
    · intro a ha
      rw [List.mem_filter] at ha
      simpa using Nat.ne_of_lt (hfresh a ha.1)
  · refine ⟨heap_no, ?_, ?_, ?_⟩
    · rw [hW]
      exact find_set_bit_single _ _ _ (heap_no_lt_n_bits _ _ hheap) rfl
    · rw [hG]; exact hgb
    · have hc : lock_mode_compatible LOCK_X (s.lock g).mode = false := by
        rcases hmode with a | a <;> rw [a] <;> rfl
      simp only [lock_t.mode] at hc
      unfold lock_has_to_wait
      simp only [hW, hG]
      rcases htm with a | a <;> subst a <;>
        simp [lock_rec_has_to_wait, insert_intention_mode, lock_t.mode, lock_t.is_table,
          hc, hii, hrng, hord, Ne.symm hne]

theorem lock_rec_enqueue_waiting_held (E : Env) (fuel : Nat) (s : lock_sys_t)
    (block : buf_block_t) (heap_no : Nat) (index : dict_index_t) (T g : Nat)
    (hi : wait_inv s) (hnw : (s.trx T).wait_lock = none)
    (htbl : ∀ tb, ∀ x ∈ (s.tbl tb).locks, x < s.n_locks ∧ (s.lock x).is_table = true)
    (hfresh : ∀ x ∈ s.rec_hash, x < s.n_locks)
    (hheap : heap_no < block.n_heap)
    (hq : g ∈ lock_rec_queue s hash_id.rec_hash block.page_id heap_no)
    (hgr : (s.lock g).is_waiting = false)
    (hne : (s.lock g).trx ≠ T)
    (hord : E.thd_need_ordering_with T (s.lock g).trx = true)
    (hmode : (s.lock g).mode = LOCK_S ∨ (s.lock g).mode = LOCK_X)
    (hii : (s.lock g).is_insert_intention = false)
    (hrng : (s.lock g).is_record_not_gap = false)
    (err : dberr_t) (s1 : lock_sys_t)
    (h : lock_rec_enqueue_waiting E fuel s insert_intention_mode block heap_no index T
      = some (err, s1)) :
    err = DB_LOCK_WAIT ∨ err = DB_DEADLOCK ∨ err = DB_LOCK_WAIT_TIMEOUT := by
  rcases lock_rec_enqueue_waiting_cases E fuel s insert_intention_mode block heap_no index T
    err s1 h with ⟨a, _⟩ | ⟨_, v, s2, hc, hcase⟩
  · exact Or.inr (Or.inr a)
  · rcases hcase with ⟨x, _, a⟩ | ⟨_, hwl, _, _⟩ | ⟨_, _, a⟩
    · exact Or.inr (Or.inl a)
    · have hb := held_back_create E s block heap_no index T g hi hnw htbl hfresh hheap hq
        hgr hne hord hmode hii hrng
      have h2 := held_check_and_resolve E fuel _ v s2 hb hc
      rw [held_back_wait_lock E h2] at hwl
      exact absurd hwl (by simp)
    · exact Or.inl a

theorem wait_inv_gap_state : wait_inv gap_state := by
  refine ⟨?_, ?_, ?_⟩
  · intro t w h
    simp only [gap_state, lock_sys_t.trx] at h
    split at h <;> simp at h
  · intro g h
    simp only [gap_state, lock_sys_t.lock, lock_t.is_waiting] at h
    split at h <;> simp at h
  · intro t w h
    simp only [gap_state, lock_sys_t.trx] at h
    split at h <;> simp at h

theorem gap_state_tbl_locks (tb : Nat) : (gap_state.tbl tb).locks = [] := by
  simp only [gap_state, lock_sys_t.tbl]
  split <;> rfl

/-- C2, amended: for transactions T1 and T2 between which the server
requires ordering, `lock_rec_has_to_wait` is true for the request
`X | GAP | INSERT_INTENTION` of T2 against every lock of T1 whose mode is
`S` or `X` and that is neither `INSERT_INTENTION` nor `REC_NOT_GAP`, granted
or waiting, on the supremum or not.  If such a lock is in the queue of the
record, `lock_rec_other_has_conflicting` returns a lock of that queue with
which the request conflicts, and `lock_rec_insert_check_and_lock` on a
non-spatial index enqueues a waiting request: with deadlock detection off
it returns `DB_LOCK_WAIT` or `DB_LOCK_WAIT_TIMEOUT`; and whenever the lock
of T1 is granted (in a lock system whose `wait_lock` pointers and `WAIT`
flags agree, whose queues hold allocated locks, table lists only table
locks, for a valid heap number and a transaction T2 that is not waiting)
every result is `DB_LOCK_WAIT`, `DB_DEADLOCK` or `DB_LOCK_WAIT_TIMEOUT`,
never `DB_SUCCESS`. -/
theorem insert_intention_waits (E : Env) (fuel : Nat) (s : lock_sys_t) (heap_no : Nat)
    (block : buf_block_t) (index : dict_index_t) (thr : Nat) (inherit_in : Bool) (g : Nat)
    (hne : (s.lock g).trx ≠ thr)
    (hord : E.thd_need_ordering_with thr (s.lock g).trx = true)
    (hmode : (s.lock g).mode = LOCK_S ∨ (s.lock g).mode = LOCK_X)
    (hii : (s.lock g).is_insert_intention = false)
    (hrng : (s.lock g).is_record_not_gap = false) :
    (∀ for_locking sup,
      lock_rec_has_to_wait E for_locking thr insert_intention_mode (s.lock g) sup = true)
    ∧ (g ∈ lock_rec_queue s hash_id.rec_hash block.page_id heap_no →
        (∃ c, lock_rec_other_has_conflicting E s insert_intention_mode block heap_no thr
            = some c
          ∧ c ∈ lock_rec_queue s hash_id.rec_hash block.page_id heap_no
          ∧ lock_rec_has_to_wait E true thr insert_intention_mode (s.lock c)
              (decide (heap_no = PAGE_HEAP_NO_SUPREMUM)) = true)
        ∧ (index.is_spatial = false → E.innobase_deadlock_detect = false →
            ∃ r, lock_rec_insert_check_and_lock E fuel s heap_no block index thr inherit_in
                = some r
              ∧ (r.err = DB_LOCK_WAIT ∨ r.err = DB_LOCK_WAIT_TIMEOUT))
        ∧ (index.is_spatial = false → (s.lock g).is_waiting = false → wait_inv s →
            (s.trx thr).wait_lock = none →
            (∀ tb, ∀ x ∈ (s.tbl tb).locks, x < s.n_locks ∧ (s.lock x).is_table = true) →
            (∀ x ∈ s.rec_hash, x < s.n_locks) → heap_no < block.n_heap →
            ∀ r, lock_rec_insert_check_and_lock E fuel s heap_no block index thr inherit_in
                = some r →
              r.err = DB_LOCK_WAIT ∨ r.err = DB_DEADLOCK ∨ r.err = DB_LOCK_WAIT_TIMEOUT)) := by
  have hw : ∀ for_locking sup,
      lock_rec_has_to_wait E for_locking thr insert_intention_mode (s.lock g) sup = true := by
    intro for_locking sup
    have hc : lock_mode_compatible LOCK_X (s.lock g).mode = false := by
      rcases hmode with a | a <;> rw [a] <;> rfl
    simp [lock_rec_has_to_wait, insert_intention_mode, hc, hii, hrng, hord, Ne.symm hne]
  refine ⟨hw, fun hq => ?_⟩
  have hsome : (lock_rec_other_has_conflicting E s insert_intention_mode block heap_no
      thr).isSome = true := by
    unfold lock_rec_other_has_conflicting
    rw [List.find?_isSome]
    exact ⟨g, hq, hw _ _⟩
  obtain ⟨c, hc⟩ := Option.isSome_iff_exists.mp hsome
  have hunf : ∀ (hsp : index.is_spatial = false),
      lock_rec_insert_check_and_lock E fuel s heap_no block index thr inherit_in
        = (lock_rec_enqueue_waiting E fuel s insert_intention_mode block heap_no index
            thr).map (fun (err, s1) =>
              { err := if err = DB_SUCCESS_LOCKED_REC then DB_SUCCESS else err,
                inherit := true, mutex_held := false, sys := s1 }) := by
    intro hsp
    unfold lock_rec_insert_check_and_lock
    dsimp only
    cases hhd : (lock_rec_queue s hash_id.rec_hash block.page_id heap_no).head? with
    | none =>
      rw [List.head?_eq_none_iff] at hhd
      rw [hhd] at hq
      simp at hq
    | some x =>
      dsimp only
      rw [hsp]
      simp only [Bool.false_eq_true, ↓reduceIte]
      rw [show (lock_rec_other_has_conflicting E s
          { mode := LOCK_X, gap := true, insert_intention := true } block heap_no
          thr).isSome = true from hsome]
      simp only [↓reduceIte]
      rfl
  refine ⟨⟨c, hc, ?_, ?_⟩, fun hsp hdd => ?_, ?_⟩
  · exact List.mem_of_find?_eq_some hc
  · have h := hc
    unfold lock_rec_other_has_conflicting at h
    dsimp only at h
    have h2 := List.find?_some h
    exact h2
  · rw [hunf hsp]
    obtain ⟨r, hr, he⟩ := lock_rec_enqueue_waiting_nodetect E fuel s
      insert_intention_mode block heap_no index thr rfl rfl hdd
    rw [hr]
    refine ⟨_, rfl, ?_⟩
    rcases he with e | e <;> simp [e]
  · intro hsp hgr hi hnw htbl hfresh hheap r hr
    rw [hunf hsp] at hr
    simp only [Option.map_eq_some'] at hr
    obtain ⟨⟨err, s1⟩, he, rfl⟩ := hr
    have := lock_rec_enqueue_waiting_held E fuel s block heap_no index thr g hi hnw htbl
      hfresh hheap hq hgr hne hord hmode hii hrng err s1 he
    rcases this with e | e | e <;> simp [e]

/-- Witness of C2 amended, on scenario 3 of the specification: transaction
1 holds `S | GAP` on (page 1, heap number 5) and transaction 2 inserts
before that record, with deadlock detection off and on. -/
theorem insert_intention_waits_witness :
    lock_rec_has_to_wait env_no_detect true 2 insert_intention_mode (gap_state.lock 0) false
      = true
    ∧ (∃ c, lock_rec_other_has_conflicting env_no_detect gap_state insert_intention_mode
          { page_id := 1, n_heap := 8 } 5 2 = some c
        ∧ c ∈ lock_rec_queue gap_state hash_id.rec_hash 1 5
        ∧ lock_rec_has_to_wait env_no_detect true 2 insert_intention_mode
            (gap_state.lock c) (decide (5 = PAGE_HEAP_NO_SUPREMUM)) = true)
    ∧ (∃ r, lock_rec_insert_check_and_lock env_no_detect 0 gap_state 5
          { page_id := 1, n_heap := 8 } { table := 0 } 2 false = some r
        ∧ (r.err = DB_LOCK_WAIT ∨ r.err = DB_LOCK_WAIT_TIMEOUT))
    ∧ (∀ r, lock_rec_insert_check_and_lock env_ordering 10 gap_state 5
          { page_id := 1, n_heap := 8 } { table := 0 } 2 false = some r →
        r.err = DB_LOCK_WAIT ∨ r.err = DB_DEADLOCK ∨ r.err = DB_LOCK_WAIT_TIMEOUT) :=
  ⟨(insert_intention_waits env_no_detect 0 gap_state 5 { page_id := 1, n_heap := 8 }
      { table := 0 } 2 false 0 (by decide) (by decide) (by decide) (by decide)
      (by decide)).1 true false,
   ((insert_intention_waits env_no_detect 0 gap_state 5 { page_id := 1, n_heap := 8 }
      { table := 0 } 2 false 0 (by decide) (by decide) (by decide) (by decide)
      (by decide)).2 (by decide)).1,
   ((insert_intention_waits env_no_detect 0 gap_state 5 { page_id := 1, n_heap := 8 }
      { table := 0 } 2 false 0 (by decide) (by decide) (by decide) (by decide)
      (by decide)).2 (by decide)).2.1 rfl rfl,
   ((insert_intention_waits env_ordering 10 gap_state 5 { page_id := 1, n_heap := 8 }
      { table := 0 } 2 false 0 (by decide) (by decide) (by decide) (by decide)
      (by decide)).2 (by decide)).2.2 rfl (by decide) wait_inv_gap_state rfl
      (fun tb x hx => by rw [gap_state_tbl_locks] at hx; exact absurd hx (List.not_mem_nil _))
      (by decide) (by decide)⟩

/-- C11: `select_victim` returns the joining transaction `m_start` or the
owner of the current wait lock, and of the two the lighter one: a
transaction that has edited non-transactional tables is heavier than one
that has not; when both or neither have, the one with the smaller
`TRX_WEIGHT` is returned, and on equal weight the joining transaction.  In
the two-transaction deadlock in which transaction 1 has modified three
rows and transaction 2 one, `search` returns transaction 2 whichever of
the two joined last; when transaction 2 joins, its request returns
`DB_DEADLOCK`, and when transaction 1 joins, transaction 2 is rolled back
with `error_state = DB_DEADLOCK` and transaction 1 waits. -/
theorem select_victim_lighter (s : lock_sys_t) (c : DeadlockChecker) :
    (DeadlockChecker.select_victim s c = c.m_start
      ∨ DeadlockChecker.select_victim s c = (s.lock c.m_wait_lock).trx)
    ∧ ((s.trx (s.lock c.m_wait_lock).trx).edited_nontrans = true →
        (s.trx c.m_start).edited_nontrans = false →
        DeadlockChecker.select_victim s c = c.m_start)
    ∧ ((s.trx (s.lock c.m_wait_lock).trx).edited_nontrans = false →
        (s.trx c.m_start).edited_nontrans = true →
        DeadlockChecker.select_victim s c = (s.lock c.m_wait_lock).trx)
    ∧ ((s.trx (s.lock c.m_wait_lock).trx).edited_nontrans
          = (s.trx c.m_start).edited_nontrans →
        (TRX_WEIGHT (s.trx c.m_start) < TRX_WEIGHT (s.trx (s.lock c.m_wait_lock).trx) →
          DeadlockChecker.select_victim s c = c.m_start)
        ∧ (TRX_WEIGHT (s.trx (s.lock c.m_wait_lock).trx) < TRX_WEIGHT (s.trx c.m_start) →
          DeadlockChecker.select_victim s c = (s.lock c.m_wait_lock).trx)
        ∧ (TRX_WEIGHT (s.trx (s.lock c.m_wait_lock).trx) = TRX_WEIGHT (s.trx c.m_start) →
          DeadlockChecker.select_victim s c = c.m_start))
    ∧ (∀ first, first = 1 ∨ first = 2 →
        (DeadlockChecker.search env_ordering 10
            (lock_rec_create (two_trx_state first) { mode := LOCK_X, wait := true }
              { page_id := first, n_heap := 8 } 2 { table := 0 } (3 - first) true).2
            (joining_checker
              (lock_rec_create (two_trx_state first) { mode := LOCK_X, wait := true }
                { page_id := first, n_heap := 8 } 2 { table := 0 } (3 - first) true).2
              (lock_rec_create (two_trx_state first) { mode := LOCK_X, wait := true }
                { page_id := first, n_heap := 8 } 2 { table := 0 } (3 - first) true).1
              (3 - first))).map (fun r => (r.1, r.2.1.m_too_deep))
          = some (some 2, false))
    ∧ (lock_rec_enqueue_waiting env_ordering 10 (two_trx_state 1) { mode := LOCK_X }
          { page_id := 1, n_heap := 8 } 2 { table := 0 } 2).map (fun r => r.1)
        = some DB_DEADLOCK
    ∧ (lock_rec_enqueue_waiting env_ordering 10 (two_trx_state 2) { mode := LOCK_X }
          { page_id := 2, n_heap := 8 } 2 { table := 0 } 1).map
            (fun r => (r.1, (r.2.trx 2).error_state, (r.2.trx 2).wait_lock,
              (r.2.trx 1).error_state))
        = some (DB_LOCK_WAIT, DB_DEADLOCK, none, DB_SUCCESS) := by
  refine ⟨select_victim_cases s c, ?_, ?_, ?_, ?_, ?_, ?_⟩
  · intro h1 h2
    simp only [trx_t.edited_nontrans] at h1 h2
    simp [DeadlockChecker.select_victim, trx_weight_ge, h1, h2]
  · intro h1 h2
    simp only [trx_t.edited_nontrans] at h1 h2
    simp [DeadlockChecker.select_victim, trx_weight_ge, h1, h2]
  · intro h
    simp only [trx_t.edited_nontrans] at h
    refine ⟨?_, ?_, ?_⟩
    · intro hw
      simp [DeadlockChecker.select_victim, trx_weight_ge, h]
      omega
    · intro hw
      simp [DeadlockChecker.select_victim, trx_weight_ge, h]
      omega
    · intro hw
      simp [DeadlockChecker.select_victim, trx_weight_ge, h]
      omega
  · intro first hf
    rcases hf with rfl | rfl <;> decide
  · decide
  · decide

theorem select_victim_lighter_witness :
    DeadlockChecker.select_victim
        (lock_rec_create (two_trx_state 2) { mode := LOCK_X, wait := true }
          { page_id := 2, n_heap := 8 } 2 { table := 0 } 1 true).2
        { m_start := 1, m_wait_lock := 2, m_mark_start := 0 } = 2
    ∧ DeadlockChecker.select_victim
        (lock_rec_create (two_trx_state 1) { mode := LOCK_X, wait := true }
          { page_id := 1, n_heap := 8 } 2 { table := 0 } 2 true).2
        { m_start := 2, m_wait_lock := 2, m_mark_start := 0 } = 2
    ∧ DeadlockChecker.select_victim
        ((two_trx_state 2).set_trx 2
          { (two_trx_state 2).trx 2 with has_edited_nontrans_tables := true })
        { m_start := 1, m_wait_lock := 2, m_mark_start := 0 } = 1
    ∧ DeadlockChecker.select_victim
        ((two_trx_state 2).set_trx 2
          { (two_trx_state 2).trx 2 with has_edited_nontrans_tables := true })
        { m_start := 2, m_wait_lock := 0, m_mark_start := 0 } = 1 :=
  ⟨((select_victim_lighter
        (lock_rec_create (two_trx_state 2) { mode := LOCK_X, wait := true }
          { page_id := 2, n_heap := 8 } 2 { table := 0 } 1 true).2
        { m_start := 1, m_wait_lock := 2, m_mark_start := 0 }).2.2.2.1 (by decide)).2.1
      (by decide),
   ((select_victim_lighter
        (lock_rec_create (two_trx_state 1) { mode := LOCK_X, wait := true }
          { page_id := 1, n_heap := 8 } 2 { table := 0 } 2 true).2
        { m_start := 2, m_wait_lock := 2, m_mark_start := 0 }).2.2.2.1 (by decide)).1
      (by decide),
   (select_victim_lighter
        ((two_trx_state 2).set_trx 2
          { (two_trx_state 2).trx 2 with has_edited_nontrans_tables := true })
        { m_start := 1, m_wait_lock := 2, m_mark_start := 0 }).2.1 (by decide) (by decide),
   (select_victim_lighter
        ((two_trx_state 2).set_trx 2
          { (two_trx_state 2).trx 2 with has_edited_nontrans_tables := true })
        { m_start := 2, m_wait_lock := 0, m_mark_start := 0 }).2.2.1 (by decide) (by decide)⟩

/-- C13, counterexample: in `insert_timeout_state` transaction 1 holds a
granted `S | GAP` lock on the successor record and the session of
transaction 2 has a lock wait timeout of zero; the insert check of
transaction 2 returns `DB_LOCK_WAIT_TIMEOUT`, which is none of
`DB_SUCCESS`, `DB_LOCK_WAIT` and `DB_DEADLOCK`. -/
theorem insert_check_returns_wait_timeout :
    (lock_rec_insert_check_and_lock env_ordering 10 insert_timeout_state 5
        { page_id := 1, n_heap := 8 } { table := 0 } 2 false).map (fun r => r.err)
      = some DB_LOCK_WAIT_TIMEOUT := by
  decide

/-- C13, amended: every result of `lock_rec_insert_check_and_lock` is one
of `DB_SUCCESS`, `DB_LOCK_WAIT`, `DB_DEADLOCK` and `DB_LOCK_WAIT_TIMEOUT`,
never `DB_SUCCESS_LOCKED_REC`.  `DB_LOCK_WAIT_TIMEOUT` is returned exactly
when the index is not spatial, a lock of the queue conflicts with the
insert-intention request, and the transaction has a session whose lock
wait timeout is zero; in that case the call returns whatever the fuel,
and when the session has a nonzero timeout or there is no session the
result is `DB_SUCCESS`, `DB_LOCK_WAIT` or `DB_DEADLOCK`. -/
theorem insert_check_result_set (E : Env) (fuel : Nat) (s : lock_sys_t) (heap_no : Nat)
    (block : buf_block_t) (index : dict_index_t) (thr : Nat) (inherit_in : Bool) :
    (∀ r, lock_rec_insert_check_and_lock E fuel s heap_no block index thr inherit_in
          = some r →
        (r.err = DB_SUCCESS ∨ r.err = DB_LOCK_WAIT ∨ r.err = DB_DEADLOCK
          ∨ r.err = DB_LOCK_WAIT_TIMEOUT)
        ∧ r.err ≠ DB_SUCCESS_LOCKED_REC
        ∧ (r.err = DB_LOCK_WAIT_TIMEOUT ↔
            (index.is_spatial = false
              ∧ (lock_rec_other_has_conflicting E s insert_intention_mode block heap_no
                  thr).isSome = true
              ∧ (s.trx thr).mysql_thd = true ∧ (s.trx thr).lock_wait_timeout = 0)))
    ∧ (index.is_spatial = false →
        (lock_rec_other_has_conflicting E s insert_intention_mode block heap_no
          thr).isSome = true →
        (s.trx thr).mysql_thd = true → (s.trx thr).lock_wait_timeout = 0 →
        ∃ r, lock_rec_insert_check_and_lock E fuel s heap_no block index thr inherit_in
            = some r
          ∧ r.err = DB_LOCK_WAIT_TIMEOUT) := by
  have hq : ∀ c, lock_rec_other_has_conflicting E s insert_intention_mode block heap_no
      thr = some c → (lock_rec_queue s hash_id.rec_hash block.page_id heap_no).head? ≠ none := by
    intro c hc h0
    unfold lock_rec_other_has_conflicting at hc
    dsimp only at hc
    have hm := List.mem_of_find?_eq_some hc
    rw [List.head?_eq_none_iff] at h0
    rw [h0] at hm
    exact absurd hm (List.not_mem_nil _)
  constructor
  · intro r hr
    unfold lock_rec_insert_check_and_lock at hr
    dsimp only at hr
    split at hr
    · rename_i hh
      cases hr
      refine ⟨Or.inl rfl, by simp, ?_⟩
      constructor
      · intro h; cases h
      · rintro ⟨_, hc, _, _⟩
        rcases Option.isSome_iff_exists.mp hc with ⟨c, hc1⟩
        exact absurd hh (hq c hc1)
    · split at hr
      · rename_i hsp
        cases hr
        refine ⟨Or.inl rfl, by simp, ?_⟩
        constructor
        · intro h; cases h
        · rintro ⟨h1, _⟩
          rw [h1] at hsp
          cases hsp
      · rename_i hsp
        have hsp1 : index.is_spatial = false := by simpa using hsp
        split at hr
        · rename_i hc
          have hc1 : (lock_rec_other_has_conflicting E s insert_intention_mode block heap_no
              thr).isSome = true := hc
          cases he : lock_rec_enqueue_waiting E fuel s
              { mode := LOCK_X, gap := true, insert_intention := true } block heap_no index thr with
          | none => rw [he] at hr; cases hr
          | some p =>
            obtain ⟨err, s1⟩ := p
            rw [he] at hr
            simp only [Option.map_some', Option.some.injEq] at hr
            subst hr
            dsimp only
            rcases lock_rec_enqueue_waiting_cases E fuel s _ block heap_no index thr err s1 he
              with ⟨e1, ht⟩ | ⟨ht, v, s2, _, hcase⟩
            · subst e1
              simp only [Bool.and_eq_true, beq_iff_eq] at ht
              refine ⟨by simp, by simp, ?_⟩
              simp only [reduceCtorEq, if_false, true_iff]
              exact ⟨hsp1, hc1, ht.1, ht.2⟩
              done
            · have hnt : ¬ ((s.trx thr).mysql_thd = true ∧ (s.trx thr).lock_wait_timeout = 0) := by
                intro h
                simp [h.1, h.2] at ht
              rcases hcase with ⟨x, _, e1⟩ | ⟨_, _, e1, _⟩ | ⟨_, _, e1⟩
              · subst e1
                refine ⟨by simp, by simp, ?_⟩
                simp only [reduceCtorEq, if_false, false_iff]
                rintro ⟨_, _, h3, h4⟩
                exact hnt ⟨h3, h4⟩
              · subst e1
                refine ⟨by simp, by simp, ?_⟩
                simp only [if_true, reduceCtorEq, false_iff]
                rintro ⟨_, _, h3, h4⟩
                exact hnt ⟨h3, h4⟩
              · subst e1
                refine ⟨by simp, by simp, ?_⟩
                simp only [reduceCtorEq, if_false, false_iff]
                rintro ⟨_, _, h3, h4⟩
                exact hnt ⟨h3, h4⟩
        · rename_i hc
          simp only [Option.map_some', Option.some.injEq] at hr
          subst hr
          dsimp only
          refine ⟨by simp, by simp, ?_⟩
          simp only [reduceCtorEq, if_false, false_iff]
          rintro ⟨_, h2, _, _⟩
          exact hc h2
  · intro hsp hc h3 h4
    rcases Option.isSome_iff_exists.mp hc with ⟨c, hc1⟩
    have hh := hq c hc1
    have hc2 : (lock_rec_other_has_conflicting E s
        { mode := LOCK_X, gap := true, insert_intention := true } block heap_no
          thr).isSome = true := hc
    unfold lock_rec_insert_check_and_lock
    dsimp only
    cases hd : (lock_rec_queue s hash_id.rec_hash block.page_id heap_no).head? with
    | none => exact absurd hd hh
    | some f =>
      simp only [hsp, Bool.false_eq_true, if_false, hc2, if_true]
      simp [lock_rec_enqueue_waiting, h3, h4]

theorem insert_check_result_set_witness :
    (∃ r, lock_rec_insert_check_and_lock env_ordering 0 insert_timeout_state 5
        { page_id := 1, n_heap := 8 } { table := 0 } 2 false = some r
      ∧ r.err = DB_LOCK_WAIT_TIMEOUT)
    ∧ (∀ r, lock_rec_insert_check_and_lock env_no_detect 0 gap_state 5
          { page_id := 1, n_heap := 8 } { table := 0 } 2 false = some r →
        (r.err = DB_SUCCESS ∨ r.err = DB_LOCK_WAIT ∨ r.err = DB_DEADLOCK
          ∨ r.err = DB_LOCK_WAIT_TIMEOUT)) :=
  ⟨(insert_check_result_set env_ordering 0 insert_timeout_state 5
      { page_id := 1, n_heap := 8 } { table := 0 } 2 false).2 rfl (by decide) (by decide)
      (by decide),
   fun r hr => ((insert_check_result_set env_no_detect 0 gap_state 5
      { page_id := 1, n_heap := 8 } { table := 0 } 2 false).1 r hr).1⟩

theorem queues_shrink_refl (s : lock_sys_t) : queues_shrink s s :=
  ⟨fun _ => List.Sublist.refl _, fun _ => List.Sublist.refl _, fun _ => List.Sublist.refl _,
    fun _ => rfl⟩

theorem queues_shrink_trans {s s1 s2 : lock_sys_t} (h1 : queues_shrink s s1)
    (h2 : queues_shrink s1 s2) : queues_shrink s s2 :=
  ⟨fun k => (h2.hash k).trans (h1.hash k), fun tb => (h2.tbl tb).trans (h1.tbl tb),
    fun t => (h2.trx t).trans (h1.trx t), fun g => (h2.core g).trans (h1.core g)⟩

theorem queues_shrink_of_eq {s s1 : lock_sys_t} (h1 : ∀ k, s1.hash k = s.hash k)
    (h2 : ∀ tb, (s1.tbl tb).locks = (s.tbl tb).locks)
    (h3 : ∀ t, (s1.trx t).trx_locks = (s.trx t).trx_locks)
    (h4 : ∀ g, (s1.lock g).clear_wait = (s.lock g).clear_wait) : queues_shrink s s1 :=
  ⟨fun k => by rw [h1], fun tb => by rw [h2], fun t => by rw [h3], h4⟩

theorem queues_shrink_grant (s : lock_sys_t) (g : Nat) : queues_shrink s (lock_grant s g) := by
  refine queues_shrink_of_eq (fun k => lock_grant_hash s g k)
    (fun tb => (lock_grant_tbl s g tb).1) (fun t => lock_grant_trx_locks s g t) ?_
  intro x
  rw [lock_grant_lock]
  split
  · subst_vars; exact clear_wait_clear_wait _
  · rfl

theorem queues_shrink_foldl_rec_grant (E : Env) (l : List Nat) (s : lock_sys_t) :
    queues_shrink s (l.foldl (lock_rec_grant_step E) s) := by
  induction l generalizing s with
  | nil => exact queues_shrink_refl s
  | cons a l ih =>
    rw [List.foldl_cons]
    refine queues_shrink_trans ?_ (ih _)
    unfold lock_rec_grant_step
    split
    · exact queues_shrink_refl s
    · split
      · exact queues_shrink_grant s a
      · exact queues_shrink_refl s

theorem queues_shrink_foldl_table_grant (E : Env) (l : List Nat) (s : lock_sys_t) :
    queues_shrink s (l.foldl (lock_table_grant_step E) s) := by
  induction l generalizing s with
  | nil => exact queues_shrink_refl s
  | cons a l ih =>
    rw [List.foldl_cons]
    refine queues_shrink_trans ?_ (ih _)
    unfold lock_table_grant_step
    split
    · exact queues_shrink_grant s a
    · exact queues_shrink_refl s

theorem foldl_table_grant_lists (E : Env) (l : List Nat) (s : lock_sys_t) :
    (∀ tb, ((l.foldl (lock_table_grant_step E) s).tbl tb).locks = (s.tbl tb).locks)
    ∧ (∀ t, ((l.foldl (lock_table_grant_step E) s).trx t).trx_locks = (s.trx t).trx_locks) := by
  induction l generalizing s with
  | nil => exact ⟨fun _ => rfl, fun _ => rfl⟩
  | cons a l ih =>
    rw [List.foldl_cons]
    obtain ⟨i1, i2⟩ := ih (lock_table_grant_step E s a)
    have key : (∀ tb, ((lock_table_grant_step E s a).tbl tb).locks = (s.tbl tb).locks)
        ∧ (∀ t, ((lock_table_grant_step E s a).trx t).trx_locks = (s.trx t).trx_locks) := by
      unfold lock_table_grant_step
      split
      · exact ⟨fun tb => (lock_grant_tbl s a tb).1, fun t => lock_grant_trx_locks s a t⟩
      · exact ⟨fun _ => rfl, fun _ => rfl⟩
    exact ⟨fun tb => by rw [i1, key.1], fun t => by rw [i2, key.2]⟩

theorem foldl_rec_grant_tbl_locks (E : Env) (l : List Nat) (s : lock_sys_t) (tb : Nat) :
    ((l.foldl (lock_rec_grant_step E) s).tbl tb).locks = (s.tbl tb).locks := by
  induction l generalizing s with
  | nil => rfl
  | cons a l ih =>
    rw [List.foldl_cons, ih]
    unfold lock_rec_grant_step
    split
    · rfl
    · split
      · exact (lock_grant_tbl s a tb).1
      · rfl

theorem lock_table_remove_low_lists (s s1 : lock_sys_t) (lock : Nat)
    (h : lock_table_remove_low s lock = some s1) :
    (∀ tb, (s1.tbl tb).locks
        = if tb = (s.lock lock).table then (s.tbl tb).locks.erase lock else (s.tbl tb).locks)
    ∧ (∀ t, (s1.trx t).trx_locks
        = if t = (s.lock lock).trx then (s.trx t).trx_locks.erase lock
          else (s.trx t).trx_locks) := by
  unfold lock_table_remove_low at h
  simp only [Option.map_eq_some'] at h
  obtain ⟨s0, h0, rfl⟩ := h
  have key : (∀ tb, (s0.tbl tb).locks = (s.tbl tb).locks)
      ∧ (∀ t, (s0.trx t).trx_locks = (s.trx t).trx_locks) := by
    split at h0
    · simp only [Option.map_eq_some'] at h0
      obtain ⟨sa, ha, rfl⟩ := h0
      split at ha
      · simp only [Option.map_eq_some'] at ha
        obtain ⟨v, _, rfl⟩ := ha
        constructor
        · intro tb
          simp only [lock_sys_t.tbl_set_tbl, lock_sys_t.tbl_set_trx]
          split <;> simp_all
        · intro t
          simp only [lock_sys_t.trx_set_tbl, lock_sys_t.trx_set_trx]
          split <;> simp_all
      · cases ha
        constructor
        · intro tb
          simp only [lock_sys_t.tbl_set_tbl]
          split <;> simp_all
        · intro t; simp
    · cases h0
      constructor
      · intro tb
        simp only [lock_sys_t.tbl_set_tbl]
        split <;> simp_all
      · intro t; simp
    · cases h0
      constructor
      · intro tb
        simp only [lock_sys_t.tbl_set_tbl]
        split <;> simp_all
      · intro t; simp
    · cases h0; exact ⟨fun _ => rfl, fun _ => rfl⟩
  obtain ⟨k1, k2⟩ := key
  constructor
  · intro tb
    simp only [lock_sys_t.tbl_set_tbl, lock_sys_t.tbl_set_trx]
    split
    · subst_vars; simp [k1]
    · exact k1 tb
  · intro t
    simp only [lock_sys_t.trx_set_tbl, lock_sys_t.trx_set_trx]
    split
    · subst_vars; simp [k2]
    · exact k2 t

theorem queues_shrink_table_remove_low (s s1 : lock_sys_t) (lock : Nat)
    (h : lock_table_remove_low s lock = some s1) : queues_shrink s s1 := by
  obtain ⟨a, b⟩ := lock_table_remove_low_lists s s1 lock h
  obtain ⟨_, c, _, d⟩ := lock_table_remove_low_frame s s1 lock h
  refine ⟨fun k => by rw [d], ?_, ?_, fun g => by rw [c]⟩
  · intro tb
    rw [a]
    split
    · exact List.erase_sublist _ _
    · exact List.Sublist.refl _
  · intro t
    rw [b]
    split
    · exact List.erase_sublist _ _
    · exact List.Sublist.refl _

theorem lock_table_dequeue_lists (E : Env) (s s1 : lock_sys_t) (lock : Nat)
    (h : lock_table_dequeue E s lock = some s1) :
    queues_shrink s s1
    ∧ (s.lock lock).is_table = true
    ∧ (s1.tbl (s.lock lock).table).locks = ((s.tbl (s.lock lock).table).locks).erase lock
    ∧ (s1.trx (s.lock lock).trx).trx_locks = ((s.trx (s.lock lock).trx).trx_locks).erase lock := by
  unfold lock_table_dequeue at h
  dsimp only at h
  split at h
  · cases h
  · rename_i ht
    simp only [Option.map_eq_some'] at h
    obtain ⟨s0, h0, rfl⟩ := h
    have hs := queues_shrink_table_remove_low s s0 lock h0
    obtain ⟨a, b⟩ := lock_table_remove_low_lists s s0 lock h0
    have a1 := a (s.lock lock).table
    have b1 := b (s.lock lock).trx
    rw [if_pos rfl] at a1 b1
    have ht1 : (s.lock lock).is_table = true := by simpa using ht
    split
    · exact ⟨hs, ht1, a1, b1⟩
    · have hf := queues_shrink_foldl_table_grant E
        (((s.tbl (s.lock lock).table).locks.dropWhile (fun i => i != lock)).tail) s0
      have e1 := foldl_table_grant_lists E
        (((s.tbl (s.lock lock).table).locks.dropWhile (fun i => i != lock)).tail) s0
      exact ⟨queues_shrink_trans hs hf, ht1, by rw [e1.1, a1], by rw [e1.2, b1]⟩

theorem queues_shrink_table_locks_remove (s s1 : lock_sys_t) (lock : Nat)
    (h : lock_trx_table_locks_remove s lock = some s1) :
    queues_shrink s s1 ∧ (∀ tb, (s1.tbl tb).locks = (s.tbl tb).locks)
    ∧ (∀ t, (s1.trx t).trx_locks = (s.trx t).trx_locks) := by
  unfold lock_trx_table_locks_remove at h
  simp only [Option.map_eq_some'] at h
  obtain ⟨v, _, rfl⟩ := h
  have h3 : ∀ t, ((s.set_trx (s.lock lock).trx
      { s.trx (s.lock lock).trx with table_locks := v }).trx t).trx_locks
      = (s.trx t).trx_locks := by
    intro t
    simp only [lock_sys_t.trx_set_trx]
    split
    · subst_vars; rfl
    · rfl
  exact ⟨queues_shrink_of_eq (by simp) (by simp) h3 (by simp), by simp, h3⟩

theorem queues_shrink_autoinc_last_lock (E : Env) (s s1 : lock_sys_t) (trx : Nat)
    (h : lock_release_autoinc_last_lock E s trx = some s1) : queues_shrink s s1 := by
  unfold lock_release_autoinc_last_lock at h
  split at h
  · cases h
  · cases h
  · rename_i lock _
    simp only [Option.bind_eq_some] at h
    obtain ⟨s0, h0, h1⟩ := h
    exact queues_shrink_trans (lock_table_dequeue_lists E s s0 lock h0).1
      (queues_shrink_table_locks_remove s0 s1 lock h1).1

theorem queues_shrink_autoinc_locks (E : Env) (fuel : Nat) (s s1 : lock_sys_t) (trx : Nat)
    (h : lock_release_autoinc_locks E fuel s trx = some s1) : queues_shrink s s1 := by
  induction fuel generalizing s with
  | zero =>
    unfold lock_release_autoinc_locks at h
    split at h
    · cases h; exact queues_shrink_refl _
    · cases h
  | succ n ih =>
    unfold lock_release_autoinc_locks at h
    split at h
    · cases h; exact queues_shrink_refl _
    · simp only [Option.bind_eq_some] at h
      obtain ⟨s0, h0, h1⟩ := h
      exact queues_shrink_trans (queues_shrink_autoinc_last_lock E s s0 trx h0) (ih s0 h1)

theorem lock_rec_dequeue_lists (E : Env) (s : lock_sys_t) (lock : Nat) :
    (∀ k, (lock_rec_dequeue_from_page E s lock).hash k
        = if k = lock_hash_get (s.lock lock).type_mode then (s.hash k).erase lock
          else s.hash k)
    ∧ (∀ tb, ((lock_rec_dequeue_from_page E s lock).tbl tb).locks = (s.tbl tb).locks)
    ∧ (∀ t, ((lock_rec_dequeue_from_page E s lock).trx t).trx_locks
        = if t = (s.lock lock).trx then (s.trx t).trx_locks.erase lock
          else (s.trx t).trx_locks)
    ∧ (∀ g, ((lock_rec_dequeue_from_page E s lock).lock g).clear_wait
        = (s.lock g).clear_wait) := by
  rw [lock_rec_dequeue_from_page_eq]
  obtain ⟨r1, _, r3, _, _⟩ := lock_rec_dequeue_removed_spec s lock
  have hs := queues_shrink_foldl_rec_grant E
    ((lock_rec_dequeue_removed s lock).page_chain (lock_hash_get (s.lock lock).type_mode)
      (s.lock lock).page_id) (lock_rec_dequeue_removed s lock)
  refine ⟨?_, ?_, ?_, ?_⟩
  · intro k
    rw [foldl_grant_hash, lock_rec_dequeue_removed_hash]
  · intro tb
    rw [foldl_rec_grant_tbl_locks, r3]
  · intro t
    rw [foldl_grant_trx_locks, r1]
  · intro g
    rw [hs.core, lock_rec_dequeue_removed_lock]

theorem not_mem_of_sublist_erase {l l1 : List Nat} {x : Nat} (hn : l.Nodup)
    (h : l1.Sublist (l.erase x)) : x ∉ l1 := by
  intro hx
  have := h.subset hx
  exact (List.Nodup.not_mem_erase hn) this

theorem core_is_waiting_trx {a b : lock_t} (h : a.clear_wait = b.clear_wait) :
    a.trx = b.trx ∧ a.is_table = b.is_table ∧ a.table = b.table
    ∧ lock_hash_get a.type_mode = lock_hash_get b.type_mode := by
  have e1 := congrArg lock_t.trx h
  have e2 := congrArg lock_t.is_table h
  have e3 := congrArg lock_t.table h
  have e4 := congrArg (fun l => lock_hash_get l.type_mode) h
  exact ⟨e1, e2, e3, e4⟩

theorem lock_wait_end_trx_locks (s : lock_sys_t) (t u : Nat) :
    ((lock_wait_end s t).trx u).trx_locks = (s.trx u).trx_locks := by
  simp only [lock_wait_end, lock_sys_t.trx_set_trx]
  split
  · subst_vars; split <;> rfl
  · rfl

theorem lock_reset_trx_locks (s : lock_sys_t) (g t : Nat) :
    ((lock_reset_lock_and_trx_wait s g).trx t).trx_locks = (s.trx t).trx_locks := by
  rw [lock_reset_trx]
  split <;> rfl

theorem lock_reset_wait_lock (s : lock_sys_t) (g : Nat) :
    ((lock_reset_lock_and_trx_wait s g).trx (s.lock g).trx).wait_lock = none := by
  rw [lock_reset_trx, if_pos rfl]

theorem cancel_tail_spec (s2 : lock_sys_t) (w trx : Nat) (x : trx_t)
    (hx1 : x.trx_locks
      = ((lock_wait_end (lock_reset_lock_and_trx_wait s2 w) trx).trx trx).trx_locks)
    (hx2 : x.wait_lock
      = ((lock_wait_end (lock_reset_lock_and_trx_wait s2 w) trx).trx trx).wait_lock)
    (ht : (s2.lock w).trx = trx) :
    (∀ k, ((lock_wait_end (lock_reset_lock_and_trx_wait s2 w) trx).set_trx trx x).hash k
        = s2.hash k)
    ∧ (∀ tb, (((lock_wait_end (lock_reset_lock_and_trx_wait s2 w) trx).set_trx trx x).tbl
        tb).locks = (s2.tbl tb).locks)
    ∧ (∀ t, (((lock_wait_end (lock_reset_lock_and_trx_wait s2 w) trx).set_trx trx x).trx
        t).trx_locks = (s2.trx t).trx_locks)
    ∧ (((lock_wait_end (lock_reset_lock_and_trx_wait s2 w) trx).set_trx trx x).lock
        w).is_waiting = false
    ∧ (((lock_wait_end (lock_reset_lock_and_trx_wait s2 w) trx).set_trx trx x).trx
        trx).wait_lock = none := by
  refine ⟨?_, ?_, ?_, ?_, ?_⟩
  · intro k
    simp [lock_wait_end_hash, lock_reset_hash]
  · intro tb
    simp [lock_wait_end_tbl, lock_reset_tbl]
  · intro t
    simp only [lock_sys_t.trx_set_trx]
    split
    · subst_vars
      rw [hx1, lock_wait_end_trx_locks, lock_reset_trx_locks]
    · rw [lock_wait_end_trx_locks, lock_reset_trx_locks]
  · simp [lock_wait_end_lock, lock_reset_lock, clear_wait_is_waiting]
  · simp only [lock_sys_t.trx_set_trx, if_true]
    rw [hx2, lock_wait_end_wait_lock]
    subst ht
    exact lock_reset_wait_lock s2 w

theorem lock_cancel_removed (E : Env) (fuel : Nat) (s s1 : lock_sys_t) (w : Nat)
    (hn_hash : ∀ k, (s.hash k).Nodup) (hn_tbl : ∀ tb, (s.tbl tb).locks.Nodup)
    (hn_trx : (s.trx (s.lock w).trx).trx_locks.Nodup)
    (hash_ok : ∀ k, ∀ g ∈ s.hash k,
      (s.lock g).is_table = false ∧ lock_hash_get (s.lock g).type_mode = k)
    (tbl_ok : ∀ tb, ∀ g ∈ (s.tbl tb).locks,
      (s.lock g).is_table = true ∧ (s.lock g).table = tb)
    (h : lock_cancel_waiting_and_release E fuel s w = some s1) :
    (∀ k, w ∉ s1.hash k) ∧ (∀ tb, w ∉ (s1.tbl tb).locks)
    ∧ w ∉ (s1.trx (s.lock w).trx).trx_locks
    ∧ (s1.lock w).is_waiting = false
    ∧ (s1.trx (s.lock w).trx).wait_lock = none
    ∧ (s1.trx (s.lock w).trx).cancel = false := by
  unfold lock_cancel_waiting_and_release at h
  simp only [Option.map_eq_some'] at h
  obtain ⟨s2, h2, rfl⟩ := h
  have key : (s2.lock w).trx = (s.lock w).trx ∧ (∀ k, w ∉ s2.hash k)
      ∧ (∀ tb, w ∉ (s2.tbl tb).locks) ∧ w ∉ (s2.trx (s.lock w).trx).trx_locks := by
    split at h2
    · rename_i hr
      have hr1 : (s.lock w).is_table = false := by simpa using hr
      simp only [Option.some.injEq] at h2
      subst h2
      obtain ⟨a, b, c, d⟩ := lock_rec_dequeue_lists E
        (s.set_trx (s.lock w).trx { s.trx (s.lock w).trx with cancel := true }) w
      simp only [lock_sys_t.lock_set_trx, lock_sys_t.hash_set_trx,
        lock_sys_t.tbl_set_trx] at a b c d
      refine ⟨(core_is_waiting_trx (d w)).1, ?_, ?_, ?_⟩
      · intro k hk
        rw [a] at hk
        split at hk
        · exact List.Nodup.not_mem_erase (hn_hash k) hk
        · rename_i hne
          exact hne (hash_ok k w hk).2.symm
      · intro tb hm
        rw [b] at hm
        have := (tbl_ok tb w hm).1
        rw [hr1] at this
        cases this
      · rw [c, if_pos rfl]
        simp only [lock_sys_t.trx_set_trx, if_true]
        exact List.Nodup.not_mem_erase hn_trx
    · rename_i hr
      simp only [Option.bind_eq_some] at h2
      obtain ⟨sb, ⟨sa, ha, hb⟩, hc⟩ := h2
      have q1 := queues_shrink_autoinc_locks E fuel _ sa _ ha
      obtain ⟨q2, ht, e1, e2⟩ := lock_table_dequeue_lists E sa sb w hb
      obtain ⟨q3, f1, f2⟩ := queues_shrink_table_locks_remove sb s2 w hc
      have q0 : queues_shrink s
          (s.set_trx (s.lock w).trx { s.trx (s.lock w).trx with cancel := true }) := by
        refine queues_shrink_of_eq (by simp) (by simp) ?_ (by simp)
        intro t
        simp only [lock_sys_t.trx_set_trx]
        split
        · subst_vars; rfl
        · rfl
      have qa := queues_shrink_trans q0 q1
      have qs := queues_shrink_trans (queues_shrink_trans qa q2) q3
      obtain ⟨c1, c2, c3, _⟩ := core_is_waiting_trx (qa.core w)
      obtain ⟨d1, _, _, _⟩ := core_is_waiting_trx (qs.core w)
      have hts : (s.lock w).is_table = true := by rw [← c2]; exact ht
      refine ⟨d1, ?_, ?_, ?_⟩
      · intro k hk
        have := (hash_ok k w ((qs.hash k).subset hk)).1
        rw [hts] at this
        cases this
      · intro tb hm
        rw [f1] at hm
        by_cases htb : tb = (sa.lock w).table
        · subst htb
          rw [e1] at hm
          exact List.Nodup.not_mem_erase ((hn_tbl _).sublist (qa.tbl _)) hm
        · have hm1 := ((queues_shrink_trans qa q2).tbl tb).subset hm
          have := (tbl_ok tb w hm1).2
          rw [c3] at htb
          exact htb this.symm
      · rw [f2, ← c1, e2]
        have hnd : (sa.trx (sa.lock w).trx).trx_locks.Nodup := by
          rw [c1]
          exact hn_trx.sublist (qa.trx _)
        exact List.Nodup.not_mem_erase hnd
  obtain ⟨k0, k1, k2, k3⟩ := key
  obtain ⟨t1, t2, t3, t4, t5⟩ := cancel_tail_spec s2 w (s.lock w).trx
    { (lock_wait_end (lock_reset_lock_and_trx_wait s2 w) (s.lock w).trx).trx (s.lock w).trx with
      cancel := false } rfl rfl k0
  refine ⟨?_, ?_, ?_, t4, t5, by simp⟩
  · intro k; rw [t1]; exact k1 k
  · intro tb; rw [t2]; exact k2 tb
  · rw [t3]; exact k3

theorem lock_wait_end_table_locks (s : lock_sys_t) (t u : Nat) :
    ((lock_wait_end s t).trx u).table_locks = (s.trx u).table_locks := by
  simp only [lock_wait_end, lock_sys_t.trx_set_trx]
  split
  · subst_vars; split <;> rfl
  · rfl

theorem lock_grant_table_locks (s : lock_sys_t) (g t : Nat) :
    ((lock_grant s g).trx t).table_locks = (s.trx t).table_locks := by
  have hr : ∀ u, ((lock_reset_lock_and_trx_wait s g).trx u).table_locks
      = (s.trx u).table_locks := by
    intro u
    rw [lock_reset_trx]
    split <;> rfl
  unfold lock_grant
  dsimp only
  split
  · split
    · rw [lock_wait_end_table_locks]
      simp only [lock_sys_t.trx_set_trx, lock_sys_t.trx_set_tbl]
      split
      · subst_vars; exact hr _
      · exact hr _
    · simp only [lock_sys_t.trx_set_trx, lock_sys_t.trx_set_tbl]
      split
      · subst_vars; exact hr _
      · exact hr _
  · split
    · rw [lock_wait_end_table_locks]; exact hr _
    · exact hr _

theorem foldl_table_grant_table_locks (E : Env) (l : List Nat) (s : lock_sys_t) (t : Nat) :
    ((l.foldl (lock_table_grant_step E) s).trx t).table_locks = (s.trx t).table_locks := by
  induction l generalizing s with
  | nil => rfl
  | cons a l ih =>
    rw [List.foldl_cons, ih]
    unfold lock_table_grant_step
    split
    · exact lock_grant_table_locks s a t
    · rfl

theorem lock_table_remove_low_table_locks (s s1 : lock_sys_t) (lock : Nat)
    (h : lock_table_remove_low s lock = some s1) (t : Nat) :
    (s1.trx t).table_locks = (s.trx t).table_locks := by
  unfold lock_table_remove_low at h
  simp only [Option.map_eq_some'] at h
  obtain ⟨s0, h0, rfl⟩ := h
  have key : ∀ t, (s0.trx t).table_locks = (s.trx t).table_locks := by
    split at h0
    · simp only [Option.map_eq_some'] at h0
      obtain ⟨sa, ha, rfl⟩ := h0
      split at ha
      · simp only [Option.map_eq_some'] at ha
        obtain ⟨v, _, rfl⟩ := ha
        intro t
        simp only [lock_sys_t.trx_set_tbl, lock_sys_t.trx_set_trx]
        split <;> simp_all
      · cases ha
        intro t; simp
    · cases h0; intro t; simp
    · cases h0; intro t; simp
    · cases h0; exact fun _ => rfl
  simp only [lock_sys_t.trx_set_tbl, lock_sys_t.trx_set_trx]
  split
  · subst_vars; simp [key]
  · exact key t

theorem lock_table_dequeue_table_locks (E : Env) (s s1 : lock_sys_t) (lock : Nat)
    (h : lock_table_dequeue E s lock = some s1) (t : Nat) :
    (s1.trx t).table_locks = (s.trx t).table_locks := by
  unfold lock_table_dequeue at h
  dsimp only at h
  split at h
  · cases h
  · simp only [Option.map_eq_some'] at h
    obtain ⟨s0, h0, rfl⟩ := h
    have hs := lock_table_remove_low_table_locks s s0 lock h0 t
    split
    · exact hs
    · rw [foldl_table_grant_table_locks, hs]

theorem lock_table_remove_low_isSome (s : lock_sys_t) (lock : Nat)
    (h : (s.lock lock).mode = LOCK_AUTO_INC →
      (s.tbl (s.lock lock).table).autoinc_trx ≠ some (s.lock lock).trx) :
    ∃ s1, lock_table_remove_low s lock = some s1 := by
  unfold lock_table_remove_low
  dsimp only
  split
  · rename_i hm
    rw [if_neg (h hm)]
    exact ⟨_, rfl⟩
  · exact ⟨_, rfl⟩
  · exact ⟨_, rfl⟩
  · exact ⟨_, rfl⟩

theorem lock_cancel_returns (E : Env) (fuel : Nat) (s : lock_sys_t) (w : Nat)
    (h : (s.lock w).is_table = false
      ∨ ((s.trx (s.lock w).trx).autoinc_locks = []
          ∧ some w ∈ (s.trx (s.lock w).trx).table_locks
          ∧ ((s.lock w).mode = LOCK_AUTO_INC →
              (s.tbl (s.lock w).table).autoinc_trx ≠ some (s.lock w).trx))) :
    ∃ s1, lock_cancel_waiting_and_release E fuel s w = some s1 := by
  unfold lock_cancel_waiting_and_release
  dsimp only
  by_cases ht : (s.lock w).is_table = false
  · simp [ht]
  · rcases h with h | ⟨h1, h2, h3⟩
    · exact absurd h ht
    · have ht1 : (s.lock w).is_table = true := by simpa using ht
      have ha : lock_release_autoinc_locks E fuel
            (s.set_trx (s.lock w).trx { s.trx (s.lock w).trx with cancel := true })
            (s.lock w).trx
          = some (s.set_trx (s.lock w).trx { s.trx (s.lock w).trx with cancel := true }) := by
        cases fuel <;> simp [lock_release_autoinc_locks, h1]
      obtain ⟨s0, h0⟩ := lock_table_remove_low_isSome
        (s.set_trx (s.lock w).trx { s.trx (s.lock w).trx with cancel := true }) w
        (by simpa using h3)
      have hb : ∃ sb, lock_table_dequeue E
          (s.set_trx (s.lock w).trx { s.trx (s.lock w).trx with cancel := true }) w
          = some sb := by
        unfold lock_table_dequeue
        dsimp only
        simp only [lock_sys_t.lock_set_trx, ht1, Bool.not_true, Bool.false_eq_true, if_false]
        simp only [lock_sys_t.lock_set_trx] at h0
        rw [h0]
        exact ⟨_, rfl⟩
      obtain ⟨sb, hb⟩ := hb
      have htl := lock_table_dequeue_table_locks E _ sb w hb (s.lock w).trx
      have hcore := (lock_table_dequeue_lists E _ sb w hb).1.core w
      have htrx : (sb.lock w).trx = (s.lock w).trx := by
        have := (core_is_waiting_trx hcore).1
        simpa using this
      have hc : ∃ sc, lock_trx_table_locks_remove sb w = some sc := by
        unfold lock_trx_table_locks_remove
        dsimp only
        rw [htrx, htl]
        simp only [lock_sys_t.trx_set_trx, if_true]
        obtain ⟨r, hr, _⟩ := vector_null_first_spec w (s.trx (s.lock w).trx).table_locks h2
        rw [hr]
        exact ⟨_, rfl⟩
      obtain ⟨sc, hc⟩ := hc
      simp only [lock_sys_t.lock_set_trx, ht1, Bool.not_true, Bool.false_eq_true, if_false,
        ha, Option.some_bind, hb, hc, Option.map_some']
      exact ⟨_, rfl⟩

theorem lock_rec_add_to_queue_cases (s : lock_sys_t) (tm : type_mode_t)
    (block : buf_block_t) (heap_no : Nat) (index : dict_index_t) (trx : Nat) (b : Bool) :
    (∃ g, g ∈ s.page_chain (lock_hash_get (supremum_type_mode tm heap_no)) block.page_id
        ∧ (s.lock g).trx = trx ∧ (s.lock g).type_mode = supremum_type_mode tm heap_no
        ∧ lock_rec_get_n_bits (s.lock g) > heap_no
        ∧ (supremum_type_mode tm heap_no).wait = false
        ∧ lock_rec_add_to_queue s tm block heap_no index trx b
          = s.set_lock g (lock_rec_set_nth_bit (s.lock g) heap_no))
    ∨ lock_rec_add_to_queue s tm block heap_no index trx b
        = (lock_rec_create s (supremum_type_mode tm heap_no) block heap_no index trx b).2 := by
  unfold lock_rec_add_to_queue
  dsimp only
  generalize hq : (if heap_no = PAGE_HEAP_NO_SUPREMUM then
    ({ tm with gap := false, rec_not_gap := false } : type_mode_t) else tm) = tmq
  have e : supremum_type_mode tm heap_no = tmq := hq
  rw [e]
  split
  · right; rfl
  · split
    · rename_i hc
      split
      · rename_i g hg
        left
        have hm := List.mem_of_find?_eq_some hg
        have hp := List.find?_some hg
        simp only [Bool.and_eq_true, decide_eq_true_eq] at hp
        simp only [Bool.and_eq_true, Bool.not_eq_true', Bool.not_eq_eq_eq_not] at hc
        exact ⟨g, hm, hp.1.1, hp.1.2, hp.2, hc.2, rfl⟩
      · right; rfl
    · right; rfl
theorem get_nth_bit_set_eq (l : lock_t) (hn hn1 : Nat) (h : hn < lock_rec_get_n_bits l) :
    lock_rec_get_nth_bit (lock_rec_set_nth_bit l hn) hn1
      = (decide (hn1 = hn) || lock_rec_get_nth_bit l hn1) := by
  unfold lock_rec_get_nth_bit lock_rec_set_nth_bit lock_rec_get_n_bits at *
  simp only [List.getD_eq_getElem?_getD, List.getElem?_set]
  by_cases e : hn = hn1
  · subst e
    simp [h]
  · have e1 : ¬ hn1 = hn := fun x => e x.symm
    simp [e, e1]

theorem get_nth_bit_reset_eq (l : lock_t) (hn hn1 : Nat) :
    lock_rec_get_nth_bit (lock_rec_reset_nth_bit l hn) hn1
      = (!decide (hn1 = hn) && lock_rec_get_nth_bit l hn1) := by
  unfold lock_rec_get_nth_bit lock_rec_reset_nth_bit
  simp only [List.getD_eq_getElem?_getD, List.getElem?_set]
  by_cases e : hn = hn1
  · subst e
    by_cases h : hn < l.bitmap.length
    · simp [h]
    · simp [h]
  · have e1 : ¬ hn1 = hn := fun x => e x.symm
    simp [e, e1]

theorem get_nth_bit_fresh (n hn hn1 : Nat) (h : hn < n) :
    ((List.replicate n false).set hn true).getD hn1 false = decide (hn1 = hn) := by
  simp only [List.getD_eq_getElem?_getD, List.getElem?_set]
  by_cases e : hn = hn1
  · subst e
    simp [h]
  · have e1 : ¬ hn1 = hn := fun x => e x.symm
    simp [e, e1]

theorem lock_rec_create_trx (s : lock_sys_t) (type_mode : type_mode_t) (block : buf_block_t)
    (heap_no : Nat) (index : dict_index_t) (trx : Nat) (b : Bool)
    (hp : type_mode.predicate = false) (hpp : type_mode.prdt_page = false) (t : Nat) :
    (lock_rec_create s type_mode block heap_no index trx b).2.trx t
      = if t = trx then
          { s.trx t with
            wait_lock := if type_mode.wait then some s.n_locks else (s.trx t).wait_lock,
            trx_locks := (s.trx t).trx_locks ++ [s.n_locks] }
        else s.trx t := by
  have hst : (supremum_type_mode type_mode heap_no).predicate = false
      ∧ (supremum_type_mode type_mode heap_no).prdt_page = false
      ∧ (supremum_type_mode type_mode heap_no).wait = type_mode.wait := by
    unfold supremum_type_mode; split <;> simp [hp, hpp]
  have hh : lock_hash_get (supremum_type_mode type_mode heap_no) = hash_id.rec_hash := by
    simp [lock_hash_get, hst.1, hst.2.1]
  unfold lock_rec_create lock_rec_create_low
  rw [show (if heap_no = PAGE_HEAP_NO_SUPREMUM then
      ({ type_mode with gap := false, rec_not_gap := false } : type_mode_t) else type_mode)
      = supremum_type_mode type_mode heap_no from rfl]
  simp only [lock_sys_t.alloc_lock, hh, hst.1, hst.2.1, hst.2.2, Bool.or_self, Bool.not_false,
    ↓reduceIte]
  split <;> rename_i hw <;> by_cases ht : t = trx <;> simp [ht, hw]

theorem lock_rec_add_to_queue_added (s : lock_sys_t) (tm : type_mode_t)
    (block : buf_block_t) (heap_no : Nat) (index : dict_index_t) (trx : Nat) (b : Bool)
    (hp : tm.predicate = false) (hpp : tm.prdt_page = false)
    (hheap : heap_no < block.n_heap) :
    ∃ g, rec_added s (lock_rec_add_to_queue s tm block heap_no index trx b) g
      (supremum_type_mode tm heap_no) block.page_id heap_no trx := by
  have hst : (supremum_type_mode tm heap_no).predicate = false
      ∧ (supremum_type_mode tm heap_no).prdt_page = false := by
    unfold supremum_type_mode; split <;> simp [hp, hpp]
  have hh : lock_hash_get (supremum_type_mode tm heap_no) = hash_id.rec_hash := by
    simp [lock_hash_get, hst.1, hst.2]
  rcases lock_rec_add_to_queue_cases s tm block heap_no index trx b with
    ⟨g, hg, h1, h2, h3, h4, h5⟩ | h5
  · rw [hh] at hg
    have hg1 : g ∈ s.rec_hash ∧ (s.lock g).page_id = block.page_id := by
      simpa [lock_sys_t.page_chain, lock_sys_t.hash] using hg
    refine ⟨g, ?_⟩
    rw [h5]
    refine ⟨by simpa [lock_rec_set_nth_bit] using h1, by simpa [lock_rec_set_nth_bit] using h2,
      by simpa [lock_rec_set_nth_bit] using hg1.2, ?_, ?_, rfl, rfl⟩
    · intro x hx
      simp [hx]
    · left
      exact ⟨hg1.1, rfl, by simp, h1, h2, hg1.2, h3, h4, rfl, rfl, rfl⟩
  · obtain ⟨_, c2, c3, c4, _, _, c7⟩ :=
      lock_rec_create_spec s (supremum_type_mode tm heap_no) block heap_no index trx b
        hst.1 hst.2
    have ctrx := lock_rec_create_trx s (supremum_type_mode tm heap_no) block heap_no index
      trx b hst.1 hst.2
    rw [supremum_type_mode_idem] at c3
    refine ⟨s.n_locks, ?_⟩
    rw [h5]
    have hl := c3 s.n_locks
    rw [if_pos rfl] at hl
    refine ⟨by rw [hl], by rw [hl], by rw [hl], ?_, ?_, ?_, ?_⟩
    · intro x hx
      rw [c3, if_neg hx]
    · right
      refine ⟨rfl, ?_, ?_, c2, ctrx, c7⟩
      · have := c4 hash_id.rec_hash
        simpa [lock_sys_t.hash] using this
      · intro i
        rw [hl]
        exact get_nth_bit_fresh _ heap_no i (heap_no_lt_n_bits _ _ hheap)
    · have := c4 hash_id.prdt_hash
      simpa [lock_sys_t.hash] using this
    · have := c4 hash_id.prdt_page_hash
      simpa [lock_sys_t.hash] using this

theorem rec_added.bit {s s1 : lock_sys_t} {g : Nat} {tm : type_mode_t} {page hn trx : Nat}
    (h : rec_added s s1 g tm page hn trx) : lock_rec_get_nth_bit (s1.lock g) hn = true := by
  rcases h.cases with ⟨_, _, e, _, _, _, hl, _⟩ | ⟨_, _, e, _⟩
  · rw [e, get_nth_bit_set_eq _ _ _ hl]; simp
  · rw [e]; simp

theorem rec_added.mem {s s1 : lock_sys_t} {g : Nat} {tm : type_mode_t} {page hn trx : Nat}
    (h : rec_added s s1 g tm page hn trx) : g ∈ s1.rec_hash := by
  rcases h.cases with ⟨hm, e, _⟩ | ⟨_, e, _⟩
  · rw [e]; exact hm
  · rw [e]; simp

theorem rec_added.covered {s s1 : lock_sys_t} {g : Nat} {tm : type_mode_t}
    {page hn trx : Nat} (h : rec_added s s1 g tm page hn trx)
    (halloc : ∀ x ∈ s.rec_hash, x < s.n_locks) (x i : Nat) :
    rec_covered s1 x i ↔ (rec_covered s x i ∨ (x = g ∧ i = hn)) := by
  unfold rec_covered
  rcases h.cases with ⟨hm, e, el, _, _, _, hl, _⟩ | ⟨hg, e, eb, _⟩
  · rw [e]
    by_cases hx : x = g
    · subst hx
      rw [el, get_nth_bit_set_eq _ _ _ hl]
      simp only [Bool.or_eq_true, decide_eq_true_eq]
      constructor
      · rintro ⟨_, h1 | h1⟩
        · exact Or.inr ⟨trivial, h1⟩
        · exact Or.inl ⟨hm, h1⟩
      · rintro (⟨_, h1⟩ | ⟨_, h1⟩)
        · exact ⟨hm, Or.inr h1⟩
        · exact ⟨hm, Or.inl h1⟩
    · rw [h.others x hx]
      simp [hx]
  · rw [e]
    have hgn : g ∉ s.rec_hash := by
      intro hm
      have := halloc g hm
      omega
    by_cases hx : x = g
    · subst hx
      rw [eb]
      simp [hgn]
    · rw [h.others x hx]
      simp [hx]

theorem x_rec_not_gap_request : rec_request_mode x_rec_not_gap :=
  ⟨Or.inr rfl, rfl, rfl, rfl, rfl, rfl⟩

theorem convert_for_trx_spec (s : lock_sys_t) (block : buf_block_t) (index : dict_index_t)
    (holder heap_no : Nat)
    (hc : (s.trx holder).committed_in_memory = false)
    (he : lock_rec_has_expl s x_rec_not_gap block heap_no holder = none)
    (hu : heap_no ≠ PAGE_HEAP_NO_SUPREMUM) (hheap : heap_no < block.n_heap)
    (halloc : ∀ x ∈ s.rec_hash, x < s.n_locks) :
    (∃ g, rec_added s (lock_rec_convert_impl_to_expl_for_trx s block index holder heap_no) g
        x_rec_not_gap block.page_id heap_no holder
      ∧ ¬ rec_covered s g heap_no)
    ∧ lock_rec_convert_impl_to_expl_for_trx
        (lock_rec_convert_impl_to_expl_for_trx s block index holder heap_no) block index
        holder heap_no
      = lock_rec_convert_impl_to_expl_for_trx s block index holder heap_no := by
  have he1 : lock_rec_has_expl s { mode := LOCK_X, rec_not_gap := true } block heap_no holder
      = none := he
  have e1 : lock_rec_convert_impl_to_expl_for_trx s block index holder heap_no
      = lock_rec_add_to_queue s x_rec_not_gap block heap_no index holder true := by
    unfold lock_rec_convert_impl_to_expl_for_trx
    rw [hc, he1]
    rfl
  obtain ⟨g, hg⟩ := lock_rec_add_to_queue_added s x_rec_not_gap block heap_no index holder
    true rfl rfl hheap
  have hs : supremum_type_mode x_rec_not_gap heap_no = x_rec_not_gap := by
    unfold supremum_type_mode
    rw [if_neg hu]
  rw [hs, ← e1] at hg
  have hsome : (lock_rec_has_expl
      (lock_rec_convert_impl_to_expl_for_trx s block index holder heap_no) x_rec_not_gap
      block heap_no holder).isSome = true :=
    lock_rec_has_expl_of_lock _ x_rec_not_gap block heap_no holder g x_rec_not_gap_request
      hg.mem hg.lock_page hg.bit hg.lock_trx (Or.inl hg.lock_tm)
  refine ⟨⟨g, hg, ?_⟩, ?_⟩
  · intro hcov
    rcases hg.cases with ⟨hm, _, _, h1, h2, h3, _⟩ | ⟨hgn, _⟩
    · have := lock_rec_has_expl_of_lock s x_rec_not_gap block heap_no holder g
        x_rec_not_gap_request hm h3 hcov.2 h1 (Or.inl h2)
      rw [he] at this
      cases this
    · have := halloc g hcov.1
      omega
  · generalize lock_rec_convert_impl_to_expl_for_trx s block index holder heap_no = s1
      at hsome
    unfold lock_rec_convert_impl_to_expl_for_trx
    have h2 : (lock_rec_has_expl s1 { mode := LOCK_X, rec_not_gap := true } block heap_no
        holder).isSome = true := hsome
    rw [Option.isSome_iff_exists] at h2
    obtain ⟨a, ha⟩ := h2
    rw [ha]
    simp

theorem rec_added.trx_id {s s1 : lock_sys_t} {g : Nat} {tm : type_mode_t}
    {page hn trx : Nat} (h : rec_added s s1 g tm page hn trx) (t : Nat) :
    (s1.trx t).id = (s.trx t).id
    ∧ (s1.trx t).committed_in_memory = (s.trx t).committed_in_memory
    ∧ (s1.trx t).isolation_level = (s.trx t).isolation_level
    ∧ (s1.trx t).duplicates = (s.trx t).duplicates
    ∧ (s1.trx t).table_locks = (s.trx t).table_locks := by
  rcases h.cases with ⟨_, _, _, _, _, _, _, _, _, e, _⟩ | ⟨_, _, _, _, e, _⟩
  · have : s1.trx t = s.trx t := by
      unfold lock_sys_t.trx
      rw [e]
    rw [this]
    exact ⟨rfl, rfl, rfl, rfl, rfl⟩
  · rw [e]
    split <;> exact ⟨rfl, rfl, rfl, rfl, rfl⟩

/-- C15: `lock_rec_convert_impl_to_expl` returns true and the unchanged
lock system when the implicit lock holder found is the caller (the
transaction id of a clustered index record is the id of the caller, or
the transaction found for a secondary index record is the caller).  When
the holder is another transaction that is not committed and
`lock_rec_has_expl` finds no granted lock of it at `X | REC_NOT_GAP` on
the user record, the call returns false and adds exactly one record lock
on the heap number: the granted `X | REC_NOT_GAP` request of the holder is
set in one lock `g` (`rec_added`), `g` did not cover the heap number
before, and the pairs of lock and heap number covered afterwards are
those covered before and (`g`, `heap_no`); a second call in the resulting
state returns false and changes nothing.  When `trx_sys.find` returns a
transaction with the id asked for, a call changes nothing or adds a
request of a transaction other than the caller. -/
theorem lock_rec_convert_impl_to_expl_spec (I : ImplEnv) (s : lock_sys_t) (caller : Nat)
    (block : buf_block_t) (heap_no : Nat) (index : dict_index_t) :
    (((index.is_clust = true ∧ I.lock_clust_rec_some_has_impl block heap_no index ≠ 0
          ∧ I.lock_clust_rec_some_has_impl block heap_no index = (s.trx caller).id)
        ∨ (index.is_clust = false
          ∧ I.lock_sec_rec_some_has_impl caller block heap_no index = some caller)) →
      lock_rec_convert_impl_to_expl I s caller block heap_no index = (true, s))
    ∧ (∀ holder,
        ((index.is_clust = true ∧ I.lock_clust_rec_some_has_impl block heap_no index ≠ 0
            ∧ I.lock_clust_rec_some_has_impl block heap_no index ≠ (s.trx caller).id
            ∧ I.trx_sys_find (I.lock_clust_rec_some_has_impl block heap_no index)
                = some holder)
          ∨ (index.is_clust = false
            ∧ I.lock_sec_rec_some_has_impl caller block heap_no index = some holder
            ∧ holder ≠ caller)) →
        (s.trx holder).committed_in_memory = false →
        lock_rec_has_expl s x_rec_not_gap block heap_no holder = none →
        heap_no ≠ PAGE_HEAP_NO_SUPREMUM → heap_no < block.n_heap →
        (∀ x ∈ s.rec_hash, x < s.n_locks) →
        (lock_rec_convert_impl_to_expl I s caller block heap_no index).1 = false
        ∧ (∃ g, rec_added s (lock_rec_convert_impl_to_expl I s caller block heap_no index).2 g
              x_rec_not_gap block.page_id heap_no holder
            ∧ ¬ rec_covered s g heap_no
            ∧ ∀ x i,
                rec_covered (lock_rec_convert_impl_to_expl I s caller block heap_no index).2
                  x i ↔ (rec_covered s x i ∨ (x = g ∧ i = heap_no)))
        ∧ lock_rec_convert_impl_to_expl I
            (lock_rec_convert_impl_to_expl I s caller block heap_no index).2 caller block
            heap_no index
          = (false, (lock_rec_convert_impl_to_expl I s caller block heap_no index).2))
    ∧ ((∀ i t, I.trx_sys_find i = some t → (s.trx t).id = i) → heap_no < block.n_heap →
        (lock_rec_convert_impl_to_expl I s caller block heap_no index).2 = s
        ∨ ∃ g holder, holder ≠ caller
            ∧ rec_added s (lock_rec_convert_impl_to_expl I s caller block heap_no index).2 g
                (supremum_type_mode x_rec_not_gap heap_no) block.page_id heap_no holder) := by
  refine ⟨?_, ?_, ?_⟩
  · rintro (⟨h1, h2, h3⟩ | ⟨h1, h2⟩)
    · have h4 : (s.trx caller).id ≠ 0 := h3 ▸ h2
      simp [lock_rec_convert_impl_to_expl, h1, h3, h4]
    · simp [lock_rec_convert_impl_to_expl, h1, h2]
  · intro holder hh hc he hu hheap halloc
    have e1 : lock_rec_convert_impl_to_expl I s caller block heap_no index
        = (false, lock_rec_convert_impl_to_expl_for_trx s block index holder heap_no) := by
      rcases hh with ⟨h1, h2, h3, h4⟩ | ⟨h1, h2, h3⟩
      · simp [lock_rec_convert_impl_to_expl, h1, h2, h3, h4]
      · simp [lock_rec_convert_impl_to_expl, h1, h2, h3]
    obtain ⟨⟨g, hg, hn⟩, hidem⟩ := convert_for_trx_spec s block index holder heap_no hc he hu
      hheap halloc
    rw [e1]
    refine ⟨rfl, ⟨g, hg, hn, hg.covered halloc⟩, ?_⟩
    dsimp only
    have hid := (hg.trx_id caller).1
    rcases hh with ⟨h1, h2, h3, h4⟩ | ⟨h1, h2, h3⟩
    · simp only [lock_rec_convert_impl_to_expl, h1, h2, h4, hid, h3, if_true, if_false]
      rw [hidem]
    · simp only [lock_rec_convert_impl_to_expl, h1, h2, Bool.false_eq_true, if_false,
        Option.some.injEq, h3]
      rw [hidem]
  · intro hfind hheap
    have key : ∀ t, t ≠ caller →
        lock_rec_convert_impl_to_expl_for_trx s block index t heap_no = s
        ∨ ∃ g holder, holder ≠ caller
            ∧ rec_added s (lock_rec_convert_impl_to_expl_for_trx s block index t heap_no) g
                (supremum_type_mode x_rec_not_gap heap_no) block.page_id heap_no holder := by
      intro t hne
      by_cases hcnd : (!(s.trx t).committed_in_memory
        && (lock_rec_has_expl s { mode := LOCK_X, rec_not_gap := true } block heap_no
              t).isNone) = true
      · right
        have e : lock_rec_convert_impl_to_expl_for_trx s block index t heap_no
            = lock_rec_add_to_queue s x_rec_not_gap block heap_no index t true := by
          unfold lock_rec_convert_impl_to_expl_for_trx
          rw [if_pos hcnd]
          rfl
        rw [e]
        obtain ⟨g, hg⟩ := lock_rec_add_to_queue_added s x_rec_not_gap block heap_no index
          t true rfl rfl hheap
        exact ⟨g, t, hne, hg⟩
      · left
        unfold lock_rec_convert_impl_to_expl_for_trx
        rw [if_neg hcnd]
    unfold lock_rec_convert_impl_to_expl
    dsimp only
    split
    · split
      · left; rfl
      · split
        · left; rfl
        · rename_i h0 hid
          cases hf : I.trx_sys_find (I.lock_clust_rec_some_has_impl block heap_no index) with
          | none => left; rfl
          | some t =>
            dsimp only
            apply key
            intro ht
            subst ht
            exact hid (hfind _ _ hf).symm
    · split
      · left; rfl
      · rename_i hne
        cases hf : I.lock_sec_rec_some_has_impl caller block heap_no index with
        | none => left; rfl
        | some t =>
          dsimp only
          apply key
          intro ht
          subst ht
          exact hne hf

theorem lock_rec_convert_impl_to_expl_spec_witness :
    lock_rec_convert_impl_to_expl impl_env_two impl_state 2 { page_id := 1, n_heap := 8 } 5
        { table := 0 } = (true, impl_state)
    ∧ (lock_rec_convert_impl_to_expl impl_env_two impl_state 1 { page_id := 1, n_heap := 8 } 5
        { table := 0 }).1 = false
    ∧ lock_rec_convert_impl_to_expl impl_env_two
        (lock_rec_convert_impl_to_expl impl_env_two impl_state 1
          { page_id := 1, n_heap := 8 } 5 { table := 0 }).2 1
        { page_id := 1, n_heap := 8 } 5 { table := 0 }
      = (false, (lock_rec_convert_impl_to_expl impl_env_two impl_state 1
          { page_id := 1, n_heap := 8 } 5 { table := 0 }).2) :=
  ⟨(lock_rec_convert_impl_to_expl_spec impl_env_two impl_state 2
      { page_id := 1, n_heap := 8 } 5 { table := 0 }).1 (Or.inl ⟨rfl, by decide, by decide⟩),
   ((lock_rec_convert_impl_to_expl_spec impl_env_two impl_state 1
      { page_id := 1, n_heap := 8 } 5 { table := 0 }).2.1 2
      (Or.inl ⟨rfl, by decide, by decide, by decide⟩) (by decide) (by decide) (by decide)
      (by decide) (by decide)).1,
   ((lock_rec_convert_impl_to_expl_spec impl_env_two impl_state 1
      { page_id := 1, n_heap := 8 } 5 { table := 0 }).2.1 2
      (Or.inl ⟨rfl, by decide, by decide, by decide⟩) (by decide) (by decide) (by decide)
      (by decide) (by decide)).2.2⟩

theorem dropWhile_ne_cons (x a : Nat) (T : List Nat) (h : x ≠ a) :
    (x :: T).dropWhile (fun i => i != a) = T.dropWhile (fun i => i != a) := by
  simp [List.dropWhile_cons, h]

theorem dropWhile_eq_cons (a : Nat) (T : List Nat) :
    (a :: T).dropWhile (fun i => i != a) = a :: T := by
  simp [List.dropWhile_cons]

theorem filter_tail_dropWhile (f : Nat → Bool) (T : List Nat) (a : Nat) (q : List Nat)
    (h : T.filter f = a :: q) : ((T.dropWhile (fun i => i != a)).tail).filter f = q := by
  induction T with
  | nil => simp at h
  | cons x T ih =>
    by_cases hx : f x = true
    · rw [List.filter_cons_of_pos hx] at h
      injection h with h1 h2
      subst h1
      simp [List.dropWhile_cons, h2]
    · rw [List.filter_cons_of_neg hx] at h
      have ha : f a = true := by
        have : a ∈ T.filter f := by rw [h]; simp
        exact (List.mem_filter.mp this).2
      have hne : x ≠ a := by
        intro e; subst e; exact hx ha
      rw [dropWhile_ne_cons x a T hne]
      exact ih h

theorem dropWhile_tail_of_mem (H : List Nat) (l a : Nat) (hn : H.Nodup)
    (ha : a ∈ (H.dropWhile (fun i => i != l)).tail) :
    (H.dropWhile (fun i => i != a)).tail
      = (((H.dropWhile (fun i => i != l)).tail).dropWhile (fun i => i != a)).tail := by
  induction H with
  | nil => simp at ha
  | cons x H ih =>
    have hnd := List.nodup_cons.mp hn
    by_cases hx : x = l
    · subst hx
      rw [dropWhile_eq_cons x H] at ha ⊢
      simp only [List.tail_cons] at ha ⊢
      have hne : x ≠ a := by
        intro e2; subst e2; exact hnd.1 ha
      rw [dropWhile_ne_cons x a H hne]
    · rw [dropWhile_ne_cons x l H hx] at ha ⊢
      have haH : a ∈ H := by
        have := List.mem_of_mem_tail ha
        exact (List.dropWhile_sublist _).subset this
      have hne : x ≠ a := by
        intro e2; subst e2; exact hnd.1 haH
      rw [dropWhile_ne_cons x a H hne]
      exact ih hnd.2 ha

theorem mem_tail_dropWhile (H : List Nat) (l x : Nat) (hn : H.Nodup)
    (hx : x ∈ (H.dropWhile (fun i => i != l)).tail) : x ∈ H ∧ x ≠ l := by
  induction H with
  | nil => simp at hx
  | cons y H ih =>
    have hnd := List.nodup_cons.mp hn
    by_cases hy : y = l
    · subst hy
      have e : ((y :: H).dropWhile (fun i => i != y)) = y :: H := dropWhile_eq_cons y H
      rw [e] at hx
      simp only [List.tail_cons] at hx
      refine ⟨List.mem_cons_of_mem _ hx, ?_⟩
      intro e2; subst e2; exact hnd.1 hx
    · rw [dropWhile_ne_cons y l H hy] at hx
      have := ih hnd.2 hx
      exact ⟨List.mem_cons_of_mem _ this.1, this.2⟩

theorem dropWhile_append_of_mem (H e : List Nat) (l : Nat) (hl : l ∈ H) :
    ((H ++ e).dropWhile (fun i => i != l)).tail
      = (H.dropWhile (fun i => i != l)).tail ++ e := by
  induction H with
  | nil => simp at hl
  | cons y H ih =>
    by_cases hy : y = l
    · subst hy
      simp [List.dropWhile_cons]
    · rw [List.cons_append, dropWhile_ne_cons y l _ hy, dropWhile_ne_cons y l _ hy]
      have : l ∈ H := by
        rcases List.mem_cons.mp hl with h | h
        · exact absurd h.symm hy
        · exact h
      exact ih this

theorem lock_rec_queue_eq_filter (s : lock_sys_t) (k : hash_id) (p hn : Nat) :
    lock_rec_queue s k p hn = (s.hash k).filter (on_rec s p hn) := by
  unfold lock_rec_queue lock_sys_t.page_chain
  rw [List.filter_filter]
  apply List.filter_congr
  intro x _
  unfold on_rec
  rw [Bool.and_comm]

theorem lock_rec_next_locks_eq (s : lock_sys_t) (hn l : Nat) :
    lock_rec_next_locks s (some hn) l
      = rest_queue s (lock_hash_get (s.lock l).type_mode) (s.lock l).page_id hn l := rfl

theorem rest_queue_step {k : hash_id} {p hn l : Nat} {s s1 : lock_sys_t}
    (wf : chain_wf s k) (hl : l ∈ s.hash k) (h : queue_step k p hn l s s1) :
    rest_queue s1 k p hn l = rest_queue s k p hn l := by
  obtain ⟨e, he, hext⟩ := h.ext
  unfold rest_queue
  rw [he, dropWhile_append_of_mem _ _ _ hl, List.filter_append]
  have h1 : e.filter (on_rec s1 p hn) = [] := by
    rw [List.filter_eq_nil_iff]
    intro x hx
    rw [hext x hx]
    simp
  rw [h1, List.append_nil]
  apply List.filter_congr
  intro x hx
  obtain ⟨hm, hne⟩ := mem_tail_dropWhile _ _ _ wf.nodup hx
  exact h.keep x hm hne

theorem rest_queue_next {k : hash_id} {p hn l a : Nat} {q : List Nat} {s : lock_sys_t}
    (wf : chain_wf s k) (h : rest_queue s k p hn l = a :: q) :
    a ∈ s.hash k ∧ a ≠ l ∧ on_rec s p hn a = true ∧ rest_queue s k p hn a = q := by
  have ha : a ∈ rest_queue s k p hn l := by rw [h]; simp
  unfold rest_queue at ha
  obtain ⟨ha1, ha2⟩ := List.mem_filter.mp ha
  obtain ⟨hm, hne⟩ := mem_tail_dropWhile _ _ _ wf.nodup ha1
  refine ⟨hm, hne, ha2, ?_⟩
  unfold rest_queue at h ⊢
  rw [dropWhile_tail_of_mem _ l a wf.nodup ha1]
  exact filter_tail_dropWhile _ _ _ _ h

theorem rest_queue_mem {k : hash_id} {p hn l x : Nat} {s : lock_sys_t}
    (wf : chain_wf s k) (hx : x ∈ rest_queue s k p hn l) :
    x ∈ s.hash k ∧ x ≠ l ∧ on_rec s p hn x = true := by
  unfold rest_queue at hx
  obtain ⟨h1, h2⟩ := List.mem_filter.mp hx
  obtain ⟨hm, hne⟩ := mem_tail_dropWhile _ _ _ wf.nodup h1
  exact ⟨hm, hne, h2⟩

theorem on_rec_page {s : lock_sys_t} {p hn x : Nat} (h : on_rec s p hn x = true) :
    (s.lock x).page_id = p ∧ lock_rec_get_nth_bit (s.lock x) hn = true := by
  unfold on_rec at h
  simpa using h

theorem queue_step.mem_chain {k : hash_id} {p hn l : Nat} {s s1 : lock_sys_t}
    (h : queue_step k p hn l s s1) {x : Nat} (hx : x ∈ s.hash k) : x ∈ s1.hash k := by
  obtain ⟨e, he, _⟩ := h.ext
  rw [he]
  exact List.mem_append_left _ hx

theorem lock_rec_queue_loop_some (body : lock_sys_t → Nat → Option lock_sys_t)
    (hn fuel : Nat) (s s1 : lock_sys_t) (l : Nat) (h : body s l = some s1) :
    lock_rec_queue_loop body hn (fuel + 1) s (some l)
      = lock_rec_queue_loop body hn fuel s1 (lock_rec_get_next s1 (some hn) l) := by
  rw [lock_rec_queue_loop, h]
  rfl

theorem lock_rec_queue_loop_none (body : lock_sys_t → Nat → Option lock_sys_t)
    (hn fuel : Nat) (s : lock_sys_t) :
    lock_rec_queue_loop body hn fuel s none = some s := by
  cases fuel <;> rfl

theorem queue_loop_rule_aux (body : lock_sys_t → Nat → Option lock_sys_t) (k : hash_id)
    (p hn : Nat) (I : List Nat → lock_sys_t → Prop)
    (hstep : ∀ (rest : List Nat) (l : Nat) (s : lock_sys_t), chain_wf s k → l ∈ s.hash k →
      on_rec s p hn l = true → rest_queue s k p hn l = rest → I (l :: rest) s →
      ∃ s1, body s l = some s1 ∧ queue_step k p hn l s s1 ∧ I rest s1) :
    ∀ (rest : List Nat) (s : lock_sys_t) (l fuel : Nat), chain_wf s k → l ∈ s.hash k →
      on_rec s p hn l = true → rest_queue s k p hn l = rest → I (l :: rest) s →
      rest.length < fuel →
      ∃ s1, lock_rec_queue_loop body hn fuel s (some l) = some s1 ∧ I [] s1
        ∧ chain_wf s1 k := by
  intro rest
  induction rest with
  | nil =>
    intro s l fuel wf hl hon hr hI hf
    obtain ⟨s1, hb, hq, hI1⟩ := hstep [] l s wf hl hon hr hI
    obtain ⟨f, rfl⟩ : ∃ f, fuel = f + 1 := ⟨fuel - 1, by simp at hf; omega⟩
    rw [lock_rec_queue_loop_some body hn f s s1 l hb]
    have hk : lock_hash_get (s1.lock l).type_mode = k := hq.wf.kind l (hq.mem_chain hl)
    have hp : (s1.lock l).page_id = p := by rw [hq.page]; exact (on_rec_page hon).1
    have hnext : lock_rec_get_next s1 (some hn) l = none := by
      unfold lock_rec_get_next
      rw [lock_rec_next_locks_eq, hk, hp, rest_queue_step wf hl hq, hr]
      rfl
    rw [hnext, lock_rec_queue_loop_none]
    exact ⟨s1, rfl, hI1, hq.wf⟩
  | cons a q ih =>
    intro s l fuel wf hl hon hr hI hf
    obtain ⟨s1, hb, hq, hI1⟩ := hstep (a :: q) l s wf hl hon hr hI
    obtain ⟨f, rfl⟩ : ∃ f, fuel = f + 1 := ⟨fuel - 1, by simp at hf; omega⟩
    rw [lock_rec_queue_loop_some body hn f s s1 l hb]
    have hk : lock_hash_get (s1.lock l).type_mode = k := hq.wf.kind l (hq.mem_chain hl)
    have hp : (s1.lock l).page_id = p := by rw [hq.page]; exact (on_rec_page hon).1
    have hr1 : rest_queue s1 k p hn l = a :: q := by rw [rest_queue_step wf hl hq, hr]
    have hnext : lock_rec_get_next s1 (some hn) l = some a := by
      unfold lock_rec_get_next
      rw [lock_rec_next_locks_eq, hk, hp, hr1]
      rfl
    rw [hnext]
    obtain ⟨n1, _, n3, n4⟩ := rest_queue_next hq.wf hr1
    exact ih s1 a f hq.wf n1 n3 n4 hI1 (by simp at hf; omega)

theorem queue_loop_rule (body : lock_sys_t → Nat → Option lock_sys_t) (k : hash_id)
    (block : buf_block_t) (hn : Nat) (I : List Nat → lock_sys_t → Prop)
    (hstep : ∀ (rest : List Nat) (l : Nat) (s : lock_sys_t), chain_wf s k → l ∈ s.hash k →
      on_rec s block.page_id hn l = true → rest_queue s k block.page_id hn l = rest →
      I (l :: rest) s →
      ∃ s1, body s l = some s1 ∧ queue_step k block.page_id hn l s s1 ∧ I rest s1)
    (s : lock_sys_t) (fuel : Nat) (wf : chain_wf s k)
    (hI : I (lock_rec_queue s k block.page_id hn) s)
    (hf : (lock_rec_queue s k block.page_id hn).length ≤ fuel) :
    ∃ s1, lock_rec_queue_loop body hn fuel s (lock_rec_get_first s k block hn) = some s1
      ∧ I [] s1 ∧ chain_wf s1 k := by
  unfold lock_rec_get_first
  cases hq : lock_rec_queue s k block.page_id hn with
  | nil =>
    rw [hq] at hI
    rw [List.head?_nil, lock_rec_queue_loop_none]
    exact ⟨s, rfl, hI, wf⟩
  | cons l rest =>
    rw [hq] at hI hf
    rw [List.head?_cons]
    have hq1 := hq
    rw [lock_rec_queue_eq_filter] at hq1
    have hl : l ∈ (s.hash k).filter (on_rec s block.page_id hn) := by rw [hq1]; simp
    obtain ⟨hl1, hl2⟩ := List.mem_filter.mp hl
    have hr : rest_queue s k block.page_id hn l = rest :=
      filter_tail_dropWhile _ _ _ _ hq1
    exact queue_loop_rule_aux body k block.page_id hn I hstep rest s l fuel wf hl1 hl2 hr hI
      (by simp at hf; omega)

theorem heir_frame_refl (ph hh : Nat) (s : lock_sys_t)
    (halloc : ∀ x ∈ s.rec_hash, x < s.n_locks) : heir_frame ph hh s s :=
  ⟨Nat.le_refl _, fun _ h => h, fun _ h1 h2 => absurd h1 h2,
    fun _ _ => ⟨rfl, rfl, rfl, rfl, rfl⟩, fun _ _ _ _ => rfl, fun _ _ _ h => h,
    fun x hx hle => absurd (halloc x hx) (by omega),
    fun _ => ⟨rfl, rfl, rfl, rfl⟩, rfl, rfl, fun _ => rfl,
    ⟨[], (List.append_nil _).symm, fun x hx => absurd hx (List.not_mem_nil _)⟩,
    fun _ _ _ => rfl, fun _ _ _ => rfl⟩

theorem heir_frame_trans {ph hh : Nat} {s s1 s2 : lock_sys_t} (h1 : heir_frame ph hh s s1)
    (h2 : heir_frame ph hh s1 s2) : heir_frame ph hh s s2 := by
  refine ⟨Nat.le_trans h1.n_locks h2.n_locks, fun x hx => h2.mem x (h1.mem x hx), ?_, ?_, ?_,
    ?_, ?_, ?_, by rw [h2.prdt, h1.prdt], by rw [h2.prdt_page, h1.prdt_page],
    fun tb => by rw [h2.tbl, h1.tbl], ?_, ?_, ?_⟩
  rotate_right
  · intro x hx hw
    have hx1 : x < s1.n_locks := Nat.lt_of_lt_of_le hx h1.n_locks
    have e1 := h1.waiting x hx hw
    rw [h2.waiting x hx1 (by rw [e1]; exact hw), e1]
  rotate_right
  · intro x hx hn
    have hx1 : x < s1.n_locks := Nat.lt_of_lt_of_le hx h1.n_locks
    have hn1 : x ∉ s1.rec_hash := by
      intro hm
      have := h1.fresh x hm hn
      omega
    rw [h2.other x hx1 hn1, h1.other x hx hn]
  rotate_right
  · obtain ⟨e1, he1, hl1⟩ := h1.ext
    obtain ⟨e2, he2, hl2⟩ := h2.ext
    refine ⟨e1 ++ e2, by rw [he2, he1, List.append_assoc], ?_⟩
    intro x hx
    rcases List.mem_append.mp hx with a | a
    · exact hl1 x a
    · exact Nat.le_trans h1.n_locks (hl2 x a)
  · intro x hx hn
    by_cases hx1 : x ∈ s1.rec_hash
    · exact h1.fresh x hx1 hn
    · exact Nat.le_trans h1.n_locks (h2.fresh x hx hx1)
  · intro x hx
    have hx1 : x < s1.n_locks := Nat.lt_of_lt_of_le hx h1.n_locks
    obtain ⟨a1, a2, a3, a4, a5⟩ := h1.attr x hx
    obtain ⟨b1, b2, b3, b4, b5⟩ := h2.attr x hx1
    exact ⟨b1.trans a1, b2.trans a2, b3.trans a3, b4.trans a4, b5.trans a5⟩
  · intro x hx i hi
    have hx1 : x < s1.n_locks := Nat.lt_of_lt_of_le hx h1.n_locks
    rw [h2.bits x hx1 i (by rw [(h1.attr x hx).2.2.1]; exact hi), h1.bits x hx i hi]
  · intro x hx i hi
    have hx1 : x < s1.n_locks := Nat.lt_of_lt_of_le hx h1.n_locks
    exact h2.grow x hx1 i (h1.grow x hx i hi)
  · intro x hx hle
    by_cases hx1 : x < s1.n_locks
    · have hm : x ∈ s1.rec_hash := by
        by_contra hc
        have := h2.fresh x hx hc
        omega
      obtain ⟨c1, c2, c3⟩ := h1.on_heir x hm hle
      obtain ⟨b1, b2, b3, _, _⟩ := h2.attr x hx1
      refine ⟨b3.trans c1, by rw [b2]; exact c2, ?_⟩
      intro i hi
      by_contra hne
      rw [h2.bits x hx1 i (Or.inr hne)] at hi
      exact hne (c3 i hi)
    · exact h2.on_heir x hx (by omega)
  · intro t
    obtain ⟨a1, a2, a3, a4⟩ := h1.trx t
    obtain ⟨b1, b2, b3, b4⟩ := h2.trx t
    exact ⟨b1.trans a1, b2.trans a2, b3.trans a3, b4.trans a4⟩

theorem set_nth_bit_attr (l : lock_t) (i : Nat) :
    (lock_rec_set_nth_bit l i).trx = l.trx ∧ (lock_rec_set_nth_bit l i).type_mode = l.type_mode
    ∧ (lock_rec_set_nth_bit l i).page_id = l.page_id
    ∧ (lock_rec_set_nth_bit l i).index = l.index
    ∧ (lock_rec_set_nth_bit l i).table = l.table :=
  ⟨rfl, rfl, rfl, rfl, rfl⟩

theorem heir_frame_of_added {s s1 : lock_sys_t} {g : Nat} {tm : type_mode_t}
    {ph hh trx : Nat} (h : rec_added s s1 g tm ph hh trx) (hw : tm.wait = false)
    (halloc : ∀ x ∈ s.rec_hash, x < s.n_locks) : heir_frame ph hh s s1 := by
  rcases h.cases with ⟨hm, e, el, _, htm0, hpage, hl, _, en, et, etb⟩
    | ⟨hg, e, eb, en, et, etb⟩
  · have ht : ∀ t, s1.trx t = s.trx t := fun t => by unfold lock_sys_t.trx; rw [et]
    have htb : ∀ t, s1.tbl t = s.tbl t := fun t => by unfold lock_sys_t.tbl; rw [etb]
    refine ⟨by rw [en], fun x hx => by rw [e]; exact hx,
      fun x hx hn => by rw [e] at hx; exact absurd hx hn, ?_, ?_, ?_, ?_,
      fun t => by rw [ht]; exact ⟨rfl, rfl, rfl, rfl⟩, h.prdt, h.prdt_page,
      fun tb => by rw [htb],
      ⟨[], by rw [e, List.append_nil], fun x hx => absurd hx (List.not_mem_nil _)⟩,
      fun x _ hn => h.others x (fun hxg => hn (hxg ▸ hm)),
      fun x _ hxw => h.others x (fun hxg => by
        subst hxg
        unfold lock_t.is_waiting at hxw
        rw [htm0, hw] at hxw
        cases hxw)⟩
    · intro x _
      by_cases hx : x = g
      · subst hx; rw [el]; exact set_nth_bit_attr _ _
      · rw [h.others x hx]; exact ⟨rfl, rfl, rfl, rfl, rfl⟩
    · intro x _ i hi
      by_cases hx : x = g
      · subst hx
        rw [el, get_nth_bit_set_eq _ _ _ hl]
        have : i ≠ hh := by
          rcases hi with hi | hi
          · exact absurd hpage hi
          · exact hi
        simp [this]
      · rw [h.others x hx]
    · intro x _ i hi
      by_cases hx : x = g
      · subst hx
        rw [el, get_nth_bit_set_eq _ _ _ hl, hi]
        simp
      · rw [h.others x hx]; exact hi
    · intro x hx hle
      rw [e] at hx
      exact absurd (halloc x hx) (by omega)
  · refine ⟨by rw [en]; omega, fun x hx => by rw [e]; exact List.mem_append_left _ hx,
      ?_, ?_, ?_, ?_, ?_, ?_, h.prdt, h.prdt_page, etb,
      ⟨[g], e, fun x hx => by simp at hx; omega⟩, fun x hx _ => h.others x (by omega),
      fun x hx _ => h.others x (by omega)⟩
    · intro x hx hn
      rw [e] at hx
      rcases List.mem_append.mp hx with h1 | h1
      · exact absurd h1 hn
      · simp at h1; omega
    · intro x hx
      rw [h.others x (by omega)]
      exact ⟨rfl, rfl, rfl, rfl, rfl⟩
    · intro x hx i _
      rw [h.others x (by omega)]
    · intro x hx i hi
      rw [h.others x (by omega)]; exact hi
    · intro x hx hle
      rw [e] at hx
      rcases List.mem_append.mp hx with h1 | h1
      · exact absurd (halloc x h1) (by omega)
      · have hxg : x = g := by simpa using h1
        subst hxg
        refine ⟨h.lock_page, by rw [h.lock_tm]; exact hw, ?_⟩
        intro i hi
        rw [eb] at hi
        simpa using hi
    · intro t
      rw [et]
      split
      · simp [hw]
      · exact ⟨rfl, rfl, rfl, rfl⟩

theorem rec_added.keeps {s s1 : lock_sys_t} {g : Nat} {tm : type_mode_t}
    {ph hh trx : Nat} (h : rec_added s s1 g tm ph hh trx)
    (halloc : ∀ x ∈ s.rec_hash, x < s.n_locks) (x : Nat) (hx : x ∈ s.rec_hash) :
    x ∈ s1.rec_hash ∧ (s1.lock x).page_id = (s.lock x).page_id
    ∧ (s1.lock x).trx = (s.lock x).trx ∧ (s1.lock x).type_mode = (s.lock x).type_mode
    ∧ (s1.lock x).index = (s.lock x).index
    ∧ (∀ i, lock_rec_get_nth_bit (s.lock x) i = true →
        lock_rec_get_nth_bit (s1.lock x) i = true)
    ∧ (∀ i, (x ≠ g ∨ i ≠ hh) →
        lock_rec_get_nth_bit (s1.lock x) i = lock_rec_get_nth_bit (s.lock x) i) := by
  rcases h.cases with ⟨hm, e, el, _, _, _, hl, _⟩ | ⟨hg, e, _⟩
  · refine ⟨by rw [e]; exact hx, ?_⟩
    by_cases hxg : x = g
    · subst hxg
      rw [el]
      refine ⟨rfl, rfl, rfl, rfl, ?_, ?_⟩
      · intro i hi
        rw [get_nth_bit_set_eq _ _ _ hl, hi]
        simp
      · intro i hi
        have : i ≠ hh := by
          rcases hi with hi | hi
          · exact absurd rfl hi
          · exact hi
        rw [get_nth_bit_set_eq _ _ _ hl]
        simp [this]
    · rw [h.others x hxg]
      exact ⟨rfl, rfl, rfl, rfl, fun _ hi => hi, fun _ _ => rfl⟩
  · have hxg : x ≠ g := by
      have := halloc x hx
      omega
    rw [h.others x hxg]
    exact ⟨by rw [e]; exact List.mem_append_left _ hx, rfl, rfl, rfl, rfl, fun _ hi => hi,
      fun _ _ => rfl⟩

theorem rec_holds_added {s s1 : lock_sys_t} {g : Nat} {tm : type_mode_t}
    {ph hh trx : Nat} (h : rec_added s s1 g tm ph hh trx)
    (halloc : ∀ x ∈ s.rec_hash, x < s.n_locks) (p hn T : Nat) (m : type_mode_t) :
    rec_holds s1 p hn T m
      ↔ (rec_holds s p hn T m ∨ (p = ph ∧ hn = hh ∧ T = trx ∧ m = tm)) := by
  unfold rec_holds
  constructor
  · rintro ⟨x, hx, h1, h2, h3, h4⟩
    by_cases hxg : x = g
    · subst hxg
      rcases h.cases with ⟨hm, e, el, a1, a2, a3, hl, _⟩ | ⟨hg, e, eb, _⟩
      · rw [el, get_nth_bit_set_eq _ _ _ hl] at h2
        simp only [Bool.or_eq_true, decide_eq_true_eq] at h2
        rcases h2 with h2 | h2
        · right
          exact ⟨h1.symm.trans h.lock_page, h2, h3.symm.trans h.lock_trx,
            h4.symm.trans h.lock_tm⟩
        · left
          refine ⟨x, hm, ?_, h2, ?_, ?_⟩
          · rw [a3, ← h.lock_page]; exact h1
          · rw [a1, ← h.lock_trx]; exact h3
          · rw [a2, ← h.lock_tm]; exact h4
      · rw [eb] at h2
        right
        exact ⟨h1.symm.trans h.lock_page, by simpa using h2, h3.symm.trans h.lock_trx,
          h4.symm.trans h.lock_tm⟩
    · left
      rw [h.others x hxg] at h1 h2 h3 h4
      refine ⟨x, ?_, h1, h2, h3, h4⟩
      rcases h.cases with ⟨_, e, _⟩ | ⟨_, e, _⟩
      · rw [e] at hx; exact hx
      · rw [e] at hx
        rcases List.mem_append.mp hx with h5 | h5
        · exact h5
        · exact absurd (by simpa using h5) hxg
  · rintro (⟨x, hx, h1, h2, h3, h4⟩ | ⟨rfl, rfl, rfl, rfl⟩)
    · obtain ⟨k1, k2, k3, k4, _, k6, _⟩ := h.keeps halloc x hx
      exact ⟨x, k1, by rw [k2]; exact h1, k6 hn h2, by rw [k3]; exact h3,
        by rw [k4]; exact h4⟩
    · exact ⟨g, h.mem, h.lock_page, h.bit, h.lock_trx, h.lock_tm⟩

theorem chain_wf_rec_alloc {s : lock_sys_t} (wf : chain_wf s hash_id.rec_hash) :
    ∀ x ∈ s.rec_hash, x < s.n_locks := wf.alloc

theorem queue_step_of_added {s s1 : lock_sys_t} {g : Nat} {tm : type_mode_t}
    {ph hh trx : Nat} (p hn l : Nat) (wf : chain_wf s hash_id.rec_hash)
    (h : rec_added s s1 g tm ph hh trx) (htm : lock_hash_get tm = hash_id.rec_hash)
    (hne : ph ≠ p ∨ hh ≠ hn) (hl : l ∈ s.rec_hash) :
    queue_step hash_id.rec_hash p hn l s s1 := by
  have halloc := chain_wf_rec_alloc wf
  have hgn_of : g ∉ s.rec_hash → on_rec s1 p hn g = false := by
    intro hgn
    rcases h.cases with ⟨hm, _⟩ | ⟨hg, e, eb, _⟩
    · exact absurd hm hgn
    · unfold on_rec
      rw [h.lock_page, eb]
      by_cases hp : ph = p
      · have hhn : hh ≠ hn := by
          rcases hne with a | a
          · exact absurd hp a
          · exact a
        have : ¬ hn = hh := fun a => hhn a.symm
        simp [this]
      · have : (ph == p) = false := by simp [hp]
        simp [this]
  have hg_in : g ∈ s.rec_hash → on_rec s1 p hn g = on_rec s p hn g := by
    intro hgm
    rcases h.cases with ⟨hm, e, el, _, _, hpage, hlt, _⟩ | ⟨hg, _⟩
    · unfold on_rec
      rw [h.lock_page, hpage]
      by_cases hp : ph = p
      · have hhn : hh ≠ hn := by
          rcases hne with a | a
          · exact absurd hp a
          · exact a
        rw [el, get_nth_bit_set_eq _ _ _ hlt]
        have : ¬ hn = hh := fun a => hhn a.symm
        simp [this]
      · have : (ph == p) = false := by simp [hp]
        simp [this]
    · have := halloc g hgm
      omega
  have hkeep : ∀ x ∈ s.rec_hash, on_rec s1 p hn x = on_rec s p hn x := by
    intro x hx
    by_cases hxg : x = g
    · subst hxg
      exact hg_in hx
    · unfold on_rec
      rw [h.others x hxg]
  refine ⟨?_, ?_, fun x hx _ => hkeep x hx, ?_⟩
  · rcases h.cases with ⟨hm, e, el, _, htm0, _, _, _, en, _⟩ | ⟨hg, e, eb, en, _⟩
    · refine ⟨by show s1.rec_hash.Nodup; rw [e]; exact wf.nodup, ?_, ?_⟩
      · intro x hx
        have hx1 : x ∈ s.rec_hash := by
          have : x ∈ s1.rec_hash := hx
          rw [e] at this; exact this
        rw [en]; exact halloc x hx1
      · intro x hx
        have hx1 : x ∈ s.rec_hash := by
          have : x ∈ s1.rec_hash := hx
          rw [e] at this; exact this
        by_cases hxg : x = g
        · subst hxg; rw [h.lock_tm]; exact htm
        · rw [h.others x hxg]; exact wf.kind x hx1
    · have hgn : g ∉ s.rec_hash := fun hm => by
        have := halloc g hm
        omega
      refine ⟨?_, ?_, ?_⟩
      · show s1.rec_hash.Nodup
        rw [e]
        exact List.Nodup.append wf.nodup (List.nodup_singleton g)
          (by
            intro a ha hb
            have : a = g := by simpa using hb
            subst this
            exact hgn ha)
      · intro x hx
        have hx1 : x ∈ s1.rec_hash := hx
        rw [e] at hx1
        rw [en]
        rcases List.mem_append.mp hx1 with a | a
        · have := halloc x a; omega
        · have : x = g := by simpa using a
          omega
      · intro x hx
        have hx1 : x ∈ s1.rec_hash := hx
        rw [e] at hx1
        rcases List.mem_append.mp hx1 with a | a
        · have hxg : x ≠ g := fun b => hgn (b ▸ a)
          rw [h.others x hxg]; exact wf.kind x a
        · have : x = g := by simpa using a
          subst this
          rw [h.lock_tm]; exact htm
  · rcases h.cases with ⟨hm, e, _⟩ | ⟨hg, e, _⟩
    · exact ⟨[], by show s1.rec_hash = s.rec_hash ++ []; rw [e, List.append_nil],
        fun x hx => absurd hx (List.not_mem_nil _)⟩
    · refine ⟨[g], e, ?_⟩
      intro x hx
      have : x = g := by simpa using hx
      subst this
      apply hgn_of
      intro a
      have := halloc x a
      omega
  · by_cases hlg : l = g
    · subst hlg
      rcases h.cases with ⟨_, _, el, _⟩ | ⟨hg, _⟩
      · rw [el]; rfl
      · have := halloc l hl
        omega
    · rw [h.others l hlg]

theorem queue_step_of_lock_only {k : hash_id} {s s1 : lock_sys_t} (p hn l : Nat)
    (wf : chain_wf s k) (hh : s1.hash k = s.hash k) (hn1 : s1.n_locks = s.n_locks)
    (ho : ∀ x, x ≠ l → s1.lock x = s.lock x)
    (hp : (s1.lock l).page_id = (s.lock l).page_id)
    (hk : lock_hash_get (s1.lock l).type_mode = lock_hash_get (s.lock l).type_mode) :
    queue_step k p hn l s s1 := by
  refine ⟨⟨by rw [hh]; exact wf.nodup, ?_, ?_⟩, ⟨[], by rw [hh, List.append_nil],
    fun x hx => absurd hx (List.not_mem_nil _)⟩, ?_, hp⟩
  · intro x hx
    rw [hh] at hx
    rw [hn1]; exact wf.alloc x hx
  · intro x hx
    rw [hh] at hx
    by_cases hxl : x = l
    · subst hxl; rw [hk]; exact wf.kind x hx
    · rw [ho x hxl]; exact wf.kind x hx
  · intro x _ hxl
    unfold on_rec
    rw [ho x hxl]

theorem queue_step_trans {k : hash_id} {p hn l : Nat} {s s1 s2 : lock_sys_t}
    (wf : chain_wf s k) (hl : l ∈ s.hash k) (h1 : queue_step k p hn l s s1)
    (h2 : queue_step k p hn l s1 s2) : queue_step k p hn l s s2 := by
  obtain ⟨e1, he1, hx1⟩ := h1.ext
  obtain ⟨e2, he2, hx2⟩ := h2.ext
  refine ⟨h2.wf, ⟨e1 ++ e2, by rw [he2, he1, List.append_assoc], ?_⟩, ?_,
    h2.page.trans h1.page⟩
  · intro x hx
    rcases List.mem_append.mp hx with a | a
    · have hxs1 : x ∈ s1.hash k := by rw [he1]; exact List.mem_append_right _ a
      have hxl : x ≠ l := by
        intro b
        subst b
        have hnd := h1.wf.nodup
        rw [he1] at hnd
        exact (List.nodup_append.mp hnd).2.2 hl a
      rw [h2.keep x hxs1 hxl]
      exact hx1 x a
    · exact hx2 x a
  · intro x hx hxl
    rw [h2.keep x (h1.mem_chain hx) hxl, h1.keep x hx hxl]

theorem lock_rec_inherit_to_gap_eq (fuel : Nat) (s : lock_sys_t)
    (heir_block block : buf_block_t) (heir_heap_no heap_no : Nat) :
    lock_rec_inherit_to_gap fuel s heir_block block heir_heap_no heap_no
      = lock_rec_queue_loop (inherit_step lock_rec_inherit_to_gap_test heir_block heir_heap_no)
          heap_no fuel s (lock_rec_get_first s hash_id.rec_hash block heap_no) := rfl

theorem lock_rec_inherit_to_gap_if_gap_lock_eq (fuel : Nat) (s : lock_sys_t)
    (block : buf_block_t) (heir_heap_no heap_no : Nat) :
    lock_rec_inherit_to_gap_if_gap_lock fuel s block heir_heap_no heap_no
      = lock_rec_queue_loop
          (inherit_step (lock_rec_inherit_to_gap_if_gap_lock_test heap_no) block heir_heap_no)
          heap_no fuel s (lock_rec_get_first s hash_id.rec_hash block heap_no) := rfl

theorem queue_step_refl {k : hash_id} (p hn l : Nat) {s : lock_sys_t} (wf : chain_wf s k) :
    queue_step k p hn l s s :=
  queue_step_of_lock_only p hn l wf rfl rfl (fun _ _ => rfl) rfl rfl

theorem gap_mode_hash (m : lock_mode) (hh : Nat) :
    lock_hash_get (supremum_type_mode { mode := m, gap := true } hh) = hash_id.rec_hash := by
  unfold supremum_type_mode
  split <;> rfl

theorem gap_mode_wait (m : lock_mode) (hh : Nat) :
    (supremum_type_mode { mode := m, gap := true } hh).wait = false := by
  unfold supremum_type_mode
  split <;> rfl

theorem inherit_loop_spec (test : lock_sys_t → Nat → Bool) (heir_block block : buf_block_t)
    (hh hn : Nat) (s0 : lock_sys_t) (fuel : Nat) (wf : chain_wf s0 hash_id.rec_hash)
    (hne : heir_block.page_id ≠ block.page_id ∨ hh ≠ hn) (hheap : hh < heir_block.n_heap)
    (hstable : ∀ s1 l, heir_frame heir_block.page_id hh s0 s1 → l < s0.n_locks →
      test s1 l = test s0 l)
    (hf : (lock_rec_queue s0 hash_id.rec_hash block.page_id hn).length ≤ fuel) :
    ∃ s1, lock_rec_queue_loop (inherit_step test heir_block hh) hn fuel s0
          (lock_rec_get_first s0 hash_id.rec_hash block hn) = some s1
      ∧ chain_wf s1 hash_id.rec_hash ∧ heir_frame heir_block.page_id hh s0 s1
      ∧ (∀ T tm, rec_holds s1 heir_block.page_id hh T tm ↔
          (rec_holds s0 heir_block.page_id hh T tm
            ∨ ∃ l ∈ lock_rec_queue s0 hash_id.rec_hash block.page_id hn,
                test s0 l = true ∧ (s0.lock l).trx = T
                ∧ tm = supremum_type_mode { mode := (s0.lock l).mode, gap := true } hh))
      ∧ s1.rec_hash.length
          ≤ s0.rec_hash.length + (lock_rec_queue s0 hash_id.rec_hash block.page_id hn).length := by
  have key := queue_loop_rule (inherit_step test heir_block hh) hash_id.rec_hash block hn
    (fun todo s => (heir_frame heir_block.page_id hh s0 s
        ∧ s.rec_hash.length + todo.length
            ≤ s0.rec_hash.length
              + (lock_rec_queue s0 hash_id.rec_hash block.page_id hn).length)
      ∧ ∀ T tm, rec_holds s heir_block.page_id hh T tm ↔
          (rec_holds s0 heir_block.page_id hh T tm
            ∨ ∃ l ∈ lock_rec_queue s0 hash_id.rec_hash block.page_id hn,
                l ∉ todo ∧ test s0 l = true ∧ (s0.lock l).trx = T
                ∧ tm = supremum_type_mode { mode := (s0.lock l).mode, gap := true } hh))
    ?_ s0 fuel wf ?_ hf
  · obtain ⟨s1, h1, ⟨⟨h2, hlen⟩, h3⟩, h4⟩ := key
    refine ⟨s1, h1, h4, h2, ?_, by simpa using hlen⟩
    intro T tm
    rw [h3]
    constructor
    · rintro (a | ⟨l, hl, _, b⟩)
      · exact Or.inl a
      · exact Or.inr ⟨l, hl, b⟩
    · rintro (a | ⟨l, hl, b⟩)
      · exact Or.inl a
      · exact Or.inr ⟨l, hl, List.not_mem_nil _, b⟩
  · intro rest l s wfs hl hon hr ⟨⟨hfr, hlen⟩, hiff⟩
    have hl' : l ∈ s.rec_hash := hl
    obtain ⟨hpage, hbit⟩ := on_rec_page hon
    have hlt : l < s0.n_locks := by
      by_contra hc
      obtain ⟨c1, _, c3⟩ := hfr.on_heir l hl' (by omega)
      have e1 : heir_block.page_id = block.page_id := c1.symm.trans hpage
      have e2 : hn = hh := c3 hn hbit
      rcases hne with a | a
      · exact a e1
      · exact a e2.symm
    have hl0 : l ∈ s0.rec_hash := by
      by_contra hc
      have := hfr.fresh l hl' hc
      omega
    obtain ⟨a1, a2, a3, a4, _⟩ := hfr.attr l hlt
    have hp0 : (s0.lock l).page_id = block.page_id := by rw [← a3]; exact hpage
    have hb0 : lock_rec_get_nth_bit (s0.lock l) hn = true := by
      rw [← hfr.bits l hlt hn (by
        rcases hne with a | a
        · left; rw [hp0]; exact fun e => a e.symm
        · right; exact fun e => a e.symm)]
      exact hbit
    have hlq : l ∈ lock_rec_queue s0 hash_id.rec_hash block.page_id hn :=
      (mem_lock_rec_queue s0 _ _ _ l).mpr ⟨hl0, hp0, hb0⟩
    have hlr : l ∉ rest := by
      intro hm
      rw [← hr] at hm
      exact (rest_queue_mem wfs hm).2.1 rfl
    have htest : test s l = test s0 l := hstable s l hfr hlt
    have hmode : (s.lock l).mode = (s0.lock l).mode := by
      unfold lock_t.mode; rw [a2]
    by_cases ht : test s0 l = true
    · obtain ⟨g, hg⟩ := lock_rec_add_to_queue_added s { mode := (s.lock l).mode, gap := true }
        heir_block hh (s.lock l).index (s.lock l).trx false rfl rfl hheap
      refine ⟨_, by unfold inherit_step; rw [htest, if_pos ht], ?_, ⟨?_, ?_⟩, ?_⟩
      · exact queue_step_of_added block.page_id hn l wfs hg (gap_mode_hash _ _) hne hl'
      · exact heir_frame_trans hfr
          (heir_frame_of_added hg (gap_mode_wait _ _) (chain_wf_rec_alloc wfs))
      · have hle : (lock_rec_add_to_queue s { mode := (s.lock l).mode, gap := true }
            heir_block hh (s.lock l).index (s.lock l).trx false).rec_hash.length
            ≤ s.rec_hash.length + 1 := by
          rcases hg.cases with ⟨_, e, _⟩ | ⟨_, e, _⟩
          · rw [e]; omega
          · rw [e]; simp
        simp only [List.length_cons] at hlen
        omega
      · intro T tm
        rw [rec_holds_added hg (chain_wf_rec_alloc wfs), hiff, hmode, a1]
        constructor
        · rintro ((a | ⟨x, hx, hxn, b⟩) | ⟨_, _, c1, c2⟩)
          · exact Or.inl a
          · exact Or.inr ⟨x, hx, fun hm => hxn (List.mem_cons_of_mem _ hm), b⟩
          · exact Or.inr ⟨l, hlq, hlr, ht, c1.symm, c2⟩
        · rintro (a | ⟨x, hx, hxn, b1, b2, b3⟩)
          · exact Or.inl (Or.inl a)
          · by_cases hxl : x = l
            · subst hxl
              exact Or.inr ⟨rfl, rfl, b2.symm, b3⟩
            · left; right
              refine ⟨x, hx, ?_, b1, b2, b3⟩
              intro hm
              rcases List.mem_cons.mp hm with c | c
              · exact hxl c
              · exact hxn c
    · refine ⟨s, by unfold inherit_step; rw [htest, if_neg ht], queue_step_refl _ _ _ wfs,
        ⟨hfr, by simp only [List.length_cons] at hlen; omega⟩, ?_⟩
      intro T tm
      rw [hiff]
      constructor
      · rintro (a | ⟨x, hx, hxn, b⟩)
        · exact Or.inl a
        · exact Or.inr ⟨x, hx, fun hm => hxn (List.mem_cons_of_mem _ hm), b⟩
      · rintro (a | ⟨x, hx, hxn, b1, b2⟩)
        · exact Or.inl a
        · right
          refine ⟨x, hx, ?_, b1, b2⟩
          intro hm
          rcases List.mem_cons.mp hm with c | c
          · subst c; exact ht b1
          · exact hxn c
  · refine ⟨⟨heir_frame_refl _ _ _ (chain_wf_rec_alloc wf), Nat.le_refl _⟩, ?_⟩
    intro T tm
    constructor
    · intro a; exact Or.inl a
    · rintro (a | ⟨x, hx, hxn, _⟩)
      · exact a
      · exact absurd hx hxn

theorem heir_frame.on_rec_eq {ph hh : Nat} {s s1 : lock_sys_t} (h : heir_frame ph hh s s1)
    (p hn : Nat) (hne : ph ≠ p ∨ hh ≠ hn) (x : Nat) (hx : x < s.n_locks) :
    on_rec s1 p hn x = on_rec s p hn x := by
  unfold on_rec
  obtain ⟨_, _, a3, _⟩ := h.attr x hx
  rw [a3]
  by_cases hp : (s.lock x).page_id = p
  · rw [h.bits x hx hn (by
      rcases hne with a | a
      · left; rw [hp]; exact fun e => a e.symm
      · right; exact fun e => a e.symm)]
  · have : ((s.lock x).page_id == p) = false := by simp [hp]
    simp [this]

theorem heir_frame.on_rec_new {ph hh : Nat} {s s1 : lock_sys_t} (h : heir_frame ph hh s s1)
    (p hn : Nat) (hne : ph ≠ p ∨ hh ≠ hn) (x : Nat) (hx : x ∈ s1.rec_hash)
    (hle : s.n_locks ≤ x) : on_rec s1 p hn x = false := by
  obtain ⟨c1, _, c3⟩ := h.on_heir x hx hle
  unfold on_rec
  rw [c1]
  by_cases hp : ph = p
  · have hb : lock_rec_get_nth_bit (s1.lock x) hn = false := by
      by_contra hc
      have hc1 : lock_rec_get_nth_bit (s1.lock x) hn = true := by simpa using hc
      have := c3 hn hc1
      rcases hne with a | a
      · exact a hp
      · exact a this.symm
    simp [hb]
  · have : (ph == p) = false := by simp [hp]
    simp [this]

theorem heir_frame.queue {ph hh : Nat} {s s1 : lock_sys_t} (h : heir_frame ph hh s s1)
    (halloc : ∀ x ∈ s.rec_hash, x < s.n_locks) (p hn : Nat) (hne : ph ≠ p ∨ hh ≠ hn) :
    lock_rec_queue s1 hash_id.rec_hash p hn = lock_rec_queue s hash_id.rec_hash p hn := by
  rw [lock_rec_queue_eq_filter, lock_rec_queue_eq_filter]
  obtain ⟨e, he, hle⟩ := h.ext
  show s1.rec_hash.filter _ = s.rec_hash.filter _
  have hnd : ∀ x ∈ e, x ∈ s1.rec_hash := fun x hx => by rw [he]; exact List.mem_append_right _ hx
  rw [he, List.filter_append]
  have h1 : e.filter (on_rec s1 p hn) = [] := by
    rw [List.filter_eq_nil_iff]
    intro x hx
    rw [h.on_rec_new p hn hne x (hnd x hx) (hle x hx)]
    simp
  rw [h1, List.append_nil]
  apply List.filter_congr
  intro x hx
  exact h.on_rec_eq p hn hne x (halloc x hx)

theorem heir_frame.holds {ph hh : Nat} {s s1 : lock_sys_t} (h : heir_frame ph hh s s1)
    (halloc : ∀ x ∈ s.rec_hash, x < s.n_locks) (p hn : Nat) (hne : ph ≠ p ∨ hh ≠ hn)
    (T : Nat) (tm : type_mode_t) : rec_holds s1 p hn T tm ↔ rec_holds s p hn T tm := by
  unfold rec_holds
  constructor
  · rintro ⟨x, hx, h1, h2, h3, h4⟩
    have hon : on_rec s1 p hn x = true := by unfold on_rec; simp [h1, h2]
    have hlt : x < s.n_locks := by
      by_contra hc
      rw [h.on_rec_new p hn hne x hx (by omega)] at hon
      cases hon
    have hx0 : x ∈ s.rec_hash := by
      by_contra hc
      have := h.fresh x hx hc
      omega
    rw [h.on_rec_eq p hn hne x hlt] at hon
    obtain ⟨b1, b2⟩ := on_rec_page hon
    obtain ⟨a1, a2, _⟩ := h.attr x hlt
    exact ⟨x, hx0, b1, b2, by rw [← a1]; exact h3, by rw [← a2]; exact h4⟩
  · rintro ⟨x, hx, h1, h2, h3, h4⟩
    have hlt := halloc x hx
    obtain ⟨a1, a2, a3, _⟩ := h.attr x hlt
    exact ⟨x, h.mem x hx, by rw [a3]; exact h1, h.grow x hlt hn h2, by rw [a1]; exact h3,
      by rw [a2]; exact h4⟩

theorem lock_rec_inherit_to_gap_test_stable {ph hh : Nat} {s s1 : lock_sys_t}
    (h : heir_frame ph hh s s1) (l : Nat) (hl : l < s.n_locks) :
    lock_rec_inherit_to_gap_test s1 l = lock_rec_inherit_to_gap_test s l := by
  obtain ⟨a1, a2, _⟩ := h.attr l hl
  unfold lock_rec_inherit_to_gap_test lock_t.is_insert_intention lock_t.mode
  simp only [a1, a2, (h.trx _).1, (h.trx _).2.1]

theorem lock_rec_inherit_to_gap_test_iff (s : lock_sys_t) (l : Nat) :
    lock_rec_inherit_to_gap_test s l = true ↔
      ((s.lock l).is_insert_intention = false
        ∧ ((s.trx (s.lock l).trx).isolation_level > TRX_ISO_READ_COMMITTED
          ∨ (s.lock l).mode
              ≠ (if (s.trx (s.lock l).trx).duplicates ≠ 0 then LOCK_S else LOCK_X))) := by
  unfold lock_rec_inherit_to_gap_test
  simp

/-- C16, counterexample: in `read_committed_state` the only lock on the
donor record (page 1, heap number 5) is a granted `X` lock without
`INSERT_INTENTION` whose owner is at READ COMMITTED; after
`lock_rec_inherit_to_gap` to heap number 6 no lock at all covers the heir
record. -/
theorem inherit_skips_read_committed :
    lock_rec_queue read_committed_state hash_id.rec_hash 1 5 = [0]
    ∧ (read_committed_state.lock 0).is_insert_intention = false
    ∧ (read_committed_state.lock 0).is_waiting = false
    ∧ (lock_rec_inherit_to_gap 10 read_committed_state { page_id := 1, n_heap := 8 }
          { page_id := 1, n_heap := 8 } 6 5).map
        (fun s1 => lock_rec_queue s1 hash_id.rec_hash 1 6) = some [] := by
  decide

/-- C16, amended: `lock_rec_inherit_to_gap` returns (with fuel for the
length of the donor queue), and for every lock on the donor record,
granted or waiting, that is not `INSERT_INTENTION` and whose owner is
above READ COMMITTED or whose mode is not the one an UPDATE or DELETE sets
(`LOCK_S` when `trx->duplicates` is set, otherwise `LOCK_X`), the owner
holds on the heir record a granted request of type mode `GAP | mode`,
with `GAP` dropped when the heir is the supremum.  No other request is
added on the heir record; the queue of the donor record is the same, and
the locks of the record hash table keep every bit other than the one of
the heir record.  The record hash chain is duplicate-free and holds
allocated record locks, and the heir is not the donor record. -/
theorem lock_rec_inherit_to_gap_spec (fuel : Nat) (s : lock_sys_t)
    (heir_block block : buf_block_t) (heir_heap_no heap_no : Nat)
    (wf : chain_wf s hash_id.rec_hash)
    (hne : heir_block.page_id ≠ block.page_id ∨ heir_heap_no ≠ heap_no)
    (hheap : heir_heap_no < heir_block.n_heap)
    (hf : (lock_rec_queue s hash_id.rec_hash block.page_id heap_no).length ≤ fuel) :
    ∃ s1, lock_rec_inherit_to_gap fuel s heir_block block heir_heap_no heap_no = some s1
      ∧ (∀ l ∈ lock_rec_queue s hash_id.rec_hash block.page_id heap_no,
          (s.lock l).is_insert_intention = false →
          ((s.trx (s.lock l).trx).isolation_level > TRX_ISO_READ_COMMITTED
            ∨ (s.lock l).mode
                ≠ (if (s.trx (s.lock l).trx).duplicates ≠ 0 then LOCK_S else LOCK_X)) →
          rec_holds s1 heir_block.page_id heir_heap_no (s.lock l).trx
            (supremum_type_mode { mode := (s.lock l).mode, gap := true } heir_heap_no))
      ∧ (∀ T tm, rec_holds s1 heir_block.page_id heir_heap_no T tm →
          rec_holds s heir_block.page_id heir_heap_no T tm
          ∨ ∃ l ∈ lock_rec_queue s hash_id.rec_hash block.page_id heap_no,
              (s.lock l).is_insert_intention = false
              ∧ ((s.trx (s.lock l).trx).isolation_level > TRX_ISO_READ_COMMITTED
                ∨ (s.lock l).mode
                    ≠ (if (s.trx (s.lock l).trx).duplicates ≠ 0 then LOCK_S else LOCK_X))
              ∧ (s.lock l).trx = T
              ∧ tm = supremum_type_mode { mode := (s.lock l).mode, gap := true }
                  heir_heap_no)
      ∧ lock_rec_queue s1 hash_id.rec_hash block.page_id heap_no
          = lock_rec_queue s hash_id.rec_hash block.page_id heap_no
      ∧ (∀ x ∈ s.rec_hash, x ∈ s1.rec_hash ∧ (s1.lock x).type_mode = (s.lock x).type_mode
          ∧ (s1.lock x).trx = (s.lock x).trx
          ∧ ∀ i, ((s.lock x).page_id ≠ heir_block.page_id ∨ i ≠ heir_heap_no) →
              lock_rec_get_nth_bit (s1.lock x) i = lock_rec_get_nth_bit (s.lock x) i) := by
  obtain ⟨s1, h1, _, h3, h4, _⟩ := inherit_loop_spec lock_rec_inherit_to_gap_test heir_block block
    heir_heap_no heap_no s fuel wf hne hheap
    (fun s1 l hfr hl => lock_rec_inherit_to_gap_test_stable hfr l hl) hf
  refine ⟨s1, by rw [lock_rec_inherit_to_gap_eq]; exact h1, ?_, ?_, ?_, ?_⟩
  · intro l hl hii hiso
    rw [h4]
    right
    exact ⟨l, hl, (lock_rec_inherit_to_gap_test_iff s l).mpr ⟨hii, hiso⟩, rfl, rfl⟩
  · intro T tm hh
    rcases (h4 T tm).mp hh with a | ⟨l, hl, b1, b2, b3⟩
    · exact Or.inl a
    · obtain ⟨c1, c2⟩ := (lock_rec_inherit_to_gap_test_iff s l).mp b1
      exact Or.inr ⟨l, hl, c1, c2, b2, b3⟩
  · exact h3.queue (chain_wf_rec_alloc wf) block.page_id heap_no hne
  · intro x hx
    have hlt := chain_wf_rec_alloc wf x hx
    obtain ⟨a1, a2, _⟩ := h3.attr x hlt
    exact ⟨h3.mem x hx, a2, a1, fun i hi => h3.bits x hlt i hi⟩

theorem chain_wf_fifo_state : chain_wf fifo_state hash_id.rec_hash :=
  ⟨by decide, by decide, by decide⟩

theorem lock_rec_inherit_to_gap_spec_witness :
    ∃ s1, lock_rec_inherit_to_gap 3 fifo_state { page_id := 5, n_heap := 8 }
        { page_id := 5, n_heap := 8 } 4 3 = some s1
      ∧ rec_holds s1 5 4 2 { mode := LOCK_X, gap := true }
      ∧ lock_rec_queue s1 hash_id.rec_hash 5 3 = [0, 1, 2] := by
  obtain ⟨s1, h1, h2, _, h4, _⟩ := lock_rec_inherit_to_gap_spec 3 fifo_state
    { page_id := 5, n_heap := 8 } { page_id := 5, n_heap := 8 } 4 3 chain_wf_fifo_state
    (Or.inr (by decide)) (by decide) (by decide)
  exact ⟨s1, h1, h2 1 (by decide) (by decide) (Or.inl (by decide)), h4⟩

theorem find_set_bit_isSome (l : lock_t) (hn : Nat)
    (h : lock_rec_get_nth_bit l hn = true) : ∃ i, lock_rec_find_set_bit l = some i := by
  unfold lock_rec_find_set_bit
  have hlt := lock_rec_get_nth_bit_lt l hn h
  cases hf : (List.range (lock_rec_get_n_bits l)).find? (fun i => lock_rec_get_nth_bit l i) with
  | some i => exact ⟨i, rfl⟩
  | none =>
    rw [List.find?_eq_none] at hf
    have := hf hn (List.mem_range.mpr hlt)
    rw [h] at this
    exact absurd rfl this

theorem lock_rec_cancel_spec (s : lock_sys_t) (l i : Nat)
    (hfind : lock_rec_find_set_bit (s.lock l) = some i) :
    ∃ s1, lock_rec_cancel s l = some s1
      ∧ (∀ k, s1.hash k = s.hash k) ∧ s1.n_locks = s.n_locks ∧ (∀ tb, s1.tbl tb = s.tbl tb)
      ∧ s1.lock l = (lock_rec_reset_nth_bit (s.lock l) i).clear_wait
      ∧ (∀ x, x ≠ l → s1.lock x = s.lock x)
      ∧ (s1.trx (s.lock l).trx).wait_lock = none
      ∧ (∀ t, t ≠ (s.lock l).trx → s1.trx t = s.trx t)
      ∧ (∀ t, (s1.trx t).trx_locks = (s.trx t).trx_locks
          ∧ (s1.trx t).table_locks = (s.trx t).table_locks
          ∧ (s1.trx t).isolation_level = (s.trx t).isolation_level
          ∧ (s1.trx t).duplicates = (s.trx t).duplicates) := by
  have htrx : ((s.set_lock l (lock_rec_reset_nth_bit (s.lock l) i)).lock l).trx
      = (s.lock l).trx := by simp [lock_rec_reset_nth_bit]
  have htrx2 : ((lock_reset_lock_and_trx_wait
      (s.set_lock l (lock_rec_reset_nth_bit (s.lock l) i)) l).lock l).trx = (s.lock l).trx := by
    rw [lock_reset_lock, if_pos rfl, clear_wait_trx, htrx]
  refine ⟨_, by unfold lock_rec_cancel; rw [hfind], ?_, ?_, ?_, ?_, ?_, ?_, ?_, ?_⟩
  · intro k
    simp only [lock_wait_end_hash, lock_reset_hash, lock_sys_t.hash_set_lock]
  · simp only [lock_wait_end_n_locks, lock_reset_n_locks, lock_sys_t.n_locks_set_lock]
  · intro tb
    simp only [lock_wait_end_tbl, lock_reset_tbl, lock_sys_t.tbl_set_lock]
  · simp only [lock_wait_end_lock, lock_reset_lock, if_true, lock_sys_t.lock_set_lock]
  · intro x hx
    simp only [lock_wait_end_lock, lock_reset_lock, lock_sys_t.lock_set_lock, if_neg hx]
  · rw [htrx2, lock_wait_end_wait_lock, lock_reset_trx, htrx, if_pos rfl]
  · intro t ht
    rw [htrx2]
    simp only [lock_wait_end, lock_sys_t.trx_set_trx, if_neg ht]
    rw [lock_reset_trx, htrx, if_neg ht]
    rfl
  · intro t
    rw [htrx2]
    refine ⟨?_, ?_, ?_, ?_⟩
    · rw [lock_wait_end_trx_locks, lock_reset_trx_locks]; rfl
    · rw [lock_wait_end_table_locks, lock_reset_trx]
      split <;> rfl
    · simp only [lock_wait_end, lock_sys_t.trx_set_trx]
      split
      · subst_vars
        split <;> (rw [lock_reset_trx]; split <;> rfl)
      · rw [lock_reset_trx]; split <;> rfl
    · simp only [lock_wait_end, lock_sys_t.trx_set_trx]
      split
      · subst_vars
        split <;> (rw [lock_reset_trx]; split <;> rfl)
      · rw [lock_reset_trx]; split <;> rfl

theorem clear_wait_hash_get (l : lock_t) :
    lock_hash_get l.clear_wait.type_mode = lock_hash_get l.type_mode := rfl

theorem reset_nth_bit_attr (l : lock_t) (i : Nat) :
    (lock_rec_reset_nth_bit l i).trx = l.trx
    ∧ (lock_rec_reset_nth_bit l i).type_mode = l.type_mode
    ∧ (lock_rec_reset_nth_bit l i).page_id = l.page_id
    ∧ (lock_rec_reset_nth_bit l i).index = l.index :=
  ⟨rfl, rfl, rfl, rfl⟩

theorem reset_loop_spec (k : hash_id) (block : buf_block_t) (hn : Nat) (s0 : lock_sys_t)
    (fuel : Nat) (wf : chain_wf s0 k)
    (hf : (lock_rec_queue s0 k block.page_id hn).length ≤ fuel) :
    ∃ s1, lock_rec_reset_and_release_wait_low fuel s0 k block hn = some s1
      ∧ chain_wf s1 k
      ∧ ((∀ k1, s1.hash k1 = s0.hash k1) ∧ s1.n_locks = s0.n_locks
          ∧ ∀ tb, s1.tbl tb = s0.tbl tb)
      ∧ (∀ x, x ∉ lock_rec_queue s0 k block.page_id hn → s1.lock x = s0.lock x)
      ∧ (∀ x ∈ lock_rec_queue s0 k block.page_id hn, s1.lock x = reset_lock hn (s0.lock x))
      ∧ (∀ t, (∃ l ∈ lock_rec_queue s0 k block.page_id hn,
            (s0.lock l).is_waiting = true ∧ (s0.lock l).trx = t) →
          (s1.trx t).wait_lock = none)
      ∧ (∀ t, ¬ (∃ l ∈ lock_rec_queue s0 k block.page_id hn,
            (s0.lock l).is_waiting = true ∧ (s0.lock l).trx = t) →
          s1.trx t = s0.trx t)
      ∧ (∀ t, (s1.trx t).trx_locks = (s0.trx t).trx_locks
          ∧ (s1.trx t).table_locks = (s0.trx t).table_locks
          ∧ (s1.trx t).isolation_level = (s0.trx t).isolation_level
          ∧ (s1.trx t).duplicates = (s0.trx t).duplicates) := by
  have key := queue_loop_rule (lock_rec_reset_and_release_wait_step hn) k block hn
    (fun todo s =>
      ((∀ k1, s.hash k1 = s0.hash k1) ∧ s.n_locks = s0.n_locks ∧ ∀ tb, s.tbl tb = s0.tbl tb)
      ∧ (∀ x, (x ∉ lock_rec_queue s0 k block.page_id hn ∨ x ∈ todo) → s.lock x = s0.lock x)
      ∧ (∀ x ∈ lock_rec_queue s0 k block.page_id hn, x ∉ todo →
          s.lock x = reset_lock hn (s0.lock x))
      ∧ (∀ t, (∃ l ∈ lock_rec_queue s0 k block.page_id hn, l ∉ todo
            ∧ (s0.lock l).is_waiting = true ∧ (s0.lock l).trx = t) →
          (s.trx t).wait_lock = none)
      ∧ (∀ t, ¬ (∃ l ∈ lock_rec_queue s0 k block.page_id hn, l ∉ todo
            ∧ (s0.lock l).is_waiting = true ∧ (s0.lock l).trx = t) →
          s.trx t = s0.trx t)
      ∧ (∀ t, (s.trx t).trx_locks = (s0.trx t).trx_locks
          ∧ (s.trx t).table_locks = (s0.trx t).table_locks
          ∧ (s.trx t).isolation_level = (s0.trx t).isolation_level
          ∧ (s.trx t).duplicates = (s0.trx t).duplicates))
    ?_ s0 fuel wf ?_ hf
  · obtain ⟨s1, h1, ⟨i1, i2, i3, i4, i5, i6⟩, hwf⟩ := key
    refine ⟨s1, h1, hwf, i1, fun x hx => i2 x (Or.inl hx),
      fun x hx => i3 x hx (List.not_mem_nil _), ?_, ?_, i6⟩
    · rintro t ⟨l, hl, a, b⟩
      exact i4 t ⟨l, hl, List.not_mem_nil _, a, b⟩
    · intro t hnot
      apply i5 t
      rintro ⟨l, hl, _, a, b⟩
      exact hnot ⟨l, hl, a, b⟩
  · intro rest l s wfs hl hon hr ⟨⟨i1a, i1b, i1c⟩, i2, i3, i4, i5, i6⟩
    obtain ⟨hpage, hbit⟩ := on_rec_page hon
    have hlock : s.lock l = s0.lock l := i2 l (Or.inr (List.mem_cons_self _ _))
    have hlq : l ∈ lock_rec_queue s0 k block.page_id hn := by
      rw [mem_lock_rec_queue]
      rw [i1a] at hl
      exact ⟨hl, by rw [← hlock]; exact hpage, by rw [← hlock]; exact hbit⟩
    have hlr : l ∉ rest := by
      intro hm
      rw [← hr] at hm
      exact (rest_queue_mem wfs hm).2.1 rfl
    by_cases hw : (s.lock l).is_waiting = true
    · obtain ⟨i, hi⟩ := find_set_bit_isSome (s.lock l) hn hbit
      obtain ⟨s1, c0, c1, c2, c3, c4, c5, c6, c7, c8⟩ := lock_rec_cancel_spec s l i hi
      refine ⟨s1, by unfold lock_rec_reset_and_release_wait_step; rw [if_pos hw]; exact c0,
        ?_, ⟨fun k1 => by rw [c1, i1a], by rw [c2, i1b], fun tb => by rw [c3, i1c]⟩,
        ?_, ?_, ?_, ?_, ?_⟩
      · exact queue_step_of_lock_only _ _ _ wfs (c1 k) c2 c5 (by rw [c4]; rfl)
          (by rw [c4]; rfl)
      · intro x hx
        have hxl : x ≠ l := by
          rintro rfl
          rcases hx with a | a
          · exact a hlq
          · exact hlr a
        rw [c5 x hxl]
        exact i2 x (hx.imp id (List.mem_cons_of_mem _))
      · intro x hx hxr
        by_cases hxl : x = l
        · subst hxl
          rw [c4, hlock]
          rw [hlock] at hw hi
          unfold reset_lock
          rw [if_pos hw, hi]
          rfl
        · rw [c5 x hxl]
          exact i3 x hx (fun hm => by
            rcases List.mem_cons.mp hm with a | a
            · exact hxl a
            · exact hxr a)
      · rintro t ⟨l1, hl1, hl1r, a, b⟩
        by_cases ht : t = (s.lock l).trx
        · rw [ht]; exact c6
        · rw [c7 t ht]
          have hne : l1 ≠ l := by
            rintro rfl
            rw [hlock] at ht
            exact ht b.symm
          exact i4 t ⟨l1, hl1, fun hm => by
            rcases List.mem_cons.mp hm with c | c
            · exact hne c
            · exact hl1r c, a, b⟩
      · intro t hnot
        have ht : t ≠ (s.lock l).trx := by
          intro e
          apply hnot
          exact ⟨l, hlq, hlr, by rw [← hlock]; exact hw, by rw [← hlock]; exact e.symm⟩
        rw [c7 t ht]
        apply i5 t
        rintro ⟨l1, hl1, hl1r, a, b⟩
        exact hnot ⟨l1, hl1, fun hm => hl1r (List.mem_cons_of_mem _ hm), a, b⟩
      · intro t
        obtain ⟨d1, d2, d3, d4⟩ := c8 t
        obtain ⟨e1, e2, e3, e4⟩ := i6 t
        exact ⟨d1.trans e1, d2.trans e2, d3.trans e3, d4.trans e4⟩
    · refine ⟨s.set_lock l (lock_rec_reset_nth_bit (s.lock l) hn),
        by unfold lock_rec_reset_and_release_wait_step; rw [if_neg hw],
        ?_, ⟨fun k1 => by simp [i1a], by simp [i1b], fun tb => by simp [i1c]⟩,
        ?_, ?_, ?_, ?_, ?_⟩
      · exact queue_step_of_lock_only _ _ _ wfs (by simp) (by simp)
          (fun x hx => by simp [hx]) (by simp [lock_rec_reset_nth_bit])
          (by simp [lock_rec_reset_nth_bit])
      · intro x hx
        have hxl : x ≠ l := by
          rintro rfl
          rcases hx with a | a
          · exact a hlq
          · exact hlr a
        simp only [lock_sys_t.lock_set_lock, if_neg hxl]
        exact i2 x (hx.imp id (List.mem_cons_of_mem _))
      · intro x hx hxr
        by_cases hxl : x = l
        · subst hxl
          simp only [lock_sys_t.lock_set_lock, if_true]
          rw [hlock]
          rw [hlock] at hw
          unfold reset_lock
          rw [if_neg hw]
        · simp only [lock_sys_t.lock_set_lock, if_neg hxl]
          exact i3 x hx (fun hm => by
            rcases List.mem_cons.mp hm with a | a
            · exact hxl a
            · exact hxr a)
      · rintro t ⟨l1, hl1, hl1r, a, b⟩
        simp only [lock_sys_t.trx_set_lock]
        have hne : l1 ≠ l := by
          rintro rfl
          rw [hlock] at hw
          exact hw a
        exact i4 t ⟨l1, hl1, fun hm => by
          rcases List.mem_cons.mp hm with c | c
          · exact hne c
          · exact hl1r c, a, b⟩
      · intro t hnot
        simp only [lock_sys_t.trx_set_lock]
        apply i5 t
        rintro ⟨l1, hl1, hl1r, a, b⟩
        exact hnot ⟨l1, hl1, fun hm => hl1r (List.mem_cons_of_mem _ hm), a, b⟩
      · intro t
        simp only [lock_sys_t.trx_set_lock]
        exact i6 t
  · refine ⟨⟨fun _ => rfl, rfl, fun _ => rfl⟩, fun _ _ => rfl, ?_, ?_, fun _ _ => rfl,
      fun _ => ⟨rfl, rfl, rfl, rfl⟩⟩
    · intro x hx hxn
      exact absurd hx hxn
    · rintro t ⟨l, hl, hln, _⟩
      exact absurd hl hln

theorem chain_disjoint {s : lock_sys_t} {k k1 : hash_id} (wf : chain_wf s k)
    (wf1 : chain_wf s k1) (hne : k ≠ k1) {x : Nat} (hx : x ∈ s.hash k) : x ∉ s.hash k1 :=
  fun hx1 => hne ((wf.kind x hx).symm.trans (wf1.kind x hx1))

theorem lock_rec_queue_length_le (s : lock_sys_t) (k : hash_id) (p hn : Nat) :
    (lock_rec_queue s k p hn).length ≤ (s.hash k).length := by
  rw [lock_rec_queue_eq_filter]
  exact List.length_filter_le _ _

theorem lock_rec_queue_subset (s : lock_sys_t) (k : hash_id) (p hn x : Nat)
    (hx : x ∈ lock_rec_queue s k p hn) : x ∈ s.hash k :=
  ((mem_lock_rec_queue s k p hn x).mp hx).1

theorem chain_wf_of_same {s s1 : lock_sys_t} {k : hash_id} (wf : chain_wf s k)
    (hh : s1.hash k = s.hash k) (hn : s.n_locks ≤ s1.n_locks)
    (hl : ∀ x ∈ s.hash k, s1.lock x = s.lock x) : chain_wf s1 k := by
  refine ⟨by rw [hh]; exact wf.nodup, ?_, ?_⟩
  · intro x hx
    rw [hh] at hx
    exact Nat.lt_of_lt_of_le (wf.alloc x hx) hn
  · intro x hx
    rw [hh] at hx
    rw [hl x hx]
    exact wf.kind x hx

theorem heir_frame.chain_other {ph hh : Nat} {s s1 : lock_sys_t} (h : heir_frame ph hh s s1)
    (wfr : chain_wf s hash_id.rec_hash) {k : hash_id} (wf : chain_wf s k)
    (hk : k ≠ hash_id.rec_hash) :
    chain_wf s1 k ∧ s1.hash k = s.hash k ∧ ∀ x ∈ s.hash k, s1.lock x = s.lock x := by
  have hh1 : s1.hash k = s.hash k := by
    cases k
    · exact absurd rfl hk
    · exact h.prdt
    · exact h.prdt_page
  have hl : ∀ x ∈ s.hash k, s1.lock x = s.lock x := by
    intro x hx
    exact h.other x (wf.alloc x hx) (chain_disjoint wf wfr hk hx)
  exact ⟨chain_wf_of_same wf hh1 h.n_locks hl, hh1, hl⟩

theorem lock_rec_queue_congr {s s1 : lock_sys_t} (k : hash_id) (p i : Nat)
    (hh : s1.hash k = s.hash k) (hl : ∀ x ∈ s.hash k, s1.lock x = s.lock x) :
    lock_rec_queue s1 k p i = lock_rec_queue s k p i := by
  rw [lock_rec_queue_eq_filter, lock_rec_queue_eq_filter, hh]
  apply List.filter_congr
  intro x hx
  unfold on_rec
  rw [hl x hx]

theorem reset_and_release_wait_spec (fuel : Nat) (s : lock_sys_t) (block : buf_block_t)
    (hn : Nat) (wf : ∀ k, chain_wf s k)
    (hf1 : (lock_rec_queue s hash_id.rec_hash block.page_id hn).length ≤ fuel)
    (hf2 : (lock_rec_queue s hash_id.prdt_hash block.page_id PAGE_HEAP_NO_INFIMUM).length
      ≤ fuel)
    (hf3 : (lock_rec_queue s hash_id.prdt_page_hash block.page_id PAGE_HEAP_NO_INFIMUM).length
      ≤ fuel) :
    ∃ s1, lock_rec_reset_and_release_wait fuel s block hn = some s1
      ∧ (∀ k, chain_wf s1 k)
      ∧ ((∀ k, s1.hash k = s.hash k) ∧ s1.n_locks = s.n_locks ∧ ∀ tb, s1.tbl tb = s.tbl tb)
      ∧ (∀ x ∈ s.rec_hash, x ∉ lock_rec_queue s hash_id.rec_hash block.page_id hn →
          s1.lock x = s.lock x)
      ∧ (∀ x ∈ lock_rec_queue s hash_id.rec_hash block.page_id hn,
          s1.lock x = reset_lock hn (s.lock x))
      ∧ (∀ t, (∃ l ∈ lock_rec_queue s hash_id.rec_hash block.page_id hn,
            (s.lock l).is_waiting = true ∧ (s.lock l).trx = t) →
          (s1.trx t).wait_lock = none)
      ∧ (∀ t, (s1.trx t).wait_lock = none ∨ (s1.trx t).wait_lock = (s.trx t).wait_lock)
      ∧ (∀ t, (s1.trx t).trx_locks = (s.trx t).trx_locks
          ∧ (s1.trx t).table_locks = (s.trx t).table_locks
          ∧ (s1.trx t).isolation_level = (s.trx t).isolation_level
          ∧ (s1.trx t).duplicates = (s.trx t).duplicates) := by
  -- the record hash table
  obtain ⟨sa, a0, a1, ⟨a2, a3, a4⟩, a5, a6, a7, a8, a9⟩ :=
    reset_loop_spec hash_id.rec_hash block hn s fuel (wf _) hf1
  have wfa : ∀ k, chain_wf sa k := by
    intro k
    by_cases hk : k = hash_id.rec_hash
    · subst hk; exact a1
    · refine chain_wf_of_same (wf k) (a2 k) (by rw [a3]) ?_
      intro x hx
      apply a5
      intro hm
      exact chain_disjoint (wf k) (wf _) hk hx (lock_rec_queue_subset _ _ _ _ _ hm)
  have hkeepa : ∀ k, k ≠ hash_id.rec_hash → ∀ x ∈ s.hash k, sa.lock x = s.lock x := by
    intro k hk x hx
    apply a5
    intro hm
    exact chain_disjoint (wf k) (wf _) hk hx (lock_rec_queue_subset _ _ _ _ _ hm)
  -- the predicate hash table
  obtain ⟨sb, b0, b1, ⟨b2, b3, b4⟩, b5, _, b7, b8, b9⟩ :=
    reset_loop_spec hash_id.prdt_hash block PAGE_HEAP_NO_INFIMUM sa fuel (wfa _)
      (by rw [lock_rec_queue_congr _ _ _ (a2 _) (hkeepa _ (by decide))]; exact hf2)
  have hkeepb : ∀ k, k ≠ hash_id.prdt_hash → ∀ x ∈ sa.hash k, sb.lock x = sa.lock x := by
    intro k hk x hx
    apply b5
    intro hm
    exact chain_disjoint (wfa k) (wfa _) hk hx (lock_rec_queue_subset _ _ _ _ _ hm)
  have wfb : ∀ k, chain_wf sb k := by
    intro k
    by_cases hk : k = hash_id.prdt_hash
    · subst hk; exact b1
    · exact chain_wf_of_same (wfa k) (b2 k) (by rw [b3]) (hkeepb k hk)
  -- the predicate page hash table
  obtain ⟨sc, c0, c1, ⟨c2, c3, c4⟩, c5, _, c7, c8, c9⟩ :=
    reset_loop_spec hash_id.prdt_page_hash block PAGE_HEAP_NO_INFIMUM sb fuel (wfb _)
      (by
        rw [lock_rec_queue_congr _ _ _ (b2 _) (hkeepb _ (by decide)),
          lock_rec_queue_congr _ _ _ (a2 _) (hkeepa _ (by decide))]
        exact hf3)
  have hkeepc : ∀ k, k ≠ hash_id.prdt_page_hash → ∀ x ∈ sb.hash k, sc.lock x = sb.lock x := by
    intro k hk x hx
    apply c5
    intro hm
    exact chain_disjoint (wfb k) (wfb _) hk hx (lock_rec_queue_subset _ _ _ _ _ hm)
  have wfc : ∀ k, chain_wf sc k := by
    intro k
    by_cases hk : k = hash_id.prdt_page_hash
    · subst hk; exact c1
    · exact chain_wf_of_same (wfb k) (c2 k) (by rw [c3]) (hkeepc k hk)
  have hwl : ∀ (u v : lock_sys_t) (Q : List Nat) t,
      (∀ t, (∃ l ∈ Q, (u.lock l).is_waiting = true ∧ (u.lock l).trx = t) →
          (v.trx t).wait_lock = none) →
      (∀ t, ¬ (∃ l ∈ Q, (u.lock l).is_waiting = true ∧ (u.lock l).trx = t) →
          v.trx t = u.trx t) →
      (v.trx t).wait_lock = none ∨ (v.trx t).wait_lock = (u.trx t).wait_lock := by
    intro u v Q t h1 h2
    by_cases hc : ∃ l ∈ Q, (u.lock l).is_waiting = true ∧ (u.lock l).trx = t
    · exact Or.inl (h1 t hc)
    · exact Or.inr (by rw [h2 t hc])
  have recx : ∀ x ∈ s.rec_hash, sc.lock x = sa.lock x := by
    intro x hx
    have hxa : x ∈ sa.hash hash_id.rec_hash := by rw [a2]; exact hx
    have hxb : x ∈ sb.hash hash_id.rec_hash := by rw [b2]; exact hxa
    rw [hkeepc _ (by decide) x hxb, hkeepb _ (by decide) x hxa]
  refine ⟨sc, ?_, wfc, ⟨fun k => by rw [c2, b2, a2], by rw [c3, b3, a3],
    fun tb => by rw [c4, b4, a4]⟩, ?_, ?_, ?_, ?_, ?_⟩
  · unfold lock_rec_reset_and_release_wait
    rw [a0, Option.some_bind, b0, Option.some_bind, c0]
  · intro x hx hxq
    rw [recx x hx, a5 x hxq]
  · intro x hx
    rw [recx x (lock_rec_queue_subset _ _ _ _ _ hx), a6 x hx]
  · intro t ht
    have h1 := a7 t ht
    rcases hwl sa sb _ t b7 b8 with e1 | e1
    · rcases hwl sb sc _ t c7 c8 with e2 | e2
      · exact e2
      · rw [e2, e1]
    · rcases hwl sb sc _ t c7 c8 with e2 | e2
      · exact e2
      · rw [e2, e1, h1]
  · intro t
    rcases hwl sb sc _ t c7 c8 with e2 | e2
    · exact Or.inl e2
    · rcases hwl sa sb _ t b7 b8 with e1 | e1
      · exact Or.inl (e2.trans e1)
      · rcases hwl s sa _ t a7 a8 with e0 | e0
        · exact Or.inl (e2.trans (e1.trans e0))
        · exact Or.inr (e2.trans (e1.trans e0))
  · intro t
    obtain ⟨x1, x2, x3, x4⟩ := a9 t
    obtain ⟨y1, y2, y3, y4⟩ := b9 t
    obtain ⟨z1, z2, z3, z4⟩ := c9 t
    exact ⟨(z1.trans y1).trans x1, (z2.trans y2).trans x2, (z3.trans y3).trans x3,
      (z4.trans y4).trans x4⟩

theorem find_set_bit_of_only (l : lock_t) (hn : Nat)
    (hb : lock_rec_get_nth_bit l hn = true)
    (ho : ∀ i, lock_rec_get_nth_bit l i = true → i = hn) :
    lock_rec_find_set_bit l = some hn := by
  obtain ⟨i, hi⟩ := find_set_bit_isSome l hn hb
  have := List.find?_some hi
  rw [hi, ho i this]

theorem reset_lock_spec (hn : Nat) (l : lock_t)
    (hb : lock_rec_get_nth_bit l hn = true)
    (ho : l.is_waiting = true → ∀ i, lock_rec_get_nth_bit l i = true → i = hn) :
    (reset_lock hn l).page_id = l.page_id ∧ (reset_lock hn l).trx = l.trx
    ∧ (reset_lock hn l).index = l.index
    ∧ (reset_lock hn l).type_mode = l.clear_wait.type_mode
    ∧ (∀ i, lock_rec_get_nth_bit (reset_lock hn l) i
        = (!decide (i = hn) && lock_rec_get_nth_bit l i)) := by
  unfold reset_lock
  by_cases hw : l.is_waiting = true
  · rw [if_pos hw, find_set_bit_of_only l hn hb (ho hw)]
    refine ⟨rfl, rfl, rfl, rfl, ?_⟩
    intro i
    rw [← get_nth_bit_reset_eq]
    rfl
  · rw [if_neg hw]
    have hw1 : l.is_waiting = false := by simpa using hw
    refine ⟨rfl, rfl, rfl, ?_, fun i => get_nth_bit_reset_eq l hn i⟩
    rw [clear_wait_of_not_waiting l hw1]
    rfl

theorem lock_update_delete_core (fuel : Nat) (s : lock_sys_t) (block : buf_block_t)
    (heap_no next_heap_no : Nat) (wf : ∀ k, chain_wf s k)
    (hne : next_heap_no ≠ heap_no) (hheap : next_heap_no < block.n_heap)
    (hsingle : ∀ l ∈ lock_rec_queue s hash_id.rec_hash block.page_id heap_no,
      (s.lock l).is_waiting = true →
      ∀ i, lock_rec_get_nth_bit (s.lock l) i = true → i = heap_no)
    (hf1 : (lock_rec_queue s hash_id.rec_hash block.page_id heap_no).length ≤ fuel)
    (hf2 : (lock_rec_queue s hash_id.prdt_hash block.page_id PAGE_HEAP_NO_INFIMUM).length
      ≤ fuel)
    (hf3 : (lock_rec_queue s hash_id.prdt_page_hash block.page_id PAGE_HEAP_NO_INFIMUM).length
      ≤ fuel) :
    ∃ s1, lock_update_delete fuel s block heap_no next_heap_no = some s1
      ∧ (∀ x ∈ s1.rec_hash, (s1.lock x).page_id = block.page_id →
          lock_rec_get_nth_bit (s1.lock x) heap_no = false)
      ∧ (∀ l ∈ lock_rec_queue s hash_id.rec_hash block.page_id heap_no,
          (s.lock l).is_waiting = true →
          (s1.trx (s.lock l).trx).wait_lock = none ∧ (s1.lock l).is_waiting = false)
      ∧ (∀ x ∈ s.rec_hash, x ∈ s1.rec_hash
          ∧ ∀ i, ((s.lock x).page_id ≠ block.page_id
                ∨ (i ≠ heap_no ∧ i ≠ next_heap_no)) →
              lock_rec_get_nth_bit (s1.lock x) i = lock_rec_get_nth_bit (s.lock x) i)
      ∧ (∀ x ∈ s1.rec_hash, x ∉ s.rec_hash →
          (s1.lock x).page_id = block.page_id ∧ (s1.lock x).is_waiting = false
          ∧ ∀ i, lock_rec_get_nth_bit (s1.lock x) i = true → i = next_heap_no)
      ∧ (∀ T tm, rec_holds s1 block.page_id next_heap_no T tm ↔
          (rec_holds s block.page_id next_heap_no T tm
            ∨ ∃ l ∈ lock_rec_queue s hash_id.rec_hash block.page_id heap_no,
                (s.lock l).is_insert_intention = false
                ∧ ((s.trx (s.lock l).trx).isolation_level > TRX_ISO_READ_COMMITTED
                  ∨ (s.lock l).mode
                      ≠ (if (s.trx (s.lock l).trx).duplicates ≠ 0 then LOCK_S else LOCK_X))
                ∧ (s.lock l).trx = T
                ∧ tm = supremum_type_mode { mode := (s.lock l).mode, gap := true }
                    next_heap_no)) := by
  have halloc := chain_wf_rec_alloc (wf hash_id.rec_hash)
  have hne1 : block.page_id ≠ block.page_id ∨ next_heap_no ≠ heap_no := Or.inr hne
  obtain ⟨sa, h1, wfar, hfr, hiff, _⟩ := inherit_loop_spec lock_rec_inherit_to_gap_test block block
    next_heap_no heap_no s fuel (wf _) hne1 hheap
    (fun s1 l hfr hl => lock_rec_inherit_to_gap_test_stable hfr l hl)
    hf1
  have hq : lock_rec_queue sa hash_id.rec_hash block.page_id heap_no
      = lock_rec_queue s hash_id.rec_hash block.page_id heap_no :=
    hfr.queue halloc block.page_id heap_no hne1
  have wfa : ∀ k, chain_wf sa k := by
    intro k
    by_cases hk : k = hash_id.rec_hash
    · subst hk; exact wfar
    · exact (hfr.chain_other (wf _) (wf k) hk).1
  have hqo : ∀ k, k ≠ hash_id.rec_hash → ∀ i,
      lock_rec_queue sa k block.page_id i = lock_rec_queue s k block.page_id i := by
    intro k hk i
    obtain ⟨_, e1, e2⟩ := hfr.chain_other (wf _) (wf k) hk
    exact lock_rec_queue_congr k _ _ e1 e2
  obtain ⟨sd, r0, _, ⟨r1, _, _⟩, r2, r3, r4, _, _⟩ := reset_and_release_wait_spec fuel sa
    block heap_no wfa
    (by rw [hq]; exact hf1)
    (by rw [hqo _ (by decide)]; exact hf2)
    (by rw [hqo _ (by decide)]; exact hf3)
  rw [hq] at r2 r3 r4
  have hrec : sd.rec_hash = sa.rec_hash := r1 hash_id.rec_hash
  -- the locks of the queue of `rec`
  have hQ : ∀ x ∈ lock_rec_queue s hash_id.rec_hash block.page_id heap_no,
      x < s.n_locks ∧ (sa.lock x).page_id = block.page_id
      ∧ lock_rec_get_nth_bit (sa.lock x) heap_no = true
      ∧ ((s.lock x).is_waiting = true → sa.lock x = s.lock x)
      ∧ (sa.lock x).is_waiting = (s.lock x).is_waiting := by
    intro x hx
    obtain ⟨m1, m2, m3⟩ := (mem_lock_rec_queue _ _ _ _ _).mp hx
    have hlt := halloc x m1
    obtain ⟨_, a2, a3, _⟩ := hfr.attr x hlt
    refine ⟨hlt, by rw [a3]; exact m2, hfr.grow x hlt _ m3, fun hw => hfr.waiting x hlt hw, ?_⟩
    unfold lock_t.is_waiting
    rw [a2]
  have hR : ∀ x ∈ lock_rec_queue s hash_id.rec_hash block.page_id heap_no,
      (sd.lock x).page_id = (sa.lock x).page_id ∧ (sd.lock x).trx = (sa.lock x).trx
      ∧ (sd.lock x).type_mode = (sa.lock x).clear_wait.type_mode
      ∧ (∀ i, lock_rec_get_nth_bit (sd.lock x) i
          = (!decide (i = heap_no) && lock_rec_get_nth_bit (sa.lock x) i)) := by
    intro x hx
    obtain ⟨_, q2, q3, q4, q5⟩ := hQ x hx
    rw [r3 x hx]
    obtain ⟨e1, e2, _, e4, e5⟩ := reset_lock_spec heap_no (sa.lock x) q3 (by
      intro hw
      rw [q5] at hw
      rw [q4 hw]
      exact hsingle x hx hw)
    exact ⟨e1, e2, e4, e5⟩
  have hwait_nobit : ∀ x ∈ lock_rec_queue s hash_id.rec_hash block.page_id heap_no,
      lock_rec_get_nth_bit (sa.lock x) next_heap_no = true → (sa.lock x).is_waiting = false := by
    intro x hx hb
    obtain ⟨_, _, _, q4, q5⟩ := hQ x hx
    by_contra hc
    have hw : (sa.lock x).is_waiting = true := by simpa using hc
    rw [q5] at hw
    rw [q4 hw] at hb
    exact hne (hsingle x hx hw _ hb)
  have hstart : lock_update_delete fuel s block heap_no next_heap_no = some sd := by
    unfold lock_update_delete
    rw [lock_rec_inherit_to_gap_eq, h1, Option.some_bind]
    exact r0
  have hiff1 : ∀ T tm, rec_holds sa block.page_id next_heap_no T tm ↔
      (rec_holds s block.page_id next_heap_no T tm
        ∨ ∃ l ∈ lock_rec_queue s hash_id.rec_hash block.page_id heap_no,
            (s.lock l).is_insert_intention = false
            ∧ ((s.trx (s.lock l).trx).isolation_level > TRX_ISO_READ_COMMITTED
              ∨ (s.lock l).mode
                  ≠ (if (s.trx (s.lock l).trx).duplicates ≠ 0 then LOCK_S else LOCK_X))
            ∧ (s.lock l).trx = T
            ∧ tm = supremum_type_mode { mode := (s.lock l).mode, gap := true }
                next_heap_no) := by
    intro T tm
    rw [hiff]
    constructor
    · rintro (a | ⟨l, hl, b1, b2, b3⟩)
      · exact Or.inl a
      · obtain ⟨c1, c2⟩ := (lock_rec_inherit_to_gap_test_iff s l).mp b1
        exact Or.inr ⟨l, hl, c1, c2, b2, b3⟩
    · rintro (a | ⟨l, hl, c1, c2, b2, b3⟩)
      · exact Or.inl a
      · exact Or.inr ⟨l, hl, (lock_rec_inherit_to_gap_test_iff s l).mpr ⟨c1, c2⟩, b2, b3⟩
  refine ⟨sd, hstart, ?_, ?_, ?_, ?_, ?_⟩
  · intro x hx hp
    rw [hrec] at hx
    by_cases hxq : x ∈ lock_rec_queue s hash_id.rec_hash block.page_id heap_no
    · rw [(hR x hxq).2.2.2]
      simp
    · rw [r2 x hx hxq] at hp ⊢
      by_contra hc
      have hb : lock_rec_get_nth_bit (sa.lock x) heap_no = true := by simpa using hc
      apply hxq
      rw [← hq]
      exact (mem_lock_rec_queue _ _ _ _ _).mpr ⟨hx, hp, hb⟩
  · intro l hl hw
    obtain ⟨_, _, _, q4, _⟩ := hQ l hl
    constructor
    · apply r4
      exact ⟨l, hl, by rw [q4 hw]; exact hw, by rw [q4 hw]⟩
    · unfold lock_t.is_waiting
      rw [(hR l hl).2.2.1]
      rfl
  · intro x hx
    have hlt := halloc x hx
    refine ⟨by rw [hrec]; exact hfr.mem x hx, ?_⟩
    intro i hi
    by_cases hxq : x ∈ lock_rec_queue s hash_id.rec_hash block.page_id heap_no
    · have hp := ((mem_lock_rec_queue _ _ _ _ _).mp hxq).2.1
      rcases hi with hi | ⟨hi1, hi2⟩
      · exact absurd hp hi
      · rw [(hR x hxq).2.2.2, hfr.bits x hlt i (Or.inr hi2)]
        simp [hi1]
    · rw [r2 x (hfr.mem x hx) hxq]
      apply hfr.bits x hlt i
      rcases hi with hi | ⟨_, hi2⟩
      · exact Or.inl hi
      · exact Or.inr hi2
  · intro x hx hxn
    rw [hrec] at hx
    obtain ⟨c1, c2, c3⟩ := hfr.on_heir x hx (hfr.fresh x hx hxn)
    have hxq : x ∉ lock_rec_queue s hash_id.rec_hash block.page_id heap_no :=
      fun hm => hxn (lock_rec_queue_subset _ _ _ _ _ hm)
    rw [r2 x hx hxq]
    exact ⟨c1, c2, c3⟩
  · intro T tm
    rw [← hiff1]
    constructor
    · rintro ⟨x, hx, p1, p2, p3, p4⟩
      rw [hrec] at hx
      by_cases hxq : x ∈ lock_rec_queue s hash_id.rec_hash block.page_id heap_no
      · obtain ⟨e1, e2, e3, e4⟩ := hR x hxq
        rw [e4] at p2
        simp only [Bool.and_eq_true, Bool.not_eq_true', decide_eq_false_iff_not] at p2
        have hg := hwait_nobit x hxq p2.2
        rw [e3, clear_wait_of_not_waiting _ hg] at p4
        exact ⟨x, hx, by rw [← e1]; exact p1, p2.2, by rw [← e2]; exact p3, p4⟩
      · rw [r2 x hx hxq] at p1 p2 p3 p4
        exact ⟨x, hx, p1, p2, p3, p4⟩
    · rintro ⟨x, hx, p1, p2, p3, p4⟩
      refine ⟨x, by rw [hrec]; exact hx, ?_⟩
      by_cases hxq : x ∈ lock_rec_queue s hash_id.rec_hash block.page_id heap_no
      · obtain ⟨e1, e2, e3, e4⟩ := hR x hxq
        have hg := hwait_nobit x hxq p2
        refine ⟨by rw [e1]; exact p1, ?_, by rw [e2]; exact p3, ?_⟩
        · rw [e4, p2]
          simp [hne]
        · rw [e3, clear_wait_of_not_waiting _ hg]; exact p4
      · rw [r2 x hx hxq]
        exact ⟨p1, p2, p3, p4⟩

/-- C17: `lock_update_delete(block, rec)` returns (with fuel for the
three hash chains), and afterwards no lock of the record hash table on
the page has the bit of the heap number of `rec` set; every transaction
that had a waiting lock on `rec` has `wait_lock` NULL and that lock has
lost its `WAIT` flag; the locks that were in the record hash table are
still there and keep every bit other than the bit of `rec` and, on the
page, the bit of the successor; the locks added to the hash table are
granted locks of the page with the bit of the successor only; and the
requests on the successor are the ones there were and, for every lock on
`rec` that `lock_rec_inherit_to_gap` inherits, a granted request
`GAP | mode` of its owner (`GAP` dropped on the supremum).  The hash
chains are duplicate-free and hold allocated locks of their own kind, the
successor has another heap number than `rec`, and a waiting lock on `rec`
has no other bit set. -/
theorem lock_update_delete_spec (fuel : Nat) (s : lock_sys_t) (block : buf_block_t)
    (heap_no next_heap_no : Nat) (wf : ∀ k, chain_wf s k)
    (hne : next_heap_no ≠ heap_no) (hheap : next_heap_no < block.n_heap)
    (hsingle : ∀ l ∈ lock_rec_queue s hash_id.rec_hash block.page_id heap_no,
      (s.lock l).is_waiting = true →
      ∀ i, lock_rec_get_nth_bit (s.lock l) i = true → i = heap_no)
    (hf : ∀ k, (s.hash k).length ≤ fuel) :
    ∃ s1, lock_update_delete fuel s block heap_no next_heap_no = some s1
      ∧ (∀ x ∈ s1.rec_hash, (s1.lock x).page_id = block.page_id →
          lock_rec_get_nth_bit (s1.lock x) heap_no = false)
      ∧ (∀ l ∈ lock_rec_queue s hash_id.rec_hash block.page_id heap_no,
          (s.lock l).is_waiting = true →
          (s1.trx (s.lock l).trx).wait_lock = none ∧ (s1.lock l).is_waiting = false)
      ∧ (∀ x ∈ s.rec_hash, x ∈ s1.rec_hash
          ∧ ∀ i, ((s.lock x).page_id ≠ block.page_id
                ∨ (i ≠ heap_no ∧ i ≠ next_heap_no)) →
              lock_rec_get_nth_bit (s1.lock x) i = lock_rec_get_nth_bit (s.lock x) i)
      ∧ (∀ x ∈ s1.rec_hash, x ∉ s.rec_hash →
          (s1.lock x).page_id = block.page_id ∧ (s1.lock x).is_waiting = false
          ∧ ∀ i, lock_rec_get_nth_bit (s1.lock x) i = true → i = next_heap_no)
      ∧ (∀ T tm, rec_holds s1 block.page_id next_heap_no T tm ↔
          (rec_holds s block.page_id next_heap_no T tm
            ∨ ∃ l ∈ lock_rec_queue s hash_id.rec_hash block.page_id heap_no,
                (s.lock l).is_insert_intention = false
                ∧ ((s.trx (s.lock l).trx).isolation_level > TRX_ISO_READ_COMMITTED
                  ∨ (s.lock l).mode
                      ≠ (if (s.trx (s.lock l).trx).duplicates ≠ 0 then LOCK_S else LOCK_X))
                ∧ (s.lock l).trx = T
                ∧ tm = supremum_type_mode { mode := (s.lock l).mode, gap := true }
                    next_heap_no)) :=
  lock_update_delete_core fuel s block heap_no next_heap_no wf hne hheap hsingle
    (Nat.le_trans (lock_rec_queue_length_le _ _ _ _) (hf _))
    (Nat.le_trans (lock_rec_queue_length_le _ _ _ _) (hf _))
    (Nat.le_trans (lock_rec_queue_length_le _ _ _ _) (hf _))

theorem chain_wf_fifo_state_all (k : hash_id) : chain_wf fifo_state k := by
  cases k <;> exact ⟨by decide, by decide, by decide⟩

theorem fifo_state_single :
    ∀ l ∈ lock_rec_queue fifo_state hash_id.rec_hash 5 3,
      (fifo_state.lock l).is_waiting = true →
      ∀ i, lock_rec_get_nth_bit (fifo_state.lock l) i = true → i = 3 := by
  intro l hl _ i hi
  have hl1 : l ∈ [0, 1, 2] := hl
  have hlt := lock_rec_get_nth_bit_lt _ _ hi
  simp only [List.mem_cons, List.mem_singleton, List.not_mem_nil, or_false] at hl1
  rcases hl1 with rfl | rfl | rfl
  · have h8 : i < 8 := hlt
    interval_cases i <;> first | rfl | (exact absurd hi (by decide))
  · have h8 : i < 8 := hlt
    interval_cases i <;> first | rfl | (exact absurd hi (by decide))
  · have h8 : i < 8 := hlt
    interval_cases i <;> first | rfl | (exact absurd hi (by decide))

theorem lock_update_delete_spec_witness :
    ∃ s1, lock_update_delete 3 fifo_state { page_id := 5, n_heap := 8 } 3 4 = some s1
      ∧ (∀ x ∈ s1.rec_hash, (s1.lock x).page_id = 5 →
          lock_rec_get_nth_bit (s1.lock x) 3 = false)
      ∧ (s1.trx 2).wait_lock = none ∧ (s1.lock 1).is_waiting = false
      ∧ rec_holds s1 5 4 2 { mode := LOCK_X, gap := true } := by
  obtain ⟨s1, h1, h2, h3, _, _, h6⟩ := lock_update_delete_spec 3 fifo_state
    { page_id := 5, n_heap := 8 } 3 4 chain_wf_fifo_state_all (by decide) (by decide)
    fifo_state_single (fun k => by cases k <;> decide)
  exact ⟨s1, h1, h2, (h3 1 (by decide) (by decide)).1, (h3 1 (by decide) (by decide)).2,
    (h6 2 { mode := LOCK_X, gap := true }).mpr
      (Or.inr ⟨1, by decide, by decide, Or.inl (by decide), rfl, rfl⟩)⟩

theorem any_congr_mem {α : Type} (l : List α) (f g : α → Bool)
    (h : ∀ x ∈ l, f x = g x) : l.any f = l.any g := by
  induction l with
  | nil => rfl
  | cons a l ih =>
    rw [List.any_cons, List.any_cons, h a (List.mem_cons_self _ _),
      ih (fun x hx => h x (List.mem_cons_of_mem _ hx))]

theorem lock_table_has_stable {ph hh : Nat} {s s1 : lock_sys_t} (h : heir_frame ph hh s s1)
    (htl : ∀ t lock, some lock ∈ (s.trx t).table_locks → lock < s.n_locks)
    (t tb : Nat) (m : lock_mode) : lock_table_has s1 t tb m = lock_table_has s t tb m := by
  unfold lock_table_has
  rw [(h.trx t).2.2.1]
  apply any_congr_mem
  intro e he
  cases e with
  | none => rfl
  | some lock =>
    obtain ⟨_, a2, _, _, a5⟩ := h.attr lock (htl t lock he)
    simp only [lock_t.mode, a2, a5]

theorem if_gap_lock_test_stable {ph hh : Nat} {s s1 : lock_sys_t} (h : heir_frame ph hh s s1)
    (htl : ∀ t lock, some lock ∈ (s.trx t).table_locks → lock < s.n_locks)
    (N l : Nat) (hl : l < s.n_locks) :
    lock_rec_inherit_to_gap_if_gap_lock_test N s1 l
      = lock_rec_inherit_to_gap_if_gap_lock_test N s l := by
  obtain ⟨a1, a2, _, a4, _⟩ := h.attr l hl
  unfold lock_rec_inherit_to_gap_if_gap_lock_test lock_t.is_insert_intention
    lock_t.is_record_not_gap
  simp only [a1, a2, a4, lock_table_has_stable h htl]

theorem if_gap_lock_test_iff (N : Nat) (s : lock_sys_t) (l : Nat) :
    lock_rec_inherit_to_gap_if_gap_lock_test N s l = true ↔
      ((s.lock l).is_insert_intention = false
        ∧ (N = PAGE_HEAP_NO_SUPREMUM ∨ (s.lock l).is_record_not_gap = false)
        ∧ lock_table_has s (s.lock l).trx (s.lock l).index.table LOCK_X = false) := by
  unfold lock_rec_inherit_to_gap_if_gap_lock_test
  simp [and_assoc]

theorem mem_gap_lock_set (s : lock_sys_t) (p N T : Nat) (m : lock_mode) :
    (T, m) ∈ gap_lock_set s p N ↔
      ∃ tm, rec_holds s p N T tm ∧ tm.mode = m ∧ tm.wait = false
        ∧ tm.insert_intention = false
        ∧ (N = PAGE_HEAP_NO_SUPREMUM ∨ tm.rec_not_gap = false) := by
  unfold gap_lock_set rec_holds
  simp only [List.mem_map, List.mem_filter, mem_lock_rec_queue, Prod.mk.injEq, Bool.and_eq_true,
    Bool.not_eq_true', Bool.or_eq_true, decide_eq_true_eq]
  constructor
  · rintro ⟨g, ⟨⟨h1, h2, h3⟩, ⟨h4, h5⟩, h6⟩, h7, h8⟩
    exact ⟨(s.lock g).type_mode, ⟨g, h1, h2, h3, h7, rfl⟩, h8, h4, h5, h6⟩
  · rintro ⟨tm, ⟨g, h1, h2, h3, h7, rfl⟩, h8, h4, h5, h6⟩
    exact ⟨g, ⟨⟨h1, h2, h3⟩, ⟨h4, h5⟩, h6⟩, h7, h8⟩

theorem gap_mode_attr (m : lock_mode) (hh : Nat) :
    (supremum_type_mode { mode := m, gap := true } hh).mode = m
    ∧ (supremum_type_mode { mode := m, gap := true } hh).wait = false
    ∧ (supremum_type_mode { mode := m, gap := true } hh).insert_intention = false
    ∧ (supremum_type_mode { mode := m, gap := true } hh).rec_not_gap = false := by
  unfold supremum_type_mode
  split <;> exact ⟨rfl, rfl, rfl, rfl⟩

/-- C18, counterexample: in `fifo_state` transaction 1 holds a granted `S`
lock on the record N = (page 5, heap number 3) and transactions 2 and 3
wait for an `X` and an `S` next-key lock on it; all three are above READ
COMMITTED and no lock is on the heap number 4.  The gap-lock set on N is
`{(1, S)}` before; after `lock_update_insert` of a record with heap number
4 before N followed by `lock_update_delete` of that record it contains
`(2, X)` and `(3, S)`: the waiting locks have come back as granted gap
locks. -/
theorem insert_delete_grants_waiters :
    gap_lock_set fifo_state 5 3 = [(1, LOCK_S)]
    ∧ lock_rec_queue fifo_state hash_id.rec_hash 5 4 = []
    ∧ (∀ l ∈ fifo_state.rec_hash,
        (fifo_state.trx (fifo_state.lock l).trx).isolation_level > TRX_ISO_READ_COMMITTED)
    ∧ (insert_then_delete 10 fifo_state { page_id := 5, n_heap := 8 } 4 3).map
          (fun s => decide ((2, LOCK_X) ∈ gap_lock_set s 5 3)
            && decide ((3, LOCK_S) ∈ gap_lock_set s 5 3))
        = some true := by
  decide

theorem insert_then_delete_core (fuel : Nat) (s : lock_sys_t) (block : buf_block_t)
    (R N : Nat) (wf : ∀ k, chain_wf s k)
    (htl : ∀ t lock, some lock ∈ (s.trx t).table_locks → lock < s.n_locks)
    (hRN : R ≠ N) (hRh : R < block.n_heap) (hNh : N < block.n_heap)
    (hempty : lock_rec_queue s hash_id.rec_hash block.page_id R = [])
    (hf : ∀ k, 2 * (s.hash k).length ≤ fuel) :
    ∃ s2, insert_then_delete fuel s block R N = some s2
      ∧ ∀ T tm, rec_holds s2 block.page_id N T tm ↔
          (rec_holds s block.page_id N T tm
            ∨ ∃ l ∈ lock_rec_queue s hash_id.rec_hash block.page_id N,
                lock_rec_inherit_to_gap_if_gap_lock_test N s l = true
                ∧ ((s.trx T).isolation_level > TRX_ISO_READ_COMMITTED
                  ∨ (s.lock l).mode ≠ (if (s.trx T).duplicates ≠ 0 then LOCK_S else LOCK_X))
                ∧ (s.lock l).trx = T
                ∧ tm = supremum_type_mode { mode := (s.lock l).mode, gap := true } N) := by
  have halloc := chain_wf_rec_alloc (wf hash_id.rec_hash)
  have hlenle : ∀ k p i, (lock_rec_queue s k p i).length ≤ fuel := fun k p i =>
    Nat.le_trans (lock_rec_queue_length_le s k p i) (by have := hf k; omega)
  obtain ⟨s1, h1, wf1r, hfr, hiff, hlen⟩ := inherit_loop_spec
    (lock_rec_inherit_to_gap_if_gap_lock_test N) block block R N s fuel (wf _) (Or.inr hRN) hRh
    (fun s1 l hfr hl => if_gap_lock_test_stable hfr htl N l hl) (hlenle _ _ _)
  have wf1 : ∀ k, chain_wf s1 k := by
    intro k
    by_cases hk : k = hash_id.rec_hash
    · subst hk; exact wf1r
    · exact (hfr.chain_other (wf _) (wf k) hk).1
  have hqo : ∀ k, k ≠ hash_id.rec_hash → ∀ i,
      lock_rec_queue s1 k block.page_id i = lock_rec_queue s k block.page_id i := by
    intro k hk i
    obtain ⟨_, e1, e2⟩ := hfr.chain_other (wf _) (wf k) hk
    exact lock_rec_queue_congr k _ _ e1 e2
  have hnoR : ∀ T tm, ¬ rec_holds s block.page_id R T tm := by
    rintro T tm ⟨g, g1, g2, g3, _⟩
    have : g ∈ lock_rec_queue s hash_id.rec_hash block.page_id R :=
      (mem_lock_rec_queue _ _ _ _ _).mpr ⟨g1, g2, g3⟩
    rw [hempty] at this
    exact absurd this (List.not_mem_nil _)
  have hQR : ∀ l ∈ lock_rec_queue s1 hash_id.rec_hash block.page_id R,
      ∃ l0 ∈ lock_rec_queue s hash_id.rec_hash block.page_id N,
        lock_rec_inherit_to_gap_if_gap_lock_test N s l0 = true
        ∧ (s.lock l0).trx = (s1.lock l).trx
        ∧ (s1.lock l).type_mode
            = supremum_type_mode { mode := (s.lock l0).mode, gap := true } R := by
    intro l hl
    obtain ⟨m1, m2, m3⟩ := (mem_lock_rec_queue _ _ _ _ _).mp hl
    have hh : rec_holds s1 block.page_id R (s1.lock l).trx (s1.lock l).type_mode :=
      ⟨l, m1, m2, m3, rfl, rfl⟩
    rcases (hiff _ _).mp hh with a | ⟨l0, b0, b1, b2, b3⟩
    · exact absurd a (hnoR _ _)
    · exact ⟨l0, b0, b1, b2, b3⟩
  obtain ⟨s2, d0, _, _, _, _, d5⟩ := lock_update_delete_core fuel s1 block R N wf1
    (fun e => hRN e.symm) hNh
    (by
      intro l hl hw
      obtain ⟨l0, _, _, _, e⟩ := hQR l hl
      unfold lock_t.is_waiting at hw
      rw [e, (gap_mode_attr _ _).2.1] at hw
      cases hw)
    (by
      refine Nat.le_trans (lock_rec_queue_length_le _ _ _ _) (Nat.le_trans hlen ?_)
      have h2 := lock_rec_queue_length_le s hash_id.rec_hash block.page_id N
      have h3 := hf hash_id.rec_hash
      have e : s.rec_hash.length = (s.hash hash_id.rec_hash).length := rfl
      omega)
    (by rw [hqo _ (by decide)]; exact hlenle _ _ _)
    (by rw [hqo _ (by decide)]; exact hlenle _ _ _)
  have hstart : insert_then_delete fuel s block R N = some s2 := by
    unfold insert_then_delete lock_update_insert
    rw [lock_rec_inherit_to_gap_if_gap_lock_eq, h1, Option.some_bind]
    exact d0
  refine ⟨s2, hstart, ?_⟩
  intro T tm
  rw [d5, hfr.holds halloc block.page_id N (Or.inr hRN)]
  constructor
  · rintro (a | ⟨l, hl, _, c2, c3, c4⟩)
    · exact Or.inl a
    · obtain ⟨l0, b0, b1, b2, b3⟩ := hQR l hl
      have hm : (s1.lock l).mode = (s.lock l0).mode := by
        unfold lock_t.mode
        rw [b3, (gap_mode_attr _ _).1]
        rfl
      right
      refine ⟨l0, b0, b1, ?_, b2.trans c3, by rw [← hm]; exact c4⟩
      rw [c3, (hfr.trx T).1, (hfr.trx T).2.1, hm] at c2
      exact c2
  · rintro (a | ⟨l0, b0, b1, b2, b3, b4⟩)
    · exact Or.inl a
    · right
      have hh : rec_holds s1 block.page_id R T
          (supremum_type_mode { mode := (s.lock l0).mode, gap := true } R) :=
        (hiff _ _).mpr (Or.inr ⟨l0, b0, b1, b3, rfl⟩)
      obtain ⟨l, g1, g2, g3, g4, g5⟩ := hh
      have hm : (s1.lock l).mode = (s.lock l0).mode := by
        unfold lock_t.mode
        rw [g5, (gap_mode_attr _ _).1]
        rfl
      refine ⟨l, (mem_lock_rec_queue _ _ _ _ _).mpr ⟨g1, g2, g3⟩, ?_, ?_, g4,
        by rw [hm]; exact b4⟩
      · unfold lock_t.is_insert_intention
        rw [g5, (gap_mode_attr _ _).2.2.1]
      · rw [g4, (hfr.trx T).1, (hfr.trx T).2.1, hm]
        exact b2

/-- C18, amended: let the record with heap number `R`, on which there is
no lock, be inserted before the record `N` and deleted again
(`lock_update_insert` followed by `lock_update_delete`, which return with
fuel for twice the hash chains).  Then the gap-lock set on `N` afterwards
is the set before together with the pairs (transaction, mode) of the
WAITING locks on `N` that are not `INSERT_INTENTION`, cover the gap (not
`REC_NOT_GAP`, or `N` is the supremum), whose owner has no `X` lock on the
table, and whose owner is above READ COMMITTED or whose mode is not the
one an UPDATE or DELETE sets: these come back as granted gap locks.  In
particular the set is unchanged when no lock on `N` is waiting, whatever
the isolation levels.  The hash chains are duplicate-free and hold
allocated locks of their own kind, and the `table_locks` vectors hold
allocated locks. -/
theorem insert_then_delete_gap_lock_set (fuel : Nat) (s : lock_sys_t) (block : buf_block_t)
    (R N : Nat) (wf : ∀ k, chain_wf s k)
    (htl : ∀ t lock, some lock ∈ (s.trx t).table_locks → lock < s.n_locks)
    (hRN : R ≠ N) (hRh : R < block.n_heap) (hNh : N < block.n_heap)
    (hempty : lock_rec_queue s hash_id.rec_hash block.page_id R = [])
    (hf : ∀ k, 2 * (s.hash k).length ≤ fuel) :
    ∃ s2, insert_then_delete fuel s block R N = some s2
      ∧ (∀ T m, (T, m) ∈ gap_lock_set s2 block.page_id N ↔
          ((T, m) ∈ gap_lock_set s block.page_id N
            ∨ ∃ l ∈ lock_rec_queue s hash_id.rec_hash block.page_id N,
                (s.lock l).is_waiting = true ∧ (s.lock l).is_insert_intention = false
                ∧ (N = PAGE_HEAP_NO_SUPREMUM ∨ (s.lock l).is_record_not_gap = false)
                ∧ lock_table_has s T (s.lock l).index.table LOCK_X = false
                ∧ ((s.trx T).isolation_level > TRX_ISO_READ_COMMITTED
                  ∨ m ≠ (if (s.trx T).duplicates ≠ 0 then LOCK_S else LOCK_X))
                ∧ (s.lock l).trx = T ∧ (s.lock l).mode = m))
      ∧ ((∀ l ∈ lock_rec_queue s hash_id.rec_hash block.page_id N,
            (s.lock l).is_waiting = false) →
          ∀ T m, (T, m) ∈ gap_lock_set s2 block.page_id N
            ↔ (T, m) ∈ gap_lock_set s block.page_id N) := by
  obtain ⟨s2, h0, hiff⟩ := insert_then_delete_core fuel s block R N wf htl hRN hRh hNh hempty hf
  have main : ∀ T m, (T, m) ∈ gap_lock_set s2 block.page_id N ↔
      ((T, m) ∈ gap_lock_set s block.page_id N
        ∨ ∃ l ∈ lock_rec_queue s hash_id.rec_hash block.page_id N,
            (s.lock l).is_waiting = true ∧ (s.lock l).is_insert_intention = false
            ∧ (N = PAGE_HEAP_NO_SUPREMUM ∨ (s.lock l).is_record_not_gap = false)
            ∧ lock_table_has s T (s.lock l).index.table LOCK_X = false
            ∧ ((s.trx T).isolation_level > TRX_ISO_READ_COMMITTED
              ∨ m ≠ (if (s.trx T).duplicates ≠ 0 then LOCK_S else LOCK_X))
            ∧ (s.lock l).trx = T ∧ (s.lock l).mode = m) := by
    intro T m
    rw [mem_gap_lock_set, mem_gap_lock_set]
    constructor
    · rintro ⟨tm, hh, c1, c2, c3, c4⟩
      rcases (hiff T tm).mp hh with a | ⟨l, hl, b1, b2, b3, b4⟩
      · exact Or.inl ⟨tm, a, c1, c2, c3, c4⟩
      · obtain ⟨t1, t2, t3⟩ := (if_gap_lock_test_iff N s l).mp b1
        have hm : (s.lock l).mode = m := by
          rw [b4, (gap_mode_attr _ _).1] at c1
          exact c1
        by_cases hw : (s.lock l).is_waiting = true
        · right
          refine ⟨l, hl, hw, t1, t2, ?_, ?_, b3, hm⟩
          · rw [← b3]; exact t3
          · rw [← hm]; exact b2
        · left
          obtain ⟨m1, m2, m3⟩ := (mem_lock_rec_queue _ _ _ _ _).mp hl
          exact ⟨(s.lock l).type_mode, ⟨l, m1, m2, m3, b3, rfl⟩, hm, by simpa using hw, t1,
            t2⟩
    · rintro (⟨tm, a, c1, c2, c3, c4⟩ | ⟨l, hl, _, t1, t2, t3, b2, b3, hm⟩)
      · exact ⟨tm, (hiff T tm).mpr (Or.inl a), c1, c2, c3, c4⟩
      · refine ⟨supremum_type_mode { mode := (s.lock l).mode, gap := true } N,
          (hiff T _).mpr (Or.inr ⟨l, hl, ?_, ?_, b3, rfl⟩), ?_, (gap_mode_attr _ _).2.1,
          (gap_mode_attr _ _).2.2.1, Or.inr (gap_mode_attr _ _).2.2.2⟩
        · exact (if_gap_lock_test_iff N s l).mpr ⟨t1, t2, by rw [b3]; exact t3⟩
        · rw [hm]; exact b2
        · rw [(gap_mode_attr _ _).1]; exact hm
  refine ⟨s2, h0, main, ?_⟩
  intro hnw T m
  rw [main]
  constructor
  · rintro (a | ⟨l, hl, hw, _⟩)
    · exact a
    · rw [hnw l hl] at hw
      cases hw
  · intro a
    exact Or.inl a

theorem fifo_state_table_locks (t lock : Nat)
    (h : some lock ∈ (fifo_state.trx t).table_locks) : lock < fifo_state.n_locks := by
  have e : (fifo_state.trx t).table_locks = [] := by
    unfold fifo_state lock_sys_t.trx
    simp only
    split_ifs <;> rfl
  rw [e] at h
  exact absurd h (List.not_mem_nil _)

theorem insert_then_delete_gap_lock_set_witness :
    ∃ s2, insert_then_delete 6 fifo_state { page_id := 5, n_heap := 8 } 4 3 = some s2
      ∧ (2, LOCK_X) ∈ gap_lock_set s2 5 3 ∧ (1, LOCK_S) ∈ gap_lock_set s2 5 3 := by
  obtain ⟨s2, h0, h1, _⟩ := insert_then_delete_gap_lock_set 6 fifo_state
    { page_id := 5, n_heap := 8 } 4 3 chain_wf_fifo_state_all fifo_state_table_locks
    (by decide) (by decide) (by decide) (by decide) (fun k => by cases k <;> decide)
  exact ⟨s2, h0,
    (h1 2 LOCK_X).mpr (Or.inr ⟨1, by decide, by decide, by decide, Or.inr (by decide),
      by decide, Or.inl (by decide), by decide, by decide⟩),
    (h1 1 LOCK_S).mpr (Or.inl (by decide))⟩

theorem set_lock_set_lock (s : lock_sys_t) (l : Nat) (a b : lock_t) :
    (s.set_lock l a).set_lock l b = s.set_lock l b := by
  unfold lock_sys_t.set_lock
  simp

theorem lock_rec_move_step_eq (receiver : buf_block_t) (rh dh : Nat) (s : lock_sys_t)
    (l : Nat) :
    lock_rec_move_step receiver rh dh s l
      = some (lock_rec_add_to_queue
          (s.set_lock l (lock_rec_reset_nth_bit (s.lock l) dh).clear_wait)
          (s.lock l).type_mode receiver rh (s.lock l).index (s.lock l).trx false) := by
  unfold lock_rec_move_step
  simp only [lock_sys_t.lock_set_lock, if_true]
  by_cases hw : (s.lock l).type_mode.wait = true
  · have e : (lock_rec_reset_nth_bit (s.lock l) dh).type_mode.wait = true := hw
    rw [if_pos e, set_lock_set_lock]
    simp only [lock_sys_t.lock_set_lock, if_true]
    rfl
  · have e : ¬ (lock_rec_reset_nth_bit (s.lock l) dh).type_mode.wait = true := hw
    rw [if_neg e]
    have hw1 : (lock_rec_reset_nth_bit (s.lock l) dh).is_waiting = false := by
      simpa [lock_t.is_waiting] using hw
    rw [clear_wait_of_not_waiting _ hw1]
    simp only [lock_sys_t.lock_set_lock, if_true]
    rfl

theorem hash_get_rec_iff (tm : type_mode_t) :
    lock_hash_get tm = hash_id.rec_hash ↔ (tm.predicate = false ∧ tm.prdt_page = false) := by
  unfold lock_hash_get
  cases tm.predicate <;> cases tm.prdt_page <;> simp

theorem supremum_type_mode_flags (tm : type_mode_t) (hn : Nat) :
    (supremum_type_mode tm hn).predicate = tm.predicate
    ∧ (supremum_type_mode tm hn).prdt_page = tm.prdt_page
    ∧ (supremum_type_mode tm hn).wait = tm.wait
    ∧ (supremum_type_mode tm hn).mode = tm.mode
    ∧ (supremum_type_mode tm hn).insert_intention = tm.insert_intention := by
  unfold supremum_type_mode
  split <;> exact ⟨rfl, rfl, rfl, rfl, rfl⟩

theorem lock_rec_queue_after_step {k : hash_id} {p hn l : Nat} {rest : List Nat}
    {s s1 : lock_sys_t} (wf : chain_wf s k) (h : queue_step k p hn l s s1)
    (hq : lock_rec_queue s k p hn = l :: rest) (hoff : on_rec s1 p hn l = false) :
    lock_rec_queue s1 k p hn = rest := by
  rw [lock_rec_queue_eq_filter] at hq ⊢
  obtain ⟨e, he, hext⟩ := h.ext
  rw [he, List.filter_append]
  have h1 : e.filter (on_rec s1 p hn) = [] := by
    rw [List.filter_eq_nil_iff]
    intro x hx
    rw [hext x hx]
    simp
  rw [h1, List.append_nil]
  have hnd : ((s.hash k).filter (on_rec s p hn)).Nodup := wf.nodup.filter _
  rw [hq] at hnd
  have hlr : l ∉ rest := (List.nodup_cons.mp hnd).1
  have e2 : (s.hash k).filter (on_rec s1 p hn)
      = ((s.hash k).filter (on_rec s p hn)).filter (fun x => x != l) := by
    rw [List.filter_filter]
    apply List.filter_congr
    intro x hx
    by_cases hxl : x = l
    · subst hxl
      rw [hoff]
      simp
    · rw [h.keep x hx hxl]
      simp [hxl]
  rw [e2, hq, List.filter_cons_of_neg (by simp)]
  rw [List.filter_eq_self]
  intro x hx
  have : x ≠ l := fun e3 => hlr (e3 ▸ hx)
  simp [this]

theorem rec_holds_clear_moved (s : lock_sys_t) (l pr rh pd dh : Nat)
    (hne : pr ≠ pd ∨ rh ≠ dh) (hpage : (s.lock l).page_id = pd)
    (hg : on_rec s pr rh l = true → (s.lock l).type_mode.wait = false)
    (T : Nat) (tm : type_mode_t) :
    rec_holds (s.set_lock l (lock_rec_reset_nth_bit (s.lock l) dh).clear_wait) pr rh T tm
      ↔ rec_holds s pr rh T tm := by
  have key : ∀ x, x = l → (s.lock l).page_id = pr →
      lock_rec_get_nth_bit (s.lock l) rh = true →
      (lock_rec_reset_nth_bit (s.lock l) dh).clear_wait.type_mode = (s.lock l).type_mode
      ∧ rh ≠ dh := by
    intro x _ h1 h2
    have hw := hg (by unfold on_rec; simp [h1, h2])
    have hw1 : (lock_rec_reset_nth_bit (s.lock l) dh).is_waiting = false := by
      simpa [lock_t.is_waiting] using hw
    rw [clear_wait_of_not_waiting _ hw1]
    refine ⟨rfl, ?_⟩
    rcases hne with a | a
    · exact absurd (h1.symm.trans hpage) a
    · exact a
  unfold rec_holds
  constructor
  · rintro ⟨x, hx, h1, h2, h3, h4⟩
    refine ⟨x, hx, ?_⟩
    by_cases hxl : x = l
    · subst hxl
      simp only [lock_sys_t.lock_set_lock, if_true] at h1 h2 h3 h4
      have h1a : (s.lock x).page_id = pr := h1
      have h2a : lock_rec_get_nth_bit (lock_rec_reset_nth_bit (s.lock x) dh) rh = true := h2
      rw [get_nth_bit_reset_eq] at h2a
      simp only [Bool.and_eq_true, Bool.not_eq_true', decide_eq_false_iff_not] at h2a
      obtain ⟨k1, _⟩ := key x rfl h1a h2a.2
      exact ⟨h1a, h2a.2, h3, k1.symm.trans h4⟩
    · simp only [lock_sys_t.lock_set_lock, if_neg hxl] at h1 h2 h3 h4
      exact ⟨h1, h2, h3, h4⟩
  · rintro ⟨x, hx, h1, h2, h3, h4⟩
    refine ⟨x, hx, ?_⟩
    by_cases hxl : x = l
    · subst hxl
      simp only [lock_sys_t.lock_set_lock, if_true]
      obtain ⟨k1, k2⟩ := key x rfl h1 h2
      refine ⟨h1, ?_, h3, k1.trans h4⟩
      show lock_rec_get_nth_bit (lock_rec_reset_nth_bit (s.lock x) dh) rh = true
      rw [get_nth_bit_reset_eq]
      simp [k2, h2]
    · simp only [lock_sys_t.lock_set_lock, if_neg hxl]
      exact ⟨h1, h2, h3, h4⟩

theorem move_step_spec (s0 : lock_sys_t) (receiver : buf_block_t) (rh pd dh : Nat)
    (wf0 : chain_wf s0 hash_id.rec_hash)
    (hne : receiver.page_id ≠ pd ∨ rh ≠ dh) (hheap : rh < receiver.n_heap)
    (rest : List Nat) (l : Nat) (s : lock_sys_t) (wfs : chain_wf s hash_id.rec_hash)
    (hl : l ∈ s.hash hash_id.rec_hash) (hon : on_rec s pd dh l = true)
    (I : move_inv s0 receiver.page_id rh pd dh (l :: rest) s) :
    ∃ s1, lock_rec_move_step receiver rh dh s l = some s1
      ∧ queue_step hash_id.rec_hash pd dh l s s1
      ∧ move_inv s0 receiver.page_id rh pd dh rest s1 := by
  have hl1 : l ∈ s.rec_hash := hl
  obtain ⟨hlq, htm0, htrx0⟩ := I.todo_attr l (List.mem_cons_self _ _)
  have hpage : (s.lock l).page_id = pd := by
    unfold on_rec at hon
    simp only [Bool.and_eq_true, beq_iff_eq] at hon
    exact hon.1
  have hkind := wfs.kind l hl
  obtain ⟨hp, hpp⟩ := (hash_get_rec_iff _).mp hkind
  have hl0 : l < s0.n_locks := wf0.alloc l (lock_rec_queue_subset _ _ _ _ _ hlq)
  have hnd : (l :: rest).Nodup := by
    rw [← I.queue, lock_rec_queue_eq_filter]
    exact wfs.nodup.filter _
  have hlr : l ∉ rest := (List.nodup_cons.mp hnd).1
  have hsub : ∀ x ∈ rest, x ∈ s.rec_hash := by
    intro x hx
    have : x ∈ lock_rec_queue s hash_id.rec_hash pd dh := by
      rw [I.queue]; exact List.mem_cons_of_mem _ hx
    exact lock_rec_queue_subset _ _ _ _ _ this
  generalize hs' : s.set_lock l (lock_rec_reset_nth_bit (s.lock l) dh).clear_wait = s'
  have hsl : s'.lock l = (lock_rec_reset_nth_bit (s.lock l) dh).clear_wait := by
    rw [← hs']; simp
  have hso : ∀ x, x ≠ l → s'.lock x = s.lock x := by
    intro x hx
    rw [← hs']; simp [hx]
  have hsh : s'.rec_hash = s.rec_hash := by rw [← hs']; rfl
  have hsn : s'.n_locks = s.n_locks := by rw [← hs']; rfl
  have qs1 : queue_step hash_id.rec_hash pd dh l s s' :=
    queue_step_of_lock_only pd dh l wfs hsh hsn hso (by rw [hsl]; rfl) (by rw [hsl]; rfl)
  have wf' := qs1.wf
  have hl' : l ∈ s'.rec_hash := by rw [hsh]; exact hl1
  obtain ⟨g, hadd⟩ := lock_rec_add_to_queue_added s' (s.lock l).type_mode receiver rh
    (s.lock l).index (s.lock l).trx false hp hpp hheap
  have hflags := supremum_type_mode_flags (s.lock l).type_mode rh
  have htmk : lock_hash_get (supremum_type_mode (s.lock l).type_mode rh)
      = hash_id.rec_hash := by
    rw [hash_get_rec_iff]
    exact ⟨hflags.1.trans hp, hflags.2.1.trans hpp⟩
  have qs2 := queue_step_of_added pd dh l wf' hadd htmk hne hl'
  have qs := queue_step_trans wfs hl qs1 qs2
  refine ⟨_, by rw [lock_rec_move_step_eq, hs'], qs, ?_⟩
  generalize lock_rec_add_to_queue s' (s.lock l).type_mode receiver rh (s.lock l).index
    (s.lock l).trx false = s1 at hadd qs2 qs
  have halloc' := chain_wf_rec_alloc wf'
  have hn1 : s'.n_locks ≤ s1.n_locks := by
    rcases hadd.cases with ⟨_, _, _, _, _, _, _, _, e, _⟩ | ⟨_, _, _, e, _⟩ <;> omega
  have hlen1 : s1.rec_hash.length ≤ s'.rec_hash.length + 1 := by
    rcases hadd.cases with ⟨_, e, _⟩ | ⟨_, e, _⟩ <;> rw [e] <;> simp
  refine ⟨?_, ?_, ?_, ?_, ?_, ?_⟩
  · apply lock_rec_queue_after_step wfs qs I.queue
    have hk := hadd.keeps halloc' l hl'
    have hb : lock_rec_get_nth_bit (s1.lock l) dh = lock_rec_get_nth_bit (s'.lock l) dh := by
      apply hk.2.2.2.2.2.2
      by_cases hlg : l = g
      · right
        intro e
        have e1 : (s1.lock l).page_id = receiver.page_id := by rw [hlg]; exact hadd.lock_page
        have e2 : (s1.lock l).page_id = pd := by
          rw [hk.2.1, hsl]; exact hpage
        rcases hne with a | a
        · exact a (e1.symm.trans e2)
        · exact a e.symm
      · exact Or.inl hlg
    unfold on_rec
    rw [hb, hsl]
    have : lock_rec_get_nth_bit (lock_rec_reset_nth_bit (s.lock l) dh).clear_wait dh
        = lock_rec_get_nth_bit (lock_rec_reset_nth_bit (s.lock l) dh) dh := rfl
    rw [this, get_nth_bit_reset_eq]
    simp
  · intro x hx
    obtain ⟨a1, a2, a3⟩ := I.todo_attr x (List.mem_cons_of_mem _ hx)
    have hxl : x ≠ l := fun e => hlr (e ▸ hx)
    have hk := hadd.keeps halloc' x (by rw [hsh]; exact hsub x hx)
    refine ⟨a1, ?_, ?_⟩
    · rw [hk.2.2.2.1, hso x hxl]; exact a2
    · rw [hk.2.2.1, hso x hxl]; exact a3
  · intro T tm
    rw [rec_holds_added hadd halloc', ← hs',
      rec_holds_clear_moved s l receiver.page_id rh pd dh hne hpage
        (I.old_granted l hl1 hl0), I.holds]
    constructor
    · rintro (⟨x, hx, h1, h2, h3⟩ | ⟨_, _, h2, h3⟩)
      · exact ⟨x, hx, fun a => h1 (List.mem_cons_of_mem _ a), h2, h3⟩
      · exact ⟨l, hlq, hlr, by rw [h2, htrx0], by rw [h3, htm0]⟩
    · rintro ⟨x, hx, h1, h2, h3⟩
      by_cases hxl : x = l
      · subst hxl
        right
        exact ⟨rfl, rfl, by rw [← h2, htrx0], by rw [h3, htm0]⟩
      · left
        refine ⟨x, hx, ?_, h2, h3⟩
        intro a
        rcases List.mem_cons.mp a with b | b
        · exact hxl b
        · exact h1 b
  · intro x hx hx0 hxon
    by_cases hxg : x = g
    · subst hxg
      rcases hadd.cases with ⟨_, _, _, _, _, _, _, e, _⟩ | ⟨e, _⟩
      · rw [hadd.lock_tm]; exact e
      · have := I.n_locks
        omega
    · have e1 := hadd.others x hxg
      have hx' : x ∈ s'.rec_hash := by
        rcases hadd.cases with ⟨_, e, _⟩ | ⟨_, e, _⟩
        · rw [e] at hx; exact hx
        · rw [e] at hx
          rcases List.mem_append.mp hx with a | a
          · exact a
          · exact absurd (List.mem_singleton.mp a) hxg
      rw [e1]
      by_cases hxl : x = l
      · subst hxl
        rw [hsl]; rfl
      · rw [hso x hxl]
        apply I.old_granted x (by rw [← hsh]; exact hx') hx0
        unfold on_rec at hxon ⊢
        rw [e1, hso x hxl] at hxon
        exact hxon
  · have := I.n_locks
    omega
  · have := I.length
    rw [hsh] at hlen1
    simp only [List.length_cons] at this
    omega

theorem rec_holds_iff_queue (s : lock_sys_t) (p hn T : Nat) (tm : type_mode_t) :
    rec_holds s p hn T tm ↔ ∃ l ∈ lock_rec_queue s hash_id.rec_hash p hn,
      (s.lock l).trx = T ∧ (s.lock l).type_mode = tm := by
  unfold rec_holds
  constructor
  · rintro ⟨g, hg, h1, h2, h3, h4⟩
    exact ⟨g, (mem_lock_rec_queue _ _ _ _ _).mpr ⟨hg, h1, h2⟩, h3, h4⟩
  · rintro ⟨g, hg, h3, h4⟩
    obtain ⟨a, h1, h2⟩ := (mem_lock_rec_queue _ _ _ _ _).mp hg
    exact ⟨g, a, h1, h2, h3, h4⟩

theorem lock_rec_move_core (fuel : Nat) (s : lock_sys_t) (receiver donator : buf_block_t)
    (rh dh : Nat) (wf : chain_wf s hash_id.rec_hash)
    (hempty : lock_rec_queue s hash_id.rec_hash receiver.page_id rh = [])
    (hheap : rh < receiver.n_heap)
    (hf : (lock_rec_queue s hash_id.rec_hash donator.page_id dh).length ≤ fuel) :
    ∃ s1, lock_rec_move fuel s receiver donator rh dh = some s1
      ∧ chain_wf s1 hash_id.rec_hash
      ∧ lock_rec_queue s1 hash_id.rec_hash donator.page_id dh = []
      ∧ (∀ T tm, rec_holds s1 receiver.page_id rh T tm ↔
          ∃ tm0, rec_holds s donator.page_id dh T tm0 ∧ tm = supremum_type_mode tm0 rh)
      ∧ s1.rec_hash.length
          ≤ s.rec_hash.length + (lock_rec_queue s hash_id.rec_hash donator.page_id dh).length := by
  unfold lock_rec_move lock_rec_move_low
  by_cases hsame : receiver.page_id = donator.page_id ∧ rh = dh
  · obtain ⟨e1, e2⟩ := hsame
    rw [e1, e2] at hempty
    unfold lock_rec_get_first
    rw [hempty, List.head?_nil, lock_rec_queue_loop_none]
    refine ⟨s, rfl, wf, hempty, ?_, by simp⟩
    intro T tm
    rw [e1, e2]
    constructor
    · intro h
      obtain ⟨l, hl, _⟩ := (rec_holds_iff_queue _ _ _ _ _).mp h
      rw [hempty] at hl
      exact absurd hl (List.not_mem_nil _)
    · rintro ⟨tm0, h, _⟩
      obtain ⟨l, hl, _⟩ := (rec_holds_iff_queue _ _ _ _ _).mp h
      rw [hempty] at hl
      exact absurd hl (List.not_mem_nil _)
  · have hne : receiver.page_id ≠ donator.page_id ∨ rh ≠ dh := by
      by_cases a : receiver.page_id = donator.page_id
      · exact Or.inr (fun b => hsame ⟨a, b⟩)
      · exact Or.inl a
    have hI : move_inv s receiver.page_id rh donator.page_id dh
        (lock_rec_queue s hash_id.rec_hash donator.page_id dh) s := by
      refine ⟨rfl, fun x hx => ⟨hx, rfl, rfl⟩, ?_, ?_, le_refl _, le_refl _⟩
      · intro T tm
        constructor
        · intro h
          obtain ⟨l, hl, _⟩ := (rec_holds_iff_queue _ _ _ _ _).mp h
          rw [hempty] at hl
          exact absurd hl (List.not_mem_nil _)
        · rintro ⟨l, hl, hn, _⟩
          exact absurd hl hn
      · intro x hx _ hon
        have : x ∈ lock_rec_queue s hash_id.rec_hash receiver.page_id rh := by
          rw [lock_rec_queue_eq_filter]
          exact List.mem_filter.mpr ⟨hx, hon⟩
        rw [hempty] at this
        exact absurd this (List.not_mem_nil _)
    obtain ⟨s1, h1, hI1, wf1⟩ := queue_loop_rule
      (lock_rec_move_step receiver rh dh) hash_id.rec_hash donator dh
      (move_inv s receiver.page_id rh donator.page_id dh)
      (fun rest l s' wfs hl hon _ I =>
        move_step_spec s receiver rh donator.page_id dh wf hne hheap rest l s' wfs hl hon I)
      s fuel wf hI hf
    refine ⟨s1, h1, wf1, hI1.queue, ?_, ?_⟩
    · intro T tm
      rw [hI1.holds]
      constructor
      · rintro ⟨l, hl, _, h2, h3⟩
        exact ⟨_, (rec_holds_iff_queue _ _ _ _ _).mpr ⟨l, hl, h2, rfl⟩, h3⟩
      · rintro ⟨tm0, h, h3⟩
        obtain ⟨l, hl, h2, h4⟩ := (rec_holds_iff_queue _ _ _ _ _).mp h
        exact ⟨l, hl, List.not_mem_nil _, h2, by rw [h3, h4]⟩
    · have := hI1.length
      simpa using this

/-- C19, counterexample: from a lock table without record locks,
transaction 1 requests `S` + `GAP` on heap number 3 of page 7 through
`lock_rec_lock` and then on the supremum of the page, where
`lock_rec_lock` sets the supremum bit in the only lock of the page; the
supremum of page 8 carries no lock request.  After the move of the locks
from the supremum of page 7 to the supremum of page 8, as
`lock_update_split_right` calls `lock_rec_move`, the transaction covers
the supremum of page 8 with `S` without the `GAP` flag with which it
covered the donating supremum. -/
theorem move_to_supremum_drops_flags :
    (lock_rec_lock env_ordering 0 no_rec_lock_state false { mode := LOCK_S, gap := true }
        { page_id := 7, n_heap := 8 } 3 { table := 0 } 1).bind (fun r1 =>
      (lock_rec_lock env_ordering 0 r1.2 false { mode := LOCK_S, gap := true }
          { page_id := 7, n_heap := 8 } PAGE_HEAP_NO_SUPREMUM { table := 0 } 1).bind (fun r2 =>
        (lock_rec_move 10 r2.2 { page_id := 8, n_heap := 8 } { page_id := 7, n_heap := 8 }
            PAGE_HEAP_NO_SUPREMUM PAGE_HEAP_NO_SUPREMUM).map (fun s1 =>
          (r1.1, r2.1, lock_rec_queue r2.2 hash_id.rec_hash 8 PAGE_HEAP_NO_SUPREMUM,
            rec_coverage r2.2 7 PAGE_HEAP_NO_SUPREMUM 1,
            rec_coverage s1 8 PAGE_HEAP_NO_SUPREMUM 1,
            lock_rec_queue s1 hash_id.rec_hash 7 PAGE_HEAP_NO_SUPREMUM))))
      = some (DB_SUCCESS_LOCKED_REC, DB_SUCCESS_LOCKED_REC, [],
          [{ mode := LOCK_S, gap := true }], [{ mode := LOCK_S }], []) := by
  rfl

theorem supremum_type_mode_of_ne (tm : type_mode_t) (hn : Nat)
    (h : hn ≠ PAGE_HEAP_NO_SUPREMUM) : supremum_type_mode tm hn = tm := by
  unfold supremum_type_mode
  rw [if_neg h]

/-- C19, amended: in a consistent record hash table, when the receiver
record carries no lock request, `lock_rec_move` returns (with fuel for
the hash chain); afterwards no lock of the record hash table has the bit
of the donor record set, and a transaction has a request with a type mode
on the receiver exactly when it had a request on the donor before whose
type mode, with `GAP` and `REC_NOT_GAP` dropped if the receiver is the
page supremum, is this one (the `LOCK_WAIT` flag included); so for a
receiver other than the supremum the requests are the same.  And when the
infimum of a page carries no lock request, `lock_rec_store_on_page_infimum`
for a record other than the supremum followed by
`lock_rec_restore_from_page_infimum` onto the same record gives every
transaction the requests on the record that it had before. -/
theorem lock_rec_move_coverage (fuel : Nat) (s : lock_sys_t)
    (wf : chain_wf s hash_id.rec_hash) (hf : 2 * s.rec_hash.length ≤ fuel) :
    (∀ (receiver donator : buf_block_t) (rh dh : Nat),
      lock_rec_queue s hash_id.rec_hash receiver.page_id rh = [] → rh < receiver.n_heap →
      ∃ s1, lock_rec_move fuel s receiver donator rh dh = some s1
        ∧ lock_rec_queue s1 hash_id.rec_hash donator.page_id dh = []
        ∧ (∀ T tm, rec_holds s1 receiver.page_id rh T tm ↔
            ∃ tm0, rec_holds s donator.page_id dh T tm0 ∧ tm = supremum_type_mode tm0 rh)
        ∧ (rh ≠ PAGE_HEAP_NO_SUPREMUM → ∀ T tm,
            rec_holds s1 receiver.page_id rh T tm ↔ rec_holds s donator.page_id dh T tm))
    ∧ (∀ (block : buf_block_t) (h : Nat), h ≠ PAGE_HEAP_NO_SUPREMUM → h < block.n_heap →
      lock_rec_queue s hash_id.rec_hash block.page_id PAGE_HEAP_NO_INFIMUM = [] →
      ∃ s1 s2, lock_rec_store_on_page_infimum fuel s block h = some s1
        ∧ lock_rec_restore_from_page_infimum fuel s1 block h block = some s2
        ∧ ∀ T tm, rec_holds s2 block.page_id h T tm ↔ rec_holds s block.page_id h T tm) := by
  have hlen : ∀ p hn, (lock_rec_queue s hash_id.rec_hash p hn).length ≤ s.rec_hash.length :=
    fun p hn => lock_rec_queue_length_le s hash_id.rec_hash p hn
  constructor
  · intro receiver donator rh dh hempty hheap
    obtain ⟨s1, h1, _, h2, h3, _⟩ := lock_rec_move_core fuel s receiver donator rh dh wf
      hempty hheap (by have := hlen donator.page_id dh; omega)
    refine ⟨s1, h1, h2, h3, ?_⟩
    intro hr T tm
    rw [h3]
    constructor
    · rintro ⟨tm0, a, b⟩
      rw [supremum_type_mode_of_ne _ _ hr] at b
      rw [b]; exact a
    · intro a
      exact ⟨tm, a, (supremum_type_mode_of_ne _ _ hr).symm⟩
  · intro block h hs hheap hempty
    have h0 : PAGE_HEAP_NO_INFIMUM < block.n_heap := by
      unfold PAGE_HEAP_NO_INFIMUM; omega
    obtain ⟨s1, h1, wf1, h2, h3, h4⟩ := lock_rec_move_core fuel s block block
      PAGE_HEAP_NO_INFIMUM h wf hempty h0 (by have := hlen block.page_id h; omega)
    have hlen1 := lock_rec_queue_length_le s1 hash_id.rec_hash block.page_id
      PAGE_HEAP_NO_INFIMUM
    have hl1 : (s1.hash hash_id.rec_hash).length = s1.rec_hash.length := rfl
    obtain ⟨s2, k1, _, _, k3, _⟩ := lock_rec_move_core fuel s1 block block h
      PAGE_HEAP_NO_INFIMUM wf1 h2 hheap (by have := hlen block.page_id h; omega)
    refine ⟨s1, s2, h1, k1, ?_⟩
    intro T tm
    have hi : PAGE_HEAP_NO_INFIMUM ≠ PAGE_HEAP_NO_SUPREMUM := by decide
    rw [k3]
    constructor
    · rintro ⟨tm0, a, b⟩
      rw [supremum_type_mode_of_ne _ _ hs] at b
      obtain ⟨tm1, c, d⟩ := (h3 T tm0).mp a
      rw [supremum_type_mode_of_ne _ _ hi] at d
      rw [b, d]; exact c
    · intro a
      refine ⟨tm, (h3 T tm).mpr ⟨tm, a, (supremum_type_mode_of_ne _ _ hi).symm⟩,
        (supremum_type_mode_of_ne _ _ hs).symm⟩
theorem lock_rec_move_coverage_witness :
    chain_wf fifo_state hash_id.rec_hash ∧ 2 * fifo_state.rec_hash.length ≤ 6
    ∧ (∃ s1, lock_rec_move 6 fifo_state { page_id := 7, n_heap := 8 }
          { page_id := 5, n_heap := 8 } 2 3 = some s1
        ∧ lock_rec_queue s1 hash_id.rec_hash 5 3 = []
        ∧ ∀ T tm, rec_holds s1 7 2 T tm ↔ rec_holds fifo_state 5 3 T tm)
    ∧ (∃ s1 s2, lock_rec_store_on_page_infimum 6 fifo_state { page_id := 5, n_heap := 8 } 3
          = some s1
        ∧ lock_rec_restore_from_page_infimum 6 s1 { page_id := 5, n_heap := 8 } 3
            { page_id := 5, n_heap := 8 } = some s2
        ∧ ∀ T tm, rec_holds s2 5 3 T tm ↔ rec_holds fifo_state 5 3 T tm) := by
  have h := lock_rec_move_coverage 6 fifo_state chain_wf_fifo_state (by decide)
  refine ⟨chain_wf_fifo_state, by decide, ?_, ?_⟩
  · obtain ⟨s1, h1, h2, _, h4⟩ := h.1 { page_id := 7, n_heap := 8 }
      { page_id := 5, n_heap := 8 } 2 3 (by decide) (by decide)
    exact ⟨s1, h1, h2, h4 (by decide)⟩
  · exact h.2 { page_id := 5, n_heap := 8 } 3 (by decide) (by decide) (by decide)

/-- C20: in the page split scenario (`split_state`: transaction 1, above
READ COMMITTED, holds `X` + `REC_NOT_GAP` on heap number 3 of page 5 and
`S` on the supremum of page 5, stored with or without the `GAP` flag),
after `lock_move_rec_list_end` has moved the records 3 and 4 to the right
page 6 and `lock_update_split_right` has run, transaction 1 holds `X` +
`REC_NOT_GAP` on the new heap number 2 of record 3 on page 6, the granted
`S` lock on the supremum of page 6, a granted lock on the supremum of page
5 that is at least as strong as `S` (the inherited `X` lock), and no lock
is left on the old heap numbers 3 and 4 of page 5. -/
theorem split_right_scenario_spec :
    ∀ gap : Bool,
      rec_requests (split_state gap) 5 3 = [(1, { mode := LOCK_X, rec_not_gap := true })]
      ∧ rec_requests (split_state gap) 5 PAGE_HEAP_NO_SUPREMUM
          = [(1, { mode := LOCK_S, gap := gap })]
      ∧ ((split_state gap).trx 1).isolation_level > TRX_ISO_READ_COMMITTED
      ∧ (split_right_scenario 10 (split_state gap)).map (fun s => rec_requests s 6 2)
          = some [(1, { mode := LOCK_X, rec_not_gap := true })]
      ∧ (split_right_scenario 10 (split_state gap)).map
            (fun s => rec_requests s 6 PAGE_HEAP_NO_SUPREMUM)
          = some [(1, { mode := LOCK_S })]
      ∧ (split_right_scenario 10 (split_state gap)).map
            (fun s => rec_requests s 5 PAGE_HEAP_NO_SUPREMUM)
          = some [(1, { mode := LOCK_X })]
      ∧ lock_mode_stronger_or_eq LOCK_X LOCK_S = true
      ∧ (split_right_scenario 10 (split_state gap)).map
            (fun s => (rec_requests s 5 3, rec_requests s 5 4))
          = some ([], []) := by
  intro gap
  cases gap <;> decide

theorem indexOf_cons_succ (y x : Nat) (Q : List Nat) (h : x ≠ y) :
    (y :: Q).indexOf x = Q.indexOf x + 1 := by
  rw [List.indexOf_cons_ne _ (fun e => h e.symm)]

theorem find_first_spec (p : Nat → Bool) (Q : List Nat) :
    match Q.find? p with
    | some r => r ∈ Q ∧ p r = true ∧ ∀ x ∈ Q, p x = true → Q.indexOf r ≤ Q.indexOf x
    | none => ∀ x ∈ Q, p x = false := by
  induction Q with
  | nil => simp
  | cons y Q ih =>
    by_cases hy : p y = true
    · rw [List.find?_cons_of_pos _ hy]
      refine ⟨List.mem_cons_self _ _, hy, ?_⟩
      intro x _ _
      rw [List.indexOf_cons_self]
      exact Nat.zero_le _
    · rw [List.find?_cons_of_neg _ hy]
      cases hf : Q.find? p with
      | none =>
        rw [hf] at ih
        intro x hx
        rcases List.mem_cons.mp hx with e | e
        · rw [e]; simpa using hy
        · exact ih x e
      | some r =>
        rw [hf] at ih
        obtain ⟨h1, h2, h3⟩ := ih
        have hry : r ≠ y := fun e => hy (e ▸ h2)
        refine ⟨List.mem_cons_of_mem _ h1, h2, ?_⟩
        intro x hx hpx
        rcases List.mem_cons.mp hx with e | e
        · rw [e] at hpx; exact absurd hpx hy
        · have hxy : x ≠ y := fun e2 => hy (e2 ▸ hpx)
          rw [indexOf_cons_succ _ _ _ hry, indexOf_cons_succ _ _ _ hxy]
          exact Nat.succ_le_succ (h3 x e hpx)

theorem queue_after_self (y : Nat) (Q : List Nat) : queue_after (y :: Q) y = Q := by
  unfold queue_after
  rw [dropWhile_eq_cons]
  rfl

theorem queue_after_ne (y l : Nat) (Q : List Nat) (h : y ≠ l) :
    queue_after (y :: Q) l = queue_after Q l := by
  unfold queue_after
  rw [dropWhile_ne_cons _ _ _ h]

theorem find_after_spec (p : Nat → Bool) (Q : List Nat) (hnd : Q.Nodup) (l : Nat)
    (hl : l ∈ Q) :
    match (queue_after Q l).find? p with
    | some r => r ∈ Q ∧ p r = true ∧ Q.indexOf l < Q.indexOf r
        ∧ ∀ x ∈ Q, Q.indexOf l < Q.indexOf x → p x = true → Q.indexOf r ≤ Q.indexOf x
    | none => ∀ x ∈ Q, Q.indexOf l < Q.indexOf x → p x = false := by
  induction Q with
  | nil => simp at hl
  | cons y Q ih =>
    obtain ⟨hyQ, hnd1⟩ := List.nodup_cons.mp hnd
    by_cases hy : y = l
    · subst hy
      rw [queue_after_self]
      have key := find_first_spec p Q
      have hin : ∀ x ∈ Q, x ≠ y := fun x hx e => hyQ (e ▸ hx)
      cases hf : Q.find? p with
      | none =>
        rw [hf] at key
        intro x hx hlt
        rcases List.mem_cons.mp hx with e | e
        · rw [e, List.indexOf_cons_self] at hlt
          exact absurd hlt (Nat.lt_irrefl _)
        · exact key x e
      | some r =>
        rw [hf] at key
        obtain ⟨h1, h2, h3⟩ := key
        refine ⟨List.mem_cons_of_mem _ h1, h2, ?_, ?_⟩
        · rw [List.indexOf_cons_self, indexOf_cons_succ _ _ _ (hin r h1)]
          exact Nat.succ_pos _
        · intro x hx hlt hpx
          rcases List.mem_cons.mp hx with e | e
          · rw [e, List.indexOf_cons_self] at hlt
            exact absurd hlt (Nat.lt_irrefl _)
          · rw [indexOf_cons_succ _ _ _ (hin r h1), indexOf_cons_succ _ _ _ (hin x e)]
            exact Nat.succ_le_succ (h3 x e hpx)
    · have hlQ : l ∈ Q := by
        rcases List.mem_cons.mp hl with e | e
        · exact absurd e.symm hy
        · exact e
      have hly : l ≠ y := fun e => hy e.symm
      rw [queue_after_ne _ _ _ hy]
      have key := ih hnd1 hlQ
      have hin : ∀ x ∈ Q, x ≠ y := fun x hx e => hyQ (e ▸ hx)
      cases hf : (queue_after Q l).find? p with
      | none =>
        rw [hf] at key
        intro x hx hlt
        rcases List.mem_cons.mp hx with e | e
        · rw [e, List.indexOf_cons_self] at hlt
          exact absurd hlt (Nat.not_lt_zero _)
        · rw [indexOf_cons_succ _ _ _ hly, indexOf_cons_succ _ _ _ (hin x e)] at hlt
          exact key x e (Nat.lt_of_succ_lt_succ hlt)
      | some r =>
        rw [hf] at key
        obtain ⟨h1, h2, h3, h4⟩ := key
        refine ⟨List.mem_cons_of_mem _ h1, h2, ?_, ?_⟩
        · rw [indexOf_cons_succ _ _ _ hly, indexOf_cons_succ _ _ _ (hin r h1)]
          exact Nat.succ_lt_succ h3
        · intro x hx hlt hpx
          rcases List.mem_cons.mp hx with e | e
          · rw [e, List.indexOf_cons_self] at hlt
            exact absurd hlt (Nat.not_lt_zero _)
          · rw [indexOf_cons_succ _ _ _ hly, indexOf_cons_succ _ _ _ (hin x e)] at hlt
            rw [indexOf_cons_succ _ _ _ (hin r h1), indexOf_cons_succ _ _ _ (hin x e)]
            exact Nat.succ_le_succ (h4 x e (Nat.lt_of_succ_lt_succ hlt) hpx)

theorem queue_after_filter (f : Nat → Bool) (H : List Nat) (l : Nat) (hl : f l = true) :
    (queue_after H l).filter f = queue_after (H.filter f) l := by
  induction H with
  | nil => rfl
  | cons y H ih =>
    by_cases hy : y = l
    · subst hy
      rw [queue_after_self, List.filter_cons_of_pos hl, queue_after_self]
    · rw [queue_after_ne _ _ _ hy]
      by_cases hfy : f y = true
      · rw [List.filter_cons_of_pos hfy, queue_after_ne _ _ _ hy]
        exact ih
      · rw [List.filter_cons_of_neg hfy]
        exact ih

theorem only_marks_wait_thr {s s1 : lock_sys_t} (h : only_marks s s1) (t : Nat) :
    (s1.trx t).wait_thr = (s.trx t).wait_thr := by
  obtain ⟨m, hm⟩ := h.2.2.2.2.2.2.2.2 t
  rw [hm]

theorem only_marks_wait_queue {s s1 : lock_sys_t} (h : only_marks s s1) (w : Nat) :
    wait_queue s1 w = wait_queue s w := by
  unfold wait_queue lock_rec_queue lock_sys_t.page_chain
  simp only [only_marks_lock h, only_marks_tbl h, only_marks_hash h]

theorem only_marks_has_to_wait (E : Env) {s s1 : lock_sys_t} (h : only_marks s s1)
    (a b : Nat) : lock_has_to_wait E s1 a b = lock_has_to_wait E s a b :=
  lock_has_to_wait_of_lock_eq E s s1 a b (only_marks_lock h a) (only_marks_lock h b)

theorem is_visited_eq (s : lock_sys_t) (c : DeadlockChecker) (l : Nat) :
    DeadlockChecker.is_visited s c l = visited s c.m_mark_start l := rfl

theorem visited_of_owner {s : lock_sys_t} {m a b : Nat}
    (h : (s.lock a).trx = (s.lock b).trx) : visited s m a = visited s m b := by
  unfold visited
  rw [h]

theorem wait_queue_nodup {s : lock_sys_t} (wf : waits_wf s) (w : Nat) :
    (wait_queue s w).Nodup := by
  unfold wait_queue
  split
  · exact wf.tbl_nodup _
  · split
    · exact List.nodup_nil
    · rw [lock_rec_queue_eq_filter]
      exact (wf.nodup _).filter _

theorem waits_wf_of_only_marks {s s1 : lock_sys_t} (h : only_marks s s1) (wf : waits_wf s) :
    waits_wf s1 := by
  refine ⟨?_, ?_, ?_, ?_, ?_⟩
  · intro k; rw [only_marks_hash h]; exact wf.nodup k
  · intro k x hx
    rw [only_marks_hash h] at hx
    rw [only_marks_lock h]; exact wf.kind k x hx
  · intro t; rw [only_marks_tbl h]; exact wf.tbl_nodup t
  · intro t x hx
    rw [only_marks_tbl h] at hx
    rw [only_marks_lock h]; exact wf.tbl_kind t x hx
  · intro t w hw
    rw [only_marks_wait_lock h] at hw
    rw [only_marks_lock h, only_marks_wait_queue h]
    exact wf.wait t w hw

theorem mem_wait_queue_rec {s : lock_sys_t} (wf : waits_wf s) (w l : Nat)
    (hw : (s.lock w).is_table = false) (hl : l ∈ wait_queue s w) :
    ∃ hn, lock_rec_find_set_bit (s.lock w) = some hn
      ∧ wait_queue s w = lock_rec_queue s
          (if (s.lock w).type_mode.predicate then hash_id.prdt_hash else hash_id.rec_hash)
          (s.lock w).page_id hn
      ∧ (s.lock l).is_table = false
      ∧ lock_hash_get (s.lock l).type_mode
          = (if (s.lock w).type_mode.predicate then hash_id.prdt_hash else hash_id.rec_hash)
      ∧ on_rec s (s.lock w).page_id hn l = true := by
  unfold wait_queue at hl ⊢
  rw [if_neg (by simp [hw])] at hl ⊢
  cases hb : lock_rec_find_set_bit (s.lock w) with
  | none => rw [hb] at hl; simp at hl
  | some hn =>
    rw [hb] at hl
    simp only at hl
    obtain ⟨h1, h2, h3⟩ := (mem_lock_rec_queue _ _ _ _ _).mp hl
    obtain ⟨k1, k2⟩ := wf.kind _ l h1
    refine ⟨hn, rfl, rfl, k2, k1, ?_⟩
    unfold on_rec
    simp [h2, h3]

theorem get_next_lock_spec {s : lock_sys_t} (wf : waits_wf s) (c : DeadlockChecker)
    (w l : Nat) (heap_no : Option Nat) (hl : l ∈ wait_queue s w) (hh : heap_ok s w heap_no) :
    DeadlockChecker.get_next_lock s c l heap_no
      = (queue_after (wait_queue s w) l).find? (fun i => !visited s c.m_mark_start i) := by
  unfold DeadlockChecker.get_next_lock
  by_cases hw : (s.lock w).is_table = true
  · have hq : wait_queue s w = (s.tbl (s.lock w).table).locks := by
      unfold wait_queue; rw [if_pos hw]
    rw [hq] at hl ⊢
    obtain ⟨k1, k2⟩ := wf.tbl_kind _ l hl
    rw [if_neg (by simp [k1]), k2]
    rfl
  · have hw1 : (s.lock w).is_table = false := by simpa using hw
    obtain ⟨hn, h1, h2, h3, h4, h5⟩ := mem_wait_queue_rec wf w l hw1 hl
    have hh1 : heap_no = some hn := (hh hw1).trans h1
    rw [if_pos (by simp [h3]), hh1, lock_rec_next_locks_eq, h4, (on_rec_page h5).1, h2,
      lock_rec_queue_eq_filter, ← queue_after_filter _ _ _ h5]
    rfl

theorem filter_eq_after_of_head (f g : Nat → Bool) (H : List Nat) (a : Nat)
    (hfg : ∀ x, g x = true → f x = true) (ha : (H.filter f).head? = some a)
    (hga : g a = false) : H.filter g = (queue_after H a).filter g := by
  induction H with
  | nil => simp at ha
  | cons y H ih =>
    by_cases hy : f y = true
    · rw [List.filter_cons_of_pos hy] at ha
      simp only [List.head?_cons, Option.some.injEq] at ha
      subst ha
      rw [queue_after_self, List.filter_cons_of_neg (by simp [hga])]
    · have hgy : ¬ g y = true := fun e => hy (hfg y e)
      rw [List.filter_cons_of_neg hy] at ha
      have hya : y ≠ a := by
        intro e
        subst e
        have : y ∈ H.filter f := List.mem_of_mem_head? ha
        exact hy (List.mem_filter.mp this).2
      rw [List.filter_cons_of_neg hgy, queue_after_ne _ _ _ hya]
      exact ih ha

theorem get_first_lock_spec {s : lock_sys_t} (wf : waits_wf s) (c : DeadlockChecker)
    (first : Nat) (heap_no : Option Nat)
    (h : DeadlockChecker.get_first_lock s c = some (first, heap_no)) :
    (wait_queue s c.m_wait_lock).head? = some first ∧ heap_ok s c.m_wait_lock heap_no
    ∧ first ≠ c.m_wait_lock := by
  unfold DeadlockChecker.get_first_lock at h
  simp only at h
  split at h
  · cases h
  · rename_i lock hno hr
    split at h
    · cases h
    · rename_i hne
      simp only [Option.some.injEq, Prod.mk.injEq] at h
      obtain ⟨e1, e2⟩ := h
      subst e1 e2
      refine ⟨?_, ?_, hne⟩
      · by_cases hw : (s.lock c.m_wait_lock).is_table = true
        · rw [if_neg (by simp [hw])] at hr
          unfold wait_queue
          rw [if_pos hw]
          split at hr
          · cases hr
          · rename_i l0 hl0
            simp only [Option.some.injEq, Prod.mk.injEq] at hr
            rw [hl0, hr.1]
        · have hw1 : (s.lock c.m_wait_lock).is_table = false := by simpa using hw
          rw [if_pos (by simp [hw1])] at hr
          split at hr
          · cases hr
          · rename_i f0 hf0
            split at hr
            · cases hr
            · rename_i l1 hl1
              split at hr
              · cases hr
              · simp only [Option.some.injEq, Prod.mk.injEq] at hr
                obtain ⟨e1, e2⟩ := hr
                subst e1
                cases hb : lock_rec_find_set_bit (s.lock c.m_wait_lock) with
                | none =>
                  rw [hb] at hl1
                  simp [lock_rec_get_next, lock_rec_next_locks] at hl1
                | some hn =>
                  rw [hb] at hl1
                  simp only at hl1
                  unfold wait_queue
                  rw [if_neg hw, hb]
                  simp only
                  generalize hk : (if (s.lock c.m_wait_lock).type_mode.predicate = true
                    then hash_id.prdt_hash else hash_id.rec_hash) = k at hf0 ⊢
                  have hf0m : f0 ∈ s.page_chain k (s.lock c.m_wait_lock).page_id :=
                    List.mem_of_mem_head? hf0
                  unfold lock_sys_t.page_chain at hf0m
                  obtain ⟨m1, m2⟩ := List.mem_filter.mp hf0m
                  have m3 : (s.lock f0).page_id = (s.lock c.m_wait_lock).page_id := by
                    simpa using m2
                  by_cases hbit : lock_rec_get_nth_bit (s.lock f0) hn = true
                  · rw [if_neg (by simp [hbit])] at hl1
                    cases hl1
                    unfold lock_rec_queue
                    unfold lock_sys_t.page_chain at hf0 ⊢
                    cases hpc : List.filter (fun i => (s.lock i).page_id
                        == (s.lock c.m_wait_lock).page_id) (s.hash k) with
                    | nil => rw [hpc] at hf0; simp at hf0
                    | cons y ys =>
                      rw [hpc] at hf0
                      simp only [List.head?_cons, Option.some.injEq] at hf0
                      subst hf0
                      rw [List.filter_cons_of_pos (by simpa using hbit)]
                      rfl
                  · rw [if_pos (by simp [hbit])] at hl1
                    unfold lock_rec_get_next at hl1
                    rw [lock_rec_next_locks_eq, (wf.kind k f0 m1).1, m3] at hl1
                    rw [lock_rec_queue_eq_filter]
                    have e := filter_eq_after_of_head
                      (fun i => (s.lock i).page_id == (s.lock c.m_wait_lock).page_id)
                      (on_rec s (s.lock c.m_wait_lock).page_id hn) (s.hash k) f0
                      (fun x hx => by simpa using (on_rec_page hx).1) hf0
                      (by unfold on_rec; simp [hbit])
                    rw [e]
                    exact hl1
      · intro hw
        rw [if_pos (by simp [hw])] at hr
        split at hr
        · cases hr
        · split at hr
          · cases hr
          · split at hr
            · cases hr
            · simp only [Option.some.injEq, Prod.mk.injEq] at hr
              exact hr.2.symm

theorem frames_path (E : Env) (s : lock_sys_t) (start : Nat) (stack : List state_t) :
    ∀ w, frames_ok E s start w stack →
      ∃ T, (s.trx T).wait_lock = some w ∧ Relation.ReflTransGen (waits_for E s) start T := by
  induction stack with
  | nil =>
    intro w h
    exact ⟨start, h, Relation.ReflTransGen.refl⟩
  | cons st rest ih =>
    intro w h
    obtain ⟨h1, _, _, h4, h5, _, h7⟩ := h
    obtain ⟨T, k1, k2⟩ := ih _ h7
    exact ⟨(s.lock st.m_lock).trx, h1,
      Relation.ReflTransGen.tail k2 ⟨st.m_wait_lock, st.m_lock, k1, rfl, h5, h4⟩⟩

theorem frames_mem (E : Env) (s : lock_sys_t) (start : Nat) (stack : List state_t) :
    ∀ w, frames_ok E s start w stack → ∀ st ∈ stack,
      (∃ wa, (wa = w ∨ ∃ st1 ∈ stack, st1.m_wait_lock = wa)
        ∧ (s.trx (s.lock st.m_lock).trx).wait_lock = some wa)
      ∧ (s.trx (s.lock st.m_lock).trx).wait_thr.isSome = true
      ∧ (s.lock st.m_lock).trx ≠ start
      ∧ lock_has_to_wait E s st.m_wait_lock st.m_lock = true
      ∧ lock_ahead s st.m_wait_lock st.m_lock
      ∧ heap_ok s st.m_wait_lock st.m_heap_no
      ∧ ∃ T, (s.trx T).wait_lock = some st.m_wait_lock := by
  induction stack with
  | nil => intro w _ st hst; exact absurd hst (List.not_mem_nil _)
  | cons a rest ih =>
    intro w h st hst
    obtain ⟨h1, h2, h3, h4, h5, h6, h7⟩ := h
    rcases List.mem_cons.mp hst with e | e
    · subst e
      obtain ⟨T, k1, _⟩ := frames_path E s start rest _ h7
      exact ⟨⟨w, Or.inl rfl, h1⟩, h2, h3, h4, h5, h6, T, k1⟩
    · obtain ⟨⟨wa, k1, k2⟩, k3⟩ := ih _ h7 st e
      refine ⟨⟨wa, ?_, k2⟩, k3⟩
      rcases k1 with k1 | ⟨st1, m1, m2⟩
      · exact Or.inr ⟨a, List.mem_cons_self _ _, k1.symm⟩
      · exact Or.inr ⟨st1, List.mem_cons_of_mem _ m1, m2⟩

theorem frames_lock_unvisited (E : Env) {s0 s : lock_sys_t} (wf : waits_wf s0)
    (hm : only_marks s0 s) (start m w : Nat) (stack : List state_t)
    (hf : frames_ok E s0 start w stack) (hw : visited s m w = false)
    (hu : ∀ st ∈ stack, visited s m st.m_wait_lock = false) :
    ∀ st ∈ stack, visited s m st.m_lock = false := by
  intro st hst
  obtain ⟨⟨wa, k1, k2⟩, _⟩ := frames_mem E s0 start stack w hf st hst
  have ho : (s0.lock wa).trx = (s0.lock st.m_lock).trx := (wf.wait _ _ k2).1
  have e : visited s m st.m_lock = visited s m wa :=
    visited_of_owner (by rw [only_marks_lock hm, only_marks_lock hm, ho])
  rw [e]
  rcases k1 with k1 | ⟨st1, m1, m2⟩
  · rw [k1]; exact hw
  · rw [← m2]; exact hu st1 m1

theorem mem_of_indexOf_lt {Q : List Nat} {a b : Nat} (h : Q.indexOf a < Q.indexOf b) :
    a ∈ Q :=
  List.indexOf_lt_length.mp (Nat.lt_of_lt_of_le h List.indexOf_le_length)

theorem indexOf_lt_of_le_ne {Q : List Nat} {a b : Nat} (ha : a ∈ Q) (hb : b ∈ Q)
    (h : Q.indexOf a ≤ Q.indexOf b) (hne : a ≠ b) : Q.indexOf a < Q.indexOf b := by
  rcases Nat.lt_or_ge (Q.indexOf a) (Q.indexOf b) with c | c
  · exact c
  · exact absurd ((List.indexOf_inj ha hb).mp (Nat.le_antisymm h c)) hne

theorem scan_inv (E : Env) {s0 s : lock_sys_t} (wf : waits_wf s0) (c : DeadlockChecker)
    (l : Nat) (hn : Option Nat) (hm : only_marks s0 s)
    (hf : frames_ok E s0 c.m_start c.m_wait_lock c.s_states)
    (hu : ∀ st ∈ c.s_states, visited s c.m_mark_start st.m_wait_lock = false)
    (hw : visited s c.m_mark_start c.m_wait_lock = false)
    (hl : l ∈ wait_queue s0 c.m_wait_lock)
    (hlt : (wait_queue s0 c.m_wait_lock).indexOf l
      < (wait_queue s0 c.m_wait_lock).indexOf c.m_wait_lock)
    (hk : ∀ st ∈ c.s_states, st.m_wait_lock = c.m_wait_lock →
      (wait_queue s0 c.m_wait_lock).indexOf l
        < (wait_queue s0 c.m_wait_lock).indexOf st.m_lock)
    (hh : heap_ok s0 c.m_wait_lock hn) :
    top_ok s0 s c.m_mark_start c.m_wait_lock c.s_states hn
      (DeadlockChecker.get_next_lock s c l hn) := by
  have wfs := waits_wf_of_only_marks hm wf
  have hq := only_marks_wait_queue hm c.m_wait_lock
  have hh1 : heap_ok s c.m_wait_lock hn := by
    unfold heap_ok at hh ⊢
    rw [only_marks_lock hm]; exact hh
  rw [get_next_lock_spec wfs c c.m_wait_lock l hn (by rw [hq]; exact hl) hh1, hq]
  obtain ⟨T, k1, _⟩ := frames_path E s0 c.m_start c.s_states _ hf
  have hwq : c.m_wait_lock ∈ wait_queue s0 c.m_wait_lock := (wf.wait _ _ k1).2
  have key := find_after_spec (fun i => !visited s c.m_mark_start i)
    (wait_queue s0 c.m_wait_lock) (wait_queue_nodup wf _) l hl
  have hlu := frames_lock_unvisited E wf hm c.m_start c.m_mark_start c.m_wait_lock
    c.s_states hf hw hu
  cases hfd : (queue_after (wait_queue s0 c.m_wait_lock) l).find?
      (fun i => !visited s c.m_mark_start i) with
  | none =>
    rw [hfd] at key
    have := key _ hwq hlt
    simp [hw] at this
  | some r =>
    rw [hfd] at key
    obtain ⟨a1, a2, _, a4⟩ := key
    refine ⟨hw, by simpa using a2, a1, a4 _ hwq hlt (by simp [hw]), ?_, hh⟩
    intro st hst hsw
    obtain ⟨_, _, _, _, b5, _⟩ := frames_mem E s0 c.m_start c.s_states _ hf st hst
    have hsl : st.m_lock ∈ wait_queue s0 c.m_wait_lock := by
      rw [hsw] at b5
      exact mem_of_indexOf_lt b5.2
    exact a4 _ hsl (hk st hst hsw) (by simp [hlu st hst])

theorem visited_mark_searched (s : lock_sys_t) (tr m x : Nat) :
    visited (mark_searched s tr) m x
      = if (s.lock x).trx = tr then decide (s.s_lock_mark_counter + 1 > m)
        else visited s m x := by
  unfold visited mark_searched
  simp only [lock_sys_t.lock_set_trx, lock_sys_t.trx_set_trx]
  have e : ∀ y, ({ s with s_lock_mark_counter := s.s_lock_mark_counter + 1 } : lock_sys_t).lock y
      = s.lock y := fun _ => rfl
  rw [e]
  split
  · rfl
  · rfl

theorem frames_owner_top (E : Env) {s : lock_sys_t} (wf : waits_wf s) (start w : Nat)
    (stack : List state_t) (hf : frames_ok E s start w stack) :
    (s.trx (s.lock w).trx).wait_lock = some w ∧ w ∈ wait_queue s w := by
  obtain ⟨T, k1, _⟩ := frames_path E s start stack w hf
  obtain ⟨a, b⟩ := wf.wait _ _ k1
  rw [a]
  exact ⟨k1, b⟩

theorem frames_owner_mem (E : Env) {s : lock_sys_t} (wf : waits_wf s) (start w : Nat)
    (stack : List state_t) (hf : frames_ok E s start w stack) (st : state_t)
    (hst : st ∈ stack) :
    (s.trx (s.lock st.m_wait_lock).trx).wait_lock = some st.m_wait_lock := by
  obtain ⟨_, _, _, _, _, _, T, k1⟩ := frames_mem E s start stack w hf st hst
  rw [(wf.wait _ _ k1).1]
  exact k1

theorem mark_inv (E : Env) {s0 s : lock_sys_t} (wf : waits_wf s0) (c : DeadlockChecker)
    (hn : Option Nat) (I : search_inv E s0 s c (some c.m_wait_lock) hn) :
    search_inv E s0 (mark_searched s (s.lock c.m_wait_lock).trx) c none hn := by
  obtain ⟨hw, _, hl, _, hk, _⟩ := I.top
  have hlock := only_marks_lock I.marks
  refine ⟨only_marks_trans I.marks (only_marks_mark s _), ?_, I.frames, ?_, I.order, ?_⟩
  · have : (mark_searched s (s.lock c.m_wait_lock).trx).s_lock_mark_counter
        = s.s_lock_mark_counter + 1 := rfl
    rw [this]
    exact Nat.le_succ_of_le I.counter
  · intro st hst
    rw [visited_mark_searched]
    have hne : (s.lock st.m_wait_lock).trx ≠ (s.lock c.m_wait_lock).trx := by
      intro e
      rw [hlock, hlock] at e
      have a1 := frames_owner_mem E wf _ _ _ I.frames st hst
      have a2 := (frames_owner_top E wf _ _ _ I.frames).1
      rw [e, a2] at a1
      have e1 : st.m_wait_lock = c.m_wait_lock := (Option.some.inj a1).symm
      obtain ⟨_, _, _, _, b5, _⟩ := frames_mem E s0 c.m_start c.s_states _ I.frames st hst
      have b6 := b5.2
      rw [e1] at b6
      have := hk st hst e1
      omega
    rw [if_neg hne]
    exact I.unvisited st hst
  · show visited _ _ _ = true
    rw [visited_mark_searched, if_pos rfl]
    have := I.counter
    simp only [gt_iff_lt, decide_eq_true_eq]
    omega

theorem advance_inv (E : Env) {s0 s : lock_sys_t} (wf : waits_wf s0) (c : DeadlockChecker)
    (l : Nat) (hn : Option Nat) (I : search_inv E s0 s c (some l) hn)
    (hlw : l ≠ c.m_wait_lock)
    (hne : ∀ st ∈ c.s_states, st.m_wait_lock = c.m_wait_lock → st.m_lock ≠ l) :
    search_inv E s0 s c (DeadlockChecker.get_next_lock s c l hn) hn := by
  obtain ⟨hw, _, hl, hle, hk, hh⟩ := I.top
  have hwq := (frames_owner_top E wf _ _ _ I.frames).2
  refine ⟨I.marks, I.counter, I.frames, I.unvisited, I.order, ?_⟩
  apply scan_inv E wf c l hn I.marks I.frames I.unvisited hw hl
    (indexOf_lt_of_le_ne hl hwq hle hlw) ?_ hh
  intro st hst hsw
  obtain ⟨_, _, _, _, b5, _⟩ := frames_mem E s0 c.m_start c.s_states _ I.frames st hst
  have hsl : st.m_lock ∈ wait_queue s0 c.m_wait_lock := by
    rw [hsw] at b5
    exact mem_of_indexOf_lt b5.2
  exact indexOf_lt_of_le_ne hl hsl (hk st hst hsw) (fun e => hne st hst hsw e.symm)

theorem pop_inv (E : Env) {s0 s : lock_sys_t} (wf : waits_wf s0) (c : DeadlockChecker)
    (hn : Option Nat) (st : state_t) (rest : List state_t) (hs : c.s_states = st :: rest)
    (I : search_inv E s0 s c none hn) :
    search_inv E s0 s { c with s_states := rest, m_wait_lock := st.m_wait_lock }
      (DeadlockChecker.get_next_lock s
        { c with s_states := rest, m_wait_lock := st.m_wait_lock } st.m_lock st.m_heap_no)
      st.m_heap_no := by
  have hfr := I.frames
  have hun := I.unvisited
  have hor := I.order
  have htop : visited s c.m_mark_start c.m_wait_lock = true := I.top
  rw [hs] at hfr hun hor
  obtain ⟨f1, _, _, _, f5, f6, f7⟩ := hfr
  obtain ⟨o1, o2⟩ := List.pairwise_cons.mp hor
  have hun1 : ∀ x ∈ rest, visited s c.m_mark_start x.m_wait_lock = false :=
    fun x hx => hun x (List.mem_cons_of_mem _ hx)
  have hw : visited s c.m_mark_start st.m_wait_lock = false := hun st (List.mem_cons_self _ _)
  have hlock := only_marks_lock I.marks
  have hvl : visited s c.m_mark_start st.m_lock = true := by
    have e : visited s c.m_mark_start st.m_lock = visited s c.m_mark_start c.m_wait_lock :=
      visited_of_owner (by rw [hlock, hlock, (wf.wait _ _ f1).1])
    rw [e]; exact htop
  have hlu := frames_lock_unvisited E wf I.marks c.m_start c.m_mark_start st.m_wait_lock
    rest f7 hw hun1
  have hl : st.m_lock ∈ wait_queue s0 st.m_wait_lock := mem_of_indexOf_lt f5.2
  refine ⟨I.marks, I.counter, f7, hun1, o2, ?_⟩
  apply scan_inv E wf { c with s_states := rest, m_wait_lock := st.m_wait_lock } st.m_lock
    st.m_heap_no I.marks f7 hun1 hw hl f5.2 ?_ f6
  intro x hx hxw
  have hxw1 : x.m_wait_lock = st.m_wait_lock := hxw
  obtain ⟨_, _, _, _, b5, _⟩ := frames_mem E s0 c.m_start rest _ f7 x hx
  have hxl : x.m_lock ∈ wait_queue s0 st.m_wait_lock := by
    rw [hxw1] at b5
    exact mem_of_indexOf_lt b5.2
  refine indexOf_lt_of_le_ne hl hxl (o1 x hx hxw1.symm) ?_
  intro e
  have := hlu x hx
  rw [← e, hvl] at this
  cases this

theorem push_inv (E : Env) {s0 s : lock_sys_t} (wf : waits_wf s0) (c : DeadlockChecker)
    (l : Nat) (hn : Option Nat) (I : search_inv E s0 s c (some l) hn)
    (hlw : l ≠ c.m_wait_lock)
    (hcf : lock_has_to_wait E s c.m_wait_lock l = true)
    (hst : (s.lock l).trx ≠ c.m_start) (w1 : Nat)
    (hwl : (s.trx (s.lock l).trx).wait_lock = some w1)
    (hth : (s.trx (s.lock l).trx).wait_thr.isSome = true)
    (c3 : DeadlockChecker)
    (hc3 : c3 = { c with
      m_cost := c.m_cost + 1,
      s_states := { m_lock := l, m_wait_lock := c.m_wait_lock, m_heap_no := hn } :: c.s_states,
      m_wait_lock := w1 })
    (first : Nat) (hn1 : Option Nat)
    (hfirst : DeadlockChecker.get_first_lock s c3 = some (first, hn1)) :
    search_inv E s0 s c3
      (if DeadlockChecker.is_visited s c3 first then
        DeadlockChecker.get_next_lock s c3 first hn1
      else some first) hn1 := by
  obtain ⟨hw, hv, hl, hle, hk, hh⟩ := I.top
  have hlock := only_marks_lock I.marks
  have hwq := (frames_owner_top E wf _ _ _ I.frames).2
  have hwl0 : (s0.trx (s0.lock l).trx).wait_lock = some w1 := by
    rw [← hlock, ← only_marks_wait_lock I.marks]; exact hwl
  have hfr : frames_ok E s0 c3.m_start c3.m_wait_lock c3.s_states := by
    rw [hc3]
    refine ⟨hwl0, ?_, ?_, ?_, ⟨hwq, indexOf_lt_of_le_ne hl hwq hle hlw⟩, hh, I.frames⟩
    · rw [← hlock, ← only_marks_wait_thr I.marks]; exact hth
    · rw [← hlock]; exact hst
    · rw [← only_marks_has_to_wait E I.marks]; exact hcf
  have hm3 : c3.m_mark_start = c.m_mark_start := by rw [hc3]
  have hw3 : c3.m_wait_lock = w1 := by rw [hc3]
  have hun : ∀ st ∈ c3.s_states, visited s c3.m_mark_start st.m_wait_lock = false := by
    rw [hc3]
    intro st hst1
    rcases List.mem_cons.mp hst1 with e | e
    · rw [e]; exact hw
    · exact I.unvisited st e
  have hor : c3.s_states.Pairwise (fun a b => a.m_wait_lock = b.m_wait_lock →
      (wait_queue s0 a.m_wait_lock).indexOf a.m_lock
        ≤ (wait_queue s0 a.m_wait_lock).indexOf b.m_lock) := by
    rw [hc3]
    refine List.pairwise_cons.mpr ⟨?_, I.order⟩
    intro st hst1 e
    exact hk st hst1 e.symm
  have hw1 : visited s c3.m_mark_start c3.m_wait_lock = false := by
    have e : visited s c3.m_mark_start c3.m_wait_lock = visited s c.m_mark_start l := by
      rw [hm3, hw3]
      exact visited_of_owner (by rw [hlock, hlock, (wf.wait _ _ hwl0).1])
    rw [e]; exact hv
  have wfs := waits_wf_of_only_marks I.marks wf
  obtain ⟨g1, g2, g3⟩ := get_first_lock_spec wfs c3 first hn1 hfirst
  rw [only_marks_wait_queue I.marks] at g1
  have g2a : heap_ok s0 c3.m_wait_lock hn1 := by
    unfold heap_ok at g2 ⊢
    rw [← hlock]; exact g2
  have hfm : first ∈ wait_queue s0 c3.m_wait_lock := List.mem_of_mem_head? g1
  have hf0 : (wait_queue s0 c3.m_wait_lock).indexOf first = 0 := by
    cases hq : wait_queue s0 c3.m_wait_lock with
    | nil => rw [hq] at g1; simp at g1
    | cons y ys =>
      rw [hq] at g1
      simp only [List.head?_cons, Option.some.injEq] at g1
      rw [g1, List.indexOf_cons_self]
  refine ⟨I.marks, by rw [hm3]; exact I.counter, hfr, hun, hor, ?_⟩
  rw [is_visited_eq]
  by_cases hvf : visited s c3.m_mark_start first = true
  · rw [if_pos hvf]
    have hwq3 : c3.m_wait_lock ∈ wait_queue s0 c3.m_wait_lock := by
      rw [hw3]; exact (wf.wait _ _ hwl0).2
    have hlu := frames_lock_unvisited E wf I.marks c3.m_start c3.m_mark_start c3.m_wait_lock
      c3.s_states hfr hw1 hun
    apply scan_inv E wf c3 first hn1 I.marks hfr hun hw1 hfm
      (indexOf_lt_of_le_ne hfm hwq3 (by rw [hf0]; exact Nat.zero_le _) g3) ?_ g2a
    intro st hst1 hsw
    obtain ⟨_, _, _, _, b5, _⟩ := frames_mem E s0 c3.m_start c3.s_states _ hfr st hst1
    have hsl : st.m_lock ∈ wait_queue s0 c3.m_wait_lock := by
      rw [hsw] at b5
      exact mem_of_indexOf_lt b5.2
    refine indexOf_lt_of_le_ne hfm hsl (by rw [hf0]; exact Nat.zero_le _) ?_
    intro e
    have := hlu st hst1
    rw [← e, hvf] at this
    cases this
  · rw [if_neg hvf]
    refine ⟨hw1, by simpa using hvf, hfm, by rw [hf0]; exact Nat.zero_le _, ?_, g2a⟩
    intro st _ _
    rw [hf0]; exact Nat.zero_le _

theorem unwind_inv (E : Env) {s0 s : lock_sys_t} (wf : waits_wf s0) (stack : List state_t) :
    ∀ (c : DeadlockChecker) (lock hn : Option Nat), c.s_states = stack →
      search_inv E s0 s c lock hn →
      ∀ c1 l hn1, DeadlockChecker.unwind s stack c lock hn = (c1, some l, hn1) →
        search_inv E s0 s c1 (some l) hn1 ∧ c1.m_start = c.m_start := by
  induction stack with
  | nil =>
    intro c lock hn _ I c1 l hn1 h
    unfold DeadlockChecker.unwind at h
    simp only [Prod.mk.injEq] at h
    obtain ⟨e1, e2, e3⟩ := h
    subst e1 e2 e3
    exact ⟨I, rfl⟩
  | cons st rest ih =>
    intro c lock hn hs I c1 l hn1 h
    unfold DeadlockChecker.unwind at h
    cases lock with
    | some l0 =>
      simp only [Prod.mk.injEq, Option.some.injEq] at h
      obtain ⟨e1, e2, e3⟩ := h
      subst e1 e2 e3
      exact ⟨I, rfl⟩
    | none =>
      simp only at h
      have I1 := pop_inv E wf c hn st rest hs I
      exact ih _ _ _ rfl I1 c1 l hn1 h

theorem push_eq (E : Env) (c c2 : DeadlockChecker) (lock : Nat) (hn : Option Nat)
    (h : DeadlockChecker.push E c lock hn = some c2) :
    c2 = { c with
      s_states := { m_lock := lock, m_wait_lock := c.m_wait_lock, m_heap_no := hn }
        :: c.s_states } := by
  unfold DeadlockChecker.push at h
  split at h
  · cases h
  · cases h; rfl

theorem search_loop_cycle (E : Env) {s0 : lock_sys_t} (wf : waits_wf s0) (start fuel : Nat) :
    ∀ (s : lock_sys_t) (c : DeadlockChecker) (lock hn : Option Nat) (v : Nat)
      (c1 : DeadlockChecker) (s1 : lock_sys_t), c.m_start = start →
      search_inv E s0 s c lock hn →
      DeadlockChecker.search_loop E fuel s c lock hn = some (some v, c1, s1) →
      c1.m_too_deep = false → Relation.TransGen (waits_for E s0) start start := by
  induction fuel with
  | zero =>
    intro s c lock hn v c1 s1 _ _ h
    simp [DeadlockChecker.search_loop] at h
  | succ n ih =>
    intro s c lock hn v c1 s1 hstart I h hd
    unfold DeadlockChecker.search_loop at h
    split at h
    · cases h
    · rename_i cu l hn1 heq
      obtain ⟨I1, hs1⟩ := unwind_inv E wf c.s_states c lock hn rfl I cu l hn1 heq
      have hsu : cu.m_start = start := hs1.trans hstart
      have hlock := only_marks_lock I1.marks
      dsimp only at h
      split at h
      · rename_i hlw
        subst hlw
        exact ih _ _ _ _ _ _ _ hsu (mark_inv E wf cu hn1 I1) h hd
      · rename_i hlw
        split at h
        · rename_i hcf
          refine ih _ _ _ _ _ _ _ hsu (advance_inv E wf cu l hn1 I1 hlw ?_) h hd
          intro st hst hsw e
          obtain ⟨_, _, _, b4, _⟩ := frames_mem E s0 cu.m_start cu.s_states _ I1.frames st hst
          rw [← only_marks_has_to_wait E I1.marks, hsw, e] at b4
          rw [b4] at hcf
          cases hcf
        · rename_i hcf
          have hcf1 : lock_has_to_wait E s cu.m_wait_lock l = true := by simpa using hcf
          split at h
          · rename_i hown
            obtain ⟨T, k1, k2⟩ := frames_path E s0 cu.m_start cu.s_states _ I1.frames
            obtain ⟨_, _, hl, hle, _, _⟩ := I1.top
            have hwq := (wf.wait _ _ k1).2
            rw [hsu] at k2
            refine Relation.TransGen.tail' k2 ⟨cu.m_wait_lock, l, k1, ?_,
              ⟨hwq, indexOf_lt_of_le_ne hl hwq hle hlw⟩, ?_⟩
            · rw [← hlock, hown, hsu]
            · rw [← only_marks_has_to_wait E I1.marks]; exact hcf1
          · rename_i hown
            split at h
            · cases h
              cases hd
            · split at h
              · rename_i w1 hwl
                split at h
                · rename_i hth
                  split at h
                  · cases h
                    cases hd
                  · rename_i c2 hp
                    have hc2 := push_eq E _ _ _ _ hp
                    split at h
                    · cases h
                    · rename_i first hn2 hfirst
                      have I3 := push_inv E wf cu l hn1 I1 hlw hcf1 hown
                        w1 hwl hth { c2 with m_wait_lock := w1 } (by rw [hc2]) first hn2
                        hfirst
                      have hs3 : ({ c2 with m_wait_lock := w1 } : DeadlockChecker).m_start
                          = start := by rw [hc2]; exact hsu
                      split at h
                      · rename_i hv
                        rw [if_pos hv] at I3
                        exact ih _ _ _ _ _ _ _ hs3 I3 h hd
                      · rename_i hv
                        rw [if_neg hv] at I3
                        exact ih _ _ _ _ _ _ _ hs3 I3 h hd
                · rename_i hth
                  refine ih _ _ _ _ _ _ _ hsu (advance_inv E wf cu l hn1 I1 hlw ?_) h hd
                  intro st hst hsw e
                  obtain ⟨_, b2, _⟩ := frames_mem E s0 cu.m_start cu.s_states _ I1.frames
                    st hst
                  rw [← hlock, ← only_marks_wait_thr I1.marks, e] at b2
                  exact hth b2
              · rename_i hwl
                refine ih _ _ _ _ _ _ _ hsu (advance_inv E wf cu l hn1 I1 hlw ?_) h hd
                intro st hst hsw e
                obtain ⟨⟨wa, _, b1⟩, _⟩ := frames_mem E s0 cu.m_start cu.s_states _
                  I1.frames st hst
                rw [← hlock, ← only_marks_wait_lock I1.marks, e, hwl] at b1
                cases b1

theorem search_cycle (E : Env) (fuel : Nat) (s : lock_sys_t) (c : DeadlockChecker) (v : Nat)
    (c1 : DeadlockChecker) (s1 : lock_sys_t) (wf : waits_wf s)
    (hw : (s.trx c.m_start).wait_lock = some c.m_wait_lock) (hst : c.s_states = [])
    (hmarks : ∀ t, (s.trx t).deadlock_mark ≤ c.m_mark_start)
    (hmc : c.m_mark_start ≤ s.s_lock_mark_counter)
    (h : DeadlockChecker.search E fuel s c = some (some v, c1, s1))
    (hd : c1.m_too_deep = false) :
    Relation.TransGen (waits_for E s) c.m_start c.m_start := by
  unfold DeadlockChecker.search at h
  split at h
  · cases h
  · rename_i first hn hfirst
    obtain ⟨g1, g2, _⟩ := get_first_lock_spec wf c first hn hfirst
    have hv : ∀ x, visited s c.m_mark_start x = false := by
      intro x
      unfold visited
      simp only [gt_iff_lt, decide_eq_false_iff_not, Nat.not_lt]
      exact hmarks _
    have hf0 : (wait_queue s c.m_wait_lock).indexOf first = 0 := by
      cases hq : wait_queue s c.m_wait_lock with
      | nil => rw [hq] at g1; simp at g1
      | cons y ys =>
        rw [hq] at g1
        simp only [List.head?_cons, Option.some.injEq] at g1
        rw [g1, List.indexOf_cons_self]
    have I : search_inv E s s c (some first) hn := by
      refine ⟨only_marks_refl s, hmc, by rw [hst]; exact hw, ?_, by rw [hst]; exact List.Pairwise.nil,
        ⟨hv _, hv _, List.mem_of_mem_head? g1, by rw [hf0]; exact Nat.zero_le _, ?_, g2⟩⟩
      · intro st hs
        rw [hst] at hs
        exact absurd hs (List.not_mem_nil _)
      · intro st hs
        rw [hst] at hs
        exact absurd hs (List.not_mem_nil _)
    exact search_loop_cycle E wf c.m_start fuel s c (some first) hn v c1 s1 rfl I h hd

theorem chain_of_transGen {r : Nat → Nat → Prop} {a b : Nat} (h : Relation.TransGen r a b) :
    ∃ ts : List Nat, ts ≠ [] ∧ List.Chain r a ts ∧ ts.getLast? = some b := by
  obtain ⟨x, h1, h2⟩ := Relation.TransGen.head'_iff.mp h
  obtain ⟨l, k1, k2⟩ := List.exists_chain_of_relationReflTransGen h2
  refine ⟨x :: l, List.cons_ne_nil _ _, List.Chain.cons h1 k1, ?_⟩
  rw [List.getLast?_eq_getLast _ (List.cons_ne_nil _ _), k2]

/-- C12: in a lock system with consistent queues (`waits_wf`), when
`DeadlockChecker::search`, started for the joining transaction `m_start`
with its wait lock, an empty stack and no transaction marked as visited,
returns a victim and the search was not abandoned as too deep, there is a
waits-for cycle through the joining transaction: a nonempty list of
transactions `ts` that ends with the joining transaction and in which,
starting from the joining transaction, each transaction has a `wait_lock`
`w` and the next one owns a lock `l` ahead of `w` in the record or table
queue of `w` with `lock_has_to_wait(w, l)` true. -/
theorem search_victim_waits_for_cycle (E : Env) (fuel : Nat) (s : lock_sys_t)
    (c : DeadlockChecker) (v : Nat) (c1 : DeadlockChecker) (s1 : lock_sys_t)
    (wf : waits_wf s) (hw : (s.trx c.m_start).wait_lock = some c.m_wait_lock)
    (hst : c.s_states = []) (hmarks : ∀ t, (s.trx t).deadlock_mark ≤ c.m_mark_start)
    (hmc : c.m_mark_start ≤ s.s_lock_mark_counter)
    (h : DeadlockChecker.search E fuel s c = some (some v, c1, s1))
    (hd : c1.m_too_deep = false) :
    ∃ ts : List Nat, ts ≠ [] ∧ List.Chain (waits_for E s) c.m_start ts
      ∧ ts.getLast? = some c.m_start :=
  chain_of_transGen (search_cycle E fuel s c v c1 s1 wf hw hst hmarks hmc h hd)

theorem waits_wf_deadlock_state : waits_wf deadlock_state := by
  refine ⟨?_, ?_, ?_, ?_, ?_⟩
  · intro k; cases k <;> decide
  · intro k; cases k <;> decide
  · intro t
    simp only [deadlock_state, lock_sys_t.tbl]
    split <;> exact List.nodup_nil
  · intro t x hx
    simp only [deadlock_state, lock_sys_t.tbl] at hx
    split at hx <;> exact absurd hx (List.not_mem_nil _)
  · intro t w h
    by_cases h1 : t = 1
    · subst h1
      have e : w = 5 := by
        simp [deadlock_state, lock_sys_t.trx] at h; exact h.symm
      subst e
      decide
    · by_cases h2 : t = 2
      · subst h2
        have e : w = 3 := by
          simp [deadlock_state, lock_sys_t.trx] at h; exact h.symm
        subst e
        decide
      · by_cases h3 : t = 3
        · subst h3
          have e : w = 4 := by
            simp [deadlock_state, lock_sys_t.trx] at h; exact h.symm
          subst e
          decide
        · simp [deadlock_state, lock_sys_t.trx, h1, h2, h3] at h

theorem search_victim_waits_for_cycle_witness :
    (DeadlockChecker.search env_ordering 10 deadlock_state
        (joining_checker deadlock_state 5 1)).map (fun r => (r.1.isSome, r.2.1.m_too_deep))
      = some (true, false)
    ∧ ∃ ts : List Nat, ts ≠ [] ∧ List.Chain (waits_for env_ordering deadlock_state) 1 ts
        ∧ ts.getLast? = some 1 := by
  have hres : (DeadlockChecker.search env_ordering 10 deadlock_state
        (joining_checker deadlock_state 5 1)).map (fun r => (r.1.isSome, r.2.1.m_too_deep))
      = some (true, false) := by decide
  refine ⟨hres, ?_⟩
  cases hs : DeadlockChecker.search env_ordering 10 deadlock_state
      (joining_checker deadlock_state 5 1) with
  | none => rw [hs] at hres; cases hres
  | some r =>
    obtain ⟨v, c1, s1⟩ := r
    rw [hs] at hres
    simp only [Option.map_some', Option.some.injEq, Prod.mk.injEq] at hres
    obtain ⟨a1, a2⟩ := hres
    cases v with
    | none => cases a1
    | some v =>
      exact search_victim_waits_for_cycle env_ordering 10 deadlock_state
        (joining_checker deadlock_state 5 1) v c1 s1 waits_wf_deadlock_state (by decide) rfl
        (by
          intro t
          simp only [deadlock_state, lock_sys_t.trx, joining_checker]
          split
          · decide
          · split
            · decide
            · split <;> decide) (by decide) hs a2

theorem split_and (k a c m d : Nat) (hc : c < 2 ^ k) (hd : d < 2 ^ k) :
    (2 ^ k * a + c) &&& (2 ^ k * m + d) = 2 ^ k * (a &&& m) + (c &&& d) := by
  have hcd : c &&& d < 2 ^ k := Nat.and_lt_two_pow _ hd
  apply Nat.eq_of_testBit_eq
  intro j
  rw [Nat.testBit_and, Nat.testBit_mul_pow_two_add _ hc, Nat.testBit_mul_pow_two_add _ hd,
    Nat.testBit_mul_pow_two_add _ hcd]
  split <;> simp [Nat.testBit_and]

theorem split_or (k a c m d : Nat) (hc : c < 2 ^ k) (hd : d < 2 ^ k) :
    (2 ^ k * a + c) ||| (2 ^ k * m + d) = 2 ^ k * (a ||| m) + (c ||| d) := by
  have hcd : c ||| d < 2 ^ k := Nat.or_lt_two_pow hc hd
  apply Nat.eq_of_testBit_eq
  intro j
  rw [Nat.testBit_or, Nat.testBit_mul_pow_two_add _ hc, Nat.testBit_mul_pow_two_add _ hd,
    Nat.testBit_mul_pow_two_add _ hcd]
  split <;> simp [Nat.testBit_or]

theorem split_xor (k a c m d : Nat) (hc : c < 2 ^ k) (hd : d < 2 ^ k) :
    (2 ^ k * a + c) ^^^ (2 ^ k * m + d) = 2 ^ k * (a ^^^ m) + (c ^^^ d) := by
  have hcd : c ^^^ d < 2 ^ k := Nat.xor_lt_two_pow hc hd
  apply Nat.eq_of_testBit_eq
  intro j
  rw [Nat.testBit_xor, Nat.testBit_mul_pow_two_add _ hc, Nat.testBit_mul_pow_two_add _ hd,
    Nat.testBit_mul_pow_two_add _ hcd]
  split <;> simp [Nat.testBit_xor]

/-- A lock word as its three flag bits `a` (bits 29 to 31) and its reader
count `c` (bits 0 to 28). -/
theorem word_split (w : Nat) (h : w < 2 ^ 32) :
    ∃ a c, a < 8 ∧ c < 2 ^ 29 ∧ w = 2 ^ 29 * a + c :=
  ⟨w / 2 ^ 29, w % 2 ^ 29, by omega, by omega, by omega⟩

theorem mask_and (a c m : Nat) (hc : c < 2 ^ 29) :
    (2 ^ 29 * m) &&& (2 ^ 29 * a + c) = 2 ^ 29 * (m &&& a) := by
  have := split_and 29 m 0 a c (by norm_num) hc
  simpa using this

theorem mask_or (a c m : Nat) (hc : c < 2 ^ 29) :
    (2 ^ 29 * a + c) ||| (2 ^ 29 * m) = 2 ^ 29 * (a ||| m) + c := by
  have := split_or 29 a c m 0 hc (by norm_num)
  simpa using this

theorem mask_xor (a c m : Nat) (hc : c < 2 ^ 29) :
    (2 ^ 29 * a + c) ^^^ (2 ^ 29 * m) = 2 ^ 29 * (a ^^^ m) + c := by
  have := split_xor 29 a c m 0 hc (by norm_num)
  simpa using this

theorem rw_consts :
    rw_lock.WRITER = 2 ^ 29 * 4 ∧ rw_lock.WRITER_WAITING = 2 ^ 29 * 2
    ∧ rw_lock.UPDATER = 2 ^ 29 * 1 ∧ rw_lock.WRITER_PENDING = 2 ^ 29 * 6
    ∧ rw_lock.WRITER_WAITING ||| rw_lock.UPDATER = 2 ^ 29 * 3
    ∧ rw_lock.WRITER ||| rw_lock.UPDATER = 2 ^ 29 * 5
    ∧ rw_lock.WRITER_PENDING ||| rw_lock.UPDATER = 2 ^ 29 * 7 := by
  decide

theorem trylock_loop_two (turn : Nat → Nat → Option Bool × Nat × Nat) (fuel lock l : Nat)
    (hf : 2 ≤ fuel) :
    rw_lock.trylock_loop turn fuel lock l
      = match turn lock l with
        | (some b, lock1, l1) => some (b, lock1, l1)
        | (none, lock1, l1) =>
          match turn lock1 l1 with
          | (some b, lock2, l2) => some (b, lock2, l2)
          | (none, lock2, l2) => rw_lock.trylock_loop turn (fuel - 2) lock2 l2 := by
  obtain ⟨n, rfl⟩ : ∃ n, fuel = n + 2 := ⟨fuel - 2, by omega⟩
  simp only [rw_lock.trylock_loop, Nat.add_sub_cancel]

theorem read_flags (w : Nat) (hw : w < 2 ^ 32) :
    ((rw_lock.WRITER_PENDING &&& w ≠ 0) ↔
      ¬ (rw_lock.WRITER &&& w = 0 ∧ rw_lock.WRITER_WAITING &&& w = 0))
    ∧ (rw_lock.WRITER_PENDING &&& w = 0 → w + 1 < 2 ^ 32) := by
  obtain ⟨a, c, ha, hc, rfl⟩ := word_split w hw
  obtain ⟨e1, e2, _, e4, _⟩ := rw_consts
  rw [e1, e2, e4, mask_and _ _ _ hc, mask_and _ _ _ hc, mask_and _ _ _ hc]
  interval_cases a <;> simp <;> omega

/-- C26: `read_trylock` with `prioritize_updater = false`, run without
interference on the lock word `w` (with fuel for two turns of its loop),
returns true exactly when neither `WRITER` nor `WRITER_WAITING` is set in
`w`; on success the lock word becomes `w + 1` and on failure it stays `w`;
the out-parameter `l` holds `w` in both cases. -/
theorem read_trylock_spec (fuel w : Nat) (hw : w < 2 ^ 32) (hf : 2 ≤ fuel) :
    rw_lock.read_trylock false fuel w
      = some (decide (rw_lock.WRITER &&& w = 0 ∧ rw_lock.WRITER_WAITING &&& w = 0),
          if rw_lock.WRITER &&& w = 0 ∧ rw_lock.WRITER_WAITING &&& w = 0 then w + 1 else w,
          w) := by
  obtain ⟨f1, f2⟩ := read_flags w hw
  unfold rw_lock.read_trylock
  rw [trylock_loop_two _ _ _ _ hf]
  unfold rw_lock.read_trylock_turn rw_lock.compare_exchange_strong rw_lock.read_trylock_test
  by_cases h0 : w = rw_lock.UNLOCKED
  · subst h0
    simp [rw_lock.UNLOCKED]
  · rw [if_neg h0]
    simp only [Bool.false_eq_true, if_false]
    by_cases hp : rw_lock.WRITER_PENDING &&& w ≠ 0
    · have hn := f1.mp hp
      simp [hp, hn]
    · have hp0 : rw_lock.WRITER_PENDING &&& w = 0 := by simpa using hp
      have hn : rw_lock.WRITER &&& w = 0 ∧ rw_lock.WRITER_WAITING &&& w = 0 := by
        by_contra hc
        exact hp (f1.mpr hc)
      have hlt := f2 hp0
      have hlt1 : w + 1 < 4294967296 := by norm_num at hlt; exact hlt
      simp [hp0, hn, Nat.mod_eq_of_lt hlt1]

theorem read_trylock_spec_witness :
    (5 : Nat) < 2 ^ 32 ∧ 2 ≤ 2 ∧ rw_lock.read_trylock false 2 5 = some (true, 6, 5) :=
  ⟨by decide, by decide, by
    have h := read_trylock_spec 2 5 (by decide) (by decide)
    simpa using h⟩

theorem notmask_and (a c m : Nat) (hm : m < 8) (hc : c < 2 ^ 29) :
    rw_lock.not32 (2 ^ 29 * m) &&& (2 ^ 29 * a + c) = 2 ^ 29 * ((7 ^^^ m) &&& a) + c := by
  have e1 : rw_lock.not32 (2 ^ 29 * m) = 2 ^ 29 * (7 ^^^ m) + (2 ^ 29 - 1) := by
    unfold rw_lock.not32
    have e : (2 ^ 32 - 1 : Nat) = 2 ^ 29 * 7 + (2 ^ 29 - 1) := by norm_num
    rw [e]
    have := split_xor 29 7 (2 ^ 29 - 1) m 0 (by norm_num) (by norm_num)
    simpa using this
  rw [e1, split_and 29 _ _ _ _ (by norm_num) hc]
  have e2 : (2 ^ 29 - 1) &&& c = c := by
    rw [Nat.and_comm, Nat.and_pow_two_sub_one_eq_mod, Nat.mod_eq_of_lt hc]
  rw [e2]

theorem upgrade_flags (w : Nat) (hw : w < 2 ^ 32) (hu : rw_lock.UPDATER &&& w ≠ 0)
    (hwr : rw_lock.WRITER &&& w = 0) :
    ((rw_lock.not32 (rw_lock.WRITER_WAITING ||| rw_lock.UPDATER) &&& w ≠ 0) ↔
      ¬ (w = rw_lock.UPDATER ∨ w = rw_lock.WRITER_WAITING ||| rw_lock.UPDATER))
    ∧ (w = rw_lock.UPDATER → w ^^^ (rw_lock.WRITER ||| rw_lock.UPDATER) = rw_lock.WRITER)
    ∧ (w = rw_lock.WRITER_WAITING ||| rw_lock.UPDATER →
        w ^^^ (rw_lock.WRITER ||| rw_lock.UPDATER)
          = rw_lock.WRITER ||| rw_lock.WRITER_WAITING) := by
  refine ⟨?_, fun h => by rw [h]; decide, fun h => by rw [h]; decide⟩
  obtain ⟨a, c, ha, hc, rfl⟩ := word_split w hw
  obtain ⟨e1, e2, e3, e4, e5, e6, e7⟩ := rw_consts
  rw [e3] at hu
  rw [e1] at hwr
  rw [e5, e3]
  rw [mask_and _ _ _ hc] at hu hwr
  rw [notmask_and _ _ _ (by norm_num) hc]
  interval_cases a <;> simp at hu hwr ⊢ <;> omega

/-- C27: `upgrade_trylock`, run without interference (with fuel for two
turns of its loop) on a lock word `w` in which `UPDATER` is set and
`WRITER` is clear, returns true exactly when `w` carries no bits other
than `UPDATER` and `WRITER_WAITING`, that is, when `w` is `UPDATER` or
`WRITER_WAITING | UPDATER`; on success the lock word is `WRITER`,
respectively `WRITER | WRITER_WAITING` (`UPDATER` cleared, `WRITER` set,
`WRITER_WAITING` as before), and on failure it is `w`. -/
theorem upgrade_trylock_spec (fuel w : Nat) (hw : w < 2 ^ 32)
    (hu : rw_lock.UPDATER &&& w ≠ 0) (hwr : rw_lock.WRITER &&& w = 0) (hf : 2 ≤ fuel) :
    rw_lock.upgrade_trylock fuel w
      = some (decide (w = rw_lock.UPDATER ∨ w = rw_lock.WRITER_WAITING ||| rw_lock.UPDATER),
          if w = rw_lock.UPDATER then rw_lock.WRITER
          else if w = rw_lock.WRITER_WAITING ||| rw_lock.UPDATER then
            rw_lock.WRITER ||| rw_lock.WRITER_WAITING
          else w,
          w)
    ∧ rw_lock.UPDATER &&& rw_lock.WRITER = 0
    ∧ rw_lock.UPDATER &&& (rw_lock.WRITER ||| rw_lock.WRITER_WAITING) = 0
    ∧ rw_lock.WRITER_WAITING &&& rw_lock.WRITER = rw_lock.WRITER_WAITING &&& rw_lock.UPDATER
    ∧ rw_lock.WRITER_WAITING &&& (rw_lock.WRITER ||| rw_lock.WRITER_WAITING)
        = rw_lock.WRITER_WAITING &&& (rw_lock.WRITER_WAITING ||| rw_lock.UPDATER) := by
  refine ⟨?_, by decide, by decide, by decide, by decide⟩
  obtain ⟨f1, f2, f3⟩ := upgrade_flags w hw hu hwr
  unfold rw_lock.upgrade_trylock
  rw [trylock_loop_two _ _ _ _ hf]
  unfold rw_lock.upgrade_trylock_turn rw_lock.compare_exchange_strong
  by_cases h0 : w = rw_lock.UPDATER
  · subst h0
    simp
    decide
  · rw [if_neg h0]
    simp only [Bool.false_eq_true, if_false]
    by_cases hp : rw_lock.not32 (rw_lock.WRITER_WAITING ||| rw_lock.UPDATER) &&& w ≠ 0
    · have hn := f1.mp hp
      have hn2 : ¬ w = rw_lock.WRITER_WAITING ||| rw_lock.UPDATER := fun e => hn (Or.inr e)
      simp [hp, h0, hn2]
    · have hn : w = rw_lock.UPDATER ∨ w = rw_lock.WRITER_WAITING ||| rw_lock.UPDATER := by
        by_contra hc
        exact hp (f1.mpr hc)
      have hn2 : w = rw_lock.WRITER_WAITING ||| rw_lock.UPDATER := by
        rcases hn with a | a
        · exact absurd a h0
        · exact a
      rw [if_neg hp]
      simp only [if_true]
      rw [f3 hn2]
      simp [h0, hn2]
      decide

theorem upgrade_trylock_spec_witness :
    rw_lock.upgrade_trylock 2 (rw_lock.WRITER_WAITING ||| rw_lock.UPDATER)
        = some (true, rw_lock.WRITER ||| rw_lock.WRITER_WAITING,
            rw_lock.WRITER_WAITING ||| rw_lock.UPDATER)
    ∧ rw_lock.upgrade_trylock 2 (rw_lock.UPDATER + 1) = some (false, rw_lock.UPDATER + 1,
        rw_lock.UPDATER + 1) := by
  have h1 := (upgrade_trylock_spec 2 (rw_lock.WRITER_WAITING ||| rw_lock.UPDATER) (by decide)
    (by decide) (by decide) (by decide)).1
  have h2 := (upgrade_trylock_spec 2 (rw_lock.UPDATER + 1) (by decide) (by decide) (by decide)
    (by decide)).1
  refine ⟨?_, ?_⟩
  · rw [h1]; decide
  · rw [h2]; decide

theorem read_prioritize_flags (w : Nat) (hw : w < 2 ^ 32) :
    (rw_lock.read_trylock_test true w = true ↔
      (rw_lock.WRITER &&& w ≠ 0
        ∨ (rw_lock.WRITER_WAITING &&& w ≠ 0 ∧ rw_lock.UPDATER &&& w = 0)))
    ∧ (rw_lock.read_trylock_test true w = false → w + 1 < 2 ^ 32) := by
  unfold rw_lock.read_trylock_test
  obtain ⟨a, c, ha, hc, rfl⟩ := word_split w hw
  obtain ⟨e1, e2, e3, e4, e5, e6, e7⟩ := rw_consts
  rw [e5, e1, e2, e3, mask_and _ _ _ hc, mask_and _ _ _ hc, mask_and _ _ _ hc,
    mask_and _ _ _ hc]
  interval_cases a <;> simp +decide <;> omega

/-- C28: `read_trylock<prioritize_updater = true>`, run without
interference on the lock word `w` (with fuel for two turns of its loop),
fails exactly when `WRITER` is set in `w`, or `WRITER_WAITING` is set
while `UPDATER` is clear, and then leaves the lock word as it is; in every
other case it succeeds and the lock word becomes `w + 1`, in particular
when `WRITER_WAITING` and `UPDATER` are both set and `WRITER` is not. -/
theorem read_trylock_prioritize_spec (fuel w : Nat) (hw : w < 2 ^ 32) (hf : 2 ≤ fuel) :
    (rw_lock.read_trylock true fuel w
      = some (!decide (rw_lock.WRITER &&& w ≠ 0
                ∨ (rw_lock.WRITER_WAITING &&& w ≠ 0 ∧ rw_lock.UPDATER &&& w = 0)),
          if rw_lock.WRITER &&& w ≠ 0
              ∨ (rw_lock.WRITER_WAITING &&& w ≠ 0 ∧ rw_lock.UPDATER &&& w = 0) then w
          else w + 1,
          w))
    ∧ (rw_lock.WRITER &&& w = 0 → rw_lock.WRITER_WAITING &&& w ≠ 0 →
        rw_lock.UPDATER &&& w ≠ 0 →
        rw_lock.read_trylock true fuel w = some (true, w + 1, w)) := by
  obtain ⟨f1, f2⟩ := read_prioritize_flags w hw
  have main : rw_lock.read_trylock true fuel w
      = some (!decide (rw_lock.WRITER &&& w ≠ 0
                ∨ (rw_lock.WRITER_WAITING &&& w ≠ 0 ∧ rw_lock.UPDATER &&& w = 0)),
          if rw_lock.WRITER &&& w ≠ 0
              ∨ (rw_lock.WRITER_WAITING &&& w ≠ 0 ∧ rw_lock.UPDATER &&& w = 0) then w
          else w + 1,
          w) := by
    unfold rw_lock.read_trylock
    rw [trylock_loop_two _ _ _ _ hf]
    unfold rw_lock.read_trylock_turn rw_lock.compare_exchange_strong
    by_cases h0 : w = rw_lock.UNLOCKED
    · subst h0
      simp [rw_lock.UNLOCKED]
    · rw [if_neg h0]
      simp only [Bool.false_eq_true, if_false]
      by_cases hp : rw_lock.read_trylock_test true w = true
      · have hn := f1.mp hp
        simp [hp, hn]
      · have hp0 : rw_lock.read_trylock_test true w = false := by simpa using hp
        have hn : ¬ (rw_lock.WRITER &&& w ≠ 0
            ∨ (rw_lock.WRITER_WAITING &&& w ≠ 0 ∧ rw_lock.UPDATER &&& w = 0)) :=
          fun hc => hp (f1.mpr hc)
        have hlt := f2 hp0
        have hlt1 : w + 1 < 4294967296 := by norm_num at hlt; exact hlt
        rw [if_neg hn]
        simp [hp0, hn, Nat.mod_eq_of_lt hlt1]
  refine ⟨main, ?_⟩
  intro a b c
  rw [main]
  have hn : ¬ (rw_lock.WRITER &&& w ≠ 0
      ∨ (rw_lock.WRITER_WAITING &&& w ≠ 0 ∧ rw_lock.UPDATER &&& w = 0)) := by
    rintro (h | ⟨_, h⟩)
    · exact h a
    · exact c h
  simp [hn]

theorem read_trylock_prioritize_spec_witness :
    rw_lock.read_trylock true 2 (rw_lock.WRITER_WAITING ||| rw_lock.UPDATER)
        = some (true, (rw_lock.WRITER_WAITING ||| rw_lock.UPDATER) + 1,
            rw_lock.WRITER_WAITING ||| rw_lock.UPDATER)
    ∧ rw_lock.read_trylock true 2 rw_lock.WRITER_WAITING
        = some (false, rw_lock.WRITER_WAITING, rw_lock.WRITER_WAITING) := by
  have h := read_trylock_prioritize_spec 2 (rw_lock.WRITER_WAITING ||| rw_lock.UPDATER)
    (by decide) (by decide)
  have h2 := (read_trylock_prioritize_spec 2 rw_lock.WRITER_WAITING (by decide)
    (by decide)).1
  refine ⟨h.2 (by decide) (by decide) (by decide), ?_⟩
  rw [h2]
  decide

theorem read_test_split (p : Bool) (a c : Nat) (ha : a < 8) (hc : c < 2 ^ 29) :
    rw_lock.read_trylock_test p (2 ^ 29 * a + c) = false ↔
      (if p then a = 0 ∨ a = 1 ∨ a = 3 else a = 0 ∨ a = 1) := by
  unfold rw_lock.read_trylock_test
  obtain ⟨e1, e2, e3, e4, e5, e6, e7⟩ := rw_consts
  rw [e5, e1, e2, e4, mask_and _ _ _ hc, mask_and _ _ _ hc, mask_and _ _ _ hc]
  cases p <;> interval_cases a <;> simp +decide

theorem not_some_true (t : Prop) [Decidable t] :
    ¬ ((if t then some false else none : Option Bool) = some true) := by
  split <;> simp

theorem read_turn_eq (p : Bool) (lock l : Nat) :
    rw_lock.read_trylock_turn p lock l
      = if lock = l then (some true, (l + 1) % 2 ^ 32, l)
        else (if rw_lock.read_trylock_test p lock then some false else none, lock, lock) := by
  unfold rw_lock.read_trylock_turn rw_lock.compare_exchange_strong
  by_cases h : lock = l <;> simp [h]

theorem update_turn_eq (lock l : Nat) :
    rw_lock.update_trylock_turn lock l
      = if lock = l then (some true, l ||| rw_lock.UPDATER, l)
        else (if (rw_lock.WRITER_PENDING ||| rw_lock.UPDATER) &&& lock ≠ 0 then some false
              else none, lock, lock) := by
  unfold rw_lock.update_trylock_turn rw_lock.compare_exchange_strong
  by_cases h : lock = l <;> simp [h]

theorem upgrade_turn_eq (lock l : Nat) :
    rw_lock.upgrade_trylock_turn lock l
      = if lock = l then (some true, l ^^^ (rw_lock.WRITER ||| rw_lock.UPDATER), l)
        else (if rw_lock.not32 (rw_lock.WRITER_WAITING ||| rw_lock.UPDATER) &&& lock ≠ 0 then
                some false
              else none, lock, lock) := by
  unfold rw_lock.upgrade_trylock_turn rw_lock.compare_exchange_strong
  by_cases h : lock = l <;> simp [h]

theorem held_ok_step (σ σ1 : rw_lock.held) (h : rw_lock.atomic_step σ σ1)
    (hok : rw_lock.held_ok σ) : rw_lock.held_ok σ1 := by
  obtain ⟨a, ha, hl, hr, hw, hu, hx⟩ := hok
  obtain ⟨e1, e2, e3, e4, e5, e6, e7⟩ := rw_consts
  cases h with
  | read_trylock p l _ hloc hlt =>
    rw [read_turn_eq]
    by_cases hc : σ.lock = l
    · rw [if_pos hc]
      have hloc1 : rw_lock.read_trylock_test p σ.lock = false := by
        rcases hloc with h0 | h0
        · rw [hc, h0]
          cases p <;> decide
        · rw [hc]; exact h0
      rw [hl, read_test_split p a _ ha hr] at hloc1
      have ha3 : a < 4 := by
        cases p
        · simp at hloc1; omega
        · simp at hloc1; omega
      refine ⟨a, ha, ?_, ?_, hw, hu, by omega⟩
      · show (l + 1) % 2 ^ 32 = 2 ^ 29 * a + (σ.readers + 1)
        rw [← hc, hl]
        omega
      · show σ.readers + 1 < 2 ^ 29
        omega
    · rw [if_neg hc]
      have e : ∀ x y : Nat, (if (if rw_lock.read_trylock_test p σ.lock = true then some false
          else none : Option Bool) = some true then x else y) = y :=
        fun x y => if_neg (not_some_true _)
      refine ⟨a, ha, ?_, ?_, hw, hu, ?_⟩
      · show σ.lock = 2 ^ 29 * a + (if _ then _ else _)
        rw [e]; exact hl
      · show (if _ then _ else _) < 2 ^ 29
        rw [e]; exact hr
      · intro h4
        show (if _ then _ else _) = 0 ∧ _
        rw [e]; exact hx h4
  | update_trylock l _ hloc =>
    rw [update_turn_eq]
    by_cases hc : σ.lock = l
    · rw [if_pos hc]
      have ha0 : a = 0 := by
        rcases hloc with h0 | h0
        · rw [← hc, hl] at h0
          simp only [rw_lock.UNLOCKED] at h0
          omega
        · rw [← hc, hl, e7, mask_and _ _ _ hr] at h0
          interval_cases a <;> simp_all +decide
      subst ha0
      refine ⟨1, by norm_num, ?_, hr, ?_, ?_, by omega⟩
      · show l ||| rw_lock.UPDATER = 2 ^ 29 * 1 + σ.readers
        rw [← hc, hl, e3, mask_or _ _ _ hr]
        simp
      · show σ.writer = _
        rw [hw]; simp
      · show (σ.updater || _) = _
        simp
    · rw [if_neg hc]
      refine ⟨a, ha, hl, hr, hw, ?_, hx⟩
      show (σ.updater || decide ((if _ then some false else none : Option Bool) = some true)) = _
      rw [hu, decide_eq_false (not_some_true _)]
      simp
  | write_trylock =>
    unfold rw_lock.write_trylock rw_lock.compare_exchange_strong
    by_cases hc : σ.lock = rw_lock.UNLOCKED
    · rw [if_pos hc]
      have h0 : a = 0 ∧ σ.readers = 0 := by
        rw [hl] at hc
        simp only [rw_lock.UNLOCKED] at hc
        omega
      refine ⟨4, by norm_num, ?_, hr, ?_, ?_, ?_⟩
      · show rw_lock.WRITER = 2 ^ 29 * 4 + σ.readers
        rw [e1, h0.2]
        rfl
      · show (σ.writer || true) = _
        simp
      · show σ.updater = _
        rw [hu, h0.1]
      · intro _
        exact ⟨h0.2, by norm_num⟩
    · rw [if_neg hc]
      refine ⟨a, ha, hl, hr, ?_, hu, hx⟩
      show (σ.writer || false) = _
      rw [hw]; simp
  | upgrade_trylock l _ hloc hupd =>
    rw [upgrade_turn_eq]
    have hodd : a % 2 = 1 := by rw [hu] at hupd; simpa using hupd
    have ha4 : a < 4 := by
      by_contra h4
      have := (hx (by omega)).2
      omega
    by_cases hc : σ.lock = l
    · rw [if_pos hc]
      have hr0 : σ.readers = 0 := by
        rcases hloc with h0 | h0
        · rw [← hc, hl, e3] at h0
          omega
        · rw [← hc, hl, e5, notmask_and _ _ _ (by norm_num) hr] at h0
          omega
      refine ⟨a ^^^ 5, ?_, ?_, hr, ?_, ?_, ?_⟩
      · interval_cases a <;> simp +decide
      · show l ^^^ (rw_lock.WRITER ||| rw_lock.UPDATER) = 2 ^ 29 * (a ^^^ 5) + σ.readers
        rw [← hc, hl, e6, mask_xor _ _ _ hr]
      · show (σ.writer || decide (some true = some true)) = _
        interval_cases a <;> simp_all +decide
      · show (!decide (some true = some true)) = _
        interval_cases a <;> simp_all +decide
      · intro _
        refine ⟨hr0, ?_⟩
        interval_cases a <;> simp_all +decide
    · rw [if_neg hc]
      refine ⟨a, ha, hl, hr, ?_, ?_, hx⟩
      · show (σ.writer || decide ((if _ then some false else none : Option Bool) = some true))
          = _
        rw [hw, decide_eq_false (not_some_true _)]
        simp
      · show (!decide ((if _ then some false else none : Option Bool) = some true)) = _
        rw [decide_eq_false (not_some_true _)]
        simp [hodd]
  | write_lock_wait_start =>
    refine ⟨a ||| 2, ?_, ?_, hr, ?_, ?_, ?_⟩
    · interval_cases a <;> simp +decide
    · show σ.lock ||| rw_lock.WRITER_WAITING = _
      rw [hl, e2, mask_or _ _ _ hr]
    · show σ.writer = _
      rw [hw]
      interval_cases a <;> simp +decide
    · show σ.updater = _
      rw [hu]
      interval_cases a <;> simp +decide
    · intro h4
      have h5 : 4 ≤ a := by interval_cases a <;> simp_all +decide
      refine ⟨(hx h5).1, ?_⟩
      have := (hx h5).2
      interval_cases a <;> simp_all +decide
  | write_lock_poll =>
    unfold rw_lock.write_lock_wait_try rw_lock.compare_exchange_strong
    by_cases hc : σ.lock = rw_lock.WRITER_WAITING
    · rw [if_pos hc]
      have h0 : a = 2 ∧ σ.readers = 0 := by
        rw [hl, e2] at hc
        omega
      refine ⟨4, by norm_num, ?_, hr, ?_, ?_, ?_⟩
      · show rw_lock.WRITER = 2 ^ 29 * 4 + σ.readers
        rw [e1, h0.2]
        rfl
      · show (σ.writer || true) = _
        simp
      · show σ.updater = _
        rw [hu, h0.1]
      · intro _
        exact ⟨h0.2, by norm_num⟩
    · rw [if_neg hc]
      refine ⟨a, ha, hl, hr, ?_, hu, hx⟩
      show (σ.writer || false) = _
      rw [hw]; simp
  | read_unlock _ hpos =>
    have ha4 : a < 4 := by
      by_contra h4
      have := (hx (by omega)).1
      omega
    refine ⟨a, ha, ?_, by show σ.readers - 1 < _; omega, hw, hu, by omega⟩
    show (σ.lock + (2 ^ 32 - 1 % 2 ^ 32)) % 2 ^ 32 = 2 ^ 29 * a + (σ.readers - 1)
    rw [hl]
    omega
  | update_unlock _ hupd =>
    have hodd : a % 2 = 1 := by rw [hu] at hupd; simpa using hupd
    have ha4 : a < 4 := by
      by_contra h4
      have := (hx (by omega)).2
      omega
    refine ⟨6 &&& a, ?_, ?_, hr, ?_, ?_, ?_⟩
    · interval_cases a <;> simp +decide
    · show σ.lock &&& rw_lock.not32 rw_lock.UPDATER = _
      rw [Nat.and_comm, hl, e3, notmask_and _ _ _ (by norm_num) hr]
      rfl
    · show σ.writer = _
      rw [hw]
      interval_cases a <;> simp +decide
    · show false = _
      interval_cases a <;> simp_all +decide
    · intro h4
      interval_cases a <;> simp_all +decide
  | write_unlock _ hwr =>
    have h4 : 4 ≤ a := by rw [hw] at hwr; simpa using hwr
    obtain ⟨hr0, hev⟩ := hx h4
    refine ⟨3 &&& a, ?_, ?_, hr, ?_, ?_, ?_⟩
    · interval_cases a <;> simp +decide
    · show σ.lock &&& rw_lock.not32 rw_lock.WRITER = _
      rw [Nat.and_comm, hl, e1, notmask_and _ _ _ (by norm_num) hr]
      rfl
    · show false = _
      interval_cases a <;> simp_all +decide
    · show σ.updater = _
      rw [hu]
      interval_cases a <;> simp_all +decide
    · intro h5
      interval_cases a <;> simp_all +decide

theorem held_ok_init : rw_lock.held_ok {} :=
  ⟨0, by norm_num, rfl, by show (0 : Nat) < _; norm_num, rfl, rfl, by omega⟩

theorem held_ok_reach (σ : rw_lock.held)
    (h : Relation.ReflTransGen rw_lock.atomic_step {} σ) : rw_lock.held_ok σ := by
  induction h with
  | refl => exact held_ok_init
  | tail _ hs ih => exact held_ok_step _ _ hs ih

/-- C25: starting from `UNLOCKED` with no lock held, after every sequence
of atomic steps of `read_trylock` (both variants), `update_trylock`,
`write_trylock`, `upgrade_trylock`, `write_lock_wait_start`,
`write_lock_poll`, `read_unlock`, `update_unlock` and `write_unlock`, in
which each unlock and `upgrade_trylock` is executed by a holder of the
lock and `read_trylock` only while fewer than `2^29 - 1` shared locks are
held, a lock word with `WRITER` set has a reader count (bits 0 to 28) of
zero and has `UPDATER` clear. -/
theorem rw_lock_word_invariant (σ : rw_lock.held)
    (h : Relation.ReflTransGen rw_lock.atomic_step {} σ) :
    rw_lock.WRITER &&& σ.lock ≠ 0 →
      rw_lock.not32 (rw_lock.WRITER_PENDING ||| rw_lock.UPDATER) &&& σ.lock = 0
      ∧ σ.lock % 2 ^ 29 = 0 ∧ rw_lock.UPDATER &&& σ.lock = 0 := by
  obtain ⟨a, ha, hl, hr, hw, hu, hx⟩ := held_ok_reach σ h
  obtain ⟨e1, e2, e3, e4, e5, e6, e7⟩ := rw_consts
  rw [hl, e7, e1, e3, mask_and _ _ _ hr, mask_and _ _ _ hr, notmask_and _ _ _ (by norm_num) hr]
  intro hwr
  have h4 : 4 ≤ a := by
    by_contra hc
    apply hwr
    interval_cases a <;> simp +decide
  obtain ⟨h0, hev⟩ := hx h4
  rw [h0]
  refine ⟨?_, by omega, ?_⟩
  · simp
  · interval_cases a <;> simp_all +decide

theorem rw_lock_word_invariant_witness :
    Relation.ReflTransGen rw_lock.atomic_step {}
      { lock := rw_lock.WRITER, readers := 0, updater := false, writer := true }
    ∧ (rw_lock.WRITER &&& rw_lock.WRITER ≠ 0 →
        rw_lock.not32 (rw_lock.WRITER_PENDING ||| rw_lock.UPDATER) &&& rw_lock.WRITER = 0
        ∧ rw_lock.WRITER % 2 ^ 29 = 0 ∧ rw_lock.UPDATER &&& rw_lock.WRITER = 0) := by
  have hr : Relation.ReflTransGen rw_lock.atomic_step {}
      { lock := rw_lock.WRITER, readers := 0, updater := false, writer := true } :=
    Relation.ReflTransGen.single (rw_lock.atomic_step.write_trylock {})
  exact ⟨hr, rw_lock_word_invariant _ hr⟩

theorem lock_rec_create_general (s : lock_sys_t) (tm0 : type_mode_t) (block : buf_block_t)
    (heap_no : Nat) (index : dict_index_t) (trx : Nat) (b : Bool) :
    (lock_rec_create s tm0 block heap_no index trx b).2.n_locks = s.n_locks + 1
    ∧ (∀ j, (lock_rec_create s tm0 block heap_no index trx b).2.lock j
        = if j = s.n_locks then
            { trx := trx, type_mode := supremum_type_mode tm0 heap_no, index := index,
              page_id := block.page_id,
              bitmap := (List.replicate
                (if !((supremum_type_mode tm0 heap_no).predicate
                      || (supremum_type_mode tm0 heap_no).prdt_page) then
                  ((block.n_heap + 7) / 8) * 8
                else 8) false).set heap_no true }
          else s.lock j)
    ∧ (∀ k, (lock_rec_create s tm0 block heap_no index trx b).2.hash k
        = if k = lock_hash_get (supremum_type_mode tm0 heap_no) then s.hash k ++ [s.n_locks]
          else s.hash k) := by
  unfold lock_rec_create lock_rec_create_low
  rw [show (if heap_no = PAGE_HEAP_NO_SUPREMUM then
      ({ tm0 with gap := false, rec_not_gap := false } : type_mode_t) else tm0)
      = supremum_type_mode tm0 heap_no from rfl]
  generalize supremum_type_mode tm0 heap_no = tm
  simp only [lock_sys_t.alloc_lock]
  cases hw : tm.wait
  · refine ⟨by simp, ?_, ?_⟩
    · intro j
      simp [lock_rec_set_nth_bit, lock_rec_bitmap_reset, lock_rec_get_n_bits]
    · intro k
      simp
      split <;> simp_all
  · refine ⟨by simp, ?_, ?_⟩
    · intro j
      simp [lock_rec_set_nth_bit, lock_rec_bitmap_reset, lock_rec_get_n_bits]
    · intro k
      simp
      split <;> simp_all

theorem get_nth_bit_fresh_only (n hn i : Nat)
    (h : ((List.replicate n false).set hn true).getD i false = true) : i = hn := by
  by_contra hne
  have hne1 : ¬ hn = i := fun x => hne x.symm
  simp only [List.getD_eq_getElem?_getD, List.getElem?_set, if_neg hne1,
    List.getElem?_replicate] at h
  split at h <;> simp at h

theorem lock_rec_create_created (s : lock_sys_t) (tm0 : type_mode_t) (block : buf_block_t)
    (heap_no : Nat) (index : dict_index_t) (trx : Nat) (b : Bool)
    (hfresh : s.n_locks ∉ s.hash (lock_hash_get (supremum_type_mode tm0 heap_no))) :
    struct_created s (lock_rec_create s tm0 block heap_no index trx b).2
      (supremum_type_mode tm0 heap_no) block heap_no index trx := by
  obtain ⟨h1, h2, h3⟩ := lock_rec_create_general s tm0 block heap_no index trx b
  have hg := h2 s.n_locks
  rw [if_pos rfl] at hg
  have hother : ∀ x, x ≠ s.n_locks →
      (lock_rec_create s tm0 block heap_no index trx b).2.lock x = s.lock x := by
    intro x hx
    rw [h2 x, if_neg hx]
  refine ⟨h1, by rw [hg], by rw [hg], by rw [hg], by rw [hg], ?_, ?_, ?_, hother, ?_, ?_, ?_⟩
  · intro i hi
    rw [hg] at hi
    exact get_nth_bit_fresh_only _ _ _ hi
  · intro hlt
    rw [hg] at hlt ⊢
    unfold lock_rec_get_n_bits at hlt
    simp only [List.length_set, List.length_replicate] at hlt
    unfold lock_rec_get_nth_bit
    rw [get_nth_bit_fresh _ _ _ hlt]
    simp
  · rw [hg]
    unfold lock_rec_get_n_bits
    simp
  · rw [h3, if_pos rfl]
  · unfold lock_sys_t.page_chain
    rw [h3, if_pos rfl, List.filter_append]
    have e1 : List.filter (fun i =>
        ((lock_rec_create s tm0 block heap_no index trx b).2.lock i).page_id == block.page_id)
        [s.n_locks] = [s.n_locks] := by
      rw [List.filter_cons_of_pos (by rw [hg]; simp)]
      rfl
    rw [e1]
    congr 1
    apply List.filter_congr
    intro x hx
    by_cases e : x = s.n_locks
    · subst e
      exact absurd hx hfresh
    · rw [hother x e]
  · intro k hk
    rw [h3, if_neg hk]
/-- C29: the enqueue policy of `lock_rec_add_to_queue`.  Let `tm` be the
requested type mode with `GAP` and `REC_NOT_GAP` dropped when `heap_no` is
the supremum, and `chain` the locks of the page in the hash table that `tm`
selects.  (1) If a waiting lock of the chain has the bit of `heap_no`, a new
struct with only that bit is created at the end of the chain.  (2) If no
waiting lock has the bit, the request has no `WAIT` flag and some struct of
the chain belongs to `trx`, has the type mode `tm` and more than `heap_no`
bits, the bit is set in the first such struct of the chain and nothing is
created.  (3) If no waiting lock has the bit and the request has the `WAIT`
flag or the chain has no such struct, a new struct is created at the end.
In each case no other lock and no other bit changes, and the chains keep
their order (`struct_created`, `bit_set_in`). -/
theorem lock_rec_add_to_queue_policy (s : lock_sys_t) (type_mode : type_mode_t)
    (block : buf_block_t) (heap_no : Nat) (index : dict_index_t) (trx : Nat) (b : Bool)
    (halloc : ∀ x ∈ s.hash (lock_hash_get (supremum_type_mode type_mode heap_no)),
      x < s.n_locks) :
    ((∃ w ∈ s.page_chain (lock_hash_get (supremum_type_mode type_mode heap_no)) block.page_id,
          (s.lock w).is_waiting = true ∧ lock_rec_get_nth_bit (s.lock w) heap_no = true) →
      struct_created s (lock_rec_add_to_queue s type_mode block heap_no index trx b)
        (supremum_type_mode type_mode heap_no) block heap_no index trx)
    ∧ ((¬ ∃ w ∈ s.page_chain (lock_hash_get (supremum_type_mode type_mode heap_no))
            block.page_id,
          (s.lock w).is_waiting = true ∧ lock_rec_get_nth_bit (s.lock w) heap_no = true) →
      (supremum_type_mode type_mode heap_no).wait = false →
      (∃ g ∈ s.page_chain (lock_hash_get (supremum_type_mode type_mode heap_no)) block.page_id,
          similar_struct s (supremum_type_mode type_mode heap_no) heap_no trx g) →
      ∃ g pre post,
        s.page_chain (lock_hash_get (supremum_type_mode type_mode heap_no)) block.page_id
          = pre ++ g :: post
        ∧ similar_struct s (supremum_type_mode type_mode heap_no) heap_no trx g
        ∧ (∀ x ∈ pre, ¬ similar_struct s (supremum_type_mode type_mode heap_no) heap_no trx x)
        ∧ bit_set_in s (lock_rec_add_to_queue s type_mode block heap_no index trx b) g heap_no)
    ∧ ((¬ ∃ w ∈ s.page_chain (lock_hash_get (supremum_type_mode type_mode heap_no))
            block.page_id,
          (s.lock w).is_waiting = true ∧ lock_rec_get_nth_bit (s.lock w) heap_no = true) →
      ((supremum_type_mode type_mode heap_no).wait = true
        ∨ ¬ ∃ g ∈ s.page_chain (lock_hash_get (supremum_type_mode type_mode heap_no))
              block.page_id,
            similar_struct s (supremum_type_mode type_mode heap_no) heap_no trx g) →
      struct_created s (lock_rec_add_to_queue s type_mode block heap_no index trx b)
        (supremum_type_mode type_mode heap_no) block heap_no index trx) := by
  have hcr : struct_created s
      (lock_rec_create s (supremum_type_mode type_mode heap_no) block heap_no index trx b).2
      (supremum_type_mode type_mode heap_no) block heap_no index trx := by
    have h := lock_rec_create_created s (supremum_type_mode type_mode heap_no) block heap_no
      index trx b
    rw [supremum_type_mode_idem] at h
    exact h (fun hx => Nat.lt_irrefl _ (halloc _ hx))
  revert hcr
  unfold lock_rec_add_to_queue
  dsimp only
  generalize hq : (if heap_no = PAGE_HEAP_NO_SUPREMUM then
    ({ type_mode with gap := false, rec_not_gap := false } : type_mode_t) else type_mode) = tm
  have e : supremum_type_mode type_mode heap_no = tm := hq
  rw [e]
  clear hq e halloc
  intro hcr
  generalize hc : s.page_chain (lock_hash_get tm) block.page_id = chain
  have hany : (chain.any (fun i => (s.lock i).is_waiting
        && lock_rec_get_nth_bit (s.lock i) heap_no) = true)
      ↔ ∃ w ∈ chain, (s.lock w).is_waiting = true
          ∧ lock_rec_get_nth_bit (s.lock w) heap_no = true := by
    simp [List.any_eq_true]
  have hsim : ∀ g, (decide ((s.lock g).trx = trx) && decide ((s.lock g).type_mode = tm)
        && decide (lock_rec_get_n_bits (s.lock g) > heap_no)) = true
      ↔ similar_struct s tm heap_no trx g := by
    intro g
    unfold similar_struct
    simp [and_assoc]
  refine ⟨?_, ?_, ?_⟩
  · intro hw
    rw [if_pos (hany.mpr hw)]
    exact hcr
  · intro hw hwait hex
    rw [if_neg (fun h => hw (hany.mp h))]
    obtain ⟨g0, hg0, hs0⟩ := hex
    have hne : (!chain.isEmpty && !tm.wait) = true := by
      cases chain with
      | nil => exact absurd hg0 (List.not_mem_nil _)
      | cons a t => simp [hwait]
    rw [if_pos hne]
    unfold lock_rec_find_similar_on_page
    cases hf : chain.find? (fun i => decide ((s.lock i).trx = trx)
        && decide ((s.lock i).type_mode = tm)
        && decide (lock_rec_get_n_bits (s.lock i) > heap_no)) with
    | none =>
      rw [List.find?_eq_none] at hf
      exact absurd ((hsim g0).mpr hs0) (hf g0 hg0)
    | some g =>
      rw [List.find?_eq_some] at hf
      obtain ⟨hp, pre, post, hsplit, hpre⟩ := hf
      have hsg := (hsim g).mp hp
      refine ⟨g, pre, post, hsplit, hsg, ?_, ?_⟩
      · intro x hx hsx
        have := hpre x hx
        rw [(hsim x).mpr hsx] at this
        exact absurd this (by decide)
      · dsimp only
        refine ⟨rfl, fun k => rfl, by simp, ?_, ?_, ?_⟩
        · simp only [lock_sys_t.lock_set_lock, if_pos]
          rw [get_nth_bit_set_eq _ _ _ hsg.2.2]
          simp
        · intro i hi
          simp only [lock_sys_t.lock_set_lock, if_pos]
          rw [get_nth_bit_set_eq _ _ _ hsg.2.2]
          simp [hi]
        · intro x hx
          simp [hx]
  · intro hw hor
    rw [if_neg (fun h => hw (hany.mp h))]
    split
    · rename_i hne
      unfold lock_rec_find_similar_on_page
      split
      · rename_i g hg
        exfalso
        have hm := List.mem_of_find?_eq_some hg
        have hp := List.find?_some hg
        rcases hor with hwt | hno
        · simp [hwt] at hne
        · exact hno ⟨g, hm, (hsim g).mp hp⟩
      · exact hcr
    · exact hcr
theorem lock_rec_add_to_queue_policy_witness :
    struct_created fifo_state
        (lock_rec_add_to_queue fifo_state { mode := LOCK_S } { page_id := 5, n_heap := 8 } 3
          default 4 false)
        (supremum_type_mode { mode := LOCK_S } 3) { page_id := 5, n_heap := 8 } 3 default 4
    ∧ (∃ g pre post,
        gap_state.page_chain
            (lock_hash_get (supremum_type_mode { mode := LOCK_S, gap := true } 3)) 1
          = pre ++ g :: post
        ∧ similar_struct gap_state (supremum_type_mode { mode := LOCK_S, gap := true } 3) 3 1 g
        ∧ (∀ x ∈ pre,
            ¬ similar_struct gap_state (supremum_type_mode { mode := LOCK_S, gap := true } 3)
              3 1 x)
        ∧ bit_set_in gap_state
            (lock_rec_add_to_queue gap_state { mode := LOCK_S, gap := true }
              { page_id := 1, n_heap := 8 } 3 default 1 false) g 3)
    ∧ struct_created gap_state
        (lock_rec_add_to_queue gap_state { mode := LOCK_S, gap := true }
          { page_id := 1, n_heap := 8 } 3 default 2 false)
        (supremum_type_mode { mode := LOCK_S, gap := true } 3) { page_id := 1, n_heap := 8 } 3
        default 2 :=
  ⟨(lock_rec_add_to_queue_policy fifo_state { mode := LOCK_S } { page_id := 5, n_heap := 8 } 3
      default 4 false (by decide)).1 ⟨1, by decide, by decide, by decide⟩,
   (lock_rec_add_to_queue_policy gap_state { mode := LOCK_S, gap := true }
      { page_id := 1, n_heap := 8 } 3 default 1 false (by decide)).2.1
      (by decide) (by decide) ⟨0, by decide, by decide, by decide, by decide⟩,
   (lock_rec_add_to_queue_policy gap_state { mode := LOCK_S, gap := true }
      { page_id := 1, n_heap := 8 } 3 default 2 false (by decide)).2.2
      (by decide) (Or.inr (by
        rintro ⟨g, hg, h⟩
        have e : g = 0 := by
          have : g ∈ [0] := hg
          simpa using this
        subst e
        exact absurd h.1 (by decide)))⟩

theorem search_loop_succ (E : Env) (fuel : Nat) (x : DeadlockChecker.loop_state) :
    DeadlockChecker.search_loop E (fuel + 1) x.s x.c x.lock x.heap_no
      = match DeadlockChecker.search_iter E x with
        | none => none
        | some (Sum.inl r) => some r
        | some (Sum.inr y) => DeadlockChecker.search_loop E fuel y.s y.c y.lock y.heap_no := by
  unfold DeadlockChecker.search_iter
  rw [DeadlockChecker.search_loop]
  generalize DeadlockChecker.unwind x.s x.c.s_states x.c x.lock x.heap_no = u
  obtain ⟨c, l, h⟩ := u
  cases l with
  | none => rfl
  | some lock =>
    dsimp only
    repeat' (first | rfl | split)
theorem unwind_limits (s : lock_sys_t) (st : List state_t) (n : Nat) :
    ∀ (c : DeadlockChecker) (lock heap_no : Option Nat),
      c.s_states.length ≤ n → st.length ≤ n →
      (DeadlockChecker.unwind s st c lock heap_no).1.s_states.length ≤ n
      ∧ (DeadlockChecker.unwind s st c lock heap_no).1.m_cost = c.m_cost
      ∧ (DeadlockChecker.unwind s st c lock heap_no).1.m_too_deep = c.m_too_deep := by
  induction st with
  | nil => intro c lock heap_no h1 _; exact ⟨h1, rfl, rfl⟩
  | cons a st ih =>
    intro c lock heap_no h1 h2
    unfold DeadlockChecker.unwind
    cases lock with
    | some l => exact ⟨h1, rfl, rfl⟩
    | none =>
      simp only []
      have h3 : st.length ≤ n := by
        simp only [List.length_cons] at h2
        omega
      exact ih _ _ _ h3 h3

theorem not_too_deep_limits (c : DeadlockChecker) (h : ¬ c.is_too_deep = true) :
    c.s_states.length ≤ 200 ∧ c.m_cost ≤ 1000000 := by
  unfold DeadlockChecker.is_too_deep DeadlockChecker.m_n_elems at h
  simp only [Bool.or_eq_true, decide_eq_true_eq, not_or, not_lt] at h
  exact h

theorem search_iter_limits (E : Env) (x : DeadlockChecker.loop_state)
    (h1 : x.c.s_states.length ≤ 201) (h2 : x.c.m_cost ≤ 1000001) :
    (∀ y, DeadlockChecker.search_iter E x = some (Sum.inr y) →
      y.c.s_states.length ≤ 201 ∧ y.c.m_cost ≤ 1000001 ∧ y.c.m_start = x.c.m_start
      ∧ y.c.m_too_deep = x.c.m_too_deep)
    ∧ (∀ r c1 s1, DeadlockChecker.search_iter E x = some (Sum.inl (r, c1, s1)) →
      c1.s_states.length ≤ 201 ∧ c1.m_cost ≤ 1000001 ∧ c1.m_start = x.c.m_start
      ∧ (c1.m_too_deep = true → x.c.m_too_deep = false → r = some x.c.m_start)) := by
  have hu := unwind_limits x.s x.c.s_states 201 x.c x.lock x.heap_no h1 h1
  have hs := unwind_m_start x.s x.c.s_states x.c x.lock x.heap_no
  unfold DeadlockChecker.search_iter
  revert hu hs
  generalize DeadlockChecker.unwind x.s x.c.s_states x.c x.lock x.heap_no = u
  obtain ⟨c, l, h⟩ := u
  intro hu hs
  simp only [] at hu hs
  obtain ⟨u1, u2, u3⟩ := hu
  rw [← u2] at h2
  rw [← hs, ← u3]
  clear u2 u3 hs h1
  cases l with
  | none =>
    refine ⟨fun y hy => (nomatch hy), ?_⟩
    intro r c1 s1 e
    simp only [Option.some.injEq, Sum.inl.injEq, Prod.mk.injEq] at e
    obtain ⟨rfl, rfl, rfl⟩ := e
    refine ⟨u1, h2, rfl, ?_⟩
    intro a b
    rw [a] at b
    cases b
  | some lock =>
    dsimp only
    split
    · refine ⟨?_, fun r c1 s1 e => nomatch e⟩
      intro y e
      simp only [Option.some.injEq, Sum.inr.injEq] at e
      subst e
      exact ⟨u1, h2, rfl, rfl⟩
    · split
      · refine ⟨?_, fun r c1 s1 e => nomatch e⟩
        intro y e
        simp only [Option.some.injEq, Sum.inr.injEq] at e
        subst e
        exact ⟨u1, h2, rfl, rfl⟩
      · split
        · refine ⟨fun y hy => (nomatch hy), ?_⟩
          intro r c1 s1 e
          simp only [Option.some.injEq, Sum.inl.injEq, Prod.mk.injEq] at e
          obtain ⟨rfl, rfl, rfl⟩ := e
          refine ⟨u1, h2, rfl, ?_⟩
          intro a b
          rw [a] at b
          cases b
        · split
          · refine ⟨fun y hy => (nomatch hy), ?_⟩
            intro r c1 s1 e
            simp only [Option.some.injEq, Sum.inl.injEq, Prod.mk.injEq] at e
            obtain ⟨rfl, rfl, rfl⟩ := e
            exact ⟨u1, h2, rfl, fun _ _ => rfl⟩
          · rename_i hd
            have hl := not_too_deep_limits c hd
            split
            · split
              · split
                · refine ⟨fun y hy => (nomatch hy), ?_⟩
                  intro r c1 s1 e
                  simp only [Option.some.injEq, Sum.inl.injEq, Prod.mk.injEq] at e
                  obtain ⟨rfl, rfl, rfl⟩ := e
                  exact ⟨u1, by simp only []; omega, rfl, fun _ _ => rfl⟩
                · rename_i c2 hp
                  have e2 := push_eq E _ _ _ _ hp
                  subst e2
                  split
                  · exact ⟨fun y hy => (nomatch hy), fun r c1 s1 e => nomatch e⟩
                  · split
                    · refine ⟨?_, fun r c1 s1 e => nomatch e⟩
                      intro y e
                      simp only [Option.some.injEq, Sum.inr.injEq] at e
                      subst e
                      refine ⟨?_, ?_, rfl, rfl⟩
                      · simp only [List.length_cons]; omega
                      · simp only []; omega
                    · refine ⟨?_, fun r c1 s1 e => nomatch e⟩
                      intro y e
                      simp only [Option.some.injEq, Sum.inr.injEq] at e
                      subst e
                      refine ⟨?_, ?_, rfl, rfl⟩
                      · simp only [List.length_cons]; omega
                      · simp only []; omega
              · refine ⟨?_, fun r c1 s1 e => nomatch e⟩
                intro y e
                simp only [Option.some.injEq, Sum.inr.injEq] at e
                subst e
                exact ⟨u1, h2, rfl, rfl⟩
            · refine ⟨?_, fun r c1 s1 e => nomatch e⟩
              intro y e
              simp only [Option.some.injEq, Sum.inr.injEq] at e
              subst e
              exact ⟨u1, h2, rfl, rfl⟩
theorem search_loop_reach (E : Env) (x0 x : DeadlockChecker.loop_state)
    (r : Option Nat × DeadlockChecker × lock_sys_t)
    (h : Relation.ReflTransGen (DeadlockChecker.search_turn E) x0 x)
    (hr : DeadlockChecker.search_iter E x = some (Sum.inl r)) :
    ∃ n, ∀ fuel, n ≤ fuel →
      DeadlockChecker.search_loop E fuel x0.s x0.c x0.lock x0.heap_no = some r := by
  induction h using Relation.ReflTransGen.head_induction_on with
  | refl =>
    refine ⟨1, ?_⟩
    intro fuel hf
    obtain ⟨k, rfl⟩ : ∃ k, fuel = k + 1 := ⟨fuel - 1, by omega⟩
    rw [search_loop_succ, hr]
  | head hxy _ ih =>
    obtain ⟨n, hn⟩ := ih
    refine ⟨n + 1, ?_⟩
    intro fuel hf
    obtain ⟨k, rfl⟩ : ∃ k, fuel = k + 1 := ⟨fuel - 1, by omega⟩
    rw [search_loop_succ, hxy]
    exact hn k (by omega)

theorem search_reach_limits (E : Env) (x0 x : DeadlockChecker.loop_state)
    (h : Relation.ReflTransGen (DeadlockChecker.search_turn E) x0 x)
    (h1 : x0.c.s_states.length ≤ 201) (h2 : x0.c.m_cost ≤ 1000001) :
    x.c.s_states.length ≤ 201 ∧ x.c.m_cost ≤ 1000001 ∧ x.c.m_start = x0.c.m_start
      ∧ x.c.m_too_deep = x0.c.m_too_deep := by
  induction h with
  | refl => exact ⟨h1, h2, rfl, rfl⟩
  | tail _ hyz ih =>
    obtain ⟨a, b, c, d⟩ := ih
    obtain ⟨a1, b1, c1, d1⟩ := (search_iter_limits E _ a b).1 _ hyz
    exact ⟨a1, b1, c1.trans c, d1.trans d⟩

theorem search_loop_limits (E : Env) (fuel : Nat) :
    ∀ (x : DeadlockChecker.loop_state) (r : Option Nat) (c1 : DeadlockChecker)
      (s1 : lock_sys_t), x.c.s_states.length ≤ 201 → x.c.m_cost ≤ 1000001 →
      DeadlockChecker.search_loop E fuel x.s x.c x.lock x.heap_no = some (r, c1, s1) →
      c1.s_states.length ≤ 201 ∧ c1.m_cost ≤ 1000001
      ∧ (c1.m_too_deep = true → x.c.m_too_deep = false → r = some x.c.m_start) := by
  induction fuel with
  | zero =>
    intro x r c1 s1 _ _ h
    unfold DeadlockChecker.search_loop at h
    cases h
  | succ k ih =>
    intro x r c1 s1 h1 h2 h
    rw [search_loop_succ] at h
    have hl := search_iter_limits E x h1 h2
    cases hi : DeadlockChecker.search_iter E x with
    | none => rw [hi] at h; cases h
    | some v =>
      rw [hi] at h
      cases v with
      | inl res =>
        simp only [Option.some.injEq] at h
        subst h
        obtain ⟨a, b, _, d⟩ := hl.2 r c1 s1 hi
        exact ⟨a, b, d⟩
      | inr y =>
        simp only [] at h
        obtain ⟨a, b, c, d⟩ := hl.1 y hi
        obtain ⟨a1, b1, d1⟩ := ih y r c1 s1 a b h
        refine ⟨a1, b1, ?_⟩
        intro t1 t2
        rw [← c]
        exact d1 t1 (d.trans t2)

theorem search_iter_too_deep (E : Env) (x : DeadlockChecker.loop_state)
    (h1 : DeadlockChecker.at_depth_check E x = true)
    (h2 : (DeadlockChecker.restored x).is_too_deep = true) :
    DeadlockChecker.search_iter E x
      = some (Sum.inl (some (DeadlockChecker.restored x).m_start,
          { DeadlockChecker.restored x with m_too_deep := true }, x.s)) := by
  unfold DeadlockChecker.at_depth_check at h1
  unfold DeadlockChecker.restored at h2 ⊢
  unfold DeadlockChecker.search_iter
  revert h1 h2
  generalize DeadlockChecker.unwind x.s x.c.s_states x.c x.lock x.heap_no = u
  obtain ⟨c, l, h⟩ := u
  cases l with
  | none => intro h1; cases h1
  | some lock =>
    intro h1 h2
    simp only [Bool.and_eq_true, decide_eq_true_eq] at h1 h2
    obtain ⟨⟨a, b⟩, d⟩ := h1
    dsimp only
    rw [if_neg a, if_neg (by simp [b]), if_neg d, if_pos h2]

set_option maxRecDepth 1000000 in
/-- C30, counterexample: in the waits-for ring of 202 transactions the
search of the joining transaction 0, started with an empty stack and
`m_cost` 0, ends with 201 frames on the stack and `m_cost` 201, without
having been abandoned. -/
theorem search_holds_201_frames :
    (DeadlockChecker.search env_ordering 1000 (deadlock_ring 202)
        { m_start := 0, m_wait_lock := 1, m_mark_start := 0 }).map
      (fun r => (r.1, r.2.1.m_n_elems, r.2.1.m_cost, r.2.1.m_too_deep))
      = some (some 201, 201, 201, false) := by
  decide

/-- C30, amended: in a run of `search` that starts with an empty stack,
`m_cost` 0 and `m_too_deep` clear, at the start of every turn of the loop
the stack holds at most 201 frames and `m_cost` is at most 1,000,001 (the
limits are tested before the counter is incremented and the frame is
pushed), and so at the return.  When a turn meets a conflicting lock of
another transaction than the joining one while the stack holds more than
200 frames or `m_cost` exceeds 1,000,000, the search is abandoned: with
enough fuel `search` returns the joining transaction `m_start` with
`m_too_deep` set.  Whenever `search` returns with `m_too_deep` set it
returns the joining transaction. -/
theorem search_limits (E : Env) (s : lock_sys_t) (c : DeadlockChecker) (lock : Nat)
    (heap_no : Option Nat) (hs : c.s_states = []) (hc : c.m_cost = 0)
    (ht : c.m_too_deep = false)
    (hg : DeadlockChecker.get_first_lock s c = some (lock, heap_no)) :
    (∀ x, Relation.ReflTransGen (DeadlockChecker.search_turn E) ⟨s, c, some lock, heap_no⟩ x →
      x.c.m_n_elems ≤ 201 ∧ x.c.m_cost ≤ 1000001
      ∧ (DeadlockChecker.at_depth_check E x = true →
          (DeadlockChecker.restored x).is_too_deep = true →
          ∃ n c1 s1, c1.m_too_deep = true ∧ ∀ fuel, n ≤ fuel →
            DeadlockChecker.search E fuel s c = some (some c.m_start, c1, s1)))
    ∧ (∀ fuel r c1 s1, DeadlockChecker.search E fuel s c = some (r, c1, s1) →
      c1.m_n_elems ≤ 201 ∧ c1.m_cost ≤ 1000001
      ∧ (c1.m_too_deep = true → r = some c.m_start)) := by
  have h1 : c.s_states.length ≤ 201 := by rw [hs]; simp
  have h2 : c.m_cost ≤ 1000001 := by rw [hc]; omega
  constructor
  · intro x hx
    obtain ⟨a, b, d, _⟩ := search_reach_limits E _ x hx h1 h2
    refine ⟨a, b, ?_⟩
    intro k1 k2
    have hi := search_iter_too_deep E x k1 k2
    obtain ⟨n, hn⟩ := search_loop_reach E _ x _ hx hi
    have hst : (DeadlockChecker.restored x).m_start = c.m_start := by
      unfold DeadlockChecker.restored
      rw [unwind_m_start]
      exact d
    refine ⟨n, { DeadlockChecker.restored x with m_too_deep := true }, x.s, rfl, ?_⟩
    intro fuel hf
    unfold DeadlockChecker.search
    rw [hg]
    simp only []
    rw [← hst]
    exact hn fuel hf
  · intro fuel r c1 s1 h
    unfold DeadlockChecker.search at h
    rw [hg] at h
    simp only [] at h
    obtain ⟨a, b, d⟩ := search_loop_limits E fuel ⟨s, c, some lock, heap_no⟩ r c1 s1 h1 h2 h
    exact ⟨a, b, fun t => d t ht⟩
theorem search_limits_witness :
    (∀ x, Relation.ReflTransGen (DeadlockChecker.search_turn env_ordering)
        ⟨deadlock_ring 203, { m_start := 0, m_wait_lock := 1, m_mark_start := 0 }, some 2,
          none⟩ x →
      x.c.m_n_elems ≤ 201 ∧ x.c.m_cost ≤ 1000001
      ∧ (DeadlockChecker.at_depth_check env_ordering x = true →
          (DeadlockChecker.restored x).is_too_deep = true →
          ∃ n c1 s1, c1.m_too_deep = true ∧ ∀ fuel, n ≤ fuel →
            DeadlockChecker.search env_ordering fuel (deadlock_ring 203)
              { m_start := 0, m_wait_lock := 1, m_mark_start := 0 } = some (some 0, c1, s1)))
    ∧ (∀ fuel r c1 s1,
      DeadlockChecker.search env_ordering fuel (deadlock_ring 203)
        { m_start := 0, m_wait_lock := 1, m_mark_start := 0 } = some (r, c1, s1) →
      c1.m_n_elems ≤ 201 ∧ c1.m_cost ≤ 1000001
      ∧ (c1.m_too_deep = true → r = some 0)) :=
  search_limits env_ordering (deadlock_ring 203)
    { m_start := 0, m_wait_lock := 1, m_mark_start := 0 } 2 none rfl rfl rfl (by decide)

theorem same_core_refl (s : lock_sys_t) : same_core s s := ⟨rfl, fun _ => rfl⟩

theorem same_core_trans {s s1 s2 : lock_sys_t} (h1 : same_core s s1) (h2 : same_core s1 s2) :
    same_core s s2 :=
  ⟨h2.1.trans h1.1, fun g => (h2.2 g).trans (h1.2 g)⟩

theorem same_core_of_eq {s s1 : lock_sys_t} (hn : s1.n_locks = s.n_locks)
    (hl : ∀ g, s1.lock g = s.lock g) : same_core s s1 :=
  ⟨hn, fun g => by rw [hl g]⟩

theorem same_core_reset (s : lock_sys_t) (w : Nat) :
    same_core s (lock_reset_lock_and_trx_wait s w) := by
  refine ⟨lock_reset_n_locks s w, ?_⟩
  intro g
  rw [lock_reset_lock]
  split
  · subst_vars; rfl
  · rfl

theorem same_core_grant (s : lock_sys_t) (g : Nat) : same_core s (lock_grant s g) := by
  refine ⟨lock_grant_n_locks s g, ?_⟩
  intro j
  rw [lock_grant_lock]
  split
  · subst_vars; rfl
  · rfl

theorem same_core_rec_grant_step (E : Env) (s : lock_sys_t) (g : Nat) :
    same_core s (lock_rec_grant_step E s g) := by
  unfold lock_rec_grant_step
  split
  · exact same_core_refl s
  · split
    · exact same_core_grant s g
    · exact same_core_refl s

theorem same_core_foldl_rec_grant (E : Env) (l : List Nat) (s : lock_sys_t) :
    same_core s (l.foldl (lock_rec_grant_step E) s) := by
  induction l generalizing s with
  | nil => exact same_core_refl s
  | cons a l ih =>
    rw [List.foldl_cons]
    exact same_core_trans (same_core_rec_grant_step E s a) (ih _)

theorem same_core_rec_dequeue (E : Env) (s : lock_sys_t) (in_lock : Nat) :
    same_core s (lock_rec_dequeue_from_page E s in_lock) := by
  rw [lock_rec_dequeue_from_page_eq]
  exact same_core_trans
    (same_core_of_eq (lock_rec_dequeue_removed_n_locks s in_lock)
      (lock_rec_dequeue_removed_lock s in_lock))
    (same_core_foldl_rec_grant E _ _)

theorem same_core_table_grant_step (E : Env) (s : lock_sys_t) (g : Nat) :
    same_core s (lock_table_grant_step E s g) := by
  unfold lock_table_grant_step
  split
  · exact same_core_grant s g
  · exact same_core_refl s

theorem same_core_foldl_table_grant (E : Env) (l : List Nat) (s : lock_sys_t) :
    same_core s (l.foldl (lock_table_grant_step E) s) := by
  induction l generalizing s with
  | nil => exact same_core_refl s
  | cons a l ih =>
    rw [List.foldl_cons]
    exact same_core_trans (same_core_table_grant_step E s a) (ih _)

theorem same_core_table_dequeue (E : Env) (s s1 : lock_sys_t) (in_lock : Nat)
    (h : lock_table_dequeue E s in_lock = some s1) :
    same_core s s1 ∧ ∀ k, s1.hash k = s.hash k := by
  unfold lock_table_dequeue at h
  dsimp only at h
  split at h
  · cases h
  · simp only [Option.map_eq_some'] at h
    obtain ⟨s0, h0, rfl⟩ := h
    obtain ⟨a, b, _, hh⟩ := lock_table_remove_low_frame s s0 in_lock h0
    have hr : same_core s s0 := same_core_of_eq a b
    split
    · exact ⟨hr, hh⟩
    · refine ⟨same_core_trans hr (same_core_foldl_table_grant E _ _), ?_⟩
      intro k
      rw [foldl_table_grant_hash, hh]

theorem same_core_trx_table_locks_remove (s s1 : lock_sys_t) (lock : Nat)
    (h : lock_trx_table_locks_remove s lock = some s1) :
    same_core s s1 ∧ ∀ k, s1.hash k = s.hash k := by
  unfold lock_trx_table_locks_remove at h
  simp only [Option.map_eq_some'] at h
  obtain ⟨v, _, rfl⟩ := h
  exact ⟨same_core_of_eq (by simp) (by simp), by simp⟩

theorem same_core_autoinc_last_lock (E : Env) (s s1 : lock_sys_t) (trx : Nat)
    (h : lock_release_autoinc_last_lock E s trx = some s1) :
    same_core s s1 ∧ ∀ k, s1.hash k = s.hash k := by
  unfold lock_release_autoinc_last_lock at h
  split at h
  · cases h
  · cases h
  · rename_i lock _
    simp only [Option.bind_eq_some] at h
    obtain ⟨s0, h0, h1⟩ := h
    obtain ⟨a1, a2⟩ := same_core_table_dequeue E s s0 lock h0
    obtain ⟨b1, b2⟩ := same_core_trx_table_locks_remove s0 s1 lock h1
    exact ⟨same_core_trans a1 b1, fun k => by rw [b2, a2]⟩

theorem same_core_autoinc_locks (E : Env) (fuel : Nat) (s s1 : lock_sys_t) (trx : Nat)
    (h : lock_release_autoinc_locks E fuel s trx = some s1) :
    same_core s s1 ∧ ∀ k, s1.hash k = s.hash k := by
  induction fuel generalizing s with
  | zero =>
    unfold lock_release_autoinc_locks at h
    split at h
    · cases h; exact ⟨same_core_refl _, fun _ => rfl⟩
    · cases h
  | succ n ih =>
    unfold lock_release_autoinc_locks at h
    split at h
    · cases h; exact ⟨same_core_refl _, fun _ => rfl⟩
    · simp only [Option.bind_eq_some] at h
      obtain ⟨s0, h0, h1⟩ := h
      obtain ⟨a1, a2⟩ := same_core_autoinc_last_lock E s s0 trx h0
      obtain ⟨b1, b2⟩ := ih s0 h1
      exact ⟨same_core_trans a1 b1, fun k => by rw [b2, a2]⟩

theorem same_core_cancel (E : Env) (fuel : Nat) (s s1 : lock_sys_t) (lock : Nat)
    (h : lock_cancel_waiting_and_release E fuel s lock = some s1) :
    same_core s s1 ∧ ∀ k, (s1.hash k).Sublist (s.hash k) := by
  unfold lock_cancel_waiting_and_release at h
  simp only [Option.map_eq_some'] at h
  obtain ⟨s2, h2, rfl⟩ := h
  set sa := s.set_trx (s.lock lock).trx { s.trx (s.lock lock).trx with cancel := true }
    with hsa
  have ra : same_core s sa := same_core_of_eq (by simp [hsa]) (by simp [hsa])
  have r2 : same_core sa s2 ∧ ∀ k, (s2.hash k).Sublist (sa.hash k) := by
    by_cases hc : (!(sa.lock lock).is_table) = true
    · rw [if_pos hc] at h2
      cases h2
      refine ⟨same_core_rec_dequeue E sa lock, ?_⟩
      intro k
      rw [lock_rec_dequeue_from_page_eq, foldl_grant_hash, lock_rec_dequeue_removed_hash]
      split
      · exact List.erase_sublist _ _
      · exact List.Sublist.refl _
    · rw [if_neg hc] at h2
      simp only [Option.bind_eq_some] at h2
      obtain ⟨sc, ⟨sb, hb, hc⟩, hd⟩ := h2
      obtain ⟨b1, b2⟩ := same_core_autoinc_locks E fuel sa sb _ hb
      obtain ⟨c1, c2⟩ := same_core_table_dequeue E sb sc lock hc
      obtain ⟨d1, d2⟩ := same_core_trx_table_locks_remove sc s2 lock hd
      refine ⟨same_core_trans b1 (same_core_trans c1 d1), ?_⟩
      intro k
      rw [d2, c2, b2]
  refine ⟨same_core_trans ra (same_core_trans r2.1
    (same_core_trans (same_core_reset s2 lock)
      (same_core_of_eq (by simp [lock_wait_end_n_locks])
        (by intro g; simp [lock_wait_end_lock])))), ?_⟩
  intro k
  simp only [lock_sys_t.hash_set_trx, lock_wait_end_hash, lock_reset_hash]
  have := r2.2 k
  simpa [hsa] using this

theorem same_core_trx_rollback (E : Env) (fuel : Nat) (s s1 : lock_sys_t)
    (c : DeadlockChecker) (h : DeadlockChecker.trx_rollback E fuel s c = some s1) :
    same_core s s1 ∧ ∀ k, (s1.hash k).Sublist (s.hash k) := by
  unfold DeadlockChecker.trx_rollback at h
  dsimp only at h
  split at h
  · cases h
  · obtain ⟨r1, r2⟩ := same_core_cancel E fuel _ s1 _ h
    refine ⟨same_core_trans (same_core_of_eq (by simp) (by simp)) r1, ?_⟩
    intro k
    have := r2 k
    simpa using this

theorem same_core_check_and_resolve_loop (E : Env) (fuel n : Nat) (s : lock_sys_t)
    (lock trx : Nat) (v : Option Nat) (s1 : lock_sys_t)
    (h : DeadlockChecker.check_and_resolve_loop E fuel n s lock trx = some (v, s1)) :
    same_core s s1 ∧ ∀ k, (s1.hash k).Sublist (s.hash k) := by
  induction n generalizing s with
  | zero => simp [DeadlockChecker.check_and_resolve_loop] at h
  | succ n ih =>
    unfold DeadlockChecker.check_and_resolve_loop at h
    dsimp only at h
    split at h
    · cases h
    · rename_i vt c1 sA hsearch
      have hm := search_only_marks E fuel s _ vt c1 sA hsearch
      have base : same_core s sA ∧ ∀ k, (sA.hash k).Sublist (s.hash k) :=
        ⟨same_core_of_eq hm.2.1 (only_marks_lock hm), fun k => by rw [only_marks_hash hm]⟩
      split at h
      · cases h; exact base
      · split at h
        · cases h; exact base
        · split at h
          · split at h
            · cases h
            · rename_i sB hroll
              obtain ⟨r1, r2⟩ := same_core_trx_rollback E fuel sA sB c1 hroll
              obtain ⟨q1, q2⟩ := ih _ h
              refine ⟨same_core_trans base.1 (same_core_trans r1
                (same_core_trans (same_core_of_eq rfl (fun _ => rfl)) q1)), ?_⟩
              intro k
              exact (q2 k).trans ((r2 k).trans (base.2 k))
          · cases h; exact base

theorem same_core_check_and_resolve (E : Env) (fuel : Nat) (s : lock_sys_t)
    (lock trx : Nat) (v : Option Nat) (s1 : lock_sys_t)
    (h : DeadlockChecker.check_and_resolve E fuel s lock trx = some (v, s1)) :
    same_core s s1 ∧ ∀ k, (s1.hash k).Sublist (s.hash k) := by
  unfold DeadlockChecker.check_and_resolve at h
  split at h
  · cases h
    exact ⟨same_core_refl _, fun _ => List.Sublist.refl _⟩
  · split at h
    · cases h
    · rename_i vt sA hl
      obtain ⟨a, b⟩ := same_core_check_and_resolve_loop E fuel fuel s lock trx vt sA hl
      split at h
      · cases h
        exact ⟨same_core_trans a (same_core_of_eq rfl (fun _ => rfl)), b⟩
      · cases h
        exact ⟨a, b⟩

theorem lock_rec_create_lock (s : lock_sys_t) (tm : type_mode_t) (block : buf_block_t)
    (heap_no : Nat) (index : dict_index_t) (trx : Nat) (b : Bool) (j : Nat) :
    (lock_rec_create s tm block heap_no index trx b).2.lock j
      = if j = s.n_locks then new_rec_lock tm block heap_no index trx else s.lock j :=
  (lock_rec_create_general s tm block heap_no index trx b).2.1 j

theorem all_locks_same_core {P : lock_t → Prop} (hP : lock_property P) {s s1 : lock_sys_t}
    (h : same_core s s1) (hi : all_locks P s) : all_locks P s1 := by
  intro g
  rw [← hP.clear_wait, h.2 g, hP.clear_wait]
  exact hi g

theorem all_locks_of_eq {P : lock_t → Prop} {s s1 : lock_sys_t}
    (h : ∀ g, s1.lock g = s.lock g) (hi : all_locks P s) : all_locks P s1 := by
  intro g
  rw [h g]
  exact hi g

theorem all_locks_create {P : lock_t → Prop} (s : lock_sys_t) (tm : type_mode_t)
    (block : buf_block_t) (heap_no : Nat) (index : dict_index_t) (trx : Nat) (b : Bool)
    (hi : all_locks P s) (hn : P (new_rec_lock tm block heap_no index trx)) :
    all_locks P (lock_rec_create s tm block heap_no index trx b).2 := by
  intro g
  rw [lock_rec_create_lock]
  split
  · exact hn
  · exact hi g

theorem all_locks_set_lock {P : lock_t → Prop} (s : lock_sys_t) (g : Nat) (l : lock_t)
    (hi : all_locks P s) (hl : P l) : all_locks P (s.set_lock g l) := by
  intro j
  rw [lock_sys_t.lock_set_lock]
  split
  · exact hl
  · exact hi j

theorem new_rec_lock_idem (tm : type_mode_t) (block : buf_block_t) (heap_no : Nat)
    (index : dict_index_t) (trx : Nat) :
    new_rec_lock (supremum_type_mode tm heap_no) block heap_no index trx
      = new_rec_lock tm block heap_no index trx := by
  unfold new_rec_lock
  rw [supremum_type_mode_idem]

theorem all_locks_add_to_queue {P : lock_t → Prop} (s : lock_sys_t) (tm : type_mode_t)
    (block : buf_block_t) (heap_no : Nat) (index : dict_index_t) (trx : Nat) (b : Bool)
    (hi : all_locks P s) (hn : P (new_rec_lock tm block heap_no index trx))
    (hs : ∀ g, (s.lock g).type_mode = supremum_type_mode tm heap_no →
      (supremum_type_mode tm heap_no).wait = false →
      P (s.lock g) → P (lock_rec_set_nth_bit (s.lock g) heap_no)) :
    all_locks P (lock_rec_add_to_queue s tm block heap_no index trx b) := by
  rcases lock_rec_add_to_queue_cases s tm block heap_no index trx b with
    ⟨g, _, _, h3, _, h5, h6⟩ | h
  · rw [h6]
    exact all_locks_set_lock s g _ hi (hs g h3 h5 (hi g))
  · rw [h]
    apply all_locks_create s _ block heap_no index trx b hi
    rw [new_rec_lock_idem]
    exact hn

theorem all_locks_enqueue_waiting {P : lock_t → Prop} (hP : lock_property P) (E : Env)
    (fuel : Nat) (s : lock_sys_t) (tm : type_mode_t) (block : buf_block_t) (heap_no : Nat)
    (index : dict_index_t) (thr : Nat) (err : dberr_t) (s1 : lock_sys_t)
    (hi : all_locks P s)
    (hn : P (new_rec_lock { tm with wait := true } block heap_no index thr))
    (h : lock_rec_enqueue_waiting E fuel s tm block heap_no index thr = some (err, s1)) :
    all_locks P s1 := by
  unfold lock_rec_enqueue_waiting at h
  dsimp only at h
  split at h
  · cases h
    exact all_locks_of_eq (by simp) hi
  · have hc := all_locks_create s { tm with wait := true } block heap_no index thr true hi hn
    split at h
    · cases h
    · rename_i x s2 hr
      cases h
      have h2 := all_locks_same_core hP (same_core_check_and_resolve E fuel _ _ _ _ _ hr).1 hc
      have h3 : all_locks P (lock_reset_lock_and_trx_wait s2
          (lock_rec_create s { tm with wait := true } block heap_no index thr true).1) :=
        all_locks_same_core hP (same_core_reset _ _) h2
      exact all_locks_set_lock _ _ _ h3 (hP.reset _ _ (h3 _))
    · rename_i s2 hr
      have h2 := all_locks_same_core hP (same_core_check_and_resolve E fuel _ _ _ _ _ hr).1 hc
      split at h
      · cases h; exact h2
      · cases h
        exact all_locks_of_eq (by simp) h2

theorem all_locks_lock_rec_lock {P : lock_t → Prop} (hP : lock_property P) (E : Env)
    (fuel : Nat) (s : lock_sys_t) (impl : Bool) (mode : type_mode_t) (block : buf_block_t)
    (heap_no : Nat) (index : dict_index_t) (thr : Nat) (err : dberr_t) (s1 : lock_sys_t)
    (hi : all_locks P s)
    (hn : P (new_rec_lock mode block heap_no index thr))
    (hw : P (new_rec_lock { mode with wait := true } block heap_no index thr))
    (hs : ∀ g, (s.lock g).type_mode = supremum_type_mode mode heap_no →
      (supremum_type_mode mode heap_no).wait = false →
      P (s.lock g) → P (lock_rec_set_nth_bit (s.lock g) heap_no))
    (hf : ∀ g, (s.lock g).type_mode = mode →
      P (s.lock g) → P (lock_rec_set_nth_bit (s.lock g) heap_no))
    (h : lock_rec_lock E fuel s impl mode block heap_no index thr = some (err, s1)) :
    all_locks P s1 := by
  unfold lock_rec_lock at h
  dsimp only at h
  split at h
  · cases h; exact hi
  · split at h
    · rename_i lock _
      split at h
      · split at h
        · split at h
          · exact all_locks_enqueue_waiting hP E fuel s mode block heap_no index thr err s1
              hi hw h
          · split at h
            · cases h
              exact all_locks_add_to_queue s mode block heap_no index thr true hi hn hs
            · cases h; exact hi
        · cases h; exact hi
      · rename_i hc
        simp only [Bool.or_eq_true, decide_eq_true_eq, not_or, not_not] at hc
        split at h
        · split at h
          · cases h
            exact all_locks_set_lock s lock _ hi (hf lock hc.1.2 (hi lock))
          · cases h; exact hi
        · cases h; exact hi
    · split at h
      · cases h
        exact all_locks_create s mode block heap_no index thr false hi hn
      · cases h; exact hi
theorem get_nth_bit_set_cases (l : lock_t) (hn i : Nat)
    (h : lock_rec_get_nth_bit (lock_rec_set_nth_bit l hn) i = true) :
    i = hn ∨ lock_rec_get_nth_bit l i = true := by
  by_cases e : i = hn
  · exact Or.inl e
  · right
    have e1 : ¬ hn = i := fun x => e x.symm
    unfold lock_rec_get_nth_bit lock_rec_set_nth_bit at h
    simp only [List.getD_eq_getElem?_getD, List.getElem?_set, if_neg e1] at h
    unfold lock_rec_get_nth_bit
    simpa using h

theorem get_nth_bit_reset_le (l : lock_t) (hn i : Nat)
    (h : lock_rec_get_nth_bit (lock_rec_reset_nth_bit l hn) i = true) :
    lock_rec_get_nth_bit l i = true := by
  rw [get_nth_bit_reset_eq] at h
  simp only [Bool.and_eq_true] at h
  exact h.2

theorem new_rec_lock_only_bit (tm : type_mode_t) (block : buf_block_t) (heap_no : Nat)
    (index : dict_index_t) (trx : Nat) (i : Nat)
    (h : lock_rec_get_nth_bit (new_rec_lock tm block heap_no index trx) i = true) :
    i = heap_no :=
  get_nth_bit_fresh_only _ _ _ h

theorem supremum_plain_property : lock_property supremum_plain where
  clear_wait := fun _ => Iff.rfl
  reset := fun l i h hb => h (get_nth_bit_reset_le l i _ hb)

theorem supremum_plain_new (tm : type_mode_t) (block : buf_block_t) (heap_no : Nat)
    (index : dict_index_t) (trx : Nat) :
    supremum_plain (new_rec_lock tm block heap_no index trx) := by
  intro hb
  have e := new_rec_lock_only_bit tm block heap_no index trx _ hb
  show (supremum_type_mode tm heap_no).gap = false
    ∧ (supremum_type_mode tm heap_no).rec_not_gap = false
  unfold supremum_type_mode
  rw [if_pos e.symm]
  exact ⟨rfl, rfl⟩

theorem supremum_plain_set (l : lock_t) (heap_no : Nat)
    (hm : heap_no = PAGE_HEAP_NO_SUPREMUM →
      l.type_mode.gap = false ∧ l.type_mode.rec_not_gap = false)
    (h : supremum_plain l) : supremum_plain (lock_rec_set_nth_bit l heap_no) := by
  intro hb
  rcases get_nth_bit_set_cases l heap_no _ hb with e | e
  · exact hm e.symm
  · exact h e

theorem supremum_plain_step (E : Env) (s s1 : lock_sys_t)
    (h : rec_lock_op E supremum_request s s1) (hi : all_locks supremum_plain s) :
    all_locks supremum_plain s1 := by
  have hsup : ∀ (tm : type_mode_t) (heap_no : Nat), heap_no = PAGE_HEAP_NO_SUPREMUM →
      (supremum_type_mode tm heap_no).gap = false
        ∧ (supremum_type_mode tm heap_no).rec_not_gap = false := by
    intro tm heap_no e
    unfold supremum_type_mode
    rw [if_pos e]
    exact ⟨rfl, rfl⟩
  cases h with
  | lock_rec_lock fuel _ impl mode block heap_no index thr err _ hok hr =>
    refine all_locks_lock_rec_lock supremum_plain_property E fuel s impl mode block heap_no
      index thr err s1 hi (supremum_plain_new _ _ _ _ _) (supremum_plain_new _ _ _ _ _)
      ?_ ?_ hr
    · intro g hg _ hp
      exact supremum_plain_set _ _ (fun e => by rw [hg]; exact hsup mode heap_no e) hp
    · intro g hg hp
      exact supremum_plain_set _ _ (fun e => by rw [hg]; exact hok e) hp
  | lock_rec_add_to_queue _ tm block heap_no index trx b =>
    refine all_locks_add_to_queue s tm block heap_no index trx b hi
      (supremum_plain_new _ _ _ _ _) ?_
    intro g hg _ hp
    exact supremum_plain_set _ _ (fun e => by rw [hg]; exact hsup tm heap_no e) hp
  | lock_rec_create_low _ tm page_id n_heap heap_no index trx b =>
    exact all_locks_create s tm { page_id := page_id, n_heap := n_heap } heap_no index trx b
      hi (supremum_plain_new _ _ _ _ _)

/-- C24, counterexample: from a lock table without record locks,
transaction 1 (holding `IX` on the table) requests `S` + `GAP` on heap
number 3 of page 7 through `lock_rec_lock`, which creates lock 2, and then
`S` + `GAP` on the supremum of the page: the lock is the only one of the
page, belongs to the transaction and has the requested `type_mode`, so
`lock_rec_lock` sets the supremum bit in it without looking at the flags.
Lock 2 then has the supremum bit and the `GAP` flag. -/
theorem lock_rec_lock_gap_on_supremum :
    all_locks supremum_plain no_rec_lock_state
    ∧ lock_rec_lock env_ordering 0 no_rec_lock_state false { mode := LOCK_S, gap := true }
        { page_id := 7, n_heap := 8 } 3 { table := 0 } 1
      = some (DB_SUCCESS_LOCKED_REC,
          (lock_rec_create no_rec_lock_state { mode := LOCK_S, gap := true }
            { page_id := 7, n_heap := 8 } 3 { table := 0 } 1 false).2)
    ∧ (lock_rec_lock env_ordering 0
        (lock_rec_create no_rec_lock_state { mode := LOCK_S, gap := true }
          { page_id := 7, n_heap := 8 } 3 { table := 0 } 1 false).2
        false { mode := LOCK_S, gap := true } { page_id := 7, n_heap := 8 }
        PAGE_HEAP_NO_SUPREMUM { table := 0 } 1).map
        (fun r => (r.1, r.2.rec_hash, (r.2.lock 2).type_mode, (r.2.lock 2).bitmap))
      = some (DB_SUCCESS_LOCKED_REC, [2], { mode := LOCK_S, gap := true },
          [false, true, false, true, false, false, false, false]) := by
  refine ⟨?_, rfl, by decide⟩
  intro g hb
  unfold no_rec_lock_state at hb
  simp only [lock_sys_t.lock] at hb
  split at hb
  · simp [lock_rec_get_nth_bit] at hb
  · exact absurd hb (by decide)

/-- C24, amended: in every state reached from a state in which every lock
with the supremum bit has neither `GAP` nor `REC_NOT_GAP` (such as a lock
table without record locks) through calls of `lock_rec_add_to_queue` and
`lock_rec_create_low` with any arguments and calls of `lock_rec_lock`
whose request has neither `GAP` nor `REC_NOT_GAP` when the record is the
page supremum, every lock whose bitmap has the supremum bit has neither
`GAP` nor `REC_NOT_GAP` in its `type_mode`. -/
theorem supremum_locks_plain (E : Env) (s0 s : lock_sys_t)
    (h0 : all_locks supremum_plain s0)
    (h : Relation.ReflTransGen (rec_lock_op E supremum_request) s0 s) :
    ∀ g, lock_rec_get_nth_bit (s.lock g) PAGE_HEAP_NO_SUPREMUM = true →
      (s.lock g).type_mode.gap = false ∧ (s.lock g).type_mode.rec_not_gap = false := by
  induction h with
  | refl => exact h0
  | tail _ hstep ih => exact supremum_plain_step E _ _ hstep ih
theorem supremum_locks_plain_witness :
    lock_rec_get_nth_bit
        ((lock_rec_add_to_queue
          (lock_rec_create no_rec_lock_state { mode := LOCK_S, gap := true }
            { page_id := 7, n_heap := 8 } 3 { table := 0 } 1 false).2
          { mode := LOCK_S } { page_id := 7, n_heap := 8 } PAGE_HEAP_NO_SUPREMUM
          { table := 0 } 1 true).lock 3) PAGE_HEAP_NO_SUPREMUM = true
    ∧ all_locks supremum_plain
        (lock_rec_add_to_queue
          (lock_rec_create no_rec_lock_state { mode := LOCK_S, gap := true }
            { page_id := 7, n_heap := 8 } 3 { table := 0 } 1 false).2
          { mode := LOCK_S } { page_id := 7, n_heap := 8 } PAGE_HEAP_NO_SUPREMUM
          { table := 0 } 1 true) :=
  ⟨by decide,
  supremum_locks_plain env_ordering no_rec_lock_state _
    (by
      intro g hb
      unfold no_rec_lock_state at hb
      simp only [lock_sys_t.lock] at hb
      split at hb
      · simp [lock_rec_get_nth_bit] at hb
      · exact absurd hb (by decide))
    (Relation.ReflTransGen.tail
      (Relation.ReflTransGen.single
        (rec_lock_op.lock_rec_lock 0 no_rec_lock_state false { mode := LOCK_S, gap := true }
          { page_id := 7, n_heap := 8 } 3 { table := 0 } 1 DB_SUCCESS_LOCKED_REC _
          (fun e => absurd e (by decide)) rfl))
      (rec_lock_op.lock_rec_lock 0 _ false { mode := LOCK_S }
        { page_id := 7, n_heap := 8 } PAGE_HEAP_NO_SUPREMUM { table := 0 } 1
        DB_SUCCESS_LOCKED_REC _ (fun _ => ⟨rfl, rfl⟩) rfl))⟩

/-- C23, counterexample: transaction 1 holds `S` on the supremum of page
5 and transaction 2, holding `IX` on the table, inserts a record before
the supremum: `lock_rec_insert_check_and_lock` finds the conflict and
enqueues a waiting lock for `X | GAP | INSERT_INTENTION` on the supremum,
for which `lock_rec_create_low` drops `GAP`.  The new lock 4 is in the
queue of the supremum with `INSERT_INTENTION` and without `GAP`. -/
theorem insert_intention_on_supremum_without_gap :
    (lock_rec_insert_check_and_lock env_ordering 10 supremum_state PAGE_HEAP_NO_SUPREMUM
        { page_id := 5, n_heap := 8 } { table := 0 } 2 false).map
      (fun r => (r.err, r.sys.rec_hash, (r.sys.lock 4).type_mode, (r.sys.lock 4).bitmap,
        (r.sys.trx 2).wait_lock))
      = some (DB_LOCK_WAIT, [0, 4],
          { mode := LOCK_X, insert_intention := true, wait := true },
          [false, true, false, false, false, false, false, false], some 4) := by
  decide
theorem all_locks_queue_loop {P : lock_t → Prop}
    (body : lock_sys_t → Nat → Option lock_sys_t) (heap_no : Nat)
    (hb : ∀ s lock s1, all_locks P s →
      lock_rec_get_nth_bit (s.lock lock) heap_no = true →
      body s lock = some s1 → all_locks P s1) (fuel : Nat) :
    ∀ (s : lock_sys_t) (first : Option Nat) (s1 : lock_sys_t), all_locks P s →
      (∀ l, first = some l → lock_rec_get_nth_bit (s.lock l) heap_no = true) →
      lock_rec_queue_loop body heap_no fuel s first = some s1 → all_locks P s1 := by
  induction fuel with
  | zero =>
    intro s first s1 hi _ h
    cases first with
    | none =>
      unfold lock_rec_queue_loop at h
      cases h; exact hi
    | some l =>
      unfold lock_rec_queue_loop at h
      cases h
  | succ n ih =>
    intro s first s1 hi hf h
    cases first with
    | none =>
      unfold lock_rec_queue_loop at h
      cases h; exact hi
    | some l =>
      unfold lock_rec_queue_loop at h
      simp only [Option.bind_eq_some] at h
      obtain ⟨s2, h2, h3⟩ := h
      have i2 := hb s l s2 hi (hf l rfl) h2
      refine ih s2 _ s1 i2 ?_ h3
      intro l1 hl1
      unfold lock_rec_get_next lock_rec_next_locks at hl1
      have hm := List.mem_of_mem_head? hl1
      simp only [List.mem_filter, Bool.and_eq_true] at hm
      exact hm.2.2

theorem lock_rec_get_first_bit (s : lock_sys_t) (k : hash_id) (block : buf_block_t)
    (heap_no l : Nat) (h : lock_rec_get_first s k block heap_no = some l) :
    lock_rec_get_nth_bit (s.lock l) heap_no = true := by
  unfold lock_rec_get_first lock_rec_queue at h
  have hm := List.mem_of_mem_head? h
  simp only [List.mem_filter] at hm
  exact hm.2

theorem intention_gap_property : lock_property intention_gap where
  clear_wait := fun _ => Iff.rfl
  reset := by
    intro l i h hii
    obtain ⟨a, b⟩ := h hii
    refine ⟨a, ?_⟩
    rcases b with b | b
    · exact Or.inl b
    · exact Or.inr (fun j hj => b j (get_nth_bit_reset_le l i j hj))

theorem intention_gap_new (tm : type_mode_t) (block : buf_block_t) (heap_no : Nat)
    (index : dict_index_t) (trx : Nat) (hr : intention_request tm heap_no) :
    intention_gap (new_rec_lock tm block heap_no index trx) := by
  intro hii
  have e1 : (supremum_type_mode tm heap_no).insert_intention = tm.insert_intention := by
    unfold supremum_type_mode; split <;> rfl
  have e2 : (supremum_type_mode tm heap_no).mode = tm.mode := by
    unfold supremum_type_mode; split <;> rfl
  have hii1 : tm.insert_intention = true := e1 ▸ hii
  obtain ⟨a, b⟩ := hr hii1
  refine ⟨e2.trans a, ?_⟩
  by_cases e : heap_no = PAGE_HEAP_NO_SUPREMUM
  · right
    intro i hi
    rw [new_rec_lock_only_bit tm block heap_no index trx i hi]
    exact e
  · left
    show (supremum_type_mode tm heap_no).gap = true
    rw [supremum_type_mode_of_ne _ _ e]
    rcases b with b | b
    · exact b
    · exact absurd b e

theorem intention_gap_set (l : lock_t) (tm : type_mode_t) (heap_no : Nat)
    (hr : intention_request tm heap_no) (ht : l.type_mode = supremum_type_mode tm heap_no)
    (h : intention_gap l) : intention_gap (lock_rec_set_nth_bit l heap_no) := by
  intro hii
  have hii0 : l.type_mode.insert_intention = true := hii
  obtain ⟨a, b⟩ := h hii0
  refine ⟨a, ?_⟩
  by_cases e : heap_no = PAGE_HEAP_NO_SUPREMUM
  · rcases b with b | b
    · exact Or.inl b
    · right
      intro i hi
      rcases get_nth_bit_set_cases l heap_no i hi with c | c
      · rw [c]; exact e
      · exact b i c
  · left
    show l.type_mode.gap = true
    rw [ht, supremum_type_mode_of_ne _ _ e]
    have hii1 : tm.insert_intention = true := by
      rw [ht, supremum_type_mode_of_ne _ _ e] at hii0
      exact hii0
    rcases (hr hii1).2 with c | c
    · exact c
    · exact absurd c e

theorem intention_gap_set_plain (l : lock_t) (heap_no : Nat)
    (hn : l.type_mode.insert_intention = false) :
    intention_gap (lock_rec_set_nth_bit l heap_no) := by
  intro hii
  have hii0 : l.type_mode.insert_intention = true := hii
  rw [hn] at hii0
  cases hii0

theorem intention_request_plain (tm : type_mode_t) (heap_no : Nat)
    (h : tm.insert_intention = false) : intention_request tm heap_no := by
  intro hii
  rw [h] at hii
  cases hii

theorem all_locks_intention_add (s : lock_sys_t) (tm : type_mode_t) (block : buf_block_t)
    (heap_no : Nat) (index : dict_index_t) (trx : Nat) (b : Bool)
    (hr : intention_request tm heap_no) (hi : all_locks intention_gap s) :
    all_locks intention_gap (lock_rec_add_to_queue s tm block heap_no index trx b) :=
  all_locks_add_to_queue s tm block heap_no index trx b hi
    (intention_gap_new tm block heap_no index trx hr)
    (fun g hg _ hp => intention_gap_set _ tm heap_no hr hg hp)

theorem same_core_release_loop (E : Env) (fuel : Nat) :
    ∀ (s s1 : lock_sys_t) (trx : Nat), lock_release_loop E fuel s trx = some s1 →
      same_core s s1 := by
  induction fuel with
  | zero =>
    intro s s1 trx h
    unfold lock_release_loop at h
    split at h
    · cases h; exact same_core_refl _
    · cases h
  | succ n ih =>
    intro s s1 trx h
    unfold lock_release_loop at h
    split at h
    · cases h; exact same_core_refl _
    · split at h
      · exact same_core_trans (same_core_rec_dequeue E s _) (ih _ _ _ h)
      · simp only [Option.bind_eq_some] at h
        obtain ⟨s2, h2, h3⟩ := h
        refine same_core_trans ?_ (ih _ _ _ h3)
        refine same_core_trans ?_ (same_core_table_dequeue E _ s2 _ h2).1
        split
        · exact same_core_of_eq (by simp) (by simp)
        · exact same_core_refl _
theorem all_locks_intention_insert_check (E : Env) (fuel : Nat) (s : lock_sys_t)
    (heap_no : Nat) (block : buf_block_t) (index : dict_index_t) (thr : Nat)
    (inherit_in : Bool) (r : insert_check_result) (hi : all_locks intention_gap s)
    (h : lock_rec_insert_check_and_lock E fuel s heap_no block index thr inherit_in
      = some r) : all_locks intention_gap r.sys := by
  unfold lock_rec_insert_check_and_lock at h
  dsimp only at h
  split at h
  · cases h; exact hi
  · split at h
    · cases h; exact hi
    · simp only [Option.map_eq_some'] at h
      obtain ⟨⟨err, s1⟩, h1, rfl⟩ := h
      dsimp only
      split at h1
      · exact all_locks_enqueue_waiting intention_gap_property E fuel s _ block heap_no
          index thr err s1 hi
          (intention_gap_new _ _ _ _ _ (fun _ => ⟨rfl, Or.inl rfl⟩)) h1
      · cases h1; exact hi

theorem all_locks_intention_inherit_step (heir_block : buf_block_t) (heir_heap_no : Nat)
    (s : lock_sys_t) (lock : Nat) (s1 : lock_sys_t) (hi : all_locks intention_gap s)
    (h : lock_rec_inherit_to_gap_step heir_block heir_heap_no s lock = some s1) :
    all_locks intention_gap s1 := by
  unfold lock_rec_inherit_to_gap_step at h
  dsimp only at h
  split at h
  · cases h
    exact all_locks_intention_add s _ _ _ _ _ _ (intention_request_plain _ _ rfl) hi
  · cases h; exact hi

theorem all_locks_intention_inherit_if_step (block : buf_block_t)
    (heir_heap_no heap_no : Nat) (s : lock_sys_t) (lock : Nat) (s1 : lock_sys_t)
    (hi : all_locks intention_gap s)
    (h : lock_rec_inherit_to_gap_if_gap_lock_step block heir_heap_no heap_no s lock
      = some s1) : all_locks intention_gap s1 := by
  unfold lock_rec_inherit_to_gap_if_gap_lock_step at h
  dsimp only at h
  split at h
  · cases h
    exact all_locks_intention_add s _ _ _ _ _ _ (intention_request_plain _ _ rfl) hi
  · cases h; exact hi

theorem all_locks_reset_step {P : lock_t → Prop} (hP : lock_property P) (heap_no : Nat)
    (s : lock_sys_t) (lock : Nat) (s1 : lock_sys_t) (hi : all_locks P s)
    (h : lock_rec_reset_and_release_wait_step heap_no s lock = some s1) :
    all_locks P s1 := by
  unfold lock_rec_reset_and_release_wait_step at h
  split at h
  · unfold lock_rec_cancel at h
    split at h
    · cases h
    · rename_i i _
      cases h
      have h1 := all_locks_set_lock s lock (lock_rec_reset_nth_bit (s.lock lock) i) hi
        (hP.reset _ _ (hi lock))
      have h2 := all_locks_same_core hP (same_core_reset _ lock) h1
      exact all_locks_of_eq (fun g => lock_wait_end_lock _ _ g) h2
  · cases h
    exact all_locks_set_lock s lock _ hi (hP.reset _ _ (hi lock))

theorem all_locks_reset_low {P : lock_t → Prop} (hP : lock_property P) (fuel : Nat)
    (s : lock_sys_t) (k : hash_id) (block : buf_block_t) (heap_no : Nat) (s1 : lock_sys_t)
    (hi : all_locks P s)
    (h : lock_rec_reset_and_release_wait_low fuel s k block heap_no = some s1) :
    all_locks P s1 :=
  all_locks_queue_loop _ heap_no (fun s lock s1 i _ hb => all_locks_reset_step hP _ s lock s1 i hb)
    fuel s _ s1 hi (fun l hl => lock_rec_get_first_bit s k block heap_no l hl) h

theorem all_locks_reset_and_release_wait {P : lock_t → Prop} (hP : lock_property P)
    (fuel : Nat) (s : lock_sys_t) (block : buf_block_t) (heap_no : Nat) (s1 : lock_sys_t)
    (hi : all_locks P s)
    (h : lock_rec_reset_and_release_wait fuel s block heap_no = some s1) :
    all_locks P s1 := by
  unfold lock_rec_reset_and_release_wait at h
  simp only [Option.bind_eq_some] at h
  obtain ⟨s3, ⟨s2, h2, h3⟩, h4⟩ := h
  exact all_locks_reset_low hP fuel _ _ _ _ _
    (all_locks_reset_low hP fuel _ _ _ _ _ (all_locks_reset_low hP fuel _ _ _ _ _ hi h2) h3) h4

theorem all_locks_intention_move_step (receiver : buf_block_t)
    (receiver_heap_no donator_heap_no : Nat)
    (hd : donator_heap_no = PAGE_HEAP_NO_SUPREMUM →
      receiver_heap_no = PAGE_HEAP_NO_SUPREMUM)
    (s : lock_sys_t) (lock : Nat) (s1 : lock_sys_t) (hi : all_locks intention_gap s)
    (hb : lock_rec_get_nth_bit (s.lock lock) donator_heap_no = true)
    (h : lock_rec_move_step receiver receiver_heap_no donator_heap_no s lock = some s1) :
    all_locks intention_gap s1 := by
  unfold lock_rec_move_step at h
  dsimp only at h
  cases h
  have hreq : intention_request (s.lock lock).type_mode receiver_heap_no := by
    intro hii
    obtain ⟨a, b⟩ := hi lock hii
    refine ⟨a, ?_⟩
    rcases b with b | b
    · exact Or.inl b
    · exact Or.inr (hd (b _ hb))
  have h1 := all_locks_set_lock s lock (lock_rec_reset_nth_bit (s.lock lock) donator_heap_no)
    hi (intention_gap_property.reset _ donator_heap_no (hi lock))
  have e : (s.set_lock lock (lock_rec_reset_nth_bit (s.lock lock) donator_heap_no)).lock
      lock = lock_rec_reset_nth_bit (s.lock lock) donator_heap_no := by
    simp
  simp only [e]
  apply all_locks_intention_add _ _ _ _ _ _ _ hreq
  split
  · apply all_locks_set_lock _ _ _ h1
    exact (intention_gap_property.clear_wait _).mpr
      (intention_gap_property.reset _ donator_heap_no (hi lock))
  · exact h1

theorem wait_ok_claim {s : lock_sys_t} (h : wait_ok s) : wait_lock_claim s := by
  intro t
  have key : ∀ g ∈ (s.trx t).trx_locks, (s.lock g).is_waiting = true →
      (s.trx t).wait_lock = some g := by
    intro g hg hw
    have := h.inv.2.1 g hw
    rw [h.owner t g hg hw] at this
    exact this
  refine ⟨⟨?_, ?_⟩, ?_, ?_⟩
  · intro hne
    cases hw : (s.trx t).wait_lock with
    | none => exact absurd hw hne
    | some w => exact ⟨w, h.listed t w hw, h.inv.2.2 t w hw⟩
  · rintro ⟨g, hg, hw⟩
    rw [key g hg hw]
    simp
  · intro g1 h1 g2 h2 w1 w2
    have a := key g1 h1 w1
    have b := key g2 h2 w2
    rw [a] at b
    exact Option.some.inj b
  · intro w hw
    exact ⟨h.listed t w hw, h.inv.2.2 t w hw⟩

theorem wait_release_waiting_of {s s1 : lock_sys_t} (h : wait_release s s1) (g : Nat)
    (hw : (s1.lock g).is_waiting = true) : (s.lock g).is_waiting = true := by
  rw [← wait_release_waiting h g hw]
  exact hw

theorem wait_release_wait_lock_some {s s1 : lock_sys_t} (h : wait_release s s1) (t w : Nat)
    (hw : (s1.trx t).wait_lock = some w) : (s.trx t).wait_lock = some w := by
  rcases h.2.2 t with a | a
  · rw [← a]; exact hw
  · rw [a.1] at hw; cases hw

theorem wait_ok_of_release_frame {s s1 : lock_sys_t} (h : release_frame s s1)
    (hi : wait_ok s) : wait_ok s1 where
  inv := wait_inv_of_wait_release h.rel hi.inv
  listed := fun t w hw =>
    h.kept t w hw (hi.listed t w (wait_release_wait_lock_some h.rel t w hw))
  owner := fun t g hg hw => by
    rw [wait_release_trx_eq h.rel]
    exact hi.owner t g ((h.lists t).subset hg) (wait_release_waiting_of h.rel g hw)
  alloc := fun t g hg => by
    rw [h.rel.1]
    exact hi.alloc t g ((h.lists t).subset hg)
  autoinc := fun t g hg => by
    rw [h.rel.1]
    rcases h.autoinc t g hg with a | a
    · obtain ⟨b, c⟩ := hi.autoinc t g a
      refine ⟨b, ?_⟩
      rw [wait_release_not_waiting h.rel g c]
      exact c
    · exact a
  one_bit := fun g hw => by
    rw [wait_release_waiting h.rel g hw]
    exact hi.one_bit g (wait_release_waiting_of h.rel g hw)

theorem release_frame_refl (s : lock_sys_t) : release_frame s s where
  rel := wait_release_refl s
  lists := fun _ => List.Sublist.refl _
  kept := fun _ _ _ h => h
  autoinc := fun _ _ h => Or.inl h

theorem release_frame_trans {s s1 s2 : lock_sys_t} (h1 : release_frame s s1)
    (h2 : release_frame s1 s2) : release_frame s s2 where
  rel := wait_release_trans h1.rel h2.rel
  lists := fun t => (h2.lists t).trans (h1.lists t)
  kept := fun t w hw hm =>
    h2.kept t w hw (h1.kept t w (wait_release_wait_lock_some h2.rel t w hw) hm)
  autoinc := fun t g hg => by
    rcases h2.autoinc t g hg with a | a
    · rcases h1.autoinc t g a with b | b
      · exact Or.inl b
      · right
        refine ⟨b.1, ?_⟩
        rw [wait_release_not_waiting h2.rel g b.2]
        exact b.2
    · right
      rw [← h1.rel.1]
      exact a

theorem release_frame_of_eq {s s1 : lock_sys_t} (hn : s1.n_locks = s.n_locks)
    (hl : ∀ g, s1.lock g = s.lock g)
    (ht : ∀ t, (s1.trx t).wait_lock = (s.trx t).wait_lock)
    (hL : ∀ t, (s1.trx t).trx_locks = (s.trx t).trx_locks)
    (ha : ∀ t, (s1.trx t).autoinc_locks = (s.trx t).autoinc_locks) :
    release_frame s s1 where
  rel := wait_release_of_eq hn hl ht
  lists := fun t => by rw [hL t]
  kept := fun t w _ hm => by rw [hL t]; exact hm
  autoinc := fun t g hg => by rw [ha t] at hg; exact Or.inl hg

theorem release_frame_set_trx (s : lock_sys_t) (t : Nat) (x : trx_t)
    (h1 : x.wait_lock = (s.trx t).wait_lock) (h2 : x.trx_locks = (s.trx t).trx_locks)
    (h3 : x.autoinc_locks = (s.trx t).autoinc_locks) : release_frame s (s.set_trx t x) := by
  refine release_frame_of_eq (by simp) (by simp) ?_ ?_ ?_
  all_goals
    intro u
    simp only [lock_sys_t.trx_set_trx]
    split
    · subst_vars; assumption
    · rfl

theorem release_frame_set_tbl (s : lock_sys_t) (t : Nat) (x : dict_table_t) :
    release_frame s (s.set_tbl t x) :=
  release_frame_of_eq (by simp) (by simp) (by simp) (by simp) (by simp)

theorem lock_reset_autoinc_locks (s : lock_sys_t) (g t : Nat) :
    ((lock_reset_lock_and_trx_wait s g).trx t).autoinc_locks = (s.trx t).autoinc_locks := by
  rw [lock_reset_trx]
  split <;> rfl

theorem lock_wait_end_autoinc_locks (s : lock_sys_t) (t u : Nat) :
    ((lock_wait_end s t).trx u).autoinc_locks = (s.trx u).autoinc_locks := by
  simp only [lock_wait_end, lock_sys_t.trx_set_trx]
  split
  · subst_vars; split <;> rfl
  · rfl

theorem release_frame_reset (s : lock_sys_t) (w : Nat)
    (h : ∀ w1, (s.trx (s.lock w).trx).wait_lock = some w1 → w1 = w) :
    release_frame s (lock_reset_lock_and_trx_wait s w) where
  rel := wait_release_reset s w h
  lists := fun t => by rw [lock_reset_trx_locks]
  kept := fun t v _ hm => by rw [lock_reset_trx_locks]; exact hm
  autoinc := fun t g hg => by rw [lock_reset_autoinc_locks] at hg; exact Or.inl hg

theorem release_frame_wait_end (s : lock_sys_t) (t : Nat) :
    release_frame s (lock_wait_end s t) :=
  release_frame_of_eq (lock_wait_end_n_locks s t) (lock_wait_end_lock s t)
    (lock_wait_end_wait_lock s t) (lock_wait_end_trx_locks s t)
    (lock_wait_end_autoinc_locks s t)
theorem lock_grant_autoinc_mem (s : lock_sys_t) (g t x : Nat)
    (h : some x ∈ ((lock_grant s g).trx t).autoinc_locks) :
    some x ∈ (s.trx t).autoinc_locks ∨ x = g := by
  unfold lock_grant at h
  simp only [] at h
  have e1 : ∀ u, ((lock_reset_lock_and_trx_wait s g).trx u).autoinc_locks
      = (s.trx u).autoinc_locks := lock_reset_autoinc_locks s g
  split at h
  · split at h
    · rw [lock_wait_end_autoinc_locks] at h
      simp only [lock_sys_t.trx_set_trx, lock_sys_t.trx_set_tbl] at h
      split at h
      · simp only [List.mem_append, List.mem_singleton, Option.some.injEq] at h
        rcases h with a | a
        · left; subst_vars; rw [← e1]; exact a
        · right; exact a
      · left; rw [← e1]; exact h
    · simp only [lock_sys_t.trx_set_trx, lock_sys_t.trx_set_tbl] at h
      split at h
      · simp only [List.mem_append, List.mem_singleton, Option.some.injEq] at h
        rcases h with a | a
        · left; subst_vars; rw [← e1]; exact a
        · right; exact a
      · left; rw [← e1]; exact h
  · split at h
    · rw [lock_wait_end_autoinc_locks, e1] at h
      exact Or.inl h
    · rw [e1] at h
      exact Or.inl h

theorem release_frame_grant (s : lock_sys_t) (g : Nat)
    (h : ∀ w1, (s.trx (s.lock g).trx).wait_lock = some w1 → w1 = g)
    (hg : g < s.n_locks) : release_frame s (lock_grant s g) where
  rel := wait_release_grant s g h
  lists := fun t => by rw [lock_grant_trx_locks]
  kept := fun t v _ hm => by rw [lock_grant_trx_locks]; exact hm
  autoinc := fun t x hx => by
    rcases lock_grant_autoinc_mem s g t x hx with a | a
    · exact Or.inl a
    · right
      subst a
      refine ⟨hg, ?_⟩
      rw [lock_grant_lock, if_pos rfl]
      rfl

theorem release_frame_rec_grant_step (E : Env) (s : lock_sys_t) (g : Nat)
    (hi : wait_inv s) : release_frame s (lock_rec_grant_step E s g) := by
  unfold lock_rec_grant_step
  split
  · exact release_frame_refl s
  · rename_i hw
    have hw1 : (s.lock g).is_waiting = true := by simpa using hw
    split
    · exact release_frame_grant s g (wait_inv_owner_wait_lock hi g hw1)
        (hi.1 _ g (hi.2.1 g hw1)).1
    · exact release_frame_refl s

theorem release_frame_foldl_rec_grant (E : Env) (l : List Nat) (s : lock_sys_t)
    (hi : wait_inv s) : release_frame s (l.foldl (lock_rec_grant_step E) s) := by
  induction l generalizing s with
  | nil => exact release_frame_refl s
  | cons a l ih =>
    rw [List.foldl_cons]
    have h1 := release_frame_rec_grant_step E s a hi
    exact release_frame_trans h1 (ih _ (wait_inv_of_wait_release h1.rel hi))

theorem release_frame_table_grant_step (E : Env) (s : lock_sys_t) (g : Nat)
    (hi : wait_inv s) : release_frame s (lock_table_grant_step E s g) := by
  unfold lock_table_grant_step
  split
  · rename_i hw
    simp only [Bool.and_eq_true] at hw
    exact release_frame_grant s g (wait_inv_owner_wait_lock hi g hw.1)
      (hi.1 _ g (hi.2.1 g hw.1)).1
  · exact release_frame_refl s

theorem release_frame_foldl_table_grant (E : Env) (l : List Nat) (s : lock_sys_t)
    (hi : wait_inv s) : release_frame s (l.foldl (lock_table_grant_step E) s) := by
  induction l generalizing s with
  | nil => exact release_frame_refl s
  | cons a l ih =>
    rw [List.foldl_cons]
    have h1 := release_frame_table_grant_step E s a hi
    exact release_frame_trans h1 (ih _ (wait_inv_of_wait_release h1.rel hi))

theorem lock_rec_dequeue_removed_trx_locks_all (s : lock_sys_t) (in_lock t : Nat) :
    ((lock_rec_dequeue_removed s in_lock).trx t).trx_locks
      = if t = (s.lock in_lock).trx then (s.trx t).trx_locks.erase in_lock
        else (s.trx t).trx_locks := by
  simp only [lock_rec_dequeue_removed, lock_sys_t.trx_set_trx, lock_sys_t.trx_set_hash,
    lock_sys_t.trx_set_tbl]
  split
  · subst_vars; rfl
  · rfl

theorem lock_rec_dequeue_removed_autoinc_locks (s : lock_sys_t) (in_lock t : Nat) :
    ((lock_rec_dequeue_removed s in_lock).trx t).autoinc_locks = (s.trx t).autoinc_locks := by
  simp only [lock_rec_dequeue_removed, lock_sys_t.trx_set_trx, lock_sys_t.trx_set_hash,
    lock_sys_t.trx_set_tbl]
  split
  · subst_vars; rfl
  · rfl

/-- The frame of a removal of the lock `L` from the lock list of its
transaction, when `L` is not the `wait_lock` of the transaction. -/
theorem release_frame_of_erase {s s1 : lock_sys_t} (L : Nat)
    (hn : s1.n_locks = s.n_locks) (hl : ∀ g, s1.lock g = s.lock g)
    (ht : ∀ t, (s1.trx t).wait_lock = (s.trx t).wait_lock)
    (hL : ∀ t, (s1.trx t).trx_locks
      = if t = (s.lock L).trx then (s.trx t).trx_locks.erase L else (s.trx t).trx_locks)
    (ha : ∀ t x, some x ∈ (s1.trx t).autoinc_locks → some x ∈ (s.trx t).autoinc_locks)
    (hw : (s.trx (s.lock L).trx).wait_lock ≠ some L) : release_frame s s1 where
  rel := wait_release_of_eq hn hl ht
  lists := fun t => by
    rw [hL t]
    split
    · exact List.erase_sublist _ _
    · exact List.Sublist.refl _
  kept := fun t w hw1 hm => by
    rw [hL t]
    split
    · rename_i e
      apply (List.mem_erase_of_ne _).mpr hm
      intro e1
      subst e1
      rw [ht t, e] at hw1
      exact hw hw1
    · exact hm
  autoinc := fun t x hx => Or.inl (ha t x hx)

theorem release_frame_rec_dequeue (E : Env) (s : lock_sys_t) (in_lock : Nat)
    (hi : wait_inv s) (hw : (s.trx (s.lock in_lock).trx).wait_lock ≠ some in_lock) :
    release_frame s (lock_rec_dequeue_from_page E s in_lock) := by
  rw [lock_rec_dequeue_from_page_eq]
  have h1 : release_frame s (lock_rec_dequeue_removed s in_lock) :=
    release_frame_of_erase in_lock (lock_rec_dequeue_removed_n_locks s in_lock)
      (lock_rec_dequeue_removed_lock s in_lock)
      (lock_rec_dequeue_removed_wait_lock s in_lock)
      (lock_rec_dequeue_removed_trx_locks_all s in_lock)
      (fun t x hx => by rw [lock_rec_dequeue_removed_autoinc_locks] at hx; exact hx) hw
  exact release_frame_trans h1
    (release_frame_foldl_rec_grant E _ _ (wait_inv_of_wait_release h1.rel hi))
theorem vector_null_first_mem (L : Nat) (v r : List (Option Nat)) (x : Nat)
    (h : vector_null_first L v = some r) (hx : some x ∈ r) : some x ∈ v := by
  induction v generalizing r with
  | nil => simp [vector_null_first] at h
  | cons a v ih =>
    unfold vector_null_first at h
    split at h
    · cases h
      simp only [List.mem_cons] at hx ⊢
      rcases hx with b | b
      · cases b
      · exact Or.inr b
    · simp only [Option.map_eq_some'] at h
      obtain ⟨r1, h1, rfl⟩ := h
      simp only [List.mem_cons] at hx ⊢
      rcases hx with b | b
      · exact Or.inl b
      · exact Or.inr (ih r1 h1 b)

theorem lock_table_pop_autoinc_locks_mem (v : List (Option Nat)) (x : Option Nat)
    (hx : x ∈ lock_table_pop_autoinc_locks v) : x ∈ v := by
  unfold lock_table_pop_autoinc_locks at hx
  rw [List.mem_reverse] at hx
  have h1 := (List.dropWhile_sublist _).subset hx
  rw [List.mem_reverse] at h1
  exact (List.dropLast_sublist v).subset h1

theorem lock_table_remove_autoinc_lock_mem (L : Nat) (v r : List (Option Nat)) (x : Nat)
    (h : lock_table_remove_autoinc_lock L v = some r) (hx : some x ∈ r) : some x ∈ v := by
  unfold lock_table_remove_autoinc_lock at h
  split at h
  · cases h
  · rename_i a rest hrev
    split at h
    · cases h
      exact lock_table_pop_autoinc_locks_mem v _ hx
    · split at h
      · cases h
      · simp only [Option.map_eq_some'] at h
        obtain ⟨r1, h1, rfl⟩ := h
        rw [List.mem_reverse] at hx
        have hv : some x ∈ v.reverse := by
          rw [hrev]
          simp only [List.mem_cons] at hx ⊢
          rcases hx with b | b
          · exact Or.inl b
          · exact Or.inr (vector_null_first_mem L rest r1 x h1 b)
        exact List.mem_reverse.mp hv

theorem lock_table_remove_low_autoinc_mem (s s1 : lock_sys_t) (lock : Nat)
    (h : lock_table_remove_low s lock = some s1) (t x : Nat)
    (hx : some x ∈ (s1.trx t).autoinc_locks) : some x ∈ (s.trx t).autoinc_locks := by
  unfold lock_table_remove_low at h
  simp only [Option.map_eq_some'] at h
  obtain ⟨s0, h0, rfl⟩ := h
  have key : ∀ t x, some x ∈ (s0.trx t).autoinc_locks → some x ∈ (s.trx t).autoinc_locks := by
    intro t x hx
    split at h0
    · simp only [Option.map_eq_some'] at h0
      obtain ⟨sa, ha, rfl⟩ := h0
      simp only [lock_sys_t.trx_set_tbl] at hx
      split at ha
      · simp only [Option.map_eq_some'] at ha
        obtain ⟨v, hv, rfl⟩ := ha
        simp only [lock_sys_t.trx_set_tbl, lock_sys_t.trx_set_trx] at hx hv
        split at hx
        · subst_vars
          exact lock_table_remove_autoinc_lock_mem _ _ _ _ hv hx
        · exact hx
      · cases ha; exact hx
    · cases h0; simpa using hx
    · cases h0; simpa using hx
    · cases h0; exact hx
  simp only [lock_sys_t.trx_set_tbl, lock_sys_t.trx_set_trx] at hx
  split at hx
  · subst_vars; exact key _ _ hx
  · exact key _ _ hx

theorem release_frame_table_remove_low (s s1 : lock_sys_t) (lock : Nat)
    (hw : (s.trx (s.lock lock).trx).wait_lock ≠ some lock)
    (h : lock_table_remove_low s lock = some s1) : release_frame s s1 := by
  obtain ⟨a, b, c, _⟩ := lock_table_remove_low_frame s s1 lock h
  exact release_frame_of_erase lock a b c (lock_table_remove_low_lists s s1 lock h).2
    (lock_table_remove_low_autoinc_mem s s1 lock h) hw

theorem release_frame_table_dequeue (E : Env) (s s1 : lock_sys_t) (in_lock : Nat)
    (hi : wait_inv s) (hw : (s.trx (s.lock in_lock).trx).wait_lock ≠ some in_lock)
    (h : lock_table_dequeue E s in_lock = some s1) : release_frame s s1 := by
  unfold lock_table_dequeue at h
  dsimp only at h
  split at h
  · cases h
  · simp only [Option.map_eq_some'] at h
    obtain ⟨s0, h0, rfl⟩ := h
    have hr := release_frame_table_remove_low s s0 in_lock hw h0
    split
    · exact hr
    · exact release_frame_trans hr
        (release_frame_foldl_table_grant E _ _ (wait_inv_of_wait_release hr.rel hi))

theorem release_frame_trx_table_locks_remove (s s1 : lock_sys_t) (lock : Nat)
    (h : lock_trx_table_locks_remove s lock = some s1) : release_frame s s1 := by
  unfold lock_trx_table_locks_remove at h
  simp only [Option.map_eq_some'] at h
  obtain ⟨v, _, rfl⟩ := h
  exact release_frame_set_trx s _ _ rfl rfl rfl

theorem release_frame_autoinc_last_lock (E : Env) (s s1 : lock_sys_t) (trx : Nat)
    (hi : wait_ok s) (h : lock_release_autoinc_last_lock E s trx = some s1) :
    release_frame s s1 := by
  unfold lock_release_autoinc_last_lock at h
  split at h
  · cases h
  · cases h
  · rename_i lock hl
    simp only [Option.bind_eq_some] at h
    obtain ⟨s0, h0, h1⟩ := h
    have hm : some lock ∈ (s.trx trx).autoinc_locks := List.mem_of_mem_getLast? hl
    have hnw := (hi.autoinc trx lock hm).2
    have hw : (s.trx (s.lock lock).trx).wait_lock ≠ some lock := by
      intro e
      have := hi.inv.2.2 _ _ e
      rw [hnw] at this
      cases this
    exact release_frame_trans (release_frame_table_dequeue E s s0 lock hi.inv hw h0)
      (release_frame_trx_table_locks_remove s0 s1 lock h1)

theorem release_frame_autoinc_locks (E : Env) (fuel : Nat) (s s1 : lock_sys_t) (trx : Nat)
    (hi : wait_ok s) (h : lock_release_autoinc_locks E fuel s trx = some s1) :
    release_frame s s1 := by
  induction fuel generalizing s with
  | zero =>
    unfold lock_release_autoinc_locks at h
    split at h
    · cases h; exact release_frame_refl _
    · cases h
  | succ n ih =>
    unfold lock_release_autoinc_locks at h
    split at h
    · cases h; exact release_frame_refl _
    · simp only [Option.bind_eq_some] at h
      obtain ⟨s0, h0, h1⟩ := h
      have a := release_frame_autoinc_last_lock E s s0 trx hi h0
      exact release_frame_trans a (ih s0 (wait_ok_of_release_frame a hi) h1)
theorem dequeue_frame_of_release {s s1 : lock_sys_t} (T : Nat) (h : release_frame s s1) :
    dequeue_frame T s s1 :=
  ⟨h.rel, h.lists, fun t w _ => h.kept t w, h.autoinc⟩

theorem release_frame_of_dequeue {s s1 : lock_sys_t} {T : Nat} (h : dequeue_frame T s s1)
    (hn : (s1.trx T).wait_lock = none) : release_frame s s1 where
  rel := h.rel
  lists := h.lists
  kept := fun t w hw hm => by
    by_cases e : t = T
    · subst e
      rw [hn] at hw
      cases hw
    · exact h.kept t w e hw hm
  autoinc := h.autoinc

theorem dequeue_frame_trans {s s1 s2 : lock_sys_t} {T : Nat} (h1 : dequeue_frame T s s1)
    (h2 : dequeue_frame T s1 s2) : dequeue_frame T s s2 where
  rel := wait_release_trans h1.rel h2.rel
  lists := fun t => (h2.lists t).trans (h1.lists t)
  kept := fun t w e hw hm =>
    h2.kept t w e hw (h1.kept t w e (wait_release_wait_lock_some h2.rel t w hw) hm)
  autoinc := fun t g hg => by
    rcases h2.autoinc t g hg with a | a
    · rcases h1.autoinc t g a with b | b
      · exact Or.inl b
      · right
        refine ⟨b.1, ?_⟩
        rw [wait_release_not_waiting h2.rel g b.2]
        exact b.2
    · right
      rw [← h1.rel.1]
      exact a

theorem dequeue_frame_of_erase {s s1 : lock_sys_t} (L : Nat)
    (hn : s1.n_locks = s.n_locks) (hl : ∀ g, s1.lock g = s.lock g)
    (ht : ∀ t, (s1.trx t).wait_lock = (s.trx t).wait_lock)
    (hL : ∀ t, (s1.trx t).trx_locks
      = if t = (s.lock L).trx then (s.trx t).trx_locks.erase L else (s.trx t).trx_locks)
    (ha : ∀ t x, some x ∈ (s1.trx t).autoinc_locks → some x ∈ (s.trx t).autoinc_locks) :
    dequeue_frame (s.lock L).trx s s1 where
  rel := wait_release_of_eq hn hl ht
  lists := fun t => by
    rw [hL t]
    split
    · exact List.erase_sublist _ _
    · exact List.Sublist.refl _
  kept := fun t w e _ hm => by
    rw [hL t, if_neg e]
    exact hm
  autoinc := fun t x hx => Or.inl (ha t x hx)

theorem dequeue_frame_rec_dequeue (E : Env) (s : lock_sys_t) (in_lock : Nat)
    (hi : wait_inv s) :
    dequeue_frame (s.lock in_lock).trx s (lock_rec_dequeue_from_page E s in_lock) := by
  rw [lock_rec_dequeue_from_page_eq]
  have h1 : dequeue_frame (s.lock in_lock).trx s (lock_rec_dequeue_removed s in_lock) :=
    dequeue_frame_of_erase in_lock (lock_rec_dequeue_removed_n_locks s in_lock)
      (lock_rec_dequeue_removed_lock s in_lock)
      (lock_rec_dequeue_removed_wait_lock s in_lock)
      (lock_rec_dequeue_removed_trx_locks_all s in_lock)
      (fun t x hx => by rw [lock_rec_dequeue_removed_autoinc_locks] at hx; exact hx)
  exact dequeue_frame_trans h1 (dequeue_frame_of_release _
    (release_frame_foldl_rec_grant E _ _ (wait_inv_of_wait_release h1.rel hi)))

theorem dequeue_frame_table_dequeue (E : Env) (s s1 : lock_sys_t) (in_lock : Nat)
    (hi : wait_inv s) (h : lock_table_dequeue E s in_lock = some s1) :
    dequeue_frame (s.lock in_lock).trx s s1 := by
  unfold lock_table_dequeue at h
  dsimp only at h
  split at h
  · cases h
  · simp only [Option.map_eq_some'] at h
    obtain ⟨s0, h0, rfl⟩ := h
    obtain ⟨a, b, c, _⟩ := lock_table_remove_low_frame s s0 in_lock h0
    have hr : dequeue_frame (s.lock in_lock).trx s s0 :=
      dequeue_frame_of_erase in_lock a b c (lock_table_remove_low_lists s s0 in_lock h0).2
        (lock_table_remove_low_autoinc_mem s s0 in_lock h0)
    split
    · exact hr
    · exact dequeue_frame_trans hr (dequeue_frame_of_release _
        (release_frame_foldl_table_grant E _ _ (wait_inv_of_wait_release hr.rel hi)))

theorem release_frame_cancel (E : Env) (fuel : Nat) (s s1 : lock_sys_t) (lock : Nat)
    (hi : wait_ok s) (hw : (s.trx (s.lock lock).trx).wait_lock = some lock)
    (h : lock_cancel_waiting_and_release E fuel s lock = some s1) :
    release_frame s s1 := by
  unfold lock_cancel_waiting_and_release at h
  simp only [Option.map_eq_some'] at h
  obtain ⟨s2, h2, rfl⟩ := h
  set T := (s.lock lock).trx with hT
  set sa := s.set_trx T { s.trx T with cancel := true } with hsa
  have ra : release_frame s sa := release_frame_set_trx s _ _ rfl rfl rfl
  have ia := wait_ok_of_release_frame ra hi
  have hla : (sa.lock lock).trx = T := by simp [hsa, hT]
  have r2 : dequeue_frame T sa s2 := by
    by_cases hc : (!(sa.lock lock).is_table) = true
    · rw [if_pos hc] at h2
      cases h2
      have := dequeue_frame_rec_dequeue E sa lock ia.inv
      rw [hla] at this
      exact this
    · rw [if_neg hc] at h2
      simp only [Option.bind_eq_some] at h2
      obtain ⟨sc, ⟨sb, hb, hc⟩, hd⟩ := h2
      have b1 := release_frame_autoinc_locks E fuel sa sb _ ia hb
      have ib := wait_ok_of_release_frame b1 ia
      have c1 := dequeue_frame_table_dequeue E sb sc lock ib.inv hc
      rw [wait_release_trx_eq b1.rel, hla] at c1
      have d1 := release_frame_trx_table_locks_remove sc s2 lock hd
      exact dequeue_frame_trans (dequeue_frame_of_release T b1)
        (dequeue_frame_trans c1 (dequeue_frame_of_release T d1))
  have r02 := dequeue_frame_trans (dequeue_frame_of_release T ra) r2
  have hown : (s2.lock lock).trx = T := wait_release_trx_eq r02.rel lock
  have r3 : release_frame s2 (lock_reset_lock_and_trx_wait s2 lock) := by
    apply release_frame_reset
    intro w1 hw1
    rw [hown] at hw1
    have := wait_release_wait_lock_some r02.rel T w1 hw1
    rw [hw] at this
    exact (Option.some.inj this).symm
  have r4 := release_frame_wait_end (lock_reset_lock_and_trx_wait s2 lock) T
  have r5 := release_frame_set_trx (lock_wait_end (lock_reset_lock_and_trx_wait s2 lock) T) T
      { (lock_wait_end (lock_reset_lock_and_trx_wait s2 lock) T).trx T with cancel := false }
      rfl rfl rfl
  have rall := dequeue_frame_trans r02
    (dequeue_frame_of_release T (release_frame_trans r3 (release_frame_trans r4 r5)))
  refine release_frame_of_dequeue rall ?_
  simp only [lock_sys_t.trx_set_trx, if_pos]
  rw [lock_wait_end_wait_lock]
  have := lock_reset_wait_lock s2 lock
  rw [hown] at this
  exact this
theorem release_frame_of_only_marks {s s1 : lock_sys_t} (h : only_marks s s1) :
    release_frame s s1 := by
  refine release_frame_of_eq h.2.1 (only_marks_lock h) (only_marks_wait_lock h) ?_ ?_
  · intro t
    obtain ⟨m, hm⟩ := h.2.2.2.2.2.2.2.2 t
    rw [hm]
  · intro t
    obtain ⟨m, hm⟩ := h.2.2.2.2.2.2.2.2 t
    rw [hm]

theorem release_frame_trx_rollback (E : Env) (fuel : Nat) (s s1 : lock_sys_t)
    (c : DeadlockChecker) (hi : wait_ok s)
    (h : DeadlockChecker.trx_rollback E fuel s c = some s1) : release_frame s s1 := by
  unfold DeadlockChecker.trx_rollback at h
  dsimp only at h
  set tv := (s.lock c.m_wait_lock).trx with htv
  set sa := s.set_trx tv { s.trx tv with was_chosen_as_deadlock_victim := true } with hsa
  have ra : release_frame s sa := release_frame_set_trx s _ _ rfl rfl rfl
  have ia := wait_ok_of_release_frame ra hi
  split at h
  · cases h
  · rename_i w hw
    have hown := (ia.inv.1 tv w hw).2
    exact release_frame_trans ra
      (release_frame_cancel E fuel sa s1 w ia (by rw [hown]; exact hw) h)

theorem release_frame_check_and_resolve_loop (E : Env) (fuel n : Nat) (s : lock_sys_t)
    (lock trx : Nat) (v : Option Nat) (s1 : lock_sys_t) (hi : wait_ok s)
    (h : DeadlockChecker.check_and_resolve_loop E fuel n s lock trx = some (v, s1)) :
    release_frame s s1 := by
  induction n generalizing s with
  | zero => simp [DeadlockChecker.check_and_resolve_loop] at h
  | succ n ih =>
    unfold DeadlockChecker.check_and_resolve_loop at h
    dsimp only at h
    split at h
    · cases h
    · rename_i vt c1 sA hsearch
      have hm := search_only_marks E fuel s _ vt c1 sA hsearch
      have base := release_frame_of_only_marks hm
      split at h
      · cases h; exact base
      · split at h
        · cases h; exact base
        · split at h
          · split at h
            · cases h
            · rename_i sB hroll
              have iA := wait_ok_of_release_frame base hi
              have r1 := release_frame_trx_rollback E fuel sA sB c1 iA hroll
              have rB : release_frame sB { sB with lock_deadlock_found := true } :=
                release_frame_of_eq rfl (fun _ => rfl) (fun _ => rfl) (fun _ => rfl)
                  (fun _ => rfl)
              have rAB := release_frame_trans base (release_frame_trans r1 rB)
              exact release_frame_trans rAB (ih _ (wait_ok_of_release_frame rAB hi) h)
          · cases h; exact base

theorem release_frame_check_and_resolve (E : Env) (fuel : Nat) (s : lock_sys_t)
    (lock trx : Nat) (v : Option Nat) (s1 : lock_sys_t) (hi : wait_ok s)
    (h : DeadlockChecker.check_and_resolve E fuel s lock trx = some (v, s1)) :
    release_frame s s1 := by
  unfold DeadlockChecker.check_and_resolve at h
  split at h
  · cases h
    exact release_frame_refl _
  · split at h
    · cases h
    · rename_i vt sA hl
      have a := release_frame_check_and_resolve_loop E fuel fuel s lock trx vt sA hi hl
      split at h
      · cases h
        exact release_frame_trans a
          (release_frame_of_eq rfl (fun _ => rfl) (fun _ => rfl) (fun _ => rfl)
            (fun _ => rfl))
      · cases h
        exact a
theorem supremum_type_mode_wait (tm : type_mode_t) (heap_no : Nat) :
    (supremum_type_mode tm heap_no).wait = tm.wait := by
  unfold supremum_type_mode; split <;> rfl

theorem lock_rec_create_trx_general (s : lock_sys_t) (tm0 : type_mode_t)
    (block : buf_block_t) (heap_no : Nat) (index : dict_index_t) (trx : Nat) (b : Bool)
    (t : Nat) :
    (lock_rec_create s tm0 block heap_no index trx b).2.trx t
      = if t = trx then
          { s.trx t with
            wait_lock := if tm0.wait then some s.n_locks else (s.trx t).wait_lock,
            trx_locks := (s.trx t).trx_locks ++ [s.n_locks] }
        else s.trx t := by
  have hw0 := supremum_type_mode_wait tm0 heap_no
  unfold lock_rec_create lock_rec_create_low
  rw [show (if heap_no = PAGE_HEAP_NO_SUPREMUM then
      ({ tm0 with gap := false, rec_not_gap := false } : type_mode_t) else tm0)
      = supremum_type_mode tm0 heap_no from rfl]
  rw [← hw0]
  generalize supremum_type_mode tm0 heap_no = tm
  simp only [lock_sys_t.alloc_lock]
  cases hw : tm.wait <;> by_cases ht : t = trx <;> simp [ht]

theorem new_rec_lock_one_bit (tm : type_mode_t) (block : buf_block_t) (heap_no : Nat)
    (index : dict_index_t) (trx : Nat) (i j : Nat)
    (hi : lock_rec_get_nth_bit (new_rec_lock tm block heap_no index trx) i = true)
    (hj : lock_rec_get_nth_bit (new_rec_lock tm block heap_no index trx) j = true) :
    i = j := by
  rw [new_rec_lock_only_bit _ _ _ _ _ _ hi, new_rec_lock_only_bit _ _ _ _ _ _ hj]

theorem wait_ok_create (s : lock_sys_t) (tm : type_mode_t) (block : buf_block_t)
    (heap_no : Nat) (index : dict_index_t) (trx : Nat) (b : Bool) (hi : wait_ok s)
    (hnw : tm.wait = true → (s.trx trx).wait_lock = none) :
    wait_ok (lock_rec_create s tm block heap_no index trx b).2 := by
  have c2 := (lock_rec_create_general s tm block heap_no index trx b).1
  have c3 := lock_rec_create_lock s tm block heap_no index trx b
  have c5 := lock_rec_create_trx_general s tm block heap_no index trx b
  have hnew : (new_rec_lock tm block heap_no index trx).is_waiting = tm.wait :=
    supremum_type_mode_wait tm heap_no
  have htrx : (new_rec_lock tm block heap_no index trx).trx = trx := rfl
  have hwl : ∀ t w, ((lock_rec_create s tm block heap_no index trx b).2.trx t).wait_lock
      = some w → (t = trx ∧ tm.wait = true ∧ w = s.n_locks)
        ∨ ((s.trx t).wait_lock = some w ∧ (t = trx → tm.wait = false)) := by
    intro t w hw
    rw [c5] at hw
    split at hw
    · rename_i e
      simp only [] at hw
      split at hw
      · rename_i e1
        cases hw
        exact Or.inl ⟨e, e1, rfl⟩
      · rename_i e1
        exact Or.inr ⟨hw, fun _ => by simpa using e1⟩
    · rename_i e
      exact Or.inr ⟨hw, fun e1 => absurd e1 e⟩
  have hlist : ∀ t g, g ∈ ((lock_rec_create s tm block heap_no index trx b).2.trx t).trx_locks
      → g ∈ (s.trx t).trx_locks ∨ (t = trx ∧ g = s.n_locks) := by
    intro t g hg
    rw [c5] at hg
    split at hg
    · rename_i e
      simp only [List.mem_append, List.mem_singleton] at hg
      rcases hg with a | a
      · exact Or.inl a
      · exact Or.inr ⟨e, a⟩
    · exact Or.inl hg
  have hlist1 : ∀ t g, g ∈ (s.trx t).trx_locks →
      g ∈ ((lock_rec_create s tm block heap_no index trx b).2.trx t).trx_locks := by
    intro t g hg
    rw [c5]
    split
    · simp only [List.mem_append]
      exact Or.inl hg
    · exact hg
  have hauto : ∀ t, ((lock_rec_create s tm block heap_no index trx b).2.trx t).autoinc_locks
      = (s.trx t).autoinc_locks := by
    intro t
    rw [c5]
    split <;> rfl
  refine ⟨⟨?_, ?_, ?_⟩, ?_, ?_, ?_, ?_, ?_⟩
  · intro t w hw
    rw [c2, c3]
    rcases hwl t w hw with ⟨a, _, c⟩ | ⟨a, _⟩
    · subst c
      rw [if_pos rfl]
      exact ⟨Nat.lt_succ_self _, by rw [htrx, a]⟩
    · have := hi.inv.1 t w a
      rw [if_neg (Nat.ne_of_lt this.1)]
      exact ⟨Nat.lt_succ_of_lt this.1, this.2⟩
  · intro g hg
    rw [c3] at hg ⊢
    by_cases hgn : g = s.n_locks
    · subst hgn
      rw [if_pos rfl] at hg ⊢
      rw [hnew] at hg
      rw [htrx, c5, if_pos rfl]
      simp [hg]
    · rw [if_neg hgn] at hg ⊢
      have h1 := hi.inv.2.1 g hg
      rw [c5]
      split
      · rename_i e
        simp only []
        split
        · rename_i e1
          rw [e, hnw e1] at h1
          cases h1
        · exact h1
      · exact h1
  · intro t w hw
    rw [c3]
    rcases hwl t w hw with ⟨_, a, c⟩ | ⟨a, _⟩
    · subst c
      rw [if_pos rfl, hnew]
      exact a
    · rw [if_neg (Nat.ne_of_lt (hi.inv.1 t w a).1)]
      exact hi.inv.2.2 t w a
  · intro t w hw
    rcases hwl t w hw with ⟨a, _, c⟩ | ⟨a, _⟩
    · subst a; subst c
      rw [c5, if_pos rfl]
      simp
    · exact hlist1 t w (hi.listed t w a)
  · intro t g hg hw
    rw [c3] at hw ⊢
    rcases hlist t g hg with a | ⟨a, c⟩
    · have hlt := hi.alloc t g a
      rw [if_neg (Nat.ne_of_lt hlt)] at hw ⊢
      exact hi.owner t g a hw
    · subst c
      rw [if_pos rfl, htrx, a]
  · intro t g hg
    rw [c2]
    rcases hlist t g hg with a | ⟨_, c⟩
    · exact Nat.lt_succ_of_lt (hi.alloc t g a)
    · rw [c]; exact Nat.lt_succ_self _
  · intro t g hg
    rw [hauto] at hg
    obtain ⟨a, c⟩ := hi.autoinc t g hg
    rw [c2, c3, if_neg (Nat.ne_of_lt a)]
    exact ⟨Nat.lt_succ_of_lt a, c⟩
  · intro g hw i j hbi hbj
    rw [c3] at hw hbi hbj
    by_cases e : g = s.n_locks
    · rw [if_pos e] at hbi hbj
      exact new_rec_lock_one_bit _ _ _ _ _ _ _ hbi hbj
    · rw [if_neg e] at hw hbi hbj
      exact hi.one_bit g hw i j hbi hbj

theorem wait_ok_of_eq {s s1 : lock_sys_t} (hn : s1.n_locks = s.n_locks)
    (hl : ∀ g, s1.lock g = s.lock g)
    (ht : ∀ t, (s1.trx t).wait_lock = (s.trx t).wait_lock)
    (hL : ∀ t, (s1.trx t).trx_locks = (s.trx t).trx_locks)
    (ha : ∀ t, (s1.trx t).autoinc_locks = (s.trx t).autoinc_locks) (hi : wait_ok s) :
    wait_ok s1 :=
  wait_ok_of_release_frame (release_frame_of_eq hn hl ht hL ha) hi

theorem wait_ok_set_lock (s : lock_sys_t) (g : Nat) (l : lock_t) (hi : wait_ok s)
    (h1 : l.trx = (s.lock g).trx) (h2 : l.type_mode = (s.lock g).type_mode)
    (h3 : (s.lock g).is_waiting = true → ∀ i, lock_rec_get_nth_bit l i = true →
      lock_rec_get_nth_bit (s.lock g) i = true) :
    wait_ok (s.set_lock g l) := by
  have hw : ∀ j, ((s.set_lock g l).lock j).is_waiting = (s.lock j).is_waiting := by
    intro j
    rw [lock_sys_t.lock_set_lock]
    split
    · subst_vars
      show l.type_mode.wait = _
      rw [h2]; rfl
    · rfl
  have ht : ∀ j, ((s.set_lock g l).lock j).trx = (s.lock j).trx := by
    intro j
    rw [lock_sys_t.lock_set_lock]
    split
    · subst_vars; exact h1
    · rfl
  refine ⟨⟨?_, ?_, ?_⟩, ?_, ?_, ?_, ?_, ?_⟩
  · intro t w hwl
    rw [ht]
    exact hi.inv.1 t w hwl
  · intro j hj
    rw [hw] at hj
    rw [ht]
    exact hi.inv.2.1 j hj
  · intro t w hwl
    rw [hw]
    exact hi.inv.2.2 t w hwl
  · exact hi.listed
  · intro t j hj hjw
    rw [hw] at hjw
    rw [ht]
    exact hi.owner t j hj hjw
  · exact hi.alloc
  · intro t j hj
    rw [hw]
    exact hi.autoinc t j hj
  · intro j hj a b ha hb
    rw [hw] at hj
    rw [lock_sys_t.lock_set_lock] at ha hb
    by_cases e : j = g
    · rw [if_pos e] at ha hb
      subst e
      exact hi.one_bit _ hj a b (h3 hj a ha) (h3 hj b hb)
    · rw [if_neg e] at ha hb
      exact hi.one_bit j hj a b ha hb

theorem wait_ok_add_to_queue (s : lock_sys_t) (tm : type_mode_t) (block : buf_block_t)
    (heap_no : Nat) (index : dict_index_t) (trx : Nat) (b : Bool) (hi : wait_ok s)
    (hnw : tm.wait = true → (s.trx trx).wait_lock = none) :
    wait_ok (lock_rec_add_to_queue s tm block heap_no index trx b) := by
  rcases lock_rec_add_to_queue_cases s tm block heap_no index trx b with
    ⟨g, _, _, h3, _, h5, h6⟩ | h
  · rw [h6]
    apply wait_ok_set_lock s g (lock_rec_set_nth_bit (s.lock g) heap_no) hi rfl rfl
    intro hw
    have : (s.lock g).is_waiting = false := by
      show (s.lock g).type_mode.wait = false
      rw [h3]; exact h5
    rw [this] at hw
    cases hw
  · rw [h]
    apply wait_ok_create s _ block heap_no index trx b hi
    intro hw
    rw [supremum_type_mode_wait] at hw
    exact hnw hw

theorem wait_ok_enqueue_waiting (E : Env) (fuel : Nat) (s : lock_sys_t) (tm : type_mode_t)
    (block : buf_block_t) (heap_no : Nat) (index : dict_index_t) (thr : Nat)
    (err : dberr_t) (s1 : lock_sys_t) (hi : wait_ok s)
    (hnw : (s.trx thr).wait_lock = none)
    (h : lock_rec_enqueue_waiting E fuel s tm block heap_no index thr = some (err, s1)) :
    wait_ok s1 := by
  unfold lock_rec_enqueue_waiting at h
  dsimp only at h
  split at h
  · cases h
    exact wait_ok_of_release_frame (release_frame_set_trx s _ _ rfl rfl rfl) hi
  · have hc := wait_ok_create s { tm with wait := true } block heap_no index thr true hi
      (fun _ => hnw)
    have hlock : (lock_rec_create s { tm with wait := true } block heap_no index thr true).1
        = s.n_locks := rfl
    have hwl : ((lock_rec_create s { tm with wait := true } block heap_no index thr
        true).2.trx thr).wait_lock = some s.n_locks := by
      rw [lock_rec_create_trx_general, if_pos rfl]
      rfl
    have hown : ((lock_rec_create s { tm with wait := true } block heap_no index thr
        true).2.lock s.n_locks).trx = thr := by
      rw [lock_rec_create_lock, if_pos rfl]
      rfl
    split at h
    · cases h
    · rename_i x s2 hr
      cases h
      have fr := release_frame_check_and_resolve E fuel _ _ _ _ _ hc hr
      have h2 := wait_ok_of_release_frame fr hc
      rw [hlock]
      have h3 : wait_ok (lock_reset_lock_and_trx_wait s2 s.n_locks) := by
        apply wait_ok_of_release_frame (release_frame_reset s2 _ ?_) h2
        intro w1 hw1
        rw [wait_release_trx_eq fr.rel, hown] at hw1
        have := wait_release_wait_lock_some fr.rel thr w1 hw1
        rw [hwl] at this
        exact (Option.some.inj this).symm
      exact wait_ok_set_lock _ _
        (lock_rec_reset_nth_bit ((lock_reset_lock_and_trx_wait s2 s.n_locks).lock s.n_locks)
          heap_no) h3 rfl rfl (fun _ i hb => get_nth_bit_reset_le _ _ _ hb)
    · rename_i s2 hr
      have fr := release_frame_check_and_resolve E fuel _ _ _ _ _ hc hr
      have h2 := wait_ok_of_release_frame fr hc
      split at h
      · cases h; exact h2
      · cases h
        exact wait_ok_of_release_frame (release_frame_set_trx s2 _ _ rfl rfl rfl) h2

theorem wait_ok_lock_rec_lock (E : Env) (fuel : Nat) (s : lock_sys_t) (impl : Bool)
    (mode : type_mode_t) (block : buf_block_t) (heap_no : Nat) (index : dict_index_t)
    (thr : Nat) (err : dberr_t) (s1 : lock_sys_t) (hi : wait_ok s)
    (hnw : (s.trx thr).wait_lock = none) (hm : mode.wait = false)
    (h : lock_rec_lock E fuel s impl mode block heap_no index thr = some (err, s1)) :
    wait_ok s1 := by
  unfold lock_rec_lock at h
  dsimp only at h
  split at h
  · cases h; exact hi
  · split at h
    · rename_i lock _
      split at h
      · split at h
        · split at h
          · exact wait_ok_enqueue_waiting E fuel s mode block heap_no index thr err s1 hi hnw h
          · split at h
            · cases h
              exact wait_ok_add_to_queue s mode block heap_no index thr true hi (fun _ => hnw)
            · cases h; exact hi
        · cases h; exact hi
      · rename_i hc
        simp only [Bool.or_eq_true, decide_eq_true_eq, not_or, not_not] at hc
        split at h
        · split at h
          · cases h
            apply wait_ok_set_lock s lock (lock_rec_set_nth_bit (s.lock lock) heap_no) hi
              rfl rfl
            intro hw
            have : (s.lock lock).is_waiting = false := by
              show (s.lock lock).type_mode.wait = false
              rw [hc.1.2]; exact hm
            rw [this] at hw
            cases hw
          · cases h; exact hi
        · cases h; exact hi
    · split at h
      · cases h
        exact wait_ok_create s mode block heap_no index thr false hi (fun _ => hnw)
      · cases h; exact hi

theorem wait_ok_insert_check (E : Env) (fuel : Nat) (s : lock_sys_t)
    (heap_no : Nat) (block : buf_block_t) (index : dict_index_t) (thr : Nat)
    (inherit_in : Bool) (r : insert_check_result) (hi : wait_ok s)
    (hnw : (s.trx thr).wait_lock = none)
    (h : lock_rec_insert_check_and_lock E fuel s heap_no block index thr inherit_in
      = some r) : wait_ok r.sys := by
  unfold lock_rec_insert_check_and_lock at h
  dsimp only at h
  split at h
  · cases h; exact hi
  · split at h
    · cases h; exact hi
    · simp only [Option.map_eq_some'] at h
      obtain ⟨⟨err, s1⟩, h1, rfl⟩ := h
      dsimp only
      split at h1
      · exact wait_ok_enqueue_waiting E fuel s _ block heap_no index thr err s1 hi hnw h1
      · cases h1; exact hi

/-- The requeueing of a waiting lock in a move of locks: the `WAIT` flag
of the lock `g` is cleared and a new waiting lock is created for its
transaction, which becomes the `wait_lock`. -/
theorem wait_ok_requeue (s : lock_sys_t) (g : Nat) (tm : type_mode_t) (block : buf_block_t)
    (heap_no : Nat) (index : dict_index_t) (b : Bool) (hi : wait_ok s)
    (hg : (s.lock g).is_waiting = true) (htm : tm.wait = true) :
    wait_ok (lock_rec_create
      (s.set_lock g { s.lock g with type_mode := { (s.lock g).type_mode with wait := false } })
      tm block heap_no index (s.lock g).trx b).2 := by
  have hr : wait_ok (lock_reset_lock_and_trx_wait s g) :=
    wait_ok_of_release_frame
      (release_frame_reset s g (wait_inv_owner_wait_lock hi.inv g hg)) hi
  have hB := wait_ok_create (lock_reset_lock_and_trx_wait s g) tm block heap_no index
    (s.lock g).trx b hr (fun _ => lock_reset_wait_lock s g)
  refine wait_ok_of_eq ?_ ?_ ?_ ?_ ?_ hB
  · rw [(lock_rec_create_general _ _ _ _ _ _ _).1, (lock_rec_create_general _ _ _ _ _ _ _).1]
    simp [lock_reset_n_locks]
  · intro j
    rw [lock_rec_create_lock, lock_rec_create_lock]
    simp only [lock_sys_t.n_locks_set_lock, lock_reset_n_locks, lock_reset_lock,
      lock_sys_t.lock_set_lock]
    rfl
  · intro t
    rw [lock_rec_create_trx_general, lock_rec_create_trx_general]
    simp only [lock_sys_t.n_locks_set_lock, lock_reset_n_locks, lock_sys_t.trx_set_lock,
      htm, if_true]
    split
    · rfl
    · rename_i e
      rw [lock_reset_trx, if_neg e]
  · intro t
    rw [lock_rec_create_trx_general, lock_rec_create_trx_general]
    simp only [lock_sys_t.n_locks_set_lock, lock_reset_n_locks, lock_sys_t.trx_set_lock,
      lock_reset_trx_locks]
    split
    · rfl
    · rename_i e
      rw [lock_reset_trx, if_neg e]
  · intro t
    rw [lock_rec_create_trx_general, lock_rec_create_trx_general]
    simp only [lock_sys_t.n_locks_set_lock, lock_reset_n_locks, lock_sys_t.trx_set_lock]
    split
    · simp only []
      rw [lock_reset_autoinc_locks]
    · rename_i e
      rw [lock_reset_trx, if_neg e]
theorem queue_loop_invariant (I : lock_sys_t → Prop)
    (body : lock_sys_t → Nat → Option lock_sys_t) (heap_no : Nat)
    (hb : ∀ s lock s1, I s → lock_rec_get_nth_bit (s.lock lock) heap_no = true →
      body s lock = some s1 → I s1) (fuel : Nat) :
    ∀ (s : lock_sys_t) (first : Option Nat) (s1 : lock_sys_t), I s →
      (∀ l, first = some l → lock_rec_get_nth_bit (s.lock l) heap_no = true) →
      lock_rec_queue_loop body heap_no fuel s first = some s1 → I s1 := by
  induction fuel with
  | zero =>
    intro s first s1 hi _ h
    cases first with
    | none =>
      unfold lock_rec_queue_loop at h
      cases h; exact hi
    | some l =>
      unfold lock_rec_queue_loop at h
      cases h
  | succ n ih =>
    intro s first s1 hi hf h
    cases first with
    | none =>
      unfold lock_rec_queue_loop at h
      cases h; exact hi
    | some l =>
      unfold lock_rec_queue_loop at h
      simp only [Option.bind_eq_some] at h
      obtain ⟨s2, h2, h3⟩ := h
      have i2 := hb s l s2 hi (hf l rfl) h2
      refine ih s2 _ s1 i2 ?_ h3
      intro l1 hl1
      unfold lock_rec_get_next lock_rec_next_locks at hl1
      have hm := List.mem_of_mem_head? hl1
      simp only [List.mem_filter, Bool.and_eq_true] at hm
      exact hm.2.2

/-- The requeueing of the lock `lock` in a move of locks, as
`lock_rec_move_low`, `lock_move_rec_list_end` and
`lock_move_rec_list_start` do it after they have reset the bit: the `WAIT`
flag of the lock is cleared and the request is added to the queue of the
receiving record with the type mode the lock had. -/
theorem wait_ok_requeue_add (sa : lock_sys_t) (lock : Nat) (receiver : buf_block_t)
    (receiver_heap_no : Nat) (index : dict_index_t) (trx : Nat) (b : Bool)
    (hi : wait_ok sa) (htrx : trx = (sa.lock lock).trx) :
    wait_ok (lock_rec_add_to_queue
      (if (sa.lock lock).type_mode.wait = true then
        sa.set_lock lock
          { sa.lock lock with type_mode := { (sa.lock lock).type_mode with wait := false } }
      else sa)
      (sa.lock lock).type_mode receiver receiver_heap_no index trx b) := by
  by_cases hw : (sa.lock lock).type_mode.wait = true
  · rw [if_pos hw]
    rcases lock_rec_add_to_queue_cases
      (sa.set_lock lock
        { sa.lock lock with type_mode := { (sa.lock lock).type_mode with wait := false } })
      (sa.lock lock).type_mode receiver receiver_heap_no index trx b with
      ⟨g, _, _, _, _, h5, _⟩ | h
    · rw [supremum_type_mode_wait, hw] at h5
      cases h5
    · rw [h, htrx]
      exact wait_ok_requeue sa lock _ receiver receiver_heap_no index b hi hw
        (by rw [supremum_type_mode_wait]; exact hw)
  · rw [if_neg hw]
    exact wait_ok_add_to_queue sa _ receiver receiver_heap_no index trx b hi
      (fun h => absurd h hw)

theorem wait_ok_move_step (receiver : buf_block_t) (receiver_heap_no donator_heap_no : Nat)
    (s : lock_sys_t) (lock : Nat) (s1 : lock_sys_t) (hi : wait_ok s)
    (h : lock_rec_move_step receiver receiver_heap_no donator_heap_no s lock = some s1) :
    wait_ok s1 := by
  unfold lock_rec_move_step at h
  dsimp only at h
  cases h
  have h1 : wait_ok (s.set_lock lock (lock_rec_reset_nth_bit (s.lock lock) donator_heap_no)) :=
    wait_ok_set_lock s lock (lock_rec_reset_nth_bit (s.lock lock) donator_heap_no) hi rfl rfl
      (fun _ i hb => get_nth_bit_reset_le _ _ _ hb)
  apply wait_ok_requeue_add _ lock receiver receiver_heap_no _ _ false h1
  split <;> simp

theorem wait_ok_lock_rec_move (fuel : Nat) (s : lock_sys_t) (receiver donator : buf_block_t)
    (receiver_heap_no donator_heap_no : Nat) (s1 : lock_sys_t) (hi : wait_ok s)
    (h : lock_rec_move fuel s receiver donator receiver_heap_no donator_heap_no = some s1) :
    wait_ok s1 :=
  queue_loop_invariant wait_ok _ donator_heap_no
    (fun s lock s1 i _ hb => wait_ok_move_step _ _ _ s lock s1 i hb)
    fuel s _ s1 hi (fun l hl => lock_rec_get_first_bit s _ donator donator_heap_no l hl) h

theorem wait_ok_inherit_to_gap (fuel : Nat) (s : lock_sys_t) (heir_block block : buf_block_t)
    (heir_heap_no heap_no : Nat) (s1 : lock_sys_t) (hi : wait_ok s)
    (h : lock_rec_inherit_to_gap fuel s heir_block block heir_heap_no heap_no = some s1) :
    wait_ok s1 := by
  refine queue_loop_invariant wait_ok _ heap_no ?_ fuel s _ s1 hi
    (fun l hl => lock_rec_get_first_bit s _ block heap_no l hl) h
  intro s lock s1 i _ hb
  unfold lock_rec_inherit_to_gap_step at hb
  dsimp only at hb
  split at hb
  · cases hb
    exact wait_ok_add_to_queue s _ _ _ _ _ _ i (fun e => by cases e)
  · cases hb; exact i

theorem wait_ok_rec_cancel (s : lock_sys_t) (lock : Nat) (s1 : lock_sys_t) (hi : wait_ok s)
    (hw : (s.lock lock).is_waiting = true) (h : lock_rec_cancel s lock = some s1) :
    wait_ok s1 := by
  unfold lock_rec_cancel at h
  split at h
  · cases h
  · rename_i i _
    cases h
    have h1 : wait_ok (s.set_lock lock (lock_rec_reset_nth_bit (s.lock lock) i)) :=
      wait_ok_set_lock s lock (lock_rec_reset_nth_bit (s.lock lock) i) hi rfl rfl
        (fun _ j hb => get_nth_bit_reset_le _ _ _ hb)
    have hw1 : ((s.set_lock lock (lock_rec_reset_nth_bit (s.lock lock) i)).lock
        lock).is_waiting = true := by
      simp only [lock_sys_t.lock_set_lock, if_true]
      exact hw
    have h2 := wait_ok_of_release_frame
      (release_frame_reset _ lock (wait_inv_owner_wait_lock h1.inv lock hw1)) h1
    exact wait_ok_of_release_frame (release_frame_wait_end _ _) h2

theorem wait_ok_reset_step (heap_no : Nat) (s : lock_sys_t) (lock : Nat) (s1 : lock_sys_t)
    (hi : wait_ok s) (h : lock_rec_reset_and_release_wait_step heap_no s lock = some s1) :
    wait_ok s1 := by
  unfold lock_rec_reset_and_release_wait_step at h
  split at h
  · rename_i hw
    exact wait_ok_rec_cancel s lock s1 hi hw h
  · cases h
    exact wait_ok_set_lock s lock (lock_rec_reset_nth_bit (s.lock lock) heap_no) hi rfl rfl
      (fun _ j hb => get_nth_bit_reset_le _ _ _ hb)

theorem wait_ok_reset_low (fuel : Nat) (s : lock_sys_t) (k : hash_id) (block : buf_block_t)
    (heap_no : Nat) (s1 : lock_sys_t) (hi : wait_ok s)
    (h : lock_rec_reset_and_release_wait_low fuel s k block heap_no = some s1) :
    wait_ok s1 :=
  queue_loop_invariant wait_ok _ heap_no
    (fun s lock s1 i _ hb => wait_ok_reset_step _ s lock s1 i hb)
    fuel s _ s1 hi (fun l hl => lock_rec_get_first_bit s k block heap_no l hl) h

theorem wait_ok_reset_and_release_wait (fuel : Nat) (s : lock_sys_t) (block : buf_block_t)
    (heap_no : Nat) (s1 : lock_sys_t) (hi : wait_ok s)
    (h : lock_rec_reset_and_release_wait fuel s block heap_no = some s1) : wait_ok s1 := by
  unfold lock_rec_reset_and_release_wait at h
  simp only [Option.bind_eq_some] at h
  obtain ⟨s3, ⟨s2, h2, h3⟩, h4⟩ := h
  exact wait_ok_reset_low fuel _ _ _ _ _
    (wait_ok_reset_low fuel _ _ _ _ _ (wait_ok_reset_low fuel _ _ _ _ _ hi h2) h3) h4

theorem wait_ok_update_delete (fuel : Nat) (s : lock_sys_t) (block : buf_block_t)
    (heap_no next_heap_no : Nat) (s1 : lock_sys_t) (hi : wait_ok s)
    (h : lock_update_delete fuel s block heap_no next_heap_no = some s1) : wait_ok s1 := by
  unfold lock_update_delete at h
  simp only [Option.bind_eq_some] at h
  obtain ⟨s2, h2, h3⟩ := h
  exact wait_ok_reset_and_release_wait fuel s2 block heap_no s1
    (wait_ok_inherit_to_gap fuel s block block next_heap_no heap_no s2 hi h2) h3

theorem wait_ok_release_loop (E : Env) (fuel : Nat) :
    ∀ (s s1 : lock_sys_t) (trx : Nat), wait_ok s → (s.trx trx).wait_lock = none →
      lock_release_loop E fuel s trx = some s1 → wait_ok s1 := by
  induction fuel with
  | zero =>
    intro s s1 trx hi _ h
    unfold lock_release_loop at h
    split at h
    · cases h; exact hi
    · cases h
  | succ n ih =>
    intro s s1 trx hi hnw h
    unfold lock_release_loop at h
    split at h
    · cases h; exact hi
    · rename_i lock hl
      have hm : lock ∈ (s.trx trx).trx_locks := List.mem_of_mem_getLast? hl
      have hw : (s.trx (s.lock lock).trx).wait_lock ≠ some lock := by
        intro e
        have hwt := hi.inv.2.2 _ _ e
        have := hi.owner trx lock hm hwt
        rw [this, hnw] at e
        cases e
      split at h
      · have fr := release_frame_rec_dequeue E s lock hi.inv hw
        exact ih _ s1 trx (wait_ok_of_release_frame fr hi)
          (wait_release_wait_lock_none fr.rel trx hnw) h
      · simp only [Option.bind_eq_some] at h
        obtain ⟨s2, h2, h3⟩ := h
        have f0 : release_frame s
            (if (s.lock lock).mode ≠ LOCK_IS ∧ (s.trx trx).undo_no ≠ 0 then
              s.set_tbl (s.lock lock).table
                { s.tbl (s.lock lock).table with query_cache_inv_trx_id := s.max_trx_id }
            else s) := by
          split
          · exact release_frame_set_tbl _ _ _
          · exact release_frame_refl _
        have i0 := wait_ok_of_release_frame f0 hi
        have hw0 : ((if (s.lock lock).mode ≠ LOCK_IS ∧ (s.trx trx).undo_no ≠ 0 then
              s.set_tbl (s.lock lock).table
                { s.tbl (s.lock lock).table with query_cache_inv_trx_id := s.max_trx_id }
            else s).trx
            ((if (s.lock lock).mode ≠ LOCK_IS ∧ (s.trx trx).undo_no ≠ 0 then
              s.set_tbl (s.lock lock).table
                { s.tbl (s.lock lock).table with query_cache_inv_trx_id := s.max_trx_id }
            else s).lock lock).trx).wait_lock ≠ some lock := by
          split <;> simpa using hw
        have fr := release_frame_table_dequeue E _ s2 lock i0.inv hw0 h2
        have frall := release_frame_trans f0 fr
        exact ih _ s1 trx (wait_ok_of_release_frame frall hi)
          (wait_release_wait_lock_none frall.rel trx hnw) h3

theorem wait_ok_trx_handle_wait (E : Env) (fuel : Nat) (s : lock_sys_t) (trx : Nat)
    (r : dberr_t × lock_sys_t) (hi : wait_ok s)
    (h : lock_trx_handle_wait E fuel s trx = some r) : wait_ok r.2 := by
  unfold lock_trx_handle_wait lock_trx_handle_wait_low at h
  split at h
  · cases h; exact hi
  · split at h
    · cases h; exact hi
    · rename_i w hw
      simp only [Option.map_eq_some'] at h
      obtain ⟨s1, h1, rfl⟩ := h
      have hown := (hi.inv.1 trx w hw).2
      exact wait_ok_of_release_frame
        (release_frame_cancel E fuel s s1 w hi (by rw [hown]; exact hw) h1) hi

theorem read_trylock_success (p : Bool) (fuel w w1 l : Nat)
    (h : rw_lock.read_trylock p fuel w = some (true, w1, l)) :
    w1 = (w + 1) % 2 ^ 32 ∧ l = w
      ∧ (w = rw_lock.UNLOCKED ∨ rw_lock.read_trylock_test p w = false) := by
  unfold rw_lock.read_trylock at h
  cases fuel with
  | zero => simp [rw_lock.trylock_loop] at h
  | succ n =>
    simp only [rw_lock.trylock_loop, read_turn_eq] at h
    by_cases h0 : w = rw_lock.UNLOCKED
    · rw [if_pos h0] at h
      simp only [Option.some.injEq, Prod.mk.injEq, true_and] at h
      rw [← h.1, ← h.2, h0]
      exact ⟨rfl, rfl, Or.inl rfl⟩
    · rw [if_neg h0] at h
      cases ht : rw_lock.read_trylock_test p w
      · rw [ht] at h
        simp only [Bool.false_eq_true, if_false] at h
        cases n with
        | zero => simp [rw_lock.trylock_loop] at h
        | succ m =>
          simp only [rw_lock.trylock_loop, read_turn_eq, if_true] at h
          simp only [Option.some.injEq, Prod.mk.injEq, true_and] at h
          exact ⟨h.1.symm, h.2.symm, Or.inr rfl⟩
      · rw [ht] at h
        simp at h

/-- C39: for every lock word `w` (a `uint32_t`) whose reader count in the
bits 0..28 is not the largest one, `2^29 - 1`, and on which `read_trylock`
(either variant, run without interference) succeeds, the `WRITER`,
`WRITER_WAITING` and `UPDATER` bits of the lock word are the same after
the call as before, and the reader count has increased by exactly one. -/
theorem read_trylock_keeps_flags (p : Bool) (fuel w w1 l : Nat) (hw : w < 2 ^ 32)
    (hc : w % 2 ^ 29 ≠ 2 ^ 29 - 1)
    (h : rw_lock.read_trylock p fuel w = some (true, w1, l)) :
    rw_lock.WRITER &&& w1 = rw_lock.WRITER &&& w
    ∧ rw_lock.WRITER_WAITING &&& w1 = rw_lock.WRITER_WAITING &&& w
    ∧ rw_lock.UPDATER &&& w1 = rw_lock.UPDATER &&& w
    ∧ w1 % 2 ^ 29 = w % 2 ^ 29 + 1 := by
  obtain ⟨e, _, _⟩ := read_trylock_success p fuel w w1 l h
  obtain ⟨a, c, ha, hc1, rfl⟩ := word_split w hw
  have hc2 : c + 1 < 2 ^ 29 := by omega
  have e1 : w1 = 2 ^ 29 * a + (c + 1) := by
    rw [e]
    omega
  obtain ⟨k1, k2, k3, _⟩ := rw_consts
  rw [e1, k1, k2, k3, mask_and _ _ _ hc1, mask_and _ _ _ hc2, mask_and _ _ _ hc1,
    mask_and _ _ _ hc2, mask_and _ _ _ hc1, mask_and _ _ _ hc2]
  refine ⟨rfl, rfl, rfl, ?_⟩
  omega

theorem read_trylock_keeps_flags_witness :
    (5 : Nat) < 2 ^ 32 ∧ 5 % 2 ^ 29 ≠ 2 ^ 29 - 1
    ∧ rw_lock.read_trylock true 2 5 = some (true, 6, 5)
    ∧ rw_lock.UPDATER &&& 6 = rw_lock.UPDATER &&& 5 ∧ 6 % 2 ^ 29 = 5 % 2 ^ 29 + 1 :=
  ⟨by decide, by decide, by decide,
    (read_trylock_keeps_flags true 2 5 6 5 (by decide) (by decide) (by decide)).2.2.1,
    (read_trylock_keeps_flags true 2 5 6 5 (by decide) (by decide) (by decide)).2.2.2⟩

/-- C39, counterexample: on the lock word with `2^29 - 1` readers and no
flag, `read_trylock` succeeds and the incremented reader count spills into
the `UPDATER` bit: `UPDATER` is set afterwards although it was clear
before, and the reader count has gone from `2^29 - 1` to 0. -/
theorem read_trylock_spills_into_updater :
    rw_lock.read_trylock false 2 (2 ^ 29 - 1) = some (true, rw_lock.UPDATER, 2 ^ 29 - 1)
    ∧ rw_lock.UPDATER &&& (2 ^ 29 - 1) = 0
    ∧ rw_lock.UPDATER &&& rw_lock.UPDATER ≠ 0
    ∧ rw_lock.UPDATER % 2 ^ 29 = 0 := by
  decide

theorem granted_loop_seen (done rest : List lock_t) (hd : done ≠ []) :
    lock_move_granted_locks_to_front_loop done true rest
      = some ((rest.filter (fun x => !x.is_waiting)).reverse ++ done
          ++ rest.filter (fun x => x.is_waiting)) := by
  induction rest generalizing done with
  | nil => simp [lock_move_granted_locks_to_front_loop]
  | cons x tl ih =>
    unfold lock_move_granted_locks_to_front_loop
    cases hx : x.is_waiting
    · obtain ⟨y, hy⟩ : ∃ y, done.getLast? = some y := by
        cases h : done.getLast? with
        | none => exact absurd (List.getLast?_eq_none_iff.mp h) hd
        | some y => exact ⟨y, rfl⟩
      simp only [Bool.not_true, Bool.false_eq_true, if_false, Bool.not_false, if_true, hy]
      rw [ih (x :: done) (by simp)]
      simp [hx]
    · simp only [Bool.not_true, Bool.false_eq_true, if_false]
      rw [ih (done ++ [x]) (by simp)]
      simp [hx]

theorem granted_loop_unseen (done rest : List lock_t) :
    lock_move_granted_locks_to_front_loop done false rest
      = some (((rest.dropWhile (fun x => !x.is_waiting)).filter
            (fun x => !x.is_waiting)).reverse ++ done
          ++ rest.takeWhile (fun x => !x.is_waiting)
          ++ (rest.dropWhile (fun x => !x.is_waiting)).filter (fun x => x.is_waiting)) := by
  induction rest generalizing done with
  | nil => simp [lock_move_granted_locks_to_front_loop]
  | cons x tl ih =>
    unfold lock_move_granted_locks_to_front_loop
    cases hx : x.is_waiting
    · simp only [Bool.not_false, if_true]
      rw [ih]
      simp [hx, List.dropWhile, List.takeWhile]
    · simp only [Bool.not_false, if_true]
      rw [granted_loop_seen _ _ (by simp)]
      simp [hx, List.dropWhile, List.takeWhile]

theorem granted_to_front_eq (l : List lock_t) :
    lock_move_granted_locks_to_front l
      = some (((l.dropWhile (fun x => !x.is_waiting)).filter
            (fun x => !x.is_waiting)).reverse
          ++ l.takeWhile (fun x => !x.is_waiting)
          ++ l.filter (fun x => x.is_waiting)) := by
  unfold lock_move_granted_locks_to_front
  rw [granted_loop_unseen]
  have e : l.filter (fun x => x.is_waiting)
      = (l.dropWhile (fun x => !x.is_waiting)).filter (fun x => x.is_waiting) := by
    conv_lhs => rw [← List.takeWhile_append_dropWhile (fun x => !x.is_waiting) l]
    rw [List.filter_append]
    have : (l.takeWhile (fun x => !x.is_waiting)).filter (fun x => x.is_waiting) = [] := by
      rw [List.filter_eq_nil_iff]
      intro a ha
      have := List.mem_takeWhile_imp ha
      simpa using this
    rw [this, List.nil_append]
  rw [e]
  simp
theorem filter_waiting_dropWhile (l : List lock_t) :
    l.filter (fun x => x.is_waiting)
      = (l.dropWhile (fun x => !x.is_waiting)).filter (fun x => x.is_waiting) := by
  conv_lhs => rw [← List.takeWhile_append_dropWhile (fun x => !x.is_waiting) l]
  rw [List.filter_append]
  have : (l.takeWhile (fun x => !x.is_waiting)).filter (fun x => x.is_waiting) = [] := by
    rw [List.filter_eq_nil_iff]
    intro a ha
    have := List.mem_takeWhile_imp ha
    simpa using this
  rw [this, List.nil_append]

theorem filter_granted_takeWhile (l : List lock_t) :
    (l.takeWhile (fun x => !x.is_waiting)).filter (fun x => !x.is_waiting)
      = l.takeWhile (fun x => !x.is_waiting) := by
  rw [List.filter_eq_self]
  intro a ha
  have := List.mem_takeWhile_imp ha
  simpa using this

/-- C33: `lock_move_granted_locks_to_front` returns for every lock list: the
result is a permutation of the list (the same locks, none lost and none
duplicated) in which no waiting lock precedes a granted lock; it is a
list of granted locks followed by a list of waiting locks. -/
theorem lock_move_granted_locks_to_front_spec (l : List lock_t) :
    ∃ r, lock_move_granted_locks_to_front l = some r ∧ r.Perm l
      ∧ r.Pairwise (fun a b => ¬ (a.is_waiting = true ∧ b.is_waiting = false))
      ∧ ∃ g w, r = g ++ w ∧ (∀ x ∈ g, x.is_waiting = false)
          ∧ (∀ x ∈ w, x.is_waiting = true) := by
  refine ⟨_, granted_to_front_eq l, ?_, ?_, ?_⟩
  · have h1 : (l.takeWhile (fun x => !x.is_waiting)
        ++ l.dropWhile (fun x => !x.is_waiting)).Perm l := by
      rw [List.takeWhile_append_dropWhile]
    have h2 : (((l.dropWhile (fun x => !x.is_waiting)).filter
          (fun x => !x.is_waiting)).reverse
        ++ (l.dropWhile (fun x => !x.is_waiting)).filter (fun x => x.is_waiting)).Perm
        (l.dropWhile (fun x => !x.is_waiting)) := by
      refine ((List.reverse_perm _).append_right _).trans ?_
      have := List.filter_append_perm (fun x : lock_t => !x.is_waiting)
        (l.dropWhile (fun x => !x.is_waiting))
      simpa using this
    rw [filter_waiting_dropWhile l]
    refine List.Perm.trans ?_ h1
    refine List.Perm.trans ?_ (h2.append_left _)
    rw [List.append_assoc, ← List.append_assoc _ _ (List.filter _ _)]
    rw [← List.append_assoc]
    exact (List.perm_append_comm).append_right _
  · have hg : ∀ x ∈ ((l.dropWhile (fun x => !x.is_waiting)).filter
          (fun x => !x.is_waiting)).reverse ++ l.takeWhile (fun x => !x.is_waiting),
        x.is_waiting = false := by
      intro x hx
      rcases List.mem_append.mp hx with h | h
      · simp only [List.mem_reverse, List.mem_filter] at h
        simpa using h.2
      · simpa using List.mem_takeWhile_imp h
    have hw : ∀ x ∈ l.filter (fun x => x.is_waiting), x.is_waiting = true := by
      intro x hx
      simp only [List.mem_filter] at hx
      exact hx.2
    rw [List.pairwise_append]
    refine ⟨?_, ?_, ?_⟩
    · apply List.pairwise_of_forall_mem_list
      intro a ha b _ hc
      rw [hg a ha] at hc
      exact absurd hc.1 (by simp)
    · apply List.pairwise_of_forall_mem_list
      intro a _ b hb hc
      rw [hw b hb] at hc
      exact absurd hc.2 (by simp)
    · intro a ha b _ hc
      rw [hg a ha] at hc
      exact absurd hc.1 (by simp)
  · refine ⟨_, _, rfl, ?_, ?_⟩
    · intro x hx
      rcases List.mem_append.mp hx with h | h
      · simp only [List.mem_reverse, List.mem_filter] at h
        simpa using h.2
      · simpa using List.mem_takeWhile_imp h
    · intro x hx
      simp only [List.mem_filter] at hx
      exact hx.2

/-- C34, counterexample: for the list of a waiting lock of transaction 1
followed by granted locks of transactions 2 and 3, the granted locks come
out in the order 3, 2, the reverse of their order in the input. -/
theorem granted_locks_order_reversed :
    (lock_move_granted_locks_to_front [lock_copy 1 true, lock_copy 2 false, lock_copy 3 false]).map
        (fun r => r.map (fun x => (x.trx, x.is_waiting)))
      = some [(3, false), (2, false), (1, true)]
    ∧ ([lock_copy 1 true, lock_copy 2 false, lock_copy 3 false].filter
        (fun x => !x.is_waiting)).map (fun x => x.trx) = [2, 3] := by
  decide

/-- C34: `lock_move_granted_locks_to_front` keeps the waiting locks in the
relative order of the input, and keeps the order of the granted locks that
precede the first waiting lock; the granted locks that follow the first
waiting lock come first in the result, in the reverse of their order in
the input.  A list in which no granted lock follows a waiting lock is
returned as it is. -/
theorem lock_move_granted_locks_to_front_order (l : List lock_t) :
    ∃ r, lock_move_granted_locks_to_front l = some r
      ∧ r.filter (fun x => x.is_waiting) = l.filter (fun x => x.is_waiting)
      ∧ r.filter (fun x => !x.is_waiting)
          = ((l.dropWhile (fun x => !x.is_waiting)).filter (fun x => !x.is_waiting)).reverse
            ++ l.takeWhile (fun x => !x.is_waiting)
      ∧ l.filter (fun x => !x.is_waiting)
          = l.takeWhile (fun x => !x.is_waiting)
            ++ (l.dropWhile (fun x => !x.is_waiting)).filter (fun x => !x.is_waiting)
      ∧ ((l.dropWhile (fun x => !x.is_waiting)).filter (fun x => !x.is_waiting) = [] →
          r = l) := by
  refine ⟨_, granted_to_front_eq l, ?_, ?_, ?_, ?_⟩
  · simp only [List.filter_append, List.filter_filter]
    have e1 : ∀ m : List lock_t, (m.filter (fun x => !x.is_waiting)).reverse.filter
        (fun x => x.is_waiting) = [] := by
      intro m
      rw [List.filter_eq_nil_iff]
      intro a ha
      simp only [List.mem_reverse, List.mem_filter] at ha
      simpa using ha.2
    have e2 : (l.takeWhile (fun x => !x.is_waiting)).filter (fun x => x.is_waiting) = [] := by
      rw [List.filter_eq_nil_iff]
      intro a ha
      simpa using List.mem_takeWhile_imp ha
    rw [e1, e2]
    simp
  · simp only [List.filter_append]
    have e1 : ∀ m : List lock_t, (m.filter (fun x => !x.is_waiting)).reverse.filter
        (fun x => !x.is_waiting) = (m.filter (fun x => !x.is_waiting)).reverse := by
      intro m
      rw [List.filter_eq_self]
      intro a ha
      simp only [List.mem_reverse, List.mem_filter] at ha
      exact ha.2
    have e3 : (l.filter (fun x => x.is_waiting)).filter (fun x => !x.is_waiting) = [] := by
      rw [List.filter_eq_nil_iff]
      intro a ha
      simp only [List.mem_filter] at ha
      simp [ha.2]
    rw [e1, filter_granted_takeWhile, e3]
    simp
  · conv_lhs => rw [← List.takeWhile_append_dropWhile (fun x => !x.is_waiting) l]
    rw [List.filter_append, filter_granted_takeWhile]
  · intro h
    rw [h, filter_waiting_dropWhile]
    have e4 : (l.dropWhile (fun x => !x.is_waiting)).filter (fun x => x.is_waiting)
        = l.dropWhile (fun x => !x.is_waiting) := by
      rw [List.filter_eq_self]
      intro a ha
      rw [List.filter_eq_nil_iff] at h
      simpa using h a ha
    rw [e4]
    simp

theorem compatible_of_intention (m1 m2 : lock_mode) (h1 : m1 ≠ LOCK_S ∧ m1 ≠ LOCK_X)
    (h2 : m2.toNat ≤ LOCK_IX.toNat) : lock_mode_compatible m1 m2 = true := by
  cases m1 <;> cases m2 <;> simp_all [lock_mode_compatible, lock_mode.toNat]

theorem table_x_or_s_count_zero (s : lock_sys_t) (table : Nat)
    (h : table_x_or_s_count s table = 0) :
    ∀ i ∈ (s.tbl table).locks, (s.lock i).mode ≠ LOCK_S ∧ (s.lock i).mode ≠ LOCK_X := by
  intro i hi
  unfold table_x_or_s_count at h
  rw [List.length_eq_zero, List.filter_eq_nil_iff] at h
  have := h i hi
  simpa using this

/-- C32: whenever `n_lock_x_or_s` of the table equals the number of `S`
and `X` locks in the list of the table, `lock_table_other_has_incompatible`
returns what its scan of the list from the tail to the head returns, for
every mode, and `lock_table_has_to_wait_in_queue` returns what its scan
from the head to the waiting lock returns; when the mode is `IS` or `IX`
and `n_lock_x_or_s` is 0 both return without a scan, `NULL` and false, and
no lock of another transaction in the list is incompatible with the
mode. -/
theorem table_fast_path_sound (E : Env) (s : lock_sys_t) (trx : Nat) (wait : Bool)
    (table : Nat) (mode : lock_mode) (wait_lock : Nat)
    (hcount : (s.tbl table).n_lock_x_or_s = table_x_or_s_count s table)
    (ht : (s.lock wait_lock).table = table) :
    lock_table_other_has_incompatible s trx wait table mode
      = lock_table_other_has_incompatible_scan s trx wait table mode
    ∧ lock_table_has_to_wait_in_queue E s wait_lock
      = lock_table_has_to_wait_in_queue_scan E s wait_lock
    ∧ ((s.tbl table).n_lock_x_or_s = 0 →
        ((mode = LOCK_IS ∨ mode = LOCK_IX) →
          lock_table_other_has_incompatible s trx wait table mode = none
          ∧ lock_table_other_has_incompatible_scan s trx wait table mode = none
          ∧ ∀ i ∈ (s.tbl table).locks, (s.lock i).trx ≠ trx →
              lock_mode_compatible (s.lock i).mode mode = true)
        ∧ (((s.lock wait_lock).mode = LOCK_IS ∨ (s.lock wait_lock).mode = LOCK_IX) →
          lock_table_has_to_wait_in_queue E s wait_lock = false
          ∧ lock_table_has_to_wait_in_queue_scan E s wait_lock = false)) := by
  have hscan : ∀ m : lock_mode, m.toNat ≤ LOCK_IX.toNat → (s.tbl table).n_lock_x_or_s = 0 →
      lock_table_other_has_incompatible_scan s trx wait table m = none := by
    intro m hm h0
    rw [h0] at hcount
    have hall := table_x_or_s_count_zero s table hcount.symm
    unfold lock_table_other_has_incompatible_scan
    rw [List.find?_eq_none]
    intro i hi
    rw [compatible_of_intention _ _ (hall i (List.mem_reverse.mp hi)) hm]
    simp
  have hwscan : (s.lock wait_lock).mode.toNat ≤ LOCK_IX.toNat →
      (s.tbl table).n_lock_x_or_s = 0 →
      lock_table_has_to_wait_in_queue_scan E s wait_lock = false := by
    intro hm h0
    rw [h0] at hcount
    have hall := table_x_or_s_count_zero s table hcount.symm
    unfold lock_table_has_to_wait_in_queue_scan
    rw [List.any_eq_false]
    intro i hi
    have hmem : i ∈ (s.tbl table).locks := by
      rw [ht] at hi
      exact (List.takeWhile_sublist _).subset hi
    unfold lock_has_to_wait
    have hc : lock_mode_compatible (s.lock wait_lock).mode (s.lock i).mode = true := by
      have a := hall i hmem
      revert hm a
      cases (s.lock wait_lock).mode <;> cases (s.lock i).mode <;>
        simp [lock_mode_compatible, lock_mode.toNat]
    simp [hc]
  have e1 : lock_table_other_has_incompatible s trx wait table mode
      = lock_table_other_has_incompatible_scan s trx wait table mode := by
    unfold lock_table_other_has_incompatible
    split
    · rename_i h
      simp only [Bool.and_eq_true, decide_eq_true_eq, beq_iff_eq] at h
      rw [hscan mode h.1 h.2]
    · rfl
  have e2 : lock_table_has_to_wait_in_queue E s wait_lock
      = lock_table_has_to_wait_in_queue_scan E s wait_lock := by
    unfold lock_table_has_to_wait_in_queue
    dsimp only
    split
    · rename_i h
      simp only [Bool.and_eq_true, decide_eq_true_eq, beq_iff_eq] at h
      rw [ht] at h
      rw [hwscan h.1 h.2]
    · rfl
  refine ⟨e1, e2, ?_⟩
  intro h0
  constructor
  · intro hm
    have hm1 : mode.toNat ≤ LOCK_IX.toNat := by
      rcases hm with h | h <;> rw [h] <;> decide
    refine ⟨by rw [e1]; exact hscan mode hm1 h0, hscan mode hm1 h0, ?_⟩
    intro i hi _
    rw [h0] at hcount
    exact compatible_of_intention _ _ (table_x_or_s_count_zero s table hcount.symm i hi) hm1
  · intro hm
    have hm1 : (s.lock wait_lock).mode.toNat ≤ LOCK_IX.toNat := by
      rcases hm with h | h <;> rw [h] <;> decide
    exact ⟨by rw [e2]; exact hwscan hm1 h0, hwscan hm1 h0⟩

theorem table_fast_path_sound_witness :
    (intention_table_state.tbl 0).n_lock_x_or_s = table_x_or_s_count intention_table_state 0
    ∧ (intention_table_state.lock 2).table = 0
    ∧ (intention_table_state.lock 2).is_waiting = true
    ∧ lock_table_other_has_incompatible intention_table_state 4 true 0 LOCK_IX
      = lock_table_other_has_incompatible_scan intention_table_state 4 true 0 LOCK_IX
    ∧ lock_table_has_to_wait_in_queue env_ordering intention_table_state 2
      = lock_table_has_to_wait_in_queue_scan env_ordering intention_table_state 2 :=
  ⟨by decide, by decide, by decide,
    (table_fast_path_sound env_ordering intention_table_state 4 true 0 LOCK_IX 2 (by decide)
      (by decide)).1,
    (table_fast_path_sound env_ordering intention_table_state 4 true 0 LOCK_IX 2 (by decide)
      (by decide)).2.1⟩

/-- C37: `lock_rec_insert_check_and_lock`, entered with the lock-system
latch free, returns `DB_SUCCESS` with the latch still held when the index
is spatial and the successor record has a lock in its queue: the return of
the spatial-index test comes after `lock_sys.mutex_lock()` and releases
nothing.  On every other return path the latch is free. -/
theorem insert_check_spatial_keeps_latch (E : Env) (fuel : Nat) (s : lock_sys_t)
    (heap_no : Nat) (block : buf_block_t) (index : dict_index_t) (thr : Nat)
    (inherit_in : Bool) :
    (lock_rec_queue s hash_id.rec_hash block.page_id heap_no ≠ [] →
      index.is_spatial = true →
      lock_rec_insert_check_and_lock E fuel s heap_no block index thr inherit_in
        = some { err := DB_SUCCESS, inherit := inherit_in, mutex_held := true, sys := s })
    ∧ ∀ r, lock_rec_insert_check_and_lock E fuel s heap_no block index thr inherit_in = some r →
        (r.mutex_held = true ↔
          (lock_rec_queue s hash_id.rec_hash block.page_id heap_no ≠ []
            ∧ index.is_spatial = true)) := by
  unfold lock_rec_insert_check_and_lock
  dsimp only
  cases hq : (lock_rec_queue s hash_id.rec_hash block.page_id heap_no) with
  | nil =>
    simp only [List.head?_nil, ne_eq, not_true_eq_false, false_and, iff_false,
      Bool.not_eq_true, IsEmpty.forall_iff, true_and]
    intro r hr
    cases hr
    rfl
  | cons x tl =>
    simp only [List.head?_cons, ne_eq, reduceCtorEq, not_false_eq_true, true_and, forall_const]
    cases hsp : index.is_spatial
    · simp only [Bool.false_eq_true, if_false, IsEmpty.forall_iff, iff_false, Bool.not_eq_true,
        true_and]
      intro r hr
      simp only [Option.map_eq_some'] at hr
      obtain ⟨⟨e, s1⟩, _, rfl⟩ := hr
      rfl
    · simp only [if_true, forall_const, true_and, iff_true]
      intro r hr
      cases hr
      rfl

theorem insert_check_spatial_keeps_latch_witness :
    lock_rec_queue spatial_state hash_id.rec_hash 5 3 ≠ []
    ∧ spatial_index.is_spatial = true
    ∧ lock_table_has spatial_state 2 spatial_index.table LOCK_IX = true
    ∧ (lock_rec_insert_check_and_lock env_ordering 10 spatial_state 3
          { page_id := 5, n_heap := 8 } spatial_index 2 true).map
        (fun r => (r.err, r.mutex_held)) = some (DB_SUCCESS, true) := by
  refine ⟨by decide, rfl, by decide, ?_⟩
  rw [(insert_check_spatial_keeps_latch env_ordering 10 spatial_state 3
    { page_id := 5, n_heap := 8 } spatial_index 2 true).1 (by decide) rfl]
  rfl

theorem reduceOption_dropWhile_isNone (l : List (Option Nat)) :
    (l.dropWhile (fun x => x.isNone)).reduceOption = l.reduceOption := by
  induction l with
  | nil => rfl
  | cons a l ih =>
    cases a with
    | none => simpa [List.dropWhile, List.reduceOption_cons_of_none] using ih
    | some x => simp [List.dropWhile]

theorem reduceOption_filter_not_mem (l : List (Option Nat)) (L : Nat) (h : some L ∉ l) :
    l.reduceOption.filter (fun g => g != L) = l.reduceOption := by
  rw [List.filter_eq_self]
  intro a ha
  rw [List.reduceOption_mem_iff] at ha
  simp only [bne_iff_ne, ne_eq]
  intro e
  rw [e] at ha
  exact h ha

theorem vector_null_first_filter (L : Nat) (v : List (Option Nat))
    (hc : v.count (some L) = 1) :
    ∃ r, vector_null_first L v = some r ∧ some L ∉ r
      ∧ r.reduceOption = v.reduceOption.filter (fun g => g != L) := by
  induction v with
  | nil => simp at hc
  | cons x xs ih =>
    unfold vector_null_first
    by_cases hx : x = some L
    · rw [if_pos hx]
      subst hx
      have hn : some L ∉ xs := by
        rw [List.count_cons_self] at hc
        exact List.count_eq_zero.mp (by omega)
      refine ⟨_, rfl, ?_, ?_⟩
      · simpa using hn
      · rw [List.reduceOption_cons_of_none, List.reduceOption_cons_of_some, List.filter_cons]
        simp [reduceOption_filter_not_mem xs L hn]
    · rw [if_neg hx]
      have hc2 : xs.count (some L) = 1 := by
        rw [List.count_cons_of_ne (Ne.symm hx)] at hc
        exact hc
      obtain ⟨r, hr, hn, he⟩ := ih hc2
      rw [hr]
      refine ⟨_, rfl, ?_, ?_⟩
      · intro hm
        rcases List.mem_cons.mp hm with e | e
        · exact hx e.symm
        · exact hn e
      · cases x with
        | none => simpa [List.reduceOption_cons_of_none] using he
        | some y =>
          have hy : y ≠ L := fun e => hx (by rw [e])
          rw [List.reduceOption_cons_of_some, List.reduceOption_cons_of_some, List.filter_cons]
          simp [hy, he]

theorem reduceOption_reverse (l : List (Option Nat)) :
    l.reverse.reduceOption = l.reduceOption.reverse := by
  unfold List.reduceOption
  rw [List.filterMap_reverse]

theorem lock_table_remove_autoinc_lock_vector (lock : Nat) (v : List (Option Nat))
    (hlast : ∃ x, v.getLast? = some (some x)) (hcount : v.count (some lock) = 1) :
    ∃ r, lock_table_remove_autoinc_lock lock v = some r
      ∧ some lock ∉ r
      ∧ (r = [] ∨ ∃ x, r.getLast? = some (some x))
      ∧ r.reduceOption = v.reduceOption.filter (fun g => g != lock)
      ∧ (v.getLast? = some (some lock) →
          r = lock_table_pop_autoinc_locks v ∧ r.reduceOption = v.reduceOption.dropLast) := by
  obtain ⟨y, hy⟩ := hlast
  unfold lock_table_remove_autoinc_lock
  cases hr : v.reverse with
  | nil =>
    rw [List.reverse_eq_nil_iff] at hr
    rw [hr] at hy
    simp at hy
  | cons a rest =>
    have hv : v = rest.reverse ++ [a] := by
      have := congrArg List.reverse hr
      rw [List.reverse_reverse] at this
      rw [this]; simp
    have ha : a = some y := by
      rw [hv] at hy
      simpa using hy
    subst ha
    dsimp only
    by_cases hx : y = lock
    · subst hx
      rw [if_pos rfl]
      have hn : some y ∉ rest := by
        rw [hv, List.count_append] at hcount
        simp only [List.count_cons_self, List.count_nil, List.count_reverse] at hcount
        exact List.count_eq_zero.mp (by omega)
      have hpop : lock_table_pop_autoinc_locks v
          = (rest.dropWhile (fun x => x.isNone)).reverse := by
        unfold lock_table_pop_autoinc_locks
        rw [hv]
        simp
      have hred : (lock_table_pop_autoinc_locks v).reduceOption = rest.reduceOption.reverse := by
        rw [hpop, reduceOption_reverse, reduceOption_dropWhile_isNone]
      have hvred : v.reduceOption = rest.reduceOption.reverse ++ [y] := by
        rw [hv, List.reduceOption_append, reduceOption_reverse]
        rfl
      refine ⟨_, rfl, ?_, ?_, ?_, fun _ => ⟨rfl, ?_⟩⟩
      · rw [hpop, List.mem_reverse]
        intro hm
        exact hn ((List.dropWhile_sublist _).subset hm)
      · rw [hpop]
        cases hd : rest.dropWhile (fun x => x.isNone) with
        | nil => exact Or.inl rfl
        | cons b tl =>
          right
          have hb := head?_dropWhile_neg (fun x : Option Nat => x.isNone) rest b
            (by rw [hd]; rfl)
          cases b with
          | none => simp at hb
          | some z => exact ⟨z, by simp⟩
      · rw [hred, hvred, List.filter_append]
        have : rest.reduceOption.reverse.filter (fun g => g != y)
            = rest.reduceOption.reverse := by
          rw [← reduceOption_reverse]
          exact reduceOption_filter_not_mem _ _ (by simpa using hn)
        rw [this]
        simp
      · rw [hred, hvred]
        simp
    · have hx2 : ¬ (some y = some lock) := fun e => hx (Option.some.inj e)
      rw [if_neg hx2, if_neg (by simp)]
      have hc2 : rest.count (some lock) = 1 := by
        rw [hv, List.count_append] at hcount
        simp only [List.count_reverse] at hcount
        rw [List.count_cons_of_ne (Ne.symm hx2)] at hcount
        simpa using hcount
      obtain ⟨r, hr2, hn, he⟩ := vector_null_first_filter lock rest hc2
      rw [hr2]
      refine ⟨_, rfl, ?_, ?_, ?_, ?_⟩
      · simp only [Option.map_some', List.reverse_cons, List.mem_append, List.mem_reverse,
          List.mem_singleton, not_or]
        exact ⟨hn, fun e => hx2 e.symm⟩
      · right
        exact ⟨y, by simp⟩
      · simp only [List.reverse_cons]
        rw [List.reduceOption_append, reduceOption_reverse, he, hv, List.reduceOption_append,
          reduceOption_reverse, List.filter_append, List.filter_reverse]
        have : ([some y] : List (Option Nat)).reduceOption = [y] := rfl
        rw [this]
        simp [hx]
      · intro hl
        rw [hy] at hl
        exact absurd (Option.some.inj (Option.some.inj hl)) hx
theorem autoinc_frame_refl (T tb : Nat) (s : lock_sys_t) : autoinc_frame T tb s s :=
  ⟨fun _ => Or.inl rfl, fun _ => rfl, rfl, rfl, fun _ _ => rfl⟩

theorem autoinc_frame_trans {T tb : Nat} {s s1 s2 : lock_sys_t}
    (h1 : autoinc_frame T tb s s1) (h2 : autoinc_frame T tb s1 s2) :
    autoinc_frame T tb s s2 where
  lock := fun g => by
    rcases h2.lock g with a | a <;> rcases h1.lock g with b | b
    · exact Or.inl (a.trans b)
    · exact Or.inr (a.trans b)
    · right; rw [a, b]
    · right; rw [a, b, clear_wait_clear_wait]
  tbl_locks := fun t => (h2.tbl_locks t).trans (h1.tbl_locks t)
  autoinc_locks := h2.autoinc_locks.trans h1.autoinc_locks
  table_locks := h2.table_locks.trans h1.table_locks
  autoinc_trx := fun t ht => (h2.autoinc_trx t ht).trans (h1.autoinc_trx t ht)

theorem lock_grant_autoinc_locks_mode (s : lock_sys_t) (g t : Nat)
    (h : (s.lock g).mode ≠ LOCK_AUTO_INC) :
    ((lock_grant s g).trx t).autoinc_locks = (s.trx t).autoinc_locks := by
  have hm : ((lock_reset_lock_and_trx_wait s g).lock g).mode ≠ LOCK_AUTO_INC := by
    rw [lock_reset_lock, if_pos rfl]
    exact h
  unfold lock_grant
  dsimp only
  rw [if_neg hm]
  split
  · rw [lock_wait_end_autoinc_locks, lock_reset_autoinc_locks]
  · rw [lock_reset_autoinc_locks]

theorem lock_grant_autoinc_trx_other (s : lock_sys_t) (g tb : Nat)
    (h : tb ≠ (s.lock g).table) :
    ((lock_grant s g).tbl tb).autoinc_trx = (s.tbl tb).autoinc_trx := by
  have ht : ((lock_reset_lock_and_trx_wait s g).lock g).table = (s.lock g).table := by
    rw [lock_reset_lock, if_pos rfl]
    rfl
  unfold lock_grant
  dsimp only
  split <;> split <;>
    simp only [lock_wait_end_tbl, lock_sys_t.tbl_set_trx, lock_sys_t.tbl_set_tbl, ht, h,
      if_false, lock_reset_tbl]

theorem autoinc_frame_grant (T tb : Nat) (s : lock_sys_t) (g : Nat)
    (ht : (s.lock g).table = tb)
    (hm : (s.lock g).trx = T → (s.lock g).mode ≠ LOCK_AUTO_INC) :
    autoinc_frame T tb s (lock_grant s g) where
  lock := fun j => by
    rw [lock_grant_lock]
    split
    · subst_vars; exact Or.inr rfl
    · exact Or.inl rfl
  tbl_locks := fun t => (lock_grant_tbl s g t).1
  autoinc_locks := by
    by_cases e : (s.lock g).trx = T
    · exact lock_grant_autoinc_locks_mode s g T (hm e)
    · exact lock_grant_autoinc_locks s g T e
  table_locks := lock_grant_table_locks s g T
  autoinc_trx := fun t h => lock_grant_autoinc_trx_other s g t (by rw [ht]; exact h)

theorem autoinc_frame_foldl (E : Env) (T tb : Nat) (l : List Nat) (s : lock_sys_t)
    (h : ∀ x ∈ l, (s.lock x).table = tb
      ∧ ((s.lock x).trx = T → (s.lock x).is_waiting = true →
          (s.lock x).mode ≠ LOCK_AUTO_INC)) :
    autoinc_frame T tb s (l.foldl (lock_table_grant_step E) s) := by
  induction l generalizing s with
  | nil => exact autoinc_frame_refl T tb s
  | cons a l ih =>
    rw [List.foldl_cons]
    have f1 : autoinc_frame T tb s (lock_table_grant_step E s a) := by
      unfold lock_table_grant_step
      split
      · rename_i hc
        simp only [Bool.and_eq_true] at hc
        obtain ⟨h1, h2⟩ := h a (List.mem_cons_self _ _)
        exact autoinc_frame_grant T tb s a h1 (fun e => h2 e hc.1)
      · exact autoinc_frame_refl T tb s
    refine autoinc_frame_trans f1 (ih _ ?_)
    intro x hx
    obtain ⟨h1, h2⟩ := h x (List.mem_cons_of_mem _ hx)
    rcases f1.lock x with e | e
    · rw [e]; exact ⟨h1, h2⟩
    · rw [e]
      refine ⟨h1, ?_⟩
      intro _ hw
      exact absurd hw (by simp [lock_t.clear_wait, lock_t.is_waiting])
theorem count_some_reduceOption (l : List (Option Nat)) (a : Nat) :
    l.count (some a) = l.reduceOption.count a := by
  induction l with
  | nil => rfl
  | cons x xs ih =>
    cases x with
    | none =>
      rw [List.reduceOption_cons_of_none, List.count_cons_of_ne (by simp), ih]
    | some y =>
      rw [List.reduceOption_cons_of_some]
      by_cases e : y = a
      · subst e
        rw [List.count_cons_self, List.count_cons_self, ih]
      · rw [List.count_cons_of_ne (fun h => e (Option.some.inj h).symm),
          List.count_cons_of_ne (fun h => e h.symm), ih]

theorem lock_table_remove_low_autoinc (s : lock_sys_t) (L : Nat) (r : List (Option Nat))
    (hm : (s.lock L).mode = LOCK_AUTO_INC)
    (ha : (s.tbl (s.lock L).table).autoinc_trx = some (s.lock L).trx)
    (hr : lock_table_remove_autoinc_lock L (s.trx (s.lock L).trx).autoinc_locks = some r) :
    ∃ s1, lock_table_remove_low s L = some s1
      ∧ (s1.trx (s.lock L).trx).autoinc_locks = r
      ∧ ∀ tb, (s1.tbl tb).autoinc_trx
          = if tb = (s.lock L).table then none else (s.tbl tb).autoinc_trx := by
  have hex : ∃ s1, lock_table_remove_low s L = some s1 := by
    simp only [lock_table_remove_low, hm, ha, ↓reduceIte, lock_sys_t.trx_set_tbl, hr,
      Option.map_some']
    exact ⟨_, rfl⟩
  obtain ⟨s1, h1⟩ := hex
  refine ⟨s1, h1, ?_⟩
  simp only [lock_table_remove_low, hm, ha, ↓reduceIte, lock_sys_t.trx_set_tbl, hr,
    Option.map_some', Option.some.injEq] at h1
  subst h1
  refine ⟨by simp, ?_⟩
  intro tb
  by_cases e : tb = (s.lock L).table
  · simp [e]
  · simp [e]

theorem core_of_frame_lock {l l1 : lock_t} (h : l1 = l ∨ l1 = l.clear_wait) :
    l1.is_table = l.is_table ∧ l1.mode = l.mode ∧ l1.trx = l.trx ∧ l1.table = l.table
      ∧ (l1.is_waiting = true → l.is_waiting = true) := by
  rcases h with e | e
  · rw [e]; exact ⟨rfl, rfl, rfl, rfl, id⟩
  · rw [e]
    refine ⟨rfl, rfl, rfl, rfl, ?_⟩
    intro hw
    exact absurd hw (by simp [lock_t.clear_wait, lock_t.is_waiting])

theorem vector_last_of_wf (v : List (Option Nat)) (hne : v ≠ [])
    (hl : v.getLast? ≠ some none) : ∃ L, v.getLast? = some (some L) := by
  cases h : v.getLast? with
  | none => exact absurd (List.getLast?_eq_none_iff.mp h) hne
  | some x =>
    cases x with
    | none => exact absurd h hl
    | some L => exact ⟨L, rfl⟩

theorem autoinc_last_lock_step (E : Env) (s : lock_sys_t) (T : Nat) (wf : autoinc_wf s T)
    (hne : (s.trx T).autoinc_locks ≠ []) :
    ∃ L s1, (s.trx T).autoinc_locks.getLast? = some (some L)
      ∧ lock_release_autoinc_last_lock E s T = some s1
      ∧ (lock_table_dequeue E s L).bind (fun s2 => lock_trx_table_locks_remove s2 L) = some s1
      ∧ autoinc_wf s1 T
      ∧ (s1.trx T).autoinc_locks = lock_table_pop_autoinc_locks (s.trx T).autoinc_locks
      ∧ (s1.trx T).autoinc_locks.reduceOption = (s.trx T).autoinc_locks.reduceOption.dropLast
      ∧ (s1.tbl (s.lock L).table).locks = (s.tbl (s.lock L).table).locks.erase L := by
  obtain ⟨L, hL⟩ := vector_last_of_wf _ hne wf.last
  have hmem : some L ∈ (s.trx T).autoinc_locks := List.mem_of_getLast?_eq_some hL
  obtain ⟨e1, e2, e3, e4, e5⟩ := wf.entry L hmem
  have hcount : (s.trx T).autoinc_locks.count (some L) = 1 := by
    rw [count_some_reduceOption]
    exact List.count_eq_one_of_mem wf.nodup (List.reduceOption_mem_iff.mpr hmem)
  obtain ⟨r, hr, hnr, hrl, hrf, hpop⟩ :=
    lock_table_remove_autoinc_lock_vector L _ ⟨L, hL⟩ hcount
  obtain ⟨hpop1, hpop2⟩ := hpop hL
  have hsub : ∀ g, some g ∈ r → some g ∈ (s.trx T).autoinc_locks :=
    fun g hg => lock_table_remove_autoinc_lock_mem L _ r g hr hg
  -- removal from the queue
  obtain ⟨s1, h1, a1, a2⟩ := lock_table_remove_low_autoinc s L r e2 (by rw [e4, e3])
    (by rw [e3]; exact hr)
  rw [e3] at a1
  obtain ⟨_, b1, _, _⟩ := lock_table_remove_low_frame s s1 L h1
  obtain ⟨b2, _⟩ := lock_table_remove_low_lists s s1 L h1
  have b3 := lock_table_remove_low_table_locks s s1 L h1 T
  -- the grant loop
  have hdq : ∃ s2, lock_table_dequeue E s L = some s2
      ∧ autoinc_frame T (s.lock L).table s1 s2 := by
    unfold lock_table_dequeue
    simp only [e1, Bool.not_true, Bool.false_eq_true, ↓reduceIte, h1, Option.map_some']
    refine ⟨_, rfl, ?_⟩
    split
    · exact autoinc_frame_refl _ _ _
    · apply autoinc_frame_foldl
      intro x hx
      have hx1 : x ∈ (s.tbl (s.lock L).table).locks :=
        (List.dropWhile_sublist _).subset (List.mem_of_mem_tail hx)
      rw [b1]
      exact ⟨wf.tbl_ok _ x hx1, wf.no_wait _ x hx1⟩
  obtain ⟨s2, h2, f⟩ := hdq
  have c2 : ∀ g, s2.lock g = s.lock g ∨ s2.lock g = (s.lock g).clear_wait := by
    intro g
    have := f.lock g
    rw [b1] at this
    exact this
  -- removal from the table_locks vector
  have hT2 : (s2.lock L).trx = T := by
    rw [(core_of_frame_lock (c2 L)).2.2.1, e3]
  have htl : some L ∈ (s2.trx T).table_locks := by
    rw [f.table_locks, b3]
    exact e5
  obtain ⟨tv, htv, hkeep⟩ := vector_null_first_spec L _ htl
  have h3 : lock_trx_table_locks_remove s2 L
      = some (s2.set_trx T { s2.trx T with table_locks := tv }) := by
    simp only [lock_trx_table_locks_remove, hT2, htv, Option.map_some']
  refine ⟨L, s2.set_trx T { s2.trx T with table_locks := tv }, hL, ?_, ?_, ?_, ?_, ?_, ?_⟩
  · unfold lock_release_autoinc_last_lock
    rw [hL]
    dsimp only
    rw [h2]
    exact h3
  · rw [h2]
    exact h3
  · have hv3 : ((s2.set_trx T { s2.trx T with table_locks := tv }).trx T).autoinc_locks = r := by
      simp only [lock_sys_t.trx_set_trx, if_true]
      rw [f.autoinc_locks, a1]
    have hl3 : ∀ g, (s2.set_trx T { s2.trx T with table_locks := tv }).lock g = s2.lock g :=
      fun g => by simp
    have ht3 : ∀ tb, (s2.set_trx T { s2.trx T with table_locks := tv }).tbl tb = s2.tbl tb :=
      fun tb => by simp
    have hlist : ∀ tb, ∀ g ∈ (s2.tbl tb).locks, g ∈ (s.tbl tb).locks := by
      intro tb g hg
      rw [f.tbl_locks, b2] at hg
      split at hg
      · exact List.mem_of_mem_erase hg
      · exact hg
    constructor
    · intro g hg
      rw [hv3] at hg
      have hgv := hsub g hg
      have hgL : g ≠ L := fun e => hnr (e ▸ hg)
      obtain ⟨g1, g2, g3, g4, g5⟩ := wf.entry g hgv
      obtain ⟨k1, k2, k3, k4, _⟩ := core_of_frame_lock (c2 g)
      have htb : (s.lock g).table ≠ (s.lock L).table :=
        fun e => hgL (wf.tables g L hgv hmem e)
      rw [hl3, ht3, k1, k2, k3, k4]
      refine ⟨g1, g2, g3, ?_, ?_⟩
      · rw [f.autoinc_trx _ htb, a2, if_neg htb]
        exact g4
      · simp only [lock_sys_t.trx_set_trx, if_true]
        apply hkeep g hgL
        rw [f.table_locks, b3]
        exact g5
    · rw [hv3, hrf]
      exact wf.nodup.filter _
    · intro g1 g2 hg1 hg2 he
      rw [hv3] at hg1 hg2
      rw [hl3, hl3, (core_of_frame_lock (c2 g1)).2.2.2.1,
        (core_of_frame_lock (c2 g2)).2.2.2.1] at he
      exact wf.tables g1 g2 (hsub g1 hg1) (hsub g2 hg2) he
    · rw [hv3]
      rcases hrl with e | ⟨x, e⟩
      · rw [e]; simp
      · rw [e]; simp
    · intro tb g hg
      rw [ht3] at hg
      rw [hl3, (core_of_frame_lock (c2 g)).2.2.2.1]
      exact wf.tbl_ok tb g (hlist tb g hg)
    · intro tb w hw ht hwait
      rw [ht3] at hw
      rw [hl3] at ht hwait ⊢
      obtain ⟨_, k2, k3, _, k5⟩ := core_of_frame_lock (c2 w)
      rw [k2]
      rw [k3] at ht
      exact wf.no_wait tb w (hlist tb w hw) ht (k5 hwait)
  · simp only [lock_sys_t.trx_set_trx, if_true]
    rw [f.autoinc_locks, a1, hpop1]
  · simp only [lock_sys_t.trx_set_trx, if_true]
    rw [f.autoinc_locks, a1, hpop2]
  · simp only [lock_sys_t.tbl_set_trx]
    rw [f.tbl_locks, b2, if_pos rfl]
theorem lock_release_autoinc_locks_empties (E : Env) (T : Nat) (fuel : Nat) (s : lock_sys_t)
    (wf : autoinc_wf s T) (hf : (s.trx T).autoinc_locks.reduceOption.length ≤ fuel) :
    ∃ s1, lock_release_autoinc_locks E fuel s T = some s1
      ∧ (s1.trx T).autoinc_locks = []
      ∧ autoinc_release_in_order E (s.trx T).autoinc_locks.reduceOption.reverse s = some s1 := by
  induction fuel generalizing s with
  | zero =>
    have hv : (s.trx T).autoinc_locks = [] := by
      by_contra hne
      obtain ⟨L, hL⟩ := vector_last_of_wf _ hne wf.last
      have := List.reduceOption_mem_iff.mpr (List.mem_of_getLast?_eq_some hL)
      rw [List.length_eq_zero.mp (Nat.le_zero.mp hf)] at this
      simp at this
    refine ⟨s, ?_, hv, ?_⟩
    · simp [lock_release_autoinc_locks, hv]
    · rw [hv]; rfl
  | succ n ih =>
    by_cases hv : (s.trx T).autoinc_locks = []
    · refine ⟨s, ?_, hv, ?_⟩
      · simp [lock_release_autoinc_locks, hv]
      · rw [hv]; rfl
    · obtain ⟨L, s1, hL, h1, h2, wf1, _, hred, _⟩ := autoinc_last_lock_step E s T wf hv
      have hLr : (s.trx T).autoinc_locks.reduceOption
          = (s.trx T).autoinc_locks.reduceOption.dropLast ++ [L] := by
        have hm : (s.trx T).autoinc_locks.reduceOption.getLast? = some L := by
          obtain ⟨pre, hpre⟩ : ∃ pre, (s.trx T).autoinc_locks = pre ++ [some L] := by
            have hne := hv
            refine ⟨(s.trx T).autoinc_locks.dropLast, ?_⟩
            have := List.dropLast_append_getLast? (some L) (by
              rw [Option.mem_def]; exact hL)
            exact this.symm
          rw [hpre, List.reduceOption_append]
          simp [List.reduceOption]
        exact (List.dropLast_append_getLast? L (by rw [Option.mem_def]; exact hm)).symm
      have hlen : (s1.trx T).autoinc_locks.reduceOption.length ≤ n := by
        rw [hred, List.length_dropLast]
        omega
      obtain ⟨s2, k1, k2, k3⟩ := ih s1 wf1 hlen
      refine ⟨s2, ?_, k2, ?_⟩
      · unfold lock_release_autoinc_locks
        have : (s.trx T).autoinc_locks.isEmpty = false := by
          cases h : (s.trx T).autoinc_locks with
          | nil => exact absurd h hv
          | cons _ _ => rfl
        rw [this]
        simp only [Bool.false_eq_true, if_false]
        rw [h1]
        exact k1
      · rw [hLr, List.reverse_append, List.reverse_singleton, List.singleton_append]
        unfold autoinc_release_in_order
        rw [h2]
        rw [hred] at k3
        exact k3

theorem autoinc_wf_autoinc_state : autoinc_wf autoinc_state 1 := by
  have hv : (autoinc_state.trx 1).autoinc_locks = [some 0, some 1] := rfl
  have ht : ∀ tb, ∀ g ∈ (autoinc_state.tbl tb).locks,
      (tb = 0 ∧ g = 0) ∨ (tb = 1 ∧ (g = 1 ∨ g = 2)) := by
    intro tb g hg
    by_cases e0 : tb = 0
    · subst e0
      have : g ∈ [0] := hg
      simp at this
      exact Or.inl ⟨rfl, this⟩
    · by_cases e1 : tb = 1
      · subst e1
        have : g ∈ [1, 2] := hg
        simp at this
        exact Or.inr ⟨rfl, this⟩
      · have : (autoinc_state.tbl tb).locks = [] := by
          simp [autoinc_state, lock_sys_t.tbl, e0, e1]
          rfl
        rw [this] at hg
        simp at hg
  constructor
  · intro g hg
    rw [hv] at hg
    simp at hg
    rcases hg with rfl | rfl <;> decide
  · decide
  · intro g1 g2 h1 h2
    rw [hv] at h1 h2
    simp at h1 h2
    rcases h1 with rfl | rfl <;> rcases h2 with rfl | rfl <;> decide
  · decide
  · intro tb g hg
    rcases ht tb g hg with ⟨rfl, rfl⟩ | ⟨rfl, rfl | rfl⟩ <;> rfl
  · intro tb w hw
    rcases ht tb w hw with ⟨rfl, rfl⟩ | ⟨rfl, rfl | rfl⟩ <;> decide

/-- C40: given an `autoinc_locks` vector that is not empty, ends with an
entry that is not NULL and holds the lock exactly once,
`lock_table_remove_autoinc_lock` leaves a vector that no longer holds the
lock, is empty or ends with an entry that is not NULL, and keeps the other
entries that are not NULL in their order.  Consequently, for a transaction
whose vector is consistent with the table queues, `lock_release_autoinc_locks`
(with fuel for one turn per lock) returns with an empty vector, having
released the locks of the vector in reverse order. -/
theorem autoinc_vector_invariant (lock : Nat) (v : List (Option Nat))
    (hlast : ∃ x, v.getLast? = some (some x)) (hcount : v.count (some lock) = 1) :
    (∃ r, lock_table_remove_autoinc_lock lock v = some r
      ∧ some lock ∉ r
      ∧ (r = [] ∨ ∃ x, r.getLast? = some (some x))
      ∧ r.reduceOption = v.reduceOption.filter (fun g => g != lock))
    ∧ ∀ (E : Env) (s : lock_sys_t) (T fuel : Nat), autoinc_wf s T →
        (s.trx T).autoinc_locks.reduceOption.length ≤ fuel →
        ∃ s1, lock_release_autoinc_locks E fuel s T = some s1
          ∧ (s1.trx T).autoinc_locks = []
          ∧ autoinc_release_in_order E (s.trx T).autoinc_locks.reduceOption.reverse s
              = some s1 := by
  obtain ⟨r, h1, h2, h3, h4, _⟩ := lock_table_remove_autoinc_lock_vector lock v hlast hcount
  exact ⟨⟨r, h1, h2, h3, h4⟩,
    fun E s T fuel wf hf => lock_release_autoinc_locks_empties E T fuel s wf hf⟩

theorem autoinc_vector_invariant_witness :
    (∃ x, [some 0, none, some 1].getLast? = some (some x))
    ∧ [some 0, none, some 1].count (some 0) = 1
    ∧ lock_table_remove_autoinc_lock 0 [some 0, none, some 1] = some [none, none, some 1]
    ∧ lock_table_remove_autoinc_lock 1 [some 0, none, some 1] = some [some 0]
    ∧ (autoinc_state.trx 1).autoinc_locks = [some 0, some 1]
    ∧ ∃ s1, lock_release_autoinc_locks env_ordering 2 autoinc_state 1 = some s1
        ∧ (s1.trx 1).autoinc_locks = []
        ∧ autoinc_release_in_order env_ordering [1, 0] autoinc_state = some s1 :=
  ⟨⟨1, rfl⟩, by decide, by decide, by decide, rfl,
    (autoinc_vector_invariant 0 [some 0, none, some 1] ⟨1, rfl⟩ (by decide)).2
      env_ordering autoinc_state 1 2 autoinc_wf_autoinc_state (by decide)⟩

theorem next_lock_rest {s : lock_sys_t} (wf : waits_wf s) (c : DeadlockChecker)
    (w l : Nat) (heap_no : Option Nat) (hl : l ∈ wait_queue s w) (hh : heap_ok s w heap_no)
    (l1 : Nat) (h : DeadlockChecker.get_next_lock s c l heap_no = some l1) :
    l1 ∈ wait_queue s w ∧ queue_rest s w l1 + 1 ≤ queue_rest s w l := by
  rw [get_next_lock_spec wf c w l heap_no hl hh] at h
  have key := find_after_spec (fun i => !visited s c.m_mark_start i) (wait_queue s w)
    (wait_queue_nodup wf w) l hl
  rw [h] at key
  obtain ⟨k1, _, k3, _⟩ := key
  refine ⟨k1, ?_⟩
  unfold queue_rest
  have := List.indexOf_lt_length.mpr k1
  omega

theorem heap_ok_of_only_marks {s0 s : lock_sys_t} (h : only_marks s0 s) (w : Nat)
    (hn : Option Nat) : heap_ok s w hn ↔ heap_ok s0 w hn := by
  unfold heap_ok
  rw [only_marks_lock h]

theorem queue_rest_le (s : lock_sys_t) (w l L : Nat) (hL : (wait_queue s w).length ≤ L) :
    queue_rest s w l ≤ L := by
  unfold queue_rest
  omega

theorem unwind_pos {s0 s : lock_sys_t} (wf : waits_wf s0) (L : Nat) (stack : List state_t) :
    ∀ (c : DeadlockChecker) (lock hn : Option Nat), c.s_states = stack →
      search_pos s0 ⟨s, c, lock, hn⟩ →
      search_pos s0 ⟨s, (DeadlockChecker.unwind s stack c lock hn).1,
          (DeadlockChecker.unwind s stack c lock hn).2.1,
          (DeadlockChecker.unwind s stack c lock hn).2.2⟩
      ∧ search_measure s0 L ⟨s, (DeadlockChecker.unwind s stack c lock hn).1,
          (DeadlockChecker.unwind s stack c lock hn).2.1,
          (DeadlockChecker.unwind s stack c lock hn).2.2⟩
        ≤ search_measure s0 L ⟨s, c, lock, hn⟩
      ∧ ((DeadlockChecker.unwind s stack c lock hn).2.1 = none →
          (DeadlockChecker.unwind s stack c lock hn).1.s_states = []) := by
  induction stack with
  | nil =>
    intro c lock hn hs I
    unfold DeadlockChecker.unwind
    exact ⟨I, le_refl _, fun _ => hs⟩
  | cons st rest ih =>
    intro c lock hn hs I
    unfold DeadlockChecker.unwind
    cases lock with
    | some l => exact ⟨I, le_refl _, fun h => by cases h⟩
    | none =>
      dsimp only
      have wfs := waits_wf_of_only_marks I.marks wf
      have hq := only_marks_wait_queue I.marks
      have hst := I.frames st (by rw [hs]; exact List.mem_cons_self _ _)
      have I1 : search_pos s0 ⟨s, { c with s_states := rest, m_wait_lock := st.m_wait_lock },
          DeadlockChecker.get_next_lock s
            { c with s_states := rest, m_wait_lock := st.m_wait_lock } st.m_lock st.m_heap_no,
          st.m_heap_no⟩ := by
        refine ⟨I.marks, I.cost, ?_, ?_⟩
        · intro x hx
          exact I.frames x (by rw [hs]; exact List.mem_cons_of_mem _ hx)
        · intro l hl
          have := next_lock_rest wfs _ st.m_wait_lock st.m_lock st.m_heap_no
            (by rw [hq]; exact hst.1) ((heap_ok_of_only_marks I.marks _ _).mpr hst.2) l hl
          rw [hq] at this
          exact ⟨this.1, hst.2⟩
      obtain ⟨a1, a2, a3⟩ := ih _ _ _ rfl I1
      have ht : top_measure s0 st.m_wait_lock
          (DeadlockChecker.get_next_lock s
            { c with s_states := rest, m_wait_lock := st.m_wait_lock } st.m_lock st.m_heap_no)
          ≤ queue_rest s0 st.m_wait_lock st.m_lock := by
        cases hg : DeadlockChecker.get_next_lock s
            { c with s_states := rest, m_wait_lock := st.m_wait_lock } st.m_lock st.m_heap_no with
        | none => exact Nat.zero_le _
        | some l =>
          have := next_lock_rest wfs _ st.m_wait_lock st.m_lock st.m_heap_no
            (by rw [hq]; exact hst.1) ((heap_ok_of_only_marks I.marks _ _).mpr hst.2) l hg
          unfold queue_rest at this ⊢
          rw [hq] at this
          exact this.2
      refine ⟨a1, le_trans a2 ?_, a3⟩
      simp only [search_measure, hs, frames_measure, List.map_cons, List.sum_cons]
      have e0 : top_measure s0 c.m_wait_lock none = 0 := rfl
      rw [e0]
      generalize (1000001 - c.m_cost) * (L + 3) = R
      omega
theorem advance_pos {s0 s : lock_sys_t} (wf : waits_wf s0) (L : Nat) (c : DeadlockChecker)
    (lock : Nat) (hn : Option Nat) (I : search_pos s0 ⟨s, c, some lock, hn⟩) :
    search_pos s0 ⟨s, c, DeadlockChecker.get_next_lock s c lock hn, hn⟩
    ∧ search_measure s0 L ⟨s, c, DeadlockChecker.get_next_lock s c lock hn, hn⟩
        < search_measure s0 L ⟨s, c, some lock, hn⟩ := by
  have wfs := waits_wf_of_only_marks I.marks wf
  have hq := only_marks_wait_queue I.marks
  obtain ⟨t1, t2⟩ := I.top lock rfl
  have key : ∀ l, DeadlockChecker.get_next_lock s c lock hn = some l →
      l ∈ wait_queue s0 c.m_wait_lock
      ∧ queue_rest s0 c.m_wait_lock l + 1 ≤ queue_rest s0 c.m_wait_lock lock := by
    intro l hl
    have := next_lock_rest wfs c c.m_wait_lock lock hn (by rw [hq]; exact t1)
      ((heap_ok_of_only_marks I.marks _ _).mpr t2) l hl
    unfold queue_rest at this ⊢
    rw [hq] at this
    exact this
  constructor
  · refine ⟨I.marks, I.cost, I.frames, ?_⟩
    intro l hl
    exact ⟨(key l hl).1, t2⟩
  · simp only [search_measure]
    have e1 : top_measure s0 c.m_wait_lock (some lock)
        = queue_rest s0 c.m_wait_lock lock + 1 := rfl
    rw [e1]
    cases hg : DeadlockChecker.get_next_lock s c lock hn with
    | none =>
      have e0 : top_measure s0 c.m_wait_lock none = 0 := rfl
      rw [e0]
      omega
    | some l =>
      have e2 : top_measure s0 c.m_wait_lock (some l)
          = queue_rest s0 c.m_wait_lock l + 1 := rfl
      rw [e2]
      have := (key l hg).2
      omega

theorem top_measure_le (s0 : lock_sys_t) (L w : Nat) (hL : (wait_queue s0 w).length ≤ L)
    (lock : Option Nat) : top_measure s0 w lock ≤ L + 1 := by
  cases lock with
  | none => exact Nat.zero_le _
  | some l =>
    have := queue_rest_le s0 w l L hL
    show queue_rest s0 w l + 1 ≤ L + 1
    omega

theorem search_iter_measure (E : Env) {s0 : lock_sys_t} (wf : waits_wf s0) (L : Nat)
    (hL : ∀ w, (wait_queue s0 w).length ≤ L) (x : DeadlockChecker.loop_state)
    (I : search_pos s0 x) :
    ∀ y, DeadlockChecker.search_iter E x = some (Sum.inr y) →
      search_pos s0 y ∧ search_measure s0 L y < search_measure s0 L x
      ∧ x.s.s_lock_mark_counter ≤ y.s.s_lock_mark_counter := by
  have hu := unwind_pos wf L x.c.s_states x.c x.lock x.heap_no rfl I
  unfold DeadlockChecker.search_iter
  revert hu
  generalize DeadlockChecker.unwind x.s x.c.s_states x.c x.lock x.heap_no = u
  obtain ⟨c, l, h⟩ := u
  intro hu y hy
  obtain ⟨I1, hm, _⟩ := hu
  dsimp only at I1 hm
  cases l with
  | none => simp at hy
  | some lock =>
    dsimp only at hy
    have hadv := advance_pos wf L c lock h I1
    by_cases h1 : lock = c.m_wait_lock
    · rw [if_pos h1] at hy
      simp only [Option.some.injEq, Sum.inr.injEq] at hy
      subst hy
      refine ⟨⟨only_marks_trans I1.marks (only_marks_mark x.s _), I1.cost, I1.frames,
        fun l hl => by cases hl⟩, ?_, ?_⟩
      · refine lt_of_lt_of_le ?_ hm
        simp only [search_measure]
        have e0 : top_measure s0 c.m_wait_lock none = 0 := rfl
        have e1 : top_measure s0 c.m_wait_lock (some lock)
            = queue_rest s0 c.m_wait_lock lock + 1 := rfl
        rw [e0, e1]
        omega
      · show x.s.s_lock_mark_counter ≤ x.s.s_lock_mark_counter + 1
        omega
    · rw [if_neg h1] at hy
      by_cases h2 : (!lock_has_to_wait E x.s c.m_wait_lock lock) = true
      · rw [if_pos h2] at hy
        simp only [Option.some.injEq, Sum.inr.injEq] at hy
        subst hy
        exact ⟨hadv.1, lt_of_lt_of_le hadv.2 hm, le_refl _⟩
      · rw [if_neg h2] at hy
        by_cases h3 : (x.s.lock lock).trx = c.m_start
        · rw [if_pos h3] at hy
          simp at hy
        · rw [if_neg h3] at hy
          by_cases h4 : c.is_too_deep = true
          · rw [if_pos h4] at hy
            simp at hy
          · rw [if_neg h4] at hy
            have hcost := (not_too_deep_limits c h4).2
            cases hw : (x.s.trx (x.s.lock lock).trx).wait_lock with
            | none =>
              rw [hw] at hy
              simp only [Option.some.injEq, Sum.inr.injEq] at hy
              subst hy
              exact ⟨hadv.1, lt_of_lt_of_le hadv.2 hm, le_refl _⟩
            | some w1 =>
              rw [hw] at hy
              dsimp only at hy
              by_cases h5 : (x.s.trx (x.s.lock lock).trx).wait_thr.isSome = true
              · rw [if_pos h5] at hy
                unfold DeadlockChecker.push at hy
                by_cases h6 : ({ c with m_cost := c.m_cost + 1 } : DeadlockChecker).m_n_elems
                    ≥ E.MAX_STACK_SIZE
                · rw [if_pos h6] at hy
                  simp at hy
                · rw [if_neg h6] at hy
                  dsimp only at hy
                  have wfs := waits_wf_of_only_marks I1.marks wf
                  have hq := only_marks_wait_queue I1.marks
                  obtain ⟨t1, t2⟩ := I1.top lock rfl
                  cases hg : DeadlockChecker.get_first_lock x.s
                      { c with
                        m_cost := c.m_cost + 1,
                        s_states := { m_lock := lock, m_wait_lock := c.m_wait_lock,
                                      m_heap_no := h } :: c.s_states,
                        m_wait_lock := w1 } with
                  | none =>
                    rw [hg] at hy
                    simp at hy
                  | some r =>
                    obtain ⟨first, hn1⟩ := r
                    rw [hg] at hy
                    dsimp only at hy
                    obtain ⟨g1, g2, _⟩ := get_first_lock_spec wfs _ first hn1 hg
                    dsimp only at g1 g2
                    rw [hq] at g1
                    have hfirst : first ∈ wait_queue s0 w1 := List.mem_of_mem_head? g1
                    have g2' := (heap_ok_of_only_marks I1.marks _ _).mp g2
                    have Ipush : search_pos s0 ⟨x.s,
                        { c with
                          m_cost := c.m_cost + 1,
                          s_states := { m_lock := lock, m_wait_lock := c.m_wait_lock,
                                        m_heap_no := h } :: c.s_states,
                          m_wait_lock := w1 }, some first, hn1⟩ := by
                      refine ⟨I1.marks, ?_, ?_, ?_⟩
                      · show c.m_cost + 1 ≤ 1000001
                        omega
                      · intro st hst
                        rcases List.mem_cons.mp hst with e | e
                        · rw [e]; exact ⟨t1, t2⟩
                        · exact I1.frames st e
                      · intro l hl
                        cases hl
                        exact ⟨hfirst, g2'⟩
                    have hR : (1000001 - c.m_cost) * (L + 3)
                        = (1000001 - (c.m_cost + 1)) * (L + 3) + (L + 3) := by
                      have : 1000001 - c.m_cost = (1000001 - (c.m_cost + 1)) + 1 := by omega
                      rw [this, Nat.add_mul, Nat.one_mul]
                    have hMpush : ∀ lk : Option Nat, search_measure s0 L ⟨x.s,
                        { c with
                          m_cost := c.m_cost + 1,
                          s_states := { m_lock := lock, m_wait_lock := c.m_wait_lock,
                                        m_heap_no := h } :: c.s_states,
                          m_wait_lock := w1 }, lk, hn1⟩
                        < search_measure s0 L ⟨x.s, c, some lock, h⟩ := by
                      intro lk
                      simp only [search_measure, frames_measure, List.map_cons, List.sum_cons]
                      have e1 : top_measure s0 c.m_wait_lock (some lock)
                          = queue_rest s0 c.m_wait_lock lock + 1 := rfl
                      have := top_measure_le s0 L w1 (hL w1) lk
                      rw [e1, hR]
                      generalize (1000001 - (c.m_cost + 1)) * (L + 3) = R
                      omega
                    by_cases h7 : DeadlockChecker.is_visited x.s
                        { c with
                          m_cost := c.m_cost + 1,
                          s_states := { m_lock := lock, m_wait_lock := c.m_wait_lock,
                                        m_heap_no := h } :: c.s_states,
                          m_wait_lock := w1 } first = true
                    · rw [if_pos h7] at hy
                      simp only [Option.some.injEq, Sum.inr.injEq] at hy
                      subst hy
                      exact ⟨(advance_pos wf L _ first hn1 Ipush).1,
                        lt_of_lt_of_le (hMpush _) hm, le_refl _⟩
                    · rw [if_neg h7] at hy
                      simp only [Option.some.injEq, Sum.inr.injEq] at hy
                      subst hy
                      exact ⟨Ipush, lt_of_lt_of_le (hMpush _) hm, le_refl _⟩
              · rw [if_neg h5] at hy
                simp only [Option.some.injEq, Sum.inr.injEq] at hy
                subst hy
                exact ⟨hadv.1, lt_of_lt_of_le hadv.2 hm, le_refl _⟩
theorem get_first_lock_of_head {s : lock_sys_t} (wf : waits_wf s) (c : DeadlockChecker)
    (f : Nat) (hq : (wait_queue s c.m_wait_lock).head? = some f) (hne : f ≠ c.m_wait_lock)
    (hnw : (s.lock c.m_wait_lock).is_table = false → (s.lock f).is_waiting = false) :
    ∃ hn, DeadlockChecker.get_first_lock s c = some (f, hn) := by
  unfold DeadlockChecker.get_first_lock
  dsimp only
  by_cases hw : (s.lock c.m_wait_lock).is_table = true
  · unfold wait_queue at hq
    rw [if_pos hw] at hq
    simp only [hw, Bool.not_true, Bool.false_eq_true, if_false, hq, if_neg hne]
    exact ⟨_, rfl⟩
  · have hw1 : (s.lock c.m_wait_lock).is_table = false := by simpa using hw
    unfold wait_queue at hq
    rw [if_neg hw] at hq
    cases hb : lock_rec_find_set_bit (s.lock c.m_wait_lock) with
    | none =>
      rw [hb] at hq
      simp at hq
    | some hn =>
      rw [hb] at hq
      dsimp only at hq
      simp only [hw1, Bool.not_false, if_true]
      generalize hk : (if (s.lock c.m_wait_lock).type_mode.predicate = true
        then hash_id.prdt_hash else hash_id.rec_hash) = k at hq ⊢
      have hqf := hq
      rw [lock_rec_queue_eq_filter] at hqf
      unfold lock_rec_queue at hq
      cases hpc : s.page_chain k (s.lock c.m_wait_lock).page_id with
      | nil =>
        rw [hpc] at hq
        simp at hq
      | cons f0 tl =>
        have hf0 : (s.page_chain k (s.lock c.m_wait_lock).page_id).head? = some f0 := by
          rw [hpc]; rfl
        have hf0m : f0 ∈ s.page_chain k (s.lock c.m_wait_lock).page_id :=
          List.mem_of_mem_head? hf0
        unfold lock_sys_t.page_chain at hf0m hf0
        obtain ⟨m1, m2⟩ := List.mem_filter.mp hf0m
        have m3 : (s.lock f0).page_id = (s.lock c.m_wait_lock).page_id := by
          simpa using m2
        have hlock : (if (!lock_rec_get_nth_bit (s.lock f0) hn) = true then
              lock_rec_get_next s (some hn) f0 else some f0) = some f := by
          by_cases hbit : lock_rec_get_nth_bit (s.lock f0) hn = true
          · rw [if_neg (by simp [hbit])]
            rw [hpc, List.filter_cons_of_pos (by simpa using hbit)] at hq
            simpa using hq
          · rw [if_pos (by simp [hbit])]
            unfold lock_rec_get_next
            rw [lock_rec_next_locks_eq, (wf.kind k f0 m1).1, m3]
            have e := filter_eq_after_of_head
              (fun i => (s.lock i).page_id == (s.lock c.m_wait_lock).page_id)
              (on_rec s (s.lock c.m_wait_lock).page_id hn) (s.hash k) f0
              (fun x hx => by simpa using (on_rec_page hx).1) hf0
              (by unfold on_rec; simp [hbit])
            rw [e] at hqf
            exact hqf
        simp only [List.head?_cons, hlock, hnw hw1, Bool.false_eq_true, if_false, if_neg hne]
        exact ⟨_, rfl⟩
theorem wait_queue_length_le (s : lock_sys_t) (L w : Nat)
    (hL : ∀ k, (s.hash k).length ≤ L) (hT : ∀ t, (s.tbl t).locks.length ≤ L) :
    (wait_queue s w).length ≤ L := by
  unfold wait_queue
  split
  · exact hT _
  · split
    · exact Nat.zero_le _
    · unfold lock_rec_queue lock_sys_t.page_chain
      exact le_trans (List.length_filter_le _ _)
        (le_trans (List.length_filter_le _ _) (hL _))

theorem search_iter_no_abort (E : Env) {s0 : lock_sys_t} (wf : waits_wf s0)
    (hh : queue_heads s0) (x : DeadlockChecker.loop_state) (I : search_pos s0 x) :
    DeadlockChecker.search_iter E x ≠ none := by
  have hmarks := I.marks
  unfold DeadlockChecker.search_iter
  generalize DeadlockChecker.unwind x.s x.c.s_states x.c x.lock x.heap_no = u
  obtain ⟨c, l, h⟩ := u
  cases l with
  | none => simp
  | some lock =>
    dsimp only
    split
    · simp
    · split
      · simp
      · split
        · simp
        · split
          · simp
          · split
            · rename_i w1 hw
              split
              · unfold DeadlockChecker.push
                by_cases h6 : ({ c with m_cost := c.m_cost + 1 } : DeadlockChecker).m_n_elems
                    ≥ E.MAX_STACK_SIZE
                · rw [if_pos h6]
                  simp
                · rw [if_neg h6]
                  dsimp only
                  have hw0 : (s0.trx (x.s.lock lock).trx).wait_lock = some w1 := by
                    rw [← only_marks_wait_lock hmarks]; exact hw
                  obtain ⟨f, f1, f2, f3⟩ := hh _ _ hw0
                  have wfs := waits_wf_of_only_marks hmarks wf
                  obtain ⟨hn, hg⟩ := get_first_lock_of_head wfs
                    { c with
                      m_cost := c.m_cost + 1,
                      s_states := { m_lock := lock, m_wait_lock := c.m_wait_lock,
                                    m_heap_no := h } :: c.s_states,
                      m_wait_lock := w1 } f
                    (by rw [only_marks_wait_queue hmarks]; exact f1) f2
                    (by rw [only_marks_lock hmarks, only_marks_lock hmarks]; exact f3)
                  rw [hg]
                  dsimp only
                  split <;> simp
              · simp
            · simp

theorem search_iter_result (E : Env) {s0 : lock_sys_t} (wf : waits_wf s0) (L : Nat)
    (x : DeadlockChecker.loop_state) (I : search_pos s0 x)
    (r : Option Nat) (c1 : DeadlockChecker) (s1 : lock_sys_t)
    (h : DeadlockChecker.search_iter E x = some (Sum.inl (r, c1, s1))) :
    s1 = x.s ∧ (r = none → c1.s_states = [])
    ∧ (∀ v, r = some v →
        (c1.m_too_deep = true ∧ v = c1.m_start)
        ∨ v = DeadlockChecker.select_victim s1 c1) := by
  have hu := unwind_pos wf L x.c.s_states x.c x.lock x.heap_no rfl I
  unfold DeadlockChecker.search_iter at h
  revert hu h
  generalize DeadlockChecker.unwind x.s x.c.s_states x.c x.lock x.heap_no = u
  obtain ⟨c, l, hn⟩ := u
  intro h hu
  obtain ⟨_, _, hstack⟩ := hu
  dsimp only at hstack
  cases l with
  | none =>
    simp only [Option.some.injEq, Sum.inl.injEq, Prod.mk.injEq] at h
    obtain ⟨e1, e2, e3⟩ := h
    subst e1 e2 e3
    exact ⟨rfl, fun _ => hstack rfl, fun v hv => by cases hv⟩
  | some lock =>
    dsimp only at h
    split at h
    · simp at h
    · split at h
      · simp at h
      · split at h
        · simp only [Option.some.injEq, Sum.inl.injEq, Prod.mk.injEq] at h
          obtain ⟨e1, e2, e3⟩ := h
          subst e1 e2 e3
          exact ⟨rfl, (fun e => by cases e), fun v hv => Or.inr (Option.some.inj hv).symm⟩
        · split at h
          · simp only [Option.some.injEq, Sum.inl.injEq, Prod.mk.injEq] at h
            obtain ⟨e1, e2, e3⟩ := h
            subst e1 e2 e3
            exact ⟨rfl, (fun e => by cases e),
              fun v hv => Or.inl ⟨rfl, (Option.some.inj hv).symm⟩⟩
          · split at h
            · split at h
              · split at h
                · simp only [Option.some.injEq, Sum.inl.injEq, Prod.mk.injEq] at h
                  obtain ⟨e1, e2, e3⟩ := h
                  subst e1 e2 e3
                  exact ⟨rfl, (fun e => by cases e),
                    fun v hv => Or.inl ⟨rfl, (Option.some.inj hv).symm⟩⟩
                · split at h
                  · simp at h
                  · split at h <;> simp at h
              · simp at h
            · simp at h

theorem search_reach_pos (E : Env) {s0 : lock_sys_t} (wf : waits_wf s0) (L : Nat)
    (hL : ∀ w, (wait_queue s0 w).length ≤ L) (x0 x : DeadlockChecker.loop_state)
    (h : Relation.ReflTransGen (DeadlockChecker.search_turn E) x0 x)
    (I : search_pos s0 x0) :
    search_pos s0 x ∧ x0.s.s_lock_mark_counter ≤ x.s.s_lock_mark_counter := by
  induction h with
  | refl => exact ⟨I, le_refl _⟩
  | tail _ hyz ih =>
    obtain ⟨a, _, b⟩ := search_iter_measure E wf L hL _ ih.1 _ hyz
    exact ⟨a, le_trans ih.2 b⟩

theorem search_reaches_return (E : Env) {s0 : lock_sys_t} (wf : waits_wf s0)
    (hh : queue_heads s0) (L : Nat) (hL : ∀ w, (wait_queue s0 w).length ≤ L) (n : Nat) :
    ∀ x, search_pos s0 x → search_measure s0 L x ≤ n →
      ∃ y r, Relation.ReflTransGen (DeadlockChecker.search_turn E) x y
        ∧ DeadlockChecker.search_iter E y = some (Sum.inl r) := by
  induction n with
  | zero =>
    intro x I hx
    cases hi : DeadlockChecker.search_iter E x with
    | none => exact absurd hi (search_iter_no_abort E wf hh x I)
    | some v =>
      cases v with
      | inl r => exact ⟨x, r, Relation.ReflTransGen.refl, hi⟩
      | inr y =>
        have := (search_iter_measure E wf L hL x I y hi).2.1
        omega
  | succ n ih =>
    intro x I hx
    cases hi : DeadlockChecker.search_iter E x with
    | none => exact absurd hi (search_iter_no_abort E wf hh x I)
    | some v =>
      cases v with
      | inl r => exact ⟨x, r, Relation.ReflTransGen.refl, hi⟩
      | inr y =>
        obtain ⟨a, b, _⟩ := search_iter_measure E wf L hL x I y hi
        obtain ⟨z, r, hz, hr⟩ := ih y a (by omega)
        exact ⟨z, r, Relation.ReflTransGen.head hi hz, hr⟩
theorem queue_heads_deadlock_state : queue_heads deadlock_state := by
  intro t w h
  by_cases h1 : t = 1
  · subst h1
    have e : w = 5 := by
      simp [deadlock_state, lock_sys_t.trx] at h; exact h.symm
    subst e
    exact ⟨1, by decide, by decide, fun _ => by decide⟩
  · by_cases h2 : t = 2
    · subst h2
      have e : w = 3 := by
        simp [deadlock_state, lock_sys_t.trx] at h; exact h.symm
      subst e
      exact ⟨2, by decide, by decide, fun _ => by decide⟩
    · by_cases h3 : t = 3
      · subst h3
        have e : w = 4 := by
          simp [deadlock_state, lock_sys_t.trx] at h; exact h.symm
        subst e
        exact ⟨0, by decide, by decide, fun _ => by decide⟩
      · simp [deadlock_state, lock_sys_t.trx, h1, h2, h3] at h

/-- C31: on a lock table whose hash chains and table lists have at most
`L` locks and whose queues are consistent (`waits_wf`, and every waiting
lock stands behind another lock, the first lock of a record queue not
waiting), `DeadlockChecker::search`, started with an empty stack for a
wait lock of a transaction, returns: there is an amount of fuel from which
on the result is the same.  The result is NULL, and then the stack is
empty, or the joining transaction with `m_too_deep` set, or the victim that
`select_victim` chooses.  The mark counter `s_lock_mark_counter` is not
smaller at the return than at the start, and no turn of the loop decreases
it. -/
theorem search_terminates (E : Env) (s : lock_sys_t) (c : DeadlockChecker) (L : Nat)
    (wf : waits_wf s) (hh : queue_heads s)
    (hL : ∀ k, (s.hash k).length ≤ L) (hT : ∀ t, (s.tbl t).locks.length ≤ L)
    (hw : ∃ t, (s.trx t).wait_lock = some c.m_wait_lock)
    (hst : c.s_states = []) (hc : c.m_cost ≤ 1000001) :
    (∃ n r c1 s1,
      (∀ fuel, n ≤ fuel → DeadlockChecker.search E fuel s c = some (r, c1, s1))
      ∧ (r = none → c1.m_n_elems = 0)
      ∧ (∀ v, r = some v →
          (c1.m_too_deep = true ∧ v = c.m_start)
          ∨ v = DeadlockChecker.select_victim s1 c1)
      ∧ s.s_lock_mark_counter ≤ s1.s_lock_mark_counter)
    ∧ ∀ lock heap_no, DeadlockChecker.get_first_lock s c = some (lock, heap_no) →
        ∀ x y, Relation.ReflTransGen (DeadlockChecker.search_turn E)
            ⟨s, c, some lock, heap_no⟩ x →
          DeadlockChecker.search_turn E x y →
          x.s.s_lock_mark_counter ≤ y.s.s_lock_mark_counter := by
  obtain ⟨t, ht⟩ := hw
  obtain ⟨f, f1, f2, f3⟩ := hh t _ ht
  obtain ⟨hn, hg⟩ := get_first_lock_of_head wf c f f1 f2 f3
  have hLq : ∀ w, (wait_queue s w).length ≤ L := fun w => wait_queue_length_le s L w hL hT
  have I0 : search_pos s ⟨s, c, some f, hn⟩ := by
    refine ⟨only_marks_refl s, hc, ?_, ?_⟩
    · intro st hst1
      rw [hst] at hst1
      cases hst1
    · intro l hl
      cases hl
      exact ⟨List.mem_of_mem_head? f1, (get_first_lock_spec wf c f hn hg).2.1⟩
  constructor
  · obtain ⟨y, r, hy, hr⟩ := search_reaches_return E wf hh L hLq _ _ I0 (le_refl _)
    obtain ⟨n, hn1⟩ := search_loop_reach E _ y r hy hr
    obtain ⟨rv, c1, s1⟩ := r
    obtain ⟨Iy, hcnt⟩ := search_reach_pos E wf L hLq _ y hy I0
    obtain ⟨e1, e2, e3⟩ := search_iter_result E wf L y Iy rv c1 s1 hr
    have h1 : (⟨s, c, some f, hn⟩ : DeadlockChecker.loop_state).c.s_states.length ≤ 201 := by
      show c.s_states.length ≤ 201
      rw [hst]; simp
    obtain ⟨a, b, d, _⟩ := search_reach_limits E _ y hy h1 hc
    have hms : c1.m_start = c.m_start :=
      (((search_iter_limits E y a b).2 rv c1 s1 hr).2.2.1).trans d
    refine ⟨n, rv, c1, s1, ?_, ?_, ?_, ?_⟩
    · intro fuel hf
      unfold DeadlockChecker.search
      rw [hg]
      exact hn1 fuel hf
    · intro hr0
      unfold DeadlockChecker.m_n_elems
      rw [e2 hr0]
      rfl
    · intro v hv
      rcases e3 v hv with ⟨k1, k2⟩ | k
      · exact Or.inl ⟨k1, k2.trans hms⟩
      · exact Or.inr k
    · rw [e1]
      exact hcnt
  · intro lock heap_no hg2 x y hx hxy
    rw [hg] at hg2
    simp only [Option.some.injEq, Prod.mk.injEq] at hg2
    obtain ⟨k1, k2⟩ := hg2
    subst k1 k2
    obtain ⟨Ix, _⟩ := search_reach_pos E wf L hLq _ x hx I0
    exact (search_iter_measure E wf L hLq x Ix y hxy).2.2

theorem search_terminates_witness :
    waits_wf deadlock_state ∧ queue_heads deadlock_state
    ∧ (deadlock_state.trx 1).wait_lock = some 5
    ∧ ∃ n r c1 s1,
      (∀ fuel, n ≤ fuel →
        DeadlockChecker.search env_ordering fuel deadlock_state
          (joining_checker deadlock_state 5 1) = some (r, c1, s1))
      ∧ (r = none → c1.m_n_elems = 0)
      ∧ (∀ v, r = some v →
          (c1.m_too_deep = true ∧ v = 1) ∨ v = DeadlockChecker.select_victim s1 c1)
      ∧ deadlock_state.s_lock_mark_counter ≤ s1.s_lock_mark_counter :=
  ⟨waits_wf_deadlock_state, queue_heads_deadlock_state, by decide,
    (search_terminates env_ordering deadlock_state (joining_checker deadlock_state 5 1) 6
      waits_wf_deadlock_state queue_heads_deadlock_state
      (by intro k; cases k <;> decide) (by intro t; simp only [deadlock_state, lock_sys_t.tbl]; split <;> exact Nat.zero_le 6) ⟨1, by decide⟩ rfl
      (by decide)).1⟩

/-- The installation of a lock object `l` of `trx` at the address `L`,
which is the next free address or the address of an allocated lock that
is not waiting (for a lock that is not waiting), as the last lock of the
lock list of `trx`, keeps the invariant. -/
theorem wait_ok_install {s s1 : lock_sys_t} (L trx : Nat) (l : lock_t) (hi : wait_ok s)
    (hn : s.n_locks ≤ s1.n_locks) (hL : L < s1.n_locks)
    (hfresh : L = s.n_locks
      ∨ (L < s.n_locks ∧ (s.lock L).is_waiting = false ∧ l.is_waiting = false))
    (hlock : ∀ j, s1.lock j = if j = L then l else s.lock j)
    (hltrx : l.trx = trx)
    (hbits : l.is_waiting = true → ∀ i j, lock_rec_get_nth_bit l i = true →
      lock_rec_get_nth_bit l j = true → i = j)
    (hwl : ∀ t, (s1.trx t).wait_lock
      = if t = trx ∧ l.is_waiting = true then some L else (s.trx t).wait_lock)
    (hlist : ∀ t, (s1.trx t).trx_locks
      = if t = trx then (s.trx t).trx_locks ++ [L] else (s.trx t).trx_locks)
    (hauto : ∀ t g, some g ∈ (s1.trx t).autoinc_locks →
      some g ∈ (s.trx t).autoinc_locks ∨ (g = L ∧ l.is_waiting = false))
    (hnw : l.is_waiting = true → (s.trx trx).wait_lock = none) : wait_ok s1 := by
  have hne : ∀ g, g < s.n_locks → (s.lock g).is_waiting = true → g ≠ L := by
    intro g hg hw e
    subst e
    rcases hfresh with a | a
    · omega
    · rw [a.2.1] at hw; cases hw
  have hwcase : ∀ t w, (s1.trx t).wait_lock = some w →
      (t = trx ∧ l.is_waiting = true ∧ w = L)
      ∨ ((s.trx t).wait_lock = some w ∧ w ≠ L ∧ ¬ (t = trx ∧ l.is_waiting = true)) := by
    intro t w hw
    rw [hwl] at hw
    split at hw
    · rename_i e
      cases hw
      exact Or.inl ⟨e.1, e.2, rfl⟩
    · rename_i e
      exact Or.inr ⟨hw, hne w (hi.inv.1 t w hw).1 (hi.inv.2.2 t w hw), e⟩
  have hmem : ∀ t g, g ∈ (s1.trx t).trx_locks →
      g ∈ (s.trx t).trx_locks ∨ (t = trx ∧ g = L) := by
    intro t g hg
    rw [hlist] at hg
    split at hg
    · rename_i e
      simp only [List.mem_append, List.mem_singleton] at hg
      rcases hg with a | a
      · exact Or.inl a
      · exact Or.inr ⟨e, a⟩
    · exact Or.inl hg
  have hmem1 : ∀ t g, g ∈ (s.trx t).trx_locks → g ∈ (s1.trx t).trx_locks := by
    intro t g hg
    rw [hlist]
    split
    · simp only [List.mem_append]
      exact Or.inl hg
    · exact hg
  refine ⟨⟨?_, ?_, ?_⟩, ?_, ?_, ?_, ?_, ?_⟩
  · intro t w hw
    rw [hlock]
    rcases hwcase t w hw with ⟨a, _, c⟩ | ⟨a, c, _⟩
    · subst c
      rw [if_pos rfl]
      exact ⟨hL, by rw [hltrx, a]⟩
    · rw [if_neg c]
      have := hi.inv.1 t w a
      exact ⟨Nat.lt_of_lt_of_le this.1 hn, this.2⟩
  · intro g hg
    rw [hlock] at hg ⊢
    by_cases e : g = L
    · subst e
      rw [if_pos rfl] at hg ⊢
      rw [hltrx, hwl, if_pos ⟨rfl, hg⟩]
    · rw [if_neg e] at hg ⊢
      have h1 := hi.inv.2.1 g hg
      rw [hwl]
      split
      · rename_i e1
        rw [e1.1, hnw e1.2] at h1
        cases h1
      · exact h1
  · intro t w hw
    rw [hlock]
    rcases hwcase t w hw with ⟨_, a, c⟩ | ⟨a, c, _⟩
    · subst c
      rw [if_pos rfl]
      exact a
    · rw [if_neg c]
      exact hi.inv.2.2 t w a
  · intro t w hw
    rcases hwcase t w hw with ⟨a, _, c⟩ | ⟨a, _, _⟩
    · subst a; subst c
      rw [hlist, if_pos rfl]
      simp
    · exact hmem1 t w (hi.listed t w a)
  · intro t g hg hw
    rw [hlock] at hw ⊢
    by_cases e : g = L
    · subst e
      rw [if_pos rfl] at hw ⊢
      rw [hltrx]
      rcases hmem t g hg with a | ⟨a, _⟩
      · have hlt := hi.alloc t g a
        rcases hfresh with f | f
        · omega
        · rw [f.2.2] at hw; cases hw
      · exact a.symm
    · rw [if_neg e] at hw ⊢
      rcases hmem t g hg with a | ⟨_, c⟩
      · exact hi.owner t g a hw
      · exact absurd c e
  · intro t g hg
    rcases hmem t g hg with a | ⟨_, c⟩
    · exact Nat.lt_of_lt_of_le (hi.alloc t g a) hn
    · rw [c]; exact hL
  · intro t g hg
    rw [hlock]
    rcases hauto t g hg with a | ⟨a, c⟩
    · obtain ⟨b, d⟩ := hi.autoinc t g a
      refine ⟨Nat.lt_of_lt_of_le b hn, ?_⟩
      split
      · rename_i e
        subst e
        rcases hfresh with f | f
        · omega
        · exact f.2.2
      · exact d
    · subst a
      rw [if_pos rfl]
      exact ⟨hL, c⟩
  · intro g hw i j hbi hbj
    rw [hlock] at hw hbi hbj
    by_cases e : g = L
    · rw [if_pos e] at hw hbi hbj
      exact hbits hw i j hbi hbj
    · rw [if_neg e] at hw hbi hbj
      exact hi.one_bit g hw i j hbi hbj

theorem default_lock_no_bit (i : Nat) :
    lock_rec_get_nth_bit (default : lock_t) i = false := rfl

theorem lock_table_create_fresh (s : lock_sys_t) (table : Nat) (tm : type_mode_t)
    (trx : Nat) (hne : tm ≠ { mode := LOCK_AUTO_INC }) :
    (lock_table_create s table tm trx).1 = s.n_locks
    ∧ (lock_table_create s table tm trx).2.n_locks = s.n_locks + 1
    ∧ (∀ j, (lock_table_create s table tm trx).2.lock j
        = if j = s.n_locks then
            { (default : lock_t) with
              type_mode := { tm with table := true }, trx := trx, table := table }
          else s.lock j)
    ∧ (∀ t, ((lock_table_create s table tm trx).2.trx t).wait_lock
        = if t = trx ∧ tm.wait = true then some s.n_locks else (s.trx t).wait_lock)
    ∧ (∀ t, ((lock_table_create s table tm trx).2.trx t).trx_locks
        = if t = trx then (s.trx t).trx_locks ++ [s.n_locks] else (s.trx t).trx_locks)
    ∧ (∀ t, ((lock_table_create s table tm trx).2.trx t).autoinc_locks
        = (s.trx t).autoinc_locks) := by
  unfold lock_table_create
  cases hw : tm.wait <;> cases hm : tm.mode <;>
    simp only [hne, if_false, lock_sys_t.alloc_lock, if_true, Bool.false_eq_true]
  all_goals
    refine ⟨by simp [lock_sys_t.set_tbl], by simp [lock_sys_t.alloc_state, lock_sys_t.set_tbl,
      lock_sys_t.set_lock, lock_sys_t.set_trx], ?_, ?_, ?_, ?_⟩
    · intro j
      by_cases e : j = s.n_locks <;>
        simp [e, lock_sys_t.alloc_state, lock_sys_t.set_tbl, lock_sys_t.set_lock,
          lock_sys_t.set_trx, lock_sys_t.lock, lock_sys_t.trx, Function.update]
    · intro t
      by_cases e : t = trx <;>
        simp [e, lock_sys_t.alloc_state, lock_sys_t.set_tbl, lock_sys_t.set_lock,
          lock_sys_t.set_trx, lock_sys_t.lock, lock_sys_t.trx, Function.update]
    · intro t
      by_cases e : t = trx <;>
        simp [e, lock_sys_t.alloc_state, lock_sys_t.set_tbl, lock_sys_t.set_lock,
          lock_sys_t.set_trx, lock_sys_t.lock, lock_sys_t.trx, Function.update]
    · intro t
      by_cases e : t = trx <;>
        simp [e, lock_sys_t.alloc_state, lock_sys_t.set_tbl, lock_sys_t.set_lock,
          lock_sys_t.set_trx, lock_sys_t.lock, lock_sys_t.trx, Function.update]

theorem lock_table_create_autoinc (s : lock_sys_t) (table : Nat) (trx : Nat) :
    (lock_table_create s table { mode := LOCK_AUTO_INC } trx).1 = (s.tbl table).autoinc_lock
    ∧ (lock_table_create s table { mode := LOCK_AUTO_INC } trx).2.n_locks = s.n_locks
    ∧ (∀ j, (lock_table_create s table { mode := LOCK_AUTO_INC } trx).2.lock j
        = if j = (s.tbl table).autoinc_lock then
            { s.lock (s.tbl table).autoinc_lock with
              type_mode := { mode := LOCK_AUTO_INC, table := true }, trx := trx,
              table := table }
          else s.lock j)
    ∧ (∀ t, ((lock_table_create s table { mode := LOCK_AUTO_INC } trx).2.trx t).wait_lock
        = (s.trx t).wait_lock)
    ∧ (∀ t, ((lock_table_create s table { mode := LOCK_AUTO_INC } trx).2.trx t).trx_locks
        = if t = trx then (s.trx t).trx_locks ++ [(s.tbl table).autoinc_lock]
          else (s.trx t).trx_locks)
    ∧ (∀ t, ((lock_table_create s table { mode := LOCK_AUTO_INC } trx).2.trx t).autoinc_locks
        = if t = trx then (s.trx t).autoinc_locks ++ [some (s.tbl table).autoinc_lock]
          else (s.trx t).autoinc_locks) := by
  unfold lock_table_create
  simp only [if_true]
  refine ⟨by simp, by simp, ?_, ?_, ?_, ?_⟩
  · intro j
    by_cases e : j = (s.tbl table).autoinc_lock <;> simp [e]
  · intro t
    by_cases e : t = trx <;> simp [e]
  · intro t
    by_cases e : t = trx <;> simp [e]
  · intro t
    by_cases e : t = trx <;> simp [e]

theorem table_lock_no_bit (l : lock_t) (tm : type_mode_t) (trx table i : Nat)
    (h : l.bitmap = []) :
    lock_rec_get_nth_bit { l with type_mode := tm, trx := trx, table := table } i = false := by
  unfold lock_rec_get_nth_bit
  simp [h]

theorem wait_ok_table_create_fresh (s : lock_sys_t) (table : Nat) (tm : type_mode_t)
    (trx : Nat) (hi : wait_ok s) (hne : tm ≠ { mode := LOCK_AUTO_INC })
    (hnw : tm.wait = true → (s.trx trx).wait_lock = none) :
    wait_ok (lock_table_create s table tm trx).2 := by
  obtain ⟨_, a2, a3, a4, a5, a6⟩ := lock_table_create_fresh s table tm trx hne
  refine wait_ok_install s.n_locks trx
    ({ (default : lock_t) with
      type_mode := { tm with table := true }, trx := trx, table := table })
    hi (by omega) (by omega) (Or.inl rfl) a3 rfl ?_ a4 a5 ?_ hnw
  · intro _ i j hb
    rw [table_lock_no_bit _ _ _ _ _ rfl] at hb
    cases hb
  · intro t g hg
    rw [a6] at hg
    exact Or.inl hg

theorem wait_ok_table_create_autoinc (s : lock_sys_t) (table trx : Nat) (hi : wait_ok s)
    (ha : (s.tbl table).autoinc_lock < s.n_locks)
    (hw : (s.lock (s.tbl table).autoinc_lock).is_waiting = false) :
    wait_ok (lock_table_create s table { mode := LOCK_AUTO_INC } trx).2 := by
  obtain ⟨_, a2, a3, a4, a5, a6⟩ := lock_table_create_autoinc s table trx
  refine wait_ok_install (s.tbl table).autoinc_lock trx
    ({ s.lock (s.tbl table).autoinc_lock with
      type_mode := { mode := LOCK_AUTO_INC, table := true }, trx := trx, table := table })
    hi (by omega) (by omega) (Or.inr ⟨ha, hw, rfl⟩) a3 rfl ?_ ?_ a5 ?_ ?_
  · intro h
    cases h
  · intro t
    rw [a4]
    have : ¬ (t = trx ∧ ({ s.lock (s.tbl table).autoinc_lock with
        type_mode := { mode := LOCK_AUTO_INC, table := true }, trx := trx,
        table := table } : lock_t).is_waiting = true) := by
      rintro ⟨_, h⟩
      cases h
    rw [if_neg this]
  · intro t g hg
    rw [a6] at hg
    split at hg
    · rcases List.mem_append.mp hg with h | h
      · exact Or.inl (by subst_vars; exact h)
      · simp only [List.mem_singleton, Option.some.injEq] at h
        exact Or.inr ⟨h, rfl⟩
    · exact Or.inl hg
  · intro h
    cases h

theorem wait_ok_table_enqueue_waiting (E : Env) (fuel : Nat) (s : lock_sys_t)
    (mode : type_mode_t) (table thr : Nat) (err : dberr_t) (s1 : lock_sys_t)
    (hi : wait_ok s) (hnw : (s.trx thr).wait_lock = none)
    (h : lock_table_enqueue_waiting E fuel s mode table thr = some (err, s1)) :
    wait_ok s1 := by
  have hne : ({ mode with wait := true } : type_mode_t) ≠ { mode := LOCK_AUTO_INC } := by
    intro e
    have := congrArg type_mode_t.wait e
    cases this
  obtain ⟨b1, _, b3, b4, _, _⟩ := lock_table_create_fresh s table { mode with wait := true }
    thr hne
  have hc := wait_ok_table_create_fresh s table { mode with wait := true } thr hi hne
    (fun _ => hnw)
  unfold lock_table_enqueue_waiting at h
  dsimp only at h
  rw [b1] at h
  have hwl : ((lock_table_create s table { mode with wait := true } thr).2.trx thr).wait_lock
      = some s.n_locks := by
    rw [b4, if_pos ⟨rfl, rfl⟩]
  have hown : ((lock_table_create s table { mode with wait := true } thr).2.lock
      s.n_locks).trx = thr := by
    rw [b3, if_pos rfl]
  split at h
  · cases h
  · rename_i x s2 hr
    have fr := release_frame_check_and_resolve E fuel _ _ _ _ _ hc hr
    have h2 := wait_ok_of_release_frame fr hc
    simp only [Option.map_eq_some'] at h
    obtain ⟨s3, h3, he⟩ := h
    cases he
    obtain ⟨c1, c2, c3, _⟩ := lock_table_remove_low_frame s2 s3 s.n_locks h3
    have hown2 : (s2.lock s.n_locks).trx = thr := by
      rw [wait_release_trx_eq fr.rel, hown]
    have d1 : dequeue_frame thr s2 s3 := by
      have := dequeue_frame_of_erase s.n_locks c1 c2 c3
        (lock_table_remove_low_lists s2 s3 s.n_locks h3).2
        (lock_table_remove_low_autoinc_mem s2 s3 s.n_locks h3)
      rw [hown2] at this
      exact this
    have hown3 : (s3.lock s.n_locks).trx = thr := by rw [c2, hown2]
    have d2 : release_frame s3 (lock_reset_lock_and_trx_wait s3 s.n_locks) := by
      apply release_frame_reset
      intro w1 hw1
      rw [hown3, c3] at hw1
      have := wait_release_wait_lock_some fr.rel thr w1 hw1
      rw [hwl] at this
      exact (Option.some.inj this).symm
    have dall := dequeue_frame_trans d1 (dequeue_frame_of_release thr d2)
    have rall := release_frame_of_dequeue dall (by
      have := lock_reset_wait_lock s3 s.n_locks
      rw [hown3] at this
      exact this)
    exact wait_ok_of_release_frame rall h2
  · rename_i s2 hr
    have fr := release_frame_check_and_resolve E fuel _ _ _ _ _ hc hr
    have h2 := wait_ok_of_release_frame fr hc
    split at h
    · cases h; exact h2
    · cases h
      exact wait_ok_of_release_frame (release_frame_set_trx s2 _ _ rfl rfl rfl) h2

theorem wait_ok_lock_table (E : Env) (fuel : Nat) (s : lock_sys_t) (flags table : Nat)
    (mode : lock_mode) (thr : Nat) (err : dberr_t) (s1 : lock_sys_t) (hi : wait_ok s)
    (hnw : (s.trx thr).wait_lock = none)
    (ha : mode = LOCK_AUTO_INC → (s.tbl table).autoinc_lock < s.n_locks
      ∧ (s.lock (s.tbl table).autoinc_lock).is_waiting = false)
    (h : lock_table E fuel s flags table mode thr = some (err, s1)) : wait_ok s1 := by
  unfold lock_table at h
  split at h
  · cases h; exact hi
  · split at h
    · cases h
    · dsimp only at h
      split at h
      · cases h; exact hi
      · have hs1 : ∀ s0 : lock_sys_t,
            s0 = (if ((mode = LOCK_IX || mode = LOCK_X) && !(s.trx thr).read_only
                && !(s.trx thr).rseg_assigned) = true then
              s.set_trx thr { s.trx thr with rseg_assigned := true } else s) →
            wait_ok s0 ∧ (s0.trx thr).wait_lock = none ∧ s0.n_locks = s.n_locks
              ∧ (∀ g, s0.lock g = s.lock g) ∧ (∀ t, s0.tbl t = s.tbl t) := by
          intro s0 e
          rw [e]
          split
          · refine ⟨wait_ok_of_release_frame (release_frame_set_trx s _ _ rfl rfl rfl) hi,
              ?_, by simp, by simp, by simp⟩
            simp only [lock_sys_t.trx_set_trx, if_true]
            exact hnw
          · exact ⟨hi, hnw, rfl, fun _ => rfl, fun _ => rfl⟩
        generalize hg : (if ((mode = LOCK_IX || mode = LOCK_X) && !(s.trx thr).read_only
                && !(s.trx thr).rseg_assigned) = true then
              s.set_trx thr { s.trx thr with rseg_assigned := true } else s) = s0 at h
        obtain ⟨i0, w0, n0, l0, t0⟩ := hs1 s0 hg.symm
        split at h
        · exact wait_ok_table_enqueue_waiting E fuel s0 _ table thr err s1 i0 w0 h
        · cases h
          by_cases hm : mode = LOCK_AUTO_INC
          · subst hm
            obtain ⟨a1, a2⟩ := ha rfl
            exact wait_ok_table_create_autoinc s0 table thr i0 (by rw [t0, n0]; exact a1)
              (by rw [t0, l0]; exact a2)
          · apply wait_ok_table_create_fresh s0 table _ thr i0
            · intro e
              exact hm (congrArg type_mode_t.mode e)
            · intro e
              cases e

theorem list_end_recs_cons (new_block : buf_block_t) (lock : Nat) (tm : type_mode_t)
    (s : lock_sys_t) (h1 : Nat) (recs1 : List Nat) (h2 : Nat) (recs2 : List Nat)
    (hs : h1 ≠ PAGE_HEAP_NO_SUPREMUM) :
    lock_move_rec_list_end_recs new_block lock tm s (h1 :: recs1) (h2 :: recs2)
      = lock_move_rec_list_end_recs new_block lock tm
          (lock_move_rec_fire new_block lock tm s h1 h2) recs1 recs2 := by
  rw [lock_move_rec_list_end_recs]
  rw [if_neg hs]
  rfl

theorem waiting_lt_n_locks {s : lock_sys_t} (hi : wait_ok s) (g : Nat)
    (hg : (s.lock g).is_waiting = true) : g < s.n_locks :=
  (hi.inv.1 _ g (hi.inv.2.1 g hg)).1

theorem get_nth_bit_reset_self (l : lock_t) (h : Nat) :
    lock_rec_get_nth_bit (lock_rec_reset_nth_bit l h) h = false := by
  rw [get_nth_bit_reset_eq]; simp

theorem wait_ok_requeue_state (s1 : lock_sys_t) (lock : Nat) (hi : wait_ok s1)
    (hwait : (s1.lock lock).is_waiting = true)
    (hone : ∀ i, lock_rec_get_nth_bit (s1.lock lock) i = false)
    (S2 : lock_sys_t) (tm : type_mode_t) (new_block : buf_block_t) (h2 : Nat)
    (index : dict_index_t) (trx : Nat)
    (hS2 : S2 = s1.set_lock lock
      { s1.lock lock with type_mode := { (s1.lock lock).type_mode with wait := false } })
    (htm : tm = (s1.lock lock).type_mode) (htrx : trx = (s1.lock lock).trx) :
    wait_ok (lock_rec_add_to_queue S2 tm new_block h2 index trx false)
      ∧ ∀ i, lock_rec_get_nth_bit
          ((lock_rec_add_to_queue S2 tm new_block h2 index trx false).lock lock) i = false := by
  have hw : tm.wait = true := by rw [htm]; exact hwait
  have hlt := waiting_lt_n_locks hi lock hwait
  subst hS2
  rcases lock_rec_add_to_queue_cases
    (s1.set_lock lock
      { s1.lock lock with type_mode := { (s1.lock lock).type_mode with wait := false } })
    tm new_block h2 index trx false with ⟨g, _, _, _, _, h5, _⟩ | h
  · rw [supremum_type_mode_wait, hw] at h5
    cases h5
  · rw [h]
    constructor
    · rw [htrx]
      exact wait_ok_requeue s1 lock _ new_block h2 index false hi hwait
        (by rw [supremum_type_mode_wait]; exact hw)
    · intro i
      rw [(lock_rec_create_general _ _ _ _ _ _ _).2.1]
      rw [if_neg (by simp; omega)]
      simp only [lock_sys_t.lock_set_lock, if_true]
      exact hone i

theorem wait_ok_move_rec_fire (new_block : buf_block_t) (lock : Nat) (tm : type_mode_t)
    (s : lock_sys_t) (h1 h2 : Nat) (hi : wait_ok s) (hJ : move_lock_inv lock tm s) :
    wait_ok (lock_move_rec_fire new_block lock tm s h1 h2)
      ∧ move_lock_inv lock tm (lock_move_rec_fire new_block lock tm s h1 h2) := by
  unfold lock_move_rec_fire
  by_cases hf : (decide (h1 < lock_rec_get_n_bits (s.lock lock))
      && lock_rec_get_nth_bit (s.lock lock) h1) = true
  · rw [if_pos hf]
    have hb : lock_rec_get_nth_bit (s.lock lock) h1 = true := by
      simp only [Bool.and_eq_true] at hf; exact hf.2
    have h1ok : wait_ok (s.set_lock lock (lock_rec_reset_nth_bit (s.lock lock) h1)) :=
      wait_ok_set_lock s lock (lock_rec_reset_nth_bit (s.lock lock) h1) hi rfl rfl
        (fun _ i hb => get_nth_bit_reset_le _ _ _ hb)
    by_cases hw : tm.wait = true
    · have htm : (s.lock lock).type_mode = tm := by
        rcases hJ hw with e | e
        · exact e
        · rw [e h1] at hb; cases hb
      have hwait : (s.lock lock).is_waiting = true := by
        show (s.lock lock).type_mode.wait = true
        rw [htm]; exact hw
      dsimp only
      rw [if_pos hw]
      have hone : ∀ i, lock_rec_get_nth_bit
          ((s.set_lock lock (lock_rec_reset_nth_bit (s.lock lock) h1)).lock lock) i = false := by
        intro i
        simp only [lock_sys_t.lock_set_lock, if_true]
        by_cases hih : i = h1
        · rw [hih]; exact get_nth_bit_reset_self _ _
        · cases hbi : lock_rec_get_nth_bit (lock_rec_reset_nth_bit (s.lock lock) h1) i
          · rfl
          · exact absurd (hi.one_bit lock hwait i h1 (get_nth_bit_reset_le _ _ _ hbi) hb) hih
      refine (fun (this : _ ∧ _) => ⟨this.1, fun _ => Or.inr this.2⟩) ?_
      exact wait_ok_requeue_state
        (s.set_lock lock (lock_rec_reset_nth_bit (s.lock lock) h1)) lock h1ok
        (by simpa [lock_rec_reset_nth_bit] using hwait) hone _ tm new_block h2 _ _ rfl
        (by simp [lock_rec_reset_nth_bit, htm]) (by simp [lock_rec_reset_nth_bit])
    · dsimp only
      rw [if_neg hw]
      exact ⟨wait_ok_add_to_queue _ _ _ _ _ _ _ h1ok (fun h => absurd h hw),
        fun h => absurd h hw⟩
  · rw [if_neg hf]
    exact ⟨hi, hJ⟩

theorem wait_ok_list_end_recs (new_block : buf_block_t) (lock : Nat) (tm : type_mode_t) :
    ∀ (recs1 : List Nat) (s : lock_sys_t) (recs2 : List Nat) (s1 : lock_sys_t),
      wait_ok s → move_lock_inv lock tm s →
      lock_move_rec_list_end_recs new_block lock tm s recs1 recs2 = some s1 → wait_ok s1 := by
  intro recs1
  induction recs1 with
  | nil =>
    intro s recs2 s1 _ _ h
    rw [lock_move_rec_list_end_recs] at h
    cases h
  | cons h1 recs1 ih =>
    intro s recs2 s1 hi hJ h
    by_cases hs : h1 = PAGE_HEAP_NO_SUPREMUM
    · unfold lock_move_rec_list_end_recs at h
      rw [if_pos hs] at h
      cases h; exact hi
    · cases recs2 with
      | nil =>
        unfold lock_move_rec_list_end_recs at h
        rw [if_neg hs] at h
        cases h
      | cons h2 recs2 =>
        rw [list_end_recs_cons _ _ _ _ _ _ _ _ hs] at h
        have := wait_ok_move_rec_fire new_block lock tm s h1 h2 hi hJ
        exact ih _ _ _ this.1 this.2 h

theorem wait_ok_list_end_loop (new_block : buf_block_t) (recs1 recs2 : List Nat) :
    ∀ (fuel : Nat) (s : lock_sys_t) (lock : Option Nat) (s1 : lock_sys_t), wait_ok s →
      lock_move_rec_list_end_loop new_block recs1 recs2 fuel s lock = some s1 →
      wait_ok s1 := by
  intro fuel
  induction fuel with
  | zero =>
    intro s lock s1 hi h
    cases lock with
    | none => rw [lock_move_rec_list_end_loop] at h; cases h; exact hi
    | some l => rw [lock_move_rec_list_end_loop] at h; cases h
  | succ n ih =>
    intro s lock s1 hi h
    cases lock with
    | none => rw [lock_move_rec_list_end_loop] at h; cases h; exact hi
    | some l =>
      rw [lock_move_rec_list_end_loop] at h
      cases hr : lock_move_rec_list_end_recs new_block l (s.lock l).type_mode s recs1 recs2 with
      | none => rw [hr] at h; cases h
      | some s2 =>
        rw [hr] at h
        exact ih _ _ _
          (wait_ok_list_end_recs new_block l _ recs1 s recs2 s2 hi (fun _ => Or.inl rfl) hr) h

theorem wait_ok_lock_move_rec_list_end (fuel : Nat) (s : lock_sys_t)
    (new_block block : buf_block_t) (page new_page : List Nat) (rec : Nat)
    (s1 : lock_sys_t) (hi : wait_ok s)
    (h : lock_move_rec_list_end fuel s new_block block page new_page rec = some s1) :
    wait_ok s1 :=
  wait_ok_list_end_loop new_block _ _ fuel s _ s1 hi h

theorem wait_ok_list_start_recs (new_block : buf_block_t) (lock : Nat) (tm : type_mode_t)
    (rec : Nat) :
    ∀ (recs1 : List Nat) (s : lock_sys_t) (recs2 : List Nat) (s1 : lock_sys_t),
      wait_ok s → move_lock_inv lock tm s →
      lock_move_rec_list_start_recs new_block lock tm rec s recs1 recs2 = some s1 →
      wait_ok s1 := by
  intro recs1
  induction recs1 with
  | nil =>
    intro s recs2 s1 _ _ h
    rw [lock_move_rec_list_start_recs] at h
    cases h
  | cons h1 recs1 ih =>
    intro s recs2 s1 hi hJ h
    by_cases hs : h1 = rec
    · unfold lock_move_rec_list_start_recs at h
      rw [if_pos hs] at h
      cases h; exact hi
    · cases recs2 with
      | nil =>
        unfold lock_move_rec_list_start_recs at h
        rw [if_neg hs] at h
        cases h
      | cons h2 recs2 =>
        unfold lock_move_rec_list_start_recs at h
        rw [if_neg hs] at h
        have := wait_ok_move_rec_fire new_block lock tm s h1 h2 hi hJ
        exact ih _ _ _ this.1 this.2 h

theorem wait_ok_list_start_loop (new_block : buf_block_t) (rec : Nat)
    (recs1 recs2 : List Nat) :
    ∀ (fuel : Nat) (s : lock_sys_t) (lock : Option Nat) (s1 : lock_sys_t), wait_ok s →
      lock_move_rec_list_start_loop new_block rec recs1 recs2 fuel s lock = some s1 →
      wait_ok s1 := by
  intro fuel
  induction fuel with
  | zero =>
    intro s lock s1 hi h
    cases lock with
    | none => rw [lock_move_rec_list_start_loop] at h; cases h; exact hi
    | some l => rw [lock_move_rec_list_start_loop] at h; cases h
  | succ n ih =>
    intro s lock s1 hi h
    cases lock with
    | none => rw [lock_move_rec_list_start_loop] at h; cases h; exact hi
    | some l =>
      rw [lock_move_rec_list_start_loop] at h
      cases hr : lock_move_rec_list_start_recs new_block l (s.lock l).type_mode rec s recs1
          recs2 with
      | none => rw [hr] at h; cases h
      | some s2 =>
        rw [hr] at h
        exact ih _ _ _
          (wait_ok_list_start_recs new_block l _ rec recs1 s recs2 s2 hi
            (fun _ => Or.inl rfl) hr) h

theorem wait_ok_lock_move_rec_list_start (fuel : Nat) (s : lock_sys_t)
    (new_block block : buf_block_t) (page new_page : List Nat) (rec old_end : Nat)
    (s1 : lock_sys_t) (hi : wait_ok s)
    (h : lock_move_rec_list_start fuel s new_block block page new_page rec old_end
      = some s1) :
    wait_ok s1 :=
  wait_ok_list_start_loop new_block rec _ _ fuel s _ s1 hi h

theorem queue_loop_invariant_all (I : lock_sys_t → Prop)
    (body : lock_sys_t → Nat → Option lock_sys_t) (heap_no : Nat)
    (hb : ∀ s lock s1, I s → body s lock = some s1 → I s1) :
    ∀ (fuel : Nat) (s : lock_sys_t) (first : Option Nat) (s1 : lock_sys_t), I s →
      lock_rec_queue_loop body heap_no fuel s first = some s1 → I s1 := by
  intro fuel
  induction fuel with
  | zero =>
    intro s first s1 hi h
    cases first with
    | none => rw [lock_rec_queue_loop] at h; cases h; exact hi
    | some l => rw [lock_rec_queue_loop] at h; cases h
  | succ n ih =>
    intro s first s1 hi h
    cases first with
    | none => rw [lock_rec_queue_loop] at h; cases h; exact hi
    | some l =>
      rw [lock_rec_queue_loop] at h
      cases hr : body s l with
      | none => rw [hr] at h; cases h
      | some s2 =>
        rw [hr] at h
        exact ih _ _ _ (hb s l s2 hi hr) h

theorem wait_ok_lock_rec_unlock (E : Env) (fuel : Nat) (s : lock_sys_t) (trx : Nat)
    (block : buf_block_t) (heap_no : Nat) (m : lock_mode) (s1 : lock_sys_t)
    (hi : wait_ok s) (h : lock_rec_unlock E fuel s trx block heap_no m = some s1) :
    wait_ok s1 := by
  unfold lock_rec_unlock at h
  dsimp only at h
  split at h
  · cases h; exact hi
  · rename_i lock _
    split at h
    · cases h
    · refine queue_loop_invariant_all wait_ok _ heap_no ?_ fuel _ _ s1 ?_ h
      · intro s2 g s3 hi2 hb
        cases hb
        exact wait_ok_of_release_frame (release_frame_rec_grant_step E s2 g hi2.inv) hi2
      · exact wait_ok_set_lock s lock _ hi rfl rfl
          (fun _ i hb => get_nth_bit_reset_le _ _ _ hb)

theorem forget_wait_lock (D : Nat → Bool) (s : lock_sys_t) (g : Nat) :
    (forget_wait D s).lock g = s.lock g := rfl

theorem forget_wait_hash (D : Nat → Bool) (s : lock_sys_t) (h : hash_id) :
    (forget_wait D s).hash h = s.hash h := by
  cases h <;> rfl

theorem forget_wait_n_locks (D : Nat → Bool) (s : lock_sys_t) :
    (forget_wait D s).n_locks = s.n_locks := rfl

theorem forget_wait_page_chain (D : Nat → Bool) (s : lock_sys_t) (h : hash_id) (id : Nat) :
    (forget_wait D s).page_chain h id = s.page_chain h id := by
  unfold lock_sys_t.page_chain
  rw [forget_wait_hash]
  rfl

theorem forget_wait_set_lock (D : Nat → Bool) (s : lock_sys_t) (g : Nat) (l : lock_t) :
    (forget_wait D s).set_lock g l = forget_wait D (s.set_lock g l) := rfl

theorem forget_wait_trx (D : Nat → Bool) (s : lock_sys_t) (t : Nat) :
    (forget_wait D s).trx t
      = if D t then { s.trx t with wait_lock := none } else s.trx t := rfl

theorem lock_rec_create_forget (D : Nat → Bool) (s : lock_sys_t) (tm : type_mode_t)
    (block : buf_block_t) (heap_no : Nat) (index : dict_index_t) (trx : Nat) (b : Bool) :
    (lock_rec_create (forget_wait D s) tm block heap_no index trx b).2
      = forget_wait (fun t => D t && !(tm.wait && decide (t = trx)))
          (lock_rec_create s tm block heap_no index trx b).2 := by
  unfold lock_rec_create lock_rec_create_low
  simp only [lock_sys_t.alloc_lock]
  by_cases hs : heap_no = PAGE_HEAP_NO_SUPREMUM
  · simp only [hs, if_true]
    cases hk : lock_hash_get { tm with gap := false, rec_not_gap := false } <;>
    cases hw : tm.wait <;>
    simp [hk, hw, forget_wait, lock_sys_t.set_hash, lock_sys_t.set_trx, lock_sys_t.set_tbl,
      lock_sys_t.alloc_state, lock_sys_t.trx, lock_sys_t.tbl, lock_sys_t.hash] <;>
    funext t <;>
    by_cases ht : t = trx <;>
    simp [ht, Function.update_apply] <;>
    cases hD : D trx <;> simp
  · simp only [hs, if_false]
    cases hk : lock_hash_get tm <;>
    cases hw : tm.wait <;>
    simp [hk, hw, forget_wait, lock_sys_t.set_hash, lock_sys_t.set_trx, lock_sys_t.set_tbl,
      lock_sys_t.alloc_state, lock_sys_t.trx, lock_sys_t.tbl, lock_sys_t.hash] <;>
    funext t <;>
    by_cases ht : t = trx <;>
    simp [ht, Function.update_apply] <;>
    cases hD : D trx <;> simp

theorem lock_rec_add_to_queue_forget_aux (D : Nat → Bool) (s : lock_sys_t)
    (tm tm1 : type_mode_t) (hwt : tm1.wait = tm.wait)
    (block : buf_block_t) (heap_no : Nat) (index : dict_index_t) (trx : Nat) (b : Bool)
    (hc : (lock_rec_create (forget_wait D s) tm1 block heap_no index trx b).2
      = forget_wait (fun t => D t && !(tm.wait && decide (t = trx)))
          (lock_rec_create s tm1 block heap_no index trx b).2) :
    (if ((forget_wait D s).page_chain (lock_hash_get tm1) block.page_id).any
          (fun i => ((forget_wait D s).lock i).is_waiting
            && lock_rec_get_nth_bit ((forget_wait D s).lock i) heap_no)
      then (lock_rec_create (forget_wait D s) tm1 block heap_no index trx b).2
      else if !((forget_wait D s).page_chain (lock_hash_get tm1) block.page_id).isEmpty
          && !tm1.wait then
        match lock_rec_find_similar_on_page (forget_wait D s) tm1 heap_no
            ((forget_wait D s).page_chain (lock_hash_get tm1) block.page_id) trx with
        | some lock =>
          (forget_wait D s).set_lock lock
            (lock_rec_set_nth_bit ((forget_wait D s).lock lock) heap_no)
        | none => (lock_rec_create (forget_wait D s) tm1 block heap_no index trx b).2
      else (lock_rec_create (forget_wait D s) tm1 block heap_no index trx b).2)
    = forget_wait (fun t => D t && !(tm.wait && decide (t = trx)))
      (if (s.page_chain (lock_hash_get tm1) block.page_id).any
          (fun i => (s.lock i).is_waiting && lock_rec_get_nth_bit (s.lock i) heap_no)
      then (lock_rec_create s tm1 block heap_no index trx b).2
      else if !(s.page_chain (lock_hash_get tm1) block.page_id).isEmpty && !tm1.wait then
        match lock_rec_find_similar_on_page s tm1 heap_no
            (s.page_chain (lock_hash_get tm1) block.page_id) trx with
        | some lock => s.set_lock lock (lock_rec_set_nth_bit (s.lock lock) heap_no)
        | none => (lock_rec_create s tm1 block heap_no index trx b).2
      else (lock_rec_create s tm1 block heap_no index trx b).2) := by
  simp only [forget_wait_page_chain, forget_wait_lock, lock_rec_find_similar_on_page]
  split
  · exact hc
  · split
    · rename_i h2
      generalize List.find? _ (s.page_chain (lock_hash_get tm1) block.page_id) = r
      cases r with
      | none => exact hc
      | some lock =>
        show (forget_wait D s).set_lock lock (lock_rec_set_nth_bit (s.lock lock) heap_no) = _
        rw [forget_wait_set_lock]
        have hw : tm.wait = false := by
          simp only [Bool.and_eq_true, Bool.not_eq_true', hwt] at h2
          exact h2.2
        simp [hw]
    · exact hc

theorem lock_rec_add_to_queue_forget (D : Nat → Bool) (s : lock_sys_t) (tm : type_mode_t)
    (block : buf_block_t) (heap_no : Nat) (index : dict_index_t) (trx : Nat) (b : Bool) :
    lock_rec_add_to_queue (forget_wait D s) tm block heap_no index trx b
      = forget_wait (fun t => D t && !(tm.wait && decide (t = trx)))
          (lock_rec_add_to_queue s tm block heap_no index trx b) := by
  have hwt : (if heap_no = PAGE_HEAP_NO_SUPREMUM then
      { tm with gap := false, rec_not_gap := false } else tm).wait = tm.wait := by
    split <;> rfl
  have hc := lock_rec_create_forget D s
    (if heap_no = PAGE_HEAP_NO_SUPREMUM then { tm with gap := false, rec_not_gap := false }
      else tm) block heap_no index trx b
  rw [hwt] at hc
  exact lock_rec_add_to_queue_forget_aux D s tm _ hwt block heap_no index trx b hc
theorem wait_ok_forget_add_granted (D : Nat → Bool) (s : lock_sys_t) (tm : type_mode_t)
    (block : buf_block_t) (heap_no : Nat) (index : dict_index_t) (trx : Nat) (b : Bool)
    (hw : tm.wait = false) (hi : wait_ok (forget_wait D s)) :
    wait_ok (forget_wait D (lock_rec_add_to_queue s tm block heap_no index trx b)) := by
  have h := lock_rec_add_to_queue_forget D s tm block heap_no index trx b
  simp only [hw, Bool.false_and, Bool.not_false, Bool.and_true] at h
  rw [← h]
  exact wait_ok_add_to_queue _ _ _ _ _ _ _ hi (fun e => by rw [hw] at e; cases e)

theorem wait_ok_forget_add_waiting (D : Nat → Bool) (s : lock_sys_t) (tm : type_mode_t)
    (block : buf_block_t) (heap_no : Nat) (index : dict_index_t) (trx : Nat) (b : Bool)
    (hw : tm.wait = true) (hD : D trx = true) (hi : wait_ok (forget_wait D s)) :
    wait_ok (forget_wait (fun t => D t && !decide (t = trx))
      (lock_rec_add_to_queue s tm block heap_no index trx b)) := by
  have h := lock_rec_add_to_queue_forget D s tm block heap_no index trx b
  simp only [hw, Bool.true_and] at h
  rw [← h]
  exact wait_ok_add_to_queue _ _ _ _ _ _ _ hi (fun _ => by
    rw [forget_wait_trx, if_pos hD])

theorem reorganize_recs_no_bit (block : buf_block_t) :
    ∀ (recs1 : List Nat) (s : lock_sys_t) (lock : lock_t) (recs2 : List Nat)
      (s1 : lock_sys_t), (∀ i, lock_rec_get_nth_bit lock i = false) →
      lock_move_reorganize_page_recs block s lock recs1 recs2 = some s1 → s1 = s := by
  intro recs1
  induction recs1 with
  | nil =>
    intro s lock recs2 s1 _ h
    unfold lock_move_reorganize_page_recs at h
    cases h
  | cons n recs1 ih =>
    intro s lock recs2 s1 hb h
    cases recs2 with
    | nil =>
      unfold lock_move_reorganize_page_recs at h
      cases h
    | cons o recs2 =>
      unfold lock_move_reorganize_page_recs at h
      simp only [hb o, Bool.and_false, Bool.false_eq_true, if_false] at h
      split at h
      · cases h; rfl
      · refine ih _ _ _ _ ?_ h
        intro i
        split
        · rw [get_nth_bit_reset_eq, hb i]; simp
        · exact hb i

theorem reorganize_recs_granted (block : buf_block_t) (D : Nat → Bool) :
    ∀ (recs1 : List Nat) (s : lock_sys_t) (lock : lock_t) (recs2 : List Nat)
      (s1 : lock_sys_t), lock.is_waiting = false → wait_ok (forget_wait D s) →
      lock_move_reorganize_page_recs block s lock recs1 recs2 = some s1 →
      wait_ok (forget_wait D s1) := by
  intro recs1
  induction recs1 with
  | nil =>
    intro s lock recs2 s1 _ _ h
    unfold lock_move_reorganize_page_recs at h
    cases h
  | cons n recs1 ih =>
    intro s lock recs2 s1 hw hi h
    cases recs2 with
    | nil =>
      unfold lock_move_reorganize_page_recs at h
      cases h
    | cons o recs2 =>
      unfold lock_move_reorganize_page_recs at h
      dsimp only at h
      have hw1 : (if o < lock_rec_get_n_bits lock then lock_rec_reset_nth_bit lock o
          else lock).is_waiting = false := by
        split
        · exact hw
        · exact hw
      have hi1 : wait_ok (forget_wait D
          (if (decide (o < lock_rec_get_n_bits lock) && lock_rec_get_nth_bit lock o) = true
          then
            lock_rec_add_to_queue s
              (if o < lock_rec_get_n_bits lock then lock_rec_reset_nth_bit lock o
                else lock).type_mode block n
              (if o < lock_rec_get_n_bits lock then lock_rec_reset_nth_bit lock o
                else lock).index
              (if o < lock_rec_get_n_bits lock then lock_rec_reset_nth_bit lock o
                else lock).trx false
          else s)) := by
        split
        · exact wait_ok_forget_add_granted D s _ block n _ _ false hw1 hi
        · exact hi
      split at h
      · cases h; exact hi1
      · exact ih _ _ _ _ hw1 hi1 h
theorem get_nth_bit_lt (l : lock_t) (i : Nat) (h : lock_rec_get_nth_bit l i = true) :
    i < lock_rec_get_n_bits l := by
  unfold lock_rec_get_nth_bit at h
  unfold lock_rec_get_n_bits
  by_contra hc
  rw [List.getD_eq_default _ _ (by omega)] at h
  cases h

theorem reorganize_recs_waiting (block : buf_block_t) (D : Nat → Bool) (T : Nat) :
    ∀ (recs1 : List Nat) (s : lock_sys_t) (lock : lock_t) (recs2 : List Nat)
      (s1 : lock_sys_t), lock.is_waiting = true → lock.trx = T → D T = true →
      wait_ok (forget_wait D s) → copy_covered recs1 recs2 lock →
      lock_move_reorganize_page_recs block s lock recs1 recs2 = some s1 →
      wait_ok (forget_wait (fun t => D t && !decide (t = T)) s1) := by
  intro recs1
  induction recs1 with
  | nil =>
    intro s lock recs2 s1 _ _ _ _ _ h
    unfold lock_move_reorganize_page_recs at h
    cases h
  | cons n recs1 ih =>
    intro s lock recs2 s1 hw hT hD hi hcov h
    cases recs2 with
    | nil =>
      unfold lock_move_reorganize_page_recs at h
      cases h
    | cons o recs2 =>
      obtain ⟨hh, hb, huniq, hc⟩ := hcov
      unfold lock_move_reorganize_page_recs at h
      dsimp only at h
      by_cases hbo : lock_rec_get_nth_bit lock o = true
      · have hlt := get_nth_bit_lt lock o hbo
        simp only [hlt, hbo, decide_True, Bool.and_self, if_true] at h
        have hok : wait_ok (forget_wait (fun t => D t && !decide (t = T))
            (lock_rec_add_to_queue s (lock_rec_reset_nth_bit lock o).type_mode block n
              (lock_rec_reset_nth_bit lock o).index (lock_rec_reset_nth_bit lock o).trx
              false)) := by
          have := wait_ok_forget_add_waiting D s (lock_rec_reset_nth_bit lock o).type_mode
            block n (lock_rec_reset_nth_bit lock o).index (lock_rec_reset_nth_bit lock o).trx
            false hw (by rw [show (lock_rec_reset_nth_bit lock o).trx = T from hT]; exact hD)
            hi
          rw [show (lock_rec_reset_nth_bit lock o).trx = T from hT] at this ⊢
          exact this
        split at h
        · cases h; exact hok
        · have := reorganize_recs_no_bit block recs1 _ _ recs2 s1 (by
            intro i
            rw [get_nth_bit_reset_eq]
            by_cases hio : i = o
            · simp [hio]
            · cases hbi : lock_rec_get_nth_bit lock i
              · simp
              · exact absurd ((huniq i hbi).trans (huniq o hbo).symm) hio) h
          rw [this]; exact hok
      · have hbo1 : lock_rec_get_nth_bit lock o = false := by
          cases hx : lock_rec_get_nth_bit lock o
          · rfl
          · exact absurd hx hbo
        simp only [hbo1, Bool.and_false, Bool.false_eq_true, if_false] at h
        have hne : o ≠ hh := by
          intro e; rw [e] at hbo; exact hbo hb
        unfold reorganize_covered at hc
        simp only [Bool.or_eq_true, beq_iff_eq, Bool.and_eq_true, bne_iff_ne, ne_eq] at hc
        rcases hc with hc | ⟨hn, hc⟩
        · exact absurd hc hne
        · rw [if_neg hn] at h
          refine ih _ _ _ _ ?_ ?_ hD hi ?_ h
          · split
            · exact hw
            · exact hw
          · split
            · exact hT
            · exact hT
          · refine ⟨hh, ?_, ?_, hc⟩
            · split
              · rw [get_nth_bit_reset_eq, hb]; simp [Ne.symm hne]
              · exact hb
            · intro i hbi
              apply huniq
              split at hbi
              · exact get_nth_bit_reset_le _ _ _ hbi
              · exact hbi
theorem wait_ok_of_forget (D : Nat → Bool) (s : lock_sys_t) (hD : ∀ t, D t = false)
    (hi : wait_ok (forget_wait D s)) : wait_ok s := by
  have e : ∀ t, (forget_wait D s).trx t = s.trx t := by
    intro t
    rw [forget_wait_trx, hD t]; rfl
  refine @wait_ok_of_eq (forget_wait D s) s rfl (fun _ => rfl) ?_ ?_ ?_ hi
  · intro t; rw [e]
  · intro t; rw [e]
  · intro t; rw [e]

theorem reorganize_locks_inv (block : buf_block_t) (recs1 recs2 : List Nat) :
    ∀ (R : List lock_t) (D : Nat → Bool) (s s1 : lock_sys_t),
      reorganize_inv recs1 recs2 R D s →
      lock_move_reorganize_page_locks block recs1 recs2 s R = some s1 → wait_ok s1 := by
  intro R
  induction R with
  | nil =>
    intro D s s1 I h
    unfold lock_move_reorganize_page_locks at h
    cases h
    refine wait_ok_of_forget D s ?_ I.ok
    intro t
    cases hD : D t
    · rfl
    · obtain ⟨c, hc, _⟩ := I.pending t hD
      cases hc
  | cons c R ih =>
    intro D s s1 I h
    unfold lock_move_reorganize_page_locks at h
    cases hr : lock_move_reorganize_page_recs block s c recs1 recs2 with
    | none => rw [hr] at h; cases h
    | some s2 =>
      rw [hr] at h
      change lock_move_reorganize_page_locks block recs1 recs2 s2 R = some s1 at h
      cases hw : c.is_waiting with
      | false =>
        refine ih D s2 s1 ?_ h
        refine ⟨reorganize_recs_granted block D recs1 s c recs2 s2 hw I.ok hr, ?_, ?_, ?_⟩
        · intro t hD
          obtain ⟨c1, hc1, hw1, ht1⟩ := I.pending t hD
          rcases List.mem_cons.mp hc1 with e | e
          · rw [e, hw] at hw1; cases hw1
          · exact ⟨c1, e, hw1, ht1⟩
        · intro c1 hc1 hw1
          exact I.waiting c1 (List.mem_cons_of_mem _ hc1) hw1
        · have := I.nodup
          rw [List.filter_cons_of_neg (by simp [hw])] at this
          exact this
      | true =>
        obtain ⟨hD, hcov⟩ := I.waiting c (List.mem_cons_self _ _) hw
        have hnd := I.nodup
        rw [List.filter_cons_of_pos (by simp [hw]), List.map_cons, List.nodup_cons] at hnd
        refine ih (fun t => D t && !decide (t = c.trx)) s2 s1 ?_ h
        refine ⟨reorganize_recs_waiting block D c.trx recs1 s c recs2 s2 hw rfl hD I.ok hcov hr,
          ?_, ?_, hnd.2⟩
        · intro t hDt
          simp only [Bool.and_eq_true, Bool.not_eq_true', decide_eq_false_iff_not] at hDt
          obtain ⟨c1, hc1, hw1, ht1⟩ := I.pending t hDt.1
          rcases List.mem_cons.mp hc1 with e | e
          · rw [e] at ht1; exact absurd ht1.symm hDt.2
          · exact ⟨c1, e, hw1, ht1⟩
        · intro c1 hc1 hw1
          obtain ⟨a, b⟩ := I.waiting c1 (List.mem_cons_of_mem _ hc1) hw1
          refine ⟨?_, b⟩
          simp only [Bool.and_eq_true, Bool.not_eq_true', decide_eq_false_iff_not]
          refine ⟨a, ?_⟩
          intro e
          apply hnd.1
          rw [← e]
          exact List.mem_map_of_mem _ (List.mem_filter.mpr ⟨hc1, by simp [hw1]⟩)
theorem get_nth_bit_bitmap_reset (l : lock_t) (i : Nat) :
    lock_rec_get_nth_bit (lock_rec_bitmap_reset l) i = false := by
  unfold lock_rec_get_nth_bit lock_rec_bitmap_reset
  simp only
  by_cases h : i < (List.replicate (lock_rec_get_n_bits l) false).length
  · rw [List.getD_eq_getElem _ _ h]; simp
  · rw [List.getD_eq_default _ _ (by omega)]

theorem next_on_page_page_id (s : lock_sys_t) (lock g : Nat)
    (h : lock_rec_get_next_on_page s lock = some g) :
    (s.lock g).page_id = (s.lock lock).page_id := by
  unfold lock_rec_get_next_on_page at h
  have := List.find?_some h
  simpa using this

theorem reorganize_copy_step_waiting (recs1 recs2 : List Nat) (old : List lock_t)
    (D : Nat → Bool) (s : lock_sys_t) (l : Nat) (I : reorganize_inv recs1 recs2 old D s)
    (hw : (s.lock l).is_waiting = true)
    (hc : ∃ h, lock_rec_get_nth_bit (s.lock l) h = true
      ∧ reorganize_covered recs1 recs2 h = true) :
    reorganize_inv recs1 recs2 (old ++ [s.lock l])
      (fun t => D t || decide (t = (s.lock l).trx))
      ((s.set_lock l (lock_rec_bitmap_reset (s.lock l))).set_lock l
        { lock_rec_bitmap_reset (s.lock l) with
          type_mode := { (lock_rec_bitmap_reset (s.lock l)).type_mode with wait := false } }) := by
  have hwl : ((forget_wait D s).trx (s.lock l).trx).wait_lock = some l :=
    I.ok.inv.2.1 l hw
  have hDT : D (s.lock l).trx = false := by
    cases hD : D (s.lock l).trx
    · rfl
    · rw [forget_wait_trx, if_pos hD] at hwl; cases hwl
  have hX : wait_ok ((forget_wait D s).set_lock l (lock_rec_bitmap_reset (s.lock l))) :=
    wait_ok_set_lock (forget_wait D s) l _ I.ok rfl rfl
      (fun _ i hb => by rw [get_nth_bit_bitmap_reset] at hb; cases hb)
  have hwX : (((forget_wait D s).set_lock l (lock_rec_bitmap_reset (s.lock l))).lock
      l).is_waiting = true := by
    simp only [lock_sys_t.lock_set_lock, if_true]
    exact hw
  have hY := wait_ok_of_release_frame
    (release_frame_reset _ l (wait_inv_owner_wait_lock hX.inv l hwX)) hX
  refine ⟨?_, ?_, ?_, ?_⟩
  · refine wait_ok_of_eq ?_ ?_ ?_ ?_ ?_ hY
    · rw [lock_reset_n_locks]; rfl
    · intro g
      rw [lock_reset_lock]
      simp only [forget_wait_lock, lock_sys_t.lock_set_lock]
      split
      · simp [lock_t.clear_wait]
      · rfl
    · intro t
      rw [lock_reset_trx]
      simp only [forget_wait_trx, lock_sys_t.lock_set_lock, if_true, lock_sys_t.trx_set_lock]
      have e : (lock_rec_bitmap_reset (s.lock l)).trx = (s.lock l).trx := rfl
      rw [e]
      by_cases ht : t = (s.lock l).trx
      · simp [ht]
      · cases hD : D t <;> simp [ht, hD]
    · intro t
      rw [lock_reset_trx_locks]
      simp only [forget_wait_trx, lock_sys_t.trx_set_lock]
      by_cases ht : t = (s.lock l).trx
      · cases hD : D t <;> simp [ht, hD]
      · cases hD : D t <;> simp [ht, hD]
    · intro t
      rw [lock_reset_autoinc_locks]
      simp only [forget_wait_trx, lock_sys_t.trx_set_lock]
      by_cases ht : t = (s.lock l).trx
      · cases hD : D t <;> simp [ht, hD]
      · cases hD : D t <;> simp [ht, hD]
  · intro t hD
    simp only [Bool.or_eq_true, decide_eq_true_eq] at hD
    rcases hD with hD | hD
    · obtain ⟨c, hc1, hc2, hc3⟩ := I.pending t hD
      exact ⟨c, List.mem_append_left _ hc1, hc2, hc3⟩
    · exact ⟨s.lock l, List.mem_append_right _ (List.mem_singleton_self _), hw, hD.symm⟩
  · intro c hc1 hc2
    rcases List.mem_append.mp hc1 with e | e
    · obtain ⟨a, b⟩ := I.waiting c e hc2
      exact ⟨by simp [a], b⟩
    · rw [List.mem_singleton] at e
      subst e
      refine ⟨by simp, ?_⟩
      obtain ⟨h, hb, hcov⟩ := hc
      exact ⟨h, hb, fun i hi => I.ok.one_bit l hw i h hi hb, hcov⟩
  · rw [List.filter_append, List.map_append]
    rw [List.filter_cons_of_pos (by simp [hw])]
    simp only [List.filter_nil, List.map_cons, List.map_nil]
    rw [List.nodup_append]
    refine ⟨I.nodup, List.nodup_singleton _, ?_⟩
    intro a ha hb
    rw [List.mem_singleton] at hb
    obtain ⟨c, hc1, hc2⟩ := List.mem_map.mp ha
    have hcm := List.mem_filter.mp hc1
    have := (I.waiting c hcm.1 (by simpa using hcm.2)).1
    rw [hc2, hb, hDT] at this
    cases this
theorem reorganize_copy_inv (P : Nat) (recs1 recs2 : List Nat) :
    ∀ (fuel : Nat) (s : lock_sys_t) (old : List lock_t) (lock : Option Nat)
      (r : lock_sys_t × List lock_t) (D : Nat → Bool),
      reorganize_inv recs1 recs2 old D s → reorganize_pre P recs1 recs2 s →
      (∀ l, lock = some l → (s.lock l).page_id = P) →
      lock_move_reorganize_page_copy fuel s old lock = some r →
      ∃ D1, reorganize_inv recs1 recs2 r.2 D1 r.1 := by
  intro fuel
  induction fuel with
  | zero =>
    intro s old lock r D I _ _ h
    cases lock with
    | none =>
      unfold lock_move_reorganize_page_copy at h
      cases h; exact ⟨D, I⟩
    | some l =>
      unfold lock_move_reorganize_page_copy at h
      cases h
  | succ n ih =>
    intro s old lock r D I hpre hpage h
    cases lock with
    | none =>
      unfold lock_move_reorganize_page_copy at h
      cases h; exact ⟨D, I⟩
    | some l =>
      unfold lock_move_reorganize_page_copy at h
      dsimp only at h
      have hP := hpage l rfl
      have e1 : ((s.set_lock l (lock_rec_bitmap_reset (s.lock l))).lock l)
          = lock_rec_bitmap_reset (s.lock l) := by simp
      rw [e1] at h
      have e2 : (lock_rec_bitmap_reset (s.lock l)).is_waiting = (s.lock l).is_waiting := rfl
      rw [e2] at h
      cases hw : (s.lock l).is_waiting with
      | true =>
        rw [hw] at h
        simp only [if_true] at h
        refine ih _ _ _ r _
          (reorganize_copy_step_waiting recs1 recs2 old D s l I hw (hpre l hw hP)) ?_ ?_ h
        · intro g hg hgp
          have hne : g ≠ l := by
            intro e
            rw [e] at hg
            simp [lock_t.is_waiting] at hg
          simp only [lock_sys_t.lock_set_lock, if_neg hne] at hg hgp ⊢
          exact hpre g hg hgp
        · intro g hg
          rw [next_on_page_page_id _ _ _ hg]
          simp only [lock_sys_t.lock_set_lock, if_true]
          exact hP
      | false =>
        rw [hw] at h
        simp only [Bool.false_eq_true, if_false] at h
        refine ih _ _ _ r D ?_ ?_ ?_ h
        · refine ⟨?_, ?_, ?_, ?_⟩
          · rw [← forget_wait_set_lock]
            exact wait_ok_set_lock (forget_wait D s) l _ I.ok rfl rfl
              (fun _ i hb => by rw [get_nth_bit_bitmap_reset] at hb; cases hb)
          · intro t hD
            obtain ⟨c, hc1, hc2, hc3⟩ := I.pending t hD
            exact ⟨c, List.mem_append_left _ hc1, hc2, hc3⟩
          · intro c hc1 hc2
            rcases List.mem_append.mp hc1 with e | e
            · exact I.waiting c e hc2
            · rw [List.mem_singleton] at e
              rw [e, hw] at hc2; cases hc2
          · rw [List.filter_append, List.filter_cons_of_neg (by simp [hw])]
            simpa using I.nodup
        · intro g hg hgp
          have hne : g ≠ l := by
            intro e
            rw [e] at hg
            simp only [lock_sys_t.lock_set_lock, if_true] at hg
            rw [e2, hw] at hg; cases hg
          simp only [lock_sys_t.lock_set_lock, if_neg hne] at hg hgp ⊢
          exact hpre g hg hgp
        · intro g hg
          rw [next_on_page_page_id _ _ _ hg]
          simp only [lock_sys_t.lock_set_lock, if_true]
          exact hP

theorem granted_to_front_perm (l r : List lock_t)
    (h : lock_move_granted_locks_to_front l = some r) : r.Perm l := by
  rw [granted_to_front_eq] at h
  cases h
  have h1 : (l.takeWhile (fun x => !x.is_waiting)
      ++ l.dropWhile (fun x => !x.is_waiting)).Perm l := by
    rw [List.takeWhile_append_dropWhile]
  have h2 : (((l.dropWhile (fun x => !x.is_waiting)).filter
        (fun x => !x.is_waiting)).reverse
      ++ (l.dropWhile (fun x => !x.is_waiting)).filter (fun x => x.is_waiting)).Perm
      (l.dropWhile (fun x => !x.is_waiting)) := by
    refine List.Perm.trans (List.Perm.append_right _ (List.reverse_perm _)) ?_
    have := List.filter_append_perm (fun x : lock_t => !x.is_waiting)
      (l.dropWhile (fun x => !x.is_waiting))
    simpa using this
  rw [filter_waiting_dropWhile l]
  refine List.Perm.trans ?_ h1
  refine List.Perm.trans ?_ (List.Perm.append_left _ h2)
  rw [← List.append_assoc]
  exact List.Perm.append_right _ List.perm_append_comm

theorem reorganize_inv_perm (recs1 recs2 : List Nat) (R R1 : List lock_t) (D : Nat → Bool)
    (s : lock_sys_t) (hp : R1.Perm R) (I : reorganize_inv recs1 recs2 R D s) :
    reorganize_inv recs1 recs2 R1 D s := by
  refine ⟨I.ok, ?_, ?_, ?_⟩
  · intro t hD
    obtain ⟨c, hc1, hc2, hc3⟩ := I.pending t hD
    exact ⟨c, hp.mem_iff.mpr hc1, hc2, hc3⟩
  · intro c hc1 hc2
    exact I.waiting c (hp.mem_iff.mp hc1) hc2
  · exact ((hp.filter _).map _).nodup_iff.mpr I.nodup

theorem wait_ok_lock_move_reorganize_page (fuel : Nat) (s : lock_sys_t)
    (block : buf_block_t) (page opage : List Nat) (s1 : lock_sys_t) (hi : wait_ok s)
    (hpre : reorganize_pre block.page_id (page_recs_from page PAGE_HEAP_NO_INFIMUM)
      (page_recs_from opage PAGE_HEAP_NO_INFIMUM) s)
    (h : lock_move_reorganize_page fuel s block page opage = some s1) : wait_ok s1 := by
  unfold lock_move_reorganize_page at h
  cases hf : (s.page_chain hash_id.rec_hash block.page_id).head? with
  | none =>
    rw [hf] at h
    cases h; exact hi
  | some lock =>
    rw [hf] at h
    dsimp only at h
    cases hc : lock_move_reorganize_page_copy fuel s [] (some lock) with
    | none => rw [hc] at h; cases h
    | some r =>
      rw [hc] at h
      change (lock_move_granted_locks_to_front r.2).bind _ = some s1 at h
      cases hg : lock_move_granted_locks_to_front r.2 with
      | none => rw [hg] at h; cases h
      | some old_locks =>
        rw [hg] at h
        change lock_move_reorganize_page_locks block _ _ r.1 old_locks = some s1 at h
        have I0 : reorganize_inv (page_recs_from page PAGE_HEAP_NO_INFIMUM)
            (page_recs_from opage PAGE_HEAP_NO_INFIMUM) [] (fun _ => false) s := by
          refine ⟨?_, ?_, ?_, ?_⟩
          · exact @wait_ok_of_eq s (forget_wait (fun _ => false) s) rfl (fun _ => rfl)
              (fun _ => rfl) (fun _ => rfl) (fun _ => rfl) hi
          · intro t hD; cases hD
          · intro c hc1; cases hc1
          · simp
        have hpage : ∀ l, some lock = some l → (s.lock l).page_id = block.page_id := by
          intro l hl
          cases hl
          have := List.mem_of_mem_head? hf
          unfold lock_sys_t.page_chain at this
          simpa using (List.mem_filter.mp this).2
        obtain ⟨D1, I1⟩ := reorganize_copy_inv block.page_id _ _ fuel s [] (some lock) r _
          I0 hpre hpage hc
        exact reorganize_locks_inv block _ _ old_locks D1 r.1 s1
          (reorganize_inv_perm _ _ _ _ D1 r.1 (granted_to_front_perm _ _ hg) I1) h

theorem wait_ok_wait_move_state : wait_ok wait_move_state := by
  have hl : ∀ g, (wait_move_state.lock g).is_waiting = true → g = 1 := by
    intro g hg
    by_cases h0 : g = 0
    · subst h0; simp [wait_move_state, lock_sys_t.lock, lock_t.is_waiting] at hg
    · by_cases h1 : g = 1
      · exact h1
      · simp [wait_move_state, lock_sys_t.lock, lock_t.is_waiting, h0, h1] at hg
  have ht : ∀ t w, (wait_move_state.trx t).wait_lock = some w → t = 2 ∧ w = 1 := by
    intro t w h
    by_cases h1 : t = 1
    · subst h1; simp [wait_move_state, lock_sys_t.trx] at h
    · by_cases h2 : t = 2
      · subst h2
        simp [wait_move_state, lock_sys_t.trx] at h
        exact ⟨rfl, h.symm⟩
      · simp [wait_move_state, lock_sys_t.trx, h1, h2] at h
  have hL : ∀ t g, g ∈ (wait_move_state.trx t).trx_locks →
      (t = 1 ∧ g = 0) ∨ (t = 2 ∧ g = 1) := by
    intro t g h
    by_cases h1 : t = 1
    · subst h1; simp [wait_move_state, lock_sys_t.trx] at h; exact Or.inl ⟨rfl, h⟩
    · by_cases h2 : t = 2
      · subst h2
        simp [wait_move_state, lock_sys_t.trx] at h
        exact Or.inr ⟨rfl, h⟩
      · simp only [wait_move_state, lock_sys_t.trx, h1, h2, if_false] at h
        cases h
  refine ⟨⟨?_, ?_, ?_⟩, ?_, ?_, ?_, ?_, ?_⟩
  · intro t w h
    obtain ⟨rfl, rfl⟩ := ht t w h
    decide
  · intro g hg
    rw [hl g hg]; rfl
  · intro t w h
    obtain ⟨rfl, rfl⟩ := ht t w h
    rfl
  · intro t w h
    obtain ⟨rfl, rfl⟩ := ht t w h
    decide
  · intro t g h hw
    rcases hL t g h with ⟨rfl, rfl⟩ | ⟨rfl, rfl⟩ <;> rfl
  · intro t g h
    rcases hL t g h with ⟨rfl, rfl⟩ | ⟨rfl, rfl⟩ <;> decide
  · intro t g h
    by_cases h1 : t = 1
    · subst h1; simp [wait_move_state, lock_sys_t.trx] at h
    · by_cases h2 : t = 2
      · subst h2
        simp [wait_move_state, lock_sys_t.trx] at h
      · simp only [wait_move_state, lock_sys_t.trx, h1, h2, if_false] at h
        cases h
  · intro g hg i j hi hj
    rw [hl g hg] at hi hj
    have key : ∀ k, lock_rec_get_nth_bit (wait_move_state.lock 1) k = true → k = 2 := by
      intro k hk
      simp only [wait_move_state, lock_sys_t.lock, lock_rec_get_nth_bit] at hk
      match k, hk with
      | 0, hk => cases hk
      | 1, hk => cases hk
      | 2, _ => rfl
      | 3, hk => cases hk
      | 4, hk => cases hk
      | 5, hk => cases hk
      | 6, hk => cases hk
      | 7, hk => cases hk
      | n + 8, hk => cases hk
    rw [key i hi, key j hj]

/-- C22: the wait-lock invariant holds after every operation of the lock
manager (`lock_rec_lock`, `lock_table`, `lock_rec_insert_check_and_lock`,
`lock_rec_unlock`, `lock_release`, `lock_cancel_waiting_and_release`,
`lock_trx_handle_wait`, `lock_rec_move`, `lock_move_rec_list_end`,
`lock_move_rec_list_start`, `lock_move_reorganize_page`,
`lock_update_delete`) that is called under its contract in a lock system
in which the invariant `wait_ok` holds: `wait_ok` holds again, and for
every transaction `wait_lock` is non-null if and only if some lock of its
lock list has the `WAIT` flag, at most one lock of the list has it, and
`wait_lock` is that lock. -/
theorem wait_lock_invariant (E : Env) (s s1 : lock_sys_t) (hi : wait_ok s)
    (h : wait_op E s s1) : wait_ok s1 ∧ wait_lock_claim s1 := by
  have key : wait_ok s1 := by
    cases h with
    | lock_rec_lock fuel _ impl mode block heap_no index thr err _ hnw hm h =>
      exact wait_ok_lock_rec_lock E fuel s impl mode block heap_no index thr err s1 hi hnw hm h
    | lock_table fuel _ flags table mode thr err _ hnw ha h =>
      exact wait_ok_lock_table E fuel s flags table mode thr err s1 hi hnw ha h
    | lock_rec_insert_check_and_lock fuel _ heap_no block index thr inherit_in r hnw h =>
      exact wait_ok_insert_check E fuel s heap_no block index thr inherit_in r hi hnw h
    | lock_rec_unlock fuel _ trx block heap_no m _ h =>
      exact wait_ok_lock_rec_unlock E fuel s trx block heap_no m s1 hi h
    | lock_release fuel _ trx _ hnw h =>
      exact wait_ok_release_loop E fuel s s1 trx hi hnw h
    | lock_cancel_waiting_and_release fuel _ lock _ hw h =>
      exact wait_ok_of_release_frame (release_frame_cancel E fuel s s1 lock hi hw h) hi
    | lock_trx_handle_wait fuel _ trx r h =>
      exact wait_ok_trx_handle_wait E fuel s trx r hi h
    | lock_rec_move fuel _ receiver donator rh dh _ h =>
      exact wait_ok_lock_rec_move fuel s receiver donator rh dh s1 hi h
    | lock_move_rec_list_end fuel _ new_block block page new_page rec _ h =>
      exact wait_ok_lock_move_rec_list_end fuel s new_block block page new_page rec s1 hi h
    | lock_move_rec_list_start fuel _ new_block block page new_page rec old_end _ h =>
      exact wait_ok_lock_move_rec_list_start fuel s new_block block page new_page rec
        old_end s1 hi h
    | lock_move_reorganize_page fuel _ block page opage _ hpre h =>
      exact wait_ok_lock_move_reorganize_page fuel s block page opage s1 hi hpre h
    | lock_update_delete fuel _ block heap_no next_heap_no _ h =>
      exact wait_ok_update_delete fuel s block heap_no next_heap_no s1 hi h
  exact ⟨key, wait_ok_claim key⟩

theorem wait_lock_invariant_witness :
    wait_ok wait_move_state
    ∧ ∃ s1, lock_rec_move 5 wait_move_state { page_id := 1, n_heap := 8 }
          { page_id := 1, n_heap := 8 } 3 2 = some s1
        ∧ (wait_ok s1 ∧ wait_lock_claim s1) ∧ (s1.trx 2).wait_lock = some 2 := by
  have hs : ((lock_rec_move 5 wait_move_state { page_id := 1, n_heap := 8 }
      { page_id := 1, n_heap := 8 } 3 2).map (fun s => (s.trx 2).wait_lock))
      = some (some 2) := by decide
  cases h1 : lock_rec_move 5 wait_move_state { page_id := 1, n_heap := 8 }
      { page_id := 1, n_heap := 8 } 3 2 with
  | none => rw [h1] at hs; cases hs
  | some s1 =>
    rw [h1] at hs
    exact ⟨wait_ok_wait_move_state, s1, rfl,
      wait_lock_invariant env_ordering wait_move_state s1 wait_ok_wait_move_state
        (wait_op.lock_rec_move 5 _ _ _ 3 2 s1 h1),
      Option.some.inj hs⟩

theorem lock_rec_add_to_queue_frame (s : lock_sys_t) (tm : type_mode_t)
    (block : buf_block_t) (heap_no : Nat) (index : dict_index_t) (trx : Nat) (b : Bool) :
    add_frame s (lock_rec_add_to_queue s tm block heap_no index trx b) tm block heap_no
      index trx := by
  rcases lock_rec_add_to_queue_cases s tm block heap_no index trx b with
    ⟨g, h1, h2, h3, h4, h5, h6⟩ | h
  · rw [h6]
    have hp : (s.lock g).page_id = block.page_id := by
      unfold lock_sys_t.page_chain at h1
      simpa using (List.mem_filter.mp h1).2
    refine { lock := ?_, n_locks := Or.inl rfl, fresh := ?_,
             hash := fun k => Or.inl ⟨rfl, by simp⟩, wait := fun t => Or.inl rfl }
    · intro x
      by_cases hx : x = g
      · subst hx
        right; left
        refine ⟨by simp, ?_, hp, h2, rfl⟩
        show (s.lock x).type_mode.wait = false
        rw [h3]; exact h5
      · left; simp [hx]
    · intro e
      simp at e
  · rw [h]
    have hg := lock_rec_create_general s (supremum_type_mode tm heap_no) block heap_no
      index trx b
    refine { lock := ?_, n_locks := Or.inr hg.1, fresh := ?_, hash := ?_, wait := ?_ }
    · intro x
      by_cases hx : x = s.n_locks
      · right; right
        refine ⟨hx, hg.1, ?_⟩
        rw [lock_rec_create_lock, if_pos hx, new_rec_lock_idem]
      · left
        rw [lock_rec_create_lock, if_neg hx]
    · intro _
      rw [lock_rec_create_lock, if_pos rfl, new_rec_lock_idem]
    · intro k
      right
      refine ⟨hg.1, ?_⟩
      rw [hg.2.2 k, supremum_type_mode_idem]
    · intro t
      rw [lock_rec_create_trx_general]
      by_cases ht : t = trx
      · rw [if_pos ht]
        cases hw : tm.wait
        · left; simp [supremum_type_mode_wait, hw]
        · right
          refine ⟨rfl, ht, ?_, hg.1⟩
          simp [supremum_type_mode_wait, hw]
      · rw [if_neg ht]; left; rfl
theorem new_rec_lock_bit (tm : type_mode_t) (block : buf_block_t) (heap_no : Nat)
    (index : dict_index_t) (trx : Nat) (hp : tm.predicate = false)
    (hpp : tm.prdt_page = false) (hh : heap_no < block.n_heap) :
    lock_rec_get_nth_bit (new_rec_lock tm block heap_no index trx) heap_no = true := by
  unfold new_rec_lock lock_rec_get_nth_bit
  have e1 : (supremum_type_mode tm heap_no).predicate = false := by
    unfold supremum_type_mode; split <;> exact hp
  have e2 : (supremum_type_mode tm heap_no).prdt_page = false := by
    unfold supremum_type_mode; split <;> exact hpp
  simp only [e1, e2, Bool.or_false, Bool.not_false, if_true]
  have hlt : heap_no < (List.replicate ((block.n_heap + 7) / 8 * 8) false).length := by
    rw [List.length_replicate]; omega
  rw [List.getD_eq_getElem _ _ (by rw [List.length_set]; exact hlt)]
  simp

theorem move_track_requeue (s0 : lock_sys_t) (ps : List (Nat × Nat)) (Pr : Nat)
    (nb : buf_block_t) (l : Nat) (tm : type_mode_t) (s : lock_sys_t) (h1 h2 : Nat)
    (hT : move_track s0 ps Pr s) (hl : l < s0.n_locks)
    (hb : lock_rec_get_nth_bit (s.lock l) h1 = true)
    (hJ : (s.lock l).is_waiting = tm.wait)
    (hp : (h1, h2) ∈ ps) (hnb : nb.page_id = Pr) (hh : h2 < nb.n_heap)
    (hk1 : tm.predicate = false) (hk2 : tm.prdt_page = false)
    (S2 s1 : lock_sys_t) (index : dict_index_t) (trx : Nat)
    (hS2n : S2.n_locks = s.n_locks) (hS2t : ∀ t, S2.trx t = s.trx t)
    (hS2l : ∀ x, x ≠ l → S2.lock x = s.lock x)
    (hS2w : (S2.lock l).is_waiting = false)
    (htrx : trx = (s.lock l).trx)
    (hF : add_frame S2 s1 tm nb h2 index trx) (hok : wait_ok s1) :
    move_track s0 ps Pr s1 := by
  have hn : s.n_locks ≤ s1.n_locks := by
    rcases hF.n_locks with e | e <;> omega
  refine ⟨hok, le_trans hT.n_locks hn, ?_, ?_, ?_⟩
  · intro x hx hw
    rcases hF.lock x with e | ⟨e, e2, _⟩ | ⟨e, _, _⟩
    · by_cases hxl : x = l
      · rw [e, hxl, hS2w] at hw; cases hw
      · rw [e, hS2l x hxl] at hw ⊢
        exact hT.old x hx hw
    · rw [e] at hw
      have : (lock_rec_set_nth_bit (S2.lock x) h2).is_waiting = (S2.lock x).is_waiting := rfl
      rw [this, e2] at hw; cases hw
    · have := hT.n_locks
      omega
  · intro t ht
    have h0 := hT.waits t ht
    rcases hF.wait t with e | ⟨_, _, e, _⟩
    · rw [e, hS2t]; exact h0
    · rw [e]; simp
  · intro x hx hw
    have hxl : x ≠ l := by omega
    rcases hF.lock x with e | ⟨e, e2, _⟩ | ⟨e, _, e3⟩
    · rw [e, hS2l x hxl] at hw ⊢
      exact hT.new x hx hw
    · rw [e] at hw
      have : (lock_rec_set_nth_bit (S2.lock x) h2).is_waiting = (S2.lock x).is_waiting := rfl
      rw [this, e2] at hw; cases hw
    · rw [e3] at hw ⊢
      have hw1 : tm.wait = true := by
        have : (new_rec_lock tm nb h2 index trx).is_waiting
            = (supremum_type_mode tm h2).wait := rfl
        rw [this, supremum_type_mode_wait] at hw
        exact hw
      have hlw : (s.lock l).is_waiting = true := by rw [hJ]; exact hw1
      have hl0 := hT.old l hl hlw
      refine ⟨hnb, l, hl, ?_, ?_, (h1, h2), hp, ?_, new_rec_lock_bit tm nb h2 index trx hk1 hk2 hh⟩
      · rw [← hl0]; exact hlw
      · rw [← hl0, htrx]; rfl
      · rw [← hl0]; exact hb
theorem hash_get_supremum (tm : type_mode_t) (h : Nat) :
    lock_hash_get (supremum_type_mode tm h) = lock_hash_get tm := by
  unfold supremum_type_mode lock_hash_get
  split <;> rfl

theorem hash_get_rec_of_flags (tm : type_mode_t) (h1 : tm.predicate = false)
    (h2 : tm.prdt_page = false) : lock_hash_get tm = hash_id.rec_hash := by
  unfold lock_hash_get
  simp [h1, h2]

theorem requeue_chain (s S2 s1 : lock_sys_t) (l : Nat) (tm : type_mode_t)
    (nb : buf_block_t) (h2 : Nat) (index : dict_index_t) (trx : Nat)
    (hS2n : S2.n_locks = s.n_locks) (hS2h : ∀ k, S2.hash k = s.hash k)
    (hS2l : ∀ x, x ≠ l → S2.lock x = s.lock x)
    (hS2p : (S2.lock l).page_id = (s.lock l).page_id)
    (hS2k : lock_hash_get (S2.lock l).type_mode = lock_hash_get (s.lock l).type_mode)
    (hF : add_frame S2 s1 tm nb h2 index trx)
    (hk1 : tm.predicate = false) (hk2 : tm.prdt_page = false)
    (wf : chain_wf s hash_id.rec_hash) :
    chain_wf s1 hash_id.rec_hash
      ∧ (∃ e, s1.hash hash_id.rec_hash = s.hash hash_id.rec_hash ++ e
          ∧ ∀ x ∈ e, x = s.n_locks ∧ (s1.lock x).page_id = nb.page_id)
      ∧ (∀ x, x < s.n_locks → (s1.lock x).page_id = (s.lock x).page_id) := by
  have hkind : lock_hash_get (supremum_type_mode tm h2) = hash_id.rec_hash := by
    rw [hash_get_supremum]; exact hash_get_rec_of_flags tm hk1 hk2
  have hS2 : ∀ x, (S2.lock x).page_id = (s.lock x).page_id
      ∧ lock_hash_get (S2.lock x).type_mode = lock_hash_get (s.lock x).type_mode := by
    intro x
    by_cases hx : x = l
    · rw [hx]; exact ⟨hS2p, hS2k⟩
    · rw [hS2l x hx]; exact ⟨rfl, rfl⟩
  have hold : ∀ x, x < s.n_locks → (s1.lock x).page_id = (s.lock x).page_id
      ∧ lock_hash_get (s1.lock x).type_mode = lock_hash_get (s.lock x).type_mode := by
    intro x hx
    rcases hF.lock x with e | ⟨e, _⟩ | ⟨e, _, _⟩
    · rw [e]; exact hS2 x
    · rw [e]; exact hS2 x
    · omega
  have hn : s.n_locks ≤ s1.n_locks := by
    rcases hF.n_locks with e | e <;> omega
  rcases hF.hash hash_id.rec_hash with ⟨e1, e2⟩ | ⟨e1, e2⟩
  · rw [hS2h] at e2
    refine ⟨⟨?_, ?_, ?_⟩, ⟨[], by rw [e2, List.append_nil], by simp⟩, fun x hx => (hold x hx).1⟩
    · rw [e2]; exact wf.nodup
    · intro x hx; rw [e2] at hx; have := wf.alloc x hx; omega
    · intro x hx
      rw [e2] at hx
      rw [(hold x (wf.alloc x hx)).2]
      exact wf.kind x hx
  · rw [hkind, if_pos rfl, hS2h, hS2n] at e2
    have hnew : s1.lock s.n_locks = new_rec_lock tm nb h2 index trx := by
      have := hF.fresh e1
      rw [hS2n] at this
      exact this
    refine ⟨⟨?_, ?_, ?_⟩, ⟨[s.n_locks], e2, ?_⟩, fun x hx => (hold x hx).1⟩
    · rw [e2]
      rw [List.nodup_append]
      refine ⟨wf.nodup, List.nodup_singleton _, ?_⟩
      intro a ha hb
      rw [List.mem_singleton] at hb
      have := wf.alloc a ha
      omega
    · intro x hx
      rw [e2] at hx
      rcases List.mem_append.mp hx with h | h
      · have := wf.alloc x h; omega
      · rw [List.mem_singleton] at h; omega
    · intro x hx
      rw [e2] at hx
      rcases List.mem_append.mp hx with h | h
      · rw [(hold x (wf.alloc x h)).2]
        exact wf.kind x h
      · rw [List.mem_singleton] at h
        rw [h, hnew]
        exact hkind
    · intro x hx
      rw [List.mem_singleton] at hx
      rw [hx, hnew]
      exact ⟨rfl, rfl⟩
theorem lock_move_rec_fire_spec (s0 : lock_sys_t) (ps : List (Nat × Nat)) (Pr : Nat)
    (nb : buf_block_t) (l : Nat) (tm : type_mode_t) (s : lock_sys_t) (h1 h2 : Nat)
    (hT : move_track s0 ps Pr s) (wf : chain_wf s hash_id.rec_hash)
    (hl : l < s0.n_locks) (hlp : (s.lock l).page_id ≠ nb.page_id)
    (hJ : move_lock_inv l tm s) (hJ2 : tm.wait = false → (s.lock l).is_waiting = false)
    (hp : (h1, h2) ∈ ps) (hnb : nb.page_id = Pr) (hh : h2 < nb.n_heap)
    (hk1 : tm.predicate = false) (hk2 : tm.prdt_page = false) :
    move_track s0 ps Pr (lock_move_rec_fire nb l tm s h1 h2)
      ∧ move_lock_inv l tm (lock_move_rec_fire nb l tm s h1 h2)
      ∧ (tm.wait = false → ((lock_move_rec_fire nb l tm s h1 h2).lock l).is_waiting = false)
      ∧ fire_frame nb l [h1] s (lock_move_rec_fire nb l tm s h1 h2) := by
  have hls : l < s.n_locks := lt_of_lt_of_le hl hT.n_locks
  have hfire := wait_ok_move_rec_fire nb l tm s h1 h2 hT.ok hJ
  by_cases hf : (decide (h1 < lock_rec_get_n_bits (s.lock l))
      && lock_rec_get_nth_bit (s.lock l) h1) = true
  · have hb : lock_rec_get_nth_bit (s.lock l) h1 = true := by
      simp only [Bool.and_eq_true] at hf; exact hf.2
    have hJw : (s.lock l).is_waiting = tm.wait := by
      cases hw : tm.wait
      · exact hJ2 hw
      · rcases hJ hw with e | e
        · show (s.lock l).type_mode.wait = true
          rw [e]; exact hw
        · rw [e h1] at hb; cases hb
    -- the state before the request is added
    obtain ⟨S2, hS2def, hS2n, hS2t, hS2h, hS2l, hS2w, hS2p, hS2k, hS2b, hS2i, hS2x⟩ :
        ∃ S2 : lock_sys_t,
          lock_move_rec_fire nb l tm s h1 h2
            = lock_rec_add_to_queue S2 tm nb h2 (S2.lock l).index (S2.lock l).trx false
          ∧ S2.n_locks = s.n_locks ∧ (∀ t, S2.trx t = s.trx t)
          ∧ (∀ k, S2.hash k = s.hash k) ∧ (∀ x, x ≠ l → S2.lock x = s.lock x)
          ∧ (S2.lock l).is_waiting = false
          ∧ (S2.lock l).page_id = (s.lock l).page_id
          ∧ lock_hash_get (S2.lock l).type_mode = lock_hash_get (s.lock l).type_mode
          ∧ (∀ i, lock_rec_get_nth_bit (S2.lock l) i
              = (!decide (i = h1) && lock_rec_get_nth_bit (s.lock l) i))
          ∧ (S2.lock l).index = (s.lock l).index ∧ (S2.lock l).trx = (s.lock l).trx := by
      unfold lock_move_rec_fire
      rw [if_pos hf]
      dsimp only
      cases hw : tm.wait
      · simp only [Bool.false_eq_true, if_false]
        refine ⟨_, rfl, rfl, fun _ => rfl, fun k => by simp, ?_, ?_, ?_, ?_, ?_, ?_, ?_⟩
        · intro x hx; simp [hx]
        · simp only [lock_sys_t.lock_set_lock, if_true]
          show (s.lock l).is_waiting = false
          rw [hJw]; exact hw
        · simp [lock_rec_reset_nth_bit]
        · simp [lock_rec_reset_nth_bit]
        · intro i
          simp only [lock_sys_t.lock_set_lock, if_true]
          exact get_nth_bit_reset_eq _ _ _
        · simp [lock_rec_reset_nth_bit]
        · simp [lock_rec_reset_nth_bit]
      · simp only [if_true]
        refine ⟨_, rfl, rfl, fun _ => rfl, fun k => by simp, ?_, ?_, ?_, ?_, ?_, ?_, ?_⟩
        · intro x hx; simp [hx]
        · simp [lock_t.is_waiting]
        · simp [lock_rec_reset_nth_bit]
        · simp [lock_rec_reset_nth_bit, lock_hash_get]
        · intro i
          simp only [lock_sys_t.lock_set_lock, if_true]
          exact get_nth_bit_reset_eq (s.lock l) h1 i
        · simp [lock_rec_reset_nth_bit]
        · simp [lock_rec_reset_nth_bit]
    have hF := lock_rec_add_to_queue_frame S2 tm nb h2 (S2.lock l).index (S2.lock l).trx false
    rw [← hS2def] at hF
    have hT1 := move_track_requeue s0 ps Pr nb l tm s h1 h2 hT hl hb hJw hp hnb hh hk1 hk2
      S2 _ _ _ hS2n hS2t hS2l hS2w hS2x hF hfire.1
    have hC := requeue_chain s S2 _ l tm nb h2 _ _ hS2n hS2h hS2l hS2p hS2k hF hk1 hk2 wf
    have hl1 : (lock_move_rec_fire nb l tm s h1 h2).lock l = S2.lock l := by
      rcases hF.lock l with e | ⟨_, _, e, _⟩ | ⟨e, _, _⟩
      · exact e
      · rw [hS2p] at e; exact absurd e hlp
      · omega
    refine ⟨hT1, hfire.2, ?_, ?_⟩
    · intro _
      rw [hl1]; exact hS2w
    · refine ⟨hC.1, ?_, hC.2.2, ?_, ?_, ?_, ?_⟩
      · obtain ⟨e, he, hx⟩ := hC.2.1
        exact ⟨e, he, fun x h => (hx x h).2⟩
      · rcases hF.n_locks with e | e <;> omega
      · intro x hx hxp hxl
        rcases hF.lock x with e | ⟨_, _, e, _⟩ | ⟨e, _, _⟩
        · rw [e, hS2l x hxl]
        · rw [hS2l x hxl] at e; exact absurd e hxp
        · omega
      · intro i hi
        rw [hl1, hS2b] at hi
        simp only [Bool.and_eq_true] at hi
        exact hi.2
      · intro h hh1
        rw [List.mem_singleton] at hh1
        rw [hh1, hl1, hS2b]
        simp
  · have e : lock_move_rec_fire nb l tm s h1 h2 = s := by
      unfold lock_move_rec_fire
      rw [if_neg hf]
    rw [e]
    refine ⟨hT, hJ, hJ2, wf, ⟨[], by simp, by simp⟩, fun _ _ => rfl, le_refl _,
      fun _ _ _ _ => rfl, fun _ h => h, ?_⟩
    intro h hh1
    rw [List.mem_singleton] at hh1
    rw [hh1]
    cases hb : lock_rec_get_nth_bit (s.lock l) h1
    · rfl
    · exfalso
      apply hf
      simp [hb, get_nth_bit_lt _ _ hb]
theorem list_end_recs_eq_fold (nb : buf_block_t) (l : Nat) (tm : type_mode_t) :
    ∀ (recs1 : List Nat) (s : lock_sys_t) (recs2 : List Nat),
      lock_move_rec_list_end_recs nb l tm s recs1 recs2
        = (list_end_pairs recs1 recs2).map (fun qs =>
            qs.foldl (fun s p => lock_move_rec_fire nb l tm s p.1 p.2) s) := by
  intro recs1
  induction recs1 with
  | nil =>
    intro s recs2
    unfold lock_move_rec_list_end_recs list_end_pairs
    rfl
  | cons h1 recs1 ih =>
    intro s recs2
    by_cases hs : h1 = PAGE_HEAP_NO_SUPREMUM
    · unfold lock_move_rec_list_end_recs list_end_pairs
      rw [if_pos hs, if_pos hs]
      rfl
    · cases recs2 with
      | nil =>
        unfold lock_move_rec_list_end_recs list_end_pairs
        rw [if_neg hs, if_neg hs]
        rfl
      | cons h2 recs2 =>
        rw [list_end_recs_cons _ _ _ _ _ _ _ _ hs, ih]
        conv_rhs => unfold list_end_pairs
        rw [if_neg hs]
        show _ = Option.map _ (Option.map _ (list_end_pairs recs1 recs2))
        cases hq : list_end_pairs recs1 recs2 <;> rfl

theorem list_start_recs_eq_fold (nb : buf_block_t) (l : Nat) (tm : type_mode_t)
    (rec : Nat) :
    ∀ (recs1 : List Nat) (s : lock_sys_t) (recs2 : List Nat),
      lock_move_rec_list_start_recs nb l tm rec s recs1 recs2
        = (list_start_pairs rec recs1 recs2).map (fun qs =>
            qs.foldl (fun s p => lock_move_rec_fire nb l tm s p.1 p.2) s) := by
  intro recs1
  induction recs1 with
  | nil =>
    intro s recs2
    unfold lock_move_rec_list_start_recs list_start_pairs
    rfl
  | cons h1 recs1 ih =>
    intro s recs2
    by_cases hs : h1 = rec
    · unfold lock_move_rec_list_start_recs list_start_pairs
      rw [if_pos hs, if_pos hs]
      rfl
    · cases recs2 with
      | nil =>
        unfold lock_move_rec_list_start_recs list_start_pairs
        rw [if_neg hs, if_neg hs]
        rfl
      | cons h2 recs2 =>
        conv_lhs => unfold lock_move_rec_list_start_recs
        rw [if_neg hs]
        simp only
        rw [ih]
        conv_rhs => unfold list_start_pairs
        rw [if_neg hs]
        show _ = Option.map _ (Option.map _ (list_start_pairs rec recs1 recs2))
        cases hq : list_start_pairs rec recs1 recs2 <;> rfl
theorem fire_frame_refl (nb : buf_block_t) (l : Nat) (s : lock_sys_t)
    (wf : chain_wf s hash_id.rec_hash) : fire_frame nb l [] s s :=
  ⟨wf, ⟨[], by simp, by simp⟩, fun _ _ => rfl, le_refl _, fun _ _ _ _ => rfl,
    fun _ h => h, by simp⟩

theorem fire_frame_trans (nb : buf_block_t) (l : Nat) (hs1 hs2 : List Nat)
    (s s1 s2 : lock_sys_t) (wf : chain_wf s hash_id.rec_hash) (hl : l < s.n_locks)
    (hlp : (s.lock l).page_id ≠ nb.page_id)
    (h1 : fire_frame nb l hs1 s s1) (h2 : fire_frame nb l hs2 s1 s2) :
    fire_frame nb l (hs1 ++ hs2) s s2 := by
  obtain ⟨e1, he1, hx1⟩ := h1.ext
  obtain ⟨e2, he2, hx2⟩ := h2.ext
  refine ⟨h2.wf, ⟨e1 ++ e2, by rw [he2, he1, List.append_assoc], ?_⟩, ?_,
    le_trans h1.n_locks h2.n_locks, ?_, fun i hi => h1.bits i (h2.bits i hi), ?_⟩
  · intro x hx
    rcases List.mem_append.mp hx with h | h
    · have hm : x ∈ s1.hash hash_id.rec_hash := by
        rw [he1]; exact List.mem_append_right _ h
      rw [h2.page x (h1.wf.alloc x hm)]
      exact hx1 x h
    · exact hx2 x h
  · intro x hx
    rw [h2.page x (lt_of_lt_of_le hx h1.n_locks), h1.page x hx]
  · intro x hx hp hxl
    rw [h2.other x (lt_of_lt_of_le hx h1.n_locks) (by rw [h1.page x hx]; exact hp) hxl,
      h1.other x hx hp hxl]
  · intro h hh
    rcases List.mem_append.mp hh with a | a
    · cases hb : lock_rec_get_nth_bit (s2.lock l) h
      · rfl
      · have := h2.bits h hb
        rw [h1.reset h a] at this
        cases this
    · exact h2.reset h a

theorem fold_fire_spec (s0 : lock_sys_t) (ps : List (Nat × Nat)) (Pr : Nat)
    (nb : buf_block_t) (l : Nat) (tm : type_mode_t) (hl : l < s0.n_locks)
    (hnb : nb.page_id = Pr) (hk1 : tm.predicate = false) (hk2 : tm.prdt_page = false) :
    ∀ (qs : List (Nat × Nat)) (s : lock_sys_t), (∀ p ∈ qs, p ∈ ps ∧ p.2 < nb.n_heap) →
      move_track s0 ps Pr s → chain_wf s hash_id.rec_hash →
      (s.lock l).page_id ≠ nb.page_id → move_lock_inv l tm s →
      (tm.wait = false → (s.lock l).is_waiting = false) →
      move_track s0 ps Pr (qs.foldl (fun s p => lock_move_rec_fire nb l tm s p.1 p.2) s)
        ∧ fire_frame nb l (qs.map Prod.fst) s
            (qs.foldl (fun s p => lock_move_rec_fire nb l tm s p.1 p.2) s) := by
  intro qs
  induction qs with
  | nil =>
    intro s _ hT wf _ _ _
    exact ⟨hT, fire_frame_refl nb l s wf⟩
  | cons p qs ih =>
    intro s hq hT wf hlp hJ hJ2
    obtain ⟨a1, a2, a3, a4⟩ := lock_move_rec_fire_spec s0 ps Pr nb l tm s p.1 p.2 hT wf hl
      hlp hJ hJ2 (hq p (List.mem_cons_self _ _)).1 hnb (hq p (List.mem_cons_self _ _)).2
      hk1 hk2
    have hls : l < s.n_locks := lt_of_lt_of_le hl hT.n_locks
    have hlp1 : ((lock_move_rec_fire nb l tm s p.1 p.2).lock l).page_id ≠ nb.page_id := by
      rw [a4.page l hls]; exact hlp
    obtain ⟨b1, b2⟩ := ih (lock_move_rec_fire nb l tm s p.1 p.2)
      (fun q hq1 => hq q (List.mem_cons_of_mem _ hq1)) a1 a4.wf hlp1 a2 a3
    refine ⟨b1, ?_⟩
    have := fire_frame_trans nb l [p.1] (qs.map Prod.fst) s _ _ wf hls hlp a4 b2
    simpa using this

/-- Inner-loop invariant for `INSERT_INTENTION`: a request with the captured
type mode `tm` on the copy of a record that the lock `l` still covers is
one that `intention_request` admits. -/
theorem intention_fire (nb : buf_block_t) (l : Nat) (tm : type_mode_t) (s : lock_sys_t)
    (h1 h2 : Nat) (hc : h1 = PAGE_HEAP_NO_SUPREMUM → h2 = PAGE_HEAP_NO_SUPREMUM)
    (hi : all_locks intention_gap s)
    (hK : ∀ h, lock_rec_get_nth_bit (s.lock l) h = true → tm.insert_intention = true →
      tm.mode = LOCK_X ∧ (tm.gap = true ∨ h = PAGE_HEAP_NO_SUPREMUM)) :
    all_locks intention_gap (lock_move_rec_fire nb l tm s h1 h2)
      ∧ ∀ h, lock_rec_get_nth_bit ((lock_move_rec_fire nb l tm s h1 h2).lock l) h = true →
          tm.insert_intention = true →
          tm.mode = LOCK_X ∧ (tm.gap = true ∨ h = PAGE_HEAP_NO_SUPREMUM) := by
  unfold lock_move_rec_fire
  by_cases hf : (decide (h1 < lock_rec_get_n_bits (s.lock l))
      && lock_rec_get_nth_bit (s.lock l) h1) = true
  · rw [if_pos hf]
    have hb : lock_rec_get_nth_bit (s.lock l) h1 = true := by
      simp only [Bool.and_eq_true] at hf; exact hf.2
    have hreq : intention_request tm h2 := by
      intro hii
      obtain ⟨a, b⟩ := hK h1 hb hii
      refine ⟨a, ?_⟩
      rcases b with b | b
      · exact Or.inl b
      · exact Or.inr (hc b)
    dsimp only
    have hS1 : all_locks intention_gap
        (s.set_lock l (lock_rec_reset_nth_bit (s.lock l) h1)) :=
      all_locks_set_lock s l _ hi (intention_gap_property.reset _ h1 (hi l))
    have hS2 : all_locks intention_gap
        (if tm.wait = true then
          (s.set_lock l (lock_rec_reset_nth_bit (s.lock l) h1)).set_lock l
            { (s.set_lock l (lock_rec_reset_nth_bit (s.lock l) h1)).lock l with
              type_mode :=
                { ((s.set_lock l (lock_rec_reset_nth_bit (s.lock l) h1)).lock l).type_mode with
                  wait := false } }
        else s.set_lock l (lock_rec_reset_nth_bit (s.lock l) h1)) := by
      split
      · apply all_locks_set_lock _ _ _ hS1
        simp only [lock_sys_t.lock_set_lock, if_true]
        exact (intention_gap_property.clear_wait _).mpr
          (intention_gap_property.reset _ h1 (hi l))
      · exact hS1
    have hS2b : ∀ h, lock_rec_get_nth_bit
        ((if tm.wait = true then
          (s.set_lock l (lock_rec_reset_nth_bit (s.lock l) h1)).set_lock l
            { (s.set_lock l (lock_rec_reset_nth_bit (s.lock l) h1)).lock l with
              type_mode :=
                { ((s.set_lock l (lock_rec_reset_nth_bit (s.lock l) h1)).lock l).type_mode with
                  wait := false } }
        else s.set_lock l (lock_rec_reset_nth_bit (s.lock l) h1)).lock l) h = true →
        lock_rec_get_nth_bit (s.lock l) h = true := by
      intro h hh
      split at hh
      · simp only [lock_sys_t.lock_set_lock, if_true] at hh
        exact get_nth_bit_reset_le _ _ _ hh
      · simp only [lock_sys_t.lock_set_lock, if_true] at hh
        exact get_nth_bit_reset_le _ _ _ hh
    refine ⟨all_locks_intention_add _ tm nb h2 _ _ false hreq hS2, ?_⟩
    intro h hh hii
    have hF := lock_rec_add_to_queue_frame
      (if tm.wait = true then
          (s.set_lock l (lock_rec_reset_nth_bit (s.lock l) h1)).set_lock l
            { (s.set_lock l (lock_rec_reset_nth_bit (s.lock l) h1)).lock l with
              type_mode :=
                { ((s.set_lock l (lock_rec_reset_nth_bit (s.lock l) h1)).lock l).type_mode with
                  wait := false } }
        else s.set_lock l (lock_rec_reset_nth_bit (s.lock l) h1))
      tm nb h2
      ((if tm.wait = true then
          (s.set_lock l (lock_rec_reset_nth_bit (s.lock l) h1)).set_lock l
            { (s.set_lock l (lock_rec_reset_nth_bit (s.lock l) h1)).lock l with
              type_mode :=
                { ((s.set_lock l (lock_rec_reset_nth_bit (s.lock l) h1)).lock l).type_mode with
                  wait := false } }
        else s.set_lock l (lock_rec_reset_nth_bit (s.lock l) h1)).lock l).index
      ((if tm.wait = true then
          (s.set_lock l (lock_rec_reset_nth_bit (s.lock l) h1)).set_lock l
            { (s.set_lock l (lock_rec_reset_nth_bit (s.lock l) h1)).lock l with
              type_mode :=
                { ((s.set_lock l (lock_rec_reset_nth_bit (s.lock l) h1)).lock l).type_mode with
                  wait := false } }
        else s.set_lock l (lock_rec_reset_nth_bit (s.lock l) h1)).lock l).trx false
    rcases hF.lock l with e | ⟨e, _⟩ | ⟨_, _, e⟩
    · rw [e] at hh
      exact hK h (hS2b h hh) hii
    · rw [e] at hh
      rcases get_nth_bit_set_cases _ h2 h hh with c | c
      · rw [c]; exact hreq hii
      · exact hK h (hS2b h c) hii
    · rw [e] at hh
      rw [new_rec_lock_only_bit _ _ _ _ _ h hh]
      exact hreq hii
  · rw [if_neg hf]
    exact ⟨hi, hK⟩

theorem intention_fold (nb : buf_block_t) (l : Nat) (tm : type_mode_t) :
    ∀ (qs : List (Nat × Nat)) (s : lock_sys_t),
      (∀ p ∈ qs, p.1 = PAGE_HEAP_NO_SUPREMUM → p.2 = PAGE_HEAP_NO_SUPREMUM) →
      all_locks intention_gap s →
      (∀ h, lock_rec_get_nth_bit (s.lock l) h = true → tm.insert_intention = true →
        tm.mode = LOCK_X ∧ (tm.gap = true ∨ h = PAGE_HEAP_NO_SUPREMUM)) →
      all_locks intention_gap
        (qs.foldl (fun s1 p => lock_move_rec_fire nb l tm s1 p.1 p.2) s) := by
  intro qs
  induction qs with
  | nil => intro s _ hi _; exact hi
  | cons p qs ih =>
    intro s hc hi hK
    obtain ⟨a, b⟩ := intention_fire nb l tm s p.1 p.2 (hc p (List.mem_cons_self _ _)) hi hK
    exact ih _ (fun q hq => hc q (List.mem_cons_of_mem _ hq)) a b

theorem intention_start_K (s : lock_sys_t) (l : Nat) (hi : all_locks intention_gap s) :
    ∀ h, lock_rec_get_nth_bit (s.lock l) h = true →
      (s.lock l).type_mode.insert_intention = true →
      (s.lock l).type_mode.mode = LOCK_X
        ∧ ((s.lock l).type_mode.gap = true ∨ h = PAGE_HEAP_NO_SUPREMUM) := by
  intro h hb hii
  obtain ⟨a, b⟩ := hi l hii
  refine ⟨a, ?_⟩
  rcases b with b | b
  · exact Or.inl b
  · exact Or.inr (b h hb)

theorem list_end_pairs_not_supremum :
    ∀ (recs1 recs2 : List Nat) (ps : List (Nat × Nat)), list_end_pairs recs1 recs2 = some ps →
      ∀ p ∈ ps, p.1 ≠ PAGE_HEAP_NO_SUPREMUM := by
  intro recs1
  induction recs1 with
  | nil =>
    intro recs2 ps h
    unfold list_end_pairs at h
    cases h
  | cons h1 recs1 ih =>
    intro recs2 ps h
    unfold list_end_pairs at h
    by_cases hs : h1 = PAGE_HEAP_NO_SUPREMUM
    · rw [if_pos hs] at h
      cases h
      intro p hp; cases hp
    · rw [if_neg hs] at h
      cases recs2 with
      | nil => cases h
      | cons h2 recs2 =>
        simp only at h
        cases hq : list_end_pairs recs1 recs2 with
        | none => rw [hq] at h; cases h
        | some qs =>
          rw [hq] at h
          cases h
          intro p hp
          rcases List.mem_cons.mp hp with e | e
          · rw [e]; exact hs
          · exact ih recs2 qs hq p e

theorem list_start_pairs_takeWhile (rec : Nat) :
    ∀ (recs1 recs2 : List Nat) (ps : List (Nat × Nat)),
      list_start_pairs rec recs1 recs2 = some ps →
      ∀ p ∈ ps, p.1 ∈ recs1.takeWhile (fun h => h != rec) := by
  intro recs1
  induction recs1 with
  | nil =>
    intro recs2 ps h
    unfold list_start_pairs at h
    cases h
  | cons h1 recs1 ih =>
    intro recs2 ps h
    unfold list_start_pairs at h
    by_cases hs : h1 = rec
    · rw [if_pos hs] at h
      cases h
      intro p hp; cases hp
    · rw [if_neg hs] at h
      cases recs2 with
      | nil => cases h
      | cons h2 recs2 =>
        simp only at h
        cases hq : list_start_pairs rec recs1 recs2 with
        | none => rw [hq] at h; cases h
        | some qs =>
          rw [hq] at h
          cases h
          intro p hp
          rw [List.takeWhile_cons_of_pos (by simpa using hs)]
          rcases List.mem_cons.mp hp with e | e
          · rw [e]; exact List.mem_cons_self _ _
          · exact List.mem_cons_of_mem _ (ih recs2 qs hq p e)

theorem all_locks_intention_list_end_loop (new_block : buf_block_t)
    (recs1 recs2 : List Nat) :
    ∀ (fuel : Nat) (s : lock_sys_t) (lock : Option Nat) (s1 : lock_sys_t),
      all_locks intention_gap s →
      lock_move_rec_list_end_loop new_block recs1 recs2 fuel s lock = some s1 →
      all_locks intention_gap s1 := by
  intro fuel
  induction fuel with
  | zero =>
    intro s lock s1 hi h
    cases lock with
    | none => rw [lock_move_rec_list_end_loop] at h; cases h; exact hi
    | some l => rw [lock_move_rec_list_end_loop] at h; cases h
  | succ n ih =>
    intro s lock s1 hi h
    cases lock with
    | none => rw [lock_move_rec_list_end_loop] at h; cases h; exact hi
    | some l =>
      rw [lock_move_rec_list_end_loop] at h
      cases hr : lock_move_rec_list_end_recs new_block l (s.lock l).type_mode s recs1 recs2 with
      | none => rw [hr] at h; cases h
      | some s2 =>
        rw [hr] at h
        refine ih _ _ _ ?_ h
        rw [list_end_recs_eq_fold] at hr
        cases hq : list_end_pairs recs1 recs2 with
        | none => rw [hq] at hr; cases hr
        | some qs =>
          rw [hq] at hr
          cases hr
          exact intention_fold new_block l _ qs s
            (fun p hp e => absurd e (list_end_pairs_not_supremum _ _ _ hq p hp)) hi
            (intention_start_K s l hi)

theorem all_locks_intention_list_start_loop (new_block : buf_block_t) (rec : Nat)
    (recs1 recs2 : List Nat)
    (hc : PAGE_HEAP_NO_SUPREMUM ∉ recs1.takeWhile (fun h => h != rec)) :
    ∀ (fuel : Nat) (s : lock_sys_t) (lock : Option Nat) (s1 : lock_sys_t),
      all_locks intention_gap s →
      lock_move_rec_list_start_loop new_block rec recs1 recs2 fuel s lock = some s1 →
      all_locks intention_gap s1 := by
  intro fuel
  induction fuel with
  | zero =>
    intro s lock s1 hi h
    cases lock with
    | none => rw [lock_move_rec_list_start_loop] at h; cases h; exact hi
    | some l => rw [lock_move_rec_list_start_loop] at h; cases h
  | succ n ih =>
    intro s lock s1 hi h
    cases lock with
    | none => rw [lock_move_rec_list_start_loop] at h; cases h; exact hi
    | some l =>
      rw [lock_move_rec_list_start_loop] at h
      cases hr : lock_move_rec_list_start_recs new_block l (s.lock l).type_mode rec s recs1
          recs2 with
      | none => rw [hr] at h; cases h
      | some s2 =>
        rw [hr] at h
        refine ih _ _ _ ?_ h
        rw [list_start_recs_eq_fold] at hr
        cases hq : list_start_pairs rec recs1 recs2 with
        | none => rw [hq] at hr; cases hr
        | some qs =>
          rw [hq] at hr
          cases hr
          refine intention_fold new_block l _ qs s ?_ hi (intention_start_K s l hi)
          intro p hp e
          have := list_start_pairs_takeWhile rec _ _ _ hq p hp
          rw [e] at this
          exact absurd this hc

theorem all_locks_intention_unlock (E : Env) (fuel : Nat) (s : lock_sys_t) (trx : Nat)
    (block : buf_block_t) (heap_no : Nat) (m : lock_mode) (s1 : lock_sys_t)
    (hi : all_locks intention_gap s)
    (h : lock_rec_unlock E fuel s trx block heap_no m = some s1) :
    all_locks intention_gap s1 := by
  unfold lock_rec_unlock at h
  dsimp only at h
  split at h
  · cases h; exact hi
  · rename_i lock _
    split at h
    · cases h
    · refine queue_loop_invariant_all (all_locks intention_gap) _ heap_no ?_ fuel _ _ s1 ?_ h
      · intro s2 g s3 hi2 hb
        cases hb
        exact all_locks_same_core intention_gap_property (same_core_rec_grant_step E s2 g) hi2
      · exact all_locks_set_lock s lock _ hi
          (intention_gap_property.reset _ heap_no (hi lock))

theorem intention_gap_bitmap_reset (l : lock_t) (h : intention_gap l) :
    intention_gap (lock_rec_bitmap_reset l) := by
  intro hii
  obtain ⟨a, _⟩ := h hii
  refine ⟨a, Or.inr ?_⟩
  intro i hi
  rw [get_nth_bit_bitmap_reset] at hi
  cases hi

theorem all_locks_intention_reorganize_copy :
    ∀ (fuel : Nat) (s : lock_sys_t) (old : List lock_t) (lock : Option Nat)
      (r : lock_sys_t × List lock_t), all_locks intention_gap s →
      (∀ c ∈ old, intention_gap c) →
      lock_move_reorganize_page_copy fuel s old lock = some r →
      all_locks intention_gap r.1 ∧ ∀ c ∈ r.2, intention_gap c := by
  intro fuel
  induction fuel with
  | zero =>
    intro s old lock r hi ho h
    cases lock with
    | none => unfold lock_move_reorganize_page_copy at h; cases h; exact ⟨hi, ho⟩
    | some l => unfold lock_move_reorganize_page_copy at h; cases h
  | succ n ih =>
    intro s old lock r hi ho h
    cases lock with
    | none => unfold lock_move_reorganize_page_copy at h; cases h; exact ⟨hi, ho⟩
    | some l =>
      unfold lock_move_reorganize_page_copy at h
      dsimp only at h
      refine ih _ _ _ r ?_ ?_ h
      · have h1 : all_locks intention_gap (s.set_lock l (lock_rec_bitmap_reset (s.lock l))) :=
          all_locks_set_lock s l _ hi (intention_gap_bitmap_reset _ (hi l))
        split
        · apply all_locks_set_lock _ _ _ h1
          simp only [lock_sys_t.lock_set_lock, if_true]
          exact (intention_gap_property.clear_wait _).mpr
            (intention_gap_bitmap_reset _ (hi l))
        · exact h1
      · intro c hc
        rcases List.mem_append.mp hc with e | e
        · exact ho c e
        · rw [List.mem_singleton] at e
          rw [e]; exact hi l

theorem all_locks_intention_reorganize_recs (block : buf_block_t) :
    ∀ (recs1 : List Nat) (s : lock_sys_t) (lock : lock_t) (recs2 : List Nat)
      (s1 : lock_sys_t),
      (∀ p ∈ recs1.zip recs2, p.2 = PAGE_HEAP_NO_SUPREMUM → p.1 = PAGE_HEAP_NO_SUPREMUM) →
      all_locks intention_gap s → intention_gap lock →
      lock_move_reorganize_page_recs block s lock recs1 recs2 = some s1 →
      all_locks intention_gap s1 := by
  intro recs1
  induction recs1 with
  | nil =>
    intro s lock recs2 s1 _ _ _ h
    unfold lock_move_reorganize_page_recs at h
    cases h
  | cons n recs1 ih =>
    intro s lock recs2 s1 hc hi hl h
    cases recs2 with
    | nil =>
      unfold lock_move_reorganize_page_recs at h
      cases h
    | cons o recs2 =>
      unfold lock_move_reorganize_page_recs at h
      dsimp only at h
      have hl1 : intention_gap (if o < lock_rec_get_n_bits lock then
          lock_rec_reset_nth_bit lock o else lock) := by
        split
        · exact intention_gap_property.reset _ o hl
        · exact hl
      have htm : (if o < lock_rec_get_n_bits lock then
          lock_rec_reset_nth_bit lock o else lock).type_mode = lock.type_mode := by
        split <;> rfl
      have hi1 : all_locks intention_gap
          (if (decide (o < lock_rec_get_n_bits lock) && lock_rec_get_nth_bit lock o) = true
          then
            lock_rec_add_to_queue s
              (if o < lock_rec_get_n_bits lock then lock_rec_reset_nth_bit lock o
                else lock).type_mode block n
              (if o < lock_rec_get_n_bits lock then lock_rec_reset_nth_bit lock o
                else lock).index
              (if o < lock_rec_get_n_bits lock then lock_rec_reset_nth_bit lock o
                else lock).trx false
          else s) := by
        split
        · rename_i hf
          have hb : lock_rec_get_nth_bit lock o = true := by
            simp only [Bool.and_eq_true] at hf; exact hf.2
          apply all_locks_intention_add _ _ _ _ _ _ _ _ hi
          rw [htm]
          intro hii
          obtain ⟨a, b⟩ := hl hii
          refine ⟨a, ?_⟩
          rcases b with b | b
          · exact Or.inl b
          · exact Or.inr (hc (n, o) (by simp) (b o hb))
        · exact hi
      split at h
      · cases h; exact hi1
      · exact ih _ _ _ _ (fun p hp => hc p (by
          rw [List.zip_cons_cons]; exact List.mem_cons_of_mem _ hp)) hi1 hl1 h

theorem all_locks_intention_reorganize_locks (block : buf_block_t) (recs1 recs2 : List Nat)
    (hc : ∀ p ∈ recs1.zip recs2,
      p.2 = PAGE_HEAP_NO_SUPREMUM → p.1 = PAGE_HEAP_NO_SUPREMUM) :
    ∀ (R : List lock_t) (s s1 : lock_sys_t), all_locks intention_gap s →
      (∀ c ∈ R, intention_gap c) →
      lock_move_reorganize_page_locks block recs1 recs2 s R = some s1 →
      all_locks intention_gap s1 := by
  intro R
  induction R with
  | nil =>
    intro s s1 hi _ h
    unfold lock_move_reorganize_page_locks at h
    cases h; exact hi
  | cons c R ih =>
    intro s s1 hi hR h
    unfold lock_move_reorganize_page_locks at h
    cases hr : lock_move_reorganize_page_recs block s c recs1 recs2 with
    | none => rw [hr] at h; cases h
    | some s2 =>
      rw [hr] at h
      change lock_move_reorganize_page_locks block recs1 recs2 s2 R = some s1 at h
      exact ih s2 s1
        (all_locks_intention_reorganize_recs block recs1 s c recs2 s2 hc hi
          (hR c (List.mem_cons_self _ _)) hr)
        (fun c1 h1 => hR c1 (List.mem_cons_of_mem _ h1)) h

theorem all_locks_intention_reorganize (fuel : Nat) (s : lock_sys_t) (block : buf_block_t)
    (page opage : List Nat) (s1 : lock_sys_t)
    (hc : ∀ p ∈ (page_recs_from page PAGE_HEAP_NO_INFIMUM).zip
        (page_recs_from opage PAGE_HEAP_NO_INFIMUM),
      p.2 = PAGE_HEAP_NO_SUPREMUM → p.1 = PAGE_HEAP_NO_SUPREMUM)
    (hi : all_locks intention_gap s)
    (h : lock_move_reorganize_page fuel s block page opage = some s1) :
    all_locks intention_gap s1 := by
  unfold lock_move_reorganize_page at h
  cases hf : (s.page_chain hash_id.rec_hash block.page_id).head? with
  | none =>
    rw [hf] at h
    cases h; exact hi
  | some lock =>
    rw [hf] at h
    dsimp only at h
    cases hcp : lock_move_reorganize_page_copy fuel s [] (some lock) with
    | none => rw [hcp] at h; cases h
    | some r =>
      rw [hcp] at h
      change (lock_move_granted_locks_to_front r.2).bind _ = some s1 at h
      cases hg : lock_move_granted_locks_to_front r.2 with
      | none => rw [hg] at h; cases h
      | some old_locks =>
        rw [hg] at h
        change lock_move_reorganize_page_locks block _ _ r.1 old_locks = some s1 at h
        obtain ⟨a, b⟩ := all_locks_intention_reorganize_copy fuel s [] (some lock) r hi
          (fun c hc1 => by cases hc1) hcp
        exact all_locks_intention_reorganize_locks block _ _ hc old_locks r.1 s1 a
          (fun c hc1 => b c ((granted_to_front_perm _ _ hg).mem_iff.mp hc1)) h

theorem all_locks_intention_table_create (s : lock_sys_t) (table : Nat) (tm : type_mode_t)
    (trx : Nat) (hii : tm.insert_intention = false) (hi : all_locks intention_gap s) :
    all_locks intention_gap (lock_table_create s table tm trx).2 := by
  intro g
  by_cases hne : tm = { mode := LOCK_AUTO_INC }
  · subst hne
    rw [(lock_table_create_autoinc s table trx).2.2.1 g]
    split
    · intro h; cases h
    · exact hi g
  · rw [(lock_table_create_fresh s table tm trx hne).2.2.1 g]
    split
    · intro h
      have : tm.insert_intention = true := h
      rw [hii] at this
      cases this
    · exact hi g

theorem all_locks_intention_table_enqueue_waiting (E : Env) (fuel : Nat) (s : lock_sys_t)
    (mode : type_mode_t) (table thr : Nat) (err : dberr_t) (s1 : lock_sys_t)
    (hii : mode.insert_intention = false) (hi : all_locks intention_gap s)
    (h : lock_table_enqueue_waiting E fuel s mode table thr = some (err, s1)) :
    all_locks intention_gap s1 := by
  have hc := all_locks_intention_table_create s table { mode with wait := true } thr hii hi
  unfold lock_table_enqueue_waiting at h
  dsimp only at h
  split at h
  · cases h
  · rename_i x s2 hr
    have h2 := all_locks_same_core intention_gap_property
      (same_core_check_and_resolve E fuel _ _ _ _ _ hr).1 hc
    simp only [Option.map_eq_some'] at h
    obtain ⟨s3, h3, he⟩ := h
    cases he
    obtain ⟨_, c2, _, _⟩ := lock_table_remove_low_frame s2 s3 _ h3
    exact all_locks_same_core intention_gap_property (same_core_reset s3 _)
      (all_locks_of_eq c2 h2)
  · rename_i s2 hr
    have h2 := all_locks_same_core intention_gap_property
      (same_core_check_and_resolve E fuel _ _ _ _ _ hr).1 hc
    split at h
    · cases h; exact h2
    · cases h
      exact all_locks_of_eq (fun g => by simp) h2

theorem all_locks_intention_lock_table (E : Env) (fuel : Nat) (s : lock_sys_t)
    (flags table : Nat) (mode : lock_mode) (thr : Nat) (err : dberr_t) (s1 : lock_sys_t)
    (hi : all_locks intention_gap s)
    (h : lock_table E fuel s flags table mode thr = some (err, s1)) :
    all_locks intention_gap s1 := by
  unfold lock_table at h
  split at h
  · cases h; exact hi
  · split at h
    · cases h
    · dsimp only at h
      split at h
      · cases h; exact hi
      · have hs1 : ∀ s0 : lock_sys_t,
            s0 = (if ((mode = LOCK_IX || mode = LOCK_X) && !(s.trx thr).read_only
                && !(s.trx thr).rseg_assigned) = true then
              s.set_trx thr { s.trx thr with rseg_assigned := true } else s) →
            all_locks intention_gap s0 := by
          intro s0 e
          rw [e]
          split
          · exact all_locks_of_eq (fun g => by simp) hi
          · exact hi
        generalize hg : (if ((mode = LOCK_IX || mode = LOCK_X) && !(s.trx thr).read_only
                && !(s.trx thr).rseg_assigned) = true then
              s.set_trx thr { s.trx thr with rseg_assigned := true } else s) = s0 at h
        have i0 := hs1 s0 hg.symm
        split at h
        · exact all_locks_intention_table_enqueue_waiting E fuel s0 _ table thr err s1 rfl i0 h
        · cases h
          exact all_locks_intention_table_create s0 table _ thr rfl i0

theorem all_locks_intention_rec_move (fuel : Nat) (s : lock_sys_t)
    (receiver donator : buf_block_t) (receiver_heap_no donator_heap_no : Nat)
    (s1 : lock_sys_t)
    (hd : donator_heap_no = PAGE_HEAP_NO_SUPREMUM → receiver_heap_no = PAGE_HEAP_NO_SUPREMUM)
    (hi : all_locks intention_gap s)
    (hr : lock_rec_move fuel s receiver donator receiver_heap_no donator_heap_no = some s1) :
    all_locks intention_gap s1 :=
  all_locks_queue_loop _ donator_heap_no
    (fun s lock s1 i hbit hb =>
      all_locks_intention_move_step _ _ _ hd s lock s1 i hbit hb)
    fuel s _ s1 hi (fun l hl => lock_rec_get_first_bit s _ donator donator_heap_no l hl) hr

theorem all_locks_intention_inherit_to_gap (fuel : Nat) (s : lock_sys_t)
    (heir_block block : buf_block_t) (heir_heap_no heap_no : Nat) (s1 : lock_sys_t)
    (hi : all_locks intention_gap s)
    (hr : lock_rec_inherit_to_gap fuel s heir_block block heir_heap_no heap_no = some s1) :
    all_locks intention_gap s1 :=
  all_locks_queue_loop _ heap_no
    (fun s lock s1 i _ hb => all_locks_intention_inherit_step _ _ s lock s1 i hb)
    fuel s _ s1 hi (fun l hl => lock_rec_get_first_bit s _ block heap_no l hl) hr

theorem all_locks_intention_inherit_if (fuel : Nat) (s : lock_sys_t) (block : buf_block_t)
    (heir_heap_no heap_no : Nat) (s1 : lock_sys_t) (hi : all_locks intention_gap s)
    (hr : lock_rec_inherit_to_gap_if_gap_lock fuel s block heir_heap_no heap_no = some s1) :
    all_locks intention_gap s1 :=
  all_locks_queue_loop _ heap_no
    (fun s lock s1 i _ hb => all_locks_intention_inherit_if_step _ _ _ s lock s1 i hb)
    fuel s _ s1 hi (fun l hl => lock_rec_get_first_bit s _ block heap_no l hl) hr

theorem all_locks_intention_update_delete (fuel : Nat) (s : lock_sys_t) (block : buf_block_t)
    (heap_no next_heap_no : Nat) (s1 : lock_sys_t) (hi : all_locks intention_gap s)
    (hr : lock_update_delete fuel s block heap_no next_heap_no = some s1) :
    all_locks intention_gap s1 := by
  unfold lock_update_delete at hr
  simp only [Option.bind_eq_some] at hr
  obtain ⟨s0, h0, h1⟩ := hr
  exact all_locks_reset_and_release_wait intention_gap_property fuel s0 block heap_no s1
    (all_locks_intention_inherit_to_gap fuel s block block next_heap_no heap_no s0 hi h0) h1

theorem all_locks_intention_split_right (fuel : Nat) (s : lock_sys_t)
    (right_block left_block : buf_block_t) (right_page : List Nat) (s1 : lock_sys_t)
    (hi : all_locks intention_gap s)
    (hr : lock_update_split_right fuel s right_block left_block right_page = some s1) :
    all_locks intention_gap s1 := by
  unfold lock_update_split_right at hr
  simp only [Option.bind_eq_some] at hr
  obtain ⟨hn, _, s0, h0, h1⟩ := hr
  exact all_locks_intention_inherit_to_gap fuel s0 left_block right_block _ hn s1
    (all_locks_intention_rec_move fuel s right_block left_block _ _ s0 (fun _ => rfl) hi h0)
    h1

theorem all_locks_intention_convert (I : ImplEnv) (s : lock_sys_t) (caller_trx : Nat)
    (block : buf_block_t) (heap_no : Nat) (index : dict_index_t)
    (hi : all_locks intention_gap s) :
    all_locks intention_gap
      (lock_rec_convert_impl_to_expl I s caller_trx block heap_no index).2 := by
  have hfor : ∀ t, all_locks intention_gap
      (lock_rec_convert_impl_to_expl_for_trx s block index t heap_no) := by
    intro t
    unfold lock_rec_convert_impl_to_expl_for_trx
    split
    · exact all_locks_intention_add s _ block heap_no index t true
        (fun h => by cases h) hi
    · exact hi
  unfold lock_rec_convert_impl_to_expl
  dsimp only
  split
  · split
    · exact hi
    · split
      · exact hi
      · split
        · exact hfor _
        · exact hi
  · split
    · exact hi
    · split
      · exact hfor _
      · exact hi

theorem all_locks_intention_handle_wait (E : Env) (fuel : Nat) (s : lock_sys_t) (trx : Nat)
    (r : dberr_t × lock_sys_t) (hi : all_locks intention_gap s)
    (h : lock_trx_handle_wait E fuel s trx = some r) : all_locks intention_gap r.2 := by
  unfold lock_trx_handle_wait lock_trx_handle_wait_low at h
  split at h
  · cases h; exact hi
  · split at h
    · cases h; exact hi
    · simp only [Option.map_eq_some'] at h
      obtain ⟨s1, hs, rfl⟩ := h
      exact all_locks_same_core intention_gap_property (same_core_cancel E fuel s s1 _ hs).1 hi

theorem all_locks_intention_step (E : Env) (s s1 : lock_sys_t)
    (h : intention_op E s s1) (hi : all_locks intention_gap s) :
    all_locks intention_gap s1 := by
  cases h with
  | lock_rec_insert_check_and_lock fuel _ heap_no block index thr inherit_in r hr =>
    exact all_locks_intention_insert_check E fuel s heap_no block index thr inherit_in r hi hr
  | lock_rec_lock fuel _ impl mode block heap_no index thr err _ hok hr =>
    refine all_locks_lock_rec_lock intention_gap_property E fuel s impl mode block heap_no
      index thr err s1 hi
      (intention_gap_new _ _ _ _ _ (intention_request_plain _ _ hok))
      (intention_gap_new _ _ _ _ _ (intention_request_plain _ _ hok)) ?_ ?_ hr
    · intro g hg _ hp
      exact intention_gap_set _ mode heap_no (intention_request_plain _ _ hok) hg hp
    · intro g hg _
      exact intention_gap_set_plain _ _ (by rw [hg]; exact hok)
  | lock_rec_add_to_queue _ tm block heap_no index trx b hok =>
    exact all_locks_intention_add s tm block heap_no index trx b hok hi
  | lock_rec_create_low _ tm page_id n_heap heap_no index trx b hok =>
    exact all_locks_create s tm { page_id := page_id, n_heap := n_heap } heap_no index trx b
      hi (intention_gap_new _ _ _ _ _ hok)
  | lock_rec_inherit_to_gap fuel _ heir_block block heir_heap_no heap_no _ hr =>
    exact all_locks_queue_loop _ heap_no
      (fun s lock s1 i _ hb => all_locks_intention_inherit_step _ _ s lock s1 i hb)
      fuel s _ s1 hi (fun l hl => lock_rec_get_first_bit s _ block heap_no l hl) hr
  | lock_rec_inherit_to_gap_if_gap_lock fuel _ block heir_heap_no heap_no _ hr =>
    exact all_locks_queue_loop _ heap_no
      (fun s lock s1 i _ hb => all_locks_intention_inherit_if_step _ _ _ s lock s1 i hb)
      fuel s _ s1 hi (fun l hl => lock_rec_get_first_bit s _ block heap_no l hl) hr
  | lock_rec_reset_and_release_wait fuel _ block heap_no _ hr =>
    exact all_locks_reset_and_release_wait intention_gap_property fuel s block heap_no s1
      hi hr
  | lock_rec_move fuel _ receiver donator receiver_heap_no donator_heap_no _ hd hr =>
    exact all_locks_queue_loop _ donator_heap_no
      (fun s lock s1 i hbit hb =>
        all_locks_intention_move_step _ _ _ hd s lock s1 i hbit hb)
      fuel s _ s1 hi (fun l hl => lock_rec_get_first_bit s _ donator donator_heap_no l hl) hr
  | lock_move_rec_list_end fuel _ new_block block page new_page rec _ hr =>
    exact all_locks_intention_list_end_loop new_block _ _ fuel s _ s1 hi hr
  | lock_move_rec_list_start fuel _ new_block block page new_page rec old_end _ hc hr =>
    exact all_locks_intention_list_start_loop new_block rec _ _ hc fuel s _ s1 hi hr
  | lock_move_reorganize_page fuel _ block page opage _ hc hr =>
    exact all_locks_intention_reorganize fuel s block page opage s1 hc hi hr
  | lock_rec_unlock fuel _ trx block heap_no m _ hr =>
    exact all_locks_intention_unlock E fuel s trx block heap_no m s1 hi hr
  | lock_rec_dequeue_from_page _ in_lock =>
    exact all_locks_same_core intention_gap_property (same_core_rec_dequeue E s in_lock) hi
  | lock_cancel_waiting_and_release fuel _ lock _ hr =>
    exact all_locks_same_core intention_gap_property
      (same_core_cancel E fuel s s1 lock hr).1 hi
  | lock_release fuel _ trx _ hr =>
    exact all_locks_same_core intention_gap_property
      (same_core_release_loop E fuel s s1 trx hr) hi
  | lock_trx_handle_wait fuel _ trx r hr =>
    exact all_locks_intention_handle_wait E fuel s trx r hi hr
  | lock_table fuel _ flags table mode thr err _ hr =>
    exact all_locks_intention_lock_table E fuel s flags table mode thr err s1 hi hr
  | lock_update_insert fuel _ block receiver_heap_no donator_heap_no _ hr =>
    exact all_locks_intention_inherit_if fuel s block receiver_heap_no donator_heap_no s1
      hi hr
  | lock_update_delete fuel _ block heap_no next_heap_no _ hr =>
    exact all_locks_intention_update_delete fuel s block heap_no next_heap_no s1 hi hr
  | lock_update_split_right fuel _ right_block left_block right_page _ hr =>
    exact all_locks_intention_split_right fuel s right_block left_block right_page s1 hi hr
  | lock_rec_store_on_page_infimum fuel _ block heap_no _ hn hr =>
    exact all_locks_intention_rec_move fuel s block block PAGE_HEAP_NO_INFIMUM heap_no s1
      (fun e => absurd e hn) hi hr
  | lock_rec_restore_from_page_infimum fuel _ block heap_no donator _ hr =>
    exact all_locks_intention_rec_move fuel s block donator heap_no PAGE_HEAP_NO_INFIMUM s1
      (fun e => absurd e (by decide)) hi hr
  | lock_rec_convert_impl_to_expl I _ caller_trx block heap_no index =>
    exact all_locks_intention_convert I s caller_trx block heap_no index hi

/-- C23, amended: in every state reached from a state in which every lock
with `INSERT_INTENTION` has the mode `X` and has `GAP` or no bit other
than the supremum's (such as a lock table without record locks), through
`lock_rec_insert_check_and_lock`, `lock_rec_lock`, `lock_rec_add_to_queue`
and `lock_rec_create_low` (with requests whose `INSERT_INTENTION` comes
with `X` and, off the supremum, with `GAP`), gap inheritance, the reset of
a record, `lock_rec_move` (to the supremum when from the supremum),
`lock_move_rec_list_end`, `lock_move_rec_list_start` and
`lock_move_reorganize_page` (for record lists in which the supremum is
paired only with a supremum), `lock_rec_unlock`,
`lock_rec_dequeue_from_page`, `lock_cancel_waiting_and_release`,
`lock_release`, `lock_trx_handle_wait`, `lock_table`, `lock_update_insert`,
`lock_update_delete`, `lock_update_split_right`,
`lock_rec_store_on_page_infimum` (of a record other than the supremum),
`lock_rec_restore_from_page_infimum` and `lock_rec_convert_impl_to_expl`,
every lock object with the `INSERT_INTENTION` flag has the mode `X`, and
it has the `GAP` flag unless all its bits are on the page supremum, for
which `lock_rec_create_low` drops `GAP`. -/
theorem insert_intention_gap_or_supremum (E : Env) (s0 s : lock_sys_t)
    (h0 : all_locks intention_gap s0)
    (h : Relation.ReflTransGen (intention_op E) s0 s) :
    ∀ g, (s.lock g).type_mode.insert_intention = true →
      (s.lock g).type_mode.mode = LOCK_X
      ∧ ((s.lock g).type_mode.gap = true
        ∨ ∀ i, lock_rec_get_nth_bit (s.lock g) i = true → i = PAGE_HEAP_NO_SUPREMUM) := by
  induction h with
  | refl => exact h0
  | tail _ hstep ih => exact all_locks_intention_step E _ _ hstep ih
theorem insert_intention_gap_or_supremum_witness :
    ∃ r, lock_rec_insert_check_and_lock env_ordering 10 supremum_state PAGE_HEAP_NO_SUPREMUM
        { page_id := 5, n_heap := 8 } { table := 0 } 2 false = some r
      ∧ (r.sys.lock 4).type_mode.insert_intention = true
      ∧ ∀ g, (r.sys.lock g).type_mode.insert_intention = true →
        (r.sys.lock g).type_mode.mode = LOCK_X
        ∧ ((r.sys.lock g).type_mode.gap = true
          ∨ ∀ i, lock_rec_get_nth_bit (r.sys.lock g) i = true →
              i = PAGE_HEAP_NO_SUPREMUM) := by
  have hs : ((lock_rec_insert_check_and_lock env_ordering 10 supremum_state
      PAGE_HEAP_NO_SUPREMUM { page_id := 5, n_heap := 8 } { table := 0 } 2 false).map
      (fun r => (r.sys.lock 4).type_mode.insert_intention)) = some true := by decide
  simp only [Option.map_eq_some'] at hs
  obtain ⟨r, hr, h4⟩ := hs
  refine ⟨r, hr, h4, ?_⟩
  refine insert_intention_gap_or_supremum env_ordering supremum_state r.sys ?_
    (Relation.ReflTransGen.single
      (intention_op.lock_rec_insert_check_and_lock 10 supremum_state PAGE_HEAP_NO_SUPREMUM
        { page_id := 5, n_heap := 8 } { table := 0 } 2 false r hr))
  intro g hii
  unfold supremum_state at hii
  simp only [lock_sys_t.lock] at hii
  split at hii
  · cases hii
  · split at hii
    · cases hii
    · split at hii
      · cases hii
      · exact absurd hii (by decide)

theorem autoinc_held_step (E : Env) (s : lock_sys_t) (T : Nat) (wf : autoinc_held s T)
    (hne : (s.trx T).autoinc_locks ≠ []) :
    ∃ L s1, (s.trx T).autoinc_locks.getLast? = some (some L)
      ∧ lock_release_autoinc_last_lock E s T = some s1
      ∧ autoinc_held s1 T
      ∧ (s1.trx T).autoinc_locks.reduceOption = (s.trx T).autoinc_locks.reduceOption.dropLast
      ∧ (∀ g, some g ∈ (s1.trx T).autoinc_locks → some g ∈ (s.trx T).autoinc_locks)
      ∧ (∀ g, s1.lock g = s.lock g ∨ s1.lock g = (s.lock g).clear_wait)
      ∧ (∀ g, g ≠ L → some g ∈ (s.trx T).table_locks → some g ∈ (s1.trx T).table_locks)
      ∧ (∀ tb, tb ≠ (s.lock L).table → (s1.tbl tb).autoinc_trx = (s.tbl tb).autoinc_trx) := by
  obtain ⟨L, hL⟩ := vector_last_of_wf _ hne wf.last
  have hmem : some L ∈ (s.trx T).autoinc_locks := List.mem_of_getLast?_eq_some hL
  obtain ⟨e1, e2, e3, e4, e5⟩ := wf.entry L hmem
  have hcount : (s.trx T).autoinc_locks.count (some L) = 1 := by
    rw [count_some_reduceOption]
    exact List.count_eq_one_of_mem wf.nodup (List.reduceOption_mem_iff.mpr hmem)
  obtain ⟨r, hr, hnr, hrl, hrf, hpop⟩ :=
    lock_table_remove_autoinc_lock_vector L _ ⟨L, hL⟩ hcount
  obtain ⟨hpop1, hpop2⟩ := hpop hL
  have hsub : ∀ g, some g ∈ r → some g ∈ (s.trx T).autoinc_locks :=
    fun g hg => lock_table_remove_autoinc_lock_mem L _ r g hr hg
  obtain ⟨s1, h1, a1, a2⟩ := lock_table_remove_low_autoinc s L r e2 (by rw [e4, e3])
    (by rw [e3]; exact hr)
  rw [e3] at a1
  obtain ⟨_, b1, _, _⟩ := lock_table_remove_low_frame s s1 L h1
  obtain ⟨b2, _⟩ := lock_table_remove_low_lists s s1 L h1
  have b3 := lock_table_remove_low_table_locks s s1 L h1 T
  have hdq : ∃ s2, lock_table_dequeue E s L = some s2
      ∧ autoinc_frame T (s.lock L).table s1 s2 := by
    unfold lock_table_dequeue
    simp only [e1, Bool.not_true, Bool.false_eq_true, ↓reduceIte, h1, Option.map_some']
    refine ⟨_, rfl, ?_⟩
    split
    · exact autoinc_frame_refl _ _ _
    · apply autoinc_frame_foldl
      intro x hx
      have hx1 : x ∈ (s.tbl (s.lock L).table).locks :=
        (List.dropWhile_sublist _).subset (List.mem_of_mem_tail hx)
      rw [b1]
      exact ⟨wf.tbl_ok _ x hx1, wf.no_wait L hmem x hx1⟩
  obtain ⟨s2, h2, f⟩ := hdq
  have c2 : ∀ g, s2.lock g = s.lock g ∨ s2.lock g = (s.lock g).clear_wait := by
    intro g
    have := f.lock g
    rw [b1] at this
    exact this
  have hT2 : (s2.lock L).trx = T := by
    rw [(core_of_frame_lock (c2 L)).2.2.1, e3]
  have htl : some L ∈ (s2.trx T).table_locks := by
    rw [f.table_locks, b3]
    exact e5
  obtain ⟨tv, htv, hkeep⟩ := vector_null_first_spec L _ htl
  have h3 : lock_trx_table_locks_remove s2 L
      = some (s2.set_trx T { s2.trx T with table_locks := tv }) := by
    simp only [lock_trx_table_locks_remove, hT2, htv, Option.map_some']
  have hv3 : ((s2.set_trx T { s2.trx T with table_locks := tv }).trx T).autoinc_locks = r := by
    simp only [lock_sys_t.trx_set_trx, if_true]
    rw [f.autoinc_locks, a1]
  have hl3 : ∀ g, (s2.set_trx T { s2.trx T with table_locks := tv }).lock g = s2.lock g :=
    fun g => by simp
  have ht3 : ∀ tb, (s2.set_trx T { s2.trx T with table_locks := tv }).tbl tb = s2.tbl tb :=
    fun tb => by simp
  have hlist : ∀ tb, ∀ g ∈ (s2.tbl tb).locks, g ∈ (s.tbl tb).locks := by
    intro tb g hg
    rw [f.tbl_locks, b2] at hg
    split at hg
    · exact List.mem_of_mem_erase hg
    · exact hg
  refine ⟨L, s2.set_trx T { s2.trx T with table_locks := tv }, hL, ?_, ?_, ?_, ?_, ?_, ?_, ?_⟩
  · unfold lock_release_autoinc_last_lock
    rw [hL]
    dsimp only
    rw [h2]
    exact h3
  · constructor
    · intro g hg
      rw [hv3] at hg
      have hgv := hsub g hg
      have hgL : g ≠ L := fun e => hnr (e ▸ hg)
      obtain ⟨g1, g2, g3, g4, g5⟩ := wf.entry g hgv
      obtain ⟨k1, k2, k3, k4, _⟩ := core_of_frame_lock (c2 g)
      have htb : (s.lock g).table ≠ (s.lock L).table :=
        fun e => hgL (wf.tables g L hgv hmem e)
      rw [hl3, ht3, k1, k2, k3, k4]
      refine ⟨g1, g2, g3, ?_, ?_⟩
      · rw [f.autoinc_trx _ htb, a2, if_neg htb]
        exact g4
      · simp only [lock_sys_t.trx_set_trx, if_true]
        apply hkeep g hgL
        rw [f.table_locks, b3]
        exact g5
    · rw [hv3, hrf]
      exact wf.nodup.filter _
    · intro g1 g2 hg1 hg2 he
      rw [hv3] at hg1 hg2
      rw [hl3, hl3, (core_of_frame_lock (c2 g1)).2.2.2.1,
        (core_of_frame_lock (c2 g2)).2.2.2.1] at he
      exact wf.tables g1 g2 (hsub g1 hg1) (hsub g2 hg2) he
    · rw [hv3]
      rcases hrl with e | ⟨x, e⟩
      · rw [e]; simp
      · rw [e]; simp
    · intro tb g hg
      rw [ht3] at hg
      rw [hl3, (core_of_frame_lock (c2 g)).2.2.2.1]
      exact wf.tbl_ok tb g (hlist tb g hg)
    · intro g hg w hw ht hwait
      rw [hv3] at hg
      rw [ht3, hl3, (core_of_frame_lock (c2 g)).2.2.2.1] at hw
      rw [hl3] at ht hwait ⊢
      obtain ⟨_, k2, k3, _, k5⟩ := core_of_frame_lock (c2 w)
      rw [k2]
      rw [k3] at ht
      exact wf.no_wait g (hsub g hg) w (hlist _ w hw) ht (k5 hwait)
  · simp only [lock_sys_t.trx_set_trx, if_true]
    rw [f.autoinc_locks, a1, hpop2]
  · intro g hg
    rw [hv3] at hg
    exact hsub g hg
  · intro g
    rw [hl3]
    exact c2 g
  · intro g hg hm
    simp only [lock_sys_t.trx_set_trx, if_true]
    apply hkeep g hg
    rw [f.table_locks, b3]
    exact hm
  · intro tb htb
    rw [ht3, f.autoinc_trx _ htb, a2, if_neg htb]

theorem lock_release_autoinc_locks_kept (E : Env) (T : Nat) (fuel : Nat) (s : lock_sys_t)
    (wf : autoinc_held s T) (hf : (s.trx T).autoinc_locks.reduceOption.length ≤ fuel) :
    ∃ s1, lock_release_autoinc_locks E fuel s T = some s1
      ∧ (s1.trx T).autoinc_locks = []
      ∧ (∀ g, s1.lock g = s.lock g ∨ s1.lock g = (s.lock g).clear_wait)
      ∧ (∀ g, some g ∉ (s.trx T).autoinc_locks → some g ∈ (s.trx T).table_locks →
          some g ∈ (s1.trx T).table_locks)
      ∧ (∀ tb, (∀ g, some g ∈ (s.trx T).autoinc_locks → (s.lock g).table ≠ tb) →
          (s1.tbl tb).autoinc_trx = (s.tbl tb).autoinc_trx) := by
  induction fuel generalizing s with
  | zero =>
    have hv : (s.trx T).autoinc_locks = [] := by
      by_contra hne
      obtain ⟨L, hL⟩ := vector_last_of_wf _ hne wf.last
      have := List.reduceOption_mem_iff.mpr (List.mem_of_getLast?_eq_some hL)
      rw [List.length_eq_zero.mp (Nat.le_zero.mp hf)] at this
      simp at this
    refine ⟨s, ?_, hv, fun _ => Or.inl rfl, fun _ _ h => h, fun _ _ => rfl⟩
    simp [lock_release_autoinc_locks, hv]
  | succ n ih =>
    by_cases hv : (s.trx T).autoinc_locks = []
    · refine ⟨s, ?_, hv, fun _ => Or.inl rfl, fun _ _ h => h, fun _ _ => rfl⟩
      simp [lock_release_autoinc_locks, hv]
    · obtain ⟨L, s1, hL, h1, wf1, hred, hsub, hlock, htl, hat⟩ :=
        autoinc_held_step E s T wf hv
      have hmem : some L ∈ (s.trx T).autoinc_locks := List.mem_of_getLast?_eq_some hL
      have hlen : (s1.trx T).autoinc_locks.reduceOption.length ≤ n := by
        have : 0 < (s.trx T).autoinc_locks.reduceOption.length :=
          List.length_pos_of_mem (List.reduceOption_mem_iff.mpr hmem)
        rw [hred, List.length_dropLast]
        omega
      obtain ⟨s2, k1, k2, k3, k4, k5⟩ := ih s1 wf1 hlen
      refine ⟨s2, ?_, k2, ?_, ?_, ?_⟩
      · unfold lock_release_autoinc_locks
        have : (s.trx T).autoinc_locks.isEmpty = false := by
          cases h : (s.trx T).autoinc_locks with
          | nil => exact absurd h hv
          | cons _ _ => rfl
        rw [this]
        simp only [Bool.false_eq_true, if_false]
        rw [h1]
        exact k1
      · intro g
        rcases k3 g with a | a <;> rcases hlock g with b | b
        · exact Or.inl (a.trans b)
        · exact Or.inr (a.trans b)
        · right; rw [a, b]
        · right; rw [a, b, clear_wait_clear_wait]
      · intro g hg hm
        apply k4 g (fun h => hg (hsub g h))
        exact htl g (fun e => hg (e ▸ hmem)) hm
      · intro tb htb
        rw [k5 tb, hat tb (fun e => htb L hmem e.symm)]
        intro g hg
        rw [(core_of_frame_lock (hlock g)).2.2.2.1]
        exact htb g (hsub g hg)

theorem autoinc_held_set_cancel {s : lock_sys_t} {T : Nat} (wf : autoinc_held s T) (b : Bool) :
    autoinc_held (s.set_trx T { s.trx T with cancel := b }) T := by
  have hl : ∀ g, (s.set_trx T { s.trx T with cancel := b }).lock g = s.lock g := fun g => by simp
  have ht : ∀ tb, (s.set_trx T { s.trx T with cancel := b }).tbl tb = s.tbl tb := fun g => by simp
  have ha : ((s.set_trx T { s.trx T with cancel := b }).trx T).autoinc_locks
      = (s.trx T).autoinc_locks := by simp
  have hv : ((s.set_trx T { s.trx T with cancel := b }).trx T).table_locks
      = (s.trx T).table_locks := by simp
  constructor
  · intro g hg
    rw [ha] at hg
    rw [hl, ht, hv]
    exact wf.entry g hg
  · rw [ha]; exact wf.nodup
  · intro g1 g2 h1 h2
    rw [ha] at h1 h2
    rw [hl, hl]
    exact wf.tables g1 g2 h1 h2
  · rw [ha]; exact wf.last
  · intro tb g hg
    rw [ht] at hg
    rw [hl]
    exact wf.tbl_ok tb g hg
  · intro g hg w hw
    rw [ha] at hg
    rw [hl, ht] at hw
    rw [hl]
    exact wf.no_wait g hg w hw

theorem lock_cancel_returns_held (E : Env) (fuel : Nat) (s : lock_sys_t) (w : Nat)
    (ht1 : (s.lock w).is_table = true)
    (wf : autoinc_held s (s.lock w).trx)
    (hf : (s.trx (s.lock w).trx).autoinc_locks.reduceOption.length ≤ fuel)
    (hn : some w ∉ (s.trx (s.lock w).trx).autoinc_locks)
    (h2 : some w ∈ (s.trx (s.lock w).trx).table_locks)
    (h3 : (s.lock w).mode = LOCK_AUTO_INC →
      (s.tbl (s.lock w).table).autoinc_trx ≠ some (s.lock w).trx) :
    ∃ s1, lock_cancel_waiting_and_release E fuel s w = some s1 := by
  unfold lock_cancel_waiting_and_release
  dsimp only
  have wf1 := autoinc_held_set_cancel wf true
  obtain ⟨sa, ha, _, hlock, htl, hat⟩ := lock_release_autoinc_locks_kept E (s.lock w).trx fuel
    (s.set_trx (s.lock w).trx { s.trx (s.lock w).trx with cancel := true }) wf1
    (by simpa using hf)
  have hla : sa.lock w = s.lock w ∨ sa.lock w = (s.lock w).clear_wait := by
    simpa using hlock w
  obtain ⟨c1, c2, c3, c4, _⟩ := core_of_frame_lock hla
  have h2a : some w ∈ (sa.trx (s.lock w).trx).table_locks :=
    htl w (by simpa using hn) (by simpa using h2)
  obtain ⟨s0, h0⟩ := lock_table_remove_low_isSome sa w (by
    intro hm
    rw [c2] at hm
    rw [c3, c4, hat (s.lock w).table]
    · simpa using h3 hm
    · intro g hg e
      simp only [lock_sys_t.trx_set_trx, if_true, lock_sys_t.lock_set_trx] at hg e
      exact h3 hm (e ▸ (wf.entry g hg).2.2.2.1))
  have hb : ∃ sb, lock_table_dequeue E sa w = some sb := by
    unfold lock_table_dequeue
    dsimp only
    simp only [c1, ht1, Bool.not_true, Bool.false_eq_true, if_false]
    rw [h0]
    exact ⟨_, rfl⟩
  obtain ⟨sb, hb⟩ := hb
  have htlb := lock_table_dequeue_table_locks E _ sb w hb (s.lock w).trx
  have hcore := (lock_table_dequeue_lists E _ sb w hb).1.core w
  have htrx : (sb.lock w).trx = (s.lock w).trx := by
    have := (core_is_waiting_trx hcore).1
    rw [this, c3]
  have hc : ∃ sc, lock_trx_table_locks_remove sb w = some sc := by
    unfold lock_trx_table_locks_remove
    dsimp only
    rw [htrx, htlb]
    obtain ⟨r, hr, _⟩ := vector_null_first_spec w _ h2a
    rw [hr]
    exact ⟨_, rfl⟩
  obtain ⟨sc, hc⟩ := hc
  simp only [lock_sys_t.lock_set_trx, ht1, Bool.not_true, Bool.false_eq_true, if_false,
    ha, Option.some_bind, hb, hc, Option.map_some']
  exact ⟨_, rfl⟩

theorem autoinc_cancel_state_tbl (tb g : Nat) (hg : g ∈ (autoinc_cancel_state.tbl tb).locks) :
    (tb = 0 ∧ (g = 0 ∨ g = 3)) ∨ (tb = 1 ∧ (g = 1 ∨ g = 2)) := by
  by_cases e0 : tb = 0
  · subst e0
    have : g ∈ [0, 3] := hg
    simp at this
    exact Or.inl ⟨rfl, this⟩
  · by_cases e1 : tb = 1
    · subst e1
      have : g ∈ [1, 2] := hg
      simp at this
      exact Or.inr ⟨rfl, this⟩
    · have : (autoinc_cancel_state.tbl tb).locks = [] := by
        simp [autoinc_cancel_state, lock_sys_t.tbl, e0, e1]
        rfl
      rw [this] at hg
      simp at hg

theorem queue_wf_autoinc_cancel_state : queue_wf autoinc_cancel_state 1 := by
  refine ⟨?_, ?_, ?_, ?_, ?_⟩
  · intro k; cases k <;> decide
  · intro tb
    by_cases e0 : tb = 0
    · subst e0; decide
    · by_cases e1 : tb = 1
      · subst e1; decide
      · have : (autoinc_cancel_state.tbl tb).locks = [] := by
          simp [autoinc_cancel_state, lock_sys_t.tbl, e0, e1]
          rfl
        rw [this]; exact List.nodup_nil
  · decide
  · intro k g hg
    cases k <;> exact absurd hg (List.not_mem_nil _)
  · intro tb g hg
    rcases autoinc_cancel_state_tbl tb g hg with ⟨rfl, rfl | rfl⟩ | ⟨rfl, rfl | rfl⟩ <;>
      exact ⟨rfl, rfl⟩

theorem autoinc_held_autoinc_cancel_state : autoinc_held autoinc_cancel_state 1 := by
  have hv : (autoinc_cancel_state.trx 1).autoinc_locks = [some 0] := rfl
  constructor
  · intro g hg
    rw [hv] at hg
    simp at hg
    subst hg
    decide
  · decide
  · intro g1 g2 h1 h2
    rw [hv] at h1 h2
    simp at h1 h2
    subst h1; subst h2
    intro _; rfl
  · decide
  · intro tb g hg
    rcases autoinc_cancel_state_tbl tb g hg with ⟨rfl, rfl | rfl⟩ | ⟨rfl, rfl | rfl⟩ <;> rfl
  · intro g hg w hw
    rw [hv] at hg
    simp at hg
    subst hg
    rcases autoinc_cancel_state_tbl _ w hw with ⟨_, rfl | rfl⟩ | ⟨h, _⟩
    · decide
    · decide
    · exact absurd h (by decide)

/-- C14: `lock_trx_handle_wait(trx)` returns `DB_DEADLOCK` and the
unchanged lock system when `was_chosen_as_deadlock_victim` is set;
otherwise `DB_SUCCESS` and the unchanged lock system when `trx` has no
`wait_lock`; otherwise it cancels the waiting lock `w` and returns
`DB_LOCK_WAIT`, with `w` in no hash chain, in no table list and not in the
lock list of `trx`, the `WAIT` flag of `w` clear, `trx.wait_lock` NULL and
`trx.lock.cancel` false.  In the third case the queues are duplicate-free
and hold locks of their own kind (`queue_wf`); every result of the call is
as stated, and the call does return: for a record lock always, and for a
table lock that is in the `table_locks` vector of `trx` and, when its mode
is `AUTO_INC`, is on a table whose `autoinc_trx` is not `trx`, when `trx`
holds no `AUTO_INC` lock, or holds `AUTO_INC` locks in a consistent
`autoinc_locks` vector (`autoinc_held`) that does not hold `w`, with fuel
for one turn of the loop of `lock_release_autoinc_locks` per lock of the
vector. -/
theorem lock_trx_handle_wait_spec (E : Env) (fuel : Nat) (s : lock_sys_t) (trx : Nat) :
    ((s.trx trx).was_chosen_as_deadlock_victim = true →
      lock_trx_handle_wait E fuel s trx = some (DB_DEADLOCK, s))
    ∧ ((s.trx trx).was_chosen_as_deadlock_victim = false → (s.trx trx).wait_lock = none →
      lock_trx_handle_wait E fuel s trx = some (DB_SUCCESS, s))
    ∧ (∀ w, (s.trx trx).was_chosen_as_deadlock_victim = false →
        (s.trx trx).wait_lock = some w → (s.lock w).trx = trx → queue_wf s trx →
        (∀ r, lock_trx_handle_wait E fuel s trx = some r →
          r.1 = DB_LOCK_WAIT ∧ (∀ k, w ∉ r.2.hash k) ∧ (∀ tb, w ∉ (r.2.tbl tb).locks)
          ∧ w ∉ (r.2.trx trx).trx_locks ∧ (r.2.lock w).is_waiting = false
          ∧ (r.2.trx trx).wait_lock = none ∧ (r.2.trx trx).cancel = false)
        ∧ (((s.lock w).is_table = false
            ∨ (some w ∈ (s.trx trx).table_locks
                ∧ ((s.lock w).mode = LOCK_AUTO_INC →
                    (s.tbl (s.lock w).table).autoinc_trx ≠ some trx)
                ∧ ((s.trx trx).autoinc_locks = []
                    ∨ (autoinc_held s trx
                        ∧ (s.trx trx).autoinc_locks.reduceOption.length ≤ fuel
                        ∧ some w ∉ (s.trx trx).autoinc_locks)))) →
          ∃ s1, lock_trx_handle_wait E fuel s trx = some (DB_LOCK_WAIT, s1)
            ∧ (∀ k, w ∉ s1.hash k) ∧ (∀ tb, w ∉ (s1.tbl tb).locks)
            ∧ w ∉ (s1.trx trx).trx_locks ∧ (s1.lock w).is_waiting = false
            ∧ (s1.trx trx).wait_lock = none ∧ (s1.trx trx).cancel = false)) := by
  refine ⟨?_, ?_, ?_⟩
  · intro h
    simp [lock_trx_handle_wait, lock_trx_handle_wait_low, h]
  · intro h1 h2
    simp [lock_trx_handle_wait, lock_trx_handle_wait_low, h1, h2]
  · intro w h1 h2 h3 wf
    have hd : lock_trx_handle_wait E fuel s trx
        = (lock_cancel_waiting_and_release E fuel s w).map (fun s1 => (DB_LOCK_WAIT, s1)) := by
      simp [lock_trx_handle_wait, lock_trx_handle_wait_low, h1, h2]
    have hall : ∀ s1, lock_cancel_waiting_and_release E fuel s w = some s1 →
        (∀ k, w ∉ s1.hash k) ∧ (∀ tb, w ∉ (s1.tbl tb).locks)
          ∧ w ∉ (s1.trx trx).trx_locks ∧ (s1.lock w).is_waiting = false
          ∧ (s1.trx trx).wait_lock = none ∧ (s1.trx trx).cancel = false := by
      intro s1 hs
      have := lock_cancel_removed E fuel s s1 w wf.nodup_hash wf.nodup_tbl
        (by rw [h3]; exact wf.nodup_trx) wf.hash_ok wf.tbl_ok hs
      rw [h3] at this
      exact this
    constructor
    · intro r hr
      rw [hd] at hr
      simp only [Option.map_eq_some'] at hr
      obtain ⟨s1, hs, rfl⟩ := hr
      exact ⟨rfl, hall s1 hs⟩
    · intro hc
      have hret : ∃ s1, lock_cancel_waiting_and_release E fuel s w = some s1 := by
        subst h3
        rcases hc with hc | ⟨c1, c2, c3 | ⟨c3, c4, c5⟩⟩
        · exact lock_cancel_returns E fuel s w (Or.inl hc)
        · exact lock_cancel_returns E fuel s w (Or.inr ⟨c3, c1, c2⟩)
        · by_cases ht : (s.lock w).is_table = false
          · exact lock_cancel_returns E fuel s w (Or.inl ht)
          · exact lock_cancel_returns_held E fuel s w (by simpa using ht) c3 c4 c5 c1 c2
      obtain ⟨s1, hs⟩ := hret
      exact ⟨s1, by rw [hd, hs]; rfl, hall s1 hs⟩

theorem queue_wf_release_state (T : Nat) (h : (release_state.trx T).trx_locks.Nodup) :
    queue_wf release_state T :=
  ⟨release_wf_release_state.nodup_hash, release_wf_release_state.nodup_tbl, h,
    release_wf_release_state.hash_ok, release_wf_release_state.tbl_ok⟩

/-- Witness of C14: in `release_state` the call cancels the waiting record
lock 3 of transaction 2 and the waiting table lock 4 of transaction 3, and
returns `DB_SUCCESS` for transaction 1, which does not wait; in
`autoinc_cancel_state` the call for transaction 1, which holds the
`AUTO_INC` lock 0 and waits for the table lock 2, releases lock 0 (lock 3
of transaction 3 is granted), cancels lock 2 and returns `DB_LOCK_WAIT`. -/
theorem lock_trx_handle_wait_spec_witness :
    (∃ s1, lock_trx_handle_wait env_ordering 0 release_state 2 = some (DB_LOCK_WAIT, s1)
      ∧ (∀ k, 3 ∉ s1.hash k) ∧ (s1.lock 3).is_waiting = false
      ∧ (s1.trx 2).wait_lock = none)
    ∧ (∃ s1, lock_trx_handle_wait env_ordering 0 release_state 3 = some (DB_LOCK_WAIT, s1)
      ∧ (∀ tb, 4 ∉ (s1.tbl tb).locks) ∧ (s1.lock 4).is_waiting = false
      ∧ (s1.trx 3).wait_lock = none)
    ∧ lock_trx_handle_wait env_ordering 0 release_state 1 = some (DB_SUCCESS, release_state)
    ∧ (autoinc_cancel_state.trx 1).autoinc_locks = [some 0]
    ∧ (autoinc_cancel_state.trx 1).wait_lock = some 2
    ∧ (∃ s1, lock_trx_handle_wait env_ordering 1 autoinc_cancel_state 1
          = some (DB_LOCK_WAIT, s1)
      ∧ (∀ tb, 2 ∉ (s1.tbl tb).locks) ∧ 2 ∉ (s1.trx 1).trx_locks
      ∧ (s1.lock 2).is_waiting = false ∧ (s1.trx 1).wait_lock = none
      ∧ (s1.trx 1).cancel = false)
    ∧ (lock_trx_handle_wait env_ordering 1 autoinc_cancel_state 1).map (fun r =>
        (r.1, (r.2.tbl 0).locks, (r.2.tbl 1).locks, (r.2.lock 3).is_waiting,
          (r.2.trx 1).trx_locks, (r.2.trx 1).autoinc_locks, (r.2.trx 1).wait_lock))
      = some (DB_LOCK_WAIT, [3], [1], false, [], [], none) := by
  have h2 := (lock_trx_handle_wait_spec env_ordering 0 release_state 2).2.2 3 (by decide)
    (by decide) (by decide) (queue_wf_release_state 2 (by decide))
  have h3 := (lock_trx_handle_wait_spec env_ordering 0 release_state 3).2.2 4 (by decide)
    (by decide) (by decide) (queue_wf_release_state 3 (by decide))
  have h4 := (lock_trx_handle_wait_spec env_ordering 1 autoinc_cancel_state 1).2.2 2
    (by decide) (by decide) (by decide) queue_wf_autoinc_cancel_state
  obtain ⟨r2, e2, a2⟩ := h2.2 (Or.inl (by decide))
  obtain ⟨r3, e3, a3⟩ := h3.2 (Or.inr ⟨by decide, by decide, Or.inl (by decide)⟩)
  obtain ⟨r4, e4, a4⟩ := h4.2 (Or.inr ⟨by decide, by decide,
    Or.inr ⟨autoinc_held_autoinc_cancel_state, by decide, by decide⟩⟩)
  exact ⟨⟨r2, e2, a2.1, a2.2.2.2.1, a2.2.2.2.2.1⟩,
    ⟨r3, e3, a3.2.1, a3.2.2.2.1, a3.2.2.2.2.1⟩,
    (lock_trx_handle_wait_spec env_ordering 0 release_state 1).2.1 (by decide) (by decide),
    rfl, rfl,
    ⟨r4, e4, a4.2.1, a4.2.2.1, a4.2.2.2.1, a4.2.2.2.2.1, a4.2.2.2.2.2⟩, by rfl⟩

theorem find_eq_head_filter (f : Nat → Bool) (T : List Nat) :
    T.find? f = (T.filter f).head? := by
  induction T with
  | nil => rfl
  | cons x T ih =>
    cases hx : f x
    · rw [List.find?_cons_of_neg _ (by simp [hx]), List.filter_cons_of_neg (by simp [hx]), ih]
    · rw [List.find?_cons_of_pos _ hx, List.filter_cons_of_pos hx]
      rfl

theorem next_on_page_eq (s : lock_sys_t) (l : Nat) :
    lock_rec_get_next_on_page s l
      = (page_rest s (lock_hash_get (s.lock l).type_mode) (s.lock l).page_id l).head? := by
  unfold lock_rec_get_next_on_page page_rest
  simp only
  rw [find_eq_head_filter]

theorem page_rest_step {k : hash_id} {p l : Nat} {s s1 : lock_sys_t}
    (wf : chain_wf s k) (hl : l ∈ s.hash k) (h : page_step k p s s1) :
    page_rest s1 k p l = page_rest s k p l := by
  obtain ⟨e, he, hext⟩ := h.ext
  unfold page_rest
  rw [he, dropWhile_append_of_mem _ _ _ hl, List.filter_append]
  have h1 : e.filter (fun i => (s1.lock i).page_id == p) = [] := by
    rw [List.filter_eq_nil_iff]
    intro x hx
    have := hext x hx
    simpa using this
  rw [h1, List.append_nil]
  apply List.filter_congr
  intro x hx
  obtain ⟨hm, _⟩ := mem_tail_dropWhile _ _ _ wf.nodup hx
  rw [h.page x hm]

theorem page_rest_next {k : hash_id} {p l a : Nat} {q : List Nat} {s : lock_sys_t}
    (wf : chain_wf s k) (h : page_rest s k p l = a :: q) :
    a ∈ s.hash k ∧ a ≠ l ∧ (s.lock a).page_id = p ∧ page_rest s k p a = q := by
  have ha : a ∈ page_rest s k p l := by rw [h]; simp
  unfold page_rest at ha
  obtain ⟨ha1, ha2⟩ := List.mem_filter.mp ha
  obtain ⟨hm, hne⟩ := mem_tail_dropWhile _ _ _ wf.nodup ha1
  refine ⟨hm, hne, by simpa using ha2, ?_⟩
  unfold page_rest at h ⊢
  rw [dropWhile_tail_of_mem _ l a wf.nodup ha1]
  exact filter_tail_dropWhile _ _ _ _ h

theorem page_rest_mem {k : hash_id} {p l x : Nat} {s : lock_sys_t}
    (wf : chain_wf s k) (hx : x ∈ page_rest s k p l) :
    x ∈ s.hash k ∧ x ≠ l ∧ (s.lock x).page_id = p := by
  unfold page_rest at hx
  obtain ⟨h1, h2⟩ := List.mem_filter.mp hx
  obtain ⟨hm, hne⟩ := mem_tail_dropWhile _ _ _ wf.nodup h1
  exact ⟨hm, hne, by simpa using h2⟩

theorem page_loop_some {α : Type} (body : lock_sys_t → α → Nat → Option (lock_sys_t × α))
    (fuel : Nat) (s : lock_sys_t) (a : α) (l : Nat) (r : lock_sys_t × α)
    (h : body s a l = some r) :
    page_loop body (fuel + 1) s a (some l)
      = page_loop body fuel r.1 r.2 (lock_rec_get_next_on_page r.1 l) := by
  rw [page_loop, h]
  rfl

theorem page_loop_none {α : Type} (body : lock_sys_t → α → Nat → Option (lock_sys_t × α))
    (fuel : Nat) (s : lock_sys_t) (a : α) :
    page_loop body fuel s a none = some (s, a) := by
  cases fuel <;> rfl

theorem page_loop_rule_aux {α : Type}
    (body : lock_sys_t → α → Nat → Option (lock_sys_t × α)) (k : hash_id) (p : Nat)
    (I : List Nat → lock_sys_t → α → Prop)
    (hstep : ∀ (rest : List Nat) (l : Nat) (s : lock_sys_t) (a : α), chain_wf s k →
      l ∈ s.hash k → (s.lock l).page_id = p → page_rest s k p l = rest → I (l :: rest) s a →
      ∃ r, body s a l = some r ∧ page_step k p s r.1 ∧ I rest r.1 r.2) :
    ∀ (rest : List Nat) (s : lock_sys_t) (a : α) (l fuel : Nat), chain_wf s k →
      l ∈ s.hash k → (s.lock l).page_id = p → page_rest s k p l = rest → I (l :: rest) s a →
      rest.length < fuel →
      ∃ r, page_loop body fuel s a (some l) = some r ∧ I [] r.1 r.2 ∧ chain_wf r.1 k := by
  intro rest
  induction rest with
  | nil =>
    intro s a l fuel wf hl hp hr hI hf
    obtain ⟨r, hb, hq, hI1⟩ := hstep [] l s a wf hl hp hr hI
    obtain ⟨f, rfl⟩ : ∃ f, fuel = f + 1 := ⟨fuel - 1, by simp at hf; omega⟩
    rw [page_loop_some body f s a l r hb]
    have hl1 : l ∈ r.1.hash k := by
      obtain ⟨e, he, _⟩ := hq.ext
      rw [he]; exact List.mem_append_left _ hl
    have hk : lock_hash_get (r.1.lock l).type_mode = k := hq.wf.kind l hl1
    have hp1 : (r.1.lock l).page_id = p := by rw [hq.page l hl]; exact hp
    have hnext : lock_rec_get_next_on_page r.1 l = none := by
      rw [next_on_page_eq, hk, hp1, page_rest_step wf hl hq, hr]
      rfl
    rw [hnext, page_loop_none]
    exact ⟨r, rfl, hI1, hq.wf⟩
  | cons b q ih =>
    intro s a l fuel wf hl hp hr hI hf
    obtain ⟨r, hb, hq, hI1⟩ := hstep (b :: q) l s a wf hl hp hr hI
    obtain ⟨f, rfl⟩ : ∃ f, fuel = f + 1 := ⟨fuel - 1, by simp at hf; omega⟩
    rw [page_loop_some body f s a l r hb]
    have hl1 : l ∈ r.1.hash k := by
      obtain ⟨e, he, _⟩ := hq.ext
      rw [he]; exact List.mem_append_left _ hl
    have hk : lock_hash_get (r.1.lock l).type_mode = k := hq.wf.kind l hl1
    have hp1 : (r.1.lock l).page_id = p := by rw [hq.page l hl]; exact hp
    have hr1 : page_rest r.1 k p l = b :: q := by rw [page_rest_step wf hl hq, hr]
    have hnext : lock_rec_get_next_on_page r.1 l = some b := by
      rw [next_on_page_eq, hk, hp1, hr1]
      rfl
    rw [hnext]
    obtain ⟨n1, _, n3, n4⟩ := page_rest_next hq.wf hr1
    exact ih r.1 r.2 b f hq.wf n1 n3 n4 hI1 (by simp at hf; omega)

theorem page_loop_rule {α : Type}
    (body : lock_sys_t → α → Nat → Option (lock_sys_t × α)) (k : hash_id) (p : Nat)
    (I : List Nat → lock_sys_t → α → Prop)
    (hstep : ∀ (rest : List Nat) (l : Nat) (s : lock_sys_t) (a : α), chain_wf s k →
      l ∈ s.hash k → (s.lock l).page_id = p → page_rest s k p l = rest → I (l :: rest) s a →
      ∃ r, body s a l = some r ∧ page_step k p s r.1 ∧ I rest r.1 r.2)
    (s : lock_sys_t) (a : α) (fuel : Nat) (wf : chain_wf s k)
    (hI : I (s.page_chain k p) s a) (hf : (s.page_chain k p).length ≤ fuel) :
    ∃ r, page_loop body fuel s a (s.page_chain k p).head? = some r ∧ I [] r.1 r.2
      ∧ chain_wf r.1 k := by
  cases hc : s.page_chain k p with
  | nil =>
    rw [hc] at hI
    rw [List.head?_nil, page_loop_none]
    exact ⟨(s, a), rfl, hI, wf⟩
  | cons l rest =>
    rw [hc] at hI hf
    rw [List.head?_cons]
    have hm : l ∈ s.page_chain k p := by rw [hc]; simp
    unfold lock_sys_t.page_chain at hm hc
    obtain ⟨hm1, hm2⟩ := List.mem_filter.mp hm
    have hr : page_rest s k p l = rest := filter_tail_dropWhile _ _ _ _ hc
    exact page_loop_rule_aux body k p I hstep rest s a l fuel wf hm1
      (by simpa using hm2) hr hI (by simp at hf; omega)
theorem move_track_refl (s : lock_sys_t) (ps : List (Nat × Nat)) (Pr : Nat)
    (hi : wait_ok s) : move_track s ps Pr s := by
  refine ⟨hi, le_refl _, fun _ _ _ => rfl, fun _ h => h, ?_⟩
  intro x hx hw
  have := waiting_lt_n_locks hi x hw
  omega

theorem move_track_moved (s s1 : lock_sys_t) (ps : List (Nat × Nat)) (Pr W dh : Nat)
    (hi : wait_ok s) (hT : move_track s ps Pr s1)
    (hw : (s.lock W).is_waiting = true)
    (hb : lock_rec_get_nth_bit (s.lock W) dh = true)
    (hW1 : (s1.lock W).is_waiting = false) :
    request_moved s s1 ps Pr W dh := by
  have hWlt : W < s.n_locks := waiting_lt_n_locks hi W hw
  have hwl : (s.trx (s.lock W).trx).wait_lock = some W := hi.inv.2.1 W hw
  have hall : ∀ t, (s.trx t).wait_lock ≠ none →
      ∃ w, (s1.trx t).wait_lock = some w ∧ (s1.lock w).is_waiting = true := by
    intro t ht
    have := hT.waits t ht
    cases h : (s1.trx t).wait_lock with
    | none => exact absurd h this
    | some w => exact ⟨w, rfl, hT.ok.inv.2.2 t w h⟩
  obtain ⟨w1, hw1, hw1w⟩ := hall (s.lock W).trx (by rw [hwl]; simp)
  have hw1t : (s1.lock w1).trx = (s.lock W).trx := (hT.ok.inv.1 _ _ hw1).2
  have hnew : s.n_locks ≤ w1 := by
    by_contra hc
    have hlt : w1 < s.n_locks := by omega
    have e := hT.old w1 hlt hw1w
    have hw0 : (s.lock w1).is_waiting = true := by rw [← e]; exact hw1w
    have h2 := hi.inv.2.1 w1 hw0
    have e3 : (s.lock w1).trx = (s.lock W).trx := by rw [← e]; exact hw1t
    rw [e3, hwl] at h2
    have : W = w1 := Option.some.inj h2
    rw [← this, hW1] at hw1w
    cases hw1w
  obtain ⟨hpage, y, _, hyw, hyt, p, hp, hpb1, hpb2⟩ := hT.new w1 hnew hw1w
  have hyW : y = W := by
    have h2 := hi.inv.2.1 y hyw
    rw [hyt, hw1t, hwl] at h2
    exact (Option.some.inj h2).symm
  rw [hyW] at hpb1
  have hdh : p.1 = dh := hi.one_bit W hw _ _ hpb1 hb
  refine ⟨⟨w1, p.2, ?_, hw1, hnew, hT.ok.listed _ _ hw1, hw1w, hw1t, hpage, hpb2⟩, hW1, hall⟩
  rw [← hdh]
  exact hp

theorem move_track_conclusion (s s1 : lock_sys_t) (ps : List (Nat × Nat)) (Pr W dh : Nat)
    (hi : wait_ok s) (hT : move_track s ps Pr s1)
    (hw : (s.lock W).is_waiting = true)
    (hb : lock_rec_get_nth_bit (s.lock W) dh = true)
    (hoff : lock_rec_get_nth_bit (s1.lock W) dh = false) :
    request_moved s s1 ps Pr W dh := by
  have hWlt : W < s.n_locks := waiting_lt_n_locks hi W hw
  have hW1 : (s1.lock W).is_waiting = false := by
    cases h : (s1.lock W).is_waiting
    · rfl
    · have := hT.old W hWlt h
      rw [this, hb] at hoff
      cases hoff
  exact move_track_moved s s1 ps Pr W dh hi hT hw hb hW1

theorem list_move_loop_spec (s0 : lock_sys_t) (nb : buf_block_t) (P : Nat)
    (ps : List (Nat × Nat)) (fuel : Nat) (hi : wait_ok s0)
    (wf0 : chain_wf s0 hash_id.rec_hash) (hne : P ≠ nb.page_id)
    (hh : ∀ p ∈ ps, p.2 < nb.n_heap)
    (hf : (s0.page_chain hash_id.rec_hash P).length ≤ fuel) :
    ∃ r, page_loop (fun s (_ : Unit) l =>
          some (ps.foldl (fun s1 p => lock_move_rec_fire nb l (s.lock l).type_mode s1 p.1 p.2) s,
            ()))
        fuel s0 () (s0.page_chain hash_id.rec_hash P).head? = some r
      ∧ move_track s0 ps nb.page_id r.1
      ∧ (∀ x ∈ s0.page_chain hash_id.rec_hash P, ∀ h ∈ ps.map Prod.fst,
          lock_rec_get_nth_bit (r.1.lock x) h = false) := by
  have key := page_loop_rule
    (fun s (_ : Unit) l =>
      some (ps.foldl (fun s1 p => lock_move_rec_fire nb l (s.lock l).type_mode s1 p.1 p.2) s,
        ()))
    hash_id.rec_hash P
    (fun todo s _ => move_track s0 ps nb.page_id s
      ∧ (∀ x ∈ todo, x ∈ s0.page_chain hash_id.rec_hash P)
      ∧ (∀ x, x < s0.n_locks → (s.lock x).page_id = (s0.lock x).page_id)
      ∧ (∀ x ∈ s0.page_chain hash_id.rec_hash P, x ∉ todo → ∀ h ∈ ps.map Prod.fst,
          lock_rec_get_nth_bit (s.lock x) h = false))
    ?_ s0 () fuel wf0 ?_ hf
  · obtain ⟨r, h1, ⟨h2, _, _, h3⟩, _⟩ := key
    exact ⟨r, h1, h2, fun x hx h hh1 => h3 x hx (List.not_mem_nil _) h hh1⟩
  · intro rest l s _ wf hl hp _ ⟨hT, hsub, hpage, hdone⟩
    have hl0 : l ∈ s0.page_chain hash_id.rec_hash P := hsub l (List.mem_cons_self _ _)
    have hl00 : l ∈ s0.hash hash_id.rec_hash := by
      unfold lock_sys_t.page_chain at hl0
      exact (List.mem_filter.mp hl0).1
    have hlt : l < s0.n_locks := wf0.alloc l hl00
    obtain ⟨hk1, hk2⟩ := (hash_get_rec_iff _).mp (wf.kind l hl)
    obtain ⟨b1, b2⟩ := fold_fire_spec s0 ps nb.page_id nb l (s.lock l).type_mode hlt rfl hk1
      hk2 ps s (fun p hp1 => ⟨hp1, hh p hp1⟩) hT wf (by rw [hp]; exact hne)
      (fun _ => Or.inl rfl) (fun h => h)
    refine ⟨_, rfl, ⟨b2.wf, ?_, ?_⟩, b1, ?_, ?_, ?_⟩
    · obtain ⟨e, he, hx⟩ := b2.ext
      exact ⟨e, he, fun x h => by rw [hx x h]; exact fun c => hne c.symm⟩
    · intro x hx
      exact b2.page x (wf.alloc x hx)
    · intro x hx
      exact hsub x (List.mem_cons_of_mem _ hx)
    · intro x hx
      rw [b2.page x (lt_of_lt_of_le hx hT.n_locks)]
      exact hpage x hx
    · intro x hx hnr h hh1
      by_cases hxl : x = l
      · rw [hxl]; exact b2.reset h hh1
      · have hx0 : x ∈ s0.hash hash_id.rec_hash := by
          unfold lock_sys_t.page_chain at hx
          exact (List.mem_filter.mp hx).1
        have hxP : (s0.lock x).page_id = P := by
          unfold lock_sys_t.page_chain at hx
          simpa using (List.mem_filter.mp hx).2
        have hxlt : x < s0.n_locks := wf0.alloc x hx0
        rw [b2.other x (lt_of_lt_of_le hxlt hT.n_locks)
          (by rw [hpage x hxlt, hxP]; exact hne) hxl]
        refine hdone x hx ?_ h hh1
        intro c
        rcases List.mem_cons.mp c with c | c
        · exact hxl c
        · exact hnr c
  · exact ⟨move_track_refl s0 ps nb.page_id hi, fun _ h => h, fun _ _ => rfl,
      fun x hx h => absurd hx h⟩
theorem list_end_loop_eq_page_loop (nb : buf_block_t) (recs1 recs2 : List Nat)
    (ps : List (Nat × Nat)) (hps : list_end_pairs recs1 recs2 = some ps) :
    ∀ (fuel : Nat) (s : lock_sys_t) (l : Option Nat),
      lock_move_rec_list_end_loop nb recs1 recs2 fuel s l
        = (page_loop (fun s (_ : Unit) l =>
            some (ps.foldl (fun s1 p => lock_move_rec_fire nb l (s.lock l).type_mode s1 p.1 p.2) s,
              ())) fuel s () l).map Prod.fst := by
  intro fuel
  induction fuel with
  | zero =>
    intro s l
    cases l with
    | none => simp [lock_move_rec_list_end_loop, page_loop]
    | some l => simp [lock_move_rec_list_end_loop, page_loop]
  | succ n ih =>
    intro s l
    cases l with
    | none => simp [lock_move_rec_list_end_loop, page_loop]
    | some l =>
      rw [lock_move_rec_list_end_loop, page_loop, list_end_recs_eq_fold, hps]
      simp only [Option.map_some', Option.some_bind]
      exact ih _ _

theorem list_start_loop_eq_page_loop (nb : buf_block_t) (rec : Nat) (recs1 recs2 : List Nat)
    (ps : List (Nat × Nat)) (hps : list_start_pairs rec recs1 recs2 = some ps) :
    ∀ (fuel : Nat) (s : lock_sys_t) (l : Option Nat),
      lock_move_rec_list_start_loop nb rec recs1 recs2 fuel s l
        = (page_loop (fun s (_ : Unit) l =>
            some (ps.foldl (fun s1 p => lock_move_rec_fire nb l (s.lock l).type_mode s1 p.1 p.2) s,
              ())) fuel s () l).map Prod.fst := by
  intro fuel
  induction fuel with
  | zero =>
    intro s l
    cases l with
    | none => simp [lock_move_rec_list_start_loop, page_loop]
    | some l => simp [lock_move_rec_list_start_loop, page_loop]
  | succ n ih =>
    intro s l
    cases l with
    | none => simp [lock_move_rec_list_start_loop, page_loop]
    | some l =>
      rw [lock_move_rec_list_start_loop, page_loop, list_start_recs_eq_fold, hps]
      simp only [Option.map_some', Option.some_bind]
      exact ih _ _

theorem list_move_request_moved (s : lock_sys_t) (nb : buf_block_t) (P : Nat)
    (ps : List (Nat × Nat)) (fuel : Nat) (hi : wait_ok s)
    (wf : chain_wf s hash_id.rec_hash) (hne : P ≠ nb.page_id)
    (hh : ∀ p ∈ ps, p.2 < nb.n_heap)
    (hf : (s.page_chain hash_id.rec_hash P).length ≤ fuel)
    (W dh : Nat) (hW : W ∈ s.page_chain hash_id.rec_hash P)
    (hw : (s.lock W).is_waiting = true)
    (hb : lock_rec_get_nth_bit (s.lock W) dh = true) (hd : dh ∈ ps.map Prod.fst) :
    ∃ s1, (page_loop (fun s (_ : Unit) l =>
          some (ps.foldl (fun s1 p => lock_move_rec_fire nb l (s.lock l).type_mode s1 p.1 p.2) s,
            ()))
        fuel s () (s.page_chain hash_id.rec_hash P).head?).map Prod.fst = some s1
      ∧ request_moved s s1 ps nb.page_id W dh
      ∧ lock_rec_get_nth_bit (s1.lock W) dh = false := by
  obtain ⟨r, h1, h2, h3⟩ := list_move_loop_spec s nb P ps fuel hi wf hne hh hf
  have hoff := h3 W hW dh hd
  exact ⟨r.1, by rw [h1]; rfl, move_track_conclusion s r.1 ps nb.page_id W dh hi h2 hw hb hoff,
    hoff⟩

theorem lock_rec_move_request_moved (fuel : Nat) (s : lock_sys_t)
    (receiver donator : buf_block_t) (rh dh : Nat) (hi : wait_ok s)
    (wf : chain_wf s hash_id.rec_hash)
    (hempty : lock_rec_queue s hash_id.rec_hash receiver.page_id rh = [])
    (hheap : rh < receiver.n_heap)
    (hf : (lock_rec_queue s hash_id.rec_hash donator.page_id dh).length ≤ fuel)
    (W : Nat) (hW : W ∈ lock_rec_queue s hash_id.rec_hash donator.page_id dh)
    (hw : (s.lock W).is_waiting = true) :
    ∃ s1, lock_rec_move fuel s receiver donator rh dh = some s1
      ∧ request_moved s s1 [(dh, rh)] receiver.page_id W dh
      ∧ lock_rec_get_nth_bit (s1.lock W) dh = false := by
  have hWf := hW
  rw [lock_rec_queue_eq_filter] at hWf
  obtain ⟨hW0, hWon⟩ := List.mem_filter.mp hWf
  unfold on_rec at hWon
  simp only [Bool.and_eq_true, beq_iff_eq] at hWon
  obtain ⟨hWp, hWb⟩ := hWon
  have hne : receiver.page_id ≠ donator.page_id ∨ rh ≠ dh := by
    by_cases a : receiver.page_id = donator.page_id
    · right
      intro b
      rw [a, b] at hempty
      rw [hempty] at hW
      exact absurd hW (List.not_mem_nil _)
    · exact Or.inl a
  have hI : move_inv s receiver.page_id rh donator.page_id dh
      (lock_rec_queue s hash_id.rec_hash donator.page_id dh) s := by
    refine ⟨rfl, fun x hx => ⟨hx, rfl, rfl⟩, ?_, ?_, le_refl _, le_refl _⟩
    · intro T tm
      constructor
      · intro h
        obtain ⟨l, hl, _⟩ := (rec_holds_iff_queue _ _ _ _ _).mp h
        rw [hempty] at hl
        exact absurd hl (List.not_mem_nil _)
      · rintro ⟨l, hl, hn, _⟩
        exact absurd hl hn
    · intro x hx _ hon
      have : x ∈ lock_rec_queue s hash_id.rec_hash receiver.page_id rh := by
        rw [lock_rec_queue_eq_filter]
        exact List.mem_filter.mpr ⟨hx, hon⟩
      rw [hempty] at this
      exact absurd this (List.not_mem_nil _)
  obtain ⟨s1, h1, ⟨hI1, hT1, hc1, hp1⟩, wf1⟩ := queue_loop_rule
    (lock_rec_move_step receiver rh dh) hash_id.rec_hash donator dh
    (fun todo s' => move_inv s receiver.page_id rh donator.page_id dh todo s'
      ∧ move_track s [(dh, rh)] receiver.page_id s'
      ∧ (∀ x ∈ s.rec_hash, x ∈ s'.rec_hash)
      ∧ (∀ x, x < s.n_locks → (s'.lock x).page_id = (s.lock x).page_id))
    (fun rest l s' wfs hl hon _ ⟨I, hT, hc, hp⟩ => by
      obtain ⟨s2, e1, e2, e3⟩ :=
        move_step_spec s receiver rh donator.page_id dh wf hne hheap rest l s' wfs hl hon I
      have hl0 : l < s.n_locks :=
        wf.alloc l (by
          have := (I.todo_attr l (List.mem_cons_self _ _)).1
          rw [lock_rec_queue_eq_filter] at this
          exact (List.mem_filter.mp this).1)
      have hbit : lock_rec_get_nth_bit (s'.lock l) dh = true := by
        unfold on_rec at hon
        simp only [Bool.and_eq_true, beq_iff_eq] at hon
        exact hon.2
      obtain ⟨hk1, hk2⟩ := (hash_get_rec_iff _).mp (wfs.kind l hl)
      have heq := lock_rec_move_step_eq receiver rh dh s' l
      rw [e1] at heq
      have hs2 := Option.some.inj heq
      have hF := lock_rec_add_to_queue_frame
        (s'.set_lock l (lock_rec_reset_nth_bit (s'.lock l) dh).clear_wait)
        (s'.lock l).type_mode receiver rh (s'.lock l).index (s'.lock l).trx false
      rw [← hs2] at hF
      have hok : wait_ok s2 := wait_ok_move_step receiver rh dh s' l s2 hT.ok e1
      have hT2 := move_track_requeue s [(dh, rh)] receiver.page_id receiver l
        (s'.lock l).type_mode s' dh rh hT hl0 hbit rfl (List.mem_singleton_self _) rfl hheap
        hk1 hk2 _ s2 _ _ (by simp) (fun t => by simp)
        (fun x hx => by simp [hx]) (by simp [lock_t.clear_wait, lock_t.is_waiting]) rfl hF hok
      obtain ⟨_, ⟨e, he, _⟩, hpg⟩ := requeue_chain s'
        (s'.set_lock l (lock_rec_reset_nth_bit (s'.lock l) dh).clear_wait) s2 l
        (s'.lock l).type_mode receiver rh (s'.lock l).index (s'.lock l).trx (by simp)
        (fun k => by simp) (fun x hx => by simp [hx])
        (by simp [lock_t.clear_wait, lock_rec_reset_nth_bit])
        (by simp [lock_t.clear_wait, lock_rec_reset_nth_bit, lock_hash_get]) hF hk1 hk2 wfs
      refine ⟨s2, e1, e2, e3, hT2, ?_, ?_⟩
      · intro x hx
        have : x ∈ s2.hash hash_id.rec_hash := by
          rw [he]
          exact List.mem_append_left _ (hc x hx)
        exact this
      · intro x hx
        rw [hpg x (lt_of_lt_of_le hx hT.n_locks)]
        exact hp x hx)
    s fuel wf ⟨hI, move_track_refl s _ _ hi, fun _ h => h, fun _ _ => rfl⟩ hf
  have hoff : lock_rec_get_nth_bit (s1.lock W) dh = false := by
    cases hb : lock_rec_get_nth_bit (s1.lock W) dh
    · rfl
    · have : W ∈ lock_rec_queue s1 hash_id.rec_hash donator.page_id dh := by
        rw [lock_rec_queue_eq_filter]
        refine List.mem_filter.mpr ⟨hc1 W hW0, ?_⟩
        unfold on_rec
        simp only [Bool.and_eq_true, beq_iff_eq]
        exact ⟨by rw [hp1 W (wf.alloc W hW0)]; exact hWp, hb⟩
      rw [hI1.queue] at this
      exact absurd this (List.not_mem_nil _)
  refine ⟨s1, ?_, move_track_conclusion s s1 _ _ W dh hi hT1 hw hWb hoff, hoff⟩
  unfold lock_rec_move lock_rec_move_low
  exact h1
theorem reorganize_track_add (sm : lock_sys_t) (R : List lock_t) (ps : List (Nat × Nat))
    (P : Nat) (s : lock_sys_t) (c : lock_t) (block : buf_block_t) (h1 h2 : Nat)
    (tm : type_mode_t) (index : dict_index_t) (trx : Nat)
    (hT : reorganize_track sm R ps P s) (hc : c ∈ R)
    (hb : lock_rec_get_nth_bit c h1 = true) (hp : (h1, h2) ∈ ps)
    (hnb : block.page_id = P) (hh : h2 < block.n_heap)
    (htm : tm = c.type_mode) (htrx : trx = c.trx)
    (hk1 : tm.predicate = false) (hk2 : tm.prdt_page = false) :
    reorganize_track sm R ps P (lock_rec_add_to_queue s tm block h2 index trx false) := by
  have hF := lock_rec_add_to_queue_frame s tm block h2 index trx false
  generalize lock_rec_add_to_queue s tm block h2 index trx false = s1 at hF
  have hn : s.n_locks ≤ s1.n_locks := by
    rcases hF.n_locks with e | e <;> omega
  have hset : ∀ x, (lock_rec_set_nth_bit (s.lock x) h2).is_waiting = (s.lock x).is_waiting :=
    fun _ => rfl
  refine ⟨le_trans hT.n_locks hn, ?_, ?_, ?_, ?_⟩
  · intro x hx
    rcases hF.lock x with e | ⟨e, e2, _⟩ | ⟨e, e2, _⟩
    · rw [e]; exact hT.alloc x (le_trans hn hx)
    · rw [e, hset, e2]
    · omega
  · intro x hx hw
    rcases hF.lock x with e | ⟨e, e2, _⟩ | ⟨e, _, _⟩
    · rw [e] at hw ⊢
      exact hT.old x hx hw
    · rw [e, hset, e2] at hw; cases hw
    · have := hT.n_locks
      omega
  · intro t ht
    have h0 := hT.waits t ht
    rcases hF.wait t with e | ⟨_, _, e, _⟩
    · rw [e]; exact h0
    · rw [e]; simp
  · intro x hx hw
    rcases hF.lock x with e | ⟨e, e2, _⟩ | ⟨e, _, e3⟩
    · rw [e] at hw ⊢
      exact hT.new x hx hw
    · rw [e, hset, e2] at hw; cases hw
    · rw [e3] at hw ⊢
      have hw1 : tm.wait = true := by
        have : (new_rec_lock tm block h2 index trx).is_waiting
            = (supremum_type_mode tm h2).wait := rfl
        rw [this, supremum_type_mode_wait] at hw
        exact hw
      refine ⟨hnb, c, hc, ?_, ?_, (h1, h2), hp, hb,
        new_rec_lock_bit tm block h2 index trx hk1 hk2 hh⟩
      · have : c.is_waiting = c.type_mode.wait := rfl
        rw [this, ← htm]; exact hw1
      · rw [htrx]; rfl

theorem reorganize_recs_track (sm : lock_sys_t) (R : List lock_t) (ps : List (Nat × Nat))
    (block : buf_block_t) (c : lock_t) (hc : c ∈ R)
    (hk1 : c.type_mode.predicate = false) (hk2 : c.type_mode.prdt_page = false) :
    ∀ (recs1 : List Nat) (s : lock_sys_t) (lock : lock_t) (recs2 : List Nat)
      (qs : List (Nat × Nat)), reorganize_pairs recs1 recs2 = some qs →
      (∀ p ∈ qs, p ∈ ps ∧ p.2 < block.n_heap) →
      lock.type_mode = c.type_mode → lock.trx = c.trx →
      (∀ i, lock_rec_get_nth_bit lock i = true → lock_rec_get_nth_bit c i = true) →
      reorganize_track sm R ps block.page_id s →
      ∃ s1, lock_move_reorganize_page_recs block s lock recs1 recs2 = some s1
        ∧ reorganize_track sm R ps block.page_id s1 := by
  intro recs1
  induction recs1 with
  | nil =>
    intro s lock recs2 qs hq
    simp [reorganize_pairs] at hq
  | cons new_heap_no recs1 ih =>
    intro s lock recs2 qs hq hqs htm htrx hbits hT
    cases recs2 with
    | nil => simp [reorganize_pairs] at hq
    | cons old_heap_no recs2 =>
      rw [lock_move_reorganize_page_recs]
      have hpair : (old_heap_no, new_heap_no) ∈ qs := by
        unfold reorganize_pairs at hq
        split at hq
        · cases hq; simp
        · simp only [Option.map_eq_some'] at hq
          obtain ⟨q, _, rfl⟩ := hq
          simp
      have hstep : reorganize_track sm R ps block.page_id
          (if (decide (old_heap_no < lock_rec_get_n_bits lock)
              && lock_rec_get_nth_bit lock old_heap_no) = true then
            lock_rec_add_to_queue s
              (if old_heap_no < lock_rec_get_n_bits lock then
                lock_rec_reset_nth_bit lock old_heap_no else lock).type_mode
              block new_heap_no
              (if old_heap_no < lock_rec_get_n_bits lock then
                lock_rec_reset_nth_bit lock old_heap_no else lock).index
              (if old_heap_no < lock_rec_get_n_bits lock then
                lock_rec_reset_nth_bit lock old_heap_no else lock).trx false
          else s) := by
        split
        · rename_i hfire
          simp only [Bool.and_eq_true, decide_eq_true_eq] at hfire
          rw [if_pos hfire.1]
          have e1 : (lock_rec_reset_nth_bit lock old_heap_no).type_mode = c.type_mode := htm
          have e2 : (lock_rec_reset_nth_bit lock old_heap_no).trx = c.trx := htrx
          exact reorganize_track_add sm R ps block.page_id s c block old_heap_no new_heap_no _
            _ _ hT hc (hbits _ hfire.2) (hqs _ hpair).1 rfl (hqs _ hpair).2 e1 e2
            (by rw [e1]; exact hk1) (by rw [e1]; exact hk2)
        · exact hT
      split
      · exact ⟨_, rfl, hstep⟩
      · rename_i hsup
        unfold reorganize_pairs at hq
        rw [if_neg hsup] at hq
        simp only [Option.map_eq_some'] at hq
        obtain ⟨q, hq1, rfl⟩ := hq
        refine ih _ _ recs2 q hq1 (fun p hp => hqs p (List.mem_cons_of_mem _ hp)) ?_ ?_ ?_ hstep
        · split
          · exact htm
          · exact htm
        · split
          · exact htrx
          · exact htrx
        · intro i hi
          split at hi
          · exact hbits i (get_nth_bit_reset_le _ _ _ hi)
          · exact hbits i hi
theorem reorganize_locks_track (sm : lock_sys_t) (R : List lock_t) (ps : List (Nat × Nat))
    (block : buf_block_t) (recs1 recs2 : List Nat)
    (hq : reorganize_pairs recs1 recs2 = some ps) (hqs : ∀ p ∈ ps, p.2 < block.n_heap) :
    ∀ (R1 : List lock_t) (s : lock_sys_t),
      (∀ c ∈ R1, c ∈ R ∧ c.type_mode.predicate = false ∧ c.type_mode.prdt_page = false) →
      reorganize_track sm R ps block.page_id s →
      ∃ s1, lock_move_reorganize_page_locks block recs1 recs2 s R1 = some s1
        ∧ reorganize_track sm R ps block.page_id s1 := by
  intro R1
  induction R1 with
  | nil =>
    intro s _ hT
    exact ⟨s, rfl, hT⟩
  | cons c R1 ih =>
    intro s hR hT
    obtain ⟨hc, hk1, hk2⟩ := hR c (List.mem_cons_self _ _)
    obtain ⟨s1, h1, hT1⟩ := reorganize_recs_track sm R ps block c hc hk1 hk2 recs1 s c recs2
      ps hq (fun p hp => ⟨hp, hqs p hp⟩) rfl rfl (fun _ h => h) hT
    obtain ⟨s2, h2, hT2⟩ := ih s1 (fun x hx => hR x (List.mem_cons_of_mem _ hx)) hT1
    refine ⟨s2, ?_, hT2⟩
    rw [lock_move_reorganize_page_locks, h1]
    exact h2

theorem reorganize_copy_eq_page_loop :
    ∀ (fuel : Nat) (s : lock_sys_t) (old : List lock_t) (l : Option Nat),
      lock_move_reorganize_page_copy fuel s old l
        = page_loop (fun s old l =>
            some (s.set_lock l (lock_rec_bitmap_reset (s.lock l)).clear_wait,
              old ++ [s.lock l])) fuel s old l := by
  intro fuel
  induction fuel with
  | zero =>
    intro s old l
    cases l <;> simp [lock_move_reorganize_page_copy, page_loop]
  | succ n ih =>
    intro s old l
    cases l with
    | none => simp [lock_move_reorganize_page_copy, page_loop]
    | some l =>
      have hS : (if ((s.set_lock l (lock_rec_bitmap_reset (s.lock l))).lock l).is_waiting = true
          then
            (s.set_lock l (lock_rec_bitmap_reset (s.lock l))).set_lock l
              { (s.set_lock l (lock_rec_bitmap_reset (s.lock l))).lock l with
                type_mode :=
                  { ((s.set_lock l (lock_rec_bitmap_reset (s.lock l))).lock l).type_mode with
                    wait := false } }
          else s.set_lock l (lock_rec_bitmap_reset (s.lock l)))
          = s.set_lock l (lock_rec_bitmap_reset (s.lock l)).clear_wait := by
        simp only [lock_sys_t.lock_set_lock, if_true]
        by_cases hw : (lock_rec_bitmap_reset (s.lock l)).is_waiting = true
        · rw [if_pos hw, set_lock_set_lock]
          rfl
        · rw [if_neg hw]
          have hw1 : (lock_rec_bitmap_reset (s.lock l)).is_waiting = false := by
            simpa using hw
          rw [clear_wait_of_not_waiting _ hw1]
      rw [lock_move_reorganize_page_copy, page_loop]
      simp only [Option.some_bind]
      rw [hS]
      exact ih _ _ _

theorem reorganize_copy_spec (s : lock_sys_t) (P : Nat) (fuel : Nat)
    (wf : chain_wf s hash_id.rec_hash)
    (hf : (s.page_chain hash_id.rec_hash P).length ≤ fuel) :
    ∃ r, lock_move_reorganize_page_copy fuel s [] (s.page_chain hash_id.rec_hash P).head?
        = some r
      ∧ r.2 = (s.page_chain hash_id.rec_hash P).map s.lock
      ∧ r.1.n_locks = s.n_locks ∧ (∀ t, r.1.trx t = s.trx t)
      ∧ (∀ x, x ∉ s.page_chain hash_id.rec_hash P → r.1.lock x = s.lock x)
      ∧ (∀ x ∈ s.page_chain hash_id.rec_hash P, (r.1.lock x).is_waiting = false) := by
  have key := page_loop_rule
    (fun s old l =>
      some (s.set_lock l (lock_rec_bitmap_reset (s.lock l)).clear_wait, old ++ [s.lock l]))
    hash_id.rec_hash P
    (fun todo s1 old =>
      old ++ todo.map s.lock = (s.page_chain hash_id.rec_hash P).map s.lock
      ∧ (∀ x ∈ todo, x ∈ s.page_chain hash_id.rec_hash P)
      ∧ todo.Nodup
      ∧ s1.n_locks = s.n_locks ∧ (∀ t, s1.trx t = s.trx t)
      ∧ (∀ x, x ∉ s.page_chain hash_id.rec_hash P → s1.lock x = s.lock x)
      ∧ (∀ x ∈ todo, s1.lock x = s.lock x)
      ∧ (∀ x ∈ s.page_chain hash_id.rec_hash P, x ∉ todo → (s1.lock x).is_waiting = false))
    ?_ s [] fuel wf ?_ hf
  · obtain ⟨r, h1, ⟨h2, _, _, h3, h4, h5, _, h6⟩, _⟩ := key
    rw [reorganize_copy_eq_page_loop]
    refine ⟨r, h1, ?_, h3, h4, h5, fun x hx => h6 x hx (List.not_mem_nil _)⟩
    simpa using h2
  · intro rest l s1 old wf1 hl hp _ ⟨a1, a2, a3, a4, a5, a6, a7, a8⟩
    have hlr : l ∉ rest := (List.nodup_cons.mp a3).1
    refine ⟨_, rfl, ⟨?_, ⟨[], by simp, fun _ h => absurd h (List.not_mem_nil _)⟩, ?_⟩,
      ?_, ?_, (List.nodup_cons.mp a3).2, by simpa using a4, fun t => by simpa using a5 t,
      ?_, ?_, ?_⟩
    · refine ⟨by simpa using wf1.nodup, fun x hx => by simpa using wf1.alloc x hx, ?_⟩
      intro x hx
      have hx1 : x ∈ s1.hash hash_id.rec_hash := by simpa using hx
      by_cases e : x = l
      · subst e
        simp only [lock_sys_t.lock_set_lock, if_true]
        have := wf1.kind x hx1
        simpa [lock_t.clear_wait, lock_rec_bitmap_reset, lock_hash_get] using this
      · simp only [lock_sys_t.lock_set_lock, e, if_false]
        exact wf1.kind x hx1
    · intro x _
      by_cases e : x = l
      · subst e
        simp [lock_t.clear_wait, lock_rec_bitmap_reset]
      · simp [e]
    · rw [← a1, a7 l (List.mem_cons_self _ _)]
      simp
    · intro x hx
      exact a2 x (List.mem_cons_of_mem _ hx)
    · intro x hx
      have e : x ≠ l := fun e => hx (e ▸ a2 l (List.mem_cons_self _ _))
      simp only [lock_sys_t.lock_set_lock, e, if_false]
      exact a6 x hx
    · intro x hx
      have e : x ≠ l := fun e => hlr (e ▸ hx)
      simp only [lock_sys_t.lock_set_lock, e, if_false]
      exact a7 x (List.mem_cons_of_mem _ hx)
    · intro x hx hnr
      by_cases e : x = l
      · subst e
        simp [lock_t.clear_wait, lock_t.is_waiting]
      · simp only [lock_sys_t.lock_set_lock, e, if_false]
        exact a8 x hx (fun c => by
          rcases List.mem_cons.mp c with c | c
          · exact e c
          · exact hnr c)
  · refine ⟨by simp, fun _ h => h, ?_, rfl, fun _ => rfl, fun _ _ => rfl, fun _ _ => rfl,
      fun x hx h => absurd hx h⟩
    unfold lock_sys_t.page_chain
    exact wf.nodup.filter _
theorem reorganize_request_moved (fuel : Nat) (s : lock_sys_t) (block : buf_block_t)
    (page opage : List Nat) (ps : List (Nat × Nat)) (hi : wait_ok s)
    (wf : chain_wf s hash_id.rec_hash)
    (hpre : reorganize_pre block.page_id (page_recs_from page PAGE_HEAP_NO_INFIMUM)
      (page_recs_from opage PAGE_HEAP_NO_INFIMUM) s)
    (hq : reorganize_pairs (page_recs_from page PAGE_HEAP_NO_INFIMUM)
      (page_recs_from opage PAGE_HEAP_NO_INFIMUM) = some ps)
    (hqs : ∀ p ∈ ps, p.2 < block.n_heap)
    (hf : (s.page_chain hash_id.rec_hash block.page_id).length ≤ fuel)
    (W dh : Nat) (hW : W ∈ s.page_chain hash_id.rec_hash block.page_id)
    (hw : (s.lock W).is_waiting = true)
    (hb : lock_rec_get_nth_bit (s.lock W) dh = true) :
    ∃ s1, lock_move_reorganize_page fuel s block page opage = some s1
      ∧ request_moved s s1 ps block.page_id W dh := by
  obtain ⟨r, hr, hR, hn, ht, hout, hin⟩ := reorganize_copy_spec s block.page_id fuel wf hf
  have hchain : ∀ x ∈ s.page_chain hash_id.rec_hash block.page_id,
      x ∈ s.hash hash_id.rec_hash := by
    intro x hx
    unfold lock_sys_t.page_chain at hx
    exact (List.mem_filter.mp hx).1
  have hR1 := granted_to_front_eq r.2
  generalize ((r.2.dropWhile (fun x => !x.is_waiting)).filter
      (fun x => !x.is_waiting)).reverse
    ++ r.2.takeWhile (fun x => !x.is_waiting)
    ++ r.2.filter (fun x => x.is_waiting) = R1 at hR1
  have hperm := granted_to_front_perm r.2 R1 hR1
  have hT0 : reorganize_track r.1 r.2 ps block.page_id r.1 := by
    have halloc : ∀ x, r.1.n_locks ≤ x → (r.1.lock x).is_waiting = false := by
      intro x hx
      rw [hn] at hx
      have hx1 : x ∉ s.page_chain hash_id.rec_hash block.page_id := by
        intro hc
        have := wf.alloc x (hchain x hc)
        omega
      rw [hout x hx1]
      cases h : (s.lock x).is_waiting
      · rfl
      · have := waiting_lt_n_locks hi x h
        omega
    refine ⟨le_refl _, halloc, fun _ _ _ => rfl, fun _ h => h, ?_⟩
    intro x hx hw1
    rw [halloc x hx] at hw1
    cases hw1
  obtain ⟨s1, h1, hT1⟩ := reorganize_locks_track r.1 r.2 ps block _ _ hq hqs R1 r.1
    (by
      intro c hc
      have hc2 : c ∈ r.2 := hperm.subset hc
      refine ⟨hc2, ?_⟩
      rw [hR] at hc2
      obtain ⟨y, hy, rfl⟩ := List.mem_map.mp hc2
      exact (hash_get_rec_iff _).mp (wf.kind y (hchain y hy)))
    hT0
  have hret : lock_move_reorganize_page fuel s block page opage = some s1 := by
    unfold lock_move_reorganize_page
    cases hh : (s.page_chain hash_id.rec_hash block.page_id).head? with
    | none =>
      have := List.head?_eq_none_iff.mp hh
      rw [this] at hW
      exact absurd hW (List.not_mem_nil _)
    | some l =>
      rw [hh] at hr
      simp only [hr, Option.some_bind, hR1]
      exact h1
  have hok : wait_ok s1 := wait_ok_lock_move_reorganize_page fuel s block page opage s1 hi
    hpre hret
  have hmid : ∀ x, (r.1.lock x).is_waiting = true → r.1.lock x = s.lock x := by
    intro x hx
    apply hout
    intro hc
    rw [hin x hc] at hx
    cases hx
  have hT : move_track s ps block.page_id s1 := by
    refine ⟨hok, by rw [← hn]; exact hT1.n_locks, ?_, ?_, ?_⟩
    · intro x hx hw1
      have e := hT1.old x (by rw [hn]; exact hx) hw1
      rw [e]
      exact hmid x (by rw [← e]; exact hw1)
    · intro t h
      exact hT1.waits t (by rw [ht]; exact h)
    · intro x hx hw1
      obtain ⟨hp, c, hc, hcw, hct, p, hp1, hp2, hp3⟩ := hT1.new x (by rw [hn]; exact hx) hw1
      rw [hR] at hc
      obtain ⟨y, hy, rfl⟩ := List.mem_map.mp hc
      exact ⟨hp, y, wf.alloc y (hchain y hy), hcw, hct, p, hp1, hp2, hp3⟩
  have hW1 : (s1.lock W).is_waiting = false := by
    cases h : (s1.lock W).is_waiting
    · rfl
    · have hWlt : W < r.1.n_locks := by
        rw [hn]; exact wf.alloc W (hchain W hW)
      have e := hT1.old W hWlt h
      rw [e, hin W hW] at h
      cases h
  exact ⟨s1, hret, move_track_moved s s1 ps block.page_id W dh hi hT hw hb hW1⟩

theorem chain_wf_wait_move_state : chain_wf wait_move_state hash_id.rec_hash := by
  have hm : ∀ x ∈ wait_move_state.hash hash_id.rec_hash, x = 0 ∨ x = 1 := by
    intro x hx
    have : x ∈ [0, 1] := hx
    simpa using this
  refine ⟨by decide, ?_, ?_⟩
  · intro x hx
    rcases hm x hx with rfl | rfl <;> decide
  · intro x hx
    rcases hm x hx with rfl | rfl <;> rfl

/-- C36, counterexample: transaction 1 locks the record with heap number 2
of page 1 (`X` + `REC_NOT_GAP`, lock 2), transaction 2 requests the same
lock and waits (lock 3, `wait_lock` of transaction 2), and the implicit
lock of transaction 2 on the record with heap number 5 is converted to an
explicit one (lock 4).  The page is reorganised: the record with the old
heap number 5 gets the heap number 2 and the record with the old heap
number 2 gets the heap number 3.  Afterwards transaction 2 waits in the new
lock 5 on heap number 3, and the old lock object 3 has no `WAIT` flag but
has the bit 2, the bit of the donating record, set again:
`lock_rec_add_to_queue` has set in it the granted request of transaction 2
on the other record. -/
theorem reorganize_sets_donor_bit :
    (lock_rec_lock env_ordering 10 two_ix_state false { mode := LOCK_X, rec_not_gap := true }
        { page_id := 1, n_heap := 8 } 2 { table := 0 } 1).bind (fun r1 =>
      (lock_rec_lock env_ordering 10 r1.2 false { mode := LOCK_X, rec_not_gap := true }
          { page_id := 1, n_heap := 8 } 2 { table := 0 } 2).bind (fun r2 =>
        (lock_move_reorganize_page 5
            (lock_rec_convert_impl_to_expl impl_env_two r2.2 1
              { page_id := 1, n_heap := 8 } 5 { table := 0 }).2
            { page_id := 1, n_heap := 8 } [0, 2, 3, 1] [0, 5, 2, 1]).map (fun s1 =>
          (r1.1, r2.1, (r2.2.trx 2).wait_lock, (r2.2.lock 3).is_waiting,
            lock_rec_get_nth_bit (r2.2.lock 3) 2,
            (s1.trx 2).wait_lock, (s1.lock 5).is_waiting, lock_rec_get_nth_bit (s1.lock 5) 3,
            (s1.lock 3).is_waiting, lock_rec_get_nth_bit (s1.lock 3) 2))))
      = some (DB_SUCCESS_LOCKED_REC, DB_LOCK_WAIT, some 3, true, true,
          some 5, true, true, false, true) := by
  rfl

/-- C36, amended: in a lock system with the wait-lock invariant and a
consistent record hash table, let `W` be a lock of the record hash table
with the `WAIT` flag and the bit of the heap number `dh`.  Each of the
four moves returns (with fuel for the locks it visits), and afterwards
(`request_moved`) the `wait_lock` of the owner of `W` is a lock object
allocated by the move, in the lock list of the owner, with the `WAIT`
flag, on the receiving page, with the bit of the receiving heap number
paired with `dh`; the old lock object `W` has no `WAIT` flag; and every
transaction that waited before waits, its `wait_lock` being a lock with
the `WAIT` flag (no waiting request has become a granted one).  This holds
for `lock_rec_move` from the record of `W` to a record without lock
requests, for `lock_move_rec_list_end` and `lock_move_rec_list_start` to
another page when the record of `W` is among the records moved, and for
`lock_move_reorganize_page` when the walk over the records reads the heap
number of every waiting lock of the page.  After the first three the old
lock object does not have the bit of `dh`; after
`lock_move_reorganize_page` it may have it again. -/
theorem waiting_request_moved (s : lock_sys_t) (W dh : Nat) (hi : wait_ok s)
    (wf : chain_wf s hash_id.rec_hash) (hW : W ∈ s.rec_hash)
    (hw : (s.lock W).is_waiting = true)
    (hb : lock_rec_get_nth_bit (s.lock W) dh = true) :
    (∀ (fuel : Nat) (receiver donator : buf_block_t) (rh : Nat),
      (s.lock W).page_id = donator.page_id →
      lock_rec_queue s hash_id.rec_hash receiver.page_id rh = [] → rh < receiver.n_heap →
      (lock_rec_queue s hash_id.rec_hash donator.page_id dh).length ≤ fuel →
      ∃ s1, lock_rec_move fuel s receiver donator rh dh = some s1
        ∧ request_moved s s1 [(dh, rh)] receiver.page_id W dh
        ∧ lock_rec_get_nth_bit (s1.lock W) dh = false)
    ∧ (∀ (fuel : Nat) (new_block block : buf_block_t) (page new_page : List Nat) (rec : Nat)
        (ps : List (Nat × Nat)),
      (s.lock W).page_id = block.page_id → block.page_id ≠ new_block.page_id →
      list_end_pairs
          (if rec = PAGE_HEAP_NO_INFIMUM then (page_recs_from page rec).tail
            else page_recs_from page rec)
          (page_recs_from new_page PAGE_HEAP_NO_INFIMUM).tail = some ps →
      dh ∈ ps.map Prod.fst → (∀ p ∈ ps, p.2 < new_block.n_heap) →
      (s.page_chain hash_id.rec_hash block.page_id).length ≤ fuel →
      ∃ s1, lock_move_rec_list_end fuel s new_block block page new_page rec = some s1
        ∧ request_moved s s1 ps new_block.page_id W dh
        ∧ lock_rec_get_nth_bit (s1.lock W) dh = false)
    ∧ (∀ (fuel : Nat) (new_block block : buf_block_t) (page new_page : List Nat)
        (rec old_end : Nat) (ps : List (Nat × Nat)),
      (s.lock W).page_id = block.page_id → block.page_id ≠ new_block.page_id →
      list_start_pairs rec (page_recs_from page PAGE_HEAP_NO_INFIMUM).tail
          (page_recs_from new_page old_end).tail = some ps →
      dh ∈ ps.map Prod.fst → (∀ p ∈ ps, p.2 < new_block.n_heap) →
      (s.page_chain hash_id.rec_hash block.page_id).length ≤ fuel →
      ∃ s1, lock_move_rec_list_start fuel s new_block block page new_page rec old_end
          = some s1
        ∧ request_moved s s1 ps new_block.page_id W dh
        ∧ lock_rec_get_nth_bit (s1.lock W) dh = false)
    ∧ (∀ (fuel : Nat) (block : buf_block_t) (page opage : List Nat) (ps : List (Nat × Nat)),
      (s.lock W).page_id = block.page_id →
      reorganize_pre block.page_id (page_recs_from page PAGE_HEAP_NO_INFIMUM)
        (page_recs_from opage PAGE_HEAP_NO_INFIMUM) s →
      reorganize_pairs (page_recs_from page PAGE_HEAP_NO_INFIMUM)
        (page_recs_from opage PAGE_HEAP_NO_INFIMUM) = some ps →
      (∀ p ∈ ps, p.2 < block.n_heap) →
      (s.page_chain hash_id.rec_hash block.page_id).length ≤ fuel →
      ∃ s1, lock_move_reorganize_page fuel s block page opage = some s1
        ∧ request_moved s s1 ps block.page_id W dh) := by
  have hchain : ∀ P, (s.lock W).page_id = P → W ∈ s.page_chain hash_id.rec_hash P := by
    intro P hP
    unfold lock_sys_t.page_chain
    exact List.mem_filter.mpr ⟨hW, by simpa using hP⟩
  refine ⟨?_, ?_, ?_, ?_⟩
  · intro fuel receiver donator rh hp hempty hheap hf
    refine lock_rec_move_request_moved fuel s receiver donator rh dh hi wf hempty hheap hf W
      ?_ hw
    rw [lock_rec_queue_eq_filter]
    refine List.mem_filter.mpr ⟨hW, ?_⟩
    unfold on_rec
    simp only [Bool.and_eq_true, beq_iff_eq]
    exact ⟨hp, hb⟩
  · intro fuel new_block block page new_page rec ps hp hne hps hd hh hf
    obtain ⟨s1, h1, h2, h3⟩ := list_move_request_moved s new_block block.page_id ps fuel hi wf
      hne hh hf W dh (hchain _ hp) hw hb hd
    refine ⟨s1, ?_, h2, h3⟩
    unfold lock_move_rec_list_end
    dsimp only
    rw [list_end_loop_eq_page_loop new_block _ _ ps hps]
    exact h1
  · intro fuel new_block block page new_page rec old_end ps hp hne hps hd hh hf
    obtain ⟨s1, h1, h2, h3⟩ := list_move_request_moved s new_block block.page_id ps fuel hi wf
      hne hh hf W dh (hchain _ hp) hw hb hd
    refine ⟨s1, ?_, h2, h3⟩
    unfold lock_move_rec_list_start
    dsimp only
    rw [list_start_loop_eq_page_loop new_block rec _ _ ps hps]
    exact h1
  · intro fuel block page opage ps hp hpre hq hqs hf
    exact reorganize_request_moved fuel s block page opage ps hi wf hpre hq hqs hf W dh
      (hchain _ hp) hw hb
theorem reorganize_pre_wait_move_state :
    reorganize_pre 1 [0, 3, 1] [0, 2, 1] wait_move_state := by
  intro g hg _
  have h1 : g = 1 := by
    by_cases h0 : g = 0
    · subst h0; simp [wait_move_state, lock_sys_t.lock, lock_t.is_waiting] at hg
    · by_cases h1 : g = 1
      · exact h1
      · simp [wait_move_state, lock_sys_t.lock, lock_t.is_waiting, h0, h1] at hg
  subst h1
  exact ⟨2, by decide, by decide⟩

/-- Witness of C36 on `wait_move_state`, where transaction 2 waits in lock
1 on the record with heap number 2 of page 1: the move of the record to
heap number 3, the move of the record list end to page 2 and the
reorganisation of the page that gives the record the heap number 3. -/
theorem waiting_request_moved_witness :
    (wait_move_state.lock 1).is_waiting = true
    ∧ lock_rec_get_nth_bit (wait_move_state.lock 1) 2 = true
    ∧ (∃ s1, lock_rec_move 5 wait_move_state { page_id := 1, n_heap := 8 }
          { page_id := 1, n_heap := 8 } 3 2 = some s1
        ∧ request_moved wait_move_state s1 [(2, 3)] 1 1 2
        ∧ lock_rec_get_nth_bit (s1.lock 1) 2 = false)
    ∧ (∃ s1, lock_move_rec_list_end 5 wait_move_state { page_id := 2, n_heap := 8 }
          { page_id := 1, n_heap := 8 } [0, 2, 1] [0, 2, 1] 2 = some s1
        ∧ request_moved wait_move_state s1 [(2, 2)] 2 1 2
        ∧ lock_rec_get_nth_bit (s1.lock 1) 2 = false)
    ∧ (∃ s1, lock_move_reorganize_page 5 wait_move_state { page_id := 1, n_heap := 8 }
          [0, 3, 1] [0, 2, 1] = some s1
        ∧ request_moved wait_move_state s1 [(0, 0), (2, 3), (1, 1)] 1 1 2) := by
  have h := waiting_request_moved wait_move_state 1 2 wait_ok_wait_move_state
    chain_wf_wait_move_state (by decide) (by decide) (by decide)
  exact ⟨by decide, by decide,
    h.1 5 { page_id := 1, n_heap := 8 } { page_id := 1, n_heap := 8 } 3 rfl (by decide)
      (by decide) (by decide),
    h.2.1 5 { page_id := 2, n_heap := 8 } { page_id := 1, n_heap := 8 } [0, 2, 1] [0, 2, 1] 2
      [(2, 2)] rfl (by decide) (by decide) (by decide) (by decide) (by decide),
    h.2.2.2 5 { page_id := 1, n_heap := 8 } [0, 3, 1] [0, 2, 1] [(0, 0), (2, 3), (1, 1)] rfl
      reorganize_pre_wait_move_state (by decide) (by decide) (by decide)⟩

/-! ## Compatibility invariant of the record queues -/

theorem takeWhile_ne_cons (x w : Nat) (xs : List Nat) (h : x ≠ w) :
    (x :: xs).takeWhile (fun i => i != w) = x :: xs.takeWhile (fun i => i != w) := by
  simp [List.takeWhile_cons, h]

theorem pair_sublist_of_takeWhile (l : List Nat) (a b : Nat)
    (ha : a ∈ l.takeWhile (fun i => i != b)) (hb : b ∈ l) : List.Sublist [a, b] l := by
  induction l with
  | nil => cases hb
  | cons x xs ih =>
    by_cases hx : x = b
    · subst hx
      simp [List.takeWhile] at ha
    · have hxb : (x != b) = true := by simpa using hx
      rw [takeWhile_ne_cons x b xs hx] at ha
      have hb1 : b ∈ xs := by
        rcases List.mem_cons.mp hb with e | e
        · exact absurd e.symm hx
        · exact e
      rcases List.mem_cons.mp ha with e | e
      · subst e
        exact List.Sublist.cons₂ _ (List.singleton_sublist.mpr hb1)
      · exact List.Sublist.cons _ (ih e hb1)

theorem mem_takeWhile_of_pair (l : List Nat) (a b : Nat) (hn : l.Nodup)
    (h : List.Sublist [a, b] l) : a ∈ l.takeWhile (fun i => i != b) := by
  induction l with
  | nil => cases h
  | cons x xs ih =>
    have hn1 := (List.nodup_cons.mp hn)
    cases h with
    | cons _ h1 =>
      have hb : b ∈ xs := h1.subset (by simp)
      have hx : x ≠ b := fun e => hn1.1 (e ▸ hb)
      rw [takeWhile_ne_cons x b xs hx]
      exact List.mem_cons_of_mem _ (ih hn1.2 h1)
    | cons₂ _ h1 =>
      have hb : b ∈ xs := h1.subset (by simp)
      have hx : a ≠ b := fun e => hn1.1 (e ▸ hb)
      rw [takeWhile_ne_cons a b xs hx]
      exact List.mem_cons_self _ _

theorem pair_total (l : List Nat) (a b : Nat) (ha : a ∈ l) (hb : b ∈ l) (hab : a ≠ b) :
    List.Sublist [a, b] l ∨ List.Sublist [b, a] l := by
  induction l with
  | nil => cases ha
  | cons x xs ih =>
    rcases List.mem_cons.mp ha with e1 | e1 <;> rcases List.mem_cons.mp hb with e2 | e2
    · exact absurd (e1.trans e2.symm) hab
    · subst e1
      exact Or.inl (List.Sublist.cons₂ _ (List.singleton_sublist.mpr e2))
    · subst e2
      exact Or.inr (List.Sublist.cons₂ _ (List.singleton_sublist.mpr e1))
    · rcases ih e1 e2 with h | h
      · exact Or.inl (List.Sublist.cons _ h)
      · exact Or.inr (List.Sublist.cons _ h)

theorem pair_sublist_mem {l : List Nat} {a b : Nat} (h : List.Sublist [a, b] l) :
    a ∈ l ∧ b ∈ l :=
  ⟨h.subset (by simp), h.subset (by simp)⟩

theorem pair_sublist_ne {l : List Nat} {a b : Nat} (hn : l.Nodup)
    (h : List.Sublist [a, b] l) : a ≠ b := by
  intro e
  subst e
  have := h.nodup hn
  simp at this

theorem pair_sublist_append_last (l : List Nat) (a b n : Nat) (hn : n ∉ l)
    (h : List.Sublist [a, b] (l ++ [n])) : a ∈ l ∧ (b = n ∨ List.Sublist [a, b] l) := by
  by_cases hb : b = n
  · subst hb
    refine ⟨?_, Or.inl rfl⟩
    have hnd : a ∈ (l ++ [b]).takeWhile (fun i => i != b) ∨ True := Or.inr trivial
    have h2 : List.Sublist ([a] ++ [b]) (l ++ [b]) := h
    have : List.Sublist [a] l := by
      rcases List.sublist_append_iff.mp h2 with ⟨l1, l2, e, h3, h4⟩
      have hl2 : l2 = [] ∨ l2 = [b] := by
        have := h4
        cases l2 with
        | nil => exact Or.inl rfl
        | cons y ys =>
          have hy := List.sublist_singleton.mp this
          rcases hy with e | e
          · cases e
          · exact Or.inr e
      rcases hl2 with e2 | e2
      · subst e2
        rw [List.append_nil] at e
        rw [← e] at h3
        have : b ∈ l := h3.subset (by simp)
        exact absurd this hn
      · subst e2
        have e3 : l1 = [a] := by
          have := congrArg List.dropLast e
          simpa using this.symm
        rw [e3] at h3
        exact h3
    exact this.subset (by simp)
  · have h2 : List.Sublist [a, b] l := by
      have hr := List.Sublist.reverse h
      simp only [List.reverse_append, List.reverse_cons, List.reverse_nil, List.nil_append,
        List.singleton_append] at hr
      cases hr with
      | cons _ h1 =>
        have := List.Sublist.reverse h1
        simpa using this
      | cons₂ _ h1 =>
        exact absurd rfl hb
    exact ⟨h2.subset (by simp), Or.inr h2⟩

theorem mem_takeWhile_filter (l : List Nat) (p : Nat → Bool) (a w : Nat)
    (h : a ∈ l.takeWhile (fun i => i != w)) (hp : p a = true) :
    a ∈ (l.filter p).takeWhile (fun i => i != w) := by
  induction l with
  | nil => cases h
  | cons x xs ih =>
    by_cases hx : x = w
    · subst hx
      simp [List.takeWhile] at h
    · have hxb : (x != w) = true := by simpa using hx
      rw [takeWhile_ne_cons x w xs hx] at h
      by_cases hpx : p x = true
      · rw [List.filter_cons_of_pos hpx, takeWhile_ne_cons x w _ hx]
        rcases List.mem_cons.mp h with e | e
        · exact e ▸ List.mem_cons_self _ _
        · exact List.mem_cons_of_mem _ (ih e)
      · rw [List.filter_cons_of_neg hpx]
        rcases List.mem_cons.mp h with e | e
        · exact absurd (e ▸ hp) hpx
        · exact ih e

theorem lock_mode_compatible_comm (a b : lock_mode) :
    lock_mode_compatible a b = lock_mode_compatible b a := by
  cases a <;> cases b <;> rfl

theorem rec_plain_clear_wait (l : lock_t) (h : rec_plain l) : rec_plain l.clear_wait := h

theorem rec_inv_frame (s s1 : lock_sys_t) (hi : rec_inv s)
    (hh : List.Sublist s1.rec_hash s.rec_hash) (hn : s.n_locks ≤ s1.n_locks)
    (hl : ∀ g,
      ((s1.lock g).page_id = (s.lock g).page_id ∧ (s1.lock g).trx = (s.lock g).trx
        ∧ (s1.lock g).type_mode = (s.lock g).type_mode
        ∧ ∀ i, lock_rec_get_nth_bit (s1.lock g) i = true →
            lock_rec_get_nth_bit (s.lock g) i = true)
      ∨ ((s1.lock g).is_waiting = false ∧ rec_plain (s1.lock g)
        ∧ (g ∉ s1.rec_hash ∨ ∀ i, lock_rec_get_nth_bit (s1.lock g) i = false))) :
    rec_inv s1 := by
  have hkeep : ∀ g h, g ∈ s1.rec_hash → lock_rec_get_nth_bit (s1.lock g) h = true →
      (s1.lock g).page_id = (s.lock g).page_id ∧ (s1.lock g).trx = (s.lock g).trx
        ∧ (s1.lock g).type_mode = (s.lock g).type_mode
        ∧ ∀ i, lock_rec_get_nth_bit (s1.lock g) i = true →
            lock_rec_get_nth_bit (s.lock g) i = true := by
    intro g h hg hb
    rcases hl g with a | ⟨_, _, b | b⟩
    · exact a
    · exact absurd hg b
    · rw [b h] at hb; cases hb
  refine ⟨hh.nodup hi.nodup, ?_, ?_, ?_, ?_⟩
  · intro g hg
    exact lt_of_lt_of_le (hi.alloc g (hh.subset hg)) hn
  · intro g
    rcases hl g with ⟨_, _, a3, _⟩ | ⟨_, b, _⟩
    · have := hi.plain g
      unfold rec_plain at this ⊢
      unfold lock_t.is_table at this ⊢
      rw [a3]
      exact this
    · exact b
  · intro g hw i j h1 h2
    rcases hl g with ⟨_, _, a3, a4⟩ | ⟨b, _, _⟩
    · refine hi.one_bit g ?_ i j (a4 i h1) (a4 j h2)
      unfold lock_t.is_waiting at hw ⊢
      rw [← a3]; exact hw
    · rw [b] at hw; cases hw
  · intro A B h hA hB hp hh1 hbA hbB hgA hgB ht hwB hor
    obtain ⟨a1, a2, a3, a4⟩ := hkeep A h hA hbA
    obtain ⟨b1, b2, b3, b4⟩ := hkeep B h hB hbB
    have e1 : (s1.lock A).mode = (s.lock A).mode := by unfold lock_t.mode; rw [a3]
    have e2 : (s1.lock B).mode = (s.lock B).mode := by unfold lock_t.mode; rw [b3]
    have w1 : (s1.lock A).is_waiting = (s.lock A).is_waiting := by
      unfold lock_t.is_waiting; rw [a3]
    have w2 : (s1.lock B).is_waiting = (s.lock B).is_waiting := by
      unfold lock_t.is_waiting; rw [b3]
    rw [e1, e2]
    refine hi.compat A B h (hh.subset hA) (hh.subset hB) (by rw [← a1, ← b1]; exact hp) hh1
      (a4 h hbA) (b4 h hbB) (by rw [← a3]; exact hgA) (by rw [← b3]; exact hgB)
      (by rw [← a2, ← b2]; exact ht) (by rw [← w2]; exact hwB) ?_
    rcases hor with h1 | h1
    · exact Or.inl (by rw [← w1]; exact h1)
    · exact Or.inr (h1.trans hh)

theorem rec_inv_of_eq (s s1 : lock_sys_t) (hi : rec_inv s) (hh : s1.rec_hash = s.rec_hash)
    (hn : s1.n_locks = s.n_locks) (hl : ∀ g, s1.lock g = s.lock g) : rec_inv s1 := by
  refine rec_inv_frame s s1 hi (by rw [hh]) (by rw [hn]) ?_
  intro g
  left
  rw [hl g]
  exact ⟨rfl, rfl, rfl, fun _ h => h⟩

theorem rec_hash_eq (s : lock_sys_t) : s.hash hash_id.rec_hash = s.rec_hash := rfl

theorem lock_hash_get_plain (l : lock_t) (h : rec_plain l) :
    lock_hash_get l.type_mode = hash_id.rec_hash := by
  unfold lock_hash_get
  rw [h.2.1, h.2.2.1]
  rfl

theorem find_set_bit_one (l : lock_t) (h : Nat) (hb : lock_rec_get_nth_bit l h = true)
    (h1 : ∀ i j, lock_rec_get_nth_bit l i = true → lock_rec_get_nth_bit l j = true → i = j) :
    lock_rec_find_set_bit l = some h := by
  unfold lock_rec_find_set_bit
  have hlt : h < lock_rec_get_n_bits l := by
    unfold lock_rec_get_n_bits
    by_contra hc
    unfold lock_rec_get_nth_bit at hb
    rw [List.getD_eq_default _ _ (by omega)] at hb
    cases hb
  cases hf : (List.range (lock_rec_get_n_bits l)).find? (fun i => lock_rec_get_nth_bit l i) with
  | none =>
    rw [List.find?_eq_none] at hf
    have := hf h (List.mem_range.mpr hlt)
    simp [hb] at this
  | some k =>
    have := List.find?_some hf
    simp only at this
    rw [h1 k h this hb]

/-- A lock that the grant loop finds without a conflict ahead of it is
compatible with every granted lock of its record and with every lock of
its record ahead of it. -/
theorem rec_inv_grant_core (E : Env) (s : lock_sys_t) (W X h : Nat) (hi : rec_inv s)
    (hw : (s.lock W).is_waiting = true)
    (hq : lock_rec_has_to_wait_in_queue E s W = none)
    (hW : W ∈ s.rec_hash) (hX : X ∈ s.rec_hash)
    (hp : (s.lock X).page_id = (s.lock W).page_id) (hs : h ≠ PAGE_HEAP_NO_SUPREMUM)
    (hbW : lock_rec_get_nth_bit (s.lock W) h = true)
    (hbX : lock_rec_get_nth_bit (s.lock X) h = true)
    (hgW : (s.lock W).type_mode.gap = false) (hgX : (s.lock X).type_mode.gap = false)
    (ht : (s.lock W).trx ≠ (s.lock X).trx)
    (hor : (s.lock X).is_waiting = false ∨ List.Sublist [X, W] s.rec_hash) :
    lock_mode_compatible (s.lock W).mode (s.lock X).mode = true := by
  have hne : X ≠ W := by
    intro e; rw [e] at ht; exact ht rfl
  have hbef : List.Sublist [X, W] s.rec_hash →
      lock_mode_compatible (s.lock W).mode (s.lock X).mode = true := by
    intro hsub
    have h1 := mem_takeWhile_of_pair _ _ _ hi.nodup hsub
    have h2 := mem_takeWhile_filter s.rec_hash
      (fun i => (s.lock i).page_id == (s.lock W).page_id) X W h1 (by simp [hp])
    unfold lock_rec_has_to_wait_in_queue at hq
    simp only [] at hq
    rw [lock_hash_get_plain _ (hi.plain W),
      find_set_bit_one _ h hbW (hi.one_bit W hw)] at hq
    rw [List.find?_eq_none] at hq
    have h3 := hq X h2
    have hlt : h < lock_rec_get_n_bits (s.lock X) := by
      unfold lock_rec_get_n_bits
      by_contra hc
      unfold lock_rec_get_nth_bit at hbX
      rw [List.getD_eq_default _ _ (by omega)] at hbX
      cases hbX
    simp only [hlt, hbX, decide_True, Bool.true_and, Bool.not_eq_true] at h3
    by_contra hc
    have hc1 : lock_mode_compatible (s.lock W).mode (s.lock X).mode = false := by
      cases hcc : lock_mode_compatible (s.lock W).mode (s.lock X).mode
      · rfl
      · exact absurd hcc hc
    have hsup : lock_rec_get_nth_bit (s.lock W) PAGE_HEAP_NO_SUPREMUM = false := by
      cases hcc : lock_rec_get_nth_bit (s.lock W) PAGE_HEAP_NO_SUPREMUM
      · rfl
      · exact absurd (hi.one_bit W hw _ _ hbW hcc) hs
    have pW := hi.plain W
    have pX := hi.plain X
    unfold rec_plain at pW pX
    unfold lock_has_to_wait at h3
    simp only [ht, decide_False, hc1, Bool.or_self, Bool.false_eq_true, if_false, pW.1,
      pW.2.1, pW.2.2.1] at h3
    unfold lock_rec_has_to_wait at h3
    have hc2 : lock_mode_compatible (s.lock W).type_mode.mode (s.lock X).mode = false := hc1
    simp [ht, hc2, hsup, hgW, pW.2.2.2, lock_t.is_gap, hgX, lock_t.is_insert_intention,
      pX.2.2.2] at h3
  rcases pair_total s.rec_hash X W hX hW hne with h1 | h1
  · exact hbef h1
  · rcases hor with h2 | h2
    · exact hi.compat W X h hW hX hp.symm hs hbW hbX hgW hgX ht h2 (Or.inr h1)
    · exact hbef h2

theorem rec_inv_grant (E : Env) (s : lock_sys_t) (W : Nat) (hi : rec_inv s)
    (hw : (s.lock W).is_waiting = true)
    (hq : lock_rec_has_to_wait_in_queue E s W = none) :
    rec_inv (lock_grant s W) := by
  have hL := lock_grant_lock s W
  have hH : (lock_grant s W).rec_hash = s.rec_hash := lock_grant_hash s W hash_id.rec_hash
  refine ⟨by rw [hH]; exact hi.nodup, ?_, ?_, ?_, ?_⟩
  · intro g hg
    rw [lock_grant_n_locks]
    rw [hH] at hg
    exact hi.alloc g hg
  · intro g
    rw [hL]
    split
    · exact hi.plain W
    · exact hi.plain g
  · intro g hg i j h1 h2
    rw [hL] at hg h1 h2
    by_cases e : g = W
    · rw [if_pos e] at hg
      simp [lock_t.clear_wait, lock_t.is_waiting] at hg
    · rw [if_neg e] at hg h1 h2
      exact hi.one_bit g hg i j h1 h2
  · intro A B h hA hB hp hh1 hbA hbB hgA hgB ht hwB hor
    rw [hH] at hA hB hor
    rw [hL] at hp hbA hgA ht hor ⊢
    rw [hL] at hp hbB hgB ht hwB ⊢
    by_cases eA : A = W
    · subst eA
      have eB : ¬ B = A := by
        intro e; subst e; simp at ht
      rw [if_pos rfl] at hp hbA hgA ht ⊢
      rw [if_neg eB] at hp hbB hgB ht hwB ⊢
      exact rec_inv_grant_core E s A B h hi hw hq hA hB hp.symm hh1 hbA hbB hgA hgB ht
        (Or.inl hwB)
    · rw [if_neg eA] at hp hbA hgA ht hor ⊢
      by_cases eB : B = W
      · subst eB
        rw [if_pos rfl] at hp hbB hgB ht ⊢
        have := rec_inv_grant_core E s B A h hi hw hq hB hA hp hh1 hbB hbA hgB hgA
          (fun e => ht e.symm) hor
        rw [lock_mode_compatible_comm]
        exact this
      · rw [if_neg eB] at hp hbB hgB ht hwB ⊢
        exact hi.compat A B h hA hB hp hh1 hbA hbB hgA hgB ht hwB hor

theorem rec_inv_grant_step (E : Env) (s : lock_sys_t) (W : Nat) (hi : rec_inv s) :
    rec_inv (lock_rec_grant_step E s W) := by
  unfold lock_rec_grant_step
  split
  · exact hi
  · rename_i hw
    split
    · rename_i hq
      exact rec_inv_grant E s W hi (by simpa using hw) hq
    · exact hi

theorem rec_inv_foldl_grant (E : Env) (l : List Nat) (s : lock_sys_t) (hi : rec_inv s) :
    rec_inv (l.foldl (lock_rec_grant_step E) s) := by
  induction l generalizing s with
  | nil => exact hi
  | cons x xs ih => exact ih _ (rec_inv_grant_step E s x hi)

theorem supremum_type_mode_table (tm : type_mode_t) (hn : Nat) :
    (supremum_type_mode tm hn).table = tm.table := by
  unfold supremum_type_mode; split <;> rfl

theorem mem_rec_queue_of (s : lock_sys_t) (X page h : Nat) (hX : X ∈ s.rec_hash)
    (hp : (s.lock X).page_id = page) (hb : lock_rec_get_nth_bit (s.lock X) h = true) :
    X ∈ lock_rec_queue s hash_id.rec_hash page h := by
  unfold lock_rec_queue lock_sys_t.page_chain
  simp only [List.mem_filter, beq_iff_eq]
  exact ⟨⟨hX, hp⟩, hb⟩

/-- A request without a conflicting lock in the queue of a record other
than the supremum, when the request has neither `GAP` nor
`INSERT_INTENTION`, has a mode compatible with every lock of another
transaction on the record that has neither `GAP` nor `INSERT_INTENTION`. -/
theorem no_conflict_compat (E : Env) (s : lock_sys_t) (mode : type_mode_t)
    (block : buf_block_t) (heap_no trx : Nat)
    (hc : lock_rec_other_has_conflicting E s mode block heap_no trx = none)
    (hs : heap_no ≠ PAGE_HEAP_NO_SUPREMUM) (hg : mode.gap = false)
    (hii : mode.insert_intention = false) (X : Nat)
    (hX : X ∈ lock_rec_queue s hash_id.rec_hash block.page_id heap_no)
    (ht : (s.lock X).trx ≠ trx) (hgX : (s.lock X).type_mode.gap = false)
    (hiX : (s.lock X).type_mode.insert_intention = false) :
    lock_mode_compatible mode.mode (s.lock X).mode = true := by
  unfold lock_rec_other_has_conflicting at hc
  simp only [] at hc
  rw [List.find?_eq_none] at hc
  have h3 := hc X hX
  by_contra hcc
  have hc1 : lock_mode_compatible mode.mode (s.lock X).mode = false := by
    cases hx : lock_mode_compatible mode.mode (s.lock X).mode
    · rfl
    · exact absurd hx hcc
  have ht1 : ¬ trx = (s.lock X).trx := fun e => ht e.symm
  unfold lock_rec_has_to_wait at h3
  simp [ht1, hc1, hs, hg, hii, lock_t.is_gap, hgX, lock_t.is_insert_intention, hiX] at h3

theorem rec_inv_create (s : lock_sys_t) (tm : type_mode_t) (block : buf_block_t)
    (heap_no : Nat) (index : dict_index_t) (trx : Nat) (b : Bool) (hi : rec_inv s)
    (h1 : tm.table = false) (h2 : tm.predicate = false) (h3 : tm.prdt_page = false)
    (h4 : tm.insert_intention = false)
    (hc : tm.wait = true ∨ (heap_no ≠ PAGE_HEAP_NO_SUPREMUM → tm.gap = false →
      ∀ X ∈ lock_rec_queue s hash_id.rec_hash block.page_id heap_no,
        (s.lock X).trx ≠ trx → (s.lock X).type_mode.gap = false →
        lock_mode_compatible tm.mode (s.lock X).mode = true)) :
    rec_inv (lock_rec_create s tm block heap_no index trx b).2 := by
  obtain ⟨g1, g2, g3⟩ := lock_rec_create_general s tm block heap_no index trx b
  obtain ⟨f1, f2, f3, f4, f5⟩ := supremum_type_mode_flags tm heap_no
  have f6 := supremum_type_mode_table tm heap_no
  have hH : (lock_rec_create s tm block heap_no index trx b).2.rec_hash
      = s.rec_hash ++ [s.n_locks] := by
    have := g3 hash_id.rec_hash
    rw [if_pos] at this
    · exact this
    · unfold lock_hash_get
      rw [f1, f2, h2, h3]
      rfl
  have hnot : s.n_locks ∉ s.rec_hash := fun hm => lt_irrefl _ (hi.alloc _ hm)
  set N := s.n_locks with hN
  set s1 := (lock_rec_create s tm block heap_no index trx b).2 with hs1
  have hbit : ∀ i, lock_rec_get_nth_bit (s1.lock N) i = true → i = heap_no := by
    intro i hb
    rw [g2, if_pos rfl] at hb
    exact get_nth_bit_fresh_only _ _ _ hb
  have hold : ∀ j, j ≠ N → s1.lock j = s.lock j := by
    intro j hj
    rw [g2, if_neg hj]
  have hmem : ∀ j, j ∈ s1.rec_hash → j ≠ N → j ∈ s.rec_hash := by
    intro j hj hne
    rw [hH] at hj
    rcases List.mem_append.mp hj with h | h
    · exact h
    · simp at h; exact absurd h hne
  have hNt : (s1.lock N).type_mode = supremum_type_mode tm heap_no := by
    rw [g2, if_pos rfl]
  have hNtrx : (s1.lock N).trx = trx := by
    rw [g2, if_pos rfl]
  have hNpage : (s1.lock N).page_id = block.page_id := by
    rw [g2, if_pos rfl]
  -- the new lock against an old lock of its record
  have hnew : ∀ X h, X ∈ s.rec_hash → (s.lock X).page_id = block.page_id →
      h ≠ PAGE_HEAP_NO_SUPREMUM → lock_rec_get_nth_bit (s1.lock N) h = true →
      lock_rec_get_nth_bit (s.lock X) h = true → (s1.lock N).type_mode.gap = false →
      (s.lock X).type_mode.gap = false → (s.lock X).trx ≠ trx →
      (s1.lock N).is_waiting = false →
      lock_mode_compatible (s1.lock N).mode (s.lock X).mode = true := by
    intro X h hX hp hh hbN hbX hgN hgX ht hwN
    have e := hbit h hbN
    subst e
    have hm : (s1.lock N).mode = tm.mode := by
      unfold lock_t.mode; rw [hNt, f4]
    rw [hm]
    rw [hNt, supremum_type_mode_of_ne _ _ hh] at hgN
    unfold lock_t.is_waiting at hwN
    rw [hNt, f3] at hwN
    rcases hc with hc | hc
    · rw [hc] at hwN; cases hwN
    · exact hc hh hgN X (mem_rec_queue_of s X _ _ hX hp hbX) ht hgX
  refine ⟨?_, ?_, ?_, ?_, ?_⟩
  · rw [hH]
    exact List.Nodup.append hi.nodup (List.nodup_singleton _) (by simpa using hnot)
  · intro g hg
    rw [g1]
    by_cases e : g = N
    · rw [e]; exact Nat.lt_succ_self _
    · exact Nat.lt_succ_of_lt (hi.alloc g (hmem g hg e))
  · intro g
    by_cases e : g = N
    · rw [e]
      unfold rec_plain lock_t.is_table
      rw [hNt, f1, f2, f5, f6]
      exact ⟨h1, h2, h3, h4⟩
    · rw [hold g e]; exact hi.plain g
  · intro g hw i j hb1 hb2
    by_cases e : g = N
    · rw [e] at hb1 hb2
      rw [hbit i hb1, hbit j hb2]
    · rw [hold g e] at hw hb1 hb2
      exact hi.one_bit g hw i j hb1 hb2
  · intro A B h hA hB hp hh1 hbA hbB hgA hgB ht hwB hor
    by_cases eA : A = N
    · by_cases eB : B = N
      · rw [eA, eB] at ht; exact absurd rfl ht
      · rw [eA] at hp hbA hgA ht hor ⊢
        rw [hold B eB] at hp hbB hgB ht hwB ⊢
        have hBm := hmem B hB eB
        rw [hNpage] at hp
        rw [hNtrx] at ht
        refine hnew B h hBm hp.symm hh1 hbA hbB hgA hgB (fun e => ht e.symm) ?_
        rcases hor with h | h
        · exact h
        · rw [hH] at h
          exact absurd (pair_sublist_append_last _ _ _ _ hnot h).1 hnot
    · by_cases eB : B = N
      · rw [eB] at hp hbB hgB ht hwB ⊢
        rw [hold A eA] at hp hbA hgA ht hor ⊢
        have hAm := hmem A hA eA
        rw [hNpage] at hp
        rw [hNtrx] at ht
        rw [lock_mode_compatible_comm]
        exact hnew A h hAm hp hh1 hbB hbA hgB hgA ht hwB
      · rw [hold A eA] at hp hbA hgA ht hor ⊢
        rw [hold B eB] at hp hbB hgB ht hwB ⊢
        refine hi.compat A B h (hmem A hA eA) (hmem B hB eB) hp hh1 hbA hbB hgA hgB ht hwB ?_
        rcases hor with h | h
        · exact Or.inl h
        · rw [hH] at h
          rcases (pair_sublist_append_last _ _ _ _ hnot h).2 with h5 | h5
          · exact absurd h5 eB
          · exact Or.inr h5

theorem rec_inv_set_bit (s : lock_sys_t) (g heap_no : Nat) (hi : rec_inv s)
    (hg : (s.lock g).is_waiting = false)
    (hc : heap_no ≠ PAGE_HEAP_NO_SUPREMUM → (s.lock g).type_mode.gap = false →
      ∀ X ∈ lock_rec_queue s hash_id.rec_hash (s.lock g).page_id heap_no,
        (s.lock X).trx ≠ (s.lock g).trx → (s.lock X).type_mode.gap = false →
        lock_mode_compatible (s.lock g).mode (s.lock X).mode = true) :
    rec_inv (s.set_lock g (lock_rec_set_nth_bit (s.lock g) heap_no)) := by
  set s1 := s.set_lock g (lock_rec_set_nth_bit (s.lock g) heap_no) with hs1
  have hH : s1.rec_hash = s.rec_hash := rfl
  have hn : s1.n_locks = s.n_locks := rfl
  have hold : ∀ j, j ≠ g → s1.lock j = s.lock j := by
    intro j hj
    simp [hs1, lock_sys_t.set_lock, lock_sys_t.lock, Function.update, hj]
  have hg1 : s1.lock g = lock_rec_set_nth_bit (s.lock g) heap_no := by
    simp [hs1, lock_sys_t.set_lock, lock_sys_t.lock]
  have hnew : ∀ X h, X ∈ s.rec_hash → X ≠ g → (s.lock X).page_id = (s.lock g).page_id →
      h ≠ PAGE_HEAP_NO_SUPREMUM → lock_rec_get_nth_bit (s.lock g) h = false →
      lock_rec_get_nth_bit (s1.lock g) h = true →
      lock_rec_get_nth_bit (s.lock X) h = true → (s.lock g).type_mode.gap = false →
      (s.lock X).type_mode.gap = false → (s.lock X).trx ≠ (s.lock g).trx →
      lock_mode_compatible (s.lock g).mode (s.lock X).mode = true := by
    intro X h hX hne hp hh hbo hbn hbX hgg hgX ht
    rw [hg1] at hbn
    rcases get_nth_bit_set_cases _ _ _ hbn with e | e
    · subst e
      exact hc hh hgg X (mem_rec_queue_of s X _ _ hX hp hbX) ht hgX
    · rw [e] at hbo; cases hbo
  refine ⟨hi.nodup, hi.alloc, ?_, ?_, ?_⟩
  · intro j
    by_cases e : j = g
    · rw [e, hg1]; exact hi.plain g
    · rw [hold j e]; exact hi.plain j
  · intro j hw i k hb1 hb2
    by_cases e : j = g
    · rw [e, hg1] at hw
      have : (s.lock g).is_waiting = true := hw
      rw [hg] at this; cases this
    · rw [hold j e] at hw hb1 hb2
      exact hi.one_bit j hw i k hb1 hb2
  · intro A B h hA hB hp hh1 hbA hbB hgA hgB ht hwB hor
    have hA1 : A ∈ s.rec_hash := hA
    have hB1 : B ∈ s.rec_hash := hB
    have hor1 : (s1.lock A).is_waiting = false ∨ List.Sublist [A, B] s.rec_hash := hor
    by_cases eA : A = g
    · by_cases eB : B = g
      · rw [eA, eB] at ht; exact absurd rfl ht
      · subst eA
        rw [hold B eB] at hp hbB hgB ht hwB ⊢
        have e1 : (s1.lock A).type_mode = (s.lock A).type_mode := by rw [hg1]; rfl
        have e2 : (s1.lock A).trx = (s.lock A).trx := by rw [hg1]; rfl
        have e3 : (s1.lock A).page_id = (s.lock A).page_id := by rw [hg1]; rfl
        have e4 : (s1.lock A).mode = (s.lock A).mode := by rw [hg1]; rfl
        rw [e1] at hgA
        rw [e2] at ht
        rw [e3] at hp
        rw [e4]
        cases hbo : lock_rec_get_nth_bit (s.lock A) h
        · exact hnew B h hB1 eB hp.symm hh1 hbo hbA hbB hgA hgB (fun e => ht e.symm)
        · exact hi.compat A B h hA1 hB1 hp hh1 hbo hbB hgA hgB ht hwB (Or.inl hg)
    · by_cases eB : B = g
      · subst eB
        rw [hold A eA] at hp hbA hgA ht hor1 ⊢
        have e1 : (s1.lock B).type_mode = (s.lock B).type_mode := by rw [hg1]; rfl
        have e2 : (s1.lock B).trx = (s.lock B).trx := by rw [hg1]; rfl
        have e3 : (s1.lock B).page_id = (s.lock B).page_id := by rw [hg1]; rfl
        have e4 : (s1.lock B).mode = (s.lock B).mode := by rw [hg1]; rfl
        rw [e1] at hgB
        rw [e2] at ht
        rw [e3] at hp
        rw [e4]
        cases hbo : lock_rec_get_nth_bit (s.lock B) h
        · rw [lock_mode_compatible_comm]
          exact hnew A h hA1 eA hp hh1 hbo hbB hbA hgB hgA ht
        · exact hi.compat A B h hA1 hB1 hp hh1 hbA hbo hgA hgB ht hg hor1
      · rw [hold A eA] at hp hbA hgA ht hor1 ⊢
        rw [hold B eB] at hp hbB hgB ht hwB ⊢
        exact hi.compat A B h hA1 hB1 hp hh1 hbA hbB hgA hgB ht hwB hor1

theorem rec_inv_set_trx (s : lock_sys_t) (t : Nat) (x : trx_t) (hi : rec_inv s) :
    rec_inv (s.set_trx t x) :=
  rec_inv_of_eq s _ hi rfl rfl (fun _ => rfl)

theorem rec_inv_set_tbl (s : lock_sys_t) (t : Nat) (x : dict_table_t) (hi : rec_inv s) :
    rec_inv (s.set_tbl t x) :=
  rec_inv_of_eq s _ hi rfl rfl (fun _ => rfl)

theorem rec_inv_rec_dequeue (E : Env) (s : lock_sys_t) (in_lock : Nat) (hi : rec_inv s) :
    rec_inv (lock_rec_dequeue_from_page E s in_lock)
      ∧ (lock_rec_dequeue_from_page E s in_lock).rec_hash = s.rec_hash.erase in_lock := by
  rw [lock_rec_dequeue_from_page_eq]
  have hH : (lock_rec_dequeue_removed s in_lock).rec_hash = s.rec_hash.erase in_lock := by
    have := lock_rec_dequeue_removed_hash s in_lock hash_id.rec_hash
    rw [lock_hash_get_plain _ (hi.plain in_lock), if_pos rfl] at this
    exact this
  have h1 : rec_inv (lock_rec_dequeue_removed s in_lock) := by
    refine rec_inv_frame s _ hi ?_ (by rw [lock_rec_dequeue_removed_n_locks]) ?_
    · rw [hH]; exact List.erase_sublist _ _
    · intro g
      left
      rw [lock_rec_dequeue_removed_lock]
      exact ⟨rfl, rfl, rfl, fun _ h => h⟩
  refine ⟨rec_inv_foldl_grant E _ _ h1, ?_⟩
  have := foldl_grant_hash E
    ((lock_rec_dequeue_removed s in_lock).page_chain
      (lock_hash_get (s.lock in_lock).type_mode) (s.lock in_lock).page_id)
    (lock_rec_dequeue_removed s in_lock) hash_id.rec_hash
  exact this.trans hH

theorem rec_inv_cancel (E : Env) (fuel : Nat) (s s1 : lock_sys_t) (lock : Nat)
    (hi : rec_inv s) (h : lock_cancel_waiting_and_release E fuel s lock = some s1) :
    rec_inv s1 := by
  unfold lock_cancel_waiting_and_release at h
  simp only [Option.map_eq_some'] at h
  obtain ⟨s2, h2, rfl⟩ := h
  set sa := s.set_trx (s.lock lock).trx { s.trx (s.lock lock).trx with cancel := true }
    with hsa
  have ia : rec_inv sa := rec_inv_set_trx _ _ _ hi
  have ht : (!(sa.lock lock).is_table) = true := by
    have := (ia.plain lock).1
    rw [this]; rfl
  rw [if_pos ht] at h2
  cases h2
  obtain ⟨i2, e2⟩ := rec_inv_rec_dequeue E sa lock ia
  set s2 := lock_rec_dequeue_from_page E sa lock with hs2
  have hnot : lock ∉ s2.rec_hash := by
    rw [e2]
    intro hm
    exact (List.Nodup.mem_erase_iff ia.nodup).mp hm |>.1 rfl
  have i3 : rec_inv (lock_reset_lock_and_trx_wait s2 lock) := by
    refine rec_inv_frame s2 _ i2 ?_ ?_ ?_
    · have e : (lock_reset_lock_and_trx_wait s2 lock).rec_hash = s2.rec_hash :=
        lock_reset_hash s2 lock hash_id.rec_hash
      rw [e]
    · rw [lock_reset_n_locks]
    · intro g
      rw [lock_reset_lock]
      by_cases e : g = lock
      · right
        rw [if_pos e]
        refine ⟨rfl, i2.plain lock, Or.inl ?_⟩
        rw [e]
        have e : (lock_reset_lock_and_trx_wait s2 lock).rec_hash = s2.rec_hash :=
          lock_reset_hash s2 lock hash_id.rec_hash
        rw [e]
        exact hnot
      · left
        rw [if_neg e]
        exact ⟨rfl, rfl, rfl, fun _ h => h⟩
  have i4 : rec_inv (lock_wait_end (lock_reset_lock_and_trx_wait s2 lock) (s.lock lock).trx) :=
    rec_inv_of_eq _ _ i3 (lock_wait_end_hash _ _ hash_id.rec_hash) (lock_wait_end_n_locks _ _)
      (lock_wait_end_lock _ _)
  exact rec_inv_set_trx _ _ _ i4

theorem rec_inv_trx_rollback (E : Env) (fuel : Nat) (s s1 : lock_sys_t)
    (c : DeadlockChecker) (hi : rec_inv s)
    (h : DeadlockChecker.trx_rollback E fuel s c = some s1) : rec_inv s1 := by
  unfold DeadlockChecker.trx_rollback at h
  dsimp only at h
  split at h
  · cases h
  · exact rec_inv_cancel E fuel _ s1 _ (rec_inv_set_trx _ _ _ hi) h

theorem rec_inv_check_and_resolve_loop (E : Env) (fuel n : Nat) (s : lock_sys_t)
    (lock trx : Nat) (v : Option Nat) (s1 : lock_sys_t) (hi : rec_inv s)
    (h : DeadlockChecker.check_and_resolve_loop E fuel n s lock trx = some (v, s1)) :
    rec_inv s1 := by
  induction n generalizing s with
  | zero => simp [DeadlockChecker.check_and_resolve_loop] at h
  | succ n ih =>
    unfold DeadlockChecker.check_and_resolve_loop at h
    dsimp only at h
    split at h
    · cases h
    · rename_i vt c1 sA hsearch
      have hm := search_only_marks E fuel s _ vt c1 sA hsearch
      have base : rec_inv sA :=
        rec_inv_of_eq s sA hi (only_marks_hash hm hash_id.rec_hash) hm.2.1 (only_marks_lock hm)
      split at h
      · cases h; exact base
      · split at h
        · cases h; exact base
        · split at h
          · split at h
            · cases h
            · rename_i sB hroll
              have r1 := rec_inv_trx_rollback E fuel sA sB c1 base hroll
              exact ih { sB with lock_deadlock_found := true }
                (rec_inv_of_eq sB _ r1 rfl rfl (fun _ => rfl)) h
          · cases h; exact base

theorem rec_inv_check_and_resolve (E : Env) (fuel : Nat) (s : lock_sys_t)
    (lock trx : Nat) (v : Option Nat) (s1 : lock_sys_t) (hi : rec_inv s)
    (h : DeadlockChecker.check_and_resolve E fuel s lock trx = some (v, s1)) :
    rec_inv s1 := by
  unfold DeadlockChecker.check_and_resolve at h
  split at h
  · cases h
    exact hi
  · split at h
    · cases h
    · rename_i vt sA hl
      have a := rec_inv_check_and_resolve_loop E fuel fuel s lock trx vt sA hi hl
      split at h
      · cases h
        exact rec_inv_of_eq sA _ a rfl rfl (fun _ => rfl)
      · cases h
        exact a

theorem filter_single_of_rest_none (p : Nat → Bool) (l : List Nat) (a : Nat)
    (hh : (l.filter p).head? = some a)
    (hn : ((l.dropWhile (fun i => i != a)).tail).find? p = none) :
    l.filter p = [a] := by
  induction l with
  | nil => simp at hh
  | cons x xs ih =>
    by_cases hp : p x = true
    · rw [List.filter_cons_of_pos hp] at hh ⊢
      simp only [List.head?_cons, Option.some.injEq] at hh
      subst hh
      have hd : (x :: xs).dropWhile (fun i => i != x) = x :: xs := by
        simp [List.dropWhile_cons]
      rw [hd, List.tail_cons, List.find?_eq_none] at hn
      have : xs.filter p = [] := by
        rw [List.filter_eq_nil_iff]
        exact hn
      rw [this]
    · rw [List.filter_cons_of_neg hp] at hh ⊢
      have ha : p a = true := by
        have hm : a ∈ xs.filter p := List.mem_of_mem_head? hh
        exact (List.mem_filter.mp hm).2
      have hxa : x ≠ a := fun e => hp (e ▸ ha)
      have hd : (x :: xs).dropWhile (fun i => i != a)
          = xs.dropWhile (fun i => i != a) := by
        simp [List.dropWhile_cons, hxa]
      rw [hd] at hn
      exact ih hh hn

theorem mem_page_chain_page (s : lock_sys_t) (k : hash_id) (id g : Nat)
    (h : g ∈ s.page_chain k id) : (s.lock g).page_id = id := by
  unfold lock_sys_t.page_chain at h
  simpa using (List.mem_filter.mp h).2

theorem rec_inv_add_to_queue (E : Env) (s : lock_sys_t) (tm : type_mode_t)
    (block : buf_block_t) (heap_no : Nat) (index : dict_index_t) (trx : Nat) (b : Bool)
    (hi : rec_inv s)
    (h1 : tm.table = false) (h2 : tm.predicate = false) (h3 : tm.prdt_page = false)
    (h4 : tm.insert_intention = false)
    (hc : lock_rec_other_has_conflicting E s tm block heap_no trx = none) :
    rec_inv (lock_rec_add_to_queue s tm block heap_no index trx b) := by
  obtain ⟨f1, f2, f3, f4, f5⟩ := supremum_type_mode_flags tm heap_no
  have f6 := supremum_type_mode_table tm heap_no
  rcases lock_rec_add_to_queue_cases s tm block heap_no index trx b with
    ⟨g, hg, ht, htm, hnb, hw, e⟩ | e
  · rw [e]
    have hpg := mem_page_chain_page s _ _ _ hg
    refine rec_inv_set_bit s g heap_no hi ?_ ?_
    · unfold lock_t.is_waiting; rw [htm]; exact hw
    · intro hs hgap X hX hXt hXg
      rw [hpg] at hX
      rw [htm, supremum_type_mode_of_ne _ _ hs] at hgap
      have hm : (s.lock g).mode = tm.mode := by
        unfold lock_t.mode; rw [htm, f4]
      rw [hm]
      rw [ht] at hXt
      exact no_conflict_compat E s tm block heap_no trx hc hs hgap h4 X hX hXt hXg
        (hi.plain X).2.2.2
  · rw [e]
    refine rec_inv_create s _ block heap_no index trx b hi (by rw [f6]; exact h1)
      (by rw [f1]; exact h2) (by rw [f2]; exact h3) (by rw [f5]; exact h4) (Or.inr ?_)
    intro hs hgap X hX hXt hXg
    rw [supremum_type_mode_of_ne _ _ hs] at hgap ⊢
    exact no_conflict_compat E s tm block heap_no trx hc hs hgap h4 X hX hXt hXg
      (hi.plain X).2.2.2

theorem rec_inv_enqueue_waiting (E : Env) (fuel : Nat) (s : lock_sys_t) (tm : type_mode_t)
    (block : buf_block_t) (heap_no : Nat) (index : dict_index_t) (thr : Nat)
    (err : dberr_t) (s1 : lock_sys_t) (hi : rec_inv s)
    (h1 : tm.table = false) (h2 : tm.predicate = false) (h3 : tm.prdt_page = false)
    (h4 : tm.insert_intention = false)
    (h : lock_rec_enqueue_waiting E fuel s tm block heap_no index thr = some (err, s1)) :
    rec_inv s1 := by
  unfold lock_rec_enqueue_waiting at h
  dsimp only at h
  split at h
  · cases h
    exact rec_inv_set_trx _ _ _ hi
  · have hc : rec_inv (lock_rec_create s { tm with wait := true } block heap_no index thr
        true).2 :=
      rec_inv_create s { tm with wait := true } block heap_no index thr true hi h1 h2 h3 h4
        (Or.inl rfl)
    have hN := (lock_rec_create_spec s { tm with wait := true } block heap_no index thr true
      h2 h3).1
    have hL := (lock_rec_create_general s { tm with wait := true } block heap_no index thr
      true).2.1 s.n_locks
    rw [if_pos rfl] at hL
    split at h
    · cases h
    · rename_i x s2 hr
      cases h
      have i2 := rec_inv_check_and_resolve E fuel _ _ _ _ _ hc hr
      have sc := (same_core_check_and_resolve E fuel _ _ _ _ _ hr).1
      rw [hN] at hr ⊢
      set N := s.n_locks with hNd
      set s3 := lock_reset_lock_and_trx_wait s2 N with hs3
      have hbm : (s2.lock N).bitmap
          = (List.replicate
              (if !((supremum_type_mode { tm with wait := true } heap_no).predicate
                  || (supremum_type_mode { tm with wait := true } heap_no).prdt_page) then
                ((block.n_heap + 7) / 8) * 8
              else 8) false).set heap_no true := by
        have := congrArg lock_t.bitmap (sc.2 N)
        rw [hL] at this
        exact this
      refine rec_inv_frame s2 _ i2 ?_ ?_ ?_
      · have e : (s3.set_lock N (lock_rec_reset_nth_bit (s3.lock N) heap_no)).rec_hash
            = s2.rec_hash := lock_reset_hash s2 N hash_id.rec_hash
        rw [e]
      · have e : (s3.set_lock N (lock_rec_reset_nth_bit (s3.lock N) heap_no)).n_locks
            = s2.n_locks := lock_reset_n_locks s2 N
        rw [e]
      · intro g
        by_cases e : g = N
        · right
          have hl : (s3.set_lock N (lock_rec_reset_nth_bit (s3.lock N) heap_no)).lock g
              = lock_rec_reset_nth_bit (s2.lock N).clear_wait heap_no := by
            rw [e]
            have e0 : (s3.set_lock N (lock_rec_reset_nth_bit (s3.lock N) heap_no)).lock N
                = lock_rec_reset_nth_bit (s3.lock N) heap_no := by
              simp [lock_sys_t.set_lock, lock_sys_t.lock]
            rw [e0, hs3, lock_reset_lock, if_pos rfl]
          rw [hl]
          refine ⟨rfl, i2.plain N, Or.inr ?_⟩
          intro i
          rw [get_nth_bit_reset_eq]
          by_cases ei : i = heap_no
          · simp [ei]
          · have : lock_rec_get_nth_bit (s2.lock N).clear_wait i = false := by
              cases hb : lock_rec_get_nth_bit (s2.lock N).clear_wait i
              · rfl
              · have hb1 : (s2.lock N).bitmap.getD i false = true := hb
                rw [hbm] at hb1
                exact absurd (get_nth_bit_fresh_only _ _ _ hb1) ei
            rw [this]; simp
        · left
          have hl : (s3.set_lock N (lock_rec_reset_nth_bit (s3.lock N) heap_no)).lock g
              = s2.lock g := by
            have e0 : (s3.set_lock N (lock_rec_reset_nth_bit (s3.lock N) heap_no)).lock g
                = s3.lock g := by
              simp [lock_sys_t.set_lock, lock_sys_t.lock, Function.update, e]
            rw [e0, hs3, lock_reset_lock, if_neg e]
          rw [hl]
          exact ⟨rfl, rfl, rfl, fun _ h => h⟩
    · rename_i s2 hr
      have i2 := rec_inv_check_and_resolve E fuel _ _ _ _ _ hc hr
      split at h
      · cases h; exact i2
      · cases h
        exact rec_inv_set_trx _ _ _ i2

theorem rec_inv_lock_rec_lock (E : Env) (fuel : Nat) (s : lock_sys_t) (impl : Bool)
    (mode : type_mode_t) (block : buf_block_t) (heap_no : Nat) (index : dict_index_t)
    (thr : Nat) (err : dberr_t) (s1 : lock_sys_t) (hi : rec_inv s)
    (h0 : mode.wait = false) (h4 : mode.insert_intention = false)
    (h1 : mode.table = false) (h2 : mode.predicate = false) (h3 : mode.prdt_page = false)
    (h : lock_rec_lock E fuel s impl mode block heap_no index thr = some (err, s1)) :
    rec_inv s1 := by
  unfold lock_rec_lock at h
  dsimp only at h
  split at h
  · cases h; exact hi
  · split at h
    · rename_i lock hhead
      split at h
      · split at h
        · split at h
          · exact rec_inv_enqueue_waiting E fuel s mode block heap_no index thr err s1
              hi h1 h2 h3 h4 h
          · rename_i hcf
            split at h
            · cases h
              have hcn : lock_rec_other_has_conflicting E s mode block heap_no thr = none := by
                cases hx : lock_rec_other_has_conflicting E s mode block heap_no thr
                · rfl
                · rw [hx] at hcf; simp at hcf
              exact rec_inv_add_to_queue E s mode block heap_no index thr true hi h1 h2 h3
                h4 hcn
            · cases h; exact hi
        · cases h; exact hi
      · rename_i hc
        simp only [Bool.or_eq_true, decide_eq_true_eq, not_or, not_not] at hc
        split at h
        · split at h
          · cases h
            have hmem : lock ∈ s.page_chain hash_id.rec_hash block.page_id :=
              List.mem_of_mem_head? hhead
            have hpg := mem_page_chain_page s _ _ _ hmem
            have hnone : lock_rec_get_next_on_page s lock = none := by
              cases hx : lock_rec_get_next_on_page s lock
              · rfl
              · have := hc.1.1.1
                rw [hx] at this; simp at this
            have hsingle : s.page_chain hash_id.rec_hash block.page_id = [lock] := by
              unfold lock_rec_get_next_on_page at hnone
              simp only [] at hnone
              rw [lock_hash_get_plain _ (hi.plain lock), hpg] at hnone
              exact filter_single_of_rest_none _ _ _ hhead hnone
            refine rec_inv_set_bit s lock heap_no hi ?_ ?_
            · unfold lock_t.is_waiting; rw [hc.1.2]; exact h0
            · intro _ _ X hX hXt _
              rw [hpg] at hX
              have hX1 : X ∈ s.page_chain hash_id.rec_hash block.page_id := by
                unfold lock_rec_queue at hX
                exact (List.mem_filter.mp hX).1
              rw [hsingle] at hX1
              simp at hX1
              rw [hX1] at hXt
              exact absurd rfl hXt
          · cases h; exact hi
        · cases h; exact hi
    · split at h
      · cases h
        have hempty : s.page_chain hash_id.rec_hash block.page_id = [] := by
          rename_i hh _
          exact List.head?_eq_none_iff.mp hh
        refine rec_inv_create s mode block heap_no index thr false hi h1 h2 h3 h4 (Or.inr ?_)
        intro _ _ X hX
        unfold lock_rec_queue at hX
        rw [hempty] at hX
        simp at hX
      · cases h; exact hi

theorem rec_inv_queue_grant_loop (E : Env) (heap_no fuel : Nat) (s s1 : lock_sys_t)
    (first : Option Nat) (hi : rec_inv s)
    (h : lock_rec_queue_loop (fun s2 lock => some (lock_rec_grant_step E s2 lock)) heap_no
      fuel s first = some s1) : rec_inv s1 := by
  induction fuel generalizing s first with
  | zero =>
    cases first with
    | none => simp [lock_rec_queue_loop] at h; rw [← h]; exact hi
    | some l => simp [lock_rec_queue_loop] at h
  | succ n ih =>
    cases first with
    | none => simp [lock_rec_queue_loop] at h; rw [← h]; exact hi
    | some l =>
      simp only [lock_rec_queue_loop, Option.bind_eq_some] at h
      obtain ⟨s2, h2, h3⟩ := h
      cases h2
      exact ih _ _ (rec_inv_grant_step E s l hi) h3

theorem rec_inv_unlock (E : Env) (fuel : Nat) (s : lock_sys_t) (trx : Nat)
    (block : buf_block_t) (heap_no : Nat) (lock_mode : lock_mode) (s1 : lock_sys_t)
    (hi : rec_inv s)
    (h : lock_rec_unlock E fuel s trx block heap_no lock_mode = some s1) : rec_inv s1 := by
  unfold lock_rec_unlock at h
  dsimp only at h
  split at h
  · cases h; exact hi
  · rename_i lock _
    split at h
    · cases h
    · refine rec_inv_queue_grant_loop E heap_no fuel _ s1 _ ?_ h
      refine rec_inv_frame s _ hi (List.Sublist.refl _) (le_refl _) ?_
      intro g
      left
      by_cases e : g = lock
      · have hl : (s.set_lock lock (lock_rec_reset_nth_bit (s.lock lock) heap_no)).lock g
            = lock_rec_reset_nth_bit (s.lock g) heap_no := by
          rw [e]; simp [lock_sys_t.set_lock, lock_sys_t.lock]
        rw [hl]
        exact ⟨rfl, rfl, rfl, fun i hb => get_nth_bit_reset_le _ _ _ hb⟩
      · have hl : (s.set_lock lock (lock_rec_reset_nth_bit (s.lock lock) heap_no)).lock g
            = s.lock g := by
          simp [lock_sys_t.set_lock, lock_sys_t.lock, Function.update, e]
        rw [hl]
        exact ⟨rfl, rfl, rfl, fun _ h => h⟩

theorem rec_inv_release_loop (E : Env) (fuel : Nat) (s s1 : lock_sys_t) (trx : Nat)
    (hi : rec_inv s) (h : lock_release_loop E fuel s trx = some s1) : rec_inv s1 := by
  induction fuel generalizing s with
  | zero =>
    unfold lock_release_loop at h
    split at h
    · cases h; exact hi
    · cases h
  | succ n ih =>
    unfold lock_release_loop at h
    split at h
    · cases h; exact hi
    · rename_i lock _
      have ht : (!(s.lock lock).is_table) = true := by
        rw [(hi.plain lock).1]; rfl
      rw [if_pos ht] at h
      exact ih _ (rec_inv_rec_dequeue E s lock hi).1 h

theorem rec_inv_rec_op (E : Env) (s s1 : lock_sys_t) (hi : rec_inv s) (h : rec_op E s s1) :
    rec_inv s1 := by
  cases h with
  | lock_rec_lock fuel _ impl mode block heap_no index thr err _ h0 h4 h1 h2 h3 h =>
    exact rec_inv_lock_rec_lock E fuel s impl mode block heap_no index thr err s1 hi
      h0 h4 h1 h2 h3 h
  | lock_rec_unlock fuel _ trx block heap_no lock_mode _ h =>
    exact rec_inv_unlock E fuel s trx block heap_no lock_mode s1 hi h
  | lock_release fuel _ trx _ h =>
    exact rec_inv_release_loop E fuel s s1 trx hi h
  | lock_cancel_waiting_and_release fuel _ lock _ h =>
    exact rec_inv_cancel E fuel s s1 lock hi h

theorem rec_inv_empty (s : lock_sys_t) (h : empty_lock_table s) : rec_inv s := by
  obtain ⟨h1, h2, h3⟩ := h
  refine ⟨by rw [h2]; exact List.nodup_nil, ?_, ?_, ?_, ?_⟩
  · intro g hg; rw [h2] at hg; cases hg
  · intro g; rw [h3]; exact ⟨rfl, rfl, rfl, rfl⟩
  · intro g hw; rw [h3] at hw; cases hw
  · intro A B h hA; rw [h2] at hA; cases hA

theorem rec_inv_reachable (E : Env) (s : lock_sys_t) (h : rec_reachable E s) : rec_inv s := by
  induction h with
  | empty s h => exact rec_inv_empty s h
  | step s s1 _ hop ih => exact rec_inv_rec_op E s s1 ih hop

theorem empty_lock_table_default : empty_lock_table {} := ⟨rfl, rfl, fun _ => rfl⟩

theorem two_requests_reachable (mode : type_mode_t) (heap_no : Nat)
    (h0 : mode.wait = false) (h4 : mode.insert_intention = false) (h1 : mode.table = false)
    (h2 : mode.predicate = false) (h3 : mode.prdt_page = false)
    (ha : lock_rec_lock env_ordering 10 {} false mode { page_id := 0, n_heap := 8 } heap_no {} 1
      = some (rec_request {} 1 mode heap_no))
    (hb : lock_rec_lock env_ordering 10 (rec_request {} 1 mode heap_no).2 false mode
        { page_id := 0, n_heap := 8 } heap_no {} 2
      = some (rec_request (rec_request {} 1 mode heap_no).2 2 mode heap_no)) :
    rec_reachable env_ordering (two_requests mode heap_no) :=
  rec_reachable.step _ _
    (rec_reachable.step _ _ (rec_reachable.empty _ empty_lock_table_default)
      (rec_op.lock_rec_lock 10 {} false mode { page_id := 0, n_heap := 8 } heap_no {} 1
        (rec_request {} 1 mode heap_no).1 (rec_request {} 1 mode heap_no).2 h0 h4 h1 h2 h3 ha))
    (rec_op.lock_rec_lock 10 _ false mode { page_id := 0, n_heap := 8 } heap_no {} 2
      (rec_request (rec_request {} 1 mode heap_no).2 2 mode heap_no).1 _ h0 h4 h1 h2 h3 hb)

/-- C35: in every state reachable from an empty lock table through
`lock_rec_lock`, `lock_rec_unlock`, `lock_release` and
`lock_cancel_waiting_and_release`, two granted locks of the record hash
table that belong to different transactions, are on the same page, both
lack the `GAP` flag and have a common bit of a heap number other than the
page supremum have compatible modes; so it is not the case that one of
them is an `X` lock and the other one an `S` or `X` lock. -/
theorem granted_record_locks_compatible (E : Env) (s : lock_sys_t) (A B h : Nat)
    (hr : rec_reachable E s) (hA : A ∈ s.rec_hash) (hB : B ∈ s.rec_hash)
    (hwA : (s.lock A).is_waiting = false) (hwB : (s.lock B).is_waiting = false)
    (ht : (s.lock A).trx ≠ (s.lock B).trx)
    (hp : (s.lock A).page_id = (s.lock B).page_id)
    (hh : h ≠ PAGE_HEAP_NO_SUPREMUM)
    (hbA : lock_rec_get_nth_bit (s.lock A) h = true)
    (hbB : lock_rec_get_nth_bit (s.lock B) h = true)
    (hgA : (s.lock A).type_mode.gap = false) (hgB : (s.lock B).type_mode.gap = false) :
    lock_mode_compatible (s.lock A).mode (s.lock B).mode = true
    ∧ ¬ ((s.lock A).mode = LOCK_X
        ∧ ((s.lock B).mode = LOCK_S ∨ (s.lock B).mode = LOCK_X)) := by
  have hc := (rec_inv_reachable E s hr).compat A B h hA hB hp hh hbA hbB hgA hgB ht hwB
    (Or.inl hwA)
  refine ⟨hc, ?_⟩
  rintro ⟨hx, _⟩
  rw [hx] at hc
  cases hm : (s.lock B).mode <;> rw [hm] at hc <;> cases hc

theorem granted_record_locks_compatible_witness :
    (two_requests { mode := LOCK_S } 2).rec_hash = [0, 1]
    ∧ ((two_requests { mode := LOCK_S } 2).lock 0).type_mode = { mode := LOCK_S }
    ∧ ((two_requests { mode := LOCK_S } 2).lock 1).type_mode = { mode := LOCK_S }
    ∧ ((two_requests { mode := LOCK_S } 2).lock 0).trx = 1
    ∧ ((two_requests { mode := LOCK_S } 2).lock 1).trx = 2
    ∧ (lock_mode_compatible ((two_requests { mode := LOCK_S } 2).lock 0).mode
          ((two_requests { mode := LOCK_S } 2).lock 1).mode = true
      ∧ ¬ (((two_requests { mode := LOCK_S } 2).lock 0).mode = LOCK_X
          ∧ (((two_requests { mode := LOCK_S } 2).lock 1).mode = LOCK_S
            ∨ ((two_requests { mode := LOCK_S } 2).lock 1).mode = LOCK_X))) :=
  ⟨rfl, rfl, rfl, rfl, rfl,
    granted_record_locks_compatible env_ordering (two_requests { mode := LOCK_S } 2) 0 1 2
      (two_requests_reachable { mode := LOCK_S } 2 rfl rfl rfl rfl rfl rfl rfl)
      (by decide) (by decide) rfl rfl (by decide) rfl (by decide) rfl rfl rfl rfl⟩

/-- C21, counterexample: in the lock system without locks transaction 1
and then transaction 2 request, through non-implicit `lock_rec_lock`, a
lock on one record of page 0.  With `X` on heap number 2 the lock of
transaction 1 is granted and the lock of transaction 2 waits behind it;
with `X` + `GAP` on heap number 2, and with `X` on the page supremum, both
locks are granted.  In each of the three reachable states lock 0 is
granted, lock 1 is another lock of the same page with a common bit and of
another transaction, and the modes `X` and `X` are not compatible. -/
theorem granted_lock_incompatible_neighbour :
    (rec_reachable env_ordering (two_requests { mode := LOCK_X } 2)
      ∧ (two_requests { mode := LOCK_X } 2).rec_hash = [0, 1]
      ∧ ((two_requests { mode := LOCK_X } 2).lock 0)
          = { trx := 1, type_mode := { mode := LOCK_X }, page_id := 0,
              bitmap := [false, false, true, false, false, false, false, false] }
      ∧ ((two_requests { mode := LOCK_X } 2).lock 1)
          = { trx := 2, type_mode := { mode := LOCK_X, wait := true }, page_id := 0,
              bitmap := [false, false, true, false, false, false, false, false] })
    ∧ (rec_reachable env_ordering (two_requests { mode := LOCK_X, gap := true } 2)
      ∧ (two_requests { mode := LOCK_X, gap := true } 2).rec_hash = [0, 1]
      ∧ ((two_requests { mode := LOCK_X, gap := true } 2).lock 0)
          = { trx := 1, type_mode := { mode := LOCK_X, gap := true }, page_id := 0,
              bitmap := [false, false, true, false, false, false, false, false] }
      ∧ ((two_requests { mode := LOCK_X, gap := true } 2).lock 1)
          = { trx := 2, type_mode := { mode := LOCK_X, gap := true }, page_id := 0,
              bitmap := [false, false, true, false, false, false, false, false] })
    ∧ (rec_reachable env_ordering (two_requests { mode := LOCK_X } PAGE_HEAP_NO_SUPREMUM)
      ∧ (two_requests { mode := LOCK_X } PAGE_HEAP_NO_SUPREMUM).rec_hash = [0, 1]
      ∧ ((two_requests { mode := LOCK_X } PAGE_HEAP_NO_SUPREMUM).lock 0)
          = { trx := 1, type_mode := { mode := LOCK_X }, page_id := 0,
              bitmap := [false, true, false, false, false, false, false, false] }
      ∧ ((two_requests { mode := LOCK_X } PAGE_HEAP_NO_SUPREMUM).lock 1)
          = { trx := 2, type_mode := { mode := LOCK_X }, page_id := 0,
              bitmap := [false, true, false, false, false, false, false, false] })
    ∧ lock_mode_compatible LOCK_X LOCK_X = false :=
  ⟨⟨two_requests_reachable { mode := LOCK_X } 2 rfl rfl rfl rfl rfl rfl rfl, rfl, rfl, rfl⟩,
    ⟨two_requests_reachable { mode := LOCK_X, gap := true } 2 rfl rfl rfl rfl rfl rfl rfl,
      rfl, rfl, rfl⟩,
    ⟨two_requests_reachable { mode := LOCK_X } PAGE_HEAP_NO_SUPREMUM rfl rfl rfl rfl rfl
      rfl rfl, rfl, rfl, rfl⟩,
    rfl⟩

/-- C21, amended: in every state reachable from an empty lock table
through `lock_rec_lock`, `lock_rec_unlock`, `lock_release` and
`lock_cancel_waiting_and_release`, for every granted lock `L` of the
record hash table and every lock `L1` of the record hash table on the
same page that has a bit of a heap number other than the page supremum in
common with `L`, when neither lock has the `GAP` flag and `L1` is granted
or stands before `L` in the hash chain, the modes of `L` and `L1` are
compatible or the two locks belong to the same transaction. -/
theorem granted_lock_compatible_in_queue (E : Env) (s : lock_sys_t) (L L1 h : Nat)
    (hr : rec_reachable E s) (hL : L ∈ s.rec_hash) (hL1 : L1 ∈ s.rec_hash)
    (hw : (s.lock L).is_waiting = false)
    (hp : (s.lock L).page_id = (s.lock L1).page_id)
    (hh : h ≠ PAGE_HEAP_NO_SUPREMUM)
    (hbL : lock_rec_get_nth_bit (s.lock L) h = true)
    (hbL1 : lock_rec_get_nth_bit (s.lock L1) h = true)
    (hgL : (s.lock L).type_mode.gap = false) (hgL1 : (s.lock L1).type_mode.gap = false)
    (hor : (s.lock L1).is_waiting = false ∨ List.Sublist [L1, L] s.rec_hash) :
    lock_mode_compatible (s.lock L).mode (s.lock L1).mode = true
      ∨ (s.lock L).trx = (s.lock L1).trx := by
  by_cases ht : (s.lock L).trx = (s.lock L1).trx
  · exact Or.inr ht
  · left
    rw [lock_mode_compatible_comm]
    exact (rec_inv_reachable E s hr).compat L1 L h hL1 hL hp.symm hh hbL1 hbL hgL1 hgL
      (fun e => ht e.symm) hw hor

theorem granted_lock_compatible_in_queue_witness :
    (two_requests { mode := LOCK_S, rec_not_gap := true } 3).rec_hash = [0, 1]
    ∧ ((two_requests { mode := LOCK_S, rec_not_gap := true } 3).lock 1)
        = { trx := 2, type_mode := { mode := LOCK_S, rec_not_gap := true }, page_id := 0,
            bitmap := [false, false, false, true, false, false, false, false] }
    ∧ ((two_requests { mode := LOCK_S, rec_not_gap := true } 3).lock 0)
        = { trx := 1, type_mode := { mode := LOCK_S, rec_not_gap := true }, page_id := 0,
            bitmap := [false, false, false, true, false, false, false, false] }
    ∧ (lock_mode_compatible
          ((two_requests { mode := LOCK_S, rec_not_gap := true } 3).lock 1).mode
          ((two_requests { mode := LOCK_S, rec_not_gap := true } 3).lock 0).mode = true
        ∨ ((two_requests { mode := LOCK_S, rec_not_gap := true } 3).lock 1).trx
          = ((two_requests { mode := LOCK_S, rec_not_gap := true } 3).lock 0).trx) :=
  ⟨rfl, rfl, rfl,
    granted_lock_compatible_in_queue env_ordering
      (two_requests { mode := LOCK_S, rec_not_gap := true } 3) 1 0 3
      (two_requests_reachable { mode := LOCK_S, rec_not_gap := true } 3 rfl rfl rfl rfl rfl
        rfl rfl)
      (by decide) (by decide) rfl rfl (by decide) rfl rfl rfl rfl
      (Or.inr (List.Sublist.refl _))⟩


/-! ## Counter invariant of the table queues -/

/-- The lock systems `s` and `s1` agree in everything the invariant of the
table queues reads. -/
structure table_same (s s1 : lock_sys_t) : Prop where
  n_locks : s1.n_locks = s.n_locks
  lock : ∀ g, s1.lock g = s.lock g
  locks : ∀ tb, (s1.tbl tb).locks = (s.tbl tb).locks
  n_x : ∀ tb, (s1.tbl tb).n_lock_x_or_s = (s.tbl tb).n_lock_x_or_s
  n_auto : ∀ tb, (s1.tbl tb).n_waiting_or_granted_auto_inc_locks
    = (s.tbl tb).n_waiting_or_granted_auto_inc_locks
  autoinc_trx : ∀ tb, (s1.tbl tb).autoinc_trx = (s.tbl tb).autoinc_trx
  autoinc_lock : ∀ tb, (s1.tbl tb).autoinc_lock = (s.tbl tb).autoinc_lock
  trx_locks : ∀ t, (s1.trx t).trx_locks = (s.trx t).trx_locks
  wait_lock : ∀ t, (s1.trx t).wait_lock = (s.trx t).wait_lock
  autoinc_locks : ∀ t, (s1.trx t).autoinc_locks = (s.trx t).autoinc_locks
  table_locks : ∀ t g, (∃ tb, g ∈ (s.tbl tb).locks) → some g ∈ (s.trx t).table_locks →
    some g ∈ (s1.trx t).table_locks

theorem table_same_refl (s : lock_sys_t) : table_same s s :=
  ⟨rfl, fun _ => rfl, fun _ => rfl, fun _ => rfl, fun _ => rfl, fun _ => rfl, fun _ => rfl,
    fun _ => rfl, fun _ => rfl, fun _ => rfl, fun _ _ _ h => h⟩

theorem table_same_trans {s s1 s2 : lock_sys_t} (h1 : table_same s s1)
    (h2 : table_same s1 s2) : table_same s s2 :=
  ⟨h2.n_locks.trans h1.n_locks, fun g => (h2.lock g).trans (h1.lock g),
    fun t => (h2.locks t).trans (h1.locks t), fun t => (h2.n_x t).trans (h1.n_x t),
    fun t => (h2.n_auto t).trans (h1.n_auto t),
    fun t => (h2.autoinc_trx t).trans (h1.autoinc_trx t),
    fun t => (h2.autoinc_lock t).trans (h1.autoinc_lock t),
    fun t => (h2.trx_locks t).trans (h1.trx_locks t),
    fun t => (h2.wait_lock t).trans (h1.wait_lock t),
    fun t => (h2.autoinc_locks t).trans (h1.autoinc_locks t),
    fun t g hg hm => h2.table_locks t g
      (by obtain ⟨tb, h⟩ := hg; exact ⟨tb, by rw [h1.locks]; exact h⟩)
      (h1.table_locks t g hg hm)⟩

theorem table_inv_of_same {n0 : Nat} {X : Nat → Prop} {s s1 : lock_sys_t}
    (h : table_same s s1) (hi : table_inv n0 X s) : table_inv n0 X s1 := by
  obtain ⟨e1, e2, e3, e4, e5, e6, e7, e8, e9, e10, e11⟩ := h
  obtain ⟨a1, a2, a3, a4, a5, a6, a7, a8, a9, a10, a11, a12, a13⟩ := hi
  refine ⟨?_, ?_, ?_, ?_, ?_, ?_, ?_, ?_, ?_, ?_, ?_, ?_, ?_⟩
  · intro tb
    have := a1 tb
    unfold table_x_or_s_count table_auto_inc_count at this
    unfold table_x_or_s_count table_auto_inc_count
    simp only [e2, e3, e4, e5]
    exact this
  · rw [e1]; exact a2
  · simpa only [e7] using a3
  · simpa only [e3] using a4
  · simpa only [e1, e2, e3, e7] using a5
  · intro tb g hg
    rw [e3] at hg
    rw [e2, e8]
    exact ⟨(a6 tb g hg).1, e11 _ g ⟨tb, hg⟩ (a6 tb g hg).2⟩
  · simpa only [e8] using a7
  · simpa only [e2, e3, e8] using a8
  · simpa only [e2, e8, e9] using a9
  · simpa only [e2, e6, e8, e10] using a10
  · simpa only [e10] using a11
  · simpa only [e2, e3] using a12
  · simpa only [e2, e3] using a13

theorem table_inv_mono {n0 : Nat} {X Y : Nat → Prop} {s : lock_sys_t}
    (h : ∀ t, X t → Y t) (hi : table_inv n0 X s) : table_inv n0 Y s :=
  { hi with wait := fun t w hX hw => hi.wait t w (fun hx => hX (h t hx)) hw }

theorem table_same_set_trx (s : lock_sys_t) (t : Nat) (x : trx_t)
    (h1 : x.trx_locks = (s.trx t).trx_locks) (h2 : x.wait_lock = (s.trx t).wait_lock)
    (h3 : x.autoinc_locks = (s.trx t).autoinc_locks)
    (h4 : x.table_locks = (s.trx t).table_locks) : table_same s (s.set_trx t x) := by
  refine ⟨rfl, fun _ => rfl, fun _ => rfl, fun _ => rfl, fun _ => rfl, fun _ => rfl,
    fun _ => rfl, ?_, ?_, ?_, ?_⟩
  · intro u; simp only [lock_sys_t.trx_set_trx]; split <;> simp_all
  · intro u; simp only [lock_sys_t.trx_set_trx]; split <;> simp_all
  · intro u; simp only [lock_sys_t.trx_set_trx]; split <;> simp_all
  · intro u g _ hm
    simp only [lock_sys_t.trx_set_trx]
    split
    · rename_i e; rw [h4, ← e]; exact hm
    · exact hm

theorem table_same_set_tbl (s : lock_sys_t) (t : Nat) (x : dict_table_t)
    (h1 : x.locks = (s.tbl t).locks) (h2 : x.n_lock_x_or_s = (s.tbl t).n_lock_x_or_s)
    (h3 : x.n_waiting_or_granted_auto_inc_locks
      = (s.tbl t).n_waiting_or_granted_auto_inc_locks)
    (h4 : x.autoinc_trx = (s.tbl t).autoinc_trx)
    (h5 : x.autoinc_lock = (s.tbl t).autoinc_lock) : table_same s (s.set_tbl t x) := by
  refine ⟨rfl, fun _ => rfl, ?_, ?_, ?_, ?_, ?_, fun _ => rfl, fun _ => rfl, fun _ => rfl,
    fun _ _ _ h => h⟩ <;> intro u <;>
    simp only [lock_sys_t.tbl_set_tbl] <;> split <;> simp_all

theorem table_same_only_marks {s s1 : lock_sys_t} (h : only_marks s s1) : table_same s s1 := by
  have hl := only_marks_lock h
  have ht := only_marks_tbl h
  obtain ⟨_, hn, _, _, _, _, _, _, htr⟩ := h
  refine ⟨hn, hl, ?_, ?_, ?_, ?_, ?_, ?_, ?_, ?_, ?_⟩
  · intro t; rw [ht t]
  · intro t; rw [ht t]
  · intro t; rw [ht t]
  · intro t; rw [ht t]
  · intro t; rw [ht t]
  · intro t; obtain ⟨m, hm⟩ := htr t; rw [hm]
  · intro t; obtain ⟨m, hm⟩ := htr t; rw [hm]
  · intro t; obtain ⟨m, hm⟩ := htr t; rw [hm]
  · intro t g _ h; obtain ⟨m, hm⟩ := htr t; rw [hm]; exact h

theorem table_same_wait_end (s : lock_sys_t) (t : Nat) : table_same s (lock_wait_end s t) := by
  unfold lock_wait_end
  apply table_same_set_trx <;> (simp only []; split <;> rfl)

/-- The effect of `lock_table_remove_low` on everything the invariant of
the table queues reads. -/
theorem lock_table_remove_low_effect (s s1 : lock_sys_t) (L : Nat)
    (h : lock_table_remove_low s L = some s1) :
    s1.n_locks = s.n_locks ∧ (∀ g, s1.lock g = s.lock g)
    ∧ (∀ tb, (s1.tbl tb).locks
        = if tb = (s.lock L).table then (s.tbl tb).locks.erase L else (s.tbl tb).locks)
    ∧ (∀ tb, (s1.tbl tb).n_lock_x_or_s
        = if tb = (s.lock L).table ∧ ((s.lock L).mode = LOCK_S ∨ (s.lock L).mode = LOCK_X)
          then (s.tbl tb).n_lock_x_or_s - 1 else (s.tbl tb).n_lock_x_or_s)
    ∧ (∀ tb, (s1.tbl tb).n_waiting_or_granted_auto_inc_locks
        = if tb = (s.lock L).table ∧ (s.lock L).mode = LOCK_AUTO_INC
          then (s.tbl tb).n_waiting_or_granted_auto_inc_locks - 1
          else (s.tbl tb).n_waiting_or_granted_auto_inc_locks)
    ∧ (∀ tb, (s1.tbl tb).autoinc_lock = (s.tbl tb).autoinc_lock)
    ∧ (∀ t, (s1.trx t).trx_locks
        = if t = (s.lock L).trx then (s.trx t).trx_locks.erase L else (s.trx t).trx_locks)
    ∧ (∀ t, (s1.trx t).wait_lock = (s.trx t).wait_lock)
    ∧ (∀ t, (s1.trx t).table_locks = (s.trx t).table_locks)
    ∧ ((((s.lock L).mode = LOCK_AUTO_INC
          ∧ (s.tbl (s.lock L).table).autoinc_trx = some (s.lock L).trx)
        ∧ ∃ r, lock_table_remove_autoinc_lock L (s.trx (s.lock L).trx).autoinc_locks = some r
          ∧ (∀ t, (s1.trx t).autoinc_locks
              = if t = (s.lock L).trx then r else (s.trx t).autoinc_locks)
          ∧ (∀ tb, (s1.tbl tb).autoinc_trx
              = if tb = (s.lock L).table then none else (s.tbl tb).autoinc_trx))
      ∨ (¬ ((s.lock L).mode = LOCK_AUTO_INC
          ∧ (s.tbl (s.lock L).table).autoinc_trx = some (s.lock L).trx)
        ∧ (∀ t, (s1.trx t).autoinc_locks = (s.trx t).autoinc_locks)
        ∧ (∀ tb, (s1.tbl tb).autoinc_trx = (s.tbl tb).autoinc_trx))) := by
  unfold lock_table_remove_low at h
  simp only [Option.map_eq_some'] at h
  obtain ⟨s0, h0, rfl⟩ := h
  cases hm : (s.lock L).mode <;> rw [show (s.lock L).mode = (s.lock L).type_mode.mode from rfl]
    at hm <;> simp only [lock_t.mode, hm] at h0 ⊢
  case LOCK_AUTO_INC =>
    simp only [Option.map_eq_some'] at h0
    obtain ⟨sa, ha, rfl⟩ := h0
    by_cases hc : (s.tbl (s.lock L).table).autoinc_trx = some (s.lock L).trx
    · rw [if_pos hc] at ha
      simp only [Option.map_eq_some'] at ha
      obtain ⟨v, hv, rfl⟩ := ha
      simp only [lock_sys_t.trx_set_tbl, lock_sys_t.trx_set_trx, if_true] at hv
      refine ⟨rfl, fun _ => rfl, ?_, ?_, ?_, ?_, ?_, ?_, ?_, Or.inl ⟨⟨trivial, hc⟩, v, hv, ?_, ?_⟩⟩
      all_goals
        intro t
        first
        | (by_cases e : t = (s.lock L).table <;> (simp [e]; done))
        | (by_cases e1 : t = (s.lock L).trx <;> (simp [e1]; done))
    · rw [if_neg hc] at ha
      cases ha
      refine ⟨rfl, fun _ => rfl, ?_, ?_, ?_, ?_, ?_, ?_, ?_, Or.inr ⟨by simp [hc], ?_, ?_⟩⟩
      all_goals
        intro t
        first
        | (by_cases e : t = (s.lock L).table <;> (simp [e]; done))
        | (by_cases e1 : t = (s.lock L).trx <;> (simp [e1]; done))
  all_goals
    cases h0
    refine ⟨rfl, fun _ => rfl, ?_, ?_, ?_, ?_, ?_, ?_, ?_, Or.inr ⟨by simp, ?_, ?_⟩⟩
    all_goals
      intro t
      first
      | (by_cases e : t = (s.lock L).table <;> (simp [e]; done))
      | (by_cases e1 : t = (s.lock L).trx <;> (simp [e1]; done))

theorem filter_length_erase (p : Nat → Bool) (l : List Nat) (a : Nat) (ha : a ∈ l) :
    ((l.erase a).filter p).length = (l.filter p).length - (if p a = true then 1 else 0) := by
  induction l with
  | nil => cases ha
  | cons x xs ih =>
    by_cases hx : x = a
    · subst hx
      rw [List.erase_cons_head]
      by_cases hp : p x = true
      · rw [List.filter_cons_of_pos hp, if_pos hp]; simp
      · rw [List.filter_cons_of_neg hp, if_neg hp]; simp
    · have hxa : (x == a) = false := by simpa using hx
      rw [List.erase_cons_tail (by simpa using hx)]
      have ha1 : a ∈ xs := by
        rcases List.mem_cons.mp ha with e | e
        · exact absurd e.symm hx
        · exact e
      have := ih ha1
      by_cases hp : p x = true
      · rw [List.filter_cons_of_pos hp, List.filter_cons_of_pos hp, List.length_cons,
          List.length_cons, this]
        by_cases hpa : p a = true
        · rw [if_pos hpa]
          have : 0 < (xs.filter p).length :=
            List.length_pos_of_mem (List.mem_filter.mpr ⟨ha1, hpa⟩)
          omega
        · rw [if_neg hpa]; omega
      · rw [List.filter_cons_of_neg hp, List.filter_cons_of_neg hp, this]

theorem filter_length_append_one (p : Nat → Bool) (l : List Nat) (a : Nat) :
    ((l ++ [a]).filter p).length = (l.filter p).length + (if p a = true then 1 else 0) := by
  rw [List.filter_append, List.length_append]
  by_cases hp : p a = true
  · rw [List.filter_cons_of_pos hp, if_pos hp]; rfl
  · rw [List.filter_cons_of_neg hp, if_neg hp]; rfl

theorem vector_null_first_some_mem (L : Nat) (v r : List (Option Nat))
    (h : vector_null_first L v = some r) : some L ∈ v := by
  induction v generalizing r with
  | nil => simp [vector_null_first] at h
  | cons a v ih =>
    unfold vector_null_first at h
    split at h
    · rename_i e; rw [e]; exact List.mem_cons_self _ _
    · simp only [Option.map_eq_some'] at h
      obtain ⟨r1, h1, _⟩ := h
      exact List.mem_cons_of_mem _ (ih r1 h1)

theorem count_some_eq (v : List (Option Nat)) (L : Nat) :
    v.count (some L) = v.reduceOption.count L := by
  induction v with
  | nil => rfl
  | cons a v ih =>
    cases a with
    | none =>
      rw [List.reduceOption_cons_of_none, List.count_cons_of_ne (by simp), ih]
    | some x =>
      rw [List.reduceOption_cons_of_some]
      by_cases e : x = L
      · subst e
        rw [List.count_cons_self, List.count_cons_self, ih]
      · have e1 : ¬ L = x := fun h => e h.symm
        rw [List.count_cons_of_ne (by simpa using e1), List.count_cons_of_ne e1, ih]

/-- What `lock_table_remove_autoinc_lock` leaves of a vector without
duplicates, when it returns: the lock is gone, nothing is added and no
duplicate arises. -/
theorem lock_table_remove_autoinc_lock_result (L : Nat) (v r : List (Option Nat))
    (hn : v.reduceOption.Nodup) (h : lock_table_remove_autoinc_lock L v = some r) :
    some L ∈ v ∧ some L ∉ r ∧ (∀ x, some x ∈ r → some x ∈ v) ∧ r.reduceOption.Nodup := by
  have hmem : some L ∈ v ∧ ∃ x, v.getLast? = some (some x) := by
    unfold lock_table_remove_autoinc_lock at h
    split at h
    · cases h
    · rename_i a rest hrev
      have hv : v = rest.reverse ++ [a] := by
        have := congrArg List.reverse hrev
        rw [List.reverse_reverse] at this
        rw [this]; simp
      split at h
      · rename_i e
        rw [hv, e]
        exact ⟨by simp, L, by simp⟩
      · split at h
        · cases h
        · rename_i hne hnn
          simp only [Option.map_eq_some'] at h
          obtain ⟨r1, h1, _⟩ := h
          have := vector_null_first_some_mem L rest r1 h1
          rw [hv]
          refine ⟨by simp [this], ?_⟩
          cases a with
          | none => exact absurd rfl hnn
          | some x => exact ⟨x, by simp⟩
  have hcount : v.count (some L) = 1 := by
    rw [count_some_eq]
    have h1 : 0 < v.reduceOption.count L := by
      rw [List.count_pos_iff]
      exact List.reduceOption_mem_iff.mpr hmem.1
    have h2 := List.nodup_iff_count_le_one.mp hn L
    omega
  obtain ⟨r1, e1, e2, _, e4, _⟩ := lock_table_remove_autoinc_lock_vector L v hmem.2 hcount
  rw [h] at e1
  cases e1
  refine ⟨hmem.1, e2, fun x hx => lock_table_remove_autoinc_lock_mem L v r x h hx, ?_⟩
  rw [e4]
  exact hn.filter _

/-- The counters stay in agreement with the lists when a lock object that
is in no list is initialised and appended to the list of a table and the
counter of its mode is incremented. -/
theorem table_counters_append (s s1 : lock_sys_t) (N table : Nat) (Lnew : lock_t)
    (hc : table_counters s) (hN : ∀ tb, N ∉ (s.tbl tb).locks)
    (c1 : ∀ j, s1.lock j = if j = N then Lnew else s.lock j)
    (c2 : ∀ tb, (s1.tbl tb).locks
      = if tb = table then (s.tbl tb).locks ++ [N] else (s.tbl tb).locks)
    (c3 : ∀ tb, (s1.tbl tb).n_lock_x_or_s
      = if tb = table ∧ (Lnew.mode = LOCK_S ∨ Lnew.mode = LOCK_X)
        then (s.tbl tb).n_lock_x_or_s + 1 else (s.tbl tb).n_lock_x_or_s)
    (c3a : ∀ tb, (s1.tbl tb).n_waiting_or_granted_auto_inc_locks
      = if tb = table ∧ Lnew.mode = LOCK_AUTO_INC
        then (s.tbl tb).n_waiting_or_granted_auto_inc_locks + 1
        else (s.tbl tb).n_waiting_or_granted_auto_inc_locks) :
    table_counters s1 := by
  have hold : ∀ tb g, g ∈ (s.tbl tb).locks → s1.lock g = s.lock g := by
    intro tb g hg
    have hne : g ≠ N := by
      intro e; rw [e] at hg; exact hN tb hg
    rw [c1, if_neg hne]
  have hnew : s1.lock N = Lnew := by rw [c1, if_pos rfl]
  intro tb
  obtain ⟨k1, k2⟩ := hc tb
  unfold table_x_or_s_count at k1
  unfold table_auto_inc_count at k2
  unfold table_x_or_s_count table_auto_inc_count
  rw [c2, c3, c3a]
  by_cases e : tb = table
  · subst e
    rw [if_pos rfl, filter_length_append_one, filter_length_append_one, hnew]
    have f1 : (List.filter (fun i => decide ((s1.lock i).mode = LOCK_S
          ∨ (s1.lock i).mode = LOCK_X)) (s.tbl tb).locks)
        = List.filter (fun i => decide ((s.lock i).mode = LOCK_S
          ∨ (s.lock i).mode = LOCK_X)) (s.tbl tb).locks := by
      apply List.filter_congr
      intro x hx; rw [hold tb x hx]
    have f2 : (List.filter (fun i => decide ((s1.lock i).mode = LOCK_AUTO_INC))
          (s.tbl tb).locks)
        = List.filter (fun i => decide ((s.lock i).mode = LOCK_AUTO_INC))
          (s.tbl tb).locks := by
      apply List.filter_congr
      intro x hx; rw [hold tb x hx]
    rw [f1, f2, ← k1, ← k2]
    constructor
    · by_cases hm : Lnew.mode = LOCK_S ∨ Lnew.mode = LOCK_X
      · rw [if_pos ⟨rfl, hm⟩, if_pos (by simpa using hm)]
      · rw [if_neg (fun h => hm h.2), if_neg (by simpa using hm)]; rfl
    · by_cases hm : Lnew.mode = LOCK_AUTO_INC
      · rw [if_pos ⟨rfl, hm⟩, if_pos (by simpa using hm)]
      · rw [if_neg (fun h => hm h.2), if_neg (by simpa using hm)]; rfl
  · rw [if_neg e, if_neg (fun h => e h.1), if_neg (fun h => e h.1)]
    have f1 : (List.filter (fun i => decide ((s1.lock i).mode = LOCK_S
          ∨ (s1.lock i).mode = LOCK_X)) (s.tbl tb).locks)
        = List.filter (fun i => decide ((s.lock i).mode = LOCK_S
          ∨ (s.lock i).mode = LOCK_X)) (s.tbl tb).locks := by
      apply List.filter_congr
      intro x hx; rw [hold tb x hx]
    have f2 : (List.filter (fun i => decide ((s1.lock i).mode = LOCK_AUTO_INC))
          (s.tbl tb).locks)
        = List.filter (fun i => decide ((s.lock i).mode = LOCK_AUTO_INC))
          (s.tbl tb).locks := by
      apply List.filter_congr
      intro x hx; rw [hold tb x hx]
    rw [f1, f2]
    exact ⟨k1, k2⟩

theorem table_counters_erase (s s1 : lock_sys_t) (L : Nat) (hc : table_counters s)
    (hL : L ∈ (s.tbl (s.lock L).table).locks)
    (e2 : ∀ g, s1.lock g = s.lock g)
    (e3 : ∀ tb, (s1.tbl tb).locks
        = if tb = (s.lock L).table then (s.tbl tb).locks.erase L else (s.tbl tb).locks)
    (e4 : ∀ tb, (s1.tbl tb).n_lock_x_or_s
        = if tb = (s.lock L).table ∧ ((s.lock L).mode = LOCK_S ∨ (s.lock L).mode = LOCK_X)
          then (s.tbl tb).n_lock_x_or_s - 1 else (s.tbl tb).n_lock_x_or_s)
    (e5 : ∀ tb, (s1.tbl tb).n_waiting_or_granted_auto_inc_locks
        = if tb = (s.lock L).table ∧ (s.lock L).mode = LOCK_AUTO_INC
          then (s.tbl tb).n_waiting_or_granted_auto_inc_locks - 1
          else (s.tbl tb).n_waiting_or_granted_auto_inc_locks) :
    table_counters s1 := by
  intro tb
  obtain ⟨c1, c2⟩ := hc tb
  unfold table_x_or_s_count at c1
  unfold table_auto_inc_count at c2
  unfold table_x_or_s_count table_auto_inc_count
  simp only [e2]
  rw [e3, e4, e5]
  by_cases e : tb = (s.lock L).table
  · subst e
    rw [if_pos rfl, filter_length_erase _ _ _ hL, filter_length_erase _ _ _ hL, c1, c2]
    constructor
    · by_cases hm : (s.lock L).mode = LOCK_S ∨ (s.lock L).mode = LOCK_X
      · rw [if_pos ⟨rfl, hm⟩, if_pos (by simpa using hm)]
      · rw [if_neg (fun h => hm h.2), if_neg (by simpa using hm)]; rfl
    · by_cases hm : (s.lock L).mode = LOCK_AUTO_INC
      · rw [if_pos ⟨rfl, hm⟩, if_pos (by simpa using hm)]
      · rw [if_neg (fun h => hm h.2), if_neg (by simpa using hm)]; rfl
  · rw [if_neg e, if_neg (fun h => e h.1), if_neg (fun h => e h.1)]
    exact ⟨c1, c2⟩

/-- `lock_table_remove_low` for a lock in the list of its table keeps the
invariant of the table queues, except that the `wait_lock` of the owner of
the lock still points to the removed lock if it did so before; the other
locks stay in their lists. -/
theorem table_inv_remove_low (n0 : Nat) (X : Nat → Prop) (s s1 : lock_sys_t) (L : Nat)
    (hi : table_inv n0 X s) (hL : L ∈ (s.tbl (s.lock L).table).locks)
    (h : lock_table_remove_low s L = some s1) :
    table_inv n0 (fun t => X t ∨ (t = (s.lock L).trx ∧ (s.trx t).wait_lock = some L)) s1
    ∧ (∀ tb g, g ∈ (s.tbl tb).locks → g ≠ L → g ∈ (s1.tbl tb).locks)
    ∧ (∀ tb, L ∉ (s1.tbl tb).locks)
    ∧ (∀ tb, (s1.tbl tb).locks.Sublist (s.tbl tb).locks)
    ∧ (∀ g, s1.lock g = s.lock g)
    ∧ (∀ t, (s1.trx t).wait_lock = (s.trx t).wait_lock)
    ∧ (∀ t x, some x ∈ (s1.trx t).autoinc_locks →
        some x ∈ (s.trx t).autoinc_locks ∧ x ≠ L)
    ∧ (∀ t, L ∉ (s1.trx t).trx_locks)
    ∧ (∀ t g, g ∈ (s.trx t).trx_locks → g ≠ L → g ∈ (s1.trx t).trx_locks)
    ∧ (∀ t, (s1.trx t).table_locks = (s.trx t).table_locks) := by
  obtain ⟨e1, e2, e3, e4, e5, e6, e7, e8, e9, e10⟩ := lock_table_remove_low_effect s s1 L h
  have hLt := (hi.tbl_ok _ L hL)
  have hsub : ∀ tb, (s1.tbl tb).locks.Sublist (s.tbl tb).locks := by
    intro tb
    rw [e3]
    split
    · exact List.erase_sublist _ _
    · exact List.Sublist.refl _
  have hkeep : ∀ tb g, g ∈ (s.tbl tb).locks → g ≠ L → g ∈ (s1.tbl tb).locks := by
    intro tb g hg hne
    rw [e3]
    split
    · exact (List.mem_erase_of_ne hne).mpr hg
    · exact hg
  have hgone : ∀ tb, L ∉ (s1.tbl tb).locks := by
    intro tb hm
    rw [e3] at hm
    split at hm
    · rename_i e
      exact ((List.Nodup.mem_erase_iff (hi.nodup_tbl tb)).mp hm).1 rfl
    · rename_i e
      exact e (hi.tbl_ok tb L hm).2.1.symm
  have hne_of : ∀ tb g, g ∈ (s1.tbl tb).locks → g ≠ L ∧ g ∈ (s.tbl tb).locks := by
    intro tb g hg
    exact ⟨fun e => hgone tb (e ▸ hg), (hsub tb).subset hg⟩
  have htsub : ∀ t, (s1.trx t).trx_locks.Sublist (s.trx t).trx_locks := by
    intro t
    rw [e7]
    split
    · exact List.erase_sublist _ _
    · exact List.Sublist.refl _
  have htgone : ∀ t, L ∉ (s1.trx t).trx_locks := by
    intro t hm
    rw [e7] at hm
    split at hm
    · exact ((List.Nodup.mem_erase_iff (hi.nodup_trx t)).mp hm).1 rfl
    · rename_i e
      exact e (hi.trx_ok t L hm).1.symm
  have htkeep : ∀ t g, g ∈ (s.trx t).trx_locks → g ≠ L → g ∈ (s1.trx t).trx_locks := by
    intro t g hg hne
    rw [e7]
    split
    · exact (List.mem_erase_of_ne hne).mpr hg
    · exact hg
  -- the vectors
  have hvec : (∀ t x, some x ∈ (s1.trx t).autoinc_locks →
        some x ∈ (s.trx t).autoinc_locks ∧ x ≠ L
          ∧ (s1.tbl (s.lock x).table).autoinc_trx = (s.tbl (s.lock x).table).autoinc_trx)
      ∧ ∀ t, (s1.trx t).autoinc_locks.reduceOption.Nodup := by
    rcases e10 with ⟨⟨hm, hc⟩, r, hr, ev, et⟩ | ⟨hnc, ev, et⟩
    · obtain ⟨r1, r2, r3, r4⟩ := lock_table_remove_autoinc_lock_result L _ r
        (hi.vec_nodup _) hr
      constructor
      · intro t x hx
        rw [ev] at hx
        have hxo : some x ∈ (s.trx t).autoinc_locks := by
          split at hx
          · rename_i e; rw [e]; exact r3 x hx
          · exact hx
        have hxL : x ≠ L := by
          intro e
          subst e
          split at hx
          · exact r2 hx
          · rename_i e
            exact e ((hi.trx_ok t x (hi.vec_ok t x hxo).1).1).symm
        refine ⟨hxo, hxL, ?_⟩
        rw [et]
        split
        · rename_i e
          exfalso
          obtain ⟨v1, v2, v3, v4⟩ := hi.vec_ok t x hxo
          obtain ⟨w1, w2⟩ := hi.trx_ok t x v1
          rw [e] at v4 w2
          rw [hc] at v4
          have ht : (s.lock L).trx = t := Option.some.inj v4
          exact hxL (hi.auto_own _ x w2 L hL v2 hm (by rw [w1, ht]))
        · rfl
      · intro t
        rw [ev]
        split
        · exact r4
        · exact hi.vec_nodup t
    · constructor
      · intro t x hx
        rw [ev] at hx
        refine ⟨hx, ?_, by rw [et]⟩
        intro e
        subst e
        obtain ⟨v1, v2, v3, v4⟩ := hi.vec_ok t x hx
        have := (hi.trx_ok t x v1).1
        rw [← this] at v4
        exact hnc ⟨v2, v4⟩
      · intro t; rw [ev]; exact hi.vec_nodup t
  refine ⟨⟨?_, ?_, ?_, ?_, ?_, ?_, ?_, ?_, ?_, ?_, ?_, ?_, ?_⟩, hkeep, hgone, hsub, e2, e8,
    fun t x hx => ⟨(hvec.1 t x hx).1, (hvec.1 t x hx).2.1⟩, htgone, htkeep, e9⟩
  · exact table_counters_erase s s1 L hi.counters hL e2 e3 e4 e5
  · rw [e1]; exact hi.base
  · intro tb tb1
    rw [e6, e6]
    exact hi.pre tb tb1
  · intro tb
    exact (hsub tb).nodup (hi.nodup_tbl tb)
  · intro tb g hg
    rw [e2, e1, e6]
    exact hi.tbl_ok tb g (hsub tb |>.subset hg)
  · intro tb g hg
    obtain ⟨hne, hgo⟩ := hne_of tb g hg
    rw [e2, e9]
    exact ⟨htkeep _ g (hi.listed tb g hgo).1 hne, (hi.listed tb g hgo).2⟩
  · intro t
    exact (htsub t).nodup (hi.nodup_trx t)
  · intro t g hg
    rw [e2]
    have hgo := (htsub t).subset hg
    obtain ⟨a, b⟩ := hi.trx_ok t g hgo
    exact ⟨a, hkeep _ g b (fun e => htgone t (e ▸ hg))⟩
  · intro t w hX hw
    rw [e8] at hw
    have hX1 : ¬ X t := fun hx => hX (Or.inl hx)
    obtain ⟨a, b⟩ := hi.wait t w hX1 hw
    rw [e2]
    refine ⟨htkeep t w a ?_, b⟩
    intro e
    subst e
    exact hX (Or.inr ⟨(hi.trx_ok t w a).1.symm, hw⟩)
  · intro t g hg
    obtain ⟨a, b, c⟩ := hvec.1 t g hg
    obtain ⟨v1, v2, v3, v4⟩ := hi.vec_ok t g a
    rw [e2]
    exact ⟨htkeep t g v1 b, v2, v3, c.trans v4⟩
  · exact hvec.2
  · intro tb A hA B hB
    rw [e2, e2]
    exact hi.auto_own tb A ((hsub tb).subset hA) B ((hsub tb).subset hB)
  · intro tb A hA B hB m1 m2 ht hw
    rw [e2] at m1 ht ⊢
    rw [e2] at m2 ht hw
    obtain ⟨a, b⟩ := hi.auto_excl tb A ((hsub tb).subset hA) B ((hsub tb).subset hB) m1 m2 ht hw
    refine ⟨a, ?_⟩
    rw [e3]
    split
    · have hA1 := (hne_of tb A hA).1
      have hB1 := (hne_of tb B hB).1
      have : List.Sublist ([B, A].erase L) ((s.tbl tb).locks.erase L) := b.erase L
      rw [List.erase_cons_tail (by simpa using hB1),
        List.erase_cons_tail (by simpa using hA1)] at this
      exact this
    · exact b

theorem wait_end_if_tbl (c : Prop) [Decidable c] (s2 : lock_sys_t) (t tb : Nat) :
    (if c then lock_wait_end s2 t else s2).tbl tb = s2.tbl tb := by
  split
  · exact lock_wait_end_tbl s2 t tb
  · rfl

theorem wait_end_if_autoinc_locks (c : Prop) [Decidable c] (s2 : lock_sys_t) (t u : Nat) :
    ((if c then lock_wait_end s2 t else s2).trx u).autoinc_locks = (s2.trx u).autoinc_locks := by
  split
  · exact lock_wait_end_autoinc_locks s2 t u
  · rfl

/-- The effect of `lock_grant` on everything the invariant of the table
queues reads. -/
theorem lock_grant_effect (s : lock_sys_t) (g : Nat) :
    (lock_grant s g).n_locks = s.n_locks
    ∧ (∀ j, (lock_grant s g).lock j = if j = g then (s.lock g).clear_wait else s.lock j)
    ∧ (∀ tb, ((lock_grant s g).tbl tb).locks = (s.tbl tb).locks)
    ∧ (∀ tb, ((lock_grant s g).tbl tb).n_lock_x_or_s = (s.tbl tb).n_lock_x_or_s)
    ∧ (∀ tb, ((lock_grant s g).tbl tb).n_waiting_or_granted_auto_inc_locks
        = (s.tbl tb).n_waiting_or_granted_auto_inc_locks)
    ∧ (∀ tb, ((lock_grant s g).tbl tb).autoinc_lock = (s.tbl tb).autoinc_lock)
    ∧ (∀ tb, ((lock_grant s g).tbl tb).autoinc_trx
        = if (s.lock g).mode = LOCK_AUTO_INC ∧ tb = (s.lock g).table
          then some (s.lock g).trx else (s.tbl tb).autoinc_trx)
    ∧ (∀ t, ((lock_grant s g).trx t).trx_locks = (s.trx t).trx_locks)
    ∧ (∀ t, ((lock_grant s g).trx t).table_locks = (s.trx t).table_locks)
    ∧ (∀ t, ((lock_grant s g).trx t).wait_lock
        = if t = (s.lock g).trx then none else (s.trx t).wait_lock)
    ∧ (∀ t, ((lock_grant s g).trx t).autoinc_locks
        = if (s.lock g).mode = LOCK_AUTO_INC ∧ t = (s.lock g).trx
          then (s.trx t).autoinc_locks ++ [some g] else (s.trx t).autoinc_locks) := by
  refine ⟨lock_grant_n_locks s g, lock_grant_lock s g, fun tb => (lock_grant_tbl s g tb).1,
    fun tb => (lock_grant_tbl s g tb).2.1, ?_, ?_, ?_, lock_grant_trx_locks s g,
    lock_grant_table_locks s g, lock_grant_wait_lock s g, ?_⟩
  · intro t
    unfold lock_grant
    simp only [wait_end_if_tbl]
    unfold lock_reset_lock_and_trx_wait
    simp only [lock_t.mode, lock_sys_t.lock_set_lock, lock_sys_t.lock_set_trx, if_true]
    by_cases hm : (s.lock g).type_mode.mode = LOCK_AUTO_INC
    · by_cases e : t = (s.lock g).table <;> simp [hm, e]
    · simp [hm]
  · intro t
    unfold lock_grant
    simp only [wait_end_if_tbl]
    unfold lock_reset_lock_and_trx_wait
    simp only [lock_t.mode, lock_sys_t.lock_set_lock, lock_sys_t.lock_set_trx, if_true]
    by_cases hm : (s.lock g).type_mode.mode = LOCK_AUTO_INC
    · by_cases e : t = (s.lock g).table <;> simp [hm, e]
    · simp [hm]
  · intro t
    unfold lock_grant
    simp only [wait_end_if_tbl]
    unfold lock_reset_lock_and_trx_wait
    simp only [lock_t.mode, lock_sys_t.lock_set_lock, lock_sys_t.lock_set_trx, if_true]
    by_cases hm : (s.lock g).type_mode.mode = LOCK_AUTO_INC
    · by_cases e : t = (s.lock g).table <;> simp [hm, e]
    · simp [hm]
  · intro t
    unfold lock_grant
    simp only [wait_end_if_autoinc_locks]
    unfold lock_reset_lock_and_trx_wait
    simp only [lock_t.mode, lock_sys_t.lock_set_lock, lock_sys_t.lock_set_trx, if_true]
    by_cases hm : (s.lock g).type_mode.mode = LOCK_AUTO_INC
    · by_cases e : t = (s.lock g).trx <;> simp [hm, e]
    · by_cases e : t = (s.lock g).trx <;> simp [hm, e]

theorem clear_wait_fields (l : lock_t) :
    l.clear_wait.mode = l.mode ∧ l.clear_wait.trx = l.trx ∧ l.clear_wait.table = l.table
    ∧ l.clear_wait.is_table = l.is_table ∧ l.clear_wait.is_waiting = false :=
  ⟨rfl, rfl, rfl, rfl, rfl⟩

theorem table_counters_of_modes (s s1 : lock_sys_t) (hc : table_counters s)
    (hm : ∀ g, (s1.lock g).mode = (s.lock g).mode)
    (e3 : ∀ tb, (s1.tbl tb).locks = (s.tbl tb).locks)
    (e4 : ∀ tb, (s1.tbl tb).n_lock_x_or_s = (s.tbl tb).n_lock_x_or_s)
    (e5 : ∀ tb, (s1.tbl tb).n_waiting_or_granted_auto_inc_locks
        = (s.tbl tb).n_waiting_or_granted_auto_inc_locks) : table_counters s1 := by
  intro tb
  have := hc tb
  unfold table_x_or_s_count table_auto_inc_count at this
  unfold table_x_or_s_count table_auto_inc_count
  simp only [hm, e3, e4, e5]
  exact this

/-- A waiting `AUTO_INC` table lock without a conflicting lock ahead of it
in the list of its table: every `AUTO_INC` lock of another transaction in
the list is waiting behind it. -/
theorem auto_inc_grant_clear (E : Env) (n0 : Nat) (X : Nat → Prop) (s : lock_sys_t) (w : Nat)
    (hi : table_inv n0 X s) (hw : w ∈ (s.tbl (s.lock w).table).locks)
    (hwait : (s.lock w).is_waiting = true) (hm : (s.lock w).mode = LOCK_AUTO_INC)
    (hq : lock_table_has_to_wait_in_queue E s w = false) :
    ∀ A ∈ (s.tbl (s.lock w).table).locks, (s.lock A).mode = LOCK_AUTO_INC →
      (s.lock A).trx ≠ (s.lock w).trx →
      (s.lock A).is_waiting = true ∧ List.Sublist [w, A] (s.tbl (s.lock w).table).locks := by
  have hahead : ∀ i ∈ ((s.tbl (s.lock w).table).locks.takeWhile (fun i => i != w)),
      (s.lock i).mode = LOCK_AUTO_INC → (s.lock i).trx = (s.lock w).trx := by
    intro i hi1 hmi
    unfold lock_table_has_to_wait_in_queue at hq
    simp only [] at hq
    have hfast : (decide ((s.lock w).mode.toNat ≤ LOCK_IX.toNat)
        && (s.tbl (s.lock w).table).n_lock_x_or_s == 0) = false := by
      rw [hm]; rfl
    rw [hfast] at hq
    simp only [Bool.false_eq_true, if_false, List.any_eq_false] at hq
    have h1 := hq i hi1
    by_contra hne
    apply h1
    unfold lock_has_to_wait
    have ht : (s.lock w).is_table = true := (hi.tbl_ok _ w hw).1
    have hne1 : ¬ (s.lock w).trx = (s.lock i).trx := fun e => hne e.symm
    simp [hne1, hm, hmi, lock_mode_compatible, ht]
  intro A hA hmA htA
  have hne : A ≠ w := fun e => htA (by rw [e])
  have hnotahead : ¬ List.Sublist [A, w] (s.tbl (s.lock w).table).locks := by
    intro hsub
    exact htA (hahead A (mem_takeWhile_of_pair _ _ _ (hi.nodup_tbl _) hsub) hmA)
  have hbehind : List.Sublist [w, A] (s.tbl (s.lock w).table).locks := by
    rcases pair_total _ A w hA hw hne with h | h
    · exact absurd h hnotahead
    · exact h
  refine ⟨?_, hbehind⟩
  cases hwA : (s.lock A).is_waiting
  · exfalso
    obtain ⟨_, h2⟩ := hi.auto_excl _ w hw A hA hm hmA (fun e => htA e.symm) hwA
    exact hnotahead h2
  · rfl

/-- `lock_grant` of a waiting lock of a table list that has no conflicting
lock ahead of it keeps the invariant of the table queues. -/
theorem table_inv_grant (E : Env) (n0 : Nat) (X : Nat → Prop) (s : lock_sys_t) (w : Nat)
    (hi : table_inv n0 X s) (hw : w ∈ (s.tbl (s.lock w).table).locks)
    (hwait : (s.lock w).is_waiting = true)
    (hq : lock_table_has_to_wait_in_queue E s w = false) :
    table_inv n0 X (lock_grant s w) := by
  obtain ⟨e1, e2, e3, e4, e5, e6, e7, e8, e9, e10, e11⟩ := lock_grant_effect s w
  have hmode : ∀ j, ((lock_grant s w).lock j).mode = (s.lock j).mode := by
    intro j; rw [e2]; split
    · rename_i e; rw [e]; rfl
    · rfl
  have htrx : ∀ j, ((lock_grant s w).lock j).trx = (s.lock j).trx := by
    intro j; rw [e2]; split
    · rename_i e; rw [e]; rfl
    · rfl
  have htab : ∀ j, ((lock_grant s w).lock j).table = (s.lock j).table := by
    intro j; rw [e2]; split
    · rename_i e; rw [e]; rfl
    · rfl
  have hist : ∀ j, ((lock_grant s w).lock j).is_table = (s.lock j).is_table := by
    intro j; rw [e2]; split
    · rename_i e; rw [e]; rfl
    · rfl
  have hwt : ∀ j, ((lock_grant s w).lock j).is_waiting
      = if j = w then false else (s.lock j).is_waiting := by
    intro j; rw [e2]; split
    · rfl
    · rfl
  have hclear := fun hm => auto_inc_grant_clear E n0 X s w hi hw hwait hm hq
  have hnotin : ∀ t, some w ∉ (s.trx t).autoinc_locks := by
    intro t hm
    have := (hi.vec_ok t w hm).2.2.1
    rw [hwait] at this; cases this
  refine ⟨?_, ?_, ?_, ?_, ?_, ?_, ?_, ?_, ?_, ?_, ?_, ?_, ?_⟩
  · exact table_counters_of_modes s _ hi.counters hmode e3 e4 e5
  · rw [e1]; exact hi.base
  · intro tb tb1
    rw [e6, e6]
    exact hi.pre tb tb1
  · intro tb; rw [e3]; exact hi.nodup_tbl tb
  · intro tb g hg
    rw [e3] at hg
    rw [hist, htab, hmode, e1, e6]
    exact hi.tbl_ok tb g hg
  · intro tb g hg
    rw [e3] at hg
    rw [htrx, e8, e9]
    exact hi.listed tb g hg
  · intro t; rw [e8]; exact hi.nodup_trx t
  · intro t g hg
    rw [e8] at hg
    rw [htrx, htab, e3]
    exact hi.trx_ok t g hg
  · intro t w1 hX hw1
    rw [e10] at hw1
    split at hw1
    · cases hw1
    · rename_i hne
      obtain ⟨a, b⟩ := hi.wait t w1 hX hw1
      rw [e8, hwt]
      refine ⟨a, ?_⟩
      rw [if_neg]
      · exact b
      · intro e
        rw [e] at a
        exact hne (hi.trx_ok t w a).1.symm
  · intro t g hg
    rw [e11] at hg
    rw [e8, hmode, hwt, htab, e7]
    by_cases hc : (s.lock w).mode = LOCK_AUTO_INC ∧ t = (s.lock w).trx
    · rw [if_pos hc] at hg
      rcases List.mem_append.mp hg with h1 | h1
      · obtain ⟨v1, v2, v3, v4⟩ := hi.vec_ok t g h1
        have hgw : g ≠ w := fun e => hnotin t (e ▸ h1)
        refine ⟨v1, v2, by rw [if_neg hgw]; exact v3, ?_⟩
        split
        · rw [hc.2]
        · exact v4
      · simp only [List.mem_singleton, Option.some.injEq] at h1
        subst h1
        refine ⟨?_, hc.1, by rw [if_pos rfl], ?_⟩
        · rw [hc.2]; exact (hi.listed _ g hw).1
        · rw [if_pos ⟨hc.1, rfl⟩, hc.2]
    · rw [if_neg hc] at hg
      obtain ⟨v1, v2, v3, v4⟩ := hi.vec_ok t g hg
      have hgw : g ≠ w := fun e => hnotin t (e ▸ hg)
      refine ⟨v1, v2, by rw [if_neg hgw]; exact v3, ?_⟩
      split
      · rename_i hc2
        exfalso
        obtain ⟨w1, w2⟩ := hi.trx_ok t g v1
        rw [hc2.2] at w2
        have hne : (s.lock g).trx ≠ (s.lock w).trx := by
          rw [w1]
          exact fun e => hc ⟨hc2.1, e⟩
        have := (hclear hc2.1 g w2 v2 hne).1
        rw [v3] at this; cases this
      · exact v4
  · intro t
    rw [e11]
    split
    · rw [List.reduceOption_append]
      have : [some w].reduceOption = [w] := rfl
      rw [this]
      refine List.Nodup.append (hi.vec_nodup t) (List.nodup_singleton _) ?_
      intro x hx hx1
      rw [List.mem_singleton] at hx1
      subst hx1
      exact hnotin t (List.reduceOption_mem_iff.mp hx)
    · exact hi.vec_nodup t
  · intro tb A hA B hB
    rw [e3] at hA hB
    rw [hmode, hmode, htrx, htrx]
    exact hi.auto_own tb A hA B hB
  · intro tb A hA B hB m1 m2 ht hwB
    rw [e3] at hA hB ⊢
    rw [hmode] at m1 m2
    rw [htrx, htrx] at ht
    rw [hwt] at hwB ⊢
    have tA := (hi.tbl_ok tb A hA).2.1
    have tB := (hi.tbl_ok tb B hB).2.1
    by_cases eB : B = w
    · subst eB
      have hAB : A ≠ B := fun e => ht (by rw [e])
      rw [if_neg hAB]
      have := hclear m2 A (by rw [tB]; exact hA) m1 ht
      rw [tB] at this
      exact this
    · rw [if_neg eB] at hwB
      by_cases eA : A = w
      · subst eA
        exfalso
        have := (hclear m1 B (by rw [tA]; exact hB) m2 (fun e => ht e.symm)).1
        rw [hwB] at this; cases this
      · rw [if_neg eA]
        exact hi.auto_excl tb A hA B hB m1 m2 ht hwB

/-- What the grant loop of `lock_table_dequeue` over the locks `l` changes:
lock objects lose at most their `WAIT` flag, and only those of `l`; the
lists, lock lists and `table_locks` vectors stay; a `wait_lock` is kept or
reset; an entry that joins an `autoinc_locks` vector is a waiting `AUTO_INC`
lock of `l` owned by the transaction. -/
structure grant_track (l : List Nat) (s s1 : lock_sys_t) : Prop where
  core : ∀ j, (s1.lock j).clear_wait = (s.lock j).clear_wait
  other : ∀ j, j ∉ l → s1.lock j = s.lock j
  granted : ∀ j, (s.lock j).is_waiting = false → (s1.lock j).is_waiting = false
  locks : ∀ tb, (s1.tbl tb).locks = (s.tbl tb).locks
  trx_locks : ∀ t, (s1.trx t).trx_locks = (s.trx t).trx_locks
  wait_lock : ∀ t, (s1.trx t).wait_lock = (s.trx t).wait_lock ∨ (s1.trx t).wait_lock = none
  autoinc_locks : ∀ t x, some x ∈ (s1.trx t).autoinc_locks →
    some x ∈ (s.trx t).autoinc_locks
      ∨ (x ∈ l ∧ (s.lock x).trx = t ∧ (s.lock x).mode = LOCK_AUTO_INC
          ∧ (s.lock x).is_waiting = true)

theorem grant_track_refl (l : List Nat) (s : lock_sys_t) : grant_track l s s :=
  ⟨fun _ => rfl, fun _ _ => rfl, fun _ h => h, fun _ => rfl, fun _ => rfl, fun _ => Or.inl rfl,
    fun _ _ h => Or.inl h⟩

theorem core_fields {l1 l2 : lock_t} (h : l1.clear_wait = l2.clear_wait) :
    l1.mode = l2.mode ∧ l1.trx = l2.trx ∧ l1.table = l2.table ∧ l1.is_table = l2.is_table := by
  have a := congrArg lock_t.mode h
  have b := congrArg lock_t.trx h
  have c := congrArg lock_t.table h
  have d := congrArg lock_t.is_table h
  exact ⟨a, b, c, d⟩

theorem grant_track_trans {l1 l2 : List Nat} {s s1 s2 : lock_sys_t}
    (h1 : grant_track l1 s s1) (h2 : grant_track l2 s1 s2) :
    grant_track (l1 ++ l2) s s2 := by
  refine ⟨fun j => (h2.core j).trans (h1.core j), ?_, fun j h => h2.granted j (h1.granted j h),
    fun tb => (h2.locks tb).trans (h1.locks tb),
    fun t => (h2.trx_locks t).trans (h1.trx_locks t), ?_, ?_⟩
  · intro j hj
    rw [List.mem_append, not_or] at hj
    rw [h2.other j hj.2, h1.other j hj.1]
  · intro t
    rcases h2.wait_lock t with a | a
    · rw [a]; exact h1.wait_lock t
    · exact Or.inr a
  · intro t x hx
    rcases h2.autoinc_locks t x hx with a | ⟨a1, a2, a3, a4⟩
    · rcases h1.autoinc_locks t x a with b | ⟨b1, b2, b3, b4⟩
      · exact Or.inl b
      · exact Or.inr ⟨List.mem_append_left _ b1, b2, b3, b4⟩
    · obtain ⟨c1, c2, _, _⟩ := core_fields (h1.core x)
      right
      refine ⟨List.mem_append_right _ a1, c2 ▸ a2, c1 ▸ a3, ?_⟩
      cases hw : (s.lock x).is_waiting
      · have := h1.granted x hw
        rw [a4] at this; cases this
      · rfl

theorem grant_track_grant (s : lock_sys_t) (w : Nat) (hw : (s.lock w).is_waiting = true) :
    grant_track [w] s (lock_grant s w) := by
  obtain ⟨e1, e2, e3, e4, e5, e6, e7, e8, e9, e10, e11⟩ := lock_grant_effect s w
  refine ⟨?_, ?_, ?_, e3, e8, ?_, ?_⟩
  · intro j; rw [e2]; split
    · rename_i e; rw [e]; rfl
    · rfl
  · intro j hj
    rw [e2, if_neg (by simpa using hj)]
  · intro j hj
    rw [e2]; split
    · rfl
    · exact hj
  · intro t
    rw [e10]; split
    · exact Or.inr rfl
    · exact Or.inl rfl
  · intro t x hx
    rw [e11] at hx
    split at hx
    · rename_i hc
      rcases List.mem_append.mp hx with h | h
      · exact Or.inl h
      · simp only [List.mem_singleton, Option.some.injEq] at h
        subst h
        exact Or.inr ⟨List.mem_singleton.mpr rfl, hc.2.symm, hc.1, hw⟩
    · exact Or.inl hx

theorem table_inv_grant_step (E : Env) (n0 : Nat) (X : Nat → Prop) (s : lock_sys_t) (w : Nat)
    (hi : table_inv n0 X s) (hw : w ∈ (s.tbl (s.lock w).table).locks) :
    table_inv n0 X (lock_table_grant_step E s w)
      ∧ grant_track [w] s (lock_table_grant_step E s w) := by
  unfold lock_table_grant_step
  split
  · rename_i hc
    simp only [Bool.and_eq_true, Bool.not_eq_true'] at hc
    exact ⟨table_inv_grant E n0 X s w hi hw hc.1 hc.2, grant_track_grant s w hc.1⟩
  · exact ⟨hi, grant_track_refl _ s⟩

theorem table_inv_foldl_grant (E : Env) (n0 : Nat) (X : Nat → Prop) (l : List Nat)
    (s : lock_sys_t) (hi : table_inv n0 X s)
    (hl : ∀ w ∈ l, w ∈ (s.tbl (s.lock w).table).locks) :
    table_inv n0 X (l.foldl (lock_table_grant_step E) s)
      ∧ grant_track l s (l.foldl (lock_table_grant_step E) s) := by
  induction l generalizing s with
  | nil => exact ⟨hi, grant_track_refl _ s⟩
  | cons x xs ih =>
    obtain ⟨i1, f1⟩ := table_inv_grant_step E n0 X s x hi (hl x (List.mem_cons_self _ _))
    have hl1 : ∀ w ∈ xs, w ∈ ((lock_table_grant_step E s x).tbl
        ((lock_table_grant_step E s x).lock w).table).locks := by
      intro w hw
      rw [f1.locks, (core_fields (f1.core w)).2.2.1]
      exact hl w (List.mem_cons_of_mem _ hw)
    obtain ⟨i2, f2⟩ := ih _ i1 hl1
    exact ⟨i2, grant_track_trans f1 f2⟩

/-- What `lock_table_dequeue` of the lock `L` changes: lock objects lose at
most their `WAIT` flag and `L` itself is unchanged; `L` leaves the lists,
the other locks stay in them; a `wait_lock` is kept or reset; an entry of
an `autoinc_locks` vector afterwards is not `L` and was an entry before or
is an `AUTO_INC` lock of the list of the table of `L` that was waiting. -/
structure dequeue_track (L : Nat) (s s1 : lock_sys_t) : Prop where
  core : ∀ j, (s1.lock j).clear_wait = (s.lock j).clear_wait
  self : s1.lock L = s.lock L
  granted : ∀ j, (s.lock j).is_waiting = false → (s1.lock j).is_waiting = false
  keep : ∀ tb g, g ∈ (s.tbl tb).locks → g ≠ L → g ∈ (s1.tbl tb).locks
  gone : ∀ tb, L ∉ (s1.tbl tb).locks
  sub : ∀ tb, (s1.tbl tb).locks.Sublist (s.tbl tb).locks
  trx_keep : ∀ t g, g ∈ (s.trx t).trx_locks → g ≠ L → g ∈ (s1.trx t).trx_locks
  wait_lock : ∀ t, (s1.trx t).wait_lock = (s.trx t).wait_lock ∨ (s1.trx t).wait_lock = none
  table_locks : ∀ t, (s1.trx t).table_locks = (s.trx t).table_locks
  autoinc_locks : ∀ t x, some x ∈ (s1.trx t).autoinc_locks →
    x ≠ L ∧ (some x ∈ (s.trx t).autoinc_locks
      ∨ (x ∈ (s.tbl (s.lock L).table).locks ∧ (s.lock x).trx = t
          ∧ (s.lock x).mode = LOCK_AUTO_INC ∧ (s.lock x).is_waiting = true))

/-- `lock_table_dequeue` of a lock in the list of its table keeps the
invariant of the table queues, except that the `wait_lock` of the owner of
the lock still points to the removed lock if it did so before. -/
theorem table_inv_dequeue (E : Env) (n0 : Nat) (X : Nat → Prop) (s s1 : lock_sys_t) (L : Nat)
    (hi : table_inv n0 X s) (hL : L ∈ (s.tbl (s.lock L).table).locks)
    (h : lock_table_dequeue E s L = some s1) :
    table_inv n0 (fun t => X t ∨ (t = (s.lock L).trx ∧ (s.trx t).wait_lock = some L)) s1
      ∧ dequeue_track L s s1 := by
  unfold lock_table_dequeue at h
  simp only [] at h
  split at h
  · cases h
  · simp only [Option.map_eq_some'] at h
    obtain ⟨sa, ha, rfl⟩ := h
    obtain ⟨i1, k1, k2, k3, k4, k5, k6, k7, k8, k9⟩ :=
      table_inv_remove_low n0 X s sa L hi hL ha
    have base : dequeue_track L s sa :=
      ⟨fun j => by rw [k4], k4 L, fun j hj => by rw [k4]; exact hj, k1, k2, k3, k8,
        fun t => Or.inl (k5 t), k9, fun t x hx => ⟨(k6 t x hx).2, Or.inl (k6 t x hx).1⟩⟩
    split
    · exact ⟨i1, base⟩
    · set rest := ((s.tbl (s.lock L).table).locks.dropWhile (fun i => i != L)).tail with hrest
      have hr : ∀ w ∈ rest, w ∈ (s.tbl (s.lock L).table).locks ∧ w ≠ L :=
        fun w hw => mem_tail_dropWhile _ L w (hi.nodup_tbl _) hw
      have hl : ∀ w ∈ rest, w ∈ (sa.tbl (sa.lock w).table).locks := by
        intro w hw
        obtain ⟨a, b⟩ := hr w hw
        rw [k4, (hi.tbl_ok _ w a).2.1]
        exact k1 _ w a b
      obtain ⟨i2, f2⟩ := table_inv_foldl_grant E n0 _ rest sa i1 hl
      refine ⟨i2, ?_, ?_, ?_, ?_, ?_, ?_, ?_, ?_, ?_, ?_⟩
      · intro j; rw [f2.core, k4]
      · rw [f2.other L (fun hm => (hr L hm).2 rfl), k4]
      · intro j hj
        exact f2.granted j (by rw [k4]; exact hj)
      · intro tb g hg hne
        rw [f2.locks]; exact k1 tb g hg hne
      · intro tb; rw [f2.locks]; exact k2 tb
      · intro tb; rw [f2.locks]; exact k3 tb
      · intro t g hg hne
        rw [f2.trx_locks]; exact k8 t g hg hne
      · intro t
        rcases f2.wait_lock t with a | a
        · rw [a]; exact Or.inl (k5 t)
        · exact Or.inr a
      · intro t
        have e1 : ∀ (l : List Nat) (s0 : lock_sys_t),
            ((l.foldl (lock_table_grant_step E) s0).trx t).table_locks = (s0.trx t).table_locks :=
          fun l s0 => foldl_table_grant_table_locks E l s0 t
        rw [e1, k9]
      · intro t x hx
        rcases f2.autoinc_locks t x hx with a | ⟨a1, a2, a3, a4⟩
        · exact ⟨(k6 t x a).2, Or.inl (k6 t x a).1⟩
        · rw [k4] at a2 a3 a4
          exact ⟨(hr x a1).2, Or.inr ⟨(hr x a1).1, a2, a3, a4⟩⟩

theorem table_same_table_locks_remove (s s1 : lock_sys_t)
    (L : Nat) (hL : ∀ tb, L ∉ (s.tbl tb).locks)
    (h : lock_trx_table_locks_remove s L = some s1) : table_same s s1 := by
  unfold lock_trx_table_locks_remove at h
  simp only [Option.map_eq_some'] at h
  obtain ⟨v, hv, rfl⟩ := h
  refine ⟨rfl, fun _ => rfl, fun _ => rfl, fun _ => rfl, fun _ => rfl, fun _ => rfl,
    fun _ => rfl, ?_, ?_, ?_, ?_⟩
  · intro u; simp only [lock_sys_t.trx_set_trx]; split <;> simp_all
  · intro u; simp only [lock_sys_t.trx_set_trx]; split <;> simp_all
  · intro u; simp only [lock_sys_t.trx_set_trx]; split <;> simp_all
  · intro u g hg hm
    simp only [lock_sys_t.trx_set_trx]
    split
    · rename_i e
      simp only []
      obtain ⟨tb, hgt⟩ := hg
      have hne : g ≠ L := fun e1 => hL tb (e1 ▸ hgt)
      obtain ⟨r, hr, hk⟩ := vector_null_first_spec L _ (vector_null_first_some_mem L _ v hv)
      rw [hv] at hr
      cases hr
      exact hk g hne (e ▸ hm)
    · exact hm

/-- The reset of the wait of a lock that is in no table list gives the
invariant of the table queues back for the owner of the lock. -/
theorem table_inv_reset (n0 : Nat) (X : Nat → Prop) (s : lock_sys_t) (w : Nat)
    (hi : table_inv n0 (fun t => X t ∨ t = (s.lock w).trx) s)
    (hw : ∀ tb, w ∉ (s.tbl tb).locks) :
    table_inv n0 X (lock_reset_lock_and_trx_wait s w) := by
  have e2 := lock_reset_lock s w
  have e3 : ∀ tb, (lock_reset_lock_and_trx_wait s w).tbl tb = s.tbl tb :=
    fun tb => lock_reset_tbl s w tb
  have e4 := lock_reset_trx s w
  have e1 := lock_reset_n_locks s w
  have hmode : ∀ j, ((lock_reset_lock_and_trx_wait s w).lock j).mode = (s.lock j).mode := by
    intro j; rw [e2]; split
    · rename_i e; rw [e]; rfl
    · rfl
  have hsame : ∀ j, j ≠ w → (lock_reset_lock_and_trx_wait s w).lock j = s.lock j := by
    intro j hj; rw [e2, if_neg hj]
  have htl : ∀ t, ((lock_reset_lock_and_trx_wait s w).trx t).trx_locks = (s.trx t).trx_locks := by
    intro t; rw [e4]; split <;> rfl
  have hal : ∀ t, ((lock_reset_lock_and_trx_wait s w).trx t).autoinc_locks
      = (s.trx t).autoinc_locks := by
    intro t; rw [e4]; split <;> rfl
  have htb : ∀ t, ((lock_reset_lock_and_trx_wait s w).trx t).table_locks
      = (s.trx t).table_locks := by
    intro t; rw [e4]; split <;> rfl
  have hnl : ∀ tb g, g ∈ (s.tbl tb).locks → g ≠ w := fun tb g hg e => hw tb (e ▸ hg)
  have hnt : ∀ t g, g ∈ (s.trx t).trx_locks → g ≠ w :=
    fun t g hg => hnl _ g (hi.trx_ok t g hg).2
  refine ⟨?_, ?_, ?_, ?_, ?_, ?_, ?_, ?_, ?_, ?_, ?_, ?_, ?_⟩
  · exact table_counters_of_modes s _ hi.counters hmode (fun tb => by rw [e3])
      (fun tb => by rw [e3]) (fun tb => by rw [e3])
  · rw [e1]; exact hi.base
  · intro tb tb1
    rw [e3, e3]
    exact hi.pre tb tb1
  · intro tb; rw [e3]; exact hi.nodup_tbl tb
  · intro tb g hg
    rw [e3] at hg ⊢
    rw [hsame g (hnl tb g hg), e1]
    exact hi.tbl_ok tb g hg
  · intro tb g hg
    rw [e3] at hg
    rw [hsame g (hnl tb g hg), htl, htb]
    exact hi.listed tb g hg
  · intro t; rw [htl]; exact hi.nodup_trx t
  · intro t g hg
    rw [htl] at hg
    rw [hsame g (hnt t g hg), e3]
    exact hi.trx_ok t g hg
  · intro t w1 hX hw1
    rw [e4] at hw1
    split at hw1
    · cases hw1
    · rename_i hne
      obtain ⟨a, b⟩ := hi.wait t w1 (fun hx => hx.elim hX hne) hw1
      rw [htl, hsame w1 (hnt t w1 a)]
      exact ⟨a, b⟩
  · intro t g hg
    rw [hal] at hg
    obtain ⟨v1, v2, v3, v4⟩ := hi.vec_ok t g hg
    rw [htl, hsame g (hnt t g v1), e3]
    exact ⟨v1, v2, v3, v4⟩
  · intro t; rw [hal]; exact hi.vec_nodup t
  · intro tb A hA B hB
    rw [e3] at hA hB
    rw [hsame A (hnl tb A hA), hsame B (hnl tb B hB)]
    exact hi.auto_own tb A hA B hB
  · intro tb A hA B hB
    rw [e3] at hA hB ⊢
    rw [hsame A (hnl tb A hA), hsame B (hnl tb B hB)]
    exact hi.auto_excl tb A hA B hB

/-- The invariant of the table queues is kept when a lock object `N` that
is in no list is initialised as a table lock of `trx` on `table` and
appended to the list of the table, to the lock list and to the
`table_locks` vector of `trx`, the counters are incremented for its mode,
and either it waits or is granted without a vector entry, or it is a
granted `AUTO_INC` lock that becomes the `autoinc_trx` lock of the table. -/
theorem table_inv_append (n0 : Nat) (X : Nat → Prop) (s s1 : lock_sys_t) (N table trx : Nat)
    (Lnew : lock_t) (hi : table_inv n0 X s)
    (hN : ∀ tb, N ∉ (s.tbl tb).locks)
    (hNn : N < s1.n_locks) (hn : s.n_locks ≤ s1.n_locks)
    (hpre : n0 ≤ N ∨ (N = (s.tbl table).autoinc_lock ∧ Lnew.mode = LOCK_AUTO_INC))
    (hL1 : Lnew.is_table = true) (hL2 : Lnew.trx = trx) (hL3 : Lnew.table = table)
    (c1 : ∀ j, s1.lock j = if j = N then Lnew else s.lock j)
    (c2 : ∀ tb, (s1.tbl tb).locks
      = if tb = table then (s.tbl tb).locks ++ [N] else (s.tbl tb).locks)
    (c3 : ∀ tb, (s1.tbl tb).n_lock_x_or_s
      = if tb = table ∧ (Lnew.mode = LOCK_S ∨ Lnew.mode = LOCK_X)
        then (s.tbl tb).n_lock_x_or_s + 1 else (s.tbl tb).n_lock_x_or_s)
    (c3a : ∀ tb, (s1.tbl tb).n_waiting_or_granted_auto_inc_locks
      = if tb = table ∧ Lnew.mode = LOCK_AUTO_INC
        then (s.tbl tb).n_waiting_or_granted_auto_inc_locks + 1
        else (s.tbl tb).n_waiting_or_granted_auto_inc_locks)
    (c6 : ∀ tb, (s1.tbl tb).autoinc_lock = (s.tbl tb).autoinc_lock)
    (c4 : ∀ t, (s1.trx t).trx_locks
      = if t = trx then (s.trx t).trx_locks ++ [N] else (s.trx t).trx_locks)
    (c4a : ∀ t, (s1.trx t).table_locks
      = if t = trx then (s.trx t).table_locks ++ [some N] else (s.trx t).table_locks)
    (c5 : ∀ t, (s1.trx t).wait_lock
      = if t = trx ∧ Lnew.is_waiting = true then some N else (s.trx t).wait_lock)
    (c7 : ((∀ tb, (s1.tbl tb).autoinc_trx = (s.tbl tb).autoinc_trx)
        ∧ ∀ t, (s1.trx t).autoinc_locks = (s.trx t).autoinc_locks)
      ∨ (Lnew.mode = LOCK_AUTO_INC ∧ Lnew.is_waiting = false
        ∧ (∀ tb, (s1.tbl tb).autoinc_trx
            = if tb = table then some trx else (s.tbl tb).autoinc_trx)
        ∧ ∀ t, (s1.trx t).autoinc_locks
            = if t = trx then (s.trx t).autoinc_locks ++ [some N]
              else (s.trx t).autoinc_locks))
    (hown : Lnew.mode = LOCK_AUTO_INC → ∀ g ∈ (s.tbl table).locks,
      (s.lock g).mode = LOCK_AUTO_INC → (s.lock g).trx ≠ trx)
    (hexcl : Lnew.mode = LOCK_AUTO_INC → Lnew.is_waiting = false →
      ∀ g ∈ (s.tbl table).locks, (s.lock g).mode = LOCK_AUTO_INC → (s.lock g).trx = trx) :
    table_inv n0 X s1 := by
  have hold : ∀ tb g, g ∈ (s.tbl tb).locks → s1.lock g = s.lock g := by
    intro tb g hg
    have hne : g ≠ N := by
      intro e; rw [e] at hg; exact hN tb hg
    rw [c1, if_neg hne]
  have hnew : s1.lock N = Lnew := by rw [c1, if_pos rfl]
  have hNt : ∀ t, N ∉ (s.trx t).trx_locks := fun t hm => hN _ (hi.trx_ok t N hm).2
  have holdt : ∀ t g, g ∈ (s.trx t).trx_locks → s1.lock g = s.lock g :=
    fun t g hg => hold _ g (hi.trx_ok t g hg).2
  have hNv : ∀ t, some N ∉ (s.trx t).autoinc_locks := fun t hm => hNt t (hi.vec_ok t N hm).1
  have hmem : ∀ tb g, g ∈ (s1.tbl tb).locks →
      g ∈ (s.tbl tb).locks ∨ (g = N ∧ tb = table) := by
    intro tb g hg
    rw [c2] at hg
    split at hg
    · rename_i e
      rcases List.mem_append.mp hg with h | h
      · exact Or.inl h
      · exact Or.inr ⟨List.mem_singleton.mp h, e⟩
    · exact Or.inl hg
  have hkeep : ∀ tb g, g ∈ (s.tbl tb).locks → g ∈ (s1.tbl tb).locks := by
    intro tb g hg
    rw [c2]; split
    · exact List.mem_append_left _ hg
    · exact hg
  have hNin : N ∈ (s1.tbl table).locks := by
    rw [c2, if_pos rfl]; exact List.mem_append_right _ (List.mem_singleton.mpr rfl)
  have hsubl : ∀ tb, (s.tbl tb).locks.Sublist (s1.tbl tb).locks := by
    intro tb; rw [c2]; split
    · exact List.sublist_append_left _ _
    · exact List.Sublist.refl _
  have htmem : ∀ t g, g ∈ (s1.trx t).trx_locks →
      g ∈ (s.trx t).trx_locks ∨ (g = N ∧ t = trx) := by
    intro t g hg
    rw [c4] at hg
    split at hg
    · rename_i e
      rcases List.mem_append.mp hg with h | h
      · exact Or.inl h
      · exact Or.inr ⟨List.mem_singleton.mp h, e⟩
    · exact Or.inl hg
  have htkeep : ∀ t g, g ∈ (s.trx t).trx_locks → g ∈ (s1.trx t).trx_locks := by
    intro t g hg
    rw [c4]; split
    · exact List.mem_append_left _ hg
    · exact hg
  have hNtin : N ∈ (s1.trx trx).trx_locks := by
    rw [c4, if_pos rfl]; exact List.mem_append_right _ (List.mem_singleton.mpr rfl)
  refine ⟨?_, ?_, ?_, ?_, ?_, ?_, ?_, ?_, ?_, ?_, ?_, ?_, ?_⟩
  · exact table_counters_append s s1 N table Lnew hi.counters hN c1 c2 c3 c3a
  · exact le_trans hi.base hn
  · intro tb tb1
    rw [c6, c6]
    exact hi.pre tb tb1
  · intro tb
    rw [c2]; split
    · rename_i e
      refine List.Nodup.append (hi.nodup_tbl tb) (List.nodup_singleton _) ?_
      intro x hx hx1
      rw [List.mem_singleton] at hx1
      exact hN tb (hx1 ▸ hx)
    · exact hi.nodup_tbl tb
  · intro tb g hg
    rcases hmem tb g hg with h | ⟨h1, h2⟩
    · rw [hold tb g h, c6]
      obtain ⟨a, b, c, d⟩ := hi.tbl_ok tb g h
      exact ⟨a, b, lt_of_lt_of_le c hn, d⟩
    · subst h1; subst h2
      rw [hnew, c6]
      exact ⟨hL1, hL3, hNn, hpre⟩
  · intro tb g hg
    rcases hmem tb g hg with h | ⟨h1, h2⟩
    · rw [hold tb g h]
      obtain ⟨a, b⟩ := hi.listed tb g h
      refine ⟨htkeep _ g a, ?_⟩
      rw [c4a]; split
      · exact List.mem_append_left _ b
      · exact b
    · subst h1; subst h2
      rw [hnew, hL2]
      refine ⟨hNtin, ?_⟩
      rw [c4a, if_pos rfl]
      exact List.mem_append_right _ (List.mem_singleton.mpr rfl)
  · intro t
    rw [c4]; split
    · refine List.Nodup.append (hi.nodup_trx t) (List.nodup_singleton _) ?_
      intro x hx hx1
      rw [List.mem_singleton] at hx1
      exact hNt t (hx1 ▸ hx)
    · exact hi.nodup_trx t
  · intro t g hg
    rcases htmem t g hg with h | ⟨h1, h2⟩
    · rw [holdt t g h]
      obtain ⟨a, b⟩ := hi.trx_ok t g h
      exact ⟨a, hkeep _ g b⟩
    · subst h1; subst h2
      rw [hnew, hL3]
      exact ⟨hL2, hNin⟩
  · intro t w hX hw
    rw [c5] at hw
    split at hw
    · rename_i e
      cases hw
      rw [hnew, e.1]
      exact ⟨hNtin, e.2⟩
    · obtain ⟨a, b⟩ := hi.wait t w hX hw
      rw [holdt t w a]
      exact ⟨htkeep t w a, b⟩
  · intro t g hg
    rcases c7 with ⟨d1, d2⟩ | ⟨m1, m2, d1, d2⟩
    · rw [d2] at hg
      obtain ⟨v1, v2, v3, v4⟩ := hi.vec_ok t g hg
      rw [holdt t g v1, d1]
      exact ⟨htkeep t g v1, v2, v3, v4⟩
    · rw [d2] at hg
      have hold_entry : some g ∈ (s.trx t).autoinc_locks →
          g ∈ (s1.trx t).trx_locks ∧ (s1.lock g).mode = LOCK_AUTO_INC
            ∧ (s1.lock g).is_waiting = false
            ∧ (s1.tbl (s1.lock g).table).autoinc_trx = some t := by
        intro h
        obtain ⟨v1, v2, v3, v4⟩ := hi.vec_ok t g h
        obtain ⟨w1, w2⟩ := hi.trx_ok t g v1
        rw [holdt t g v1, d1]
        refine ⟨htkeep t g v1, v2, v3, ?_⟩
        split
        · rename_i e
          exfalso
          rw [e] at w2
          have h1 := hexcl m1 m2 g w2 v2
          exact hown m1 g w2 v2 h1
        · exact v4
      split at hg
      · rename_i e
        rcases List.mem_append.mp hg with h | h
        · exact hold_entry h
        · simp only [List.mem_singleton, Option.some.injEq] at h
          subst h
          rw [hnew, hL3, d1, if_pos rfl, e]
          exact ⟨hNtin, m1, m2, rfl⟩
      · exact hold_entry hg
  · intro t
    rcases c7 with ⟨d1, d2⟩ | ⟨m1, m2, d1, d2⟩
    · rw [d2]; exact hi.vec_nodup t
    · rw [d2]; split
      · rw [List.reduceOption_append]
        have : [some N].reduceOption = [N] := rfl
        rw [this]
        refine List.Nodup.append (hi.vec_nodup t) (List.nodup_singleton _) ?_
        intro x hx hx1
        rw [List.mem_singleton] at hx1
        subst hx1
        exact hNv t (List.reduceOption_mem_iff.mp hx)
      · exact hi.vec_nodup t
  · intro tb A hA B hB mA mB ht
    rcases hmem tb A hA with a | ⟨a1, a2⟩ <;> rcases hmem tb B hB with b | ⟨b1, b2⟩
    · rw [hold tb A a] at mA ht
      rw [hold tb B b] at mB ht
      exact hi.auto_own tb A a B b mA mB ht
    · subst b1; subst b2
      rw [hold tb A a] at mA ht
      rw [hnew] at mB ht
      rw [hL2] at ht
      exact absurd ht (hown mB A a mA)
    · subst a1; subst a2
      rw [hold tb B b] at mB ht
      rw [hnew] at mA ht
      rw [hL2] at ht
      exact absurd ht.symm (hown mA B b mB)
    · rw [a1, b1]
  · intro tb A hA B hB mA mB ht hwB
    rcases hmem tb A hA with a | ⟨a1, a2⟩ <;> rcases hmem tb B hB with b | ⟨b1, b2⟩
    · rw [hold tb A a] at mA ht ⊢
      rw [hold tb B b] at mB ht hwB
      obtain ⟨r1, r2⟩ := hi.auto_excl tb A a B b mA mB ht hwB
      exact ⟨r1, r2.trans (hsubl tb)⟩
    · subst b1; subst b2
      rw [hold tb A a] at mA ht
      rw [hnew] at mB ht hwB
      rw [hL2] at ht
      exact absurd (hexcl mB hwB A a mA) ht
    · subst a1; subst a2
      rw [hold tb B b] at mB ht hwB
      rw [hnew] at mA ht ⊢
      rw [hL2] at ht
      refine ⟨?_, ?_⟩
      · cases hw : Lnew.is_waiting
        · exact absurd (hexcl mA hw B b mB) (fun e => ht e.symm)
        · rfl
      · rw [c2, if_pos rfl]
        have : List.Sublist ([B] ++ [A]) ((s.tbl tb).locks ++ [A]) :=
          List.Sublist.append (List.singleton_sublist.mpr b) (List.Sublist.refl _)
        exact this
    · rw [a1, b1] at ht; exact absurd rfl ht

/-- The effect of `lock_table_create` with a freshly allocated lock object
on the tables and on the `table_locks` vectors. -/
theorem lock_table_create_fresh_tbl (s : lock_sys_t) (table : Nat) (tm : type_mode_t)
    (trx : Nat) (hne : tm ≠ { mode := LOCK_AUTO_INC }) :
    (∀ tb, ((lock_table_create s table tm trx).2.tbl tb).locks
        = if tb = table then (s.tbl tb).locks ++ [s.n_locks] else (s.tbl tb).locks)
    ∧ (∀ tb, ((lock_table_create s table tm trx).2.tbl tb).n_lock_x_or_s
        = if tb = table ∧ (tm.mode = LOCK_S ∨ tm.mode = LOCK_X)
          then (s.tbl tb).n_lock_x_or_s + 1 else (s.tbl tb).n_lock_x_or_s)
    ∧ (∀ tb, ((lock_table_create s table tm trx).2.tbl tb).n_waiting_or_granted_auto_inc_locks
        = if tb = table ∧ tm.mode = LOCK_AUTO_INC
          then (s.tbl tb).n_waiting_or_granted_auto_inc_locks + 1
          else (s.tbl tb).n_waiting_or_granted_auto_inc_locks)
    ∧ (∀ tb, ((lock_table_create s table tm trx).2.tbl tb).autoinc_lock
        = (s.tbl tb).autoinc_lock)
    ∧ (∀ tb, ((lock_table_create s table tm trx).2.tbl tb).autoinc_trx
        = (s.tbl tb).autoinc_trx)
    ∧ (∀ t, ((lock_table_create s table tm trx).2.trx t).table_locks
        = if t = trx then (s.trx t).table_locks ++ [some s.n_locks]
          else (s.trx t).table_locks) := by
  unfold lock_table_create
  cases hw : tm.wait <;> cases hm : tm.mode <;>
    simp only [hne, if_false, lock_sys_t.alloc_lock, if_true, Bool.false_eq_true]
  all_goals
    refine ⟨?_, ?_, ?_, ?_, ?_, ?_⟩
    all_goals
      intro t
      first
      | (by_cases e : t = table <;> (simp [e]; done))
      | (by_cases e : t = trx <;> (simp [e]; done))

/-- The effect of `lock_table_create` with the preallocated `AUTO_INC` lock
object on the tables and on the `table_locks` vectors. -/
theorem lock_table_create_autoinc_tbl (s : lock_sys_t) (table : Nat) (trx : Nat) :
    (∀ tb, ((lock_table_create s table { mode := LOCK_AUTO_INC } trx).2.tbl tb).locks
        = if tb = table then (s.tbl tb).locks ++ [(s.tbl table).autoinc_lock]
          else (s.tbl tb).locks)
    ∧ (∀ tb, ((lock_table_create s table { mode := LOCK_AUTO_INC } trx).2.tbl tb).n_lock_x_or_s
        = (s.tbl tb).n_lock_x_or_s)
    ∧ (∀ tb, ((lock_table_create s table { mode := LOCK_AUTO_INC }
          trx).2.tbl tb).n_waiting_or_granted_auto_inc_locks
        = if tb = table then (s.tbl tb).n_waiting_or_granted_auto_inc_locks + 1
          else (s.tbl tb).n_waiting_or_granted_auto_inc_locks)
    ∧ (∀ tb, ((lock_table_create s table { mode := LOCK_AUTO_INC } trx).2.tbl tb).autoinc_lock
        = (s.tbl tb).autoinc_lock)
    ∧ (∀ tb, ((lock_table_create s table { mode := LOCK_AUTO_INC } trx).2.tbl tb).autoinc_trx
        = if tb = table then some trx else (s.tbl tb).autoinc_trx)
    ∧ (∀ t, ((lock_table_create s table { mode := LOCK_AUTO_INC } trx).2.trx t).table_locks
        = if t = trx then (s.trx t).table_locks ++ [some (s.tbl table).autoinc_lock]
          else (s.trx t).table_locks) := by
  unfold lock_table_create
  simp only [if_true]
  refine ⟨?_, ?_, ?_, ?_, ?_, ?_⟩
  all_goals
    intro t
    first
    | (by_cases e : t = table <;> (simp [e]; done))
    | (by_cases e : t = trx <;> (simp [e]; done))

theorem table_inv_create_fresh (n0 : Nat) (X : Nat → Prop) (s : lock_sys_t) (table : Nat)
    (tm : type_mode_t) (trx : Nat) (hi : table_inv n0 X s)
    (hne : tm ≠ { mode := LOCK_AUTO_INC })
    (hown : tm.mode = LOCK_AUTO_INC → ∀ g ∈ (s.tbl table).locks,
      (s.lock g).mode = LOCK_AUTO_INC → (s.lock g).trx ≠ trx)
    (hexcl : tm.mode = LOCK_AUTO_INC → tm.wait = false →
      ∀ g ∈ (s.tbl table).locks, (s.lock g).mode = LOCK_AUTO_INC → (s.lock g).trx = trx) :
    table_inv n0 X (lock_table_create s table tm trx).2 := by
  obtain ⟨a1, a2, a3, a4, a5, a6⟩ := lock_table_create_fresh s table tm trx hne
  obtain ⟨b1, b2, b3, b4, b5, b6⟩ := lock_table_create_fresh_tbl s table tm trx hne
  refine table_inv_append n0 X s _ s.n_locks table trx
    { (default : lock_t) with
      type_mode := { tm with table := true }, trx := trx, table := table } hi ?_ ?_ ?_ (Or.inl hi.base) rfl rfl rfl a3 b1 b2 b3 b4 a5 b6 ?_
    (Or.inl ⟨b5, a6⟩) hown hexcl
  · intro tb hm
    exact lt_irrefl _ (hi.tbl_ok tb _ hm).2.2.1
  · rw [a2]; exact Nat.lt_succ_self _
  · rw [a2]; exact Nat.le_succ _
  · intro t
    rw [a4]
    rfl

theorem table_inv_create_autoinc (n0 : Nat) (X : Nat → Prop) (s : lock_sys_t) (table : Nat)
    (trx : Nat) (hi : table_inv n0 X s) (hpre : (s.tbl table).autoinc_lock < n0)
    (hnone : ∀ g ∈ (s.tbl table).locks, (s.lock g).mode ≠ LOCK_AUTO_INC) :
    table_inv n0 X (lock_table_create s table { mode := LOCK_AUTO_INC } trx).2 := by
  obtain ⟨a1, a2, a3, a4, a5, a6⟩ := lock_table_create_autoinc s table trx
  obtain ⟨b1, b2, b3, b4, b5, b6⟩ := lock_table_create_autoinc_tbl s table trx
  refine table_inv_append n0 X s _ (s.tbl table).autoinc_lock table trx
    { s.lock (s.tbl table).autoinc_lock with
      type_mode := { mode := LOCK_AUTO_INC, table := true }, trx := trx, table := table }
    hi ?_ ?_ ?_ (Or.inr ⟨rfl, rfl⟩) rfl rfl rfl a3 b1 ?_ ?_ b4 a5 b6 ?_
    (Or.inr ⟨rfl, rfl, b5, a6⟩) ?_ ?_
  · intro tb hm
    obtain ⟨_, _, _, h4⟩ := hi.tbl_ok tb _ hm
    rcases h4 with h4 | ⟨h4, h5⟩
    · exact absurd hpre (not_lt.mpr h4)
    · have := hi.pre table tb hpre h4.symm
      subst this
      exact hnone _ hm h5
  · rw [a2]; exact lt_of_lt_of_le hpre hi.base
  · rw [a2]
  · intro tb
    rw [b2]
    rw [if_neg]
    rintro ⟨_, h | h⟩ <;> cases h
  · intro tb
    rw [b3]
    by_cases e : tb = table
    · rw [if_pos e, if_pos ⟨e, rfl⟩]
    · rw [if_neg e, if_neg (fun h => e h.1)]
  · intro t
    rw [a4, if_neg]
    rintro ⟨_, h⟩
    cases h
  · intro _ g hg hm
    exact absurd hm (hnone g hg)
  · intro _ _ g hg hm
    exact absurd hm (hnone g hg)

/-- `lock_table_dequeue` of a lock in the list of its table that is not the
`wait_lock` of its owner keeps the invariant of the table queues. -/
theorem table_inv_dequeue_plain (E : Env) (n0 : Nat) (X : Nat → Prop) (s s1 : lock_sys_t)
    (L : Nat) (hi : table_inv n0 X s) (hL : L ∈ (s.tbl (s.lock L).table).locks)
    (hnw : ¬ X (s.lock L).trx → (s.trx (s.lock L).trx).wait_lock ≠ some L)
    (h : lock_table_dequeue E s L = some s1) :
    table_inv n0 X s1 ∧ dequeue_track L s s1 := by
  obtain ⟨i1, f1⟩ := table_inv_dequeue E n0 X s s1 L hi hL h
  refine ⟨table_inv_mono ?_ i1, f1⟩
  rintro t (h1 | ⟨h1, h2⟩)
  · exact h1
  · by_contra hx
    rw [h1] at hx h2
    exact hnw hx h2

theorem vec_entry_not_wait_lock (n0 : Nat) (X : Nat → Prop) (s : lock_sys_t) (T g : Nat)
    (hi : table_inv n0 X s) (hg : some g ∈ (s.trx T).autoinc_locks) :
    (s.lock g).trx = T ∧ g ∈ (s.tbl (s.lock g).table).locks
      ∧ (¬ X (s.lock g).trx → (s.trx (s.lock g).trx).wait_lock ≠ some g) := by
  obtain ⟨v1, v2, v3, v4⟩ := hi.vec_ok T g hg
  obtain ⟨w1, w2⟩ := hi.trx_ok T g v1
  refine ⟨w1, w2, ?_⟩
  intro hX hw
  have := (hi.wait _ g hX hw).2
  rw [v3] at this; cases this

/-- What `lock_release_autoinc_locks` of the transaction `T` changes: lock
objects lose at most their `WAIT` flag; the lists shrink, and a lock that
is not in the `autoinc_locks` vector of `T` stays in its list; a
`wait_lock` is kept or reset; the vector of `T` gets no new entry. -/
structure autoinc_track (T : Nat) (s s1 : lock_sys_t) : Prop where
  core : ∀ j, (s1.lock j).clear_wait = (s.lock j).clear_wait
  granted : ∀ j, (s.lock j).is_waiting = false → (s1.lock j).is_waiting = false
  keep : ∀ tb g, g ∈ (s.tbl tb).locks → some g ∉ (s.trx T).autoinc_locks →
    g ∈ (s1.tbl tb).locks
  sub : ∀ tb, (s1.tbl tb).locks.Sublist (s.tbl tb).locks
  wait_lock : ∀ t, (s1.trx t).wait_lock = (s.trx t).wait_lock ∨ (s1.trx t).wait_lock = none
  vec : ∀ x, some x ∈ (s1.trx T).autoinc_locks → some x ∈ (s.trx T).autoinc_locks

theorem autoinc_track_refl (T : Nat) (s : lock_sys_t) : autoinc_track T s s :=
  ⟨fun _ => rfl, fun _ h => h, fun _ _ h _ => h, fun _ => List.Sublist.refl _,
    fun _ => Or.inl rfl, fun _ h => h⟩

theorem autoinc_track_trans {T : Nat} {s s1 s2 : lock_sys_t} (h1 : autoinc_track T s s1)
    (h2 : autoinc_track T s1 s2) : autoinc_track T s s2 := by
  refine ⟨fun j => (h2.core j).trans (h1.core j), fun j h => h2.granted j (h1.granted j h),
    ?_, fun tb => (h2.sub tb).trans (h1.sub tb), ?_, fun x hx => h1.vec x (h2.vec x hx)⟩
  · intro tb g hg hn
    exact h2.keep tb g (h1.keep tb g hg hn) (fun hm => hn (h1.vec g hm))
  · intro t
    rcases h2.wait_lock t with a | a
    · rw [a]; exact h1.wait_lock t
    · exact Or.inr a

theorem table_inv_release_autoinc_last_lock (E : Env) (n0 : Nat) (X : Nat → Prop)
    (s s1 : lock_sys_t) (T : Nat) (hi : table_inv n0 X s)
    (h : lock_release_autoinc_last_lock E s T = some s1) :
    table_inv n0 X s1 ∧ autoinc_track T s s1 := by
  unfold lock_release_autoinc_last_lock at h
  split at h
  · cases h
  · cases h
  · rename_i g hlast
    simp only [Option.bind_eq_some] at h
    obtain ⟨sa, ha, hb⟩ := h
    have hg : some g ∈ (s.trx T).autoinc_locks := List.mem_of_mem_getLast? hlast
    obtain ⟨w1, w2, w3⟩ := vec_entry_not_wait_lock n0 X s T g hi hg
    obtain ⟨v1, v2, v3, v4⟩ := hi.vec_ok T g hg
    obtain ⟨i1, f1⟩ := table_inv_dequeue_plain E n0 X s sa g hi w2 w3 ha
    have ts := table_same_table_locks_remove sa s1 g f1.gone hb
    refine ⟨table_inv_of_same ts i1, ?_, ?_, ?_, ?_, ?_, ?_⟩
    · intro j; rw [ts.lock]; exact f1.core j
    · intro j hj; rw [ts.lock]; exact f1.granted j hj
    · intro tb x hx hn
      rw [ts.locks]
      exact f1.keep tb x hx (fun e => hn (e ▸ hg))
    · intro tb; rw [ts.locks]; exact f1.sub tb
    · intro t; rw [ts.wait_lock]; exact f1.wait_lock t
    · intro x hx
      rw [ts.autoinc_locks] at hx
      obtain ⟨a, b | ⟨b1, b2, b3, b4⟩⟩ := f1.autoinc_locks T x hx
      · exact b
      · exfalso
        have := hi.auto_own _ x b1 g w2 b3 v2 (by rw [b2, w1])
        exact a this

theorem table_inv_release_autoinc_locks (E : Env) (n0 : Nat) (X : Nat → Prop) (fuel : Nat)
    (s s1 : lock_sys_t) (T : Nat) (hi : table_inv n0 X s)
    (h : lock_release_autoinc_locks E fuel s T = some s1) :
    table_inv n0 X s1 ∧ autoinc_track T s s1 := by
  induction fuel generalizing s with
  | zero =>
    unfold lock_release_autoinc_locks at h
    split at h
    · cases h; exact ⟨hi, autoinc_track_refl T _⟩
    · cases h
  | succ n ih =>
    unfold lock_release_autoinc_locks at h
    split at h
    · cases h; exact ⟨hi, autoinc_track_refl T _⟩
    · simp only [Option.bind_eq_some] at h
      obtain ⟨sa, ha, hb⟩ := h
      obtain ⟨i1, f1⟩ := table_inv_release_autoinc_last_lock E n0 X s sa T hi ha
      obtain ⟨i2, f2⟩ := ih sa i1 hb
      exact ⟨i2, autoinc_track_trans f1 f2⟩

/-- What the cancellation of a waiting lock of the transaction `V` changes
in the table queues: lock objects lose at most their `WAIT` flag; the
lists shrink, and the locks of other transactions stay in them. -/
structure cancel_track (V : Nat) (s s1 : lock_sys_t) : Prop where
  core : ∀ j, (s1.lock j).clear_wait = (s.lock j).clear_wait
  keep : ∀ tb g, g ∈ (s.tbl tb).locks → (s.lock g).trx ≠ V → g ∈ (s1.tbl tb).locks
  sub : ∀ tb, (s1.tbl tb).locks.Sublist (s.tbl tb).locks

theorem cancel_track_of_same {V : Nat} {s s1 : lock_sys_t} (h : table_same s s1) :
    cancel_track V s s1 :=
  ⟨fun j => by rw [h.lock], fun tb g hg _ => by rw [h.locks]; exact hg,
    fun tb => by rw [h.locks]⟩

theorem cancel_track_trans {V : Nat} {s s1 s2 : lock_sys_t} (h1 : cancel_track V s s1)
    (h2 : cancel_track V s1 s2) : cancel_track V s s2 := by
  refine ⟨fun j => (h2.core j).trans (h1.core j), ?_, fun tb => (h2.sub tb).trans (h1.sub tb)⟩
  intro tb g hg hn
  refine h2.keep tb g (h1.keep tb g hg hn) ?_
  rw [(core_fields (h1.core g)).2.1]
  exact hn

theorem table_same_reset_core (s : lock_sys_t) (w : Nat) :
    (∀ j, ((lock_reset_lock_and_trx_wait s w).lock j).clear_wait = (s.lock j).clear_wait)
    ∧ ∀ tb, ((lock_reset_lock_and_trx_wait s w).tbl tb).locks = (s.tbl tb).locks := by
  constructor
  · intro j
    rw [lock_reset_lock]
    split
    · rename_i e; rw [e]; rfl
    · rfl
  · intro tb; rw [lock_reset_tbl]

/-- `lock_cancel_waiting_and_release` for the `wait_lock` of a transaction
keeps the invariant of the table queues. -/
theorem table_inv_cancel (E : Env) (n0 : Nat) (X : Nat → Prop) (fuel : Nat)
    (s s1 : lock_sys_t) (w : Nat) (hi : table_inv n0 X s) (hX : ¬ X (s.lock w).trx)
    (hw : (s.trx (s.lock w).trx).wait_lock = some w)
    (h : lock_cancel_waiting_and_release E fuel s w = some s1) :
    table_inv n0 X s1 ∧ cancel_track (s.lock w).trx s s1 := by
  unfold lock_cancel_waiting_and_release at h
  simp only [Option.map_eq_some'] at h
  obtain ⟨s2, h2, rfl⟩ := h
  set T := (s.lock w).trx with hT
  set sa := s.set_trx T { s.trx T with cancel := true } with hsa
  have tsa : table_same s sa := table_same_set_trx s T _ rfl rfl rfl rfl
  have ia : table_inv n0 X sa := table_inv_of_same tsa hi
  obtain ⟨wl, ww⟩ := hi.wait T w hX hw
  obtain ⟨wt, wq⟩ := hi.trx_ok T w wl
  have wtab : (s.lock w).is_table = true := (hi.tbl_ok _ w wq).1
  have hnt : (!(sa.lock w).is_table) = false := by
    rw [tsa.lock, wtab]; rfl
  rw [hnt] at h2
  simp only [Bool.false_eq_true, if_false, Option.bind_eq_some] at h2
  obtain ⟨sc, ⟨sb, hb, hc⟩, hd⟩ := h2
  -- the autoinc locks of the transaction are released
  obtain ⟨ib, fb⟩ := table_inv_release_autoinc_locks E n0 X fuel sa sb T ia hb
  have hwnv : some w ∉ (sa.trx T).autoinc_locks := by
    intro hm
    rw [tsa.autoinc_locks] at hm
    have := (hi.vec_ok T w hm).2.2.1
    rw [ww] at this; cases this
  have cb := core_fields (fb.core w)
  have hwb : w ∈ (sb.tbl (sb.lock w).table).locks := by
    rw [cb.2.2.1, tsa.lock]
    exact fb.keep _ w (by rw [tsa.locks]; exact wq) hwnv
  -- the waiting lock is dequeued
  obtain ⟨ic, fc⟩ := table_inv_dequeue E n0 X sb sc w ib hwb hc
  have tsd := table_same_table_locks_remove sc s2 w fc.gone hd
  have id := table_inv_of_same tsd ic
  have hgone : ∀ tb, w ∉ (s2.tbl tb).locks := by
    intro tb; rw [tsd.locks]; exact fc.gone tb
  have htrx2 : (s2.lock w).trx = T := by
    rw [tsd.lock, fc.self, cb.2.1, tsa.lock]
  have ie : table_inv n0 X (lock_reset_lock_and_trx_wait s2 w) := by
    refine table_inv_reset n0 X s2 w (table_inv_mono ?_ id) hgone
    rintro t (h1 | ⟨h1, _⟩)
    · exact Or.inl h1
    · right
      rw [h1, htrx2, cb.2.1, tsa.lock]
  have tsf : table_same (lock_reset_lock_and_trx_wait s2 w)
      (lock_wait_end (lock_reset_lock_and_trx_wait s2 w) T) := table_same_wait_end _ _
  have tsg := table_same_set_trx (lock_wait_end (lock_reset_lock_and_trx_wait s2 w) T) T
    { (lock_wait_end (lock_reset_lock_and_trx_wait s2 w) T).trx T with cancel := false }
    rfl rfl rfl rfl
  refine ⟨table_inv_of_same tsg (table_inv_of_same tsf ie), ?_⟩
  have k1 : cancel_track T s sb := by
    refine ⟨fun j => by rw [fb.core, tsa.lock], ?_, fun tb => by
      have := fb.sub tb
      rw [tsa.locks] at this
      exact this⟩
    intro tb g hg hn
    refine fb.keep tb g (by rw [tsa.locks]; exact hg) ?_
    intro hm
    rw [tsa.autoinc_locks] at hm
    exact hn (hi.trx_ok T g (hi.vec_ok T g hm).1).1
  have k2 : cancel_track T sb sc := by
    refine ⟨fc.core, ?_, fc.sub⟩
    intro tb g hg hn
    refine fc.keep tb g hg ?_
    intro e
    rw [e, cb.2.1, tsa.lock] at hn
    exact hn rfl
  have k3 : cancel_track T sc s2 := cancel_track_of_same tsd
  have k4 : cancel_track T s2 (lock_reset_lock_and_trx_wait s2 w) := by
    obtain ⟨r1, r2⟩ := table_same_reset_core s2 w
    exact ⟨r1, fun tb g hg _ => by rw [r2]; exact hg, fun tb => by rw [r2]⟩
  exact cancel_track_trans k1 (cancel_track_trans k2 (cancel_track_trans k3
    (cancel_track_trans k4 (cancel_track_trans (cancel_track_of_same tsf)
      (cancel_track_of_same tsg)))))

/-- The locks of the transaction `J` stay in the table lists, and lock
objects lose at most their `WAIT` flag. -/
structure keep_track (J : Nat) (s s1 : lock_sys_t) : Prop where
  core : ∀ j, (s1.lock j).clear_wait = (s.lock j).clear_wait
  keep : ∀ tb g, g ∈ (s.tbl tb).locks → (s.lock g).trx = J → g ∈ (s1.tbl tb).locks

theorem keep_track_refl (J : Nat) (s : lock_sys_t) : keep_track J s s :=
  ⟨fun _ => rfl, fun _ _ h _ => h⟩

theorem keep_track_trans {J : Nat} {s s1 s2 : lock_sys_t} (h1 : keep_track J s s1)
    (h2 : keep_track J s1 s2) : keep_track J s s2 := by
  refine ⟨fun j => (h2.core j).trans (h1.core j), ?_⟩
  intro tb g hg hn
  refine h2.keep tb g (h1.keep tb g hg hn) ?_
  rw [(core_fields (h1.core g)).2.1]
  exact hn

theorem keep_track_of_cancel {J V : Nat} {s s1 : lock_sys_t} (h : cancel_track V s s1)
    (hne : V ≠ J) : keep_track J s s1 :=
  ⟨h.core, fun tb g hg ht => h.keep tb g hg (by rw [ht]; exact fun e => hne e.symm)⟩

theorem keep_track_of_same {J : Nat} {s s1 : lock_sys_t} (h : table_same s s1) :
    keep_track J s s1 :=
  ⟨fun j => by rw [h.lock], fun tb g hg _ => by rw [h.locks]; exact hg⟩

theorem table_inv_trx_rollback (E : Env) (n0 : Nat) (fuel : Nat) (s s1 : lock_sys_t)
    (c : DeadlockChecker) (hi : table_inv n0 (fun _ => False) s)
    (h : DeadlockChecker.trx_rollback E fuel s c = some s1) :
    table_inv n0 (fun _ => False) s1 ∧ cancel_track (s.lock c.m_wait_lock).trx s s1 := by
  unfold DeadlockChecker.trx_rollback at h
  dsimp only at h
  set V := (s.lock c.m_wait_lock).trx with hV
  set sa := s.set_trx V { s.trx V with was_chosen_as_deadlock_victim := true } with hsa
  have tsa : table_same s sa := table_same_set_trx s V _ rfl rfl rfl rfl
  have ia := table_inv_of_same tsa hi
  split at h
  · cases h
  · rename_i w hw
    have hwt : (sa.lock w).trx = V := (ia.trx_ok V w (ia.wait V w (fun x => x) hw).1).1
    obtain ⟨i1, f1⟩ := table_inv_cancel E n0 _ fuel sa s1 w ia (fun x => x)
      (by rw [hwt]; exact hw) h
    rw [hwt] at f1
    exact ⟨i1, cancel_track_trans (cancel_track_of_same tsa) f1⟩

theorem table_inv_check_and_resolve_loop (E : Env) (n0 : Nat) (fuel n : Nat) (s : lock_sys_t)
    (lock trx : Nat) (v : Option Nat) (s1 : lock_sys_t)
    (hi : table_inv n0 (fun _ => False) s)
    (h : DeadlockChecker.check_and_resolve_loop E fuel n s lock trx = some (v, s1)) :
    table_inv n0 (fun _ => False) s1 ∧ keep_track trx s s1 := by
  induction n generalizing s with
  | zero => simp [DeadlockChecker.check_and_resolve_loop] at h
  | succ n ih =>
    unfold DeadlockChecker.check_and_resolve_loop at h
    dsimp only at h
    split at h
    · cases h
    · rename_i vt c1 sA hsearch
      have hm := search_only_marks E fuel s _ vt c1 sA hsearch
      have tsA := table_same_only_marks hm
      have base : table_inv n0 (fun _ => False) sA ∧ keep_track trx s sA :=
        ⟨table_inv_of_same tsA hi, keep_track_of_same tsA⟩
      split at h
      · cases h; exact base
      · split at h
        · cases h; exact base
        · rename_i v0
          split at h
          · rename_i hne
            split at h
            · cases h
            · rename_i sB hroll
              obtain ⟨r1, r2⟩ := table_inv_trx_rollback E n0 fuel sA sB c1 base.1 hroll
              obtain ⟨m1, m2⟩ := search_victim E fuel s _ v0 c1 sA hsearch
              have hV : (sA.lock c1.m_wait_lock).trx ≠ trx := by
                rcases m2 with m2 | m2
                · exact absurd (m2.trans m1) hne
                · rw [← m2]; exact hne
              have tsC : table_same sB { sB with lock_deadlock_found := true } :=
                ⟨rfl, fun _ => rfl, fun _ => rfl, fun _ => rfl, fun _ => rfl, fun _ => rfl,
                  fun _ => rfl, fun _ => rfl, fun _ => rfl, fun _ => rfl, fun _ _ _ h => h⟩
              obtain ⟨q1, q2⟩ := ih { sB with lock_deadlock_found := true }
                (table_inv_of_same tsC r1) h
              exact ⟨q1, keep_track_trans base.2 (keep_track_trans
                (keep_track_of_cancel r2 hV) (keep_track_trans (keep_track_of_same tsC) q2))⟩
          · cases h; exact base

theorem table_inv_check_and_resolve (E : Env) (n0 : Nat) (fuel : Nat) (s : lock_sys_t)
    (lock trx : Nat) (v : Option Nat) (s1 : lock_sys_t)
    (hi : table_inv n0 (fun _ => False) s)
    (h : DeadlockChecker.check_and_resolve E fuel s lock trx = some (v, s1)) :
    table_inv n0 (fun _ => False) s1 ∧ keep_track trx s s1 := by
  unfold DeadlockChecker.check_and_resolve at h
  split at h
  · cases h
    exact ⟨hi, keep_track_refl _ _⟩
  · split at h
    · cases h
    · rename_i vt sA hl
      obtain ⟨a, b⟩ := table_inv_check_and_resolve_loop E n0 fuel fuel s lock trx vt sA hi hl
      split at h
      · cases h
        have tsC : table_same sA { sA with lock_deadlock_found := true } :=
          ⟨rfl, fun _ => rfl, fun _ => rfl, fun _ => rfl, fun _ => rfl, fun _ => rfl,
            fun _ => rfl, fun _ => rfl, fun _ => rfl, fun _ => rfl, fun _ _ _ h => h⟩
        exact ⟨table_inv_of_same tsC a, keep_track_trans b (keep_track_of_same tsC)⟩
      · cases h
        exact ⟨a, b⟩

theorem table_inv_table_enqueue_waiting (E : Env) (n0 : Nat) (fuel : Nat) (s : lock_sys_t)
    (mode : type_mode_t) (table thr : Nat) (err : dberr_t) (s1 : lock_sys_t)
    (hi : table_inv n0 (fun _ => False) s)
    (hown : mode.mode = LOCK_AUTO_INC → ∀ g ∈ (s.tbl table).locks,
      (s.lock g).mode = LOCK_AUTO_INC → (s.lock g).trx ≠ thr)
    (h : lock_table_enqueue_waiting E fuel s mode table thr = some (err, s1)) :
    table_inv n0 (fun _ => False) s1 := by
  have hne : ({ mode with wait := true } : type_mode_t) ≠ { mode := LOCK_AUTO_INC } := by
    intro e
    have := congrArg type_mode_t.wait e
    cases this
  obtain ⟨b1, b2, b3, b4, b5, b6⟩ := lock_table_create_fresh s table { mode with wait := true }
    thr hne
  obtain ⟨d1, _⟩ := lock_table_create_fresh_tbl s table { mode with wait := true } thr hne
  have hc : table_inv n0 (fun _ => False)
      (lock_table_create s table { mode with wait := true } thr).2 :=
    table_inv_create_fresh n0 _ s table { mode with wait := true } thr hi hne hown
      (fun _ hw => by cases hw)
  unfold lock_table_enqueue_waiting at h
  dsimp only at h
  rw [b1] at h
  set N := s.n_locks with hN
  set sc := (lock_table_create s table { mode with wait := true } thr).2 with hsc
  have hNin : N ∈ (sc.tbl table).locks := by
    rw [d1, if_pos rfl]; exact List.mem_append_right _ (List.mem_singleton.mpr rfl)
  have hNl : sc.lock N = { (default : lock_t) with
      type_mode := { ({ mode with wait := true } : type_mode_t) with table := true },
      trx := thr, table := table } := by
    rw [b3, if_pos rfl]
  split at h
  · cases h
  · rename_i x s2 hr
    obtain ⟨i2, f2⟩ := table_inv_check_and_resolve E n0 fuel sc N thr _ s2 hc hr
    simp only [Option.map_eq_some'] at h
    obtain ⟨s3, h3, he⟩ := h
    cases he
    have c2 := core_fields (f2.core N)
    have hN2 : N ∈ (s2.tbl (s2.lock N).table).locks := by
      rw [c2.2.2.1, hNl]
      exact f2.keep table N hNin (by rw [hNl])
    obtain ⟨i3, _, k2, _⟩ := table_inv_remove_low n0 _ s2 s3 N i2 hN2 h3
    have e3 : s3.lock N = s2.lock N := by
      obtain ⟨_, _, _, _, k5, _⟩ := table_inv_remove_low n0 _ s2 s3 N i2 hN2 h3
      exact k5 N
    refine table_inv_reset n0 _ s3 N (table_inv_mono ?_ i3) k2
    rintro t (h1 | ⟨h1, _⟩)
    · exact Or.inl h1
    · right; rw [h1, e3]
  · rename_i s2 hr
    obtain ⟨i2, _⟩ := table_inv_check_and_resolve E n0 fuel sc N thr _ s2 hc hr
    split at h
    · cases h; exact i2
    · cases h
      exact table_inv_of_same (table_same_set_trx s2 thr _ rfl rfl rfl rfl) i2

theorem lock_table_has_auto_inc (n0 : Nat) (X : Nat → Prop) (s : lock_sys_t) (trx table : Nat)
    (hi : table_inv n0 X s) (h : lock_table_has s trx table LOCK_AUTO_INC = false) :
    ∀ g ∈ (s.tbl table).locks, (s.lock g).mode = LOCK_AUTO_INC → (s.lock g).trx ≠ trx := by
  intro g hg hm ht
  unfold lock_table_has at h
  rw [List.any_eq_false] at h
  have h1 := (hi.listed table g hg).2
  rw [ht] at h1
  have := h (some g) h1
  simp only [hm, (hi.tbl_ok table g hg).2.1] at this
  exact this (by decide)

theorem lock_table_no_auto_inc (n0 : Nat) (X : Nat → Prop) (s : lock_sys_t) (trx table : Nat)
    (hi : table_inv n0 X s) (h : lock_table_has s trx table LOCK_AUTO_INC = false)
    (h2 : lock_table_other_has_incompatible s trx true table LOCK_AUTO_INC = none) :
    ∀ g ∈ (s.tbl table).locks, (s.lock g).mode ≠ LOCK_AUTO_INC := by
  intro g hg hm
  have h1 := lock_table_has_auto_inc n0 X s trx table hi h g hg hm
  unfold lock_table_other_has_incompatible at h2
  have hfast : (decide (LOCK_AUTO_INC.toNat ≤ LOCK_IX.toNat)
      && (s.tbl table).n_lock_x_or_s == 0) = false := rfl
  rw [hfast] at h2
  simp only [Bool.false_eq_true, if_false] at h2
  rw [List.find?_eq_none] at h2
  have := h2 g (List.mem_reverse.mpr hg)
  simp [h1, hm, lock_mode_compatible] at this

theorem table_inv_lock_table (E : Env) (n0 : Nat) (fuel : Nat) (s : lock_sys_t)
    (flags table : Nat) (mode : lock_mode) (thr : Nat) (err : dberr_t) (s1 : lock_sys_t)
    (hi : table_inv n0 (fun _ => False) s)
    (ha : mode = LOCK_AUTO_INC → (s.tbl table).autoinc_lock < n0)
    (h : lock_table E fuel s flags table mode thr = some (err, s1)) :
    table_inv n0 (fun _ => False) s1 := by
  unfold lock_table at h
  split at h
  · cases h; exact hi
  · split at h
    · cases h
    · dsimp only at h
      split at h
      · cases h; exact hi
      · rename_i hhas
        have hhas1 : lock_table_has s thr table mode = false := by
          cases hx : lock_table_has s thr table mode
          · rfl
          · exact absurd hx hhas
        have hs0 : ∀ s0 : lock_sys_t,
            s0 = (if ((mode = LOCK_IX || mode = LOCK_X) && !(s.trx thr).read_only
                && !(s.trx thr).rseg_assigned) = true then
              s.set_trx thr { s.trx thr with rseg_assigned := true } else s) →
            table_same s s0 := by
          intro s0 e
          rw [e]
          split
          · exact table_same_set_trx s thr _ rfl rfl rfl rfl
          · exact table_same_refl s
        generalize hg : (if ((mode = LOCK_IX || mode = LOCK_X) && !(s.trx thr).read_only
                && !(s.trx thr).rseg_assigned) = true then
              s.set_trx thr { s.trx thr with rseg_assigned := true } else s) = s0 at h
        have ts0 := hs0 s0 hg.symm
        have i0 := table_inv_of_same ts0 hi
        have hown : mode = LOCK_AUTO_INC → ∀ g ∈ (s0.tbl table).locks,
            (s0.lock g).mode = LOCK_AUTO_INC → (s0.lock g).trx ≠ thr := by
          intro hm g hg1 hmg
          rw [ts0.locks] at hg1
          rw [ts0.lock] at hmg ⊢
          rw [hm] at hhas1
          exact lock_table_has_auto_inc n0 _ s thr table hi hhas1 g hg1 hmg
        split at h
        · exact table_inv_table_enqueue_waiting E n0 fuel s0 { mode := mode } table thr err s1
            i0 hown h
        · rename_i hnone
          cases h
          by_cases hm : mode = LOCK_AUTO_INC
          · subst hm
            refine table_inv_create_autoinc n0 _ s0 table thr i0
              (by rw [ts0.autoinc_lock]; exact ha rfl) ?_
            intro g hg1
            rw [ts0.locks] at hg1
            rw [ts0.lock]
            refine lock_table_no_auto_inc n0 _ s thr table hi hhas1 ?_ g hg1
            have e : lock_table_other_has_incompatible s thr true table LOCK_AUTO_INC
                = lock_table_other_has_incompatible s0 thr true table LOCK_AUTO_INC := by
              unfold lock_table_other_has_incompatible
              simp only [ts0.locks, ts0.lock, ts0.n_x]
            rw [e]; exact hnone
          · have hne : ({ mode := mode } : type_mode_t) ≠ { mode := LOCK_AUTO_INC } := by
              intro e
              exact hm (congrArg type_mode_t.mode e)
            exact table_inv_create_fresh n0 _ s0 table { mode := mode } thr i0 hne
              (fun e => absurd e hm) (fun e => absurd e hm)

theorem table_inv_release_loop (E : Env) (n0 : Nat) (fuel : Nat) (s s1 : lock_sys_t)
    (T : Nat) (hi : table_inv n0 (fun _ => False) s) (hw : (s.trx T).wait_lock = none)
    (h : lock_release_loop E fuel s T = some s1) : table_inv n0 (fun _ => False) s1 := by
  induction fuel generalizing s with
  | zero =>
    unfold lock_release_loop at h
    split at h
    · cases h; exact hi
    · cases h
  | succ n ih =>
    unfold lock_release_loop at h
    split at h
    · cases h; exact hi
    · rename_i lock hlast
      have hl : lock ∈ (s.trx T).trx_locks := List.mem_of_mem_getLast? hlast
      obtain ⟨t1, t2⟩ := hi.trx_ok T lock hl
      have ht : (!(s.lock lock).is_table) = false := by
        rw [(hi.tbl_ok _ lock t2).1]; rfl
      rw [ht] at h
      simp only [Bool.false_eq_true, if_false, Option.bind_eq_some] at h
      obtain ⟨s2, h2, h3⟩ := h
      have hq : ∀ sq : lock_sys_t,
          sq = (if (s.lock lock).mode ≠ LOCK_IS ∧ (s.trx T).undo_no ≠ 0 then
            s.set_tbl (s.lock lock).table
              { s.tbl (s.lock lock).table with query_cache_inv_trx_id := s.max_trx_id }
            else s) → table_same s sq := by
        intro sq e
        rw [e]
        split
        · exact table_same_set_tbl s _ _ rfl rfl rfl rfl rfl
        · exact table_same_refl s
      generalize hg : (if (s.lock lock).mode ≠ LOCK_IS ∧ (s.trx T).undo_no ≠ 0 then
            s.set_tbl (s.lock lock).table
              { s.tbl (s.lock lock).table with query_cache_inv_trx_id := s.max_trx_id }
            else s) = sq at h2
      have tsq := hq sq hg.symm
      have iq := table_inv_of_same tsq hi
      obtain ⟨i2, f2⟩ := table_inv_dequeue_plain E n0 _ sq s2 lock iq
        (by rw [tsq.lock, tsq.locks]; exact t2)
        (by
          intro _
          rw [tsq.lock, tsq.wait_lock, t1, hw]
          exact fun e => by cases e) h2
      refine ih s2 i2 ?_ h3
      rcases f2.wait_lock T with a | a
      · rw [a, tsq.wait_lock]; exact hw
      · exact a

/-- `lock_table_create` keeps the counters in agreement with the lists when
the lock object that it initialises, a freshly allocated one or the
preallocated `AUTO_INC` lock of the table, is in no table list. -/
theorem table_counters_create (s : lock_sys_t) (table : Nat) (tm : type_mode_t) (trx : Nat)
    (hc : table_counters s)
    (hN : ∀ tb, (lock_table_create s table tm trx).1 ∉ (s.tbl tb).locks) :
    table_counters (lock_table_create s table tm trx).2 := by
  by_cases hne : tm = { mode := LOCK_AUTO_INC }
  · subst hne
    obtain ⟨a1, a2, a3, a4, a5, a6⟩ := lock_table_create_autoinc s table trx
    obtain ⟨b1, b2, b3, b4, b5, b6⟩ := lock_table_create_autoinc_tbl s table trx
    rw [a1] at hN
    refine table_counters_append s _ (s.tbl table).autoinc_lock table
      { s.lock (s.tbl table).autoinc_lock with
        type_mode := { mode := LOCK_AUTO_INC, table := true }, trx := trx, table := table }
      hc hN a3 b1 ?_ ?_
    · intro tb
      rw [b2, if_neg]
      rintro ⟨_, h | h⟩ <;> cases h
    · intro tb
      rw [b3]
      by_cases e : tb = table
      · rw [if_pos e, if_pos ⟨e, rfl⟩]
      · rw [if_neg e, if_neg (fun h => e h.1)]
  · obtain ⟨a1, a2, a3, a4, a5, a6⟩ := lock_table_create_fresh s table tm trx hne
    obtain ⟨b1, b2, b3, b4, b5, b6⟩ := lock_table_create_fresh_tbl s table tm trx hne
    rw [a1] at hN
    exact table_counters_append s _ s.n_locks table
      { (default : lock_t) with
        type_mode := { tm with table := true }, trx := trx, table := table }
      hc hN a3 b1 b2 b3

theorem table_counters_remove_low (s s1 : lock_sys_t) (lock : Nat) (hc : table_counters s)
    (hL : lock ∈ (s.tbl (s.lock lock).table).locks)
    (h : lock_table_remove_low s lock = some s1) : table_counters s1 := by
  obtain ⟨e1, e2, e3, e4, e5, _⟩ := lock_table_remove_low_effect s s1 lock h
  exact table_counters_erase s s1 lock hc hL e2 e3 e4 e5

theorem table_inv_empty (n0 : Nat) (s : lock_sys_t) (h : empty_table_queues n0 s) :
    table_inv n0 (fun _ => False) s := by
  obtain ⟨h1, h2, h3, h4⟩ := h
  refine ⟨?_, by rw [h1], h4, ?_, ?_, ?_, ?_, ?_, ?_, ?_, ?_, ?_, ?_⟩
  · intro tb
    unfold table_x_or_s_count table_auto_inc_count
    rw [(h2 tb).1, (h2 tb).2.1, (h2 tb).2.2]
    exact ⟨rfl, rfl⟩
  · intro tb; rw [(h2 tb).1]; exact List.nodup_nil
  · intro tb g hg; rw [(h2 tb).1] at hg; cases hg
  · intro tb g hg; rw [(h2 tb).1] at hg; cases hg
  · intro t; rw [(h3 t).1]; exact List.nodup_nil
  · intro t g hg; rw [(h3 t).1] at hg; cases hg
  · intro t w _ hw; rw [(h3 t).2.1] at hw; cases hw
  · intro t g hg; rw [(h3 t).2.2] at hg; cases hg
  · intro t; rw [(h3 t).2.2]; exact List.nodup_nil
  · intro tb A hA; rw [(h2 tb).1] at hA; cases hA
  · intro tb A hA; rw [(h2 tb).1] at hA; cases hA

theorem table_inv_table_op (E : Env) (n0 : Nat) (s s1 : lock_sys_t)
    (hi : table_inv n0 (fun _ => False) s) (h : table_op E n0 s s1) :
    table_inv n0 (fun _ => False) s1 := by
  cases h with
  | lock_table fuel _ flags table mode thr err _ ha h =>
    exact table_inv_lock_table E n0 fuel s flags table mode thr err s1 hi ha h
  | lock_table_dequeue _ in_lock _ hL hw h =>
    refine (table_inv_dequeue_plain E n0 _ s s1 in_lock hi hL ?_ h).1
    intro _ e
    have := (hi.wait _ in_lock (fun x => x) e).2
    rw [hw] at this; cases this
  | lock_release fuel _ trx _ hw h =>
    exact table_inv_release_loop E n0 fuel s s1 trx hi hw h
  | lock_cancel_waiting_and_release fuel _ lock _ hw h =>
    exact (table_inv_cancel E n0 _ fuel s s1 lock hi (fun x => x) hw h).1

theorem table_inv_reachable (E : Env) (n0 : Nat) (s : lock_sys_t)
    (h : table_reachable E n0 s) : table_inv n0 (fun _ => False) s := by
  induction h with
  | empty s h => exact table_inv_empty n0 s h
  | step s s1 _ hop ih => exact table_inv_table_op E n0 s s1 ih hop

theorem empty_table_queues_autoinc_start : empty_table_queues 2 autoinc_start := by
  refine ⟨rfl, fun _ => ⟨rfl, rfl, rfl⟩, fun _ => ⟨rfl, rfl, rfl⟩, ?_⟩
  intro tb tb1 _ h
  exact h

theorem three_table_requests_reachable :
    table_reachable env_ordering 2 three_table_requests :=
  table_reachable.step _ _
    (table_reachable.step _ _
      (table_reachable.step _ _
        (table_reachable.empty _ empty_table_queues_autoinc_start)
        (table_op.lock_table 10 autoinc_start 0 0 LOCK_AUTO_INC 1
          (table_request autoinc_start 1 LOCK_AUTO_INC).1
          (table_request autoinc_start 1 LOCK_AUTO_INC).2 (fun _ => by decide) rfl))
      (table_op.lock_table 10 _ 0 0 LOCK_AUTO_INC 2
        (table_request (table_request autoinc_start 1 LOCK_AUTO_INC).2 2 LOCK_AUTO_INC).1
        (table_request (table_request autoinc_start 1 LOCK_AUTO_INC).2 2 LOCK_AUTO_INC).2
        (fun _ => by decide) rfl))
    (table_op.lock_table 10 _ 0 0 LOCK_X 3
      (table_request (table_request (table_request autoinc_start 1 LOCK_AUTO_INC).2 2
        LOCK_AUTO_INC).2 3 LOCK_X).1 three_table_requests (fun e => by cases e) rfl)

theorem some_getD_of_isSome {α : Type} (x : Option α) (d : α) (h : x.isSome = true) :
    x = some (x.getD d) := by
  cases x with
  | none => cases h
  | some v => rfl

theorem three_requests_released_reachable :
    table_reachable env_ordering 2 three_requests_released :=
  table_reachable.step _ _ three_table_requests_reachable
    (table_op.lock_release 10 three_table_requests 1 three_requests_released rfl
      (some_getD_of_isSome _ _ rfl))

/-- C38: `lock_table_create` keeps the counters of the tables in agreement
with their lock lists when the lock object that it initialises is in no
table list, and `lock_table_remove_low` keeps them in agreement for a lock
that is in the list of its table; hence in every state that is reachable
from empty table queues through `lock_table`, `lock_table_dequeue`,
`lock_release` and `lock_cancel_waiting_and_release`, with the deadlock
resolution inside `lock_table`, `n_lock_x_or_s` of every table is the
number of `S` and `X` locks in the list of the table and
`n_waiting_or_granted_auto_inc_locks` is the number of its `AUTO_INC`
locks, waiting locks included. -/
theorem table_counters_invariant (E : Env) (n0 : Nat) (s : lock_sys_t) :
    (table_counters s → ∀ table tm trx,
        (∀ tb, (lock_table_create s table tm trx).1 ∉ (s.tbl tb).locks) →
        table_counters (lock_table_create s table tm trx).2)
    ∧ (table_counters s → ∀ lock s1, lock ∈ (s.tbl (s.lock lock).table).locks →
        lock_table_remove_low s lock = some s1 → table_counters s1)
    ∧ (table_reachable E n0 s → table_counters s) :=
  ⟨fun hc table tm trx hN => table_counters_create s table tm trx hc hN,
    fun hc lock s1 hL h => table_counters_remove_low s s1 lock hc hL h,
    fun hr => (table_inv_reachable E n0 s hr).counters⟩

theorem table_counters_invariant_witness :
    (three_table_requests.tbl 0).locks = [0, 2, 3]
    ∧ (three_table_requests.tbl 0).n_lock_x_or_s = 1
    ∧ (three_table_requests.tbl 0).n_waiting_or_granted_auto_inc_locks = 2
    ∧ (three_requests_released.tbl 0).locks = [2, 3]
    ∧ ((three_requests_released.lock 2).type_mode, (three_requests_released.lock 3).type_mode)
        = ({ mode := LOCK_AUTO_INC, table := true },
            { mode := LOCK_X, table := true, wait := true })
    ∧ (three_requests_released.tbl 0).n_lock_x_or_s = 1
    ∧ (three_requests_released.tbl 0).n_waiting_or_granted_auto_inc_locks = 1
    ∧ table_counters three_requests_released
    ∧ (∀ s1, lock_table_remove_low three_requests_released 3 = some s1 → table_counters s1)
    ∧ table_counters (lock_table_create autoinc_start 0 { mode := LOCK_X } 1).2 :=
  ⟨rfl, rfl, rfl, rfl, rfl, rfl, rfl,
    (table_counters_invariant env_ordering 2 three_requests_released).2.2
      three_requests_released_reachable,
    fun s1 h => (table_counters_invariant env_ordering 2 three_requests_released).2.1
      ((table_counters_invariant env_ordering 2 three_requests_released).2.2
        three_requests_released_reachable) 3 s1 (by decide) h,
    (table_counters_invariant env_ordering 2 autoinc_start).1
      ((table_counters_invariant env_ordering 2 autoinc_start).2.2
        (table_reachable.empty _ empty_table_queues_autoinc_start)) 0 { mode := LOCK_X } 1
      (fun _ => List.not_mem_nil _)⟩


end InnoLock
